import Mathlib

/-! # AllJoyn thin client: marshalling and unmarshalling (`src/src/aj_msg.c`)

A shallow embedding of the wire codec of the AllJoyn thin client library.

* Bytes, characters and machine integers are natural numbers; where the C code
  converts to a narrower unsigned type the embedding reduces modulo `2 ^ w`.
* A pointer into one of the two I/O buffers of a bus attachment is the offset
  from `bufStart`; a pointer into caller or static memory is the memory block
  together with an offset (`AJ_Ptr`).
* The transport callbacks `recv` and `send` are not part of the sources; they are
  modelled by a script of events that says what each successive call does.
* The host byte order is the parameter `hostLE` (`HOST_IS_LITTLE_ENDIAN`).
-/

set_option autoImplicit false
set_option maxRecDepth 100000

namespace AJ

/-! ## Status codes and constants -/

/-- Status codes used by `aj_msg.c` (declared in `aj_status.h`). -/
inductive AJ_Status
  | AJ_OK
  | AJ_ERR_NULL
  | AJ_ERR_UNEXPECTED
  | AJ_ERR_INVALID
  | AJ_ERR_TIMEOUT
  | AJ_ERR_MARSHAL
  | AJ_ERR_UNMARSHAL
  | AJ_ERR_END_OF_DATA
  | AJ_ERR_RESOURCES
  | AJ_ERR_NO_MORE
  | AJ_ERR_SECURITY
  | AJ_ERR_READ
  | AJ_ERR_WRITE
  | AJ_ERR_SIGNATURE
  | AJ_ERR_NO_MATCH
  | AJ_ERR_FAILURE
  deriving DecidableEq, Repr

open AJ_Status

abbrev AJ_ARG_INVALID : Nat := 0
/-- The character `(`. -/
abbrev AJ_ARG_STRUCT : Nat := 40
/-- The character `)`. -/
abbrev AJ_STRUCT_CLOSE : Nat := 41
/-- The character `a`. -/
abbrev AJ_ARG_ARRAY : Nat := 97
/-- The character `b`. -/
abbrev AJ_ARG_BOOLEAN : Nat := 98
/-- The character `d`. -/
abbrev AJ_ARG_DOUBLE : Nat := 100
/-- The character `g`. -/
abbrev AJ_ARG_SIGNATURE : Nat := 103
/-- The character `h`. -/
abbrev AJ_ARG_HANDLE : Nat := 104
/-- The character `i`. -/
abbrev AJ_ARG_INT32 : Nat := 105
/-- The character `n`. -/
abbrev AJ_ARG_INT16 : Nat := 110
/-- The character `o`. -/
abbrev AJ_ARG_OBJ_PATH : Nat := 111
/-- The character `q`. -/
abbrev AJ_ARG_UINT16 : Nat := 113
/-- The character `s`. -/
abbrev AJ_ARG_STRING : Nat := 115
/-- The character `t`. -/
abbrev AJ_ARG_UINT64 : Nat := 116
/-- The character `u`. -/
abbrev AJ_ARG_UINT32 : Nat := 117
/-- The character `v`. -/
abbrev AJ_ARG_VARIANT : Nat := 118
/-- The character `x`. -/
abbrev AJ_ARG_INT64 : Nat := 120
/-- The character `y`. -/
abbrev AJ_ARG_BYTE : Nat := 121
/-- The character `{`. -/
abbrev AJ_ARG_DICT_ENTRY : Nat := 123
/-- The character `}`. -/
abbrev AJ_DICT_ENTRY_CLOSE : Nat := 125

/-- The endianness byte `l` of a little-endian message. -/
abbrev AJ_LITTLE_ENDIAN : Nat := 108
/-- The endianness byte `B` of a big-endian message. -/
abbrev AJ_BIG_ENDIAN : Nat := 66

/-- The flag of an argument that is an array of scalars. -/
abbrev AJ_ARRAY_FLAG : Nat := 1

abbrev AJ_IO_BUF_RX : Nat := 1
abbrev AJ_IO_BUF_TX : Nat := 2

/-- The macro `HOST_ENDIANESS`, for the host byte order `hostLE`. -/
def HOST_ENDIANESS (hostLE : Bool) : Nat :=
  if hostLE then AJ_LITTLE_ENDIAN else AJ_BIG_ENDIAN

abbrev AJ_SCALAR : Nat := 0x10
abbrev AJ_CONTAINER : Nat := 0x20
abbrev AJ_STRING : Nat := 0x40
abbrev AJ_VARIANT : Nat := 0x80

/-- The table `TypeFlags`: 28 entries, for `(` and for the characters 96 to 123. -/
def TypeFlags : List Nat :=
  [ 0x08 ||| AJ_CONTAINER,  -- AJ_ARG_STRUCT     '('
    0x04 ||| AJ_CONTAINER,  -- AJ_ARG_ARRAY      'a'
    0x04 ||| AJ_SCALAR,     -- AJ_ARG_BOOLEAN    'b'
    0,
    0x08 ||| AJ_SCALAR,     -- AJ_ARG_DOUBLE     'd'
    0,
    0,
    0x01 ||| AJ_STRING,     -- AJ_ARG_SIGNATURE  'g'
    0x04 ||| AJ_SCALAR,     -- AJ_ARG_HANDLE     'h'
    0x04 ||| AJ_SCALAR,     -- AJ_ARG_INT32      'i'
    0,
    0,
    0,
    0,
    0x02 ||| AJ_SCALAR,     -- AJ_ARG_INT16      'n'
    0x04 ||| AJ_STRING,     -- AJ_ARG_OBJ_PATH   'o'
    0,
    0x02 ||| AJ_SCALAR,     -- AJ_ARG_UINT16     'q'
    0,
    0x04 ||| AJ_STRING,     -- AJ_ARG_STRING     's'
    0x08 ||| AJ_SCALAR,     -- AJ_ARG_UINT64     't'
    0x04 ||| AJ_SCALAR,     -- AJ_ARG_UINT32     'u'
    0x01 ||| AJ_VARIANT,    -- AJ_ARG_VARIANT    'v'
    0,
    0x08 ||| AJ_SCALAR,     -- AJ_ARG_INT64      'x'
    0x01 ||| AJ_SCALAR,     -- AJ_ARG_BYTE       'y'
    0,
    0x08 ||| AJ_CONTAINER ] -- AJ_ARG_DICT_ENTRY '{'

/-- The index that the macro `TYPE_FLAG(t)` uses: `(t == AJ_ARG_STRUCT) ? 0 : t - 96`,
an `int` that is negative for the characters below 96 other than `(`. -/
def TypeFlagsIndex (t : Nat) : Int :=
  if t = AJ_ARG_STRUCT then 0 else (t : Int) - 96

/-- The macro `TYPE_FLAG(t)`, that is `TypeFlags[TypeFlagsIndex t]`. A lookup
outside the table is undefined in C; the embedding gives it the value 0, and the
results below that depend on a lookup name the characters they cover. -/
def TYPE_FLAG (t : Nat) : Nat :=
  if t = AJ_ARG_STRUCT then TypeFlags.getD 0 0
  else if 96 ≤ t then TypeFlags.getD (t - 96) 0
  else 0

/-- The macro `ALIGNMENT(t)`. -/
def ALIGNMENT (t : Nat) : Nat := TYPE_FLAG t &&& 0xF

/-- The macro `SizeOfType(typeId)`. -/
def SizeOfType (typeId : Nat) : Nat := TYPE_FLAG typeId &&& 0xF

/-- The macro `IsScalarType(typeId)` (nonzero means true). -/
def IsScalarType (typeId : Nat) : Nat := TYPE_FLAG typeId &&& AJ_SCALAR

/-- The macro `IsBasicType(typeId)` (nonzero means true). -/
def IsBasicType (typeId : Nat) : Nat := TYPE_FLAG typeId &&& (AJ_STRING ||| AJ_SCALAR)

/-! ## I/O buffers and the transport -/

/-- What one call of a transport callback does: it moves up to `n` bytes, or it
fails with a status. -/
inductive NetEvent
  | xfer (n : Nat)
  | fail (s : AJ_Status)
  deriving DecidableEq, Repr

/-- The transport behind an I/O buffer (the `context` of the buffer). For an RX
buffer `wire` holds the bytes that have not been received yet, for a TX buffer the
bytes that were sent; `script` lists what the coming calls of the callback do. -/
structure NetContext where
  wire : List Nat := []
  script : List NetEvent := []
  deriving DecidableEq, Repr

/-- Modelled from the spec: the structure `AJ_IOBuffer` of `aj_bufio.h`, "a
fixed-size byte region with an insertion cursor (write) and a consumption cursor
(read)". `data` is the memory from `bufStart` on, the cursors are offsets from
`bufStart`. `bufSize` is a 16-bit field. -/
structure AJ_IOBuffer where
  direction : Nat := AJ_IO_BUF_RX
  bufSize : Nat := 0
  data : List Nat := []
  readPtr : Nat := 0
  writePtr : Nat := 0
  context : NetContext := {}
  deriving DecidableEq, Repr

/-- Modelled from the spec: `avail = writeCursor - readCursor`. -/
def AJ_IO_BUF_AVAIL (b : AJ_IOBuffer) : Nat := b.writePtr - b.readPtr

/-- Modelled from the spec: `space = (start+size) - writeCursor`. -/
def AJ_IO_BUF_SPACE (b : AJ_IOBuffer) : Nat := b.bufSize - b.writePtr

/-- Modelled from the spec: `consumed = readCursor - start`. -/
def AJ_IO_BUF_CONSUMED (b : AJ_IOBuffer) : Nat := b.readPtr

/-- Modelled from the spec: `reset()` sets `readCursor = writeCursor = start`. -/
def AJ_IO_BUF_RESET (b : AJ_IOBuffer) : AJ_IOBuffer :=
  { b with readPtr := 0, writePtr := 0 }

/-- The invariant of an I/O buffer: `start ≤ readCursor ≤ writeCursor ≤ start+size`,
and `data` is the `bufSize` bytes of the region. -/
def AJ_IOBuffer.WF (b : AJ_IOBuffer) : Prop :=
  b.readPtr ≤ b.writePtr ∧ b.writePtr ≤ b.bufSize ∧ b.data.length = b.bufSize

/-- The `n` bytes of a memory region from offset `off` on. -/
def readBytes (data : List Nat) (off n : Nat) : List Nat :=
  (data.drop off).take n

/-- Store `bytes` into a memory region from offset `off` on (`memcpy`). A store
that runs past the end of `data` makes the region longer, so that an overflow of
the buffer shows as `data.length` exceeding `bufSize`. -/
def writeBytesAt (data : List Nat) (off : Nat) (bytes : List Nat) : List Nat :=
  data.take off ++ List.replicate (off - data.length) 0 ++ bytes
    ++ data.drop (off + bytes.length)

/-- Modelled from the spec: one call of the callback `recv` of an RX buffer, "read
up to buffer space, advance writeCursor". The event says how many bytes arrive or
with which status the call fails; without an event (the script is exhausted) the
transport is closed and the call fails with `AJ_ERR_READ`. -/
def netRecvEvent (b : AJ_IOBuffer) : Option NetEvent → AJ_Status × AJ_IOBuffer
  | none => (AJ_ERR_READ, b)
  | some (NetEvent.fail s) => (s, b)
  | some (NetEvent.xfer n) =>
    let k := min n (min (AJ_IO_BUF_SPACE b) b.context.wire.length)
    (AJ_OK, { b with
      data := writeBytesAt b.data b.writePtr (b.context.wire.take k)
      writePtr := b.writePtr + k
      context := { b.context with wire := b.context.wire.drop k } })

/-- Modelled from the spec: one call of the callback `send` of a TX buffer, "write
`[readCursor, writeCursor)` to transport, advance `readCursor`"; the buffer is
reset once it is empty, which is what lets the writer continue. The event says how
many bytes the transport takes or with which status the call fails; without an
event the call fails with `AJ_ERR_WRITE`. -/
def netSendEvent (b : AJ_IOBuffer) : Option NetEvent → AJ_Status × AJ_IOBuffer
  | none => (AJ_ERR_WRITE, b)
  | some (NetEvent.fail s) => (s, b)
  | some (NetEvent.xfer n) =>
    let k := min n (AJ_IO_BUF_AVAIL b)
    let b1 : AJ_IOBuffer := { b with
      readPtr := b.readPtr + k
      context := { b.context with wire := b.context.wire ++ readBytes b.data b.readPtr k } }
    (AJ_OK, if AJ_IO_BUF_AVAIL b1 = 0 then AJ_IO_BUF_RESET b1 else b1)

/-- The call `ioBuf->recv(ioBuf, len, timeout)`: the next event of the script. -/
def netRecv (b : AJ_IOBuffer) : AJ_Status × AJ_IOBuffer :=
  let r := netRecvEvent b b.context.script.head?
  (r.1, { r.2 with context := { r.2.context with script := b.context.script.tail } })

/-- The call `ioBuf->send(ioBuf)`: the next event of the script. -/
def netSend (b : AJ_IOBuffer) : AJ_Status × AJ_IOBuffer :=
  let r := netSendEvent b b.context.script.head?
  (r.1, { r.2 with context := { r.2.context with script := b.context.script.tail } })

/-- Modelled from the spec: `rebase()` "moves the `[readCursor, writeCursor)` slice
to the front" (`AJ_IOBufRebase` of `aj_bufio.c`). -/
def AJ_IOBufRebase (b : AJ_IOBuffer) : AJ_IOBuffer :=
  { b with
    data := writeBytesAt b.data 0 (readBytes b.data b.readPtr (AJ_IO_BUF_AVAIL b))
    readPtr := 0
    writePtr := AJ_IO_BUF_AVAIL b }

/-! ## Pointers, arguments, messages -/

/-- A pointer: null, into a block of caller or static memory (the block and an
offset into it), or into the RX or TX buffer of the bus attachment (an offset from
`bufStart`). -/
inductive AJ_Ptr
  | null
  | mem (bytes : List Nat) (off : Nat)
  | rx (off : Nat)
  | tx (off : Nat)
  deriving DecidableEq, Repr

/-- Pointer arithmetic `p + n`. -/
def AJ_Ptr.add : AJ_Ptr → Nat → AJ_Ptr
  | AJ_Ptr.null, _ => AJ_Ptr.null
  | AJ_Ptr.mem bytes off, n => AJ_Ptr.mem bytes (off + n)
  | AJ_Ptr.rx off, n => AJ_Ptr.rx (off + n)
  | AJ_Ptr.tx off, n => AJ_Ptr.tx (off + n)

/-- Pointer arithmetic `p - n`. -/
def AJ_Ptr.sub : AJ_Ptr → Nat → AJ_Ptr
  | AJ_Ptr.null, _ => AJ_Ptr.null
  | AJ_Ptr.mem bytes off, n => AJ_Ptr.mem bytes (off - n)
  | AJ_Ptr.rx off, n => AJ_Ptr.rx (off - n)
  | AJ_Ptr.tx off, n => AJ_Ptr.tx (off - n)

/-- The offset part of a pointer (for pointer differences within one object). -/
def AJ_Ptr.offset : AJ_Ptr → Nat
  | AJ_Ptr.null => 0
  | AJ_Ptr.mem _ off => off
  | AJ_Ptr.rx off => off
  | AJ_Ptr.tx off => off

/-- Modelled from the spec: the structure `AJ_Arg` of `aj_msg.h`: "a typed value",
with `len` (16 bits), "a pointer/view into the IOBuf for the value", "a signature
cursor for containers". The field `container` is kept by the message: the chain
`msg->outer`, `msg->outer->container`, ... is the list `AJ_Message.outer`. -/
structure AJ_Arg where
  typeId : Nat := 0
  flags : Nat := 0
  len : Nat := 0
  val : AJ_Ptr := AJ_Ptr.null
  sigPtr : AJ_Ptr := AJ_Ptr.null
  deriving DecidableEq, Repr

/-- Where `msg->hdr` points: nowhere, to the start of the RX buffer (a received
message), to the start of the TX buffer (a message being marshalled) or to the
static `internalErrorHdr`. -/
inductive AJ_HdrPtr
  | null
  | rx
  | tx
  | internalError
  deriving DecidableEq, Repr

/-- Modelled from the spec: the structure `AJ_Message` of `aj_msg.h`: "header
pointer, parsed header fields, a working signature cursor, a body-bytes countdown,
a pointer to an outer container argument during nested marshalling, a
variant-signature offset, and a link to the owning bus attachment". `bus` says
whether `msg->bus` is set; the bus attachment itself is passed along with the
message. `sigOffset` and `varOffset` are 8-bit fields, `bodyBytes` is taken to be
as wide as the header field `bodyLen` (32 bits). -/
structure AJ_Message where
  msgId : Nat := 0
  hdr : AJ_HdrPtr := AJ_HdrPtr.null
  objPath : AJ_Ptr := AJ_Ptr.null
  replySerial : Nat := 0
  member : AJ_Ptr := AJ_Ptr.null
  error : AJ_Ptr := AJ_Ptr.null
  iface : AJ_Ptr := AJ_Ptr.null
  sender : AJ_Ptr := AJ_Ptr.null
  destination : AJ_Ptr := AJ_Ptr.null
  signature : AJ_Ptr := AJ_Ptr.null
  sessionId : Nat := 0
  timestamp : Nat := 0
  ttl : Nat := 0
  sigOffset : Nat := 0
  varOffset : Nat := 0
  bodyBytes : Nat := 0
  bus : Bool := false
  outer : List AJ_Arg := []
  deriving DecidableEq, Repr

/-- Modelled from the spec: the bus attachment, "owning one RX and one TX IOBuf"
(`bus->sock.rx`, `bus->sock.tx`) and the serial number counter `bus->serial`. -/
structure AJ_BusAttachment where
  rx : AJ_IOBuffer := {}
  tx : AJ_IOBuffer := { direction := AJ_IO_BUF_TX }
  serial : Nat := 0
  deriving DecidableEq, Repr

/-- The all-zero message that `memset(msg, 0, sizeof(AJ_Message))` leaves. -/
def AJ_Message.zero : AJ_Message := {}

/-- The all-zero argument that `memset(arg, 0, sizeof(AJ_Arg))` leaves. -/
def AJ_Arg.zero : AJ_Arg := {}

/-- The byte `p[i]`. A C string in a memory block ends at the end of the block:
the byte read there is the terminating NUL. -/
def derefByte (bus : AJ_BusAttachment) (p : AJ_Ptr) (i : Nat) : Nat :=
  match p with
  | AJ_Ptr.null => 0
  | AJ_Ptr.mem bytes off => bytes.getD (off + i) 0
  | AJ_Ptr.rx off => bus.rx.data.getD (off + i) 0
  | AJ_Ptr.tx off => bus.tx.data.getD (off + i) 0

/-- The memory from `p` on, to the end of the object that `p` points into. -/
def derefFrom (bus : AJ_BusAttachment) (p : AJ_Ptr) : List Nat :=
  match p with
  | AJ_Ptr.null => []
  | AJ_Ptr.mem bytes off => bytes.drop off
  | AJ_Ptr.rx off => bus.rx.data.drop off
  | AJ_Ptr.tx off => bus.tx.data.drop off

/-- The C function `strlen` on the bytes of a memory region. -/
def strlen : List Nat → Nat
  | [] => 0
  | c :: rest => if c = 0 then 0 else strlen rest + 1

/-- The byte `msg->hdr->endianess`. The header of a received message is the first
16 bytes of the RX buffer, that of a message being marshalled the first 16 bytes
of the TX buffer; `internalErrorHdr` carries `HOST_ENDIANESS`. -/
def hdrEndianess (hostLE : Bool) (bus : AJ_BusAttachment) (msg : AJ_Message) : Nat :=
  match msg.hdr with
  | AJ_HdrPtr.null => 0
  | AJ_HdrPtr.rx => bus.rx.data.getD 0 0
  | AJ_HdrPtr.tx => bus.tx.data.getD 0 0
  | AJ_HdrPtr.internalError => HOST_ENDIANESS hostLE

/-! ## Scalars in memory -/

/-- The `uint16_t` stored at offset `off`, in host byte order. -/
def readU16 (hostLE : Bool) (data : List Nat) (off : Nat) : Nat :=
  if hostLE then data.getD off 0 + 256 * data.getD (off + 1) 0
  else 256 * data.getD off 0 + data.getD (off + 1) 0

/-- The `uint32_t` stored at offset `off`, in host byte order. -/
def readU32 (hostLE : Bool) (data : List Nat) (off : Nat) : Nat :=
  if hostLE then
    data.getD off 0 + 256 * data.getD (off + 1) 0 + 65536 * data.getD (off + 2) 0
      + 16777216 * data.getD (off + 3) 0
  else
    16777216 * data.getD off 0 + 65536 * data.getD (off + 1) 0 + 256 * data.getD (off + 2) 0
      + data.getD (off + 3) 0

/-- The two bytes of a `uint16_t` in host byte order. -/
def u16Bytes (hostLE : Bool) (v : Nat) : List Nat :=
  if hostLE then [v % 256, v / 256 % 256] else [v / 256 % 256, v % 256]

/-- The four bytes of a `uint32_t` in host byte order. -/
def u32Bytes (hostLE : Bool) (v : Nat) : List Nat :=
  if hostLE then [v % 256, v / 256 % 256, v / 65536 % 256, v / 16777216 % 256]
  else [v / 16777216 % 256, v / 65536 % 256, v / 256 % 256, v % 256]

/-- The macro `ENDSWAP16`, stored back into a `uint16_t`. -/
def ENDSWAP16 (v : Nat) : Nat := ((v >>> 8) ||| (v <<< 8)) % 65536

/-- The macro `ENDSWAP32`, on a `uint32_t`. -/
def ENDSWAP32 (v : Nat) : Nat :=
  ((v >>> 24) ||| ((v &&& 0xFF0000) >>> 8) ||| ((v &&& 0x00FF00) <<< 8) ||| (v <<< 24))
    % 4294967296

/-- The loop of case 2 of `EndianSwap`: `num` elements from offset `off` on. -/
def swapLoop16 (hostLE : Bool) : Nat → List Nat → Nat → List Nat
  | 0, data, _ => data
  | num + 1, data, off =>
    let v := readU16 hostLE data off
    swapLoop16 hostLE num (writeBytesAt data off (u16Bytes hostLE (ENDSWAP16 v))) (off + 2)

/-- The loop of case 4 of `EndianSwap`. -/
def swapLoop32 (hostLE : Bool) : Nat → List Nat → Nat → List Nat
  | 0, data, _ => data
  | num + 1, data, off =>
    let v := readU32 hostLE data off
    swapLoop32 hostLE num (writeBytesAt data off (u32Bytes hostLE (ENDSWAP32 v))) (off + 4)

/-- The loop of case 8 of `EndianSwap`: the two 32-bit halves are exchanged and
each is swapped. -/
def swapLoop64 (hostLE : Bool) : Nat → List Nat → Nat → List Nat
  | 0, data, _ => data
  | num + 1, data, off =>
    let v := readU32 hostLE data off
    let u := readU32 hostLE data (off + 4)
    let data1 := writeBytesAt data off (u32Bytes hostLE (ENDSWAP32 u))
    let data2 := writeBytesAt data1 (off + 4) (u32Bytes hostLE (ENDSWAP32 v))
    swapLoop64 hostLE num data2 (off + 8)

/-- The function `EndianSwap(msg, typeId, data, num)` for `data` pointing at offset
`off` of the RX buffer, which is where every caller points it. -/
def EndianSwap (hostLE : Bool) (bus : AJ_BusAttachment) (msg : AJ_Message) (typeId : Nat)
    (off : Nat) (num : Nat) : AJ_BusAttachment :=
  if hdrEndianess hostLE bus msg ≠ HOST_ENDIANESS hostLE then
    if SizeOfType typeId = 2 then
      { bus with rx := { bus.rx with data := swapLoop16 hostLE num bus.rx.data off } }
    else if SizeOfType typeId = 4 then
      { bus with rx := { bus.rx with data := swapLoop32 hostLE num bus.rx.data off } }
    else if SizeOfType typeId = 8 then
      { bus with rx := { bus.rx with data := swapLoop64 hostLE num bus.rx.data off } }
    else bus
  else bus

/-- The function `PadForType(typeId, ioBuf)`, in `uint32_t` arithmetic. -/
def PadForType (typeId : Nat) (ioBuf : AJ_IOBuffer) : Nat :=
  let base := if ioBuf.direction = AJ_IO_BUF_RX then ioBuf.readPtr else ioBuf.writePtr
  let offset := base % 4294967296
  let alignment := ALIGNMENT typeId
  ((alignment + 4294967296 - offset) % 4294967296)
    &&& ((alignment + 4294967296 - 1) % 4294967296)

/-- The loop `while (AJ_IO_BUF_AVAIL(ioBuf) < numBytes)` of `LoadBytes`: every turn
calls `recv` once, which takes one event of the script, so the loop ends with the
script at the latest; a timeout becomes `AJ_ERR_READ`. The script is passed apart
from the buffer and the rest of it is returned. -/
def LoadBytesLoop : List NetEvent → AJ_IOBuffer → Nat → AJ_Status × AJ_IOBuffer × List NetEvent
  | [], ioBuf, numBytes =>
    if AJ_IO_BUF_AVAIL ioBuf < numBytes then
      let r := netRecvEvent ioBuf none
      (if r.1 = AJ_ERR_TIMEOUT then AJ_ERR_READ else r.1, r.2, [])
    else (AJ_OK, ioBuf, [])
  | e :: rest, ioBuf, numBytes =>
    if AJ_IO_BUF_AVAIL ioBuf < numBytes then
      let r := netRecvEvent ioBuf (some e)
      if r.1 ≠ AJ_OK then (if r.1 = AJ_ERR_TIMEOUT then AJ_ERR_READ else r.1, r.2, rest)
      else LoadBytesLoop rest r.2 numBytes
    else (AJ_OK, ioBuf, e :: rest)

/-- The function `LoadBytes(ioBuf, numBytes, pad)`; the parameters are a `uint16_t`
and a `uint8_t`. -/
def LoadBytes (ioBuf : AJ_IOBuffer) (numBytes : Nat) (pad : Nat) : AJ_Status × AJ_IOBuffer :=
  let pad := pad % 256
  let numBytes := (numBytes % 65536 + pad) % 65536
  if numBytes > ioBuf.bufSize - AJ_IO_BUF_CONSUMED ioBuf then (AJ_ERR_RESOURCES, ioBuf)
  else
    let r := LoadBytesLoop ioBuf.context.script ioBuf numBytes
    (r.1, { r.2.1 with
      readPtr := r.2.1.readPtr + pad
      context := { r.2.1.context with script := r.2.2 } })

/-! ## Signatures -/

/-- The loop of `CompleteTypeSigLen` over the characters of the string; `opened` is
the variable `open`, `n` is `sig - start`. The result is what the function
returns: 0 from the `return 0` in the loop, the count as a `uint8_t` otherwise. -/
def CompleteTypeSigLenLoop : List Nat → Nat → Nat → Nat
  | [], _, n => n % 256
  | typeId :: rest, opened, n =>
    if typeId = 0 then n % 256
    else if typeId = AJ_STRUCT_CLOSE ∨ typeId = AJ_DICT_ENTRY_CLOSE then
      if opened = 0 then 0
      else if opened - 1 = 0 then (n + 1) % 256
      else CompleteTypeSigLenLoop rest (opened - 1) (n + 1)
    else if typeId = AJ_ARG_STRUCT ∨ typeId = AJ_ARG_DICT_ENTRY then
      CompleteTypeSigLenLoop rest (opened + 1) (n + 1)
    else if opened = 0 ∧ typeId ≠ AJ_ARG_ARRAY then (n + 1) % 256
    else CompleteTypeSigLenLoop rest opened (n + 1)

/-- The function `CompleteTypeSigLen(sig)` for a non-null `sig`, given as the
memory from `sig` on. -/
def CompleteTypeSigLen (sig : List Nat) : Nat := CompleteTypeSigLenLoop sig 0 0

/-- The call `CompleteTypeSigLen(sig)` on a pointer, null included. -/
def CompleteTypeSigLenPtr (bus : AJ_BusAttachment) (sig : AJ_Ptr) : Nat :=
  if sig = AJ_Ptr.null then 0 else CompleteTypeSigLen (derefFrom bus sig)

/-- A pointer difference `a - b` converted to `uint16_t`. -/
def diff16 (a b : Nat) : Nat := (a + 65536 - b % 65536) % 65536

/-! ## Unmarshalling -/

/-- The function `UnmarshalStruct(msg, sig, arg, pad)`. The result holds the status,
the bus attachment, `*sig` and `*arg`. -/
def UnmarshalStruct (bus : AJ_BusAttachment) (sig : AJ_Ptr) (arg : AJ_Arg) (pad : Nat) :
    AJ_Status × AJ_BusAttachment × AJ_Ptr × AJ_Arg :=
  let r := LoadBytes bus.rx 0 pad
  let bus1 := { bus with rx := r.2 }
  let arg1 := { arg with val := AJ_Ptr.rx r.2.readPtr, sigPtr := sig }
  let sig1 := sig.sub 1
  let sig2 := sig1.add (CompleteTypeSigLenPtr bus1 sig1)
  (r.1, bus1, sig2, arg1)

/-- The function `UnmarshalArray(msg, sig, arg, pad)`. The result holds the status,
the bus attachment, `*sig` and `*arg`. -/
def UnmarshalArray (hostLE : Bool) (bus : AJ_BusAttachment) (msg : AJ_Message) (sig : AJ_Ptr)
    (arg : AJ_Arg) (pad : Nat) : AJ_Status × AJ_BusAttachment × AJ_Ptr × AJ_Arg :=
  let typeId := derefByte bus sig 0
  let r := LoadBytes bus.rx 4 pad
  if r.1 ≠ AJ_OK then (r.1, { bus with rx := r.2 }, sig, arg)
  else
    let bus1 := EndianSwap hostLE { bus with rx := r.2 } msg AJ_ARG_UINT32 r.2.readPtr 1
    let numBytes := readU32 hostLE bus1.rx.data bus1.rx.readPtr
    let bus2 := { bus1 with rx := { bus1.rx with readPtr := bus1.rx.readPtr + 4 } }
    let pad1 := PadForType typeId bus2.rx % 256
    let r1 := LoadBytes bus2.rx numBytes pad1
    if r1.1 ≠ AJ_OK then (r1.1, { bus2 with rx := r1.2 }, sig, arg)
    else
      let bus3 := { bus2 with rx := r1.2 }
      let arg1 := { arg with
        val := AJ_Ptr.rx bus3.rx.readPtr, sigPtr := sig, len := numBytes % 65536 }
      if IsScalarType typeId ≠ 0 then
        let bus4 := EndianSwap hostLE bus3 msg typeId bus3.rx.readPtr arg1.len
        let bus5 := { bus4 with rx := { bus4.rx with readPtr := bus4.rx.readPtr + numBytes } }
        (AJ_OK, bus5, sig.add (CompleteTypeSigLenPtr bus5 sig),
          { arg1 with typeId := typeId, flags := AJ_ARRAY_FLAG })
      else
        (AJ_OK, bus3, sig.add (CompleteTypeSigLenPtr bus3 sig),
          { arg1 with typeId := AJ_ARG_ARRAY })

/-- The function `Unmarshal(msg, sig, arg)`. The result holds the status, the bus
attachment, the message, `*sig` and `*arg`. -/
def Unmarshal (hostLE : Bool) (bus : AJ_BusAttachment) (msg : AJ_Message) (sig : AJ_Ptr) :
    AJ_Status × AJ_BusAttachment × AJ_Message × AJ_Ptr × AJ_Arg :=
  let arg := AJ_Arg.zero
  if sig = AJ_Ptr.null ∨ derefByte bus sig 0 = 0 then (AJ_ERR_END_OF_DATA, bus, msg, sig, arg)
  else
    let typeId := derefByte bus sig 0
    let sig1 := sig.add 1
    let pad := PadForType typeId bus.rx
    if IsScalarType typeId ≠ 0 then
      let sz := SizeOfType typeId
      let r := LoadBytes bus.rx sz pad
      if r.1 ≠ AJ_OK then (r.1, { bus with rx := r.2 }, msg, sig1, arg)
      else
        let arg1 := { arg with typeId := typeId, val := AJ_Ptr.rx r.2.readPtr, len := 0 }
        let bus1 := { bus with rx := { r.2 with readPtr := r.2.readPtr + sz } }
        (AJ_OK, EndianSwap hostLE bus1 msg typeId r.2.readPtr 1, msg, sig1, arg1)
    else if TYPE_FLAG typeId &&& (AJ_STRING ||| AJ_VARIANT) ≠ 0 then
      let lenSize := ALIGNMENT typeId
      let r := LoadBytes bus.rx lenSize pad
      if r.1 ≠ AJ_OK then (r.1, { bus with rx := r.2 }, msg, sig1, arg)
      else
        let bus1 := if lenSize = 4 then
            EndianSwap hostLE { bus with rx := r.2 } msg AJ_ARG_UINT32 r.2.readPtr 1
          else { bus with rx := r.2 }
        let sz := if lenSize = 4 then readU32 hostLE bus1.rx.data bus1.rx.readPtr
          else bus1.rx.data.getD bus1.rx.readPtr 0
        let bus2 := { bus1 with rx := { bus1.rx with readPtr := bus1.rx.readPtr + lenSize } }
        let r1 := LoadBytes bus2.rx ((sz + 1) % 4294967296) 0
        if r1.1 ≠ AJ_OK then (r1.1, { bus2 with rx := r1.2 }, msg, sig1, arg)
        else
          let arg1 := { arg with
            typeId := typeId, len := sz % 65536, val := AJ_Ptr.rx r1.2.readPtr }
          let bus3 := { bus2 with
            rx := { r1.2 with readPtr := r1.2.readPtr + (sz + 1) % 4294967296 } }
          let msg1 := if typeId = AJ_ARG_VARIANT then
              { msg with varOffset := (sz + 1) % 256 }
            else msg
          (AJ_OK, bus3, msg1, sig1, arg1)
    else if typeId = AJ_ARG_ARRAY then
      let r := UnmarshalArray hostLE bus msg sig1 arg pad
      (r.1, r.2.1, msg, r.2.2.1, r.2.2.2)
    else if typeId = AJ_ARG_STRUCT ∨ typeId = AJ_ARG_DICT_ENTRY then
      let r := UnmarshalStruct bus sig1 { arg with typeId := typeId } pad
      (r.1, r.2.1, msg, r.2.2.1, r.2.2.2)
    else (AJ_ERR_UNMARSHAL, bus, msg, sig1, arg)

/-- The function `AJ_UnmarshalArg(msg, arg)`. The result holds the status, the bus
attachment, the message and `*arg`. When the enclosing container is a struct or a
dictionary entry the signature cursor of that container (the head of `msg.outer`)
is advanced. -/
def AJ_UnmarshalArg (hostLE : Bool) (bus : AJ_BusAttachment) (msg : AJ_Message) :
    AJ_Status × AJ_BusAttachment × AJ_Message × AJ_Arg :=
  let argStart := bus.rx.readPtr
  let r : AJ_Status × AJ_BusAttachment × AJ_Message × AJ_Arg :=
    if msg.varOffset ≠ 0 then
      let sig := AJ_Ptr.rx (bus.rx.readPtr - msg.varOffset)
      let u := Unmarshal hostLE bus { msg with varOffset := 0 } sig
      (u.1, u.2.1, u.2.2.1, u.2.2.2.2)
    else
      match msg.outer with
      | container :: rest =>
        if container.typeId = AJ_ARG_ARRAY then
          let len := diff16 bus.rx.readPtr container.val.offset
          if len = container.len then (AJ_ERR_NO_MORE, bus, msg, AJ_Arg.zero)
          else
            let u := Unmarshal hostLE bus msg container.sigPtr
            (u.1, u.2.1, u.2.2.1, u.2.2.2.2)
        else
          let u := Unmarshal hostLE bus msg container.sigPtr
          (u.1, u.2.1, { u.2.2.1 with outer := { container with sigPtr := u.2.2.2.1 } :: rest },
            u.2.2.2.2)
      | [] =>
        let sig := msg.signature.add msg.sigOffset
        let u := Unmarshal hostLE bus msg sig
        (u.1, u.2.1,
          { u.2.2.1 with sigOffset := (u.2.2.2.1.offset - msg.signature.offset) % 256 },
          u.2.2.2.2)
  let consumed := r.2.1.rx.readPtr - argStart
  if consumed > r.2.2.1.bodyBytes then (AJ_ERR_READ, r.2.1, r.2.2.1, r.2.2.2)
  else (r.1, r.2.1, { r.2.2.1 with bodyBytes := r.2.2.1.bodyBytes - consumed % 65536 }, r.2.2.2)

/-- What `AJ_UnmarshalArgs` stores through one of its output pointers: nothing, the
bytes of a scalar, or a pointer to a string. -/
inductive AJ_OutVal
  | unwritten
  | scalar (bytes : List Nat)
  | str (p : AJ_Ptr)
  deriving DecidableEq, Repr

/-- The function `AJ_UnmarshalArgs(msg, sig, ...)`, by recursion on the characters
of `sig`. The result holds the status, the bus attachment, the message and what
was stored through the output pointers, in the order of the pointers; the list
ends with the last pointer that was written. -/
def AJ_UnmarshalArgs (hostLE : Bool) :
    List Nat → AJ_BusAttachment → AJ_Message →
      AJ_Status × AJ_BusAttachment × AJ_Message × List AJ_OutVal
  | [], bus, msg => (AJ_OK, bus, msg, [])
  | c :: sig, bus, msg =>
    if c = 0 then (AJ_OK, bus, msg, [])
    else
      let typeId := c % 256
      if IsBasicType typeId = 0 then (AJ_ERR_UNEXPECTED, bus, msg, [])
      else
        let r := AJ_UnmarshalArg hostLE bus msg
        if r.1 ≠ AJ_OK then (r.1, r.2.1, r.2.2.1, [])
        else if r.2.2.2.typeId ≠ typeId then (AJ_ERR_UNMARSHAL, r.2.1, r.2.2.1, [])
        else
          let out : AJ_OutVal :=
            if IsScalarType typeId ≠ 0 then
              if SizeOfType typeId = 1 ∨ SizeOfType typeId = 2 ∨ SizeOfType typeId = 4
                  ∨ SizeOfType typeId = 8 then
                AJ_OutVal.scalar
                  (readBytes r.2.1.rx.data r.2.2.2.val.offset (SizeOfType typeId))
              else AJ_OutVal.unwritten
            else AJ_OutVal.str r.2.2.2.val
          let t := AJ_UnmarshalArgs hostLE sig r.2.1 r.2.2.1
          (t.1, t.2.1, t.2.2.1, out :: t.2.2.2)

/-- The function `AJ_UnmarshalContainer(msg, arg, typeId)`; `arg` is the content of
the caller's argument before the call. On success the argument is pushed on the
chain of open containers. -/
def AJ_UnmarshalContainer (hostLE : Bool) (bus : AJ_BusAttachment) (msg : AJ_Message)
    (arg : AJ_Arg) (typeId : Nat) : AJ_Status × AJ_BusAttachment × AJ_Message × AJ_Arg :=
  if TYPE_FLAG typeId &&& AJ_CONTAINER ≠ 0 then
    let r := AJ_UnmarshalArg hostLE bus msg
    if r.1 = AJ_OK then
      if r.2.2.2.typeId = typeId then
        (AJ_OK, r.2.1, { r.2.2.1 with outer := r.2.2.2 :: r.2.2.1.outer }, r.2.2.2)
      else (AJ_ERR_UNMARSHAL, r.2.1, r.2.2.1, r.2.2.2)
    else r
  else (AJ_ERR_UNMARSHAL, bus, msg, arg)

/-- The function `AJ_UnmarshalCloseContainer(msg, arg)`. The assertions of the
function make `arg` the head of the chain `msg->outer` and a container; the result
is `none` when an assertion fails. -/
def AJ_UnmarshalCloseContainer (bus : AJ_BusAttachment) (msg : AJ_Message) :
    Option (AJ_Status × AJ_Message) :=
  match msg.outer with
  | [] => none
  | arg :: rest =>
    if TYPE_FLAG arg.typeId &&& AJ_CONTAINER = 0 then none
    else
      let msg1 := { msg with outer := rest }
      if arg.typeId = AJ_ARG_ARRAY then
        let len := diff16 bus.rx.readPtr arg.val.offset
        if len ≠ arg.len then some (AJ_ERR_UNMARSHAL, msg1) else some (AJ_OK, msg1)
      else if arg.typeId = AJ_ARG_STRUCT ∧ derefByte bus arg.sigPtr 0 ≠ AJ_STRUCT_CLOSE then
        some (AJ_ERR_SIGNATURE, msg1)
      else if arg.typeId = AJ_ARG_DICT_ENTRY
          ∧ derefByte bus arg.sigPtr 0 ≠ AJ_DICT_ENTRY_CLOSE then
        some (AJ_ERR_SIGNATURE, msg1)
      else some (AJ_OK, msg1)

/-- The loop `while (msg->bodyBytes)` of `AJ_CloseMsg`. Every turn that does not
leave the loop takes `sz` bytes off `bodyBytes`; the first argument bounds the
number of turns, and the result is `none` when the loop does not end (a turn with
`sz = 0`, which a buffer of size 0 gives). -/
def AJ_CloseMsgLoop : Nat → AJ_IOBuffer → Nat → Option (AJ_Status × AJ_IOBuffer × Nat)
  | fuel, ioBuf, bodyBytes =>
    if bodyBytes = 0 then some (AJ_OK, ioBuf, bodyBytes)
    else
      match fuel with
      | 0 => none
      | fuel + 1 =>
        let sz0 := min (AJ_IO_BUF_AVAIL ioBuf % 65536) bodyBytes % 65536
        let ioBuf1 := if sz0 = 0 then AJ_IO_BUF_RESET ioBuf else ioBuf
        let sz := if sz0 = 0 then min bodyBytes ioBuf.bufSize % 65536 else sz0
        let r := LoadBytes ioBuf1 sz 0
        if r.1 ≠ AJ_OK then some (r.1, r.2, bodyBytes)
        else AJ_CloseMsgLoop fuel { r.2 with readPtr := r.2.readPtr + sz } (bodyBytes - sz)

/-- The function `AJ_CloseMsg(msg)`. The result holds the status, the bus attachment
and the message. -/
def AJ_CloseMsg (bus : AJ_BusAttachment) (msg : AJ_Message) :
    Option (AJ_Status × AJ_BusAttachment × AJ_Message) :=
  if msg.bus then
    (AJ_CloseMsgLoop msg.bodyBytes bus.rx msg.bodyBytes).map
      (fun r => (r.1, { bus with rx := r.2.1 }, AJ_Message.zero))
  else some (AJ_OK, bus, msg)

/-! ## Marshalling -/

/-- The modulus of `size_t`, which is taken to be 32 bits wide (as on the Arduino
Due target); the address of a `size_t` variable then points at the four bytes of
its value in host byte order. -/
abbrev SIZE_T_MOD : Nat := 4294967296

/-- The `n` bytes at a pointer (the source of a `memcpy`). -/
def memRead (bus : AJ_BusAttachment) (p : AJ_Ptr) (n : Nat) : List Nat :=
  (List.range n).map (fun i => derefByte bus p i)

/-- The body of the loop of `WriteBytes` from the comment "Write pad bytes" on: the
pad bytes, then `memcpy` of as many bytes as fit. The result holds the TX buffer
and the number of bytes that were copied. -/
def WriteBytesBody (bus : AJ_BusAttachment) (data : AJ_Ptr) (numBytes pad canWrite : Nat) :
    AJ_IOBuffer × Nat :=
  let tx1 := { bus.tx with
    data := writeBytesAt bus.tx.data bus.tx.writePtr (List.replicate pad 0)
    writePtr := bus.tx.writePtr + pad }
  let canWrite1 := (canWrite + SIZE_T_MOD - pad % SIZE_T_MOD) % SIZE_T_MOD
  let canWrite2 := if numBytes < canWrite1 then numBytes else canWrite1
  ({ tx1 with
      data := writeBytesAt tx1.data tx1.writePtr (memRead { bus with tx := tx1 } data canWrite2)
      writePtr := tx1.writePtr + canWrite2 },
    canWrite2)

/-- The loop `while (numBytes + pad)` of `WriteBytes`. A turn in which the bytes
fit writes all of them and is the last one; every other turn calls `send` once,
which takes one event of the script. The script of the TX buffer is passed apart
from the buffer and the rest of it is returned. -/
def WriteBytesLoop (msg : AJ_Message) (data : AJ_Ptr) :
    List NetEvent → AJ_BusAttachment → Nat → Nat → AJ_Status × AJ_BusAttachment × List NetEvent
  | [], bus, numBytes, pad =>
    if numBytes + pad = 0 then (AJ_OK, bus, [])
    else if numBytes + pad > AJ_IO_BUF_SPACE bus.tx then
      if msg.hdr ≠ AJ_HdrPtr.null then (AJ_ERR_RESOURCES, bus, [])
      else
        let r := netSendEvent bus.tx none
        (r.1, { bus with tx := r.2 }, [])
    else
      (AJ_OK, { bus with
        tx := (WriteBytesBody bus data numBytes pad (AJ_IO_BUF_SPACE bus.tx)).1 }, [])
  | e :: rest, bus, numBytes, pad =>
    if numBytes + pad = 0 then (AJ_OK, bus, e :: rest)
    else if numBytes + pad > AJ_IO_BUF_SPACE bus.tx then
      if msg.hdr ≠ AJ_HdrPtr.null then (AJ_ERR_RESOURCES, bus, e :: rest)
      else
        let r := netSendEvent bus.tx (some e)
        if r.1 ≠ AJ_OK then (r.1, { bus with tx := r.2 }, rest)
        else
          let bus1 := { bus with tx := r.2 }
          let w := WriteBytesBody bus1 data numBytes pad (AJ_IO_BUF_SPACE bus1.tx)
          WriteBytesLoop msg data rest { bus1 with tx := w.1 } (numBytes - w.2) 0
    else
      (AJ_OK, { bus with
        tx := (WriteBytesBody bus data numBytes pad (AJ_IO_BUF_SPACE bus.tx)).1 }, e :: rest)

/-- The function `WriteBytes(msg, data, numBytes, pad)`. -/
def WriteBytes (bus : AJ_BusAttachment) (msg : AJ_Message) (data : AJ_Ptr)
    (numBytes pad : Nat) : AJ_Status × AJ_BusAttachment :=
  if numBytes ≠ 0 ∧ data = AJ_Ptr.null then (AJ_ERR_NULL, bus)
  else
    let r := WriteBytesLoop msg data bus.tx.context.script bus numBytes pad
    (r.1, { r.2.1 with
      tx := { r.2.1.tx with context := { r.2.1.tx.context with script := r.2.2 } } })

/-- The macro `WritePad(msg, pad)`. -/
def WritePad (bus : AJ_BusAttachment) (msg : AJ_Message) (pad : Nat) :
    AJ_Status × AJ_BusAttachment :=
  WriteBytes bus msg AJ_Ptr.null 0 pad

/-- The function `InitArg(arg, typeId, val)` for a non-null `arg`. -/
def InitArg (typeId : Nat) (val : AJ_Ptr) : AJ_Arg :=
  { typeId := typeId, flags := 0, len := 0, val := val, sigPtr := AJ_Ptr.null }

/-- The function `AJ_InitArg(arg, typeId, flags, val, len)`: the argument it leaves
and whether it returns `arg` (and not `NULL`). -/
def AJ_InitArg (typeId flags : Nat) (val : AJ_Ptr) (len : Nat) : AJ_Arg × Bool :=
  if IsBasicType typeId = 0 then (AJ_Arg.zero, false)
  else
    ({ typeId := typeId % 256, flags := flags % 256, len := len % 65536, val := val,
       sigPtr := AJ_Ptr.null }, true)

/-- The function `MarshalContainer(msg, sig, arg, pad)`. The result holds the
status, the bus attachment, `*sig` and `*arg`. -/
def MarshalContainer (bus : AJ_BusAttachment) (msg : AJ_Message) (sig : AJ_Ptr)
    (arg : AJ_Arg) (pad : Nat) : AJ_Status × AJ_BusAttachment × AJ_Ptr × AJ_Arg :=
  let sig1 := sig.sub 1
  let arg1 := { arg with sigPtr := sig1.add 1 }
  if derefByte bus sig1 0 = AJ_ARG_ARRAY then
    let r := WriteBytes bus msg AJ_Ptr.null 0 (pad + 4)
    let arg2 := { arg1 with val := AJ_Ptr.tx (r.2.tx.writePtr - 4) }
    let r1 := if r.1 = AJ_OK then
        WritePad r.2 msg (PadForType (derefByte r.2 arg2.sigPtr 0) r.2.tx)
      else r
    (r1.1, r1.2, sig1.add (CompleteTypeSigLenPtr r1.2 sig1), arg2)
  else
    let r := WritePad bus msg pad
    (r.1, r.2, sig1.add (CompleteTypeSigLenPtr r.2 sig1), arg1)

/-- The function `Marshal(msg, sig, arg)` for a non-null `arg`. The result holds the
status, the bus attachment, the message, `*sig` and `*arg`. -/
def Marshal (hostLE : Bool) (bus : AJ_BusAttachment) (msg : AJ_Message) (sig : AJ_Ptr)
    (arg : AJ_Arg) : AJ_Status × AJ_BusAttachment × AJ_Message × AJ_Ptr × AJ_Arg :=
  let typeId := derefByte bus sig 0
  let pad := PadForType typeId bus.tx
  let sig1 := sig.add 1
  if IsScalarType arg.typeId ≠ 0 then
    if arg.flags &&& AJ_ARRAY_FLAG ≠ 0 then
      if typeId ≠ AJ_ARG_ARRAY ∨ derefByte bus sig1 0 ≠ arg.typeId then
        (AJ_ERR_MARSHAL, bus, msg, sig1, arg)
      else
        let sig2 := sig1.add 1
        let sz := arg.len
        let r := WriteBytes bus msg (AJ_Ptr.mem (u32Bytes hostLE sz) 0) 4 pad
        if r.1 = AJ_OK then
          let pad1 := PadForType arg.typeId r.2.tx
          let r1 := WriteBytes r.2 msg arg.val sz pad1
          (r1.1, r1.2, msg, sig2, arg)
        else (r.1, r.2, msg, sig2, arg)
    else
      if typeId ≠ arg.typeId then (AJ_ERR_MARSHAL, bus, msg, sig1, arg)
      else
        let sz := SizeOfType typeId
        let r := WriteBytes bus msg arg.val sz pad
        (r.1, r.2, msg, sig1, arg)
  else if TYPE_FLAG typeId &&& (AJ_STRING ||| AJ_VARIANT) ≠ 0 then
    if typeId ≠ arg.typeId then (AJ_ERR_MARSHAL, bus, msg, sig1, arg)
    else
      let sz := if arg.len ≠ 0 then arg.len else strlen (derefFrom bus arg.val)
      if ALIGNMENT typeId = 1 ∧ sz > 255 then (AJ_ERR_MARSHAL, bus, msg, sig1, arg)
      else
        let r := if ALIGNMENT typeId = 1 then
            WriteBytes bus msg (AJ_Ptr.mem [sz % 256] 0) 1 pad
          else WriteBytes bus msg (AJ_Ptr.mem (u32Bytes hostLE sz) 0) 4 pad
        if r.1 = AJ_OK then
          let r1 := WriteBytes r.2 msg arg.val sz 0
          let r2 := if r1.1 = AJ_OK then WritePad r1.2 msg 1 else r1
          let msg1 := if typeId = AJ_ARG_VARIANT then
              { msg with varOffset := (sz + 1) % 256 }
            else msg
          (r2.1, r2.2, msg1, sig1, arg)
        else (r.1, r.2, msg, sig1, arg)
  else if TYPE_FLAG typeId &&& AJ_CONTAINER ≠ 0 then
    if typeId ≠ arg.typeId then (AJ_ERR_MARSHAL, bus, msg, sig1, arg)
    else
      let r := MarshalContainer bus msg sig1 arg pad
      (r.1, r.2.1, msg, r.2.2.1, r.2.2.2)
  else (AJ_ERR_MARSHAL, bus, msg, sig1, arg)

/-- The function `AJ_MarshalArg(msg, arg)`. The result holds the status, the bus
attachment, the message and `*arg`. `AJ_ReleaseReplyContext`, which is called when
marshalling fails, belongs to another module and touches neither the message nor
the buffers. -/
def AJ_MarshalArg (hostLE : Bool) (bus : AJ_BusAttachment) (msg : AJ_Message) (arg : AJ_Arg) :
    AJ_Status × AJ_BusAttachment × AJ_Message × AJ_Arg :=
  let argStart := bus.tx.writePtr
  let finish (r : AJ_Status × AJ_BusAttachment × AJ_Message × AJ_Arg) :
      AJ_Status × AJ_BusAttachment × AJ_Message × AJ_Arg :=
    if r.1 = AJ_OK then
      (r.1, r.2.1,
        { r.2.2.1 with
          bodyBytes := (r.2.2.1.bodyBytes + diff16 r.2.1.tx.writePtr argStart) % 4294967296 },
        r.2.2.2)
    else r
  if msg.varOffset ≠ 0 then
    let sig := AJ_Ptr.tx (argStart - msg.varOffset)
    let m := Marshal hostLE bus { msg with varOffset := 0 } sig arg
    finish (m.1, m.2.1, m.2.2.1, m.2.2.2.2)
  else
    match msg.outer with
    | outer :: rest =>
      let sig := outer.sigPtr
      if derefByte bus sig 0 = 0 then (AJ_ERR_END_OF_DATA, bus, msg, arg)
      else
        let m := Marshal hostLE bus msg sig arg
        let msg1 := if outer.typeId ≠ AJ_ARG_ARRAY then
            { m.2.2.1 with outer := { outer with sigPtr := m.2.2.2.1 } :: rest }
          else m.2.2.1
        finish (m.1, m.2.1, msg1, m.2.2.2.2)
    | [] =>
      let sig := msg.signature.add msg.sigOffset
      if derefByte bus sig 0 = 0 then (AJ_ERR_END_OF_DATA, bus, msg, arg)
      else
        let m := Marshal hostLE bus msg sig arg
        finish (m.1, m.2.1,
          { m.2.2.1 with sigOffset := (m.2.2.2.1.offset - msg.signature.offset) % 256 },
          m.2.2.2.2)

/-- The store `*p = v` through a pointer `p` to a `uint32_t`. -/
def storeU32 (hostLE : Bool) (bus : AJ_BusAttachment) (p : AJ_Ptr) (v : Nat) :
    AJ_BusAttachment :=
  match p with
  | AJ_Ptr.tx off =>
    { bus with tx := { bus.tx with data := writeBytesAt bus.tx.data off (u32Bytes hostLE v) } }
  | AJ_Ptr.rx off =>
    { bus with rx := { bus.rx with data := writeBytesAt bus.rx.data off (u32Bytes hostLE v) } }
  | _ => bus

/-- A variadic argument of `AJ_MarshalArgs`: an integer or a pointer to a string. -/
inductive AJ_InVal
  | num (v : Nat)
  | str (p : AJ_Ptr)
  deriving DecidableEq, Repr

/-- The eight bytes of a `uint64_t` in host byte order. -/
def u64Bytes (hostLE : Bool) (v : Nat) : List Nat :=
  if hostLE then u32Bytes hostLE (v % 4294967296) ++ u32Bytes hostLE (v / 4294967296 % 4294967296)
  else u32Bytes hostLE (v / 4294967296 % 4294967296) ++ u32Bytes hostLE (v % 4294967296)

/-- The value that `AJ_MarshalArgs` points the argument at for the type `typeId`:
the local variable `u64`, `u32`, `u16` or `u8` that received the next variadic
argument, or the string pointer itself. -/
def marshalArgsVal (hostLE : Bool) (typeId : Nat) : AJ_InVal → AJ_Ptr
  | AJ_InVal.str p => p
  | AJ_InVal.num v =>
    if SizeOfType typeId = 8 then AJ_Ptr.mem (u64Bytes hostLE (v % 18446744073709551616)) 0
    else if SizeOfType typeId = 4 then AJ_Ptr.mem (u32Bytes hostLE (v % 4294967296)) 0
    else if SizeOfType typeId = 2 then AJ_Ptr.mem (u16Bytes hostLE (v % 65536)) 0
    else AJ_Ptr.mem [v % 256] 0

/-- The function `AJ_MarshalArgs(msg, sig, ...)`, by recursion on the characters of
`sig`; `vals` are the variadic arguments. -/
def AJ_MarshalArgs (hostLE : Bool) :
    List Nat → List AJ_InVal → AJ_BusAttachment → AJ_Message →
      AJ_Status × AJ_BusAttachment × AJ_Message
  | [], _, bus, msg => (AJ_OK, bus, msg)
  | c :: sig, vals, bus, msg =>
    if c = 0 then (AJ_OK, bus, msg)
    else
      let typeId := c % 256
      if IsBasicType typeId = 0 then (AJ_ERR_UNEXPECTED, bus, msg)
      else
        let val := marshalArgsVal hostLE typeId (vals.headD (AJ_InVal.num 0))
        let arg := InitArg typeId val
        let r := AJ_MarshalArg hostLE bus msg arg
        if r.1 ≠ AJ_OK then (r.1, r.2.1, r.2.2.1)
        else AJ_MarshalArgs hostLE sig vals.tail r.2.1 r.2.2.1

/-- The function `AJ_MarshalContainer(msg, arg, typeId)`. On success the argument is
pushed on the chain of open containers. -/
def AJ_MarshalContainer (hostLE : Bool) (bus : AJ_BusAttachment) (msg : AJ_Message)
    (typeId : Nat) : AJ_Status × AJ_BusAttachment × AJ_Message × AJ_Arg :=
  let r := AJ_MarshalArg hostLE bus msg (InitArg typeId AJ_Ptr.null)
  if r.1 = AJ_OK then (r.1, r.2.1, { r.2.2.1 with outer := r.2.2.2 :: r.2.2.1.outer }, r.2.2.2)
  else r

/-- The function `AJ_MarshalCloseContainer(msg, arg)`. The assertions of the
function make `arg` the head of the chain `msg->outer` and a container; the result
is `none` when an assertion fails. The result holds the status, the bus
attachment, the message and `*arg`. -/
def AJ_MarshalCloseContainer (hostLE : Bool) (bus : AJ_BusAttachment) (msg : AJ_Message) :
    Option (AJ_Status × AJ_BusAttachment × AJ_Message × AJ_Arg) :=
  match msg.outer with
  | [] => none
  | arg :: rest =>
    if TYPE_FLAG arg.typeId &&& AJ_CONTAINER = 0 then none
    else
      let msg1 := { msg with outer := rest }
      if arg.typeId = AJ_ARG_ARRAY then
        let lenOffset := arg.val.offset % 4294967296
        let len0 := (diff16 bus.tx.writePtr arg.val.offset + 65536 - 4) % 65536
        let len := if ALIGNMENT (derefByte bus arg.sigPtr 0) = 8 ∧ lenOffset &&& 4 = 0 ∧ len0 ≠ 0
          then (len0 + 65536 - 4) % 65536 else len0
        some (AJ_OK, storeU32 hostLE bus arg.val len, msg1, { arg with len := len })
      else if arg.typeId = AJ_ARG_STRUCT ∧ derefByte bus arg.sigPtr 0 ≠ AJ_STRUCT_CLOSE then
        some (AJ_ERR_SIGNATURE, bus, msg1, { arg with len := 0 })
      else if arg.typeId = AJ_ARG_DICT_ENTRY
          ∧ derefByte bus arg.sigPtr 0 ≠ AJ_DICT_ENTRY_CLOSE then
        some (AJ_ERR_SIGNATURE, bus, msg1, { arg with len := 0 })
      else some (AJ_OK, bus, msg1, { arg with len := 0 })

/-- The function `AJ_MarshalRaw(msg, data, len)`. The result holds the status, the
bus attachment and the message. -/
def AJ_MarshalRaw (bus : AJ_BusAttachment) (msg : AJ_Message) (data : AJ_Ptr) (len : Nat) :
    AJ_Status × AJ_BusAttachment × AJ_Message :=
  if msg.hdr ≠ AJ_HdrPtr.null then (AJ_ERR_UNEXPECTED, bus, msg)
  else if len > msg.bodyBytes then (AJ_ERR_WRITE, bus, msg)
  else
    let msg1 := { msg with
      bodyBytes := (msg.bodyBytes + 4294967296 - len % 4294967296) % 4294967296 }
    let r := WriteBytes bus msg1 data len 0
    (r.1, r.2, msg1)

/-! ## Name service -/

/-- The message version bits `MSG_V1` of the name service (`aj_disco.c`). -/
abbrev MSG_V1 : Nat := 0x01
/-- The name-service version bits `NSV_V1`. -/
abbrev NSV_V1 : Nat := 0x10
/-- The message type `WHO_HAS_MSG` in the flags byte. -/
abbrev WHO_HAS_MSG : Nat := 0x80
/-- The message type `IS_AT_MSG` in the flags byte. -/
abbrev IS_AT_MSG : Nat := 0x40

/-- The function `ComposeWhoHas(txBuf, prefix)` of `aj_disco.c`; `pre` is the memory
of the C string `prefix`. The six bytes of the `NSHeader` are stored at the write
cursor, then the length byte `(uint8_t)(preLen + 1)`, the `preLen` characters and
the wild card `*`. -/
def ComposeWhoHas (txBuf : AJ_IOBuffer) (pre : List Nat) : AJ_Status × AJ_IOBuffer :=
  let preLen := strlen pre % SIZE_T_MOD
  let p := txBuf.writePtr + 6
  let outLen := (6 + preLen + 2) % SIZE_T_MOD
  if outLen > AJ_IO_BUF_SPACE txBuf then (AJ_ERR_RESOURCES, txBuf)
  else
    let d0 := writeBytesAt txBuf.data txBuf.writePtr [MSG_V1 ||| NSV_V1, 1, 0, 0, WHO_HAS_MSG, 1]
    let d1 := writeBytesAt d0 p [(preLen + 1) % 256]
    let p1 := p + 1
    let d2 := writeBytesAt d1 p1 (pre.take preLen)
    let d3 := writeBytesAt d2 (p1 + preLen) [42]
    (AJ_OK, { txBuf with data := d3, writePtr := txBuf.writePtr + outLen })

/-! ## Message headers, delivery -/

/-- Modelled from the spec: the message types of `aj_msg.h`, in the order
`INVALID`/`METHOD_CALL`/`METHOD_RET`/`ERROR`/`SIGNAL` of the wire protocol. -/
abbrev AJ_MSG_METHOD_CALL : Nat := 1
/-- Modelled from the spec: the message type `METHOD_RET`. -/
abbrev AJ_MSG_METHOD_RET : Nat := 2
/-- Modelled from the spec: the message type `ERROR`. -/
abbrev AJ_MSG_ERROR : Nat := 3
/-- Modelled from the spec: the message type `SIGNAL`. -/
abbrev AJ_MSG_SIGNAL : Nat := 4

/-- Modelled from the spec: the bit `NO_AUTO_START` of the flag byte (`aj_msg.h`),
with its value in the wire protocol. -/
abbrev AJ_FLAG_AUTO_START : Nat := 0x02
/-- Modelled from the spec: the bit `ENCRYPTED` of the flag byte (`aj_msg.h`), with
its value in the wire protocol. -/
abbrev AJ_FLAG_ENCRYPTED : Nat := 0x80

/-- The length of the message authentication code, `MAC_LENGTH`. -/
abbrev MAC_LENGTH : Nat := 8

/-- The header field ids of `aj_msg.h`; they index the table `TypeForHdr`, whose
comments name the entries. -/
abbrev AJ_HDR_OBJ_PATH : Nat := 1
/-- The header field id of the interface. -/
abbrev AJ_HDR_INTERFACE : Nat := 2
/-- The header field id of the member. -/
abbrev AJ_HDR_MEMBER : Nat := 3
/-- The header field id of the error name. -/
abbrev AJ_HDR_ERROR_NAME : Nat := 4
/-- The header field id of the reply serial. -/
abbrev AJ_HDR_REPLY_SERIAL : Nat := 5
/-- The header field id of the destination. -/
abbrev AJ_HDR_DESTINATION : Nat := 6
/-- The header field id of the sender. -/
abbrev AJ_HDR_SENDER : Nat := 7
/-- The header field id of the signature. -/
abbrev AJ_HDR_SIGNATURE : Nat := 8
/-- The header field id of the handles. -/
abbrev AJ_HDR_HANDLES : Nat := 9
/-- The header field id of the time stamp. -/
abbrev AJ_HDR_TIMESTAMP : Nat := 16
/-- The header field id of the time to live. -/
abbrev AJ_HDR_TIME_TO_LIVE : Nat := 17
/-- The header field id of the compression token. -/
abbrev AJ_HDR_COMPRESSION_TOKEN : Nat := 18
/-- The header field id of the session id. -/
abbrev AJ_HDR_SESSION_ID : Nat := 19

/-- The table `TypeForHdr`: the types for each of the header fields. -/
def TypeForHdr : List Nat :=
  [ AJ_ARG_INVALID,
    AJ_ARG_OBJ_PATH,
    AJ_ARG_STRING,
    AJ_ARG_STRING,
    AJ_ARG_STRING,
    AJ_ARG_UINT32,
    AJ_ARG_STRING,
    AJ_ARG_STRING,
    AJ_ARG_SIGNATURE,
    AJ_ARG_UINT32,
    AJ_ARG_INVALID,
    AJ_ARG_INVALID,
    AJ_ARG_INVALID,
    AJ_ARG_INVALID,
    AJ_ARG_INVALID,
    AJ_ARG_INVALID,
    AJ_ARG_UINT32,
    AJ_ARG_UINT16,
    AJ_ARG_UINT32,
    AJ_ARG_UINT32 ]

/-- The functions and constants of other modules that `aj_msg.c` uses (the
registry of `aj_introspect.c`, the keys of `aj_guid.c`, the cipher of
`aj_crypto.c`, the reply contexts and the clock). What they do is not fixed here:
every statement holds for all of them. -/
structure AJ_Externals where
  /-- The call `AJ_InitMessageFromMsgId(msg, msgId, msgType, &secure)`: the status,
  the message and `secure`. -/
  AJ_InitMessageFromMsgId : AJ_Message → Nat → Nat → AJ_Status × AJ_Message × Bool
  /-- The call `AJ_StringFindFirstOf(str, chars)` on the memory of the two strings. -/
  AJ_StringFindFirstOf : List Nat → List Nat → Int
  /-- The call `AJ_GetUniqueName(bus)`. -/
  AJ_GetUniqueName : AJ_BusAttachment → AJ_Ptr
  /-- The value of `AJ_GetElapsedTime(&timer, FALSE)` for a zero timer. -/
  AJ_GetElapsedTime : Nat
  /-- The constant `AJ_ROLE_KEY_UNDEFINED`. -/
  AJ_ROLE_KEY_UNDEFINED : Nat
  /-- The call `AJ_GetGroupKey(name, key)`: the status and the key. -/
  AJ_GetGroupKey : AJ_BusAttachment → AJ_Ptr → AJ_Status × List Nat
  /-- The call `AJ_GetSessionKey(name, key, &role)`: the status, the key and the
  role, given the role before the call. -/
  AJ_GetSessionKey : AJ_BusAttachment → AJ_Ptr → Nat → AJ_Status × List Nat × Nat
  /-- The call `AJ_Encrypt_CCM(key, msg, msgLen, hdrLen, tagLen, nonce, nLen)`: the
  status and the memory of the buffer after the call. -/
  AJ_Encrypt_CCM : List Nat → List Nat → Nat → Nat → Nat → List Nat → AJ_Status × List Nat
  /-- The call `AJ_Decrypt_CCM(key, msg, msgLen, hdrLen, tagLen, nonce, nLen)`. -/
  AJ_Decrypt_CCM : List Nat → List Nat → Nat → Nat → Nat → List Nat → AJ_Status × List Nat
  /-- The call `AJ_TimedOutMethodCall(msg)`: its result and the message. -/
  AJ_TimedOutMethodCall : AJ_Message → Bool × AJ_Message
  /-- The string `AJ_ErrTimeout`. -/
  AJ_ErrTimeout : AJ_Ptr
  /-- The call `AJ_IdentifyMessage(msg)`: the status and the message. -/
  AJ_IdentifyMessage : AJ_BusAttachment → AJ_Message → AJ_Status × AJ_Message
  /-- The constant `AJ_INVALID_MSG_ID`. -/
  AJ_INVALID_MSG_ID : Nat

/-- The static `internalErrorHdr = { HOST_ENDIANESS, AJ_MSG_ERROR, 0, 0, 0, 1, 0 }`,
as the 16 bytes of an `AJ_MsgHeader`: `endianess`, `msgType`, `flags`,
`majorVersion`, then `bodyLen`, `serialNum` and `headerLen` of four bytes each
(the layout is the one of the wire format). -/
def internalErrorHdr (hostLE : Bool) : List Nat :=
  [HOST_ENDIANESS hostLE, AJ_MSG_ERROR, 0, 0] ++ u32Bytes hostLE 0 ++ u32Bytes hostLE 1
    ++ u32Bytes hostLE 0

/-- The memory that `msg->hdr` points into, from the header on. -/
def hdrMem (hostLE : Bool) (bus : AJ_BusAttachment) (msg : AJ_Message) : List Nat :=
  match msg.hdr with
  | AJ_HdrPtr.null => []
  | AJ_HdrPtr.rx => bus.rx.data
  | AJ_HdrPtr.tx => bus.tx.data
  | AJ_HdrPtr.internalError => internalErrorHdr hostLE

/-- The byte `msg->hdr->msgType`. -/
def hdrMsgType (hostLE : Bool) (bus : AJ_BusAttachment) (msg : AJ_Message) : Nat :=
  (hdrMem hostLE bus msg).getD 1 0

/-- The byte `msg->hdr->flags`. -/
def hdrFlags (hostLE : Bool) (bus : AJ_BusAttachment) (msg : AJ_Message) : Nat :=
  (hdrMem hostLE bus msg).getD 2 0

/-- The field `msg->hdr->bodyLen`. -/
def hdrBodyLen (hostLE : Bool) (bus : AJ_BusAttachment) (msg : AJ_Message) : Nat :=
  readU32 hostLE (hdrMem hostLE bus msg) 4

/-- The field `msg->hdr->serialNum`. -/
def hdrSerialNum (hostLE : Bool) (bus : AJ_BusAttachment) (msg : AJ_Message) : Nat :=
  readU32 hostLE (hdrMem hostLE bus msg) 8

/-- The field `msg->hdr->headerLen`. -/
def hdrHeaderLen (hostLE : Bool) (bus : AJ_BusAttachment) (msg : AJ_Message) : Nat :=
  readU32 hostLE (hdrMem hostLE bus msg) 12

/-- A store of `bytes` at offset `off` of the header `*msg->hdr`, which lies at the
start of the RX or of the TX buffer. -/
def hdrStore (bus : AJ_BusAttachment) (msg : AJ_Message) (off : Nat) (bytes : List Nat) :
    AJ_BusAttachment :=
  match msg.hdr with
  | AJ_HdrPtr.tx => { bus with tx := { bus.tx with data := writeBytesAt bus.tx.data off bytes } }
  | AJ_HdrPtr.rx => { bus with rx := { bus.rx with data := writeBytesAt bus.rx.data off bytes } }
  | _ => bus

/-- The function `MessageLen(msg)`, in `uint32_t` arithmetic; `sizeof(AJ_MsgHeader)`
is 16. -/
def MessageLen (hostLE : Bool) (bus : AJ_BusAttachment) (msg : AJ_Message) : Nat :=
  (16 + (((hdrHeaderLen hostLE bus msg + 7) % 4294967296) &&& 0xFFFFFFF8)
    + hdrBodyLen hostLE bus msg) % 4294967296

/-- The function `InitNonce(msg, role, nonce)`: the five bytes of the nonce. -/
def InitNonce (hostLE : Bool) (bus : AJ_BusAttachment) (msg : AJ_Message) (role : Nat) :
    List Nat :=
  let serial := hdrSerialNum hostLE bus msg
  [role % 256, (serial >>> 24) % 256, (serial >>> 16) % 256, (serial >>> 8) % 256, serial % 256]

/-- The function `EncryptMessage(msg)`. -/
def EncryptMessage (ext : AJ_Externals) (hostLE : Bool) (bus : AJ_BusAttachment)
    (msg : AJ_Message) : AJ_Status × AJ_BusAttachment :=
  let role := ext.AJ_ROLE_KEY_UNDEFINED % 256
  let mlen := MessageLen hostLE bus msg
  let hlen := (mlen + 4294967296 - hdrBodyLen hostLE bus msg) % 4294967296
  if AJ_IO_BUF_SPACE bus.tx < MAC_LENGTH then (AJ_ERR_RESOURCES, bus)
  else
    let bus1 := hdrStore bus msg 4
      (u32Bytes hostLE ((hdrBodyLen hostLE bus msg + MAC_LENGTH) % 4294967296))
    let bus2 := { bus1 with tx := { bus1.tx with writePtr := bus1.tx.writePtr + MAC_LENGTH } }
    let k : AJ_Status × List Nat × Nat :=
      if hdrMsgType hostLE bus2 msg = AJ_MSG_SIGNAL ∧ msg.destination = AJ_Ptr.null then
        let g := ext.AJ_GetGroupKey bus2 AJ_Ptr.null
        (g.1, g.2, role)
      else ext.AJ_GetSessionKey bus2 msg.destination role
    if k.1 ≠ AJ_OK then (AJ_ERR_SECURITY, bus2)
    else
      let nonce := InitNonce hostLE bus2 msg k.2.2
      let c := ext.AJ_Encrypt_CCM k.2.1 bus2.tx.data mlen hlen MAC_LENGTH nonce
      (c.1, { bus2 with tx := { bus2.tx with data := c.2 } })

/-- The function `DecryptMessage(msg)`. -/
def DecryptMessage (ext : AJ_Externals) (hostLE : Bool) (bus : AJ_BusAttachment)
    (msg : AJ_Message) : AJ_Status × AJ_BusAttachment :=
  let role := ext.AJ_ROLE_KEY_UNDEFINED % 256
  let mlen := MessageLen hostLE bus msg
  let hLen := (mlen + 4294967296 - hdrBodyLen hostLE bus msg) % 4294967296
  if hdrEndianess hostLE bus msg ≠ HOST_ENDIANESS hostLE then (AJ_ERR_SECURITY, bus)
  else
    let k : AJ_Status × List Nat × Nat :=
      if hdrMsgType hostLE bus msg = AJ_MSG_SIGNAL ∧ msg.destination = AJ_Ptr.null then
        let g := ext.AJ_GetGroupKey bus msg.sender
        (g.1, g.2, role)
      else
        let s := ext.AJ_GetSessionKey bus msg.sender role
        (s.1, s.2.1, (s.2.2 % 256) ^^^ 3)
    if k.1 ≠ AJ_OK then (AJ_ERR_SECURITY, bus)
    else
      let nonce := InitNonce hostLE bus msg k.2.2
      let c := ext.AJ_Decrypt_CCM k.2.1 bus.rx.data
        ((mlen + 4294967296 - MAC_LENGTH) % 4294967296) hLen MAC_LENGTH nonce
      (c.1, { bus with rx := { bus.rx with data := c.2 } })

/-- The function `AJ_DeliverMsg(msg)`. The result holds the status, the bus
attachment and the message, which is cleared. -/
def AJ_DeliverMsg (ext : AJ_Externals) (hostLE : Bool) (bus : AJ_BusAttachment)
    (msg : AJ_Message) : AJ_Status × AJ_BusAttachment × AJ_Message :=
  let r : AJ_Status × AJ_BusAttachment :=
    if msg.hdr ≠ AJ_HdrPtr.null then
      let bus1 := hdrStore bus msg 4 (u32Bytes hostLE msg.bodyBytes)
      if hdrFlags hostLE bus1 msg &&& AJ_FLAG_ENCRYPTED ≠ 0 then
        EncryptMessage ext hostLE bus1 msg
      else (AJ_OK, bus1)
    else if msg.bodyBytes ≠ 0 then (AJ_ERR_MARSHAL, bus)
    else (AJ_OK, bus)
  if r.1 = AJ_OK then
    let s := netSend r.2.tx
    (s.1, { r.2 with tx := s.2 }, AJ_Message.zero)
  else (r.1, r.2, AJ_Message.zero)

/-- The function `AJ_DeliverMsgPartial(msg, bytesRemaining)`; `bytesRemaining` is a
`uint32_t`. The result is `none` when the assertion `!msg->outer` fails; otherwise
it holds the status, the bus attachment and the message. -/
def AJ_DeliverMsgPartial (hostLE : Bool) (bus : AJ_BusAttachment) (msg : AJ_Message)
    (bytesRemaining : Nat) : Option (AJ_Status × AJ_BusAttachment × AJ_Message) :=
  let typeId := derefByte bus msg.signature msg.sigOffset
  if msg.outer ≠ [] then none
  else if msg.hdr = AJ_HdrPtr.null ∨ bytesRemaining = 0 then some (AJ_ERR_UNEXPECTED, bus, msg)
  else if hdrFlags hostLE bus msg &&& AJ_FLAG_ENCRYPTED ≠ 0 then some (AJ_ERR_SECURITY, bus, msg)
  else if typeId = 0 then some (AJ_ERR_SIGNATURE, bus, msg)
  else
    let pad := PadForType typeId bus.tx
    let r := if pad ≠ 0 then WritePad bus msg pad else (AJ_OK, bus)
    if r.1 ≠ AJ_OK then some (r.1, r.2, msg)
    else
      let bus1 := hdrStore r.2 msg 4
        (u32Bytes hostLE ((msg.bodyBytes + pad + bytesRemaining) % 4294967296))
      some (AJ_OK, bus1,
        { msg with
          hdr := AJ_HdrPtr.null
          bodyBytes := bytesRemaining % 4294967296
          signature := AJ_Ptr.mem [0] 0
          sigOffset := 0 })

/-- The loop `do { msg->hdr->serialNum = msg->bus->serial++; } while
(msg->bus->serial == 1);` of `MarshalMsg` on the 32-bit counter `serial`: the
serial number stored in the header and the counter after the loop. A second turn
is taken when the first leaves the counter at 1; it leaves the counter at 2, so
there is no third turn. -/
def MarshalMsgSerial (serial : Nat) : Nat × Nat :=
  let serialNum := serial
  let serial1 := (serial + 1) % 4294967296
  if serial1 = 1 then
    let serialNum1 := serial1
    let serial2 := (serial1 + 1) % 4294967296
    (serialNum1, serial2)
  else (serialNum, serial1)

/-- The `switch (fieldId)` of the loop of `MarshalMsg`: the value of the header
field and the message, or `none` for the cases that `continue`. A pointer to a
32-bit member of the message is a pointer to its four bytes in host byte order. -/
def MarshalMsgSwitch (ext : AJ_Externals) (hostLE : Bool) (msgType fieldId : Nat)
    (bus : AJ_BusAttachment) (msg : AJ_Message) (hdrVal : AJ_Arg) :
    Option (AJ_Arg × AJ_Message) :=
  if fieldId = AJ_HDR_OBJ_PATH then
    if msgType = AJ_MSG_METHOD_CALL ∨ msgType = AJ_MSG_SIGNAL then
      some ({ hdrVal with val := msg.objPath }, msg)
    else some (hdrVal, msg)
  else if fieldId = AJ_HDR_INTERFACE then some ({ hdrVal with val := msg.iface }, msg)
  else if fieldId = AJ_HDR_MEMBER then
    if msgType ≠ AJ_MSG_ERROR then
      let len := ext.AJ_StringFindFirstOf (derefFrom bus msg.member) [32, 0]
      some ({ hdrVal with
        val := msg.member, len := (if len ≥ 0 then len.toNat else 0) % 65536 }, msg)
    else some (hdrVal, msg)
  else if fieldId = AJ_HDR_ERROR_NAME then
    if msgType = AJ_MSG_ERROR then some ({ hdrVal with val := msg.error }, msg)
    else some (hdrVal, msg)
  else if fieldId = AJ_HDR_REPLY_SERIAL then
    if msgType = AJ_MSG_METHOD_RET ∨ msgType = AJ_MSG_ERROR then
      some ({ hdrVal with val := AJ_Ptr.mem (u32Bytes hostLE msg.replySerial) 0 }, msg)
    else some (hdrVal, msg)
  else if fieldId = AJ_HDR_DESTINATION then some ({ hdrVal with val := msg.destination }, msg)
  else if fieldId = AJ_HDR_SENDER then
    some ({ hdrVal with val := ext.AJ_GetUniqueName bus }, msg)
  else if fieldId = AJ_HDR_SIGNATURE then some ({ hdrVal with val := msg.signature }, msg)
  else if fieldId = AJ_HDR_TIMESTAMP then
    if msg.ttl ≠ 0 then
      let msg1 := { msg with timestamp := ext.AJ_GetElapsedTime % 4294967296 }
      some ({ hdrVal with val := AJ_Ptr.mem (u32Bytes hostLE msg1.timestamp) 0 }, msg1)
    else some (hdrVal, msg)
  else if fieldId = AJ_HDR_TIME_TO_LIVE then
    if msg.ttl ≠ 0 then
      some ({ hdrVal with val := AJ_Ptr.mem (u32Bytes hostLE msg.ttl) 0 }, msg)
    else some (hdrVal, msg)
  else if fieldId = AJ_HDR_SESSION_ID then
    if msg.sessionId ≠ 0 then
      some ({ hdrVal with val := AJ_Ptr.mem (u32Bytes hostLE msg.sessionId) 0 }, msg)
    else some (hdrVal, msg)
  else none

/-- One turn of the loop `for (fieldId = AJ_HDR_OBJ_PATH; fieldId <=
AJ_HDR_SESSION_ID; ++fieldId)` of `MarshalMsg`. The statuses of `WriteBytes` and of
`Marshal` are not looked at. -/
def MarshalMsgField (ext : AJ_Externals) (hostLE : Bool) (msgType fieldId : Nat)
    (bus : AJ_BusAttachment) (msg : AJ_Message) : AJ_BusAttachment × AJ_Message :=
  let typeId := TypeForHdr.getD fieldId 0
  if typeId = AJ_ARG_INVALID then (bus, msg)
  else
    match MarshalMsgSwitch ext hostLE msgType fieldId bus msg (InitArg typeId AJ_Ptr.null) with
    | none => (bus, msg)
    | some (hdrVal, msg1) =>
      if hdrVal.val = AJ_Ptr.null then (bus, msg1)
      else
        let buf := [fieldId % 256, 1, typeId, 0]
        let w := WriteBytes bus msg1 (AJ_Ptr.mem buf 0) 4 (PadForType AJ_ARG_STRUCT bus.tx)
        let m := Marshal hostLE w.2 msg1 (AJ_Ptr.mem buf 2) hdrVal
        (m.2.1, m.2.2.1)

/-- The loop over the header fields of `MarshalMsg`, by recursion on the list of
the field ids that are left. -/
def MarshalMsgFields (ext : AJ_Externals) (hostLE : Bool) (msgType : Nat) :
    List Nat → AJ_BusAttachment → AJ_Message → AJ_BusAttachment × AJ_Message
  | [], bus, msg => (bus, msg)
  | fieldId :: rest, bus, msg =>
    let r := MarshalMsgField ext hostLE msgType fieldId bus msg
    MarshalMsgFields ext hostLE msgType rest r.1 r.2

/-- The part of `MarshalMsg` that sets up the fixed header at the start of the TX
buffer, from `AJ_IO_BUF_RESET(ioBuf)` to the loop over the serial counter:
`memset` of the 16 header bytes, `endianess`, `msgType`, `flags` (with
`AJ_FLAG_ENCRYPTED` for a secure message and `AJ_FLAG_AUTO_START` toggled) and
`serialNum`. -/
def MarshalMsgHeader (hostLE : Bool) (bus : AJ_BusAttachment) (msgType flags : Nat)
    (secure : Bool) : AJ_BusAttachment :=
  let tx0 := AJ_IO_BUF_RESET bus.tx
  let d0 := writeBytesAt tx0.data 0 (List.replicate 16 0)
  let d1 := writeBytesAt d0 0 [HOST_ENDIANESS hostLE]
  let d2 := writeBytesAt d1 1 [msgType % 256]
  let flags1 := if secure then (flags % 256) ||| AJ_FLAG_ENCRYPTED else flags % 256
  let flags2 := flags1 ^^^ AJ_FLAG_AUTO_START
  let d3 := writeBytesAt d2 2 [flags2]
  let s := MarshalMsgSerial bus.serial
  let d4 := writeBytesAt d3 8 (u32Bytes hostLE s.1)
  { bus with tx := { tx0 with data := d4, writePtr := tx0.writePtr + 16 }, serial := s.2 }

/-- The function `MarshalMsg(msg, msgType, msgId, flags)`; `msgType` and `flags` are
`uint8_t`, `msgId` is a `uint32_t`. The result holds the status, the bus attachment
and the message. -/
def MarshalMsg (ext : AJ_Externals) (hostLE : Bool) (bus : AJ_BusAttachment) (msg : AJ_Message)
    (msgType msgId flags : Nat) : AJ_Status × AJ_BusAttachment × AJ_Message :=
  let i := ext.AJ_InitMessageFromMsgId msg (msgId % 4294967296) (msgType % 256)
  if i.1 ≠ AJ_OK then (i.1, bus, i.2.1)
  else
    let msg1 := { i.2.1 with hdr := AJ_HdrPtr.tx }
    let bus5 := MarshalMsgHeader hostLE bus msgType flags i.2.2
    let f := MarshalMsgFields ext hostLE (msgType % 256)
      (List.range' AJ_HDR_OBJ_PATH AJ_HDR_SESSION_ID) bus5 msg1
    let headerLen := (f.1.tx.writePtr + 4294967296 - 16) % 4294967296
    let bus6 := hdrStore f.1 f.2 12 (u32Bytes hostLE headerLen)
    let w := WritePad bus6 f.2
      (((8 + 4294967296 - hdrHeaderLen hostLE bus6 f.2) % 4294967296) &&& 7)
    (w.1, w.2, f.2)

/-- The loop `while (AJ_IO_BUF_AVAIL(ioBuf) < sizeof(AJ_MsgHeader))` of
`AJ_UnmarshalMsg`, up to the first call of `recv` that fails: every turn takes one
event of the script. The result holds the status of the last call, the buffer and
the rest of the script. -/
def UnmarshalMsgHeaderLoop : List NetEvent → AJ_IOBuffer → AJ_Status × AJ_IOBuffer × List NetEvent
  | [], ioBuf =>
    if AJ_IO_BUF_AVAIL ioBuf < 16 then
      let r := netRecvEvent ioBuf none
      (r.1, r.2, [])
    else (AJ_OK, ioBuf, [])
  | e :: rest, ioBuf =>
    if AJ_IO_BUF_AVAIL ioBuf < 16 then
      let r := netRecvEvent ioBuf (some e)
      if r.1 ≠ AJ_OK then (r.1, r.2, rest)
      else UnmarshalMsgHeaderLoop rest r.2
    else (AJ_OK, ioBuf, e :: rest)

/-- The value `*(hdrVal.val.v_uint32)`: the four bytes at the pointer, in host byte
order. -/
def derefU32 (hostLE : Bool) (bus : AJ_BusAttachment) (p : AJ_Ptr) : Nat :=
  readU32 hostLE (derefFrom bus p) 0

/-- The `switch (fieldId)` of the loop over the header fields of `AJ_UnmarshalMsg`:
the message with the field value stored. -/
def UnmarshalMsgSwitch (hostLE : Bool) (bus : AJ_BusAttachment) (msg : AJ_Message)
    (fieldId : Nat) (hdrVal : AJ_Arg) : AJ_Message :=
  if fieldId = AJ_HDR_OBJ_PATH then { msg with objPath := hdrVal.val }
  else if fieldId = AJ_HDR_INTERFACE then { msg with iface := hdrVal.val }
  else if fieldId = AJ_HDR_MEMBER then { msg with member := hdrVal.val }
  else if fieldId = AJ_HDR_ERROR_NAME then { msg with error := hdrVal.val }
  else if fieldId = AJ_HDR_REPLY_SERIAL then
    { msg with replySerial := derefU32 hostLE bus hdrVal.val }
  else if fieldId = AJ_HDR_DESTINATION then { msg with destination := hdrVal.val }
  else if fieldId = AJ_HDR_SENDER then { msg with sender := hdrVal.val }
  else if fieldId = AJ_HDR_SIGNATURE then { msg with signature := hdrVal.val }
  else if fieldId = AJ_HDR_TIMESTAMP then { msg with timestamp := derefU32 hostLE bus hdrVal.val }
  else if fieldId = AJ_HDR_TIME_TO_LIVE then { msg with ttl := derefU32 hostLE bus hdrVal.val }
  else if fieldId = AJ_HDR_SESSION_ID then { msg with sessionId := derefU32 hostLE bus hdrVal.val }
  else msg

/-- The loop `while (ioBuf->readPtr < endOfHeader)` of `AJ_UnmarshalMsg`; `endOfHeader`
is an offset from the start of the RX buffer. Every turn that does not leave the
loop moves the read cursor forward by four bytes or more; the first argument
bounds the number of turns, and the result is `none` when it is used up. -/
def UnmarshalMsgFields (hostLE : Bool) (endOfHeader : Nat) :
    Nat → AJ_BusAttachment → AJ_Message → Option (AJ_Status × AJ_BusAttachment × AJ_Message)
  | fuel, bus, msg =>
    if bus.rx.readPtr < endOfHeader then
      match fuel with
      | 0 => none
      | fuel + 1 =>
        let l := LoadBytes bus.rx 4 (PadForType AJ_ARG_STRUCT bus.rx)
        if l.1 ≠ AJ_OK then some (l.1, { bus with rx := l.2 }, msg)
        else
          let fieldId := l.2.data.getD l.2.readPtr 0
          let fieldSig := AJ_Ptr.rx (l.2.readPtr + 2)
          let bus1 := { bus with rx := { l.2 with readPtr := l.2.readPtr + 4 } }
          let u := Unmarshal hostLE bus1 msg fieldSig
          if u.1 ≠ AJ_OK then some (u.1, u.2.1, u.2.2.1)
          else
            let hdrVal := u.2.2.2.2
            if fieldId ≤ AJ_HDR_SESSION_ID ∧ TypeForHdr.getD fieldId 0 ≠ hdrVal.typeId then
              some (AJ_ERR_UNMARSHAL, u.2.1, u.2.2.1)
            else
              UnmarshalMsgFields hostLE endOfHeader fuel u.2.1
                (UnmarshalMsgSwitch hostLE u.2.1 u.2.2.1 fieldId hdrVal)
    else some (AJ_OK, bus, msg)

/-- The function `AJ_UnmarshalMsg(bus, msg, timeout)`. The message is cleared at the
start, so that the result does not depend on it; the time-out is part of what the
transport does (the script); the bookkeeping of `currentMsg` in debug builds is left
out. The result is `none` when the assertion
`ioBuf->readPtr == endOfHeader` fails or a loop does not end; otherwise it holds
the status, the bus attachment and the message. -/
def AJ_UnmarshalMsg (ext : AJ_Externals) (hostLE : Bool) (bus : AJ_BusAttachment) :
    Option (AJ_Status × AJ_BusAttachment × AJ_Message) :=
  let msg0 : AJ_Message := { AJ_Message.zero with msgId := ext.AJ_INVALID_MSG_ID, bus := true }
  let rx0 := AJ_IOBufRebase bus.rx
  let h := UnmarshalMsgHeaderLoop rx0.context.script rx0
  let rx1 := { h.2.1 with context := { h.2.1.context with script := h.2.2 } }
  let bus1 := { bus with rx := rx1 }
  if h.1 ≠ AJ_OK then
    if h.1 = AJ_ERR_TIMEOUT ∧ (ext.AJ_TimedOutMethodCall msg0).1 = true then
      let msg1 := (ext.AJ_TimedOutMethodCall msg0).2
      some (AJ_OK, bus1,
        { msg1 with
          hdr := AJ_HdrPtr.internalError
          error := ext.AJ_ErrTimeout
          sender := ext.AJ_GetUniqueName bus1
          destination := ext.AJ_GetUniqueName bus1 })
    else some (h.1, bus1, if h.1 = AJ_ERR_TIMEOUT then (ext.AJ_TimedOutMethodCall msg0).2 else msg0)
  else
    let msg1 := { msg0 with hdr := AJ_HdrPtr.rx }
    let bus2 := { bus1 with rx := { bus1.rx with readPtr := bus1.rx.readPtr + 16 } }
    if hdrEndianess hostLE bus2 msg1 ≠ AJ_LITTLE_ENDIAN
        ∧ hdrEndianess hostLE bus2 msg1 ≠ AJ_BIG_ENDIAN then
      some (AJ_ERR_READ, bus2, msg1)
    else
      let bus3 := EndianSwap hostLE bus2 msg1 AJ_ARG_INT32 4 3
      let msg2 := { msg1 with bodyBytes := hdrBodyLen hostLE bus3 msg1 }
      let headerLen := hdrHeaderLen hostLE bus3 msg2
      let hdrPad := ((8 + 4294967296 - headerLen) % 4294967296) &&& 7
      let l := LoadBytes bus3.rx ((headerLen + hdrPad) % 4294967296) 0
      let bus4 := { bus3 with rx := l.2 }
      if l.1 ≠ AJ_OK then some (l.1, bus4, msg2)
      else
        let msg3 := { msg2 with signature := AJ_Ptr.mem [0] 0 }
        let endOfHeader := 16 + headerLen
        match UnmarshalMsgFields hostLE endOfHeader endOfHeader bus4 msg3 with
        | none => none
        | some f =>
          let r : Option (AJ_Status × AJ_BusAttachment × AJ_Message) :=
            if f.1 = AJ_OK then
              if f.2.1.rx.readPtr ≠ endOfHeader then none
              else
                let bus5 := { f.2.1 with rx := { f.2.1.rx with readPtr := f.2.1.rx.readPtr + hdrPad } }
                let d : AJ_Status × AJ_BusAttachment :=
                  if hdrFlags hostLE bus5 f.2.2 &&& AJ_FLAG_ENCRYPTED ≠ 0 then
                    let lb := LoadBytes bus5.rx (hdrBodyLen hostLE bus5 f.2.2) 0
                    if lb.1 = AJ_OK then DecryptMessage ext hostLE { bus5 with rx := lb.2 } f.2.2
                    else (lb.1, { bus5 with rx := lb.2 })
                  else (AJ_OK, bus5)
                let bus6 := hdrStore d.2 f.2.2 2 [hdrFlags hostLE d.2 f.2.2 ^^^ AJ_FLAG_AUTO_START]
                if d.1 = AJ_OK then
                  let i := ext.AJ_IdentifyMessage bus6 f.2.2
                  some (i.1, bus6, i.2)
                else some (d.1, bus6, f.2.2)
            else
              some (f.1, { f.2.1 with rx := { f.2.1.rx with readPtr := endOfHeader + hdrPad } },
                f.2.2)
          match r with
          | none => none
          | some q =>
            if q.1 = AJ_OK then some q
            else (AJ_CloseMsg q.2.1 q.2.2).map (fun c => (q.1, c.2.1, c.2.2))

/-! ## Name service: the parse of an IS-AT reply -/

/-- The flag `U6_FLAG` of a name-service answer. -/
abbrev U6_FLAG : Nat := 0x01
/-- The flag `R6_FLAG` of a name-service answer. -/
abbrev R6_FLAG : Nat := 0x02
/-- The flag `U4_FLAG` of a name-service answer. -/
abbrev U4_FLAG : Nat := 0x04
/-- The flag `R4_FLAG` of a name-service answer. -/
abbrev R4_FLAG : Nat := 0x08
/-- The flag `C_FLAG` of a name-service answer. -/
abbrev C_FLAG : Nat := 0x10
/-- The flag `G_FLAG` of a name-service answer. -/
abbrev G_FLAG : Nat := 0x20

/-- The macro `MSG_TYPE(flags)`. -/
def MSG_TYPE (flags : Nat) : Nat := flags &&& 0xC0

/-- The macro `MSG_VERSION(flags)`. -/
def MSG_VERSION (flags : Nat) : Nat := flags &&& 0x0F

/-- Modelled from the spec: the bit of `addrTypes` that says that the IPv4 address
and port are valid (`AJ_ADDR_IPV4` of `aj_disco.h`). -/
abbrev AJ_ADDR_IPV4 : Nat := 0x04
/-- Modelled from the spec: the bit of `addrTypes` that says that the IPv6 address
and port are valid (`AJ_ADDR_IPV6` of `aj_disco.h`). -/
abbrev AJ_ADDR_IPV6 : Nat := 0x60

/-- Modelled from the spec: the structure `AJ_Service` of `aj_disco.h`, the "parsed
IS-AT result: transport mask (16 bits), IPv4 address+port (optional), IPv6
address+port (optional), and a set `addrTypes`". The addresses are kept as the
bytes that `memcpy` stores, in the order of the wire. -/
structure AJ_Service where
  addrTypes : Nat := 0
  transportMask : Nat := 0
  ipv4 : List Nat := [0, 0, 0, 0]
  ipv4port : Nat := 0
  ipv6 : List Nat := List.replicate 16 0
  ipv6port : Nat := 0
  deriving DecidableEq, Repr

/-- The loop `while (nameCount--)` over the names of a question in `ParseIsAt`:
the pointer behind the names, or `none` when `p > eod` is met. -/
def nsSkipNames (data : List Nat) (eod : Nat) : Nat → Nat → Option Nat
  | 0, p => some p
  | nameCount + 1, p =>
    let sz := data.getD p 0
    let p1 := p + 1 + sz
    if p1 > eod then none else nsSkipNames data eod nameCount p1

/-- The loop `while (hdr->qCount--)` of `ParseIsAt`, by recursion on the value of
`hdr->qCount` (the byte at `hdr + 1`, which the loop test decrements in the
buffer). The result holds the status with which the function is left (`none` when
the loop ends), the memory of the buffer and `p`. -/
def nsQuestions (hdr eod : Nat) : Nat → List Nat → Nat → Option AJ_Status × List Nat × Nat
  | 0, data, p => (none, writeBytesAt data (hdr + 1) [255], p)
  | qCount + 1, data, p =>
    let data1 := writeBytesAt data (hdr + 1) [qCount]
    let flags := data1.getD p 0
    let nameCount := data1.getD (p + 1) 0
    let p1 := p + 2
    if MSG_TYPE flags ≠ WHO_HAS_MSG then (some AJ_ERR_INVALID, data1, p1)
    else
      match nsSkipNames data1 eod nameCount p1 with
      | none => (some AJ_ERR_END_OF_DATA, data1, p1)
      | some p2 => nsQuestions hdr eod qCount data1 p2

/-- The loop `while (nameCount--)` over the names of an answer in `ParseIsAt`. Each
turn saves the byte behind the name, stores a NUL there for the debug output and
puts the saved byte back. The result holds the status with which the function is
left (`none` when the loop ends), the memory of the buffer and `p`. -/
def nsMatchNames (pre : List Nat) (preLen eod : Nat) :
    Nat → List Nat → Nat → Option AJ_Status × List Nat × Nat
  | 0, data, p => (none, data, p)
  | nameCount + 1, data, p =>
    let sz := data.getD p 0
    let p1 := p + 1
    let sav := data.getD (p1 + sz) 0
    let data1 := writeBytesAt (writeBytesAt data (p1 + sz) [0]) (p1 + sz) [sav]
    if preLen ≤ sz ∧ readBytes data1 p1 preLen = pre.take preLen then (some AJ_OK, data1, p1)
    else
      let p2 := p1 + sz
      if p2 > eod then (some AJ_ERR_END_OF_DATA, data1, p2)
      else nsMatchNames pre preLen eod nameCount data1 p2

/-- The loop `while (hdr->aCount--)` of `ParseIsAt`, by recursion on the value of
`hdr->aCount` (the byte at `hdr + 2`). The result holds the status that the
function returns, the memory of the buffer and the service. -/
def nsAnswers (pre : List Nat) (preLen hdr eod : Nat) :
    Nat → List Nat → Nat → AJ_Service → AJ_Status × List Nat × AJ_Service
  | 0, data, _, service => (AJ_ERR_NO_MATCH, writeBytesAt data (hdr + 2) [255], service)
  | aCount + 1, data, p, service =>
    let data1 := writeBytesAt data (hdr + 2) [aCount]
    let flags := data1.getD p 0
    let nameCount := data1.getD (p + 1) 0
    let p1 := p + 2
    if MSG_TYPE flags ≠ IS_AT_MSG then (AJ_ERR_INVALID, data1, service)
    else if flags &&& (R4_FLAG ||| R6_FLAG) = 0 then (AJ_ERR_NO_MATCH, data1, service)
    else
      let s1 := { service with
        transportMask := ((data1.getD p1 0 <<< 8) ||| data1.getD (p1 + 1) 0) % 65536 }
      let p2 := p1 + 2
      let s2 := if flags &&& R4_FLAG ≠ 0 then
          { s1 with
            ipv4 := readBytes data1 p2 4
            ipv4port := ((data1.getD (p2 + 4) 0 <<< 8) ||| data1.getD (p2 + 5) 0) % 65536
            addrTypes := (s1.addrTypes ||| AJ_ADDR_IPV4) % 256 }
        else s1
      let p3 := if flags &&& R4_FLAG ≠ 0 then p2 + 6 else p2
      let p4 := if flags &&& U4_FLAG ≠ 0 then p3 + 6 else p3
      let s3 := if flags &&& R6_FLAG ≠ 0 then
          { s2 with
            ipv6 := readBytes data1 p4 16
            ipv6port := ((data1.getD (p4 + 16) 0 <<< 8) ||| data1.getD (p4 + 17) 0) % 65536
            addrTypes := (s2.addrTypes ||| AJ_ADDR_IPV6) % 256 }
        else s2
      let p5 := if flags &&& R6_FLAG ≠ 0 then p4 + 18 else p4
      let p6 := if flags &&& U6_FLAG ≠ 0 then p5 + 18 else p5
      let p7 := if flags &&& G_FLAG ≠ 0 then p6 + 1 + data1.getD p6 0 else p6
      if p7 ≥ eod then (AJ_ERR_END_OF_DATA, data1, s3)
      else
        match nsMatchNames pre preLen eod nameCount data1 p7 with
        | (some st, data2, _) => (st, data2, s3)
        | (none, data2, p8) => nsAnswers pre preLen hdr eod aCount data2 p8 s3

/-- The function `ParseIsAt(rxBuf, prefix, service)` of `aj_disco.c`; `pre` is the
memory of the C string `prefix`. The result holds the status, the RX buffer and
`*service`. -/
def ParseIsAt (rxBuf : AJ_IOBuffer) (pre : List Nat) (service : AJ_Service) :
    AJ_Status × AJ_IOBuffer × AJ_Service :=
  let preLen := strlen pre % SIZE_T_MOD
  let hdr := rxBuf.readPtr
  let len := AJ_IO_BUF_AVAIL rxBuf % 4294967296
  let p := rxBuf.readPtr + 4
  let eod := hdr + len
  let service1 := { service with addrTypes := 0 }
  if MSG_VERSION (rxBuf.data.getD hdr 0) ≠ MSG_V1 then (AJ_ERR_NO_MATCH, rxBuf, service1)
  else
    match nsQuestions hdr eod (rxBuf.data.getD (hdr + 1) 0) rxBuf.data p with
    | (some st, data1, _) => (st, { rxBuf with data := data1 }, service1)
    | (none, data1, p1) =>
      let r := nsAnswers pre preLen hdr eod (data1.getD (hdr + 2) 0) data1 p1 service1
      (r.1, { rxBuf with data := r.2.1 }, r.2.2)

/-! ## Name service: the discovery loop -/

/-- The constant `RX_TIMEOUT` of `aj_disco.c`, in milliseconds. -/
abbrev RX_TIMEOUT : Nat := 1000

/-- Modelled from the spec: the multicast socket `AJ_NetSocket` of `aj_net.h` with
its two I/O buffers; their callbacks are the transport ("two function pointers
`fill` and `drain`"). -/
structure AJ_NetSocket where
  rx : AJ_IOBuffer := {}
  tx : AJ_IOBuffer := {}
  deriving DecidableEq, Repr

/-- The platform under `AJ_Discover`: the status that `AJ_Net_MCastUp` returns (the
socket that it opens is an argument of the model), and the values that the
successive calls of `AJ_GetElapsedTime` return (32-bit numbers of milliseconds).
`AJ_InitTimer` and `AJ_Net_MCastDown` have no effect on the result. -/
structure DiscoverEnv where
  mcastUp : AJ_Status := AJ_OK
  elapsed : List Nat := []
  deriving DecidableEq, Repr

/-- One turn of the loop `while (TRUE)` of `AJ_Discover` up to the test of the
stopwatch: the RX buffer is reset, `recv` is called, and a received packet is
parsed into the zeroed `service`. -/
def discoverRecvStep (pre : List Nat) (sock : AJ_NetSocket) (service : AJ_Service) :
    AJ_Status × AJ_NetSocket × AJ_Service :=
  let r := netRecv (AJ_IO_BUF_RESET sock.rx)
  if r.1 = AJ_OK then
    let q := ParseIsAt r.2 pre {}
    (q.1, { sock with rx := q.2.1 }, q.2.2)
  else (r.1, { sock with rx := r.2 }, service)

/-- The loop `while (TRUE)` of `AJ_Discover`, by recursion on the readings of
`AJ_GetElapsedTime(&recvStopWatch, TRUE)` that are left. The loop is left with
`AJ_OK` by `goto _Exit`, with another status by `break`; `none` when the readings
end before the loop does. -/
def discoverRecvLoop (pre : List Nat) :
    List Nat → AJ_NetSocket → AJ_Service →
      Option (AJ_Status × AJ_NetSocket × AJ_Service × List Nat)
  | [], sock, service =>
    let s := discoverRecvStep pre sock service
    if s.1 = AJ_OK then some (AJ_OK, s.2.1, s.2.2, []) else none
  | e :: rest, sock, service =>
    let s := discoverRecvStep pre sock service
    if s.1 = AJ_OK then some (AJ_OK, s.2.1, s.2.2, e :: rest)
    else if e % 4294967296 > RX_TIMEOUT then some (s.1, s.2.1, s.2.2, rest)
    else discoverRecvLoop pre rest s.2.1 s.2.2

/-- The loop `while ((int32_t)timeout > 0)` of `AJ_Discover` with fuel for its
turns; `status` is the local variable of the function. The result is the value of
`status` at the label `_Exit`, the socket, `*service` and the readings left. -/
def discoverLoop (pre : List Nat) :
    Nat → Nat → AJ_Status → AJ_NetSocket → AJ_Service → List Nat →
      Option (AJ_Status × AJ_NetSocket × AJ_Service × List Nat)
  | 0, timeout, status, sock, service, elapsed =>
    if ¬ (0 < timeout ∧ timeout < 2147483648) then some (status, sock, service, elapsed)
    else none
  | fuel + 1, timeout, status, sock, service, elapsed =>
    if ¬ (0 < timeout ∧ timeout < 2147483648) then some (status, sock, service, elapsed)
    else
      let tx1 := (ComposeWhoHas (AJ_IO_BUF_RESET sock.tx) pre).2
      let sock1 := { sock with tx := (netSend tx1).2 }
      match discoverRecvLoop pre elapsed sock1 service with
      | none => none
      | some (st, sock2, service2, elapsed2) =>
        if st = AJ_OK then some (AJ_OK, sock2, service2, elapsed2)
        else
          match elapsed2 with
          | [] => none
          | e :: rest =>
            discoverLoop pre fuel
              ((timeout + 4294967296 - e % 4294967296) % 4294967296) st sock2 service2 rest

/-- The function `AJ_Discover(prefix, service, timeout)` of `aj_disco.c` on the
socket `sock` that `AJ_Net_MCastUp` opens. Every turn of the outer loop that does
not leave the function takes two readings of the clock, so the number of readings
is enough fuel. -/
def AJ_Discover (pre : List Nat) (service : AJ_Service) (timeout : Nat) (env : DiscoverEnv)
    (sock : AJ_NetSocket) : Option (AJ_Status × AJ_NetSocket × AJ_Service × List Nat) :=
  let status := env.mcastUp
  if status ≠ AJ_OK then some (status, sock, service, env.elapsed)
  else discoverLoop pre env.elapsed.length (timeout % 4294967296) status sock service env.elapsed

/-! ## NVRAM store

The backing region `AJ_NVRAM_BASE_ADDRESS[0 .. AJ_NVRAM_SIZE)` is a list of bytes
`nv`; `AJ_NVRAM_SIZE` is a parameter of the model, the length of `nv`. Pointers into
the region are offsets from `AJ_NVRAM_BASE_ADDRESS`. A store that runs past the end
of the region makes the list longer (see `writeBytesAt`). -/

/-- Modelled from the spec: "entries are stored contiguously after a sentinel word
at the start of the backing region" (`SENTINEL_OFFSET` of `aj_nvram.h`). -/
abbrev SENTINEL_OFFSET : Nat := 4
/-- Modelled from the spec: "a record with a 4-byte header" (`ENTRY_HEADER_SIZE`). -/
abbrev ENTRY_HEADER_SIZE : Nat := 4
/-- Modelled from the spec: "`id = 0xFFFF` marks end-of-used" (`INVALID_DATA`). -/
abbrev INVALID_DATA : Nat := 0xFFFF
/-- Modelled from the spec: "`id = 0` marks a tombstone" (`INVALID_ID`). -/
abbrev INVALID_ID : Nat := 0
/-- Modelled from the spec: the "invalid-byte pattern" of erased memory, the byte of
which `INVALID_DATA` is made (`INVALID_DATA_BYTE`). -/
abbrev INVALID_DATA_BYTE : Nat := 0xFF
/-- Modelled from the spec: "`capacity` rounded up to a multiple of 4" (the macro
`WORD_ALIGN` of `aj_nvram.h`), before the result is stored into a variable. -/
def WORD_ALIGN (x : Nat) : Nat := (x + 3) / 4 * 4

/-- The access mode `AJ_NV_DATASET_RD_ONLY`. -/
abbrev AJ_NV_DATASET_RD_ONLY : Nat := 1
/-- The access mode `AJ_NV_DATASET_WR_ONLY`. -/
abbrev AJ_NV_DATASET_WR_ONLY : Nat := 2

/-- Modelled from the spec: the handle `AJ_NV_DATASET` of `aj_nvram.h`, the "open
cursor `{id, mode, cursorPos, entryPtr}`"; `curPos` is a 16-bit field like the
capacity it is compared with, `inode` is the offset of the header of the record. -/
structure AJ_NV_DATASET where
  id : Nat := 0
  curPos : Nat := 0
  mode : Nat := 0
  inode : Nat := 0
  deriving DecidableEq, Repr

/-- The function `_AJ_NV_Write(dest, buf, size)` of `aj_target_nvram.c`: `memcpy` of
the bytes `bytes` to the offset `dest` of the region (the copy of the region to a
file is outside the model). -/
def _AJ_NV_Write (nv : List Nat) (dest : Nat) (bytes : List Nat) : List Nat :=
  writeBytesAt nv dest bytes

/-- Modelled from the spec: the function `_AJ_NV_Read(src, buf, size)` of the
platform adapter, the `memcpy` of `size` bytes from the offset `src` of the
region. -/
def _AJ_NV_Read (nv : List Nat) (src : Nat) (size : Nat) : List Nat :=
  readBytes nv src size

/-- The loop of `AJ_FindNVEntry`, with `data` as a byte offset. Every turn advances
`data` by `2 * ((4 + capacity) >> 1)`, which is at least 4, so that after
`nv.length` turns `data` is behind the end of the region and the loop has ended:
the fuel `nv.length` is never used up inside the region. -/
def findNVLoop (hostLE : Bool) (nv : List Nat) (id : Nat) : Nat → Nat → Option Nat
  | 0, _ => none
  | fuel + 1, data =>
    if data < nv.length then
      if readU16 hostLE nv data ≠ id then
        let capacity := readU16 hostLE nv (data + 2)
        if readU16 hostLE nv data = INVALID_DATA then none
        else findNVLoop hostLE nv id fuel (data + 2 * ((ENTRY_HEADER_SIZE + capacity) >>> 1))
      else some data
    else none

/-- The function `AJ_FindNVEntry(id)`: the offset of the entry, `none` for `NULL`. -/
def AJ_FindNVEntry (hostLE : Bool) (nv : List Nat) (id : Nat) : Option Nat :=
  findNVLoop hostLE nv id nv.length SENTINEL_OFFSET

/-- The function `AJ_NVRAM_Exist(id)`. -/
def AJ_NVRAM_Exist (hostLE : Bool) (nv : List Nat) (id : Nat) : Bool :=
  if id = 0 then false else (AJ_FindNVEntry hostLE nv id).isSome

/-- The loop of `_AJ_CompactNVStorage`; `entrySize` and `garbage` are `uint16_t`.
The copy of a record to `writePtr` reads the record and then stores it. The result
is the region, `writePtr` and `garbage`; `none` when the fuel is used up (an entry
size of 0 or 1 does not advance `data`). -/
def compactLoop (hostLE : Bool) : Nat → List Nat → Nat → Nat → Nat → Option (List Nat × Nat × Nat)
  | 0, _, _, _, _ => none
  | fuel + 1, nv, data, writePtr, garbage =>
    if data < nv.length ∧ readU16 hostLE nv data ≠ INVALID_DATA then
      let id := readU16 hostLE nv data
      let capacity := readU16 hostLE nv (data + 2)
      let entrySize := (ENTRY_HEADER_SIZE + capacity) % 65536
      if id ≠ INVALID_ID then
        compactLoop hostLE fuel (_AJ_NV_Write nv writePtr (readBytes nv data entrySize))
          (data + 2 * (entrySize >>> 1)) (writePtr + entrySize) garbage
      else
        compactLoop hostLE fuel nv (data + 2 * (entrySize >>> 1)) writePtr
          ((garbage + entrySize) % 65536)
    else some (nv, writePtr, garbage)

/-- The function `_AJ_CompactNVStorage()` of `aj_target_nvram.c`: the loop, then
`memset(writePtr, INVALID_DATA_BYTE, garbage)`. -/
def _AJ_CompactNVStorage (hostLE : Bool) (nv : List Nat) : Option (AJ_Status × List Nat) :=
  match compactLoop hostLE (nv.length + 1) nv SENTINEL_OFFSET SENTINEL_OFFSET 0 with
  | none => none
  | some (nv1, writePtr, garbage) =>
    some (AJ_OK, writeBytesAt nv1 writePtr (List.replicate garbage INVALID_DATA_BYTE))

/-- The test `!ptr || ptr + ENTRY_HEADER_SIZE + capacity > AJ_NVRAM_END_ADDRESS` of
`AJ_NVRAM_Create`. -/
def nvNoRoom (nv : List Nat) (ptr : Option Nat) (capacity : Nat) : Bool :=
  match ptr with
  | none => true
  | some p => decide (p + ENTRY_HEADER_SIZE + capacity > nv.length)

/-- The end of `AJ_NVRAM_Create`: the header `{id, capacity}` is written at `ptr`. -/
def nvWriteHeader (hostLE : Bool) (nv : List Nat) (ptr : Option Nat) (id capacity : Nat) :
    List Nat :=
  _AJ_NV_Write nv (ptr.getD 0) (u16Bytes hostLE id ++ u16Bytes hostLE capacity)

/-- The function `AJ_NVRAM_Create(id, capacity)`; the parameter `capacity` is a
`uint16_t`, into which the aligned capacity is stored back. `none` when the
compaction does not return. -/
def AJ_NVRAM_Create (hostLE : Bool) (nv : List Nat) (id capacity : Nat) :
    Option (AJ_Status × List Nat) :=
  if capacity = 0 ∨ AJ_NVRAM_Exist hostLE nv id = true then some (AJ_ERR_FAILURE, nv)
  else
    let capacity1 := WORD_ALIGN capacity % 65536
    let ptr := AJ_FindNVEntry hostLE nv INVALID_DATA
    if nvNoRoom nv ptr capacity1 = true then
      match _AJ_CompactNVStorage hostLE nv with
      | none => none
      | some (_, nv1) =>
        let ptr1 := AJ_FindNVEntry hostLE nv1 INVALID_DATA
        if nvNoRoom nv1 ptr1 capacity1 = true then some (AJ_ERR_FAILURE, nv1)
        else some (AJ_OK, nvWriteHeader hostLE nv1 ptr1 id capacity1)
    else some (AJ_OK, nvWriteHeader hostLE nv ptr id capacity1)

/-- The function `AJ_NVRAM_Delete(id)`: the header is copied, its `id` is set to 0
and it is written back. -/
def AJ_NVRAM_Delete (hostLE : Bool) (nv : List Nat) (id : Nat) : AJ_Status × List Nat :=
  match AJ_FindNVEntry hostLE nv id with
  | none => (AJ_ERR_FAILURE, nv)
  | some ptr =>
    (AJ_OK, _AJ_NV_Write nv ptr (u16Bytes hostLE 0 ++ readBytes nv (ptr + 2) 2))

/-- The function `AJ_NVRAM_Open(id, mode, capacity)`; `mode` is the memory of the C
string, `mallocOk` says whether `AJ_Malloc` (not part of this file) returns memory
for the handle. The result is the handle (`none` for `NULL`) and the region; `none`
when the compaction inside `AJ_NVRAM_Create` does not return. -/
def AJ_NVRAM_Open (hostLE : Bool) (mallocOk : Bool) (nv : List Nat) (id : Nat) (mode : List Nat)
    (capacity : Nat) : Option (Option AJ_NV_DATASET × List Nat) :=
  if id = 0 then some (none, nv)
  else
    let m := mode.take (strlen mode)
    if m ≠ [114] ∧ m ≠ [119] then some (none, nv)
    else
      let access := if m = [114] then AJ_NV_DATASET_RD_ONLY else AJ_NV_DATASET_WR_ONLY
      let entry := AJ_FindNVEntry hostLE nv id
      if entry = none ∧ access = AJ_NV_DATASET_RD_ONLY then some (none, nv)
      else if access = AJ_NV_DATASET_WR_ONLY then
        if capacity = 0 then some (none, nv)
        else
          let d := if AJ_NVRAM_Exist hostLE nv id = true then AJ_NVRAM_Delete hostLE nv id
                   else (AJ_OK, nv)
          if d.1 ≠ AJ_OK then some (none, d.2)
          else
            match AJ_NVRAM_Create hostLE d.2 id capacity with
            | none => none
            | some (status, nv2) =>
              if status ≠ AJ_OK then some (none, nv2)
              else
                match AJ_FindNVEntry hostLE nv2 id with
                | none => some (none, nv2)
                | some e =>
                  if mallocOk then
                    some (some { id := id, curPos := 0, mode := access, inode := e }, nv2)
                  else some (none, nv2)
      else
        if mallocOk then
          some (some { id := id, curPos := 0, mode := access, inode := entry.getD 0 }, nv)
        else some (none, nv)

/-- The function `AJ_NVRAM_Write(ptr, size, handle)` for a handle that is not
`NULL`; `buf` is the memory from `ptr` on. `bytesWrite` is a `uint16_t`,
`patchBytes` a `uint8_t`; the result is a `size_t` (`-1` is `SIZE_T_MOD - 1`), the
region and the handle. -/
def AJ_NVRAM_Write (hostLE : Bool) (nv : List Nat) (buf : List Nat) (size : Nat)
    (handle : AJ_NV_DATASET) : Nat × List Nat × AJ_NV_DATASET :=
  let capacity := readU16 hostLE nv (handle.inode + 2)
  if handle.mode = AJ_NV_DATASET_RD_ONLY then (SIZE_T_MOD - 1, nv, handle)
  else if capacity ≤ handle.curPos then (SIZE_T_MOD - 1, nv, handle)
  else
    let bytesWrite0 := (capacity - handle.curPos) % 65536
    let bytesWrite1 := if bytesWrite0 < size then bytesWrite0 else size
    let patch := decide (bytesWrite1 > 0 ∧ handle.curPos &&& 0x3 ≠ 0)
    let alignedPos := handle.curPos - (handle.curPos &&& 0x3)
    let patchBytes := if patch then 4 - (handle.curPos &&& 0x3) else 0
    let tmpBuf := readBytes nv (handle.inode + ENTRY_HEADER_SIZE + alignedPos)
        (handle.curPos &&& 0x3) ++ readBytes buf 0 patchBytes
    let nv1 := if patch then _AJ_NV_Write nv (handle.inode + ENTRY_HEADER_SIZE + alignedPos) tmpBuf
               else nv
    let bytesWrite2 := if patch then (bytesWrite1 + 65536 - patchBytes) % 65536 else bytesWrite1
    let curPos1 := if patch then (handle.curPos + patchBytes) % 65536 else handle.curPos
    if bytesWrite2 > 0 then
      (((bytesWrite2 + patchBytes) % SIZE_T_MOD),
        _AJ_NV_Write nv1 (handle.inode + ENTRY_HEADER_SIZE + curPos1)
          (readBytes buf patchBytes bytesWrite2),
        { handle with curPos := (curPos1 + bytesWrite2) % 65536 })
    else (((bytesWrite2 + patchBytes) % SIZE_T_MOD), nv1, { handle with curPos := curPos1 })

/-- The function `AJ_NVRAM_Read(ptr, size, handle)` for a handle that is not `NULL`:
the result, the bytes stored at `ptr`, and the handle. -/
def AJ_NVRAM_Read (hostLE : Bool) (nv : List Nat) (size : Nat) (handle : AJ_NV_DATASET) :
    Nat × List Nat × AJ_NV_DATASET :=
  let capacity := readU16 hostLE nv (handle.inode + 2)
  if handle.mode = AJ_NV_DATASET_WR_ONLY then (SIZE_T_MOD - 1, [], handle)
  else if capacity ≤ handle.curPos then (SIZE_T_MOD - 1, [], handle)
  else
    let bytesRead0 := (capacity - handle.curPos) % 65536
    let bytesRead := if bytesRead0 < size then bytesRead0 else size
    if bytesRead > 0 then
      (bytesRead, _AJ_NV_Read nv (handle.inode + ENTRY_HEADER_SIZE + handle.curPos) bytesRead,
        { handle with curPos := (handle.curPos + bytesRead) % 65536 })
    else (bytesRead, [], handle)

/-- The function `AJ_NVRAM_Close(handle)`. -/
def AJ_NVRAM_Close (handle : Option AJ_NV_DATASET) : AJ_Status :=
  match handle with
  | none => AJ_ERR_INVALID
  | some _ => AJ_OK

/-! ## Marshalling: variants -/

/-- The function `AJ_MarshalVariant(msg, sig)` for a non-null `sig`, a pointer to a
C string. The result holds the status, the bus attachment and the message; the
argument is a local variable of the function. -/
def AJ_MarshalVariant (hostLE : Bool) (bus : AJ_BusAttachment) (msg : AJ_Message)
    (sig : AJ_Ptr) : AJ_Status × AJ_BusAttachment × AJ_Message :=
  if CompleteTypeSigLenPtr bus sig ≠ strlen (derefFrom bus sig) % SIZE_T_MOD then
    (AJ_ERR_UNEXPECTED, bus, msg)
  else
    let r := AJ_MarshalArg hostLE bus msg (InitArg AJ_ARG_VARIANT sig)
    (r.1, r.2.1, r.2.2.1)

/-- The character `typeId = **sig` that `Unmarshal(msg, sig, arg)` hands to
`PadForType(typeId, ioBuf)`, the statement behind the test `if (!*sig || !**sig)`:
`none` when that test leaves the function. `PadForType` evaluates
`ALIGNMENT(typeId)`, the lookup `TypeFlags[TypeFlagsIndex typeId]`. -/
def UnmarshalTypeId (bus : AJ_BusAttachment) (sig : AJ_Ptr) : Option Nat :=
  if sig = AJ_Ptr.null ∨ derefByte bus sig 0 = 0 then none else some (derefByte bus sig 0)

/-! ## Notions, call sequences and concrete inputs of the statements -/

/-- The alignment of a type of the wire format is 1, 2, 4 or 8. -/
def IsAlign (a : Nat) : Prop := a = 1 ∨ a = 2 ∨ a = 4 ∨ a = 8

/-- The bus attachment after `bytes` have been put into the TX buffer at the write
cursor. -/
def txAppend (bus : AJ_BusAttachment) (bytes : List Nat) : AJ_BusAttachment :=
  { bus with tx := { bus.tx with
      data := writeBytesAt bus.tx.data bus.tx.writePtr bytes
      writePtr := bus.tx.writePtr + bytes.length } }

/-- The TX buffer has room for `n` more bytes. -/
def TxRoom (bus : AJ_BusAttachment) (n : Nat) : Prop :=
  bus.tx.writePtr + n ≤ bus.tx.bufSize ∧ bus.tx.data.length = bus.tx.bufSize
    ∧ bus.tx.bufSize < 65536

/-- The bytes of a value of a basic type on the wire, after the padding: the value
itself for a scalar, and for a string its length (four bytes in the byte order
of the sender, or one byte for a signature), its characters and a NUL. -/
def wireBody (hostLE : Bool) (t : Nat) (v : List Nat) : List Nat :=
  if IsScalarType t ≠ 0 then v
  else if ALIGNMENT t = 1 then [v.length % 256] ++ v ++ [0]
  else u32Bytes hostLE v.length ++ v ++ [0]

/-- The bus attachment with the read cursor of the RX buffer moved to `p`. -/
def rxAt (bus : AJ_BusAttachment) (p : Nat) : AJ_BusAttachment :=
  { bus with rx := { bus.rx with readPtr := p } }

/-- In the RX buffer `n` bytes are available from the read cursor on. -/
def RxAvail (bus : AJ_BusAttachment) (n : Nat) : Prop :=
  bus.rx.readPtr + n ≤ bus.rx.writePtr ∧ bus.rx.writePtr ≤ bus.rx.bufSize
    ∧ bus.rx.data.length = bus.rx.bufSize ∧ bus.rx.bufSize < 65536

/-- The basic types: BYTE, BOOL, INT16, UINT16, INT32, UINT32, INT64, UINT64, DOUBLE,
HANDLE, STRING, OBJ_PATH, SIGNATURE. -/
def basicTypes : List Nat :=
  [AJ_ARG_BYTE, AJ_ARG_BOOLEAN, AJ_ARG_INT16, AJ_ARG_UINT16, AJ_ARG_INT32, AJ_ARG_UINT32,
   AJ_ARG_INT64, AJ_ARG_UINT64, AJ_ARG_DOUBLE, AJ_ARG_HANDLE, AJ_ARG_STRING, AJ_ARG_OBJ_PATH,
   AJ_ARG_SIGNATURE]

/-- The bytes `v` are a value of the basic type `t`: as many bytes as the size of
a scalar type, and for a string type characters other than NUL, at most 255 of
them when the length is carried in one byte. -/
def IsValueOf (t : Nat) (v : List Nat) : Prop :=
  if IsScalarType t ≠ 0 then v.length = SizeOfType t
  else (∀ b ∈ v, b ≠ 0) ∧ (ALIGNMENT t = 1 → v.length ≤ 255)

/-- A TX buffer of 512 zero bytes with the write cursor behind a 16-byte header. -/
def c1Bus : AJ_BusAttachment :=
  { tx := { direction := AJ_IO_BUF_TX, bufSize := 512, data := List.replicate 512 0,
            writePtr := 16 } }

/-- A message that is being marshalled, with the signature `g`. -/
def c1Msg : AJ_Message :=
  { hdr := AJ_HdrPtr.tx, signature := AJ_Ptr.mem [AJ_ARG_SIGNATURE] 0, bus := true }

/-- A TX buffer of 32 bytes with the write cursor at the odd offset 17. -/
def c1wBus : AJ_BusAttachment :=
  { tx := { direction := AJ_IO_BUF_TX, bufSize := 32, data := List.replicate 32 170,
            writePtr := 17 } }

/-- An RX buffer of 32 bytes that holds, from offset 17 on, three pad bytes and the
string `hi` as `Marshal` wrote it on a little-endian host; its first byte is the
endianness byte `l`. -/
def c1wBusR : AJ_BusAttachment :=
  { rx := { direction := AJ_IO_BUF_RX, bufSize := 32,
            data := [108, 1, 0, 1, 0, 0, 0, 0, 0, 0, 0, 0, 0, 0, 0, 0, 9,
                     0, 0, 0, 2, 0, 0, 0, 104, 105, 0, 7, 7, 7, 7, 7],
            readPtr := 17, writePtr := 27 } }

/-- The message with the signature cursor and the count of body bytes replaced. -/
def msgStep (msg : AJ_Message) (sigOffset bodyBytes : Nat) : AJ_Message :=
  { msg with sigOffset := sigOffset, bodyBytes := bodyBytes }

/-- The characters of `hello`. -/
def helloBytes : List Nat := [104, 101, 108, 108, 111]

/-- The characters of `world`. -/
def worldBytes : List Nat := [119, 111, 114, 108, 100]

/-- A TX buffer of 64 bytes with the write cursor at offset 24. -/
def c3Bus : AJ_BusAttachment :=
  { tx := { direction := AJ_IO_BUF_TX, bufSize := 64, data := List.replicate 64 170,
            writePtr := 24 } }

/-- A message that is being marshalled, with the signature `ss`. -/
def c3Msg : AJ_Message :=
  { hdr := AJ_HdrPtr.tx, signature := AJ_Ptr.mem [AJ_ARG_STRING, AJ_ARG_STRING] 0, bus := true }

/-- The invariant of the TX buffer: the write cursor is inside the region, `data`
is the region, and the size fits the 16-bit field. -/
def TxWF (bus : AJ_BusAttachment) : Prop := TxRoom bus 0

/-- One step of the TX buffer: the invariant holds afterwards, the RX buffer, the
direction and the size are unchanged and the write cursor has not moved back. -/
def TxStep (bus bus1 : AJ_BusAttachment) : Prop :=
  TxWF bus1 ∧ bus1.rx = bus.rx ∧ bus1.tx.direction = bus.tx.direction
    ∧ bus1.tx.bufSize = bus.tx.bufSize ∧ bus.tx.writePtr ≤ bus1.tx.writePtr

/-- The characters that have an entry other than 0 in `TypeFlags`: the 17 types of
the wire format. -/
def wireTypes : List Nat :=
  [AJ_ARG_STRUCT, AJ_ARG_ARRAY, AJ_ARG_BOOLEAN, AJ_ARG_DOUBLE, AJ_ARG_SIGNATURE, AJ_ARG_HANDLE,
   AJ_ARG_INT32, AJ_ARG_INT16, AJ_ARG_OBJ_PATH, AJ_ARG_UINT16, AJ_ARG_STRING, AJ_ARG_UINT64,
   AJ_ARG_UINT32, AJ_ARG_VARIANT, AJ_ARG_INT64, AJ_ARG_BYTE, AJ_ARG_DICT_ENTRY]

/-- A sequence of calls of `AJ_MarshalArg`, one for each argument of the list in
turn, up to the first call that does not return OK. -/
def AJ_MarshalArgSeq (hostLE : Bool) :
    List AJ_Arg → AJ_BusAttachment → AJ_Message → AJ_Status × AJ_BusAttachment × AJ_Message
  | [], bus, msg => (AJ_OK, bus, msg)
  | arg :: rest, bus, msg =>
    if (AJ_MarshalArg hostLE bus msg arg).1 ≠ AJ_OK then
      ((AJ_MarshalArg hostLE bus msg arg).1, (AJ_MarshalArg hostLE bus msg arg).2.1,
        (AJ_MarshalArg hostLE bus msg arg).2.2.1)
    else
      AJ_MarshalArgSeq hostLE rest (AJ_MarshalArg hostLE bus msg arg).2.1
        (AJ_MarshalArg hostLE bus msg arg).2.2.1

/-- A TX buffer of 32 bytes with the write cursor at the odd offset 17. -/
def c4Bus : AJ_BusAttachment :=
  { tx := { direction := AJ_IO_BUF_TX, bufSize := 32, data := List.replicate 32 170,
            writePtr := 17 } }

/-- A message that is being marshalled, with the signature `yu`. -/
def c4Msg : AJ_Message :=
  { hdr := AJ_HdrPtr.tx, signature := AJ_Ptr.mem [AJ_ARG_BYTE, AJ_ARG_UINT32] 0, bus := true }

/-- A TX buffer of 64 bytes with the write cursor at offset 24, a multiple of 8. -/
def c5Bus : AJ_BusAttachment :=
  { tx := { direction := AJ_IO_BUF_TX, bufSize := 64, data := List.replicate 64 170,
            writePtr := 24 } }

/-- A message that is being marshalled, with the signature `at`. -/
def c5Msg : AJ_Message :=
  { hdr := AJ_HdrPtr.tx, signature := AJ_Ptr.mem [AJ_ARG_ARRAY, AJ_ARG_UINT64] 0, bus := true }

/-- The bus attachment after the array of `c5Msg` was opened and two 64-bit
integers were marshalled into it. -/
def c5Bus2 : AJ_BusAttachment :=
  (AJ_MarshalArgs true [AJ_ARG_UINT64, AJ_ARG_UINT64] [AJ_InVal.num 1, AJ_InVal.num 2]
    (AJ_MarshalContainer true c5Bus c5Msg AJ_ARG_ARRAY).2.1
    (AJ_MarshalContainer true c5Bus c5Msg AJ_ARG_ARRAY).2.2.1).2.1

/-- The message after the array of `c5Msg` was opened and two 64-bit integers were
marshalled into it. -/
def c5Msg2 : AJ_Message :=
  (AJ_MarshalArgs true [AJ_ARG_UINT64, AJ_ARG_UINT64] [AJ_InVal.num 1, AJ_InVal.num 2]
    (AJ_MarshalContainer true c5Bus c5Msg AJ_ARG_ARRAY).2.1
    (AJ_MarshalContainer true c5Bus c5Msg AJ_ARG_ARRAY).2.2.1).2.2

/-- The signature pointer that `AJ_UnmarshalArg` hands to `Unmarshal`: into the
variant signature in the RX buffer, the signature cursor of the enclosing
container, or the signature cursor of the message. -/
def nextArgSig (bus : AJ_BusAttachment) (msg : AJ_Message) : AJ_Ptr :=
  if msg.varOffset ≠ 0 then AJ_Ptr.rx (bus.rx.readPtr - msg.varOffset)
  else
    match msg.outer with
    | container :: _ => container.sigPtr
    | [] => msg.signature.add msg.sigOffset

/-- The enclosing container is not an array whose elements have all been read. -/
def NotExhausted (bus : AJ_BusAttachment) (msg : AJ_Message) : Prop :=
  msg.varOffset = 0 → ∀ c rest, msg.outer = c :: rest → c.typeId = AJ_ARG_ARRAY →
    diff16 bus.rx.readPtr c.val.offset ≠ c.len

/-- An RX buffer that holds, behind a 16-byte header of a little-endian message,
an array length field of 0. -/
def c6Bus : AJ_BusAttachment :=
  { rx := { direction := AJ_IO_BUF_RX, bufSize := 32,
            data := [108, 1, 0, 1, 4, 0, 0, 0, 1, 0, 0, 0, 0, 0, 0, 0,
                     0, 0, 0, 0, 0, 0, 0, 0, 0, 0, 0, 0, 0, 0, 0, 0],
            readPtr := 16, writePtr := 20 } }

/-- A received message with the signature `ay` and a body of 4 bytes. -/
def c6Msg : AJ_Message :=
  { hdr := AJ_HdrPtr.rx, signature := AJ_Ptr.mem [AJ_ARG_ARRAY, AJ_ARG_BYTE] 0,
    bodyBytes := 4, bus := true }

/-- A received message with the signature `as` and a body of 4 bytes. -/
def c6wMsg : AJ_Message :=
  { hdr := AJ_HdrPtr.rx, signature := AJ_Ptr.mem [AJ_ARG_ARRAY, AJ_ARG_STRING] 0,
    bodyBytes := 4, bus := true }

/-- An RX buffer of 48 bytes holding a big-endian message: a 16-byte header, the
array length 4, the array payload `01 02 03 04`, the UINT32 `0A 0B 0C 0D`, and
behind the message 8 bytes that were received with it. -/
def c7Bus : AJ_BusAttachment :=
  { rx := { direction := AJ_IO_BUF_RX, bufSize := 48,
            data := [66, 1, 0, 1, 0, 0, 0, 12, 0, 0, 0, 1, 0, 0, 0, 0,
                     0, 0, 0, 4, 1, 2, 3, 4, 10, 11, 12, 13, 17, 18, 19, 20,
                     33, 34, 35, 36, 0, 0, 0, 0, 0, 0, 0, 0, 0, 0, 0, 0],
            readPtr := 16, writePtr := 36 } }

/-- A received message with the signature `auu` and a body of 12 bytes. -/
def c7Msg : AJ_Message :=
  { hdr := AJ_HdrPtr.rx,
    signature := AJ_Ptr.mem [AJ_ARG_ARRAY, AJ_ARG_UINT32, AJ_ARG_UINT32] 0,
    bodyBytes := 12, bus := true }

/-- An RX buffer that holds, behind a 16-byte header of a little-endian message,
the INT32 7 and the UINT32 9. -/
def c8Bus : AJ_BusAttachment :=
  { rx := { direction := AJ_IO_BUF_RX, bufSize := 32,
            data := [108, 1, 0, 1, 8, 0, 0, 0, 1, 0, 0, 0, 0, 0, 0, 0,
                     7, 0, 0, 0, 9, 0, 0, 0, 0, 0, 0, 0, 0, 0, 0, 0],
            readPtr := 16, writePtr := 24 } }

/-- A received message with the signature `iu` and a body of 8 bytes. -/
def c8Msg : AJ_Message :=
  { hdr := AJ_HdrPtr.rx, signature := AJ_Ptr.mem [AJ_ARG_INT32, AJ_ARG_UINT32] 0,
    bodyBytes := 8, bus := true }

/-- The RX buffer when only the header of the message has arrived and the next
call of `recv` fails with a timeout. -/
def c8BusLate : AJ_BusAttachment :=
  { rx := { direction := AJ_IO_BUF_RX, bufSize := 32,
            data := [108, 1, 0, 1, 8, 0, 0, 0, 1, 0, 0, 0, 0, 0, 0, 0,
                     0, 0, 0, 0, 0, 0, 0, 0, 0, 0, 0, 0, 0, 0, 0, 0],
            readPtr := 16, writePtr := 16,
            context := { wire := [7, 0, 0, 0, 9, 0, 0, 0],
                         script := [NetEvent.fail AJ_ERR_TIMEOUT] } } }

/-- An RX buffer that holds, behind a 16-byte header of a little-endian message,
the INT32 5 and the UINT32 6. -/
def c9Bus : AJ_BusAttachment :=
  { rx := { direction := AJ_IO_BUF_RX, bufSize := 32,
            data := [108, 1, 0, 1, 8, 0, 0, 0, 1, 0, 0, 0, 0, 0, 0, 0,
                     5, 0, 0, 0, 6, 0, 0, 0, 0, 0, 0, 0, 0, 0, 0, 0],
            readPtr := 16, writePtr := 24 } }

/-- A received message with the signature `iu` and a body of 8 bytes, none of which
has been read. -/
def c9Msg : AJ_Message :=
  { hdr := AJ_HdrPtr.rx, signature := AJ_Ptr.mem [AJ_ARG_INT32, AJ_ARG_UINT32] 0,
    sigOffset := 0, bodyBytes := 8, bus := true }

/-- The incoming stream as the reader of an RX buffer sees it: the bytes that have
been received and not yet read, followed by the bytes that are still to arrive. -/
def rxStream (b : AJ_IOBuffer) : List Nat :=
  readBytes b.data b.readPtr (b.writePtr - b.readPtr) ++ b.context.wire

/-- An RX buffer of 8 bytes whose last 2 bytes are unread; 4 more bytes of the
message and the first 2 bytes of the following message are still to arrive, in
two calls of `recv`. -/
def c10Bus : AJ_BusAttachment :=
  { rx := { direction := AJ_IO_BUF_RX, bufSize := 8,
            data := [0, 0, 0, 0, 0, 0, 11, 12],
            readPtr := 6, writePtr := 8,
            context := { wire := [13, 14, 15, 16, 108, 1],
                         script := [NetEvent.xfer 3, NetEvent.xfer 4] } } }

/-- An open RX message with 6 unread body bytes. -/
def c10Msg : AJ_Message :=
  { hdr := AJ_HdrPtr.rx, signature := AJ_Ptr.mem [AJ_ARG_STRING] 0, sigOffset := 1,
    bodyBytes := 6, bus := true }

/-- The RX buffer after the message has been closed: the 2 bytes of the following
message are the unread bytes. -/
def c10BusClosed : AJ_BusAttachment :=
  { rx := { direction := AJ_IO_BUF_RX, bufSize := 8,
            data := [13, 14, 15, 16, 108, 1, 11, 12],
            readPtr := 4, writePtr := 6,
            context := { wire := [], script := [] } } }

/-- The signature `a(is)`. -/
def sigAIS : List Nat :=
  [AJ_ARG_ARRAY, AJ_ARG_STRUCT, AJ_ARG_INT32, AJ_ARG_STRING, AJ_STRUCT_CLOSE]

/-- The message with the chain of open containers and the count of body bytes
replaced. -/
def msgIn (msg : AJ_Message) (outer : List AJ_Arg) (bodyBytes : Nat) : AJ_Message :=
  { msg with outer := outer, bodyBytes := bodyBytes }

/-- The number of bytes from `off` to the next multiple of 8. -/
def pad8 (off : Nat) : Nat := (8 - off % 8) % 8

/-- The struct that is open while an element of `a(is)` is marshalled or
unmarshalled, with its signature cursor at offset `k` of the signature. -/
def structArg (val : AJ_Ptr) (k : Nat) : AJ_Arg :=
  { typeId := AJ_ARG_STRUCT, flags := 0, len := 0, val := val, sigPtr := AJ_Ptr.mem sigAIS k }

/-- The calls that marshal one element of the array `a(is)`:
`AJ_MarshalContainer(STRUCT)`, `AJ_MarshalArg` for the INT32 and for the string,
`AJ_MarshalCloseContainer`. The result is the state behind the calls when each of
them returns OK, and `none` otherwise. -/
def marshalPair (hostLE : Bool) (bus : AJ_BusAttachment) (msg : AJ_Message)
    (p : List Nat × List Nat) : Option (AJ_BusAttachment × AJ_Message) :=
  let r1 := AJ_MarshalContainer hostLE bus msg AJ_ARG_STRUCT
  if r1.1 ≠ AJ_OK then none
  else
    let r2 := AJ_MarshalArg hostLE r1.2.1 r1.2.2.1 (InitArg AJ_ARG_INT32 (AJ_Ptr.mem p.1 0))
    if r2.1 ≠ AJ_OK then none
    else
      let r3 := AJ_MarshalArg hostLE r2.2.1 r2.2.2.1 (InitArg AJ_ARG_STRING (AJ_Ptr.mem p.2 0))
      if r3.1 ≠ AJ_OK then none
      else
        match AJ_MarshalCloseContainer hostLE r3.2.1 r3.2.2.1 with
        | some r4 => if r4.1 ≠ AJ_OK then none else some (r4.2.1, r4.2.2.1)
        | none => none

/-- The bytes of one element `(i, s)` of the array `a(is)` written at offset `off`:
zero bytes up to the next multiple of 8, the 4 bytes of the integer, the length of
the string in 4 bytes, its characters and a NUL. -/
def encPair (hostLE : Bool) (off : Nat) (p : List Nat × List Nat) : List Nat :=
  List.replicate (pad8 off) 0 ++ (p.1 ++ (u32Bytes hostLE p.2.length ++ p.2 ++ [0]))

/-- The bytes of the elements of the array `a(is)` written from offset `off` on. -/
def encPairs (hostLE : Bool) : Nat → List (List Nat × List Nat) → List Nat
  | _, [] => []
  | off, p :: ps =>
    encPair hostLE off p ++ encPairs hostLE (off + (encPair hostLE off p).length) ps

/-- The calls that marshal the elements of the array `a(is)`, one after the other;
`none` when a call does not return OK. -/
def marshalPairs (hostLE : Bool) :
    List (List Nat × List Nat) → AJ_BusAttachment → AJ_Message →
      Option (AJ_BusAttachment × AJ_Message)
  | [], bus, msg => some (bus, msg)
  | p :: ps, bus, msg =>
    match marshalPair hostLE bus msg p with
    | some r => marshalPairs hostLE ps r.1 r.2
    | none => none

/-- The values of the array: integers of 4 bytes and strings without a NUL. -/
def PairsOk (xs : List (List Nat × List Nat)) : Prop :=
  ∀ p ∈ xs, p.1.length = 4 ∧ ∀ b ∈ p.2, b ≠ 0

/-- The array that is open while the elements of `a(is)` are marshalled or
unmarshalled: `val` points at the length field (TX) or at the first element
(RX). -/
def arrayArg (val : AJ_Ptr) (len : Nat) : AJ_Arg :=
  { typeId := AJ_ARG_ARRAY, flags := 0, len := len, val := val, sigPtr := AJ_Ptr.mem sigAIS 1 }

/-- The calls that marshal an array `a(is)`: `AJ_MarshalContainer(ARRAY)`, the calls
for each element, `AJ_MarshalCloseContainer`. The result is the state behind the
calls when each of them returns OK, and `none` otherwise. -/
def marshalArrayOfPairs (hostLE : Bool) (xs : List (List Nat × List Nat))
    (bus : AJ_BusAttachment) (msg : AJ_Message) : Option (AJ_BusAttachment × AJ_Message) :=
  let r := AJ_MarshalContainer hostLE bus msg AJ_ARG_ARRAY
  if r.1 ≠ AJ_OK then none
  else
    match marshalPairs hostLE xs r.2.1 r.2.2.1 with
    | some s =>
      match AJ_MarshalCloseContainer hostLE s.1 s.2 with
      | some r4 => if r4.1 ≠ AJ_OK then none else some (r4.2.1, r4.2.2.1)
      | none => none
    | none => none

/-- The bytes of an array `a(is)` written at offset `off`: zero bytes up to the next
multiple of 4, the number of bytes of the elements, zero bytes up to the next
multiple of 8, the elements. -/
def encArray (hostLE : Bool) (off : Nat) (xs : List (List Nat × List Nat)) : List Nat :=
  List.replicate ((4 - off % 4) % 4) 0
    ++ (u32Bytes hostLE (encPairs hostLE (off + (4 - off % 4) % 4 + 4
          + pad8 (off + (4 - off % 4) % 4 + 4)) xs).length
      ++ (List.replicate (pad8 (off + (4 - off % 4) % 4 + 4)) 0
        ++ encPairs hostLE (off + (4 - off % 4) % 4 + 4 + pad8 (off + (4 - off % 4) % 4 + 4)) xs))

/-- The calls that unmarshal one element of the array `a(is)`:
`AJ_UnmarshalContainer(STRUCT)`, `AJ_UnmarshalArg` for the INT32 and for the
string, `AJ_UnmarshalCloseContainer`. The result is the state behind the calls and
the element that was read (the 4 bytes at the value pointer of the first argument,
the `len` bytes at that of the second) when each call returns OK with the type
identifier of the member, and `none` otherwise. -/
def unmarshalPair (hostLE : Bool) (bus : AJ_BusAttachment) (msg : AJ_Message) :
    Option (AJ_BusAttachment × AJ_Message × (List Nat × List Nat)) :=
  let r1 := AJ_UnmarshalContainer hostLE bus msg AJ_Arg.zero AJ_ARG_STRUCT
  if r1.1 ≠ AJ_OK then none
  else
    let r2 := AJ_UnmarshalArg hostLE r1.2.1 r1.2.2.1
    if r2.1 ≠ AJ_OK ∨ r2.2.2.2.typeId ≠ AJ_ARG_INT32 then none
    else
      let r3 := AJ_UnmarshalArg hostLE r2.2.1 r2.2.2.1
      if r3.1 ≠ AJ_OK ∨ r3.2.2.2.typeId ≠ AJ_ARG_STRING then none
      else
        match AJ_UnmarshalCloseContainer r3.2.1 r3.2.2.1 with
        | some r4 =>
          if r4.1 ≠ AJ_OK then none
          else some (r3.2.1, r4.2,
            (readBytes r2.2.1.rx.data r2.2.2.2.val.offset 4,
             readBytes r3.2.1.rx.data r3.2.2.2.val.offset r3.2.2.2.len))
        | none => none

/-- The calls that unmarshal `n` elements of the array `a(is)`, one after the
other; `none` when a call does not return OK. -/
def unmarshalPairs (hostLE : Bool) :
    Nat → AJ_BusAttachment → AJ_Message →
      Option (AJ_BusAttachment × AJ_Message × List (List Nat × List Nat))
  | 0, bus, msg => some (bus, msg, [])
  | n + 1, bus, msg =>
    match unmarshalPair hostLE bus msg with
    | some r =>
      match unmarshalPairs hostLE n r.1 r.2.1 with
      | some t => some (t.1, t.2.1, r.2.2 :: t.2.2)
      | none => none
    | none => none

/-- The calls that unmarshal an array `a(is)` of `n` elements, the mirror of the
calls that marshal it: `AJ_UnmarshalContainer(ARRAY)`, the calls for each of the
`n` elements, `AJ_UnmarshalArg`, `AJ_UnmarshalCloseContainer`. The result is the
state behind the calls and the list of the elements that were read when every call
returns OK but the `AJ_UnmarshalArg` behind the last element, which returns
`AJ_ERR_NO_MORE`; it is `none` otherwise. -/
def unmarshalArrayOfPairs (hostLE : Bool) (n : Nat) (bus : AJ_BusAttachment)
    (msg : AJ_Message) :
    Option (AJ_BusAttachment × AJ_Message × List (List Nat × List Nat)) :=
  let r := AJ_UnmarshalContainer hostLE bus msg AJ_Arg.zero AJ_ARG_ARRAY
  if r.1 ≠ AJ_OK then none
  else
    match unmarshalPairs hostLE n r.2.1 r.2.2.1 with
    | some s =>
      let e := AJ_UnmarshalArg hostLE s.1 s.2.1
      if e.1 ≠ AJ_ERR_NO_MORE then none
      else
        match AJ_UnmarshalCloseContainer e.2.1 e.2.2.1 with
        | some r4 => if r4.1 ≠ AJ_OK then none else some (e.2.1, r4.2, s.2.2)
        | none => none
    | none => none

/-- The list `[(7, "hi"), (9, "")]`. -/
def c2Pairs : List (List Nat × List Nat) := [([7, 0, 0, 0], [104, 105]), ([9, 0, 0, 0], [])]

/-- A TX buffer of 64 zero bytes with the write cursor behind a 16-byte header. -/
def c2BusT : AJ_BusAttachment :=
  { tx := { direction := AJ_IO_BUF_TX, bufSize := 64, data := List.replicate 64 0,
            writePtr := 16 } }

/-- A message that is being marshalled, with the signature `a(is)`. -/
def c2MsgT : AJ_Message :=
  { hdr := AJ_HdrPtr.tx, signature := AJ_Ptr.mem sigAIS 0, bus := true }

/-- The 33 bytes of the body of the message: the length 25, 4 bytes of padding, the
element `(7, "hi")`, 5 bytes of padding, the element `(9, "")`. -/
def c2Body : List Nat :=
  [25, 0, 0, 0, 0, 0, 0, 0,
   7, 0, 0, 0, 2, 0, 0, 0, 104, 105, 0, 0, 0, 0, 0, 0,
   9, 0, 0, 0, 0, 0, 0, 0, 0]

/-- An RX buffer that holds, behind a 16-byte header of a little-endian message,
the body `c2Body`. -/
def c2BusR : AJ_BusAttachment :=
  { rx := { direction := AJ_IO_BUF_RX, bufSize := 64,
            data := [108, 1, 0, 1, 33, 0, 0, 0, 1, 0, 0, 0, 0, 0, 0, 0] ++ c2Body
              ++ List.replicate 15 0,
            readPtr := 16, writePtr := 49 } }

/-- A received message with the signature `a(is)` and a body of 33 bytes. -/
def c2MsgR : AJ_Message :=
  { hdr := AJ_HdrPtr.rx, signature := AJ_Ptr.mem sigAIS 0, bodyBytes := 33, bus := true }

/-- The TX buffer after a call of `send` in which the transport has taken all
pending bytes: the bytes are on the wire and the buffer is reset. -/
def drainTx (b : AJ_IOBuffer) : AJ_IOBuffer :=
  { b with
    readPtr := 0
    writePtr := 0
    context := { b.context with
      wire := b.context.wire ++ readBytes b.data b.readPtr (AJ_IO_BUF_AVAIL b) } }

/-- The bus attachment after one call of `send` in which the transport has taken all
pending bytes of the TX buffer; the event of the call is gone from the script. -/
def busDrained (bus : AJ_BusAttachment) : AJ_BusAttachment :=
  { bus with tx := { drainTx bus.tx with
      context := { (drainTx bus.tx).context with script := bus.tx.context.script.tail } } }

/-- A TX buffer of 8 bytes that holds 6 pending bytes; the transport takes all the
bytes it is given. -/
def c13Bus : AJ_BusAttachment :=
  { tx := { direction := AJ_IO_BUF_TX, bufSize := 8, data := [1, 2, 3, 4, 5, 6, 0, 0],
            readPtr := 0, writePtr := 6,
            context := { wire := [], script := [NetEvent.xfer 8] } } }

/-- A message whose header is in the TX buffer (the header pointer is valid). -/
def c13MsgHdr : AJ_Message := { hdr := AJ_HdrPtr.tx, bus := true }

/-- A message whose header pointer is null, as `AJ_DeliverMsgPartial` leaves it. -/
def c13MsgRaw : AJ_Message := { hdr := AJ_HdrPtr.null, bus := true }

/-- The bytes that have left the TX buffer followed by the bytes that are pending
in it: what the peer receives once the buffer is drained. -/
def txStream (b : AJ_IOBuffer) : List Nat :=
  b.context.wire ++ readBytes b.data b.readPtr (b.writePtr - b.readPtr)

/-- A TX buffer of 24 bytes that holds the 16 bytes of a header; the transport takes
all the bytes it is given, in three calls. -/
def c14Bus : AJ_BusAttachment :=
  { tx := { direction := AJ_IO_BUF_TX, bufSize := 24,
            data := [108, 1, 0, 1, 30, 0, 0, 0, 2, 0, 0, 0, 0, 0, 0, 0,
                     0, 0, 0, 0, 0, 0, 0, 0],
            readPtr := 0, writePtr := 16,
            context := { wire := [],
                         script := [NetEvent.xfer 24, NetEvent.xfer 24, NetEvent.xfer 24] } } }

/-- A message in partial-delivery mode (null header pointer) that owes 30 body
bytes. -/
def c14Msg : AJ_Message :=
  { hdr := AJ_HdrPtr.null, signature := AJ_Ptr.mem [] 0, bodyBytes := 30, bus := true }

/-- A block of 30 bytes, the numbers 1 to 30. -/
def c14Data : List Nat :=
  [1, 2, 3, 4, 5, 6, 7, 8, 9, 10, 11, 12, 13, 14, 15, 16, 17, 18, 19, 20,
   21, 22, 23, 24, 25, 26, 27, 28, 29, 30]

/-- A received message in a 32-byte RX buffer: the 16 header bytes (little endian,
as the host) and the first four body bytes, which are the length field of a string
and declare 65535 characters. -/
def c18Bus : AJ_BusAttachment :=
  { rx := { direction := AJ_IO_BUF_RX, bufSize := 32,
            data := [108, 1, 0, 1, 4, 0, 1, 0, 1, 0, 0, 0, 0, 0, 0, 0,
                     255, 255, 0, 0, 0, 0, 0, 0, 0, 0, 0, 0, 0, 0, 0, 0],
            readPtr := 16, writePtr := 20,
            context := { wire := List.replicate 40 7, script := [NetEvent.xfer 12] } } }

/-- The message that goes with `c18Bus`: signature `s`, body of 65540 bytes. -/
def c18Msg : AJ_Message :=
  { hdr := AJ_HdrPtr.rx, signature := AJ_Ptr.mem [115] 0, bodyBytes := 65540, bus := true }

/-- The packet that asks who has a name with the given characters in front. -/
def whoHasPacket (chars : List Nat) : List Nat :=
  [0x11, 0x01, 0x00, 0x00, 0x80, 0x01, chars.length + 1] ++ chars ++ [42]

/-- An empty TX buffer of 16 bytes. -/
def c20Buf : AJ_IOBuffer :=
  { direction := AJ_IO_BUF_TX, bufSize := 16, data := List.replicate 16 0 }

/-- An empty TX buffer of 300 bytes. -/
def c20BufLong : AJ_IOBuffer :=
  { direction := AJ_IO_BUF_TX, bufSize := 300, data := List.replicate 300 0 }

/-- The pad bytes in front of the next argument of the message: `PadForType` of the
type at the signature cursor. -/
def nextPad (bus : AJ_BusAttachment) (msg : AJ_Message) : Nat :=
  PadForType (derefByte bus msg.signature msg.sigOffset) bus.tx

/-- A TX buffer of 31 bytes that holds a 16-byte header (flags 0) and 13 body
bytes. -/
def c15Bus : AJ_BusAttachment :=
  { tx := { direction := AJ_IO_BUF_TX, bufSize := 31,
            data := [108, 1, 0, 0, 0, 0, 0, 0, 1, 0, 0, 0, 0, 0, 0, 0,
                     1, 2, 3, 4, 5, 6, 7, 8, 9, 10, 11, 12, 13, 0, 0],
            writePtr := 29 } }

/-- The message that goes with `c15Bus`: signature `ayu`, the byte array is
marshalled, the next argument is a `u`. -/
def c15Msg : AJ_Message :=
  { hdr := AJ_HdrPtr.tx, signature := AJ_Ptr.mem [97, 121, 117] 0, sigOffset := 2,
    bodyBytes := 13, bus := true }

/-- A TX buffer of 32 bytes that holds a 16-byte header (flags 0) and one body
byte. -/
def c15wBus : AJ_BusAttachment :=
  { tx := { direction := AJ_IO_BUF_TX, bufSize := 32,
            data := [108, 1, 0, 0, 0, 0, 0, 0, 1, 0, 0, 0, 0, 0, 0, 0,
                     9, 0, 0, 0, 0, 0, 0, 0, 0, 0, 0, 0, 0, 0, 0, 0],
            writePtr := 17 } }

/-- The message that goes with `c15wBus`: signature `yu`, the byte is marshalled,
the next argument is a `u`. -/
def c15wMsg : AJ_Message :=
  { hdr := AJ_HdrPtr.tx, signature := AJ_Ptr.mem [121, 117] 0, sigOffset := 1,
    bodyBytes := 1, bus := true }

/-- The bus attachment `c15wBus` with the flag `ENCRYPTED` in the header. -/
def c15wBusEnc : AJ_BusAttachment :=
  { c15wBus with tx := { c15wBus.tx with data := writeBytesAt c15wBus.tx.data 2 [128] } }

/-- The TX buffer `b1` comes from `b` by calls of `send` and by appending `bytes`:
it is well-formed, has the size of `b`, and its stream is the one of `b` followed
by `bytes`. -/
def StreamExt (b b1 : AJ_IOBuffer) (bytes : List Nat) : Prop :=
  b1.WF ∧ b1.bufSize = b.bufSize ∧ txStream b1 = txStream b ++ bytes

/-- A sequence of calls `AJ_MarshalRaw(msg, data, len)`, one for each pair
`(data, len)`: the statuses of the calls, the bus attachment and the message. -/
def marshalRawSeq : List (AJ_Ptr × Nat) → AJ_BusAttachment → AJ_Message →
    List AJ_Status × AJ_BusAttachment × AJ_Message
  | [], bus, msg => ([], bus, msg)
  | c :: rest, bus, msg =>
    let r := AJ_MarshalRaw bus msg c.1 c.2
    let s := marshalRawSeq rest r.2.1 r.2.2
    (r.1 :: s.1, s.2.1, s.2.2)

/-- The bytes that a sequence of raw writes has been charged for, when `owed` bytes
are owed at the start: the sum of `len` over the calls whose `len` does not exceed
what is still owed at the time of the call. -/
def rawAccepted : List (AJ_Ptr × Nat) → Nat → Nat
  | [], _ => 0
  | c :: rest, owed =>
    if c.2 > owed then rawAccepted rest owed else c.2 + rawAccepted rest (owed - c.2)

/-- Every call of the sequence whose `len` does not exceed what is owed returns
`AJ_OK`. -/
def RawClean : List (AJ_Ptr × Nat) → AJ_BusAttachment → AJ_Message → Prop
  | [], _, _ => True
  | c :: rest, bus, msg =>
    (c.2 ≤ msg.bodyBytes → (AJ_MarshalRaw bus msg c.1 c.2).1 = AJ_OK)
      ∧ RawClean rest (AJ_MarshalRaw bus msg c.1 c.2).2.1 (AJ_MarshalRaw bus msg c.1 c.2).2.2

/-- Externals for the concrete inputs: a registry that accepts every message id and
fills in nothing, no keys, a cipher that leaves the buffer alone, no pending
method calls. -/
def noExternals : AJ_Externals :=
  { AJ_InitMessageFromMsgId := fun msg _ _ => (AJ_OK, msg, false)
    AJ_StringFindFirstOf := fun _ _ => -1
    AJ_GetUniqueName := fun _ => AJ_Ptr.null
    AJ_GetElapsedTime := 0
    AJ_ROLE_KEY_UNDEFINED := 0
    AJ_GetGroupKey := fun _ _ => (AJ_ERR_FAILURE, [])
    AJ_GetSessionKey := fun _ _ role => (AJ_ERR_FAILURE, [], role)
    AJ_Encrypt_CCM := fun _ d _ _ _ _ => (AJ_OK, d)
    AJ_Decrypt_CCM := fun _ d _ _ _ _ => (AJ_OK, d)
    AJ_TimedOutMethodCall := fun msg => (false, msg)
    AJ_ErrTimeout := AJ_Ptr.mem [0] 0
    AJ_IdentifyMessage := fun _ msg => (AJ_OK, msg)
    AJ_INVALID_MSG_ID := 0 }

/-- A TX buffer of 24 bytes that holds a 16-byte header and the four bytes of a
first argument; the first call of `send` fails, the second takes everything. -/
def c16Bus : AJ_BusAttachment :=
  { tx := { direction := AJ_IO_BUF_TX, bufSize := 24,
            data := [108, 1, 0, 0, 0, 0, 0, 0, 1, 0, 0, 0, 0, 0, 0, 0,
                     7, 0, 0, 0, 0, 0, 0, 0],
            writePtr := 20,
            context := { script := [NetEvent.fail AJ_ERR_WRITE, NetEvent.xfer 24] } } }

/-- The bus attachment `c16Bus` with a transport that takes everything it is given. -/
def c16wBus : AJ_BusAttachment :=
  { c16Bus with tx := { c16Bus.tx with
      context := { script := [NetEvent.xfer 24, NetEvent.xfer 24, NetEvent.xfer 24] } } }

/-- The message that goes with `c16Bus`: signature `uay`, the `u` is marshalled, the
byte array comes next. -/
def c16Msg : AJ_Message :=
  { hdr := AJ_HdrPtr.tx, signature := AJ_Ptr.mem [117, 97, 121] 0, sigOffset := 1,
    bodyBytes := 4, bus := true }

/-- Eight bytes of raw data. -/
def c16Data : AJ_Ptr := AJ_Ptr.mem [1, 2, 3, 4, 5, 6, 7, 8] 0

/-- The calls `AJ_DeliverMsgPartial(msg, 8)`, `AJ_MarshalRaw(msg, data, 8)` and
`AJ_DeliverMsg(msg)` on `c16Bus`: the statuses of the last two calls and the bytes
that were sent. -/
def c16Run : Option (AJ_Status × AJ_Status × List Nat) :=
  (AJ_DeliverMsgPartial true c16Bus c16Msg 8).map (fun p =>
    let r := AJ_MarshalRaw p.2.1 p.2.2 c16Data 8
    let d := AJ_DeliverMsg noExternals true r.2.1 r.2.2
    (r.1, d.1, d.2.1.tx.context.wire))

/-- The state that `AJ_DeliverMsgPartial(msg, 8)` leaves on `c16wBus`: `bodyLen` is
12, the message is in raw mode and owes 8 bytes. -/
def c16wAfter : AJ_BusAttachment × AJ_Message :=
  ({ c16wBus with tx := { c16wBus.tx with
      data := [108, 1, 0, 0, 12, 0, 0, 0, 1, 0, 0, 0, 0, 0, 0, 0, 7, 0, 0, 0, 0, 0, 0, 0] } },
   { c16Msg with hdr := AJ_HdrPtr.null, bodyBytes := 8, signature := AJ_Ptr.mem [0] 0,
                 sigOffset := 0 })

/-- Three raw writes: five bytes, nine bytes (more than the three that are owed by
then), three bytes. -/
def c16wCalls : List (AJ_Ptr × Nat) :=
  [(AJ_Ptr.mem [1, 2, 3, 4, 5] 0, 5), (AJ_Ptr.mem [9, 9, 9, 9, 9, 9, 9, 9, 9] 0, 9),
   (AJ_Ptr.mem [6, 7, 8] 0, 3)]

/-- The header of a message under construction is safe in the TX buffer: the write
cursor is behind the 16 header bytes, the buffer is well-formed, the bytes of the
field `serialNum` are `s`, and the serial counter of the bus is `c`. -/
def HdrSafe (s : List Nat) (c : Nat) (bus : AJ_BusAttachment) : Prop :=
  16 ≤ bus.tx.writePtr ∧ TxRoom bus 0 ∧ readBytes bus.tx.data 8 4 = s ∧ bus.serial = c

/-- A bus attachment with an empty TX buffer of 64 bytes and the serial counter at
`serial`. -/
def c11Bus (serial : Nat) : AJ_BusAttachment :=
  { tx := { direction := AJ_IO_BUF_TX, bufSize := 64, data := List.replicate 64 0 },
    serial := serial }

/-- A message as `AJ_MarshalMethodCall` hands it to `MarshalMsg`: cleared, with the
bus, the destination `org.X` and the session id 42. -/
def c11Msg : AJ_Message :=
  { bus := true, destination := AJ_Ptr.mem [111, 114, 103, 46, 88, 0] 0, sessionId := 42 }

/-- The 16 bytes of the fixed header of a little-endian signal without body, with
serial number 5 and `headerLen` header-field bytes. -/
def c17Header (headerLen : Nat) : List Nat :=
  [108, 4, 0, 1, 0, 0, 0, 0, 5, 0, 0, 0, headerLen, 0, 0, 0]

/-- The header field `(MEMBER, "Hi")`: field id 3, signature `s`, then the string. -/
def c17Member : List Nat := [3, 1, 115, 0, 2, 0, 0, 0, 72, 105, 0]

/-- A header field with the id `fieldId` and the value 7 of type `u`. -/
def c17Extra (fieldId : Nat) : List Nat := [fieldId, 1, 117, 0, 7, 0, 0, 0]

/-- An RX buffer of 64 bytes that holds the bytes `bytes` of a received message. -/
def c17Rx (bytes : List Nat) : AJ_BusAttachment :=
  { rx := { direction := AJ_IO_BUF_RX, bufSize := 64,
            data := bytes ++ List.replicate (64 - bytes.length) 0,
            readPtr := 0, writePtr := bytes.length } }

/-- The received message with the member field only (11 header-field bytes, then
five pad bytes). -/
def c17BusPlain : AJ_BusAttachment :=
  c17Rx (c17Header 11 ++ c17Member ++ [0, 0, 0, 0, 0])

/-- The received message with the member field and a field with the id `fieldId`
(24 header-field bytes, no padding). -/
def c17BusExtra (fieldId : Nat) : AJ_BusAttachment :=
  c17Rx (c17Header 24 ++ c17Member ++ [0, 0, 0, 0, 0] ++ c17Extra fieldId)

/-- The names of a name-service answer on the wire: each name is a length byte
followed by its characters. -/
def encNames : List (List Nat) → List Nat
  | [] => []
  | n :: rest => n.length :: n ++ encNames rest

/-- The characters of a C string: the bytes in front of the first NUL. -/
def cstr (s : List Nat) : List Nat := s.take (strlen s)

/-- A version-1 name-service packet with no questions and one IS-AT answer that
carries the flag `R4`: the header `version, qCount = 0, aCount = 1, ttl`, the flags
and the name count of the answer, the transport mask `m` (big-endian), the four
address bytes `a`, the port (big-endian) and the names. -/
def isAtPacket (version ttl m : Nat) (a : List Nat) (port : Nat) (names : List (List Nat)) :
    List Nat :=
  [version, 0, 1, ttl, IS_AT_MSG ||| R4_FLAG, names.length, m / 256, m % 256] ++ a
    ++ [port / 256, port % 256] ++ encNames names

/-- The characters of `org.alljoyn.Bus`. -/
def nsPrefixBytes : List Nat :=
  [111, 114, 103, 46, 97, 108, 108, 106, 111, 121, 110, 46, 66, 117, 115]

/-- The characters of `org.alljoyn.Bus.sample`. -/
def nsNameBytes : List Nat := nsPrefixBytes ++ [46, 115, 97, 109, 112, 108, 101]

/-- An RX buffer of 64 bytes into which the IS-AT reply for the transport mask
`0x0004`, the reliable IPv4 address `192.168.1.10:9955` and the names `names` was
received. -/
def c21Buf (names : List (List Nat)) : AJ_IOBuffer :=
  { direction := AJ_IO_BUF_RX, bufSize := 64,
    data := isAtPacket 0x11 120 4 [192, 168, 1, 10] 9955 names
      ++ List.replicate (64 - (isAtPacket 0x11 120 4 [192, 168, 1, 10] 9955 names).length) 0,
    readPtr := 0,
    writePtr := (isAtPacket 0x11 120 4 [192, 168, 1, 10] 9955 names).length }

/-- The first 15 bytes of an IS-AT reply for the transport mask `0x0004` and the
reliable IPv4 address `192.168.1.10:9955` with one name of 22 characters: the
header, the answer flags, the name count, the mask, the address, the port and the
length byte of the name. The characters of the name are missing. -/
def nsTruncated : List Nat :=
  [0x11, 0, 1, 120, 0x48, 1, 0, 4, 192, 168, 1, 10, 0x26, 0xE3, 22]

/-- An RX buffer of 64 bytes into which the 15 bytes of `nsTruncated` were received;
`rest` is what the memory behind the received bytes holds. -/
def c22Buf (rest : List Nat) : AJ_IOBuffer :=
  { direction := AJ_IO_BUF_RX, bufSize := 64,
    data := nsTruncated ++ rest ++ List.replicate (49 - rest.length) 0,
    readPtr := 0, writePtr := 15 }

/-- A multicast socket whose RX buffer (64 bytes) will receive the bytes `wire` in
one call of `recv`, and whose TX buffer (64 bytes) sends what it is given. -/
def c23Sock (wire : List Nat) : AJ_NetSocket :=
  { rx := { direction := AJ_IO_BUF_RX, bufSize := 64, data := List.replicate 64 0,
            context := { wire := wire, script := [NetEvent.xfer 64] } },
    tx := { direction := AJ_IO_BUF_TX, bufSize := 64, data := List.replicate 64 0,
            context := { script := [NetEvent.xfer 64] } } }

/-- A record of the NVRAM store: its id and its payload; the capacity is the length
of the payload. -/
structure NVRecord where
  id : Nat
  payload : List Nat
  deriving DecidableEq, Repr

/-- The bytes of a record: the header `{id, capacity}` in host byte order and the
payload. -/
def encRecord (hostLE : Bool) (r : NVRecord) : List Nat :=
  u16Bytes hostLE r.id ++ u16Bytes hostLE r.payload.length ++ r.payload

/-- The bytes of a sequence of records, stored contiguously. -/
def encRecords (hostLE : Bool) : List NVRecord → List Nat
  | [] => []
  | r :: rs => encRecord hostLE r ++ encRecords hostLE rs

/-- The number of bytes that a sequence of records takes. -/
def recsLen : List NVRecord → Nat
  | [] => 0
  | r :: rs => 4 + r.payload.length + recsLen rs

/-- The backing region of a store: the sentinel, the records, and a tail of `t`
erased bytes. -/
def nvStore (hostLE : Bool) (sentinel : List Nat) (recs : List NVRecord) (t : Nat) : List Nat :=
  sentinel ++ encRecords hostLE recs ++ List.replicate t INVALID_DATA_BYTE

/-- A well-formed store: a sentinel word, records whose id is a 16-bit number other
than `0xFFFF` and whose capacity is a multiple of 4, an erased tail whose length is
a multiple of 4, and a region of less than 65536 bytes (the sizes and the garbage
count of the code are `uint16_t`). -/
def NVWellFormed (sentinel : List Nat) (recs : List NVRecord) (t : Nat) : Prop :=
  sentinel.length = 4 ∧ (∀ r ∈ recs, r.id < 65535 ∧ r.payload.length % 4 = 0) ∧ t % 4 = 0
    ∧ 4 + recsLen recs + t < 65536

/-- The live records of a sequence: those that are not tombstones. -/
def liveRecords (recs : List NVRecord) : List NVRecord :=
  recs.filter (fun r => decide (r.id ≠ 0))

/-- The offset of the first record with the id `id`, for records stored from the
offset `off` on. -/
def findRecord (id : Nat) : List NVRecord → Nat → Option Nat
  | [], _ => none
  | r :: rs, off => if r.id = id then some off else findRecord id rs (off + 4 + r.payload.length)

/-- The number of bytes that the tombstones of a sequence of records take. -/
def garbageLen (recs : List NVRecord) : Nat := recsLen recs - recsLen (liveRecords recs)

/-- A store of 40 bytes with the sentinel `AJNV`, a record with id 7, a tombstone, a
record with id 9 and an erased tail of 12 bytes. -/
def nvExampleRecords : List NVRecord :=
  [{ id := 7, payload := [1, 2, 3, 4] }, { id := 0, payload := [9, 9, 9, 9] },
   { id := 9, payload := [5, 6, 7, 8] }]

/-- No two live records of the sequence share an id. -/
def NVUniqueIds (recs : List NVRecord) : Prop :=
  ((liveRecords recs).map (fun r => r.id)).Nodup

/-- The record that `AJ_NVRAM_Create(id, capacity)` makes: the aligned capacity,
and a payload of erased bytes. -/
def newRecord (id capacity : Nat) : NVRecord :=
  { id := id, payload := List.replicate (WORD_ALIGN capacity) INVALID_DATA_BYTE }

/-- The call sequence `h = Open(id, "w", n); Write(buf, k, h); Close(h);
h2 = Open(id, "r", c); Read(out, rd, h2)` (`AJ_Malloc` succeeds): the result of
`Write`, the result of `Read` and the bytes read; `none` when a call of `Open`
returns `NULL` or `Close` fails. -/
def nvWriteReadSeq (hostLE : Bool) (nv : List Nat) (id n : Nat) (buf : List Nat) (k c rd : Nat) :
    Option (Nat × Nat × List Nat) :=
  match AJ_NVRAM_Open hostLE true nv id [119, 0] n with
  | some (some h, nv1) =>
    let w := AJ_NVRAM_Write hostLE nv1 buf k h
    if AJ_NVRAM_Close (some w.2.2) ≠ AJ_OK then none
    else
      match AJ_NVRAM_Open hostLE true w.2.1 id [114, 0] c with
      | some (some h2, nv3) =>
        let r := AJ_NVRAM_Read hostLE nv3 rd h2
        some (w.1, r.1, r.2.1)
      | _ => none
  | _ => none

/-- A store of 40 bytes with the sentinel `AJNV`, a record with id 7 and capacity 8,
a record with id 9 and capacity 4, and an erased tail of 16 bytes. -/
def c25Store : List Nat :=
  nvStore true [65, 74, 78, 86]
    [{ id := 7, payload := [1, 2, 3, 4, 5, 6, 7, 8] }, { id := 9, payload := [5, 6, 7, 8] }] 16

/-- A handle in write mode on the record with id 7 of `c25Store`, with the cursor
at 1 (as after a write of one byte). -/
def c25Handle : AJ_NV_DATASET :=
  { id := 7, curPos := 1, mode := AJ_NV_DATASET_WR_ONLY, inode := 4 }

/-- An empty store of 64 bytes with the sentinel `AJNV`. -/
def c29Store : List Nat := nvStore true [65, 74, 78, 86] [] 60

/-- The byte reversal of `num` elements of `w` bytes each: every element is
replaced by its bytes in reverse order. -/
def reverseChunks (w : Nat) : Nat → List Nat → List Nat
  | 0, _ => []
  | num + 1, l => (l.take w).reverse ++ reverseChunks w num (l.drop w)

/-- An RX buffer of 32 bytes that holds, from offset 8 on, two 64-bit elements with
the bytes 1 to 8 and 11 to 18; the endianness byte of the header is `B`. -/
def c30Bus : AJ_BusAttachment :=
  { rx := { direction := AJ_IO_BUF_RX, bufSize := 32,
            data := [66, 1, 0, 1, 0, 0, 0, 0, 1, 2, 3, 4, 5, 6, 7, 8,
                     11, 12, 13, 14, 15, 16, 17, 18, 0, 0, 0, 0, 0, 0, 0, 0],
            readPtr := 8, writePtr := 24 } }

/-- The received big-endian signal: endianness byte `B`, `bodyLen` bytes
`00 00 00 10`, serial bytes `00 00 00 05`, `headerLen` bytes `00 00 00 0B`, the
member field `Hi`, five pad bytes and 16 body bytes. -/
def c30Header : AJ_BusAttachment :=
  c17Rx ([66, 4, 0, 1, 0, 0, 0, 16, 0, 0, 0, 5, 0, 0, 0, 11]
    ++ [3, 1, 115, 0, 0, 0, 0, 2, 72, 105, 0] ++ [0, 0, 0, 0, 0]
    ++ [1, 2, 3, 4, 5, 6, 7, 8, 9, 10, 11, 12, 13, 14, 15, 16])

/-- The records of a store in which two live records have the id 7. -/
def c24DupRecords : List NVRecord :=
  [{ id := 7, payload := [1, 2, 3, 4] }, { id := 7, payload := [5, 6, 7, 8] }]

/-- The bus attachment after the statements `msg->hdr->bodyLen += MAC_LENGTH;
ioBuf->writePtr += MAC_LENGTH;` of `EncryptMessage`. -/
def macReserved (hostLE : Bool) (bus : AJ_BusAttachment) (msg : AJ_Message) :
    AJ_BusAttachment :=
  let bus1 := hdrStore bus msg 4
    (u32Bytes hostLE ((hdrBodyLen hostLE bus msg + MAC_LENGTH) % 4294967296))
  { bus1 with tx := { bus1.tx with writePtr := bus1.tx.writePtr + MAC_LENGTH } }

/-- The number `h` rounded up to a multiple of 8. -/
def roundup8 (h : Nat) : Nat := (h + 7) / 8 * 8

/-- The key on which `EncryptMessage` works: the status of the lookup, the key and
the role. The group key is taken for a signal without destination, the session key
of the destination otherwise. -/
def encryptKey (ext : AJ_Externals) (hostLE : Bool) (bus : AJ_BusAttachment)
    (msg : AJ_Message) : AJ_Status × List Nat × Nat :=
  if hdrMsgType hostLE bus msg = AJ_MSG_SIGNAL ∧ msg.destination = AJ_Ptr.null then
    ((ext.AJ_GetGroupKey bus AJ_Ptr.null).1, (ext.AJ_GetGroupKey bus AJ_Ptr.null).2,
      ext.AJ_ROLE_KEY_UNDEFINED % 256)
  else ext.AJ_GetSessionKey bus msg.destination (ext.AJ_ROLE_KEY_UNDEFINED % 256)

/-- The key on which `DecryptMessage` works: the group key of the sender for a
signal without destination, the session key of the sender with the opposite role
otherwise. -/
def decryptKey (ext : AJ_Externals) (hostLE : Bool) (bus : AJ_BusAttachment)
    (msg : AJ_Message) : AJ_Status × List Nat × Nat :=
  if hdrMsgType hostLE bus msg = AJ_MSG_SIGNAL ∧ msg.destination = AJ_Ptr.null then
    ((ext.AJ_GetGroupKey bus msg.sender).1, (ext.AJ_GetGroupKey bus msg.sender).2,
      ext.AJ_ROLE_KEY_UNDEFINED % 256)
  else
    ((ext.AJ_GetSessionKey bus msg.sender (ext.AJ_ROLE_KEY_UNDEFINED % 256)).1,
      (ext.AJ_GetSessionKey bus msg.sender (ext.AJ_ROLE_KEY_UNDEFINED % 256)).2.1,
      ((ext.AJ_GetSessionKey bus msg.sender (ext.AJ_ROLE_KEY_UNDEFINED % 256)).2.2 % 256) ^^^ 3)

/-- Externals for the concrete inputs of the encryption: the key lookups succeed
(with the role 1 for a session key) when `keys` is set and fail otherwise; the
cipher stand-ins leave their two length arguments, the MAC length and the nonce in
the buffer, so that a call shows in the result. -/
def c33Ext (keys : Bool) : AJ_Externals :=
  { noExternals with
    AJ_GetGroupKey := fun _ _ => (if keys then AJ_OK else AJ_ERR_FAILURE, List.replicate 16 7)
    AJ_GetSessionKey := fun _ _ _ =>
      (if keys then AJ_OK else AJ_ERR_FAILURE, List.replicate 16 7, 1)
    AJ_Encrypt_CCM := fun _ _ mlen hlen tag nonce => (AJ_OK, [mlen, hlen, tag] ++ nonce)
    AJ_Decrypt_CCM := fun _ _ mlen hlen tag nonce => (AJ_OK, [mlen, hlen, tag] ++ nonce) }

/-- The 37 bytes of a little-endian method call with the flag `ENCRYPTED`, the
serial number 1, 11 bytes of header fields (the member `Hi`), five pad bytes and a
body of 5 bytes; `bodyLen` is given. -/
def c33Wire (bodyLen : Nat) : List Nat :=
  [108, 1, 128, 1, bodyLen, 0, 0, 0, 1, 0, 0, 0, 11, 0, 0, 0] ++ c17Member ++ [0, 0, 0, 0, 0]
    ++ [1, 2, 3, 4, 5]

/-- A TX buffer of 48 bytes that holds the message `c33Wire 5`. -/
def c33Bus : AJ_BusAttachment :=
  { tx := { direction := AJ_IO_BUF_TX, bufSize := 48,
            data := c33Wire 5 ++ List.replicate 11 0, writePtr := 37 } }

/-- The message that goes with `c33Bus`, with the destination `org.X`. -/
def c33Msg : AJ_Message :=
  { hdr := AJ_HdrPtr.tx, destination := AJ_Ptr.mem [111, 114, 103, 46, 88, 0] 0,
    bodyBytes := 5, bus := true }

/-- An RX buffer of 64 bytes that holds the message `c33Wire 13` followed by the 8
bytes of a MAC. -/
def c33RxBus : AJ_BusAttachment := c17Rx (c33Wire 13 ++ [9, 9, 9, 9, 9, 9, 9, 9])

/-- The message that goes with `c33RxBus`, with the sender `org.X`. -/
def c33RxMsg : AJ_Message :=
  { hdr := AJ_HdrPtr.rx, sender := AJ_Ptr.mem [111, 114, 103, 46, 88, 0] 0,
    bodyBytes := 13, bus := true }

/-- The bus attachment and the message when `MarshalMsg` leaves its loop over the
header fields (the registry has accepted the message id). -/
def MarshalMsgLoopEnd (ext : AJ_Externals) (hostLE : Bool) (bus : AJ_BusAttachment)
    (msg : AJ_Message) (msgType msgId flags : Nat) : AJ_BusAttachment × AJ_Message :=
  MarshalMsgFields ext hostLE (msgType % 256) (List.range' AJ_HDR_OBJ_PATH AJ_HDR_SESSION_ID)
    (MarshalMsgHeader hostLE bus msgType flags
      (ext.AJ_InitMessageFromMsgId msg (msgId % 4294967296) (msgType % 256)).2.2)
    { (ext.AJ_InitMessageFromMsgId msg (msgId % 4294967296) (msgType % 256)).2.1 with
      hdr := AJ_HdrPtr.tx }

/-- A message as `AJ_MarshalMethodCall` hands it to `MarshalMsg`: cleared, with the
bus and the destination `org.X`. -/
def c31Msg : AJ_Message :=
  { bus := true, destination := AJ_Ptr.mem [111, 114, 103, 46, 88, 0] 0 }

/-- The complete types of the signature grammar: a basic type character or `v`;
`a` followed by a complete type; `(`, one or more complete types, `)`; the opening
brace, one basic type, one complete type, the closing brace. -/
inductive CompleteType : List Nat → Prop
  | basic (c : Nat) (h : c ∈ basicTypes) : CompleteType [c]
  | variant : CompleteType [AJ_ARG_VARIANT]
  | array (t : List Nat) (h : CompleteType t) : CompleteType (AJ_ARG_ARRAY :: t)
  | struct (ts : List (List Nat)) (hne : ts ≠ []) (h : ∀ t ∈ ts, CompleteType t) :
      CompleteType (AJ_ARG_STRUCT :: (ts.flatten ++ [AJ_STRUCT_CLOSE]))
  | dictEntry (k : Nat) (v : List Nat) (hk : k ∈ basicTypes) (hv : CompleteType v) :
      CompleteType (AJ_ARG_DICT_ENTRY :: k :: (v ++ [AJ_DICT_ENTRY_CLOSE]))

/-- What the loop of `CompleteTypeSigLen` does with the characters `t` in front of
`rest`: at depth 0 it returns behind them, at a depth above 0 it goes on behind
them at the same depth. -/
def SkipsType (t : List Nat) : Prop :=
  ∀ (rest : List Nat) (opened n : Nat),
    CompleteTypeSigLenLoop (t ++ rest) opened n
      = if opened = 0 then (n + t.length) % 256
        else CompleteTypeSigLenLoop rest opened (n + t.length)

/-- A TX buffer of 32 bytes that holds a 16-byte header (flags 0) and no body
bytes. -/
def c35Bus : AJ_BusAttachment :=
  { tx := { direction := AJ_IO_BUF_TX, bufSize := 32,
            data := [108, 1, 0, 0, 0, 0, 0, 0, 1, 0, 0, 0, 0, 0, 0, 0,
                     0, 0, 0, 0, 0, 0, 0, 0, 0, 0, 0, 0, 0, 0, 0, 0],
            writePtr := 16 } }

/-- The message that goes with `c35Bus`: signature `v`, nothing is marshalled. -/
def c35Msg : AJ_Message :=
  { hdr := AJ_HdrPtr.tx, signature := AJ_Ptr.mem [118, 0] 0, bus := true }

/-- An RX buffer of 32 bytes holding a little-endian message with a body of 4
bytes, the INT32 7. -/
def c36Bus : AJ_BusAttachment :=
  { rx := { direction := AJ_IO_BUF_RX, bufSize := 32,
            data := [108, 1, 0, 1, 4, 0, 0, 0, 1, 0, 0, 0, 0, 0, 0, 0,
                     7, 0, 0, 0, 0, 0, 0, 0, 0, 0, 0, 0, 0, 0, 0, 0],
            readPtr := 16, writePtr := 20 } }

/-- A received message with the signature `(i)` and a body of 4 bytes. -/
def c36Msg : AJ_Message :=
  { hdr := AJ_HdrPtr.rx, signature := AJ_Ptr.mem [40, 105, 41, 0] 0, bodyBytes := 4,
    bus := true }

/-- The message `c36Msg` after `AJ_UnmarshalContainer(msg, arg, AJ_ARG_STRUCT)` and
one call of `AJ_UnmarshalArg`, which returns the member of the struct. -/
def c36Member : AJ_Status × AJ_BusAttachment × AJ_Message × AJ_Arg :=
  AJ_UnmarshalArg true (AJ_UnmarshalContainer true c36Bus c36Msg AJ_Arg.zero AJ_ARG_STRUCT).2.1
    (AJ_UnmarshalContainer true c36Bus c36Msg AJ_Arg.zero AJ_ARG_STRUCT).2.2.1

/-- A bus attachment with an empty TX buffer of `size` bytes and the serial counter
at 5. -/
def c37Bus (size : Nat) : AJ_BusAttachment :=
  { tx := { direction := AJ_IO_BUF_TX, bufSize := size, data := List.replicate size 0 },
    serial := 5 }

/-- A version-1 name-service packet with no questions and two IS-AT answers. The
first answer carries the flag `R4`, the transport mask `0x0001`, the reliable IPv4
address `10.0.0.1:9955` and the name `com.x`; the second carries the flag `R6`, the
transport mask `0x0004`, the reliable IPv6 address `fe80::1` with the port 9956 and
the name `org.alljoyn.Bus.sample`. -/
def c38Packet : List Nat :=
  [0x11, 0, 2, 120]
    ++ [IS_AT_MSG ||| R4_FLAG, 1, 0, 1, 10, 0, 0, 1, 0x26, 0xE3] ++ encNames [[99, 111, 109, 46, 120]]
    ++ [IS_AT_MSG ||| R6_FLAG, 1, 0, 4, 0xFE, 0x80, 0, 0, 0, 0, 0, 0, 0, 0, 0, 0, 0, 0, 0, 1,
        0x26, 0xE4] ++ encNames [nsNameBytes]

/-- An RX buffer of 128 bytes into which the packet `c38Packet` was received. -/
def c38Buf : AJ_IOBuffer :=
  { direction := AJ_IO_BUF_RX, bufSize := 128,
    data := c38Packet ++ List.replicate (128 - c38Packet.length) 0,
    readPtr := 0, writePtr := c38Packet.length }

/-- The records that a walk over the region meets from the offset `data` on, up to
the end-of-used marker (the id `0xFFFF`) or the end of the region: the walk of the
loops of `AJ_FindNVEntry` and `_AJ_CompactNVStorage`, with the fuel as a bound on
the number of records. -/
def nvParse (hostLE : Bool) (nv : List Nat) : Nat → Nat → List NVRecord
  | 0, _ => []
  | fuel + 1, data =>
    if data < nv.length ∧ readU16 hostLE nv data ≠ INVALID_DATA then
      { id := readU16 hostLE nv data,
        payload := readBytes nv (data + 4) (readU16 hostLE nv (data + 2)) }
        :: nvParse hostLE nv fuel (data + 4 + readU16 hostLE nv (data + 2))
    else []

/-- The live records of a region: the records of the walk that are not
tombstones. -/
def nvLive (hostLE : Bool) (nv : List Nat) : List NVRecord :=
  liveRecords (nvParse hostLE nv nv.length SENTINEL_OFFSET)

/-- The tail of a region behind its records is an end of the used part: it is
empty or it starts with the end-of-used marker `FF FF`. -/
def NVEndOfUsed (tail : List Nat) : Prop :=
  tail = [] ∨ ∃ rest : List Nat, tail = INVALID_DATA_BYTE :: INVALID_DATA_BYTE :: rest

/-- The region of a store whose end-of-used marker was overwritten by the id 0, as
`AJ_NVRAM_Delete(0xFFFF)` leaves it: the sentinel, the records, the four bytes
`00 00 FF FF` and `t - 4` erased bytes. -/
def nvMarked (hostLE : Bool) (sentinel : List Nat) (recs : List NVRecord) (t : Nat) : List Nat :=
  sentinel ++ encRecords hostLE recs
    ++ ([0, 0, INVALID_DATA_BYTE, INVALID_DATA_BYTE] ++ List.replicate (t - 4) INVALID_DATA_BYTE)

/-- What `AJ_NVRAM_Create(id, _)` can leave of a store: a well-formed store of
`4 + total` bytes with the live records `live`, or such a store behind whose records
a header with the id `id` and a capacity `c` was written over the erased tail. -/
def NVCreated (hostLE : Bool) (s : List Nat) (live : List NVRecord) (total id : Nat)
    (nv : List Nat) : Prop :=
  ∃ (L : List NVRecord) (t1 : Nat), NVWellFormed s L t1 ∧ liveRecords L = live
    ∧ recsLen L + t1 = total
    ∧ (nv = nvStore hostLE s L t1
      ∨ ∃ c : Nat, c % 4 = 0 ∧ 4 + c ≤ t1
          ∧ nv = nvStore hostLE s
              (L ++ [{ id := id, payload := List.replicate c INVALID_DATA_BYTE }]) (t1 - 4 - c))

/-- The records of a full store: a record with id 7 and capacity 8 and a record
with id 9 and capacity 4. -/
def c39Records : List NVRecord :=
  [{ id := 7, payload := [1, 2, 3, 4, 5, 6, 7, 8] }, { id := 9, payload := [5, 6, 7, 8] }]

/-- A full store of 24 bytes with the sentinel `AJNV` and the records `c39Records`. -/
def c39Store : List Nat := nvStore true [65, 74, 78, 86] c39Records 0

/-- An RX buffer that holds, behind a 16-byte header of a little-endian message,
an array of the two bytes 7 and 9. -/
def c8BusArray : AJ_BusAttachment :=
  { rx := { direction := AJ_IO_BUF_RX, bufSize := 32,
            data := [108, 1, 0, 1, 6, 0, 0, 0, 1, 0, 0, 0, 0, 0, 0, 0,
                     2, 0, 0, 0, 7, 9, 0, 0, 0, 0, 0, 0, 0, 0, 0, 0],
            readPtr := 16, writePtr := 22 } }

/-- A received message with the signature `ay` and a body of 6 bytes. -/
def c8MsgArray : AJ_Message :=
  { hdr := AJ_HdrPtr.rx, signature := AJ_Ptr.mem [AJ_ARG_ARRAY, AJ_ARG_BYTE] 0,
    bodyBytes := 6, bus := true }

/-- An RX buffer that holds, behind a 16-byte header of a little-endian message,
the variant with the signature `i` and the value 7. -/
def c8BusVariant : AJ_BusAttachment :=
  { rx := { direction := AJ_IO_BUF_RX, bufSize := 32,
            data := [108, 1, 0, 1, 8, 0, 0, 0, 1, 0, 0, 0, 0, 0, 0, 0,
                     1, 105, 0, 0, 7, 0, 0, 0, 0, 0, 0, 0, 0, 0, 0, 0],
            readPtr := 16, writePtr := 24 } }

/-- A received message with the signature `v` and a body of 8 bytes. -/
def c8MsgVariant : AJ_Message :=
  { hdr := AJ_HdrPtr.rx, signature := AJ_Ptr.mem [AJ_ARG_VARIANT] 0,
    bodyBytes := 8, bus := true }

/-- One call `WriteBytes(msg, data, numBytes, pad)` as it shows in the TX buffer:
`pad` pad bytes, then the bytes `value` of `data`, which are scalar values of
`size` bytes each (characters have the size 1). -/
structure WireWrite where
  pad : Nat
  size : Nat
  value : List Nat
  deriving DecidableEq, Repr

/-- The bytes that a sequence of writes puts into the buffer: for each write its
pad bytes, which are 0, and its value. -/
def wireWriteBytes : List WireWrite → List Nat
  | [] => []
  | w :: ws => List.replicate w.pad 0 ++ w.value ++ wireWriteBytes ws

/-- Every scalar value of the writes, which are put into the buffer from the offset
`off` on, lies at an offset that is a multiple of its size: the scalar `i` of a
value starts `i * size` bytes behind the pad bytes of its write. -/
def WireAligned : Nat → List WireWrite → Prop
  | _, [] => True
  | off, w :: ws =>
    (∀ i, i * w.size < w.value.length → (off + w.pad + i * w.size) % w.size = 0)
    ∧ WireAligned (off + w.pad + w.value.length) ws

/-- The calls of `WriteBytes` and `WritePad` that `Marshal(msg, sig, arg)` makes, in
their order, when all of them return OK. `Marshal` returns `AJ_ERR_MARSHAL` unless
the type of the signature is the type of the argument (`a` for an array of
scalars), so the writes are given for the type of the argument. An array of
scalars: the length (4 bytes) behind the padding of an array, the elements behind
the padding of their type. A scalar: the value behind its padding. A string or a
variant: the length (1 byte when the alignment of the type is 1, else 4 bytes)
behind the padding, the characters, one pad byte as the NUL. An array that is
opened as a container: the padding and 4 more pad bytes that reserve the length,
then the padding of the element type `elem`. Another container: the padding. -/
def marshalWrites (hostLE : Bool) (bus : AJ_BusAttachment) (elem : Nat) (arg : AJ_Arg) :
    List WireWrite :=
  if IsScalarType arg.typeId ≠ 0 then
    if arg.flags &&& AJ_ARRAY_FLAG ≠ 0 then
      let pad := PadForType AJ_ARG_ARRAY bus.tx
      let bus1 := txAppend bus (List.replicate pad 0 ++ u32Bytes hostLE arg.len)
      let pad1 := PadForType arg.typeId bus1.tx
      [{ pad := pad, size := 4, value := u32Bytes hostLE arg.len },
       { pad := pad1, size := SizeOfType arg.typeId,
         value := memRead (txAppend bus1 (List.replicate pad1 0)) arg.val arg.len }]
    else
      let pad := PadForType arg.typeId bus.tx
      [{ pad := pad, size := SizeOfType arg.typeId,
         value := memRead (txAppend bus (List.replicate pad 0)) arg.val
           (SizeOfType arg.typeId) }]
  else if TYPE_FLAG arg.typeId &&& (AJ_STRING ||| AJ_VARIANT) ≠ 0 then
    let pad := PadForType arg.typeId bus.tx
    let sz := if arg.len ≠ 0 then arg.len else strlen (derefFrom bus arg.val)
    let len : WireWrite :=
      if ALIGNMENT arg.typeId = 1 then { pad := pad, size := 1, value := [sz % 256] }
      else { pad := pad, size := 4, value := u32Bytes hostLE sz }
    let bus1 := txAppend bus (List.replicate pad 0 ++ len.value)
    [len, { pad := 0, size := 1, value := memRead bus1 arg.val sz },
      { pad := 1, size := 1, value := [] }]
  else if arg.typeId = AJ_ARG_ARRAY then
    let pad := PadForType AJ_ARG_ARRAY bus.tx
    [{ pad := pad + 4, size := 1, value := [] },
     { pad := PadForType elem (txAppend bus (List.replicate (pad + 4) 0)).tx, size := 1,
       value := [] }]
  else [{ pad := PadForType arg.typeId bus.tx, size := 1, value := [] }]

/-- A TX buffer of 32 bytes with the write cursor at the offset 13. -/
def c4BusArray : AJ_BusAttachment :=
  { tx := { direction := AJ_IO_BUF_TX, bufSize := 32, data := List.replicate 32 170,
            writePtr := 13 } }

/-- A message that is being marshalled, with the signature `at`. -/
def c4MsgArray : AJ_Message :=
  { hdr := AJ_HdrPtr.tx, signature := AJ_Ptr.mem [AJ_ARG_ARRAY, AJ_ARG_UINT64] 0, bus := true }

/-- An array argument that holds one 64-bit integer, the bytes 1 to 8. -/
def c4ArgArray : AJ_Arg :=
  { typeId := AJ_ARG_UINT64, flags := AJ_ARRAY_FLAG, len := 8,
    val := AJ_Ptr.mem [1, 2, 3, 4, 5, 6, 7, 8] 0 }

/-! ## Lemmas on buffers -/

theorem writeBytesAt_eq (data : List Nat) (off : Nat) (bytes : List Nat) (h : off ≤ data.length) :
    writeBytesAt data off bytes = data.take off ++ bytes ++ data.drop (off + bytes.length) := by
  simp [writeBytesAt, Nat.sub_eq_zero_of_le h]

theorem length_writeBytesAt (data : List Nat) (off : Nat) (bytes : List Nat)
    (h : off + bytes.length ≤ data.length) :
    (writeBytesAt data off bytes).length = data.length := by
  simp [writeBytesAt]
  omega

theorem writeBytesAt_nil (data : List Nat) (off : Nat) (h : off ≤ data.length) :
    writeBytesAt data off [] = data := by
  simp [writeBytesAt, Nat.sub_eq_zero_of_le h]

theorem writeBytesAt_append (data : List Nat) (off : Nat) (a b : List Nat)
    (h : off + a.length ≤ data.length) :
    writeBytesAt (writeBytesAt data off a) (off + a.length) b = writeBytesAt data off (a ++ b) := by
  have hl := length_writeBytesAt data off a h
  rw [writeBytesAt_eq _ _ _ (by omega : off + a.length ≤ (writeBytesAt data off a).length),
    writeBytesAt_eq _ _ _ (by omega : off ≤ data.length),
    writeBytesAt_eq _ _ _ (by omega : off ≤ data.length)]
  have h1 : (List.take off data ++ a).length = off + a.length := by simp; omega
  rw [List.append_assoc (List.take off data) a, ← List.append_assoc _ a,
    List.take_append_eq_append_take, List.drop_append_eq_append_drop]
  simp only [h1, Nat.sub_self, List.take_zero, List.append_nil, List.length_append]
  rw [List.take_of_length_le (by omega), List.drop_of_length_le (by omega : (List.take off data ++ a).length ≤ off + a.length + b.length)]
  simp [List.drop_drop]
  congr 1
  omega

theorem getD_writeBytesAt (data : List Nat) (off : Nat) (bytes : List Nat) (i : Nat)
    (h : off + bytes.length ≤ data.length) :
    (writeBytesAt data off bytes).getD i 0 =
      if off ≤ i ∧ i < off + bytes.length then bytes.getD (i - off) 0 else data.getD i 0 := by
  rw [writeBytesAt_eq _ _ _ (by omega)]
  simp only [List.getD_eq_getElem?_getD]
  by_cases h1 : i < off
  · rw [List.append_assoc, List.getElem?_append_left (by simp; omega)]
    simp [List.getElem?_take, h1]
    rw [if_neg (by omega)]
  · by_cases h2 : i < off + bytes.length
    · rw [List.getElem?_append_left (by simp; omega), List.getElem?_append_right (by simp; omega)]
      simp [show min off data.length = off by omega]
      rw [if_pos (by omega)]
    · rw [List.getElem?_append_right (by simp; omega)]
      simp [show min off data.length = off by omega, h2]
      congr 1
      congr 1
      omega

theorem readBytes_writeBytesAt (data : List Nat) (off : Nat) (bytes : List Nat)
    (h : off ≤ data.length) :
    readBytes (writeBytesAt data off bytes) off bytes.length = bytes := by
  have h1 : off - data.length = 0 := by omega
  simp [readBytes, writeBytesAt, h1, List.drop_append_eq_append_drop, List.take_append_eq_append_take, h]

theorem length_readBytes (data : List Nat) (off n : Nat) (h : off + n ≤ data.length) :
    (readBytes data off n).length = n := by
  simp [readBytes]; omega

theorem getD_readBytes (data : List Nat) (off n i : Nat) (h : i < n) :
    (readBytes data off n).getD i 0 = data.getD (off + i) 0 := by
  simp [readBytes, List.getD_eq_getElem?_getD, List.getElem?_take, h]

theorem readBytes_add (data : List Nat) (off n m : Nat) :
    readBytes data off (n + m) = readBytes data off n ++ readBytes data (off + n) m := by
  simp only [readBytes]
  rw [List.take_add, List.drop_drop]
  
theorem and_mask_eq_mod (x a : Nat) (ha : IsAlign a) :
    x &&& ((a + 4294967296 - 1) % 4294967296) = x % a := by
  rcases ha with rfl | rfl | rfl | rfl
  · simp [Nat.mod_one]
  · exact Nat.and_pow_two_sub_one_eq_mod x 1
  · simpa using Nat.and_pow_two_sub_one_eq_mod x 2
  · simpa using Nat.and_pow_two_sub_one_eq_mod x 3

theorem PadForType_eq (typeId : Nat) (ioBuf : AJ_IOBuffer) (ha : IsAlign (ALIGNMENT typeId)) :
    PadForType typeId ioBuf =
      (ALIGNMENT typeId -
        (if ioBuf.direction = AJ_IO_BUF_RX then ioBuf.readPtr else ioBuf.writePtr)
          % ALIGNMENT typeId) % ALIGNMENT typeId := by
  simp only [PadForType]
  rw [and_mask_eq_mod _ _ ha]
  generalize (if ioBuf.direction = AJ_IO_BUF_RX then ioBuf.readPtr else ioBuf.writePtr) = base
  rcases ha with h | h | h | h <;> rw [h] <;> omega

theorem LoadBytesLoop_avail (script : List NetEvent) (ioBuf : AJ_IOBuffer) (numBytes : Nat)
    (h : numBytes ≤ AJ_IO_BUF_AVAIL ioBuf) :
    LoadBytesLoop script ioBuf numBytes = (AJ_OK, ioBuf, script) := by
  cases script <;> simp [LoadBytesLoop, Nat.not_lt.mpr h]

theorem LoadBytes_avail (ioBuf : AJ_IOBuffer) (numBytes pad : Nat)
    (hpad : pad < 256) (hn : numBytes + pad < 65536)
    (h : ioBuf.readPtr + pad + numBytes ≤ ioBuf.writePtr) (hw : ioBuf.writePtr ≤ ioBuf.bufSize) :
    LoadBytes ioBuf numBytes pad = (AJ_OK, { ioBuf with readPtr := ioBuf.readPtr + pad }) := by
  have h1 : pad % 256 = pad := Nat.mod_eq_of_lt hpad
  have h2 : (numBytes % 65536 + pad) % 65536 = numBytes + pad := by omega
  simp only [LoadBytes, h1, h2]
  rw [if_neg (by simp [AJ_IO_BUF_CONSUMED]; omega)]
  rw [LoadBytesLoop_avail _ _ _ (by simp [AJ_IO_BUF_AVAIL]; omega)]

theorem memRead_mem (bus : AJ_BusAttachment) (bytes : List Nat) :
    memRead bus (AJ_Ptr.mem bytes 0) bytes.length = bytes := by
  apply List.ext_getElem
  · simp [memRead]
  · intro i h1 h2
    simp [memRead, derefByte, List.getD_eq_getElem?_getD]
    rw [List.getElem?_eq_getElem h2]; rfl

theorem memRead_zero (bus : AJ_BusAttachment) (p : AJ_Ptr) : memRead bus p 0 = [] := by
  simp [memRead]

theorem TxRoom_mono {bus : AJ_BusAttachment} {n m : Nat} (h : TxRoom bus n) (hm : m ≤ n) :
    TxRoom bus m := ⟨by have := h.1; omega, h.2.1, h.2.2⟩

theorem TxRoom_txAppend {bus : AJ_BusAttachment} {bytes : List Nat} {n : Nat}
    (h : TxRoom bus (bytes.length + n)) : TxRoom (txAppend bus bytes) n := by
  obtain ⟨h1, h2, h3⟩ := h
  refine ⟨?_, ?_, ?_⟩
  · simp only [txAppend]; omega
  · simp only [txAppend]
    rw [length_writeBytesAt _ _ _ (by omega)]; exact h2
  · simpa [txAppend] using h3

theorem txAppend_txAppend (bus : AJ_BusAttachment) (a b : List Nat)
    (h : TxRoom bus a.length) :
    txAppend (txAppend bus a) b = txAppend bus (a ++ b) := by
  obtain ⟨h1, h2, _⟩ := h
  simp only [txAppend, List.length_append, Nat.add_assoc]
  rw [writeBytesAt_append _ _ _ _ (by omega)]

theorem txAppend_nil (bus : AJ_BusAttachment) (h : TxRoom bus 0) : txAppend bus [] = bus := by
  obtain ⟨h1, h2, _⟩ := h
  simp [txAppend, writeBytesAt_nil _ _ (by omega : bus.tx.writePtr ≤ bus.tx.data.length)]

@[simp] theorem txAppend_writePtr (bus : AJ_BusAttachment) (a : List Nat) :
    (txAppend bus a).tx.writePtr = bus.tx.writePtr + a.length := rfl

@[simp] theorem txAppend_direction (bus : AJ_BusAttachment) (a : List Nat) :
    (txAppend bus a).tx.direction = bus.tx.direction := rfl

@[simp] theorem txAppend_bufSize (bus : AJ_BusAttachment) (a : List Nat) :
    (txAppend bus a).tx.bufSize = bus.tx.bufSize := rfl

@[simp] theorem txAppend_rx (bus : AJ_BusAttachment) (a : List Nat) :
    (txAppend bus a).rx = bus.rx := rfl

@[simp] theorem txAppend_readPtr (bus : AJ_BusAttachment) (a : List Nat) :
    (txAppend bus a).tx.readPtr = bus.tx.readPtr := rfl

theorem txAppend_data (bus : AJ_BusAttachment) (a : List Nat) :
    (txAppend bus a).tx.data = writeBytesAt bus.tx.data bus.tx.writePtr a := rfl

theorem WriteBytes_fit (bus : AJ_BusAttachment) (msg : AJ_Message) (data : AJ_Ptr)
    (numBytes pad : Nat) (src : List Nat)
    (hsrc : ∀ b : AJ_BusAttachment, memRead b data numBytes = src)
    (hnull : numBytes ≠ 0 → data ≠ AJ_Ptr.null)
    (hroom : TxRoom bus (pad + numBytes)) :
    WriteBytes bus msg data numBytes pad = (AJ_OK, txAppend bus (List.replicate pad 0 ++ src)) := by
  obtain ⟨hfit, hlen, hsize⟩ := hroom
  have hsl : src.length = numBytes := by rw [← hsrc bus]; simp [memRead]
  have hbody : (WriteBytesBody bus data numBytes pad (AJ_IO_BUF_SPACE bus.tx)).1 =
      (txAppend bus (List.replicate pad 0 ++ src)).tx := by
    have hc : (AJ_IO_BUF_SPACE bus.tx + SIZE_T_MOD - pad % SIZE_T_MOD) % SIZE_T_MOD
        = AJ_IO_BUF_SPACE bus.tx - pad := by
      simp only [AJ_IO_BUF_SPACE, SIZE_T_MOD]; omega
    have hc2 : ¬ numBytes < AJ_IO_BUF_SPACE bus.tx - pad →
        AJ_IO_BUF_SPACE bus.tx - pad = numBytes := by
      simp only [AJ_IO_BUF_SPACE]; omega
    simp only [WriteBytesBody, hc, txAppend]
    split
    · simp only [hsrc]
      rw [← writeBytesAt_append _ _ _ _ (by simp; omega)]
      simp [hsl, Nat.add_assoc]
    · rename_i hlt
      rw [hc2 hlt]
      simp only [hsrc]
      rw [← writeBytesAt_append _ _ _ _ (by simp; omega)]
      simp [hsl, Nat.add_assoc]
  have hnn : ¬ (numBytes ≠ 0 ∧ data = AJ_Ptr.null) := by
    intro ⟨h1, h2⟩; exact hnull h1 h2
  simp only [WriteBytes, if_neg hnn]
  by_cases hz : numBytes + pad = 0
  · have hp : pad = 0 := by omega
    have hn0 : numBytes = 0 := by omega
    have hs0 : src = [] := by
      apply List.eq_nil_of_length_eq_zero; omega
    subst hp; subst hn0; subst hs0
    cases hsc : bus.tx.context.script <;>
      simp [WriteBytesLoop, txAppend,
        writeBytesAt_nil _ _ (by omega : bus.tx.writePtr ≤ bus.tx.data.length), ← hsc]
  · have hfit2 : ¬ numBytes + pad > AJ_IO_BUF_SPACE bus.tx := by
      simp only [AJ_IO_BUF_SPACE]; omega
    cases hsc : bus.tx.context.script <;>
      simp only [WriteBytesLoop, if_neg hz, if_neg hfit2, hbody] <;> simp [← hsc, txAppend]

theorem WritePad_fit (bus : AJ_BusAttachment) (msg : AJ_Message) (pad : Nat)
    (hroom : TxRoom bus pad) :
    WritePad bus msg pad = (AJ_OK, txAppend bus (List.replicate pad 0)) := by
  rw [WritePad, WriteBytes_fit bus msg AJ_Ptr.null 0 pad [] (fun b => memRead_zero b _)
    (by simp) (by simpa using hroom)]
  simp

theorem strlen_eq_length (v : List Nat) (h : ∀ b ∈ v, b ≠ 0) : strlen v = v.length := by
  induction v with
  | nil => rfl
  | cons c rest ih =>
    have hc : c ≠ 0 := h c (by simp)
    simp [strlen, hc, ih (fun b hb => h b (by simp [hb]))]

theorem length_u32Bytes (hostLE : Bool) (v : Nat) : (u32Bytes hostLE v).length = 4 := by
  cases hostLE <;> simp [u32Bytes]

theorem Marshal_scalar (hostLE : Bool) (bus : AJ_BusAttachment) (msg : AJ_Message)
    (sig : AJ_Ptr) (t : Nat) (v : List Nat)
    (hsig : derefByte bus sig 0 = t) (hs : IsScalarType t ≠ 0) (hv : v.length = SizeOfType t)
    (hroom : TxRoom bus (PadForType t bus.tx + v.length)) :
    Marshal hostLE bus msg sig (InitArg t (AJ_Ptr.mem v 0)) =
      (AJ_OK, txAppend bus (List.replicate (PadForType t bus.tx) 0 ++ wireBody hostLE t v),
        msg, sig.add 1, InitArg t (AJ_Ptr.mem v 0)) := by
  simp only [Marshal, hsig, InitArg, hs, ne_eq, not_false_eq_true, if_true]
  simp only [AJ_ARRAY_FLAG, Nat.zero_and, not_true_eq_false, if_false, ← hv]
  rw [WriteBytes_fit bus msg (AJ_Ptr.mem v 0) v.length (PadForType t bus.tx) v
    (fun b => memRead_mem b v) (by simp) hroom]
  simp [wireBody, hs]

theorem Marshal_string (hostLE : Bool) (bus : AJ_BusAttachment) (msg : AJ_Message)
    (sig : AJ_Ptr) (t : Nat) (v : List Nat)
    (hsig : derefByte bus sig 0 = t) (hs : IsScalarType t = 0)
    (hstr : TYPE_FLAG t &&& (AJ_STRING ||| AJ_VARIANT) ≠ 0) (hnv : t ≠ AJ_ARG_VARIANT)
    (hv : ∀ b ∈ v, b ≠ 0) (h255 : ALIGNMENT t = 1 → v.length ≤ 255)
    (hroom : TxRoom bus (PadForType t bus.tx + (wireBody hostLE t v).length)) :
    Marshal hostLE bus msg sig (InitArg t (AJ_Ptr.mem v 0)) =
      (AJ_OK, txAppend bus (List.replicate (PadForType t bus.tx) 0 ++ wireBody hostLE t v),
        msg, sig.add 1, InitArg t (AJ_Ptr.mem v 0)) := by
  have hsl : strlen (derefFrom bus (AJ_Ptr.mem v 0)) = v.length := by
    simp [derefFrom, strlen_eq_length v hv]
  simp only [Marshal, hsig, InitArg, hs, ne_eq, not_true_eq_false, if_false, hstr,
    not_false_eq_true, if_true, hsl]
  by_cases h1 : ALIGNMENT t = 1
  · have hl := h255 h1
    have hwb : wireBody hostLE t v = [v.length % 256] ++ v ++ [0] := by
      simp [wireBody, hs, h1]
    rw [hwb] at hroom ⊢
    rw [if_neg (by omega), if_pos h1]
    have hr1 : TxRoom bus (PadForType t bus.tx + 1) := TxRoom_mono hroom (by simp)
    rw [WriteBytes_fit bus msg (AJ_Ptr.mem [v.length % 256] 0) 1 (PadForType t bus.tx)
      [v.length % 256] (fun b => memRead_mem b [v.length % 256]) (by simp) hr1]
    simp only [if_true]
    have hr2 : TxRoom (txAppend bus (List.replicate (PadForType t bus.tx) 0 ++ [v.length % 256]))
        (0 + v.length) :=
      TxRoom_txAppend (TxRoom_mono hroom (by simp; omega))
    rw [WriteBytes_fit _ msg (AJ_Ptr.mem v 0) v.length 0 v (fun b => memRead_mem b v) (by simp) hr2]
    simp only [if_true, List.replicate_zero, List.nil_append]
    rw [txAppend_txAppend _ _ _ (by simpa using hr1)]
    have hr3 : TxRoom (txAppend bus (List.replicate (PadForType t bus.tx) 0 ++ [v.length % 256] ++ v))
        1 :=
      TxRoom_txAppend (TxRoom_mono hroom (by simp; omega))
    rw [WritePad_fit _ msg 1 hr3]
    simp only [if_neg hnv]
    rw [txAppend_txAppend _ _ _ (TxRoom_mono hroom (by simp))]
    simp
  · have hwb : wireBody hostLE t v = u32Bytes hostLE v.length ++ v ++ [0] := by
      simp [wireBody, hs, h1]
    rw [hwb] at hroom ⊢
    have hmr : ∀ b : AJ_BusAttachment,
        memRead b (AJ_Ptr.mem (u32Bytes hostLE v.length) 0) 4 = u32Bytes hostLE v.length := by
      intro b
      have := memRead_mem b (u32Bytes hostLE v.length)
      rwa [length_u32Bytes] at this
    rw [if_neg (by simp [h1]), if_neg h1]
    have hr1 : TxRoom bus (PadForType t bus.tx + 4) :=
      TxRoom_mono hroom (by simp [length_u32Bytes])
    rw [WriteBytes_fit bus msg (AJ_Ptr.mem (u32Bytes hostLE v.length) 0) 4 (PadForType t bus.tx)
      (u32Bytes hostLE v.length) hmr (by simp) hr1]
    simp only [if_true]
    have hr2 : TxRoom (txAppend bus (List.replicate (PadForType t bus.tx) 0 ++ u32Bytes hostLE v.length))
        (0 + v.length) :=
      TxRoom_txAppend (TxRoom_mono hroom (by simp [length_u32Bytes]; omega))
    rw [WriteBytes_fit _ msg (AJ_Ptr.mem v 0) v.length 0 v (fun b => memRead_mem b v) (by simp) hr2]
    simp only [if_true, List.replicate_zero, List.nil_append]
    rw [txAppend_txAppend _ _ _ (by simpa [length_u32Bytes] using hr1)]
    have hr3 : TxRoom (txAppend bus (List.replicate (PadForType t bus.tx) 0 ++ u32Bytes hostLE v.length ++ v))
        1 :=
      TxRoom_txAppend (TxRoom_mono hroom (by simp [length_u32Bytes]; omega))
    rw [WritePad_fit _ msg 1 hr3]
    simp only [if_neg hnv]
    rw [txAppend_txAppend _ _ _ (TxRoom_mono hroom (by simp [length_u32Bytes]))]
    simp

@[simp] theorem rxAt_readPtr (bus : AJ_BusAttachment) (p : Nat) : (rxAt bus p).rx.readPtr = p := rfl
@[simp] theorem rxAt_writePtr (bus : AJ_BusAttachment) (p : Nat) :
    (rxAt bus p).rx.writePtr = bus.rx.writePtr := rfl
@[simp] theorem rxAt_bufSize (bus : AJ_BusAttachment) (p : Nat) :
    (rxAt bus p).rx.bufSize = bus.rx.bufSize := rfl
@[simp] theorem rxAt_data (bus : AJ_BusAttachment) (p : Nat) :
    (rxAt bus p).rx.data = bus.rx.data := rfl
@[simp] theorem rxAt_direction (bus : AJ_BusAttachment) (p : Nat) :
    (rxAt bus p).rx.direction = bus.rx.direction := rfl
@[simp] theorem rxAt_tx (bus : AJ_BusAttachment) (p : Nat) : (rxAt bus p).tx = bus.tx := rfl
@[simp] theorem rxAt_rxAt (bus : AJ_BusAttachment) (p q : Nat) :
    rxAt (rxAt bus p) q = rxAt bus q := rfl
@[simp] theorem hdrEndianess_rxAt (hostLE : Bool) (bus : AJ_BusAttachment) (msg : AJ_Message)
    (p : Nat) : hdrEndianess hostLE (rxAt bus p) msg = hdrEndianess hostLE bus msg := by
  simp only [hdrEndianess]; cases msg.hdr <;> rfl

theorem rxAt_self (bus : AJ_BusAttachment) : rxAt bus bus.rx.readPtr = bus := rfl

theorem EndianSwap_host (hostLE : Bool) (bus : AJ_BusAttachment) (msg : AJ_Message)
    (typeId off num : Nat) (h : hdrEndianess hostLE bus msg = HOST_ENDIANESS hostLE) :
    EndianSwap hostLE bus msg typeId off num = bus := by
  simp [EndianSwap, h]

theorem PadForType_lt (typeId : Nat) (ioBuf : AJ_IOBuffer) (ha : IsAlign (ALIGNMENT typeId)) :
    PadForType typeId ioBuf < 8 := by
  rw [PadForType_eq _ _ ha]
  generalize (if ioBuf.direction = AJ_IO_BUF_RX then ioBuf.readPtr else ioBuf.writePtr) = base
  rcases ha with h | h | h | h <;> rw [h] <;> omega

theorem LoadBytes_rx (bus : AJ_BusAttachment) (numBytes pad : Nat) (hpad : pad < 256)
    (h : RxAvail bus (pad + numBytes)) :
    LoadBytes bus.rx numBytes pad = (AJ_OK, (rxAt bus (bus.rx.readPtr + pad)).rx) := by
  obtain ⟨h1, h2, h3, h4⟩ := h
  rw [LoadBytes_avail bus.rx numBytes pad (by omega) (by omega) (by omega) h2]
  rfl

theorem bus_rx_eta (bus : AJ_BusAttachment) (p : Nat) :
    { bus with rx := (rxAt bus p).rx } = rxAt bus p := rfl

theorem Unmarshal_scalar (hostLE : Bool) (bus : AJ_BusAttachment) (msg : AJ_Message)
    (sig : AJ_Ptr) (t : Nat)
    (hsig : derefByte bus sig 0 = t) (hs : IsScalarType t ≠ 0) (hal : IsAlign (ALIGNMENT t))
    (hend : hdrEndianess hostLE bus msg = HOST_ENDIANESS hostLE)
    (havail : RxAvail bus (PadForType t bus.rx + SizeOfType t)) :
    Unmarshal hostLE bus msg sig =
      (AJ_OK, rxAt bus (bus.rx.readPtr + PadForType t bus.rx + SizeOfType t), msg, sig.add 1,
        { typeId := t, flags := 0, len := 0,
          val := AJ_Ptr.rx (bus.rx.readPtr + PadForType t bus.rx), sigPtr := AJ_Ptr.null }) := by
  have ht0 : t ≠ 0 := by
    intro h0; subst h0; exact hs (by decide)
  have hnn : sig ≠ AJ_Ptr.null := by
    intro h; subst h; simp [derefByte] at hsig; exact ht0 hsig.symm
  simp only [Unmarshal, hsig, hnn, ht0, false_or, if_false, hs, ne_eq, not_false_eq_true, if_true]
  rw [LoadBytes_rx bus _ _ (by have := PadForType_lt t bus.rx hal; omega) havail]
  simp only [not_true_eq_false, if_false, bus_rx_eta]
  rw [EndianSwap_host _ _ _ _ _ _ (by
    show hdrEndianess hostLE (rxAt bus _) msg = _
    simpa using hend)]
  rfl

theorem Unmarshal_string (hostLE : Bool) (bus : AJ_BusAttachment) (msg : AJ_Message)
    (sig : AJ_Ptr) (t n : Nat)
    (hsig : derefByte bus sig 0 = t) (hs : IsScalarType t = 0)
    (hstr : TYPE_FLAG t &&& (AJ_STRING ||| AJ_VARIANT) ≠ 0) (hnv : t ≠ AJ_ARG_VARIANT)
    (hal : IsAlign (ALIGNMENT t))
    (hend : hdrEndianess hostLE bus msg = HOST_ENDIANESS hostLE)
    (hn : (if ALIGNMENT t = 4 then
        readU32 hostLE bus.rx.data (bus.rx.readPtr + PadForType t bus.rx)
      else bus.rx.data.getD (bus.rx.readPtr + PadForType t bus.rx) 0) = n)
    (havail : RxAvail bus (PadForType t bus.rx + ALIGNMENT t + n + 1)) :
    Unmarshal hostLE bus msg sig =
      (AJ_OK, rxAt bus (bus.rx.readPtr + PadForType t bus.rx + ALIGNMENT t + n + 1), msg,
        sig.add 1,
        { typeId := t, flags := 0, len := n,
          val := AJ_Ptr.rx (bus.rx.readPtr + PadForType t bus.rx + ALIGNMENT t),
          sigPtr := AJ_Ptr.null }) := by
  have ht0 : t ≠ 0 := by
    intro h0; subst h0; exact hstr (by decide)
  have hnn : sig ≠ AJ_Ptr.null := by
    intro h; subst h; simp [derefByte] at hsig; exact ht0 hsig.symm
  have hp := PadForType_lt t bus.rx hal
  have ha8 : ALIGNMENT t ≤ 8 := by rcases hal with h | h | h | h <;> omega
  obtain ⟨h1, h2, h3, h4⟩ := havail
  simp only [Unmarshal, hsig, hnn, ht0, false_or, if_false, hs, ne_eq, not_true_eq_false,
    hstr, not_false_eq_true, if_true]
  rw [LoadBytes_rx bus _ _ (by omega) ⟨by omega, h2, h3, h4⟩]
  simp only [not_true_eq_false, if_false, bus_rx_eta]
  have hes : (if ALIGNMENT t = 4 then
      EndianSwap hostLE (rxAt bus (bus.rx.readPtr + PadForType t bus.rx)) msg AJ_ARG_UINT32
        (rxAt bus (bus.rx.readPtr + PadForType t bus.rx)).rx.readPtr 1
      else rxAt bus (bus.rx.readPtr + PadForType t bus.rx))
      = rxAt bus (bus.rx.readPtr + PadForType t bus.rx) := by
    split
    · exact EndianSwap_host _ _ _ _ _ _ (by simpa using hend)
    · rfl
  rw [hes]
  simp only [rxAt_readPtr, rxAt_data, hn]
  have hmod : (n + 1) % 4294967296 = n + 1 := by omega
  rw [hmod, LoadBytes_avail _ _ _ (by omega) (by omega) (by simp; omega) (by simpa using h2)]
  simp only [not_true_eq_false, if_false, if_neg hnv]
  have hn16 : n % 65536 = n := by omega
  rw [hn16]
  rfl

theorem readBytes_split (data : List Nat) (off n : Nat) (a b : List Nat)
    (h : readBytes data off (a.length + n) = a ++ b) (hlen : off + a.length ≤ data.length) :
    readBytes data (off + a.length) n = b := by
  rw [readBytes_add] at h
  exact (List.append_inj h (length_readBytes _ _ _ hlen)).2

theorem readBytes_split_left (data : List Nat) (off n : Nat) (a b : List Nat)
    (h : readBytes data off (a.length + n) = a ++ b) (hlen : off + a.length ≤ data.length) :
    readBytes data off a.length = a := by
  rw [readBytes_add] at h
  exact (List.append_inj h (length_readBytes _ _ _ hlen)).1

theorem readU32_of_readBytes (hostLE : Bool) (data : List Nat) (p n : Nat)
    (h : readBytes data p 4 = u32Bytes hostLE n) (hn : n < 4294967296) :
    readU32 hostLE data p = n := by
  have h0 := getD_readBytes data p 4 0 (by omega)
  have h1 := getD_readBytes data p 4 1 (by omega)
  have h2 := getD_readBytes data p 4 2 (by omega)
  have h3 := getD_readBytes data p 4 3 (by omega)
  rw [h] at h0 h1 h2 h3
  cases hostLE <;> simp [u32Bytes] at h0 h1 h2 h3 <;>
    simp only [readU32, ← h0, ← h1, ← h2, ← h3] <;> simp <;> omega

theorem getD_of_readBytes_singleton (data : List Nat) (p x : Nat)
    (h : readBytes data p 1 = [x]) : data.getD p 0 = x := by
  have h0 := getD_readBytes data p 1 0 (by omega)
  rw [h] at h0
  simpa using h0.symm

/-! ## C1: round trip of one argument of a basic type -/

theorem PadForType_tx_rx (t : Nat) (tx rx : AJ_IOBuffer) (hal : IsAlign (ALIGNMENT t))
    (hdir : tx.direction = AJ_IO_BUF_TX) (hdirR : rx.direction = AJ_IO_BUF_RX)
    (hoff : rx.readPtr = tx.writePtr) : PadForType t rx = PadForType t tx := by
  rw [PadForType_eq _ _ hal, PadForType_eq _ _ hal, hdir, hdirR, hoff]
  simp

theorem roundtrip_basic (hostLE : Bool) (t : Nat) (v : List Nat)
    (bus : AJ_BusAttachment) (msg : AJ_Message) (sig : AJ_Ptr)
    (busR : AJ_BusAttachment) (msgR : AJ_Message) (sigR : AJ_Ptr)
    (hal : IsAlign (ALIGNMENT t))
    (hkind : IsScalarType t ≠ 0 ∨
      (IsScalarType t = 0 ∧ TYPE_FLAG t &&& (AJ_STRING ||| AJ_VARIANT) ≠ 0
        ∧ t ≠ AJ_ARG_VARIANT ∧ (ALIGNMENT t = 1 ∨ ALIGNMENT t = 4)))
    (hv : IsValueOf t v)
    (hsig : derefByte bus sig 0 = t) (hdir : bus.tx.direction = AJ_IO_BUF_TX)
    (hroom : TxRoom bus (PadForType t bus.tx + (wireBody hostLE t v).length))
    (hsigR : derefByte busR sigR 0 = t) (hdirR : busR.rx.direction = AJ_IO_BUF_RX)
    (hend : hdrEndianess hostLE busR msgR = HOST_ENDIANESS hostLE)
    (hoff : busR.rx.readPtr = bus.tx.writePtr)
    (havail : RxAvail busR (PadForType t bus.tx + (wireBody hostLE t v).length))
    (hcopy : readBytes busR.rx.data bus.tx.writePtr
        (PadForType t bus.tx + (wireBody hostLE t v).length)
      = readBytes (Marshal hostLE bus msg sig (InitArg t (AJ_Ptr.mem v 0))).2.1.tx.data
        bus.tx.writePtr (PadForType t bus.tx + (wireBody hostLE t v).length)) :
    (Marshal hostLE bus msg sig (InitArg t (AJ_Ptr.mem v 0))).1 = AJ_OK
    ∧ (Marshal hostLE bus msg sig (InitArg t (AJ_Ptr.mem v 0))).2.1.tx.writePtr
        = bus.tx.writePtr + PadForType t bus.tx + (wireBody hostLE t v).length
    ∧ (Unmarshal hostLE busR msgR sigR).1 = AJ_OK
    ∧ (Unmarshal hostLE busR msgR sigR).2.2.2.2.typeId = t
    ∧ (∃ p, (Unmarshal hostLE busR msgR sigR).2.2.2.2.val = AJ_Ptr.rx p
        ∧ readBytes (Unmarshal hostLE busR msgR sigR).2.1.rx.data p v.length = v)
    ∧ (IsScalarType t = 0 → (Unmarshal hostLE busR msgR sigR).2.2.2.2.len = v.length)
    ∧ (Unmarshal hostLE busR msgR sigR).2.1.rx.readPtr
        = busR.rx.readPtr + PadForType t bus.tx + (wireBody hostLE t v).length := by
  have hpad := PadForType_tx_rx t bus.tx busR.rx hal hdir hdirR hoff
  have hp8 := PadForType_lt t bus.tx hal
  have hM : Marshal hostLE bus msg sig (InitArg t (AJ_Ptr.mem v 0)) =
      (AJ_OK, txAppend bus (List.replicate (PadForType t bus.tx) 0 ++ wireBody hostLE t v),
        msg, sig.add 1, InitArg t (AJ_Ptr.mem v 0)) := by
    rcases hkind with hs | ⟨hs, hstr, hnv, _⟩
    · have hv1 : v.length = SizeOfType t := by simpa [IsValueOf, hs] using hv
      have hw : wireBody hostLE t v = v := by simp [wireBody, hs]
      exact Marshal_scalar hostLE bus msg sig t v hsig hs hv1 (by rwa [hw] at hroom)
    · have hv1 : (∀ b ∈ v, b ≠ 0) ∧ (ALIGNMENT t = 1 → v.length ≤ 255) := by
        simpa [IsValueOf, hs] using hv
      exact Marshal_string hostLE bus msg sig t v hsig hs hstr hnv hv1.1 hv1.2 hroom
  rw [hM] at hcopy ⊢
  have hdata : readBytes busR.rx.data bus.tx.writePtr
      ((List.replicate (PadForType t bus.tx) 0).length + (wireBody hostLE t v).length)
      = List.replicate (PadForType t bus.tx) 0 ++ wireBody hostLE t v := by
    rw [List.length_replicate, hcopy, txAppend_data]
    have := readBytes_writeBytesAt bus.tx.data bus.tx.writePtr
      (List.replicate (PadForType t bus.tx) 0 ++ wireBody hostLE t v)
      (by have := hroom.1; have := hroom.2.1; omega)
    simpa using this
  obtain ⟨ha1, ha2, ha3, ha4⟩ := havail
  have hbody := readBytes_split _ _ _ _ _ hdata (by simp; omega)
  simp only [List.length_replicate] at hbody
  refine ⟨rfl, by simp [Nat.add_assoc], ?_⟩
  rcases hkind with hs | ⟨hs, hstr, hnv, hal14⟩
  · have hv1 : v.length = SizeOfType t := by simpa [IsValueOf, hs] using hv
    have hw : wireBody hostLE t v = v := by simp [wireBody, hs]
    rw [hw] at hbody ha1
    rw [Unmarshal_scalar hostLE busR msgR sigR t hsigR hs hal hend
      ⟨by rw [hpad, ← hv1]; omega, ha2, ha3, ha4⟩]
    refine ⟨rfl, rfl, ⟨_, rfl, ?_⟩, fun h => absurd h hs, ?_⟩
    · simp only [rxAt_data, hpad, hoff]; exact hbody
    · simp only [rxAt_readPtr, hpad, hw, hv1]
  · have hv1 : (∀ b ∈ v, b ≠ 0) ∧ (ALIGNMENT t = 1 → v.length ≤ 255) := by
      simpa [IsValueOf, hs] using hv
    obtain ⟨lenBytes, hw, hll, hlv⟩ : ∃ lenBytes : List Nat,
        wireBody hostLE t v = lenBytes ++ (v ++ [0]) ∧ lenBytes.length = ALIGNMENT t
        ∧ (readBytes busR.rx.data (bus.tx.writePtr + PadForType t bus.tx) (ALIGNMENT t)
            = lenBytes →
          (if ALIGNMENT t = 4 then
            readU32 hostLE busR.rx.data (bus.tx.writePtr + PadForType t bus.tx)
          else busR.rx.data.getD (bus.tx.writePtr + PadForType t bus.tx) 0) = v.length) := by
      rcases hal14 with h1 | h4
      · refine ⟨[v.length % 256], by simp [wireBody, hs, h1], by simp [h1], ?_⟩
        intro h
        rw [if_neg (by omega), getD_of_readBytes_singleton _ _ _ (by simpa [h1] using h)]
        have := hv1.2 h1
        omega
      · refine ⟨u32Bytes hostLE v.length, by simp [wireBody, hs, h4],
          by simp [h4, length_u32Bytes], ?_⟩
        intro h
        have hlt : v.length < 4294967296 := by
          have : (wireBody hostLE t v).length = 4 + v.length + 1 := by
            simp [wireBody, hs, h4, length_u32Bytes]; omega
          omega
        rw [if_pos h4]
        exact readU32_of_readBytes hostLE _ _ _ (by simpa [h4] using h) hlt
    have hwl : (wireBody hostLE t v).length = ALIGNMENT t + v.length + 1 := by
      rw [hw]; simp [hll]; omega
    rw [hw] at hbody
    have hb1 : readBytes busR.rx.data (bus.tx.writePtr + PadForType t bus.tx)
        (lenBytes.length + (v.length + 1)) = lenBytes ++ (v ++ [0]) := by
      simpa using hbody
    have hl1 := readBytes_split_left _ _ _ _ _ hb1 (by rw [hll] ; omega)
    have hb2 := readBytes_split _ _ _ _ _ hb1 (by rw [hll]; omega)
    have hl2 := readBytes_split_left _ _ 1 _ _ hb2 (by rw [hll]; omega)
    rw [hll] at hl1 hl2
    have hn := hlv hl1
    rw [← hpad, ← hoff] at hn
    rw [Unmarshal_string hostLE busR msgR sigR t v.length hsigR hs hstr hnv hal hend hn
      ⟨by rw [hpad]; omega, ha2, ha3, ha4⟩]
    refine ⟨rfl, rfl, ⟨_, rfl, ?_⟩, fun _ => rfl, ?_⟩
    · simp only [rxAt_data, hpad, hoff]
      exact hl2
    · simp only [rxAt_readPtr, hpad, hwl]; omega

theorem basicTypes_kind (t : Nat) (ht : t ∈ basicTypes) :
    IsAlign (ALIGNMENT t) ∧ (IsScalarType t ≠ 0 ∨
      (IsScalarType t = 0 ∧ TYPE_FLAG t &&& (AJ_STRING ||| AJ_VARIANT) ≠ 0
        ∧ t ≠ AJ_ARG_VARIANT ∧ (ALIGNMENT t = 1 ∨ ALIGNMENT t = 4))) := by
  simp only [basicTypes, List.mem_cons, List.mem_singleton, List.not_mem_nil, or_false] at ht
  unfold IsAlign
  rcases ht with rfl | rfl | rfl | rfl | rfl | rfl | rfl | rfl | rfl | rfl | rfl | rfl | rfl <;>
    decide

/-- C1, counterexample: a string of 256 characters `i` has no NUL and fits the
buffer of 512 bytes, but marshalling it as a SIGNATURE returns `AJ_ERR_MARSHAL`
and writes nothing, so there is nothing to unmarshal. -/
theorem C1_counterexample_long_signature :
    (Marshal true c1Bus c1Msg (AJ_Ptr.mem [AJ_ARG_SIGNATURE] 0)
        (InitArg AJ_ARG_SIGNATURE (AJ_Ptr.mem (List.replicate 256 AJ_ARG_INT32) 0))).1
      = AJ_ERR_MARSHAL
    ∧ (Marshal true c1Bus c1Msg (AJ_Ptr.mem [AJ_ARG_SIGNATURE] 0)
        (InitArg AJ_ARG_SIGNATURE (AJ_Ptr.mem (List.replicate 256 AJ_ARG_INT32) 0))).2.1
      = c1Bus := by
  decide

/-- C1 (amended): argument-level round trip. For every basic type `t` and every
value `v` of that type (as many bytes as the size of a scalar; for a string type
characters without NUL, at most 255 of them for a SIGNATURE), when the padding
and the value fit the TX buffer, `Marshal` at the write offset returns OK and
advances the write cursor by the padding and the bytes of the value; and when
the bytes it produced stand at the same offset of an RX buffer whose message has
the endianness of the host, `Unmarshal` returns OK with an argument of type `t`
that points at the bytes `v` in the RX buffer, with `len` the length of a
string, and the read cursor advances by exactly the number of bytes written. -/
theorem C1_basic_roundtrip (hostLE : Bool) (t : Nat) (v : List Nat)
    (bus : AJ_BusAttachment) (msg : AJ_Message) (sig : AJ_Ptr)
    (busR : AJ_BusAttachment) (msgR : AJ_Message) (sigR : AJ_Ptr)
    (ht : t ∈ basicTypes) (hv : IsValueOf t v)
    (hsig : derefByte bus sig 0 = t) (hdir : bus.tx.direction = AJ_IO_BUF_TX)
    (hroom : TxRoom bus (PadForType t bus.tx + (wireBody hostLE t v).length))
    (hsigR : derefByte busR sigR 0 = t) (hdirR : busR.rx.direction = AJ_IO_BUF_RX)
    (hend : hdrEndianess hostLE busR msgR = HOST_ENDIANESS hostLE)
    (hoff : busR.rx.readPtr = bus.tx.writePtr)
    (havail : RxAvail busR (PadForType t bus.tx + (wireBody hostLE t v).length))
    (hcopy : readBytes busR.rx.data bus.tx.writePtr
        (PadForType t bus.tx + (wireBody hostLE t v).length)
      = readBytes (Marshal hostLE bus msg sig (InitArg t (AJ_Ptr.mem v 0))).2.1.tx.data
        bus.tx.writePtr (PadForType t bus.tx + (wireBody hostLE t v).length)) :
    (Marshal hostLE bus msg sig (InitArg t (AJ_Ptr.mem v 0))).1 = AJ_OK
    ∧ (Marshal hostLE bus msg sig (InitArg t (AJ_Ptr.mem v 0))).2.1.tx.writePtr
        = bus.tx.writePtr + PadForType t bus.tx + (wireBody hostLE t v).length
    ∧ (Unmarshal hostLE busR msgR sigR).1 = AJ_OK
    ∧ (Unmarshal hostLE busR msgR sigR).2.2.2.2.typeId = t
    ∧ (∃ p, (Unmarshal hostLE busR msgR sigR).2.2.2.2.val = AJ_Ptr.rx p
        ∧ readBytes (Unmarshal hostLE busR msgR sigR).2.1.rx.data p v.length = v)
    ∧ (IsScalarType t = 0 → (Unmarshal hostLE busR msgR sigR).2.2.2.2.len = v.length)
    ∧ (Unmarshal hostLE busR msgR sigR).2.1.rx.readPtr
        = busR.rx.readPtr + PadForType t bus.tx + (wireBody hostLE t v).length :=
  roundtrip_basic hostLE t v bus msg sig busR msgR sigR (basicTypes_kind t ht).1
    (basicTypes_kind t ht).2 hv hsig hdir hroom hsigR hdirR hend hoff havail hcopy

/-- C1, witness: the string `hi` marshalled at offset 17 on a little-endian host
and unmarshalled from the same offset. -/
theorem C1_basic_roundtrip_witness :
    (Marshal true c1wBus { hdr := AJ_HdrPtr.tx } (AJ_Ptr.mem [AJ_ARG_STRING] 0)
        (InitArg AJ_ARG_STRING (AJ_Ptr.mem [104, 105] 0))).1 = AJ_OK
    ∧ (Marshal true c1wBus { hdr := AJ_HdrPtr.tx } (AJ_Ptr.mem [AJ_ARG_STRING] 0)
        (InitArg AJ_ARG_STRING (AJ_Ptr.mem [104, 105] 0))).2.1.tx.writePtr
        = c1wBus.tx.writePtr + PadForType AJ_ARG_STRING c1wBus.tx
          + (wireBody true AJ_ARG_STRING [104, 105]).length
    ∧ (Unmarshal true c1wBusR { hdr := AJ_HdrPtr.rx } (AJ_Ptr.mem [AJ_ARG_STRING] 0)).1 = AJ_OK
    ∧ (Unmarshal true c1wBusR { hdr := AJ_HdrPtr.rx }
        (AJ_Ptr.mem [AJ_ARG_STRING] 0)).2.2.2.2.typeId = AJ_ARG_STRING
    ∧ (∃ p, (Unmarshal true c1wBusR { hdr := AJ_HdrPtr.rx }
          (AJ_Ptr.mem [AJ_ARG_STRING] 0)).2.2.2.2.val = AJ_Ptr.rx p
        ∧ readBytes (Unmarshal true c1wBusR { hdr := AJ_HdrPtr.rx }
          (AJ_Ptr.mem [AJ_ARG_STRING] 0)).2.1.rx.data p [104, 105].length = [104, 105])
    ∧ (IsScalarType AJ_ARG_STRING = 0 → (Unmarshal true c1wBusR { hdr := AJ_HdrPtr.rx }
          (AJ_Ptr.mem [AJ_ARG_STRING] 0)).2.2.2.2.len = [104, 105].length)
    ∧ (Unmarshal true c1wBusR { hdr := AJ_HdrPtr.rx }
          (AJ_Ptr.mem [AJ_ARG_STRING] 0)).2.1.rx.readPtr
        = c1wBusR.rx.readPtr + PadForType AJ_ARG_STRING c1wBus.tx
          + (wireBody true AJ_ARG_STRING [104, 105]).length :=
  C1_basic_roundtrip true AJ_ARG_STRING [104, 105] c1wBus { hdr := AJ_HdrPtr.tx }
    (AJ_Ptr.mem [AJ_ARG_STRING] 0) c1wBusR { hdr := AJ_HdrPtr.rx } (AJ_Ptr.mem [AJ_ARG_STRING] 0)
    (by decide) (by unfold IsValueOf; decide) (by decide) (by decide)
    (by unfold TxRoom; decide) (by decide) (by decide) (by decide) (by decide)
    (by unfold RxAvail; decide) (by decide)

/-! ## C3: the wire layout of strings -/

theorem Marshal_basic (hostLE : Bool) (bus : AJ_BusAttachment) (msg : AJ_Message)
    (sig : AJ_Ptr) (t : Nat) (v : List Nat) (ht : t ∈ basicTypes) (hv : IsValueOf t v)
    (hsig : derefByte bus sig 0 = t)
    (hroom : TxRoom bus (PadForType t bus.tx + (wireBody hostLE t v).length)) :
    Marshal hostLE bus msg sig (InitArg t (AJ_Ptr.mem v 0)) =
      (AJ_OK, txAppend bus (List.replicate (PadForType t bus.tx) 0 ++ wireBody hostLE t v),
        msg, sig.add 1, InitArg t (AJ_Ptr.mem v 0)) := by
  rcases (basicTypes_kind t ht).2 with hs | ⟨hs, hstr, hnv, _⟩
  · have hv1 : v.length = SizeOfType t := by simpa [IsValueOf, hs] using hv
    have hw : wireBody hostLE t v = v := by simp [wireBody, hs]
    exact Marshal_scalar hostLE bus msg sig t v hsig hs hv1 (by rwa [hw] at hroom)
  · have hv1 : (∀ b ∈ v, b ≠ 0) ∧ (ALIGNMENT t = 1 → v.length ≤ 255) := by
      simpa [IsValueOf, hs] using hv
    exact Marshal_string hostLE bus msg sig t v hsig hs hstr hnv hv1.1 hv1.2 hroom

theorem diff16_add (w n : Nat) (h : n < 65536) : diff16 (w + n) w = n := by
  unfold diff16; omega

@[simp] theorem msgStep_signature (msg : AJ_Message) (a b : Nat) :
    (msgStep msg a b).signature = msg.signature := rfl
@[simp] theorem msgStep_sigOffset (msg : AJ_Message) (a b : Nat) :
    (msgStep msg a b).sigOffset = a := rfl
@[simp] theorem msgStep_bodyBytes (msg : AJ_Message) (a b : Nat) :
    (msgStep msg a b).bodyBytes = b := rfl
@[simp] theorem msgStep_varOffset (msg : AJ_Message) (a b : Nat) :
    (msgStep msg a b).varOffset = msg.varOffset := rfl
@[simp] theorem msgStep_outer (msg : AJ_Message) (a b : Nat) :
    (msgStep msg a b).outer = msg.outer := rfl
@[simp] theorem msgStep_hdr (msg : AJ_Message) (a b : Nat) :
    (msgStep msg a b).hdr = msg.hdr := rfl
@[simp] theorem msgStep_bus (msg : AJ_Message) (a b : Nat) :
    (msgStep msg a b).bus = msg.bus := rfl
@[simp] theorem msgStep_msgStep (msg : AJ_Message) (a b c d : Nat) :
    msgStep (msgStep msg a b) c d = msgStep msg c d := rfl
@[simp] theorem hdrEndianess_msgStep (hostLE : Bool) (bus : AJ_BusAttachment)
    (msg : AJ_Message) (a b : Nat) :
    hdrEndianess hostLE bus (msgStep msg a b) = hdrEndianess hostLE bus msg := rfl

/-- `AJ_MarshalArg` for an argument of a basic type at the top level of the message
(no open container, no pending variant signature). -/
theorem AJ_MarshalArg_top_basic (hostLE : Bool) (bus : AJ_BusAttachment) (msg : AJ_Message)
    (t : Nat) (v : List Nat) (ht : t ∈ basicTypes) (hv : IsValueOf t v)
    (hvar : msg.varOffset = 0) (houter : msg.outer = [])
    (hsig : derefByte bus (msg.signature.add msg.sigOffset) 0 = t)
    (hroom : TxRoom bus (PadForType t bus.tx + (wireBody hostLE t v).length)) :
    AJ_MarshalArg hostLE bus msg (InitArg t (AJ_Ptr.mem v 0)) =
      (AJ_OK, txAppend bus (List.replicate (PadForType t bus.tx) 0 ++ wireBody hostLE t v),
        msgStep msg
          ((((msg.signature.add msg.sigOffset).add 1).offset - msg.signature.offset) % 256)
          ((msg.bodyBytes + (PadForType t bus.tx + (wireBody hostLE t v).length))
              % 4294967296),
        InitArg t (AJ_Ptr.mem v 0)) := by
  have ht0 : t ≠ 0 := by
    intro h; subst h; simp [basicTypes] at ht
  have hlt : PadForType t bus.tx + (wireBody hostLE t v).length < 65536 := by
    have := hroom.1; have := hroom.2.2; omega
  simp only [AJ_MarshalArg, hvar, ne_eq, not_true_eq_false, if_false, houter, hsig, ht0]
  rw [Marshal_basic hostLE bus msg _ t v ht hv hsig hroom]
  simp only [if_true, txAppend_writePtr, List.length_append, List.length_replicate]
  rw [diff16_add _ _ hlt]
  simp only [hvar, houter, msgStep]

theorem PadForType_tx_four (t : Nat) (tx : AJ_IOBuffer) (h4 : ALIGNMENT t = 4)
    (hdir : tx.direction = AJ_IO_BUF_TX) :
    PadForType t tx = (4 - tx.writePtr % 4) % 4 := by
  rw [PadForType_eq t tx (by rw [h4]; right; right; left; rfl), h4, hdir]
  simp

theorem PadForType_one (t : Nat) (tx : AJ_IOBuffer) (h1 : ALIGNMENT t = 1) :
    PadForType t tx = 0 := by
  rw [PadForType_eq t tx (by rw [h1]; left; rfl), h1]
  omega

/-- C3: string wire layout on a little-endian host. Marshalling a string `s` as
STRING or OBJ_PATH writes zero bytes up to the next multiple of 4 of the offset
from the buffer start, the length of `s` in 4 bytes, least significant first,
the characters of `s` and one NUL that the length does not count; as a SIGNATURE
it writes no padding, the length in 1 byte, the characters and one NUL. And
`AJ_MarshalArgs` with the signature `ss` and the strings `hello` and `world`, from
a write offset that is a multiple of 8, writes exactly the 22 bytes
`05 00 00 00 h e l l o 00 00 00 05 00 00 00 w o r l d 00`. -/
theorem C3_string_wire_layout :
    (∀ (bus : AJ_BusAttachment) (msg : AJ_Message) (sig : AJ_Ptr) (t : Nat) (s : List Nat),
      (t = AJ_ARG_STRING ∨ t = AJ_ARG_OBJ_PATH) →
      (∀ b ∈ s, b ≠ 0) →
      derefByte bus sig 0 = t → bus.tx.direction = AJ_IO_BUF_TX →
      TxRoom bus ((4 - bus.tx.writePtr % 4) % 4 + (4 + s.length + 1)) →
      Marshal true bus msg sig (InitArg t (AJ_Ptr.mem s 0)) =
        (AJ_OK,
          txAppend bus (List.replicate ((4 - bus.tx.writePtr % 4) % 4) 0
            ++ ([s.length % 256, s.length / 256 % 256, s.length / 65536 % 256,
                  s.length / 16777216 % 256] ++ s ++ [0])),
          msg, sig.add 1, InitArg t (AJ_Ptr.mem s 0))
      ∧ (bus.tx.writePtr + (4 - bus.tx.writePtr % 4) % 4) % 4 = 0
      ∧ s.length < 4294967296)
    ∧ (∀ (bus : AJ_BusAttachment) (msg : AJ_Message) (sig : AJ_Ptr) (s : List Nat),
      (∀ b ∈ s, b ≠ 0) → s.length ≤ 255 →
      derefByte bus sig 0 = AJ_ARG_SIGNATURE →
      TxRoom bus (1 + s.length + 1) →
      Marshal true bus msg sig (InitArg AJ_ARG_SIGNATURE (AJ_Ptr.mem s 0)) =
        (AJ_OK, txAppend bus ([s.length] ++ s ++ [0]), msg, sig.add 1,
          InitArg AJ_ARG_SIGNATURE (AJ_Ptr.mem s 0)))
    ∧ (∀ (bus : AJ_BusAttachment) (msg : AJ_Message),
      bus.tx.writePtr % 8 = 0 → bus.tx.direction = AJ_IO_BUF_TX → TxRoom bus 22 →
      msg.signature = AJ_Ptr.mem [AJ_ARG_STRING, AJ_ARG_STRING] 0 → msg.sigOffset = 0 →
      msg.varOffset = 0 → msg.outer = [] →
      (AJ_MarshalArgs true [AJ_ARG_STRING, AJ_ARG_STRING]
          [AJ_InVal.str (AJ_Ptr.mem helloBytes 0), AJ_InVal.str (AJ_Ptr.mem worldBytes 0)]
          bus msg).1 = AJ_OK
      ∧ (AJ_MarshalArgs true [AJ_ARG_STRING, AJ_ARG_STRING]
          [AJ_InVal.str (AJ_Ptr.mem helloBytes 0), AJ_InVal.str (AJ_Ptr.mem worldBytes 0)]
          bus msg).2.1
        = txAppend bus [5, 0, 0, 0, 104, 101, 108, 108, 111, 0, 0, 0,
                        5, 0, 0, 0, 119, 111, 114, 108, 100, 0]) := by
  refine ⟨?_, ?_, ?_⟩
  · intro bus msg sig t s ht hs hsig hdir hroom
    have h4 : ALIGNMENT t = 4 := by rcases ht with rfl | rfl <;> decide
    have hsc : IsScalarType t = 0 := by rcases ht with rfl | rfl <;> decide
    have hstr : TYPE_FLAG t &&& (AJ_STRING ||| AJ_VARIANT) ≠ 0 := by
      rcases ht with rfl | rfl <;> decide
    have hnv : t ≠ AJ_ARG_VARIANT := by rcases ht with rfl | rfl <;> decide
    have hpad := PadForType_tx_four t bus.tx h4 hdir
    have hw : wireBody true t s = [s.length % 256, s.length / 256 % 256, s.length / 65536 % 256,
        s.length / 16777216 % 256] ++ s ++ [0] := by
      simp [wireBody, hsc, h4, u32Bytes]
    have hwl : (wireBody true t s).length = 4 + s.length + 1 := by rw [hw]; simp; omega
    refine ⟨?_, by omega, by have := hroom.1; have := hroom.2.2; omega⟩
    have := Marshal_string true bus msg sig t s hsig hsc hstr hnv hs (by omega)
      (by rw [hpad, hwl]; exact hroom)
    rw [hpad, hw] at this
    exact this
  · intro bus msg sig s hs h255 hsig hroom
    have h1 : ALIGNMENT AJ_ARG_SIGNATURE = 1 := by decide
    have hpad := PadForType_one AJ_ARG_SIGNATURE bus.tx h1
    have hw : wireBody true AJ_ARG_SIGNATURE s = [s.length] ++ s ++ [0] := by
      have : IsScalarType AJ_ARG_SIGNATURE = 0 := by decide
      simp [wireBody, this, h1, Nat.mod_eq_of_lt (by omega : s.length < 256)]
    have := Marshal_string true bus msg sig AJ_ARG_SIGNATURE s hsig (by decide) (by decide)
      (by decide) hs (fun _ => h255)
      (by rw [hpad, hw]; simpa [Nat.add_comm, Nat.add_assoc, Nat.add_left_comm] using hroom)
    rw [hpad, hw] at this
    simpa using this
  · intro bus msg hw8 hdir hroom hsig hoff hvar houter
    have hS : AJ_ARG_STRING ∈ basicTypes := by decide
    have hp1 : PadForType AJ_ARG_STRING bus.tx = 0 := by
      rw [PadForType_tx_four _ _ (by decide) hdir]; omega
    have hw1 : wireBody true AJ_ARG_STRING helloBytes
        = [5, 0, 0, 0, 104, 101, 108, 108, 111, 0] := by decide
    have hw2 : wireBody true AJ_ARG_STRING worldBytes
        = [5, 0, 0, 0, 119, 111, 114, 108, 100, 0] := by decide
    have h1 := AJ_MarshalArg_top_basic true bus msg AJ_ARG_STRING helloBytes hS
      (by unfold IsValueOf; decide) hvar houter
      (by rw [hsig, hoff]; rfl)
      (by rw [hp1, hw1]; exact TxRoom_mono hroom (by simp))
    rw [hp1, hw1, hsig, hoff] at h1
    simp only [List.replicate_zero, List.nil_append, AJ_Ptr.add, AJ_Ptr.offset] at h1
    have hp2 : PadForType AJ_ARG_STRING
        (txAppend bus [5, 0, 0, 0, 104, 101, 108, 108, 111, 0]).tx = 2 := by
      rw [PadForType_tx_four _ _ (by decide) (by simpa using hdir)]
      simp only [txAppend_writePtr, List.length_cons, List.length_nil]
      omega
    have h2 := AJ_MarshalArg_top_basic true
      (txAppend bus [5, 0, 0, 0, 104, 101, 108, 108, 111, 0])
      (msgStep msg ((0 + 0 + 1 - 0) % 256)
        ((msg.bodyBytes + (0 + [5, 0, 0, 0, 104, 101, 108, 108, 111, 0].length)) % 4294967296))
      AJ_ARG_STRING worldBytes hS
      (by unfold IsValueOf; decide) (by simpa using hvar) (by simpa using houter)
      (by simp only [msgStep_signature, msgStep_sigOffset, hsig]; rfl)
      (by rw [hp2, hw2]; exact TxRoom_txAppend (TxRoom_mono hroom (by simp)))
    rw [hp2, hw2] at h2
    have hv1 : marshalArgsVal true AJ_ARG_STRING
        (AJ_InVal.str (AJ_Ptr.mem helloBytes 0)) = AJ_Ptr.mem helloBytes 0 := rfl
    have hv2 : marshalArgsVal true AJ_ARG_STRING
        (AJ_InVal.str (AJ_Ptr.mem worldBytes 0)) = AJ_Ptr.mem worldBytes 0 := rfl
    have hb : IsBasicType AJ_ARG_STRING ≠ 0 := by decide
    have hm : AJ_ARG_STRING % 256 = AJ_ARG_STRING := rfl
    have e1 : AJ_MarshalArgs true [AJ_ARG_STRING, AJ_ARG_STRING]
          [AJ_InVal.str (AJ_Ptr.mem helloBytes 0), AJ_InVal.str (AJ_Ptr.mem worldBytes 0)]
          bus msg
        = AJ_MarshalArgs true [AJ_ARG_STRING] [AJ_InVal.str (AJ_Ptr.mem worldBytes 0)]
          (txAppend bus [5, 0, 0, 0, 104, 101, 108, 108, 111, 0])
          (msgStep msg ((0 + 0 + 1 - 0) % 256)
            ((msg.bodyBytes + (0 + [5, 0, 0, 0, 104, 101, 108, 108, 111, 0].length))
              % 4294967296)) := by
      rw [AJ_MarshalArgs]
      simp only [show AJ_ARG_STRING ≠ 0 by decide, if_false, hb, List.headD_cons,
        List.tail_cons, hv1, hm, h1, ne_eq, not_true_eq_false]
    rw [e1, AJ_MarshalArgs]
    simp only [show AJ_ARG_STRING ≠ 0 by decide, if_false, hb, List.headD_cons,
      List.tail_cons, hv2, hm, h2, ne_eq, not_true_eq_false, AJ_MarshalArgs]
    rw [txAppend_txAppend _ _ _ (TxRoom_mono hroom (by simp))]
    simp

/-! ## C4: alignment -/

/-- C3, witness: `hello` and `world` marshalled from offset 24 of a buffer of 64
bytes. -/
theorem C3_string_wire_layout_witness :
    (AJ_MarshalArgs true [AJ_ARG_STRING, AJ_ARG_STRING]
        [AJ_InVal.str (AJ_Ptr.mem helloBytes 0), AJ_InVal.str (AJ_Ptr.mem worldBytes 0)]
        c3Bus c3Msg).1 = AJ_OK
    ∧ (AJ_MarshalArgs true [AJ_ARG_STRING, AJ_ARG_STRING]
        [AJ_InVal.str (AJ_Ptr.mem helloBytes 0), AJ_InVal.str (AJ_Ptr.mem worldBytes 0)]
        c3Bus c3Msg).2.1
      = txAppend c3Bus [5, 0, 0, 0, 104, 101, 108, 108, 111, 0, 0, 0,
                        5, 0, 0, 0, 119, 111, 114, 108, 100, 0] :=
  C3_string_wire_layout.2.2 c3Bus c3Msg (by decide) (by decide) (by unfold TxRoom; decide)
    rfl rfl rfl rfl

theorem WriteBytes_fit_gen (bus : AJ_BusAttachment) (msg : AJ_Message) (data : AJ_Ptr)
    (numBytes pad : Nat)
    (hnull : numBytes ≠ 0 → data ≠ AJ_Ptr.null)
    (hroom : TxRoom bus (pad + numBytes)) :
    WriteBytes bus msg data numBytes pad =
      (AJ_OK, txAppend bus (List.replicate pad 0
        ++ memRead (txAppend bus (List.replicate pad 0)) data numBytes)) := by
  obtain ⟨hfit, hlen, hsize⟩ := hroom
  have hbody : (WriteBytesBody bus data numBytes pad (AJ_IO_BUF_SPACE bus.tx)).1 =
      (txAppend bus (List.replicate pad 0
        ++ memRead (txAppend bus (List.replicate pad 0)) data numBytes)).tx := by
    have hc : (AJ_IO_BUF_SPACE bus.tx + SIZE_T_MOD - pad % SIZE_T_MOD) % SIZE_T_MOD
        = AJ_IO_BUF_SPACE bus.tx - pad := by
      simp only [AJ_IO_BUF_SPACE, SIZE_T_MOD]; omega
    have hc2 : ¬ numBytes < AJ_IO_BUF_SPACE bus.tx - pad →
        AJ_IO_BUF_SPACE bus.tx - pad = numBytes := by
      simp only [AJ_IO_BUF_SPACE]; omega
    have hml : ∀ b : AJ_BusAttachment, (memRead b data numBytes).length = numBytes := by
      intro b; simp [memRead]
    simp only [WriteBytesBody, hc, txAppend]
    split
    · rw [← writeBytesAt_append _ _ _ _ (by simp; omega)]
      simp [hml, Nat.add_assoc]
    · rename_i hlt
      rw [hc2 hlt]
      rw [← writeBytesAt_append _ _ _ _ (by simp; omega)]
      simp [hml, Nat.add_assoc]
  have hnn : ¬ (numBytes ≠ 0 ∧ data = AJ_Ptr.null) := by
    intro ⟨h1, h2⟩; exact hnull h1 h2
  simp only [WriteBytes, if_neg hnn]
  by_cases hz : numBytes + pad = 0
  · have hp : pad = 0 := by omega
    have hn0 : numBytes = 0 := by omega
    subst hp; subst hn0
    cases hsc : bus.tx.context.script <;>
      simp [WriteBytesLoop, txAppend, memRead,
        writeBytesAt_nil _ _ (by omega : bus.tx.writePtr ≤ bus.tx.data.length), ← hsc]
  · have hfit2 : ¬ numBytes + pad > AJ_IO_BUF_SPACE bus.tx := by
      simp only [AJ_IO_BUF_SPACE]; omega
    cases hsc : bus.tx.context.script <;>
      simp only [WriteBytesLoop, if_neg hz, if_neg hfit2, hbody] <;> simp [← hsc, txAppend]

/-- When the header pointer is valid, `WriteBytes` returns OK only if the bytes
fit the buffer. -/
theorem WriteBytes_ok_room (bus : AJ_BusAttachment) (msg : AJ_Message) (data : AJ_Ptr)
    (numBytes pad : Nat) (hhdr : msg.hdr ≠ AJ_HdrPtr.null) (hwf : TxWF bus)
    (hok : (WriteBytes bus msg data numBytes pad).1 = AJ_OK) :
    TxRoom bus (pad + numBytes) ∧ (numBytes ≠ 0 → data ≠ AJ_Ptr.null) := by
  obtain ⟨h1, h2, h3⟩ := hwf
  by_cases hnn : numBytes ≠ 0 ∧ data = AJ_Ptr.null
  · simp [WriteBytes, hnn] at hok
  · refine ⟨?_, fun a b => hnn ⟨a, b⟩⟩
    simp only [WriteBytes, if_neg hnn] at hok
    by_cases hz : numBytes + pad = 0
    · exact ⟨by omega, h2, h3⟩
    · by_cases hfit : numBytes + pad > AJ_IO_BUF_SPACE bus.tx
      · cases hsc : bus.tx.context.script <;>
          simp [hsc, WriteBytesLoop, hz, hfit, hhdr] at hok
      · simp only [AJ_IO_BUF_SPACE] at hfit
        exact ⟨by omega, h2, h3⟩

theorem TxStep_refl (bus : AJ_BusAttachment) (h : TxWF bus) : TxStep bus bus :=
  ⟨h, rfl, rfl, rfl, Nat.le_refl _⟩

theorem TxStep_trans {a b c : AJ_BusAttachment} (h1 : TxStep a b) (h2 : TxStep b c) :
    TxStep a c :=
  ⟨h2.1, h2.2.1.trans h1.2.1, h2.2.2.1.trans h1.2.2.1, h2.2.2.2.1.trans h1.2.2.2.1,
    Nat.le_trans h1.2.2.2.2 h2.2.2.2.2⟩

theorem TxStep_txAppend (bus : AJ_BusAttachment) (bytes : List Nat)
    (h : TxRoom bus bytes.length) : TxStep bus (txAppend bus bytes) :=
  ⟨TxRoom_txAppend (by simpa using h), rfl, rfl, rfl, by simp⟩

theorem WriteBytes_ok_step (bus : AJ_BusAttachment) (msg : AJ_Message) (data : AJ_Ptr)
    (numBytes pad : Nat) (hhdr : msg.hdr ≠ AJ_HdrPtr.null) (hwf : TxWF bus)
    (hok : (WriteBytes bus msg data numBytes pad).1 = AJ_OK) :
    TxStep bus (WriteBytes bus msg data numBytes pad).2 := by
  obtain ⟨hroom, hnull⟩ := WriteBytes_ok_room bus msg data numBytes pad hhdr hwf hok
  rw [WriteBytes_fit_gen bus msg data numBytes pad hnull hroom]
  exact TxStep_txAppend _ _ (by simpa [memRead] using hroom)

theorem MarshalContainer_ok_step (bus : AJ_BusAttachment) (msg : AJ_Message) (sig : AJ_Ptr)
    (arg : AJ_Arg) (pad : Nat) (hhdr : msg.hdr ≠ AJ_HdrPtr.null) (hwf : TxWF bus)
    (hok : (MarshalContainer bus msg sig arg pad).1 = AJ_OK) :
    TxStep bus (MarshalContainer bus msg sig arg pad).2.1 := by
  simp only [MarshalContainer, WritePad] at hok ⊢
  split_ifs at hok ⊢ with h1 h2
  · have s1 := WriteBytes_ok_step bus msg AJ_Ptr.null 0 (pad + 4) hhdr hwf h2
    exact TxStep_trans s1 (WriteBytes_ok_step _ msg AJ_Ptr.null 0 _ hhdr s1.1 hok)
  · exact absurd hok h2
  · exact WriteBytes_ok_step bus msg AJ_Ptr.null 0 pad hhdr hwf hok

theorem string_writes_step (bus : AJ_BusAttachment) (msg : AJ_Message) (d1 d2 : AJ_Ptr)
    (n1 pad sz : Nat) (hhdr : msg.hdr ≠ AJ_HdrPtr.null) (hwf : TxWF bus)
    (h1 : (WriteBytes bus msg d1 n1 pad).1 = AJ_OK)
    (h2 : (if (WriteBytes (WriteBytes bus msg d1 n1 pad).2 msg d2 sz 0).1 = AJ_OK then
        WriteBytes (WriteBytes (WriteBytes bus msg d1 n1 pad).2 msg d2 sz 0).2 msg AJ_Ptr.null 0 1
      else WriteBytes (WriteBytes bus msg d1 n1 pad).2 msg d2 sz 0).1 = AJ_OK) :
    TxStep bus (if (WriteBytes (WriteBytes bus msg d1 n1 pad).2 msg d2 sz 0).1 = AJ_OK then
        WriteBytes (WriteBytes (WriteBytes bus msg d1 n1 pad).2 msg d2 sz 0).2 msg AJ_Ptr.null 0 1
      else WriteBytes (WriteBytes bus msg d1 n1 pad).2 msg d2 sz 0).2 := by
  have s1 := WriteBytes_ok_step bus msg d1 n1 pad hhdr hwf h1
  split_ifs at h2 ⊢ with h3
  · have s2 := WriteBytes_ok_step _ msg d2 sz 0 hhdr s1.1 h3
    exact TxStep_trans s1 (TxStep_trans s2 (WriteBytes_ok_step _ msg _ _ _ hhdr s2.1 h2))
  · exact absurd h2 h3

theorem Marshal_ok_step (hostLE : Bool) (bus : AJ_BusAttachment) (msg : AJ_Message)
    (sig : AJ_Ptr) (arg : AJ_Arg) (hhdr : msg.hdr ≠ AJ_HdrPtr.null) (hwf : TxWF bus)
    (hok : (Marshal hostLE bus msg sig arg).1 = AJ_OK) :
    TxStep bus (Marshal hostLE bus msg sig arg).2.1
      ∧ (Marshal hostLE bus msg sig arg).2.2.1.hdr = msg.hdr := by
  by_cases hs : IsScalarType arg.typeId ≠ 0
  · by_cases hf : arg.flags &&& AJ_ARRAY_FLAG ≠ 0
    · by_cases hc : derefByte bus sig 0 ≠ AJ_ARG_ARRAY ∨ derefByte bus (sig.add 1) 0 ≠ arg.typeId
      · simp only [Marshal, hs, hf, hc, ne_eq, not_false_eq_true, if_true, if_false] at hok
        exact absurd hok (by decide)
      · simp only [Marshal, hs, hf, hc, ne_eq, not_false_eq_true, if_true, if_false] at hok ⊢
        split_ifs at hok ⊢ with h1
        · have s1 := WriteBytes_ok_step bus msg _ 4 _ hhdr hwf h1
          exact ⟨TxStep_trans s1 (WriteBytes_ok_step _ msg _ _ _ hhdr s1.1 hok), rfl⟩
        · exact absurd hok h1
    · by_cases hc : derefByte bus sig 0 ≠ arg.typeId
      · simp only [Marshal, hs, hf, hc, ne_eq, not_false_eq_true, if_true, if_false] at hok
        exact absurd hok (by decide)
      · simp only [Marshal, hs, hf, hc, ne_eq, not_false_eq_true, if_true, if_false] at hok ⊢
        exact ⟨WriteBytes_ok_step bus msg _ _ _ hhdr hwf hok, trivial⟩
  · by_cases hstr : TYPE_FLAG (derefByte bus sig 0) &&& (AJ_STRING ||| AJ_VARIANT) ≠ 0
    · by_cases hc : derefByte bus sig 0 ≠ arg.typeId
      · simp only [Marshal, hs, hstr, hc, ne_eq, not_false_eq_true, if_true, if_false] at hok
        exact absurd hok (by decide)
      · simp only [Marshal, hs, hstr, hc, ne_eq, not_false_eq_true, if_true, if_false,
          WritePad] at hok ⊢
        generalize (if ¬arg.len = 0 then arg.len else strlen (derefFrom bus arg.val)) = sz
          at hok ⊢
        by_cases h255 : ALIGNMENT (derefByte bus sig 0) = 1 ∧ sz > 255
        · simp only [h255, and_self, if_true] at hok
          exact absurd hok (by decide)
        · simp only [h255, if_false] at hok ⊢
          by_cases h1 : ALIGNMENT (derefByte bus sig 0) = 1
          · simp only [h1, if_true] at hok ⊢
            by_cases h2 : (WriteBytes bus msg (AJ_Ptr.mem [sz % 256] 0) 1
                (PadForType (derefByte bus sig 0) bus.tx)).1 = AJ_OK
            · simp only [h2, if_true] at hok ⊢
              refine ⟨string_writes_step bus msg _ _ _ _ _ hhdr hwf h2 hok, ?_⟩
              split_ifs <;> rfl
            · simp only [h2, if_false] at hok
          · simp only [h1, if_false] at hok ⊢
            by_cases h2 : (WriteBytes bus msg (AJ_Ptr.mem (u32Bytes hostLE sz) 0) 4
                (PadForType (derefByte bus sig 0) bus.tx)).1 = AJ_OK
            · simp only [h2, if_true] at hok ⊢
              refine ⟨string_writes_step bus msg _ _ _ _ _ hhdr hwf h2 hok, ?_⟩
              split_ifs <;> rfl
            · simp only [h2, if_false] at hok
    · by_cases hcont : TYPE_FLAG (derefByte bus sig 0) &&& AJ_CONTAINER ≠ 0
      · by_cases hc : derefByte bus sig 0 ≠ arg.typeId
        · simp only [Marshal, hs, hstr, hcont, hc, ne_eq, not_false_eq_true, if_true, if_false]
            at hok
          exact absurd hok (by decide)
        · simp only [Marshal, hs, hstr, hcont, hc, ne_eq, not_false_eq_true, if_true, if_false]
            at hok ⊢
          exact ⟨MarshalContainer_ok_step bus msg _ _ _ hhdr hwf hok, trivial⟩
      · simp only [Marshal, hs, hstr, hcont, ne_eq, not_false_eq_true, if_true, if_false] at hok
        exact absurd hok (by decide)

/-- When the header pointer is valid and `AJ_MarshalArg` returns OK, the invariant
of the TX buffer holds afterwards and the header pointer is still valid. -/
theorem AJ_MarshalArg_ok_step (hostLE : Bool) (bus : AJ_BusAttachment) (msg : AJ_Message)
    (arg : AJ_Arg) (hhdr : msg.hdr ≠ AJ_HdrPtr.null) (hwf : TxWF bus)
    (hok : (AJ_MarshalArg hostLE bus msg arg).1 = AJ_OK) :
    TxStep bus (AJ_MarshalArg hostLE bus msg arg).2.1
      ∧ (AJ_MarshalArg hostLE bus msg arg).2.2.1.hdr = msg.hdr := by
  by_cases hvar : msg.varOffset ≠ 0
  · simp only [AJ_MarshalArg, hvar, ne_eq, not_false_eq_true, if_true] at hok ⊢
    by_cases h1 : (Marshal hostLE bus { msg with varOffset := 0 }
        (AJ_Ptr.tx (bus.tx.writePtr - msg.varOffset)) arg).1 = AJ_OK
    · have := Marshal_ok_step hostLE bus { msg with varOffset := 0 } _ arg hhdr hwf h1
      simp only [h1, if_true]
      exact ⟨this.1, this.2⟩
    · simp only [h1, if_false] at hok
  · cases ho : msg.outer with
    | nil =>
      simp only [AJ_MarshalArg, hvar, ho, ne_eq, if_false] at hok ⊢
      by_cases h0 : derefByte bus (msg.signature.add msg.sigOffset) 0 = 0
      · simp only [h0, if_true] at hok
        exact absurd hok (by decide)
      · simp only [h0, if_false] at hok ⊢
        by_cases h1 : (Marshal hostLE bus msg (msg.signature.add msg.sigOffset) arg).1 = AJ_OK
        · have := Marshal_ok_step hostLE bus msg _ arg hhdr hwf h1
          simp only [h1, if_true]
          exact ⟨this.1, this.2⟩
        · simp only [h1, if_false] at hok
    | cons outer rest =>
      simp only [AJ_MarshalArg, hvar, ho, ne_eq, if_false] at hok ⊢
      by_cases h0 : derefByte bus outer.sigPtr 0 = 0
      · simp only [h0, if_true] at hok
        exact absurd hok (by decide)
      · simp only [h0, if_false] at hok ⊢
        by_cases h1 : (Marshal hostLE bus msg outer.sigPtr arg).1 = AJ_OK
        · have := Marshal_ok_step hostLE bus msg _ arg hhdr hwf h1
          simp only [h1, if_true]
          refine ⟨this.1, ?_⟩
          split_ifs
          · exact this.2
          · exact this.2
        · simp only [h1, if_false] at hok

/-- The macro `TYPE_FLAG` gives 0 outside the types of the wire format, but for
the character 96, whose index `96 - 96` is the entry of `(`. -/
theorem TYPE_FLAG_cases (t : Nat) : TYPE_FLAG t = 0 ∨ t = 96 ∨ t ∈ wireTypes := by
  by_cases h40 : t = AJ_ARG_STRUCT
  · right; right; subst h40; decide
  · by_cases h96 : 96 ≤ t
    · by_cases h124 : t < 124
      · have : TYPE_FLAG t = 0 ∨ t = 96 ∨ t ∈ wireTypes := by
          interval_cases t <;> decide
        exact this
      · left
        simp only [TYPE_FLAG, h40, if_false, h96, if_true]
        rw [List.getD_eq_default]
        simp [TypeFlags]; omega
    · left; simp [TYPE_FLAG, h40, h96]

theorem wireTypes_align (t : Nat) (h : t ∈ wireTypes) : IsAlign (ALIGNMENT t) := by
  simp only [wireTypes, List.mem_cons, List.mem_singleton, List.not_mem_nil, or_false] at h
  unfold IsAlign
  rcases h with rfl | rfl | rfl | rfl | rfl | rfl | rfl | rfl | rfl | rfl | rfl | rfl | rfl
    | rfl | rfl | rfl | rfl <;> decide

theorem align_of_flag (t : Nat) (h : TYPE_FLAG t ≠ 0) : IsAlign (ALIGNMENT t) := by
  rcases TYPE_FLAG_cases t with h0 | h96 | hw
  · exact absurd h0 h
  · subst h96; unfold IsAlign; decide
  · exact wireTypes_align t hw

theorem align_of_scalar (t : Nat) (h : IsScalarType t ≠ 0) : IsAlign (ALIGNMENT t) := by
  apply align_of_flag
  intro h0
  simp [IsScalarType, h0] at h

/-- A padding of `PadForType` aligns the cursor, and no smaller padding does. -/
theorem PadForType_spec (t : Nat) (ioBuf : AJ_IOBuffer) (ha : IsAlign (ALIGNMENT t))
    (cursor : Nat)
    (hc : cursor = if ioBuf.direction = AJ_IO_BUF_RX then ioBuf.readPtr else ioBuf.writePtr) :
    PadForType t ioBuf < ALIGNMENT t
      ∧ (cursor + PadForType t ioBuf) % ALIGNMENT t = 0
      ∧ ∀ p, p < PadForType t ioBuf → (cursor + p) % ALIGNMENT t ≠ 0 := by
  rw [PadForType_eq t ioBuf ha, ← hc]
  rcases ha with h | h | h | h <;> rw [h] <;> refine ⟨by omega, by omega, ?_⟩ <;>
    intro p hp <;> omega

theorem AJ_MarshalArg_bus (hostLE : Bool) (bus : AJ_BusAttachment) (msg : AJ_Message)
    (arg : AJ_Arg) (hok : (AJ_MarshalArg hostLE bus msg arg).1 = AJ_OK) :
    ∃ (m : AJ_Message) (sig : AJ_Ptr), (Marshal hostLE bus m sig arg).1 = AJ_OK
      ∧ m.hdr = msg.hdr
      ∧ (AJ_MarshalArg hostLE bus msg arg).2.1 = (Marshal hostLE bus m sig arg).2.1
      ∧ (AJ_MarshalArg hostLE bus msg arg).2.2.2 = (Marshal hostLE bus m sig arg).2.2.2.2 := by
  by_cases hvar : msg.varOffset ≠ 0
  · simp only [AJ_MarshalArg, hvar, ne_eq, not_false_eq_true, if_true] at hok ⊢
    by_cases h1 : (Marshal hostLE bus { msg with varOffset := 0 }
        (AJ_Ptr.tx (bus.tx.writePtr - msg.varOffset)) arg).1 = AJ_OK
    · exact ⟨_, _, h1, rfl, by simp only [h1, if_true], by simp only [h1, if_true]⟩
    · simp only [h1, if_false] at hok
  · cases ho : msg.outer with
    | nil =>
      simp only [AJ_MarshalArg, hvar, ho, ne_eq, if_false] at hok ⊢
      by_cases h0 : derefByte bus (msg.signature.add msg.sigOffset) 0 = 0
      · simp only [h0, if_true] at hok
        exact absurd hok (by decide)
      · simp only [h0, if_false] at hok ⊢
        by_cases h1 : (Marshal hostLE bus msg (msg.signature.add msg.sigOffset) arg).1 = AJ_OK
        · exact ⟨_, _, h1, rfl, by simp only [h1, if_true], by simp only [h1, if_true]⟩
        · simp only [h1, if_false] at hok
    | cons outer rest =>
      simp only [AJ_MarshalArg, hvar, ho, ne_eq, if_false] at hok ⊢
      by_cases h0 : derefByte bus outer.sigPtr 0 = 0
      · simp only [h0, if_true] at hok
        exact absurd hok (by decide)
      · simp only [h0, if_false] at hok ⊢
        by_cases h1 : (Marshal hostLE bus msg outer.sigPtr arg).1 = AJ_OK
        · exact ⟨_, _, h1, rfl, by simp only [h1, if_true], by simp only [h1, if_true]⟩
        · simp only [h1, if_false] at hok

/-- A scalar that `Marshal` accepts is written behind zero padding. -/
theorem Marshal_scalar_ok (hostLE : Bool) (bus : AJ_BusAttachment) (msg : AJ_Message)
    (sig : AJ_Ptr) (arg : AJ_Arg) (hhdr : msg.hdr ≠ AJ_HdrPtr.null) (hwf : TxWF bus)
    (hs : IsScalarType arg.typeId ≠ 0) (hf : arg.flags &&& AJ_ARRAY_FLAG = 0)
    (hok : (Marshal hostLE bus msg sig arg).1 = AJ_OK) :
    (Marshal hostLE bus msg sig arg).2.1 =
      txAppend bus (List.replicate (PadForType arg.typeId bus.tx) 0
        ++ memRead (txAppend bus (List.replicate (PadForType arg.typeId bus.tx) 0)) arg.val
            (SizeOfType arg.typeId)) := by
  by_cases hc : derefByte bus sig 0 ≠ arg.typeId
  · simp only [Marshal, hs, hf, hc, ne_eq, not_false_eq_true, not_true_eq_false, if_true,
      if_false] at hok
    exact absurd hok (by decide)
  · have hc' : derefByte bus sig 0 = arg.typeId := by simpa using hc
    simp only [Marshal, hs, hf, hc', ne_eq, not_false_eq_true, not_true_eq_false, if_true,
      if_false] at hok ⊢
    obtain ⟨hroom, hnull⟩ := WriteBytes_ok_room bus msg _ _ _ hhdr hwf hok
    rw [WriteBytes_fit_gen bus msg _ _ _ hnull hroom]

theorem AJ_MarshalArgSeq_snoc (hostLE : Bool) (pre : List AJ_Arg) (arg : AJ_Arg)
    (bus : AJ_BusAttachment) (msg : AJ_Message)
    (hok : (AJ_MarshalArgSeq hostLE (pre ++ [arg]) bus msg).1 = AJ_OK) :
    (AJ_MarshalArgSeq hostLE pre bus msg).1 = AJ_OK
    ∧ (AJ_MarshalArg hostLE (AJ_MarshalArgSeq hostLE pre bus msg).2.1
        (AJ_MarshalArgSeq hostLE pre bus msg).2.2 arg).1 = AJ_OK
    ∧ (AJ_MarshalArgSeq hostLE (pre ++ [arg]) bus msg).2.1
      = (AJ_MarshalArg hostLE (AJ_MarshalArgSeq hostLE pre bus msg).2.1
        (AJ_MarshalArgSeq hostLE pre bus msg).2.2 arg).2.1 := by
  induction pre generalizing bus msg with
  | nil =>
    simp only [List.nil_append, AJ_MarshalArgSeq] at hok ⊢
    by_cases h : (AJ_MarshalArg hostLE bus msg arg).1 = AJ_OK
    · simp [h]
    · simp [h] at hok
  | cons a rest ih =>
    simp only [List.cons_append, AJ_MarshalArgSeq] at hok ⊢
    by_cases h : (AJ_MarshalArg hostLE bus msg a).1 = AJ_OK
    · simp only [h, ne_eq, not_true_eq_false, if_false] at hok ⊢
      exact ih _ _ hok
    · simp [h] at hok

theorem AJ_MarshalArgSeq_ok_step (hostLE : Bool) (args : List AJ_Arg)
    (bus : AJ_BusAttachment) (msg : AJ_Message) (hhdr : msg.hdr ≠ AJ_HdrPtr.null)
    (hwf : TxWF bus) (hok : (AJ_MarshalArgSeq hostLE args bus msg).1 = AJ_OK) :
    TxStep bus (AJ_MarshalArgSeq hostLE args bus msg).2.1
      ∧ (AJ_MarshalArgSeq hostLE args bus msg).2.2.hdr = msg.hdr := by
  induction args generalizing bus msg with
  | nil => exact ⟨TxStep_refl bus hwf, rfl⟩
  | cons a rest ih =>
    simp only [AJ_MarshalArgSeq] at hok ⊢
    by_cases h : (AJ_MarshalArg hostLE bus msg a).1 = AJ_OK
    · simp only [h, ne_eq, not_true_eq_false, if_false] at hok ⊢
      have s1 := AJ_MarshalArg_ok_step hostLE bus msg a hhdr hwf h
      have s2 := ih _ _ (by rw [s1.2]; exact hhdr) s1.1.1 hok
      exact ⟨TxStep_trans s1.1 s2.1, s2.2.trans s1.2⟩
    · simp [h] at hok

/-! ## C5: the length field of an array -/

theorem Marshal_array_ok (hostLE : Bool) (bus : AJ_BusAttachment) (msg : AJ_Message)
    (sig : AJ_Ptr) (hhdr : msg.hdr ≠ AJ_HdrPtr.null) (hwf : TxWF bus)
    (hok : (Marshal hostLE bus msg sig (InitArg AJ_ARG_ARRAY AJ_Ptr.null)).1 = AJ_OK) :
    (Marshal hostLE bus msg sig (InitArg AJ_ARG_ARRAY AJ_Ptr.null)).2.1
      = txAppend (txAppend bus (List.replicate (PadForType AJ_ARG_ARRAY bus.tx + 4) 0))
          (List.replicate
            (PadForType
              (derefByte (txAppend bus (List.replicate (PadForType AJ_ARG_ARRAY bus.tx + 4) 0))
                (((sig.add 1).sub 1).add 1) 0)
              (txAppend bus (List.replicate (PadForType AJ_ARG_ARRAY bus.tx + 4) 0)).tx) 0)
    ∧ (Marshal hostLE bus msg sig (InitArg AJ_ARG_ARRAY AJ_Ptr.null)).2.2.2.2
      = { typeId := AJ_ARG_ARRAY, flags := 0, len := 0,
          val := AJ_Ptr.tx (bus.tx.writePtr + PadForType AJ_ARG_ARRAY bus.tx),
          sigPtr := ((sig.add 1).sub 1).add 1 }
    ∧ TxRoom bus (PadForType AJ_ARG_ARRAY bus.tx + 4
        + PadForType
            (derefByte (txAppend bus (List.replicate (PadForType AJ_ARG_ARRAY bus.tx + 4) 0))
              (((sig.add 1).sub 1).add 1) 0)
            (txAppend bus (List.replicate (PadForType AJ_ARG_ARRAY bus.tx + 4) 0)).tx) := by
  have hs : IsScalarType AJ_ARG_ARRAY = 0 := by decide
  by_cases hc : derefByte bus sig 0 = AJ_ARG_ARRAY
  · have hstr : TYPE_FLAG AJ_ARG_ARRAY &&& (AJ_STRING ||| AJ_VARIANT) = 0 := by decide
    have hcont : TYPE_FLAG AJ_ARG_ARRAY &&& AJ_CONTAINER ≠ 0 := by decide
    have hs1 : derefByte bus ((sig.add 1).sub 1) 0 = AJ_ARG_ARRAY := by
      cases sig <;> simp_all [AJ_Ptr.add, AJ_Ptr.sub, derefByte]
    simp only [Marshal, InitArg, hc, hs, hstr, hcont, ne_eq, not_true_eq_false, if_false,
      not_false_eq_true, if_true, MarshalContainer, hs1, WritePad] at hok ⊢
    by_cases h1 : (WriteBytes bus msg AJ_Ptr.null 0 (PadForType AJ_ARG_ARRAY bus.tx + 4)).1 = AJ_OK
    · obtain ⟨hroom1, _⟩ := WriteBytes_ok_room bus msg _ _ _ hhdr hwf h1
      have e1 := WriteBytes_fit_gen bus msg AJ_Ptr.null 0 (PadForType AJ_ARG_ARRAY bus.tx + 4)
        (by simp) hroom1
      simp only [memRead_zero, List.append_nil] at e1
      simp only [h1, if_true] at hok ⊢
      rw [e1] at hok ⊢
      have hwf1 : TxWF (txAppend bus (List.replicate (PadForType AJ_ARG_ARRAY bus.tx + 4) 0)) :=
        TxRoom_txAppend (by simpa using hroom1)
      obtain ⟨hroom2, _⟩ := WriteBytes_ok_room _ msg _ _ _ hhdr hwf1 hok
      have e2 := WriteBytes_fit_gen _ msg AJ_Ptr.null 0 _ (by simp) hroom2
      simp only [memRead_zero, List.append_nil] at e2
      rw [e2]
      refine ⟨rfl, ?_, ?_⟩
      · simp
        omega
      · obtain ⟨a1, a2, a3⟩ := hroom2
        refine ⟨?_, hwf.2.1, hwf.2.2⟩
        simp only [txAppend_writePtr, List.length_replicate, Nat.add_zero, txAppend_bufSize]
          at a1
        omega
    · simp only [h1, if_false] at hok
  · exfalso
    by_cases hstr : TYPE_FLAG (derefByte bus sig 0) &&& (AJ_STRING ||| AJ_VARIANT) ≠ 0
    · simp only [Marshal, InitArg, hs, hstr, hc, ne_eq, not_true_eq_false, if_false,
        not_false_eq_true, if_true] at hok
      exact absurd hok (by decide)
    · by_cases hcont : TYPE_FLAG (derefByte bus sig 0) &&& AJ_CONTAINER ≠ 0
      · simp only [Marshal, InitArg, hs, hstr, hcont, hc, ne_eq, not_true_eq_false, if_false,
          not_false_eq_true, if_true] at hok
        exact absurd hok (by decide)
      · simp only [Marshal, InitArg, hs, hstr, hcont, ne_eq, not_true_eq_false, if_false,
          not_false_eq_true, if_true] at hok
        exact absurd hok (by decide)

theorem and_four_eq_zero (x : Nat) : x &&& 4 = 0 ↔ x / 4 % 2 = 0 := by
  have h := Nat.and_two_pow x 2
  have ht : x.testBit 2 = decide (x / 2 ^ 2 % 2 = 1) := Nat.testBit_to_div_mod
  simp only [show (2 : Nat) ^ 2 = 4 by norm_num] at h ht
  rw [h, ht]
  by_cases hb : x / 4 % 2 = 1
  · simp [hb]
  · have : x / 4 % 2 = 0 := by omega
    simp [this]

theorem PadForType_elem (elem L : Nat) (tx : AJ_IOBuffer) (ha : IsAlign (ALIGNMENT elem))
    (hdir : tx.direction = AJ_IO_BUF_TX) (hw : tx.writePtr = L + 4) (hL : L % 4 = 0) :
    PadForType elem tx = if ALIGNMENT elem = 8 ∧ L &&& 4 = 0 then 4 else 0 := by
  rw [PadForType_eq elem tx ha, hdir, hw]
  simp only [show (AJ_IO_BUF_TX = AJ_IO_BUF_RX) = False by decide, if_false, and_four_eq_zero]
  rcases ha with h | h | h | h <;> rw [h]
  · rw [if_neg (by omega)]; omega
  · rw [if_neg (by omega)]; omega
  · rw [if_neg (by omega)]; omega
  · by_cases hb : L / 4 % 2 = 0
    · rw [if_pos ⟨rfl, hb⟩]; omega
    · rw [if_neg (by intro ⟨_, h2⟩; exact hb h2)]; omega

theorem readU32_u32Bytes (hostLE : Bool) (data : List Nat) (off v : Nat)
    (h : off + 4 ≤ data.length) (hv : v < 4294967296) :
    readU32 hostLE (writeBytesAt data off (u32Bytes hostLE v)) off = v := by
  apply readU32_of_readBytes _ _ _ _ _ hv
  have := readBytes_writeBytesAt data off (u32Bytes hostLE v) (by omega)
  rwa [length_u32Bytes] at this

/-- `AJ_MarshalCloseContainer` on an open array whose length field is at offset `L`
and whose first element is at `L + 4` plus the padding of the element type. -/
theorem AJ_MarshalCloseContainer_array (hostLE : Bool) (bus : AJ_BusAttachment)
    (msg : AJ_Message) (arg : AJ_Arg) (rest : List AJ_Arg) (L : Nat)
    (houter : msg.outer = arg :: rest) (ht : arg.typeId = AJ_ARG_ARRAY)
    (hval : arg.val = AJ_Ptr.tx L) (hL : L % 4 = 0) (hwf : TxWF bus)
    (hW : L + 4 + (if ALIGNMENT (derefByte bus arg.sigPtr 0) = 8 ∧ L &&& 4 = 0 then 4 else 0)
      ≤ bus.tx.writePtr) :
    AJ_MarshalCloseContainer hostLE bus msg =
      some (AJ_OK,
        storeU32 hostLE bus (AJ_Ptr.tx L)
          (bus.tx.writePtr - (L + 4
            + (if ALIGNMENT (derefByte bus arg.sigPtr 0) = 8 ∧ L &&& 4 = 0 then 4 else 0))),
        { msg with outer := rest },
        { arg with len := bus.tx.writePtr - (L + 4
            + (if ALIGNMENT (derefByte bus arg.sigPtr 0) = 8 ∧ L &&& 4 = 0 then 4 else 0)) }) := by
  obtain ⟨h1, h2, h3⟩ := hwf
  have hcont : TYPE_FLAG AJ_ARG_ARRAY &&& AJ_CONTAINER ≠ 0 := by decide
  simp only [AJ_MarshalCloseContainer, houter, ht, hcont, ne_eq, not_true_eq_false, if_false,
    if_true, hval, AJ_Ptr.offset]
  have hl0 : (diff16 bus.tx.writePtr L + 65536 - 4) % 65536 = bus.tx.writePtr - L - 4 := by
    unfold diff16
    split at hW <;> omega
  have hLm : L % 4294967296 = L := by
    split at hW <;> omega
  rw [hl0, hLm]
  by_cases hc : ALIGNMENT (derefByte bus arg.sigPtr 0) = 8 ∧ L &&& 4 = 0
  · simp only [hc, and_self, if_true, true_and] at hW ⊢
    have hne : bus.tx.writePtr - L - 4 ≠ 0 := by omega
    simp only [hne, not_false_eq_true, if_true]
    have : (bus.tx.writePtr - L - 4 + 65536 - 4) % 65536 = bus.tx.writePtr - (L + 4 + 4) := by
      omega
    rw [this]
  · simp only [hc, if_false] at hW ⊢
    have hc' : ¬ (ALIGNMENT (derefByte bus arg.sigPtr 0) = 8 ∧ L &&& 4 = 0
        ∧ ¬ bus.tx.writePtr - L - 4 = 0) := by
      intro ⟨a, b, _⟩; exact hc ⟨a, b⟩
    simp only [hc', if_false]
    have : bus.tx.writePtr - L - 4 = bus.tx.writePtr - (L + 4 + 0) := by omega
    rw [this]

theorem align_of_pad_small (t : Nat) (tx : AJ_IOBuffer) (hdir : tx.direction = AJ_IO_BUF_TX)
    (hw0 : 0 < tx.writePtr) (hw : tx.writePtr < 65536) (h : PadForType t tx < 65536) :
    IsAlign (ALIGNMENT t) := by
  by_cases h0 : TYPE_FLAG t = 0
  · exfalso
    have ha : ALIGNMENT t = 0 := by simp [ALIGNMENT, h0]
    have hm : ∀ x : Nat, x &&& 4294967295 = x % 4294967296 := by
      intro x
      have := Nat.and_pow_two_sub_one_eq_mod x 32
      simpa using this
    simp only [PadForType, ha, hdir, show (AJ_IO_BUF_TX = AJ_IO_BUF_RX) = False by decide,
      if_false, Nat.zero_add] at h
    rw [hm, Nat.mod_mod] at h
    omega
  · exact align_of_flag t h0

/-- C5: the length field of an array. When `AJ_MarshalContainer(msg, arg, ARRAY)`
returns OK (header pointer valid), the length field is at the offset `L`, the
write cursor rounded up to a multiple of 4, and the first element position is
`L + 4` plus the padding of the element type. `AJ_MarshalCloseContainer` on that
array, at whatever write cursor the elements have left, returns OK and stores in
the four bytes at `L` the number of bytes between the first element position and
the write cursor: the padding behind the length field is not counted, whatever
the alignment of the element type, and the field of an empty array is 0. -/
theorem C5_array_length_field (hostLE : Bool) (bus : AJ_BusAttachment) (msg : AJ_Message)
    (hhdr : msg.hdr ≠ AJ_HdrPtr.null) (hwf : TxWF bus) (hdir : bus.tx.direction = AJ_IO_BUF_TX)
    (hopen : (AJ_MarshalContainer hostLE bus msg AJ_ARG_ARRAY).1 = AJ_OK) :
    ∃ (L : Nat) (sigE : AJ_Ptr) (elem : Nat),
      (AJ_MarshalContainer hostLE bus msg AJ_ARG_ARRAY).2.2.2
        = { typeId := AJ_ARG_ARRAY, flags := 0, len := 0, val := AJ_Ptr.tx L, sigPtr := sigE }
      ∧ (AJ_MarshalContainer hostLE bus msg AJ_ARG_ARRAY).2.2.1.outer.head?
        = some (AJ_MarshalContainer hostLE bus msg AJ_ARG_ARRAY).2.2.2
      ∧ L = bus.tx.writePtr + PadForType AJ_ARG_ARRAY bus.tx
      ∧ L % 4 = 0
      ∧ elem = derefByte (txAppend bus (List.replicate (PadForType AJ_ARG_ARRAY bus.tx + 4) 0))
          sigE 0
      ∧ (AJ_MarshalContainer hostLE bus msg AJ_ARG_ARRAY).2.1.tx.writePtr
        = L + 4 + PadForType elem { bus.tx with writePtr := L + 4 }
      ∧ ∀ (bus2 : AJ_BusAttachment) (msg2 : AJ_Message) (rest : List AJ_Arg),
        TxWF bus2 →
        msg2.outer = (AJ_MarshalContainer hostLE bus msg AJ_ARG_ARRAY).2.2.2 :: rest →
        derefByte bus2 sigE 0 = elem →
        (AJ_MarshalContainer hostLE bus msg AJ_ARG_ARRAY).2.1.tx.writePtr ≤ bus2.tx.writePtr →
        AJ_MarshalCloseContainer hostLE bus2 msg2
          = some (AJ_OK,
              storeU32 hostLE bus2 (AJ_Ptr.tx L)
                (bus2.tx.writePtr
                  - (AJ_MarshalContainer hostLE bus msg AJ_ARG_ARRAY).2.1.tx.writePtr),
              { msg2 with outer := rest },
              { (AJ_MarshalContainer hostLE bus msg AJ_ARG_ARRAY).2.2.2 with
                len := bus2.tx.writePtr
                  - (AJ_MarshalContainer hostLE bus msg AJ_ARG_ARRAY).2.1.tx.writePtr })
        ∧ readU32 hostLE
            (storeU32 hostLE bus2 (AJ_Ptr.tx L)
              (bus2.tx.writePtr
                - (AJ_MarshalContainer hostLE bus msg AJ_ARG_ARRAY).2.1.tx.writePtr)).tx.data L
          = bus2.tx.writePtr
            - (AJ_MarshalContainer hostLE bus msg AJ_ARG_ARRAY).2.1.tx.writePtr := by
  have hcall : (AJ_MarshalArg hostLE bus msg (InitArg AJ_ARG_ARRAY AJ_Ptr.null)).1 = AJ_OK := by
    by_cases h : (AJ_MarshalArg hostLE bus msg (InitArg AJ_ARG_ARRAY AJ_Ptr.null)).1 = AJ_OK
    · exact h
    · simp only [AJ_MarshalContainer, h, if_false] at hopen
  obtain ⟨m, sig, hm, hmh, hmb, hma⟩ := AJ_MarshalArg_bus hostLE bus msg _ hcall
  obtain ⟨hb, ha, hroom⟩ := Marshal_array_ok hostLE bus m sig (by rw [hmh]; exact hhdr) hwf hm
  have e1 : (AJ_MarshalContainer hostLE bus msg AJ_ARG_ARRAY).2.2.2
      = { typeId := AJ_ARG_ARRAY, flags := 0, len := 0,
          val := AJ_Ptr.tx (bus.tx.writePtr + PadForType AJ_ARG_ARRAY bus.tx),
          sigPtr := ((sig.add 1).sub 1).add 1 } := by
    simp only [AJ_MarshalContainer, hcall, if_true, hma, ha]
  have e2 : (AJ_MarshalContainer hostLE bus msg AJ_ARG_ARRAY).2.1
      = (Marshal hostLE bus m sig (InitArg AJ_ARG_ARRAY AJ_Ptr.null)).2.1 := by
    simp only [AJ_MarshalContainer, hcall, if_true, hmb]
  have e3 : (AJ_MarshalContainer hostLE bus msg AJ_ARG_ARRAY).2.2.1.outer.head?
      = some (AJ_MarshalContainer hostLE bus msg AJ_ARG_ARRAY).2.2.2 := by
    simp only [AJ_MarshalContainer, hcall, if_true, List.head?_cons]
  have hA4 : ALIGNMENT AJ_ARG_ARRAY = 4 := by decide
  have hp4 := PadForType_tx_four AJ_ARG_ARRAY bus.tx hA4 hdir
  have hL4 : (bus.tx.writePtr + PadForType AJ_ARG_ARRAY bus.tx) % 4 = 0 := by
    rw [hp4]; omega
  obtain ⟨r1, r2, r3⟩ := hroom
  have hdirL : (txAppend bus (List.replicate (PadForType AJ_ARG_ARRAY bus.tx + 4) 0)).tx.direction
      = AJ_IO_BUF_TX := by simpa using hdir
  have hal := align_of_pad_small
    (derefByte (txAppend bus (List.replicate (PadForType AJ_ARG_ARRAY bus.tx + 4) 0))
      (((sig.add 1).sub 1).add 1) 0) _ hdirL (by simp) (by simp; omega)
    (by
      have : PadForType
        (derefByte (txAppend bus (List.replicate (PadForType AJ_ARG_ARRAY bus.tx + 4) 0))
          (((sig.add 1).sub 1).add 1) 0)
        (txAppend bus (List.replicate (PadForType AJ_ARG_ARRAY bus.tx + 4) 0)).tx
        ≤ bus.tx.bufSize := by omega
      omega)
  have hpe1 := PadForType_elem _ (bus.tx.writePtr + PadForType AJ_ARG_ARRAY bus.tx) _ hal hdirL
    (by simp; omega) hL4
  have hpe2 := PadForType_elem
    (derefByte (txAppend bus (List.replicate (PadForType AJ_ARG_ARRAY bus.tx + 4) 0))
      (((sig.add 1).sub 1).add 1) 0)
    (bus.tx.writePtr + PadForType AJ_ARG_ARRAY bus.tx)
    { bus.tx with writePtr := bus.tx.writePtr + PadForType AJ_ARG_ARRAY bus.tx + 4 } hal hdir
    rfl hL4
  have hF : (AJ_MarshalContainer hostLE bus msg AJ_ARG_ARRAY).2.1.tx.writePtr
      = bus.tx.writePtr + PadForType AJ_ARG_ARRAY bus.tx + 4
        + PadForType
          (derefByte (txAppend bus (List.replicate (PadForType AJ_ARG_ARRAY bus.tx + 4) 0))
            (((sig.add 1).sub 1).add 1) 0)
          { bus.tx with writePtr := bus.tx.writePtr + PadForType AJ_ARG_ARRAY bus.tx + 4 } := by
    rw [e2, hb, hpe2, ← hpe1]
    simp [Nat.add_assoc]
  refine ⟨_, _, _, e1, e3, rfl, hL4, rfl, hF, ?_⟩
  intro bus2 msg2 rest hwf2 houter2 helem hW
  rw [e1] at houter2
  have hFe : (AJ_MarshalContainer hostLE bus msg AJ_ARG_ARRAY).2.1.tx.writePtr
      = bus.tx.writePtr + PadForType AJ_ARG_ARRAY bus.tx + 4
        + (if ALIGNMENT (derefByte bus2 (((sig.add 1).sub 1).add 1) 0) = 8
            ∧ (bus.tx.writePtr + PadForType AJ_ARG_ARRAY bus.tx) &&& 4 = 0 then 4 else 0) := by
    rw [hF, hpe2, helem]
  have hcl := AJ_MarshalCloseContainer_array hostLE bus2 msg2 _ rest
    (bus.tx.writePtr + PadForType AJ_ARG_ARRAY bus.tx) houter2 rfl rfl hL4 hwf2
    (by rw [← hFe]; exact hW)
  rw [← hFe] at hcl
  rw [e1]
  refine ⟨hcl, ?_⟩
  simp only [storeU32]
  exact readU32_u32Bytes hostLE _ _ _
    (by have := hwf2.1; have := hwf2.2.1; rw [hFe] at hW; omega)
    (by have := hwf2.1; have := hwf2.2.2; omega)

/-- C5, witness: an array of two 64-bit integers opened at offset 24: the length
field is at 24, four pad bytes follow it, and closing the array at offset 48
stores the length 16. -/
theorem C5_array_length_field_witness :
    (AJ_MarshalContainer true c5Bus c5Msg AJ_ARG_ARRAY).2.1.tx.writePtr = 32
    ∧ c5Bus2.tx.writePtr = 48
    ∧ (AJ_MarshalCloseContainer true c5Bus2 c5Msg2).map
        (fun r => (r.1, readU32 true r.2.1.tx.data 24)) = some (AJ_OK, 16) := by
  obtain ⟨L, sigE, elem, hA, _, hL, _, helem, _, hclose⟩ :=
    C5_array_length_field true c5Bus c5Msg (by decide) (by unfold TxWF TxRoom; decide)
      (by decide) (by decide)
  have hA' : (AJ_MarshalContainer true c5Bus c5Msg AJ_ARG_ARRAY).2.2.2
      = { typeId := AJ_ARG_ARRAY, flags := 0, len := 0, val := AJ_Ptr.tx 24,
          sigPtr := AJ_Ptr.mem [AJ_ARG_ARRAY, AJ_ARG_UINT64] 1 } := by decide
  have hLv : L = 24 := by rw [hL]; decide
  have hsigE : sigE = AJ_Ptr.mem [AJ_ARG_ARRAY, AJ_ARG_UINT64] 1 := by
    rw [hA'] at hA
    injection hA with _ _ _ _ h5
    exact h5.symm
  subst hLv; subst hsigE
  have hel : elem = AJ_ARG_UINT64 := by rw [helem]; rfl
  obtain ⟨hc1, hc2⟩ := hclose c5Bus2 c5Msg2 [] (by unfold TxWF TxRoom; decide) (by decide)
    (by rw [hel]; rfl) (by decide)
  refine ⟨by decide, by decide, ?_⟩
  rw [hc1]
  simp only [Option.map_some']
  rw [hc2]
  decide

/-! ## C6: empty arrays -/
theorem msg_varOffset_eta (msg : AJ_Message) (h : msg.varOffset = 0) :
    { msg with varOffset := 0 } = msg := by
  cases msg; simp_all

/-- What `AJ_UnmarshalArg` returns, in terms of the call of `Unmarshal` it makes. -/
theorem AJ_UnmarshalArg_via (hostLE : Bool) (bus : AJ_BusAttachment) (msg : AJ_Message)
    (hne : NotExhausted bus msg) :
    (AJ_UnmarshalArg hostLE bus msg).1
      = (if (Unmarshal hostLE bus { msg with varOffset := 0 } (nextArgSig bus msg)).2.1.rx.readPtr
            - bus.rx.readPtr
          > (Unmarshal hostLE bus { msg with varOffset := 0 } (nextArgSig bus msg)).2.2.1.bodyBytes
        then AJ_ERR_READ
        else (Unmarshal hostLE bus { msg with varOffset := 0 } (nextArgSig bus msg)).1)
    ∧ (AJ_UnmarshalArg hostLE bus msg).2.1
      = (Unmarshal hostLE bus { msg with varOffset := 0 } (nextArgSig bus msg)).2.1
    ∧ (AJ_UnmarshalArg hostLE bus msg).2.2.2
      = (Unmarshal hostLE bus { msg with varOffset := 0 } (nextArgSig bus msg)).2.2.2.2
    ∧ (AJ_UnmarshalArg hostLE bus msg).2.2.1.varOffset
      = (Unmarshal hostLE bus { msg with varOffset := 0 } (nextArgSig bus msg)).2.2.1.varOffset
    ∧ (AJ_UnmarshalArg hostLE bus msg).2.2.1.hdr
      = (Unmarshal hostLE bus { msg with varOffset := 0 } (nextArgSig bus msg)).2.2.1.hdr := by
  by_cases hvar : msg.varOffset ≠ 0
  · simp only [AJ_UnmarshalArg, nextArgSig, hvar, ne_eq, not_false_eq_true, if_true]
    split_ifs <;> exact ⟨rfl, rfl, rfl, rfl, rfl⟩
  · have hv0 : msg.varOffset = 0 := by simpa using hvar
    rw [msg_varOffset_eta msg hv0]
    cases ho : msg.outer with
    | nil =>
      simp only [AJ_UnmarshalArg, nextArgSig, hvar, ho, if_false]
      split_ifs <;> exact ⟨rfl, rfl, rfl, rfl, rfl⟩
    | cons c rest =>
      by_cases hc : c.typeId = AJ_ARG_ARRAY
      · have := hne hv0 c rest ho hc
        simp only [AJ_UnmarshalArg, nextArgSig, hvar, ho, if_false, hc, if_true, this]
        split_ifs <;> exact ⟨rfl, rfl, rfl, rfl, rfl⟩
      · simp only [AJ_UnmarshalArg, nextArgSig, hvar, ho, if_false, hc]
        split_ifs <;> exact ⟨rfl, rfl, rfl, rfl, rfl⟩

theorem writeBytesAt_readBytes (data : List Nat) (off n : Nat) (h : off + n ≤ data.length) :
    writeBytesAt data off (readBytes data off n) = data := by
  rw [writeBytesAt_eq _ _ _ (by omega), length_readBytes _ _ _ h]
  simp only [readBytes]
  rw [List.append_assoc, ← List.drop_drop, List.take_append_drop, List.take_append_drop]

theorem readU32_zero (hostLE : Bool) (data : List Nat) (off : Nat)
    (h : readBytes data off 4 = [0, 0, 0, 0]) : readU32 hostLE data off = 0 :=
  readU32_of_readBytes hostLE data off 0 (by cases hostLE <;> simpa [u32Bytes] using h)
    (by omega)

/-- Swapping the bytes of a 32-bit zero leaves the buffer as it is. -/
theorem EndianSwap_zero32 (hostLE : Bool) (bus : AJ_BusAttachment) (msg : AJ_Message)
    (off : Nat) (h : readBytes bus.rx.data off 4 = [0, 0, 0, 0])
    (hlen : off + 4 ≤ bus.rx.data.length) :
    EndianSwap hostLE bus msg AJ_ARG_UINT32 off 1 = bus := by
  have h4 : SizeOfType AJ_ARG_UINT32 = 4 := by decide
  have hw : swapLoop32 hostLE 1 bus.rx.data off = bus.rx.data := by
    simp only [swapLoop32, readU32_zero hostLE _ _ h]
    have : u32Bytes hostLE (ENDSWAP32 0) = [0, 0, 0, 0] := by cases hostLE <;> decide
    rw [this, ← h]
    exact writeBytesAt_readBytes _ _ _ hlen
  simp only [EndianSwap, h4, hw, show (4 : Nat) ≠ 2 by decide, if_false, if_true]
  split_ifs <;> rfl

/-- `Unmarshal` on an array of a non-scalar element type whose length field is 0. -/
theorem Unmarshal_array_empty (hostLE : Bool) (bus : AJ_BusAttachment) (msg : AJ_Message)
    (sig : AJ_Ptr) (elem : Nat)
    (hsig : derefByte bus sig 0 = AJ_ARG_ARRAY) (helem : derefByte bus (sig.add 1) 0 = elem)
    (hns : IsScalarType elem = 0) (hal : IsAlign (ALIGNMENT elem))
    (havail : RxAvail bus (PadForType AJ_ARG_ARRAY bus.rx + 4
      + PadForType elem (rxAt bus (bus.rx.readPtr + PadForType AJ_ARG_ARRAY bus.rx + 4)).rx))
    (hzero : readBytes bus.rx.data (bus.rx.readPtr + PadForType AJ_ARG_ARRAY bus.rx) 4
      = [0, 0, 0, 0]) :
    ∃ sig1,
    Unmarshal hostLE bus msg sig =
      (AJ_OK,
        rxAt bus (bus.rx.readPtr + PadForType AJ_ARG_ARRAY bus.rx + 4
          + PadForType elem (rxAt bus (bus.rx.readPtr + PadForType AJ_ARG_ARRAY bus.rx + 4)).rx),
        msg, sig1,
        { typeId := AJ_ARG_ARRAY, flags := 0, len := 0,
          val := AJ_Ptr.rx (bus.rx.readPtr + PadForType AJ_ARG_ARRAY bus.rx + 4
            + PadForType elem (rxAt bus (bus.rx.readPtr + PadForType AJ_ARG_ARRAY bus.rx + 4)).rx),
          sigPtr := sig.add 1 }) := by
  have hnn : sig ≠ AJ_Ptr.null := by
    intro h; subst h; simp [derefByte] at hsig
  have hA : IsAlign (ALIGNMENT AJ_ARG_ARRAY) := by unfold IsAlign; decide
  have hp := PadForType_lt AJ_ARG_ARRAY bus.rx hA
  have hpe := PadForType_lt elem
    (rxAt bus (bus.rx.readPtr + PadForType AJ_ARG_ARRAY bus.rx + 4)).rx hal
  obtain ⟨h1, h2, h3, h4⟩ := havail
  have hs : IsScalarType AJ_ARG_ARRAY = 0 := by decide
  have hstr : TYPE_FLAG AJ_ARG_ARRAY &&& (AJ_STRING ||| AJ_VARIANT) = 0 := by decide
  simp only [Unmarshal, hsig, hnn, false_or, show AJ_ARG_ARRAY ≠ 0 by decide, if_false, hs,
    ne_eq, not_true_eq_false, hstr, if_true, UnmarshalArray, helem]
  rw [LoadBytes_rx bus 4 _ (by omega) ⟨by omega, h2, h3, h4⟩]
  simp only [not_true_eq_false, if_false, bus_rx_eta]
  rw [EndianSwap_zero32 hostLE _ msg _ (by simpa using hzero) (by simp; omega)]
  simp only [rxAt_readPtr, rxAt_data, readU32_zero hostLE _ _ hzero]
  generalize hq : PadForType elem _ = q
  have hq' : q = PadForType elem
      (rxAt bus (bus.rx.readPtr + PadForType AJ_ARG_ARRAY bus.rx + 4)).rx := hq.symm
  rw [← hq'] at h1 hpe ⊢
  have hpm : q % 256 = q := Nat.mod_eq_of_lt (by omega)
  rw [hpm, LoadBytes_avail _ 0 q (by omega) (by omega) (by simp; omega) (by simpa using h2)]
  simp only [not_true_eq_false, if_false, hns, if_true]
  exact ⟨_, rfl⟩

/-- `AJ_UnmarshalArg` in an array all of whose bytes have been read. -/
theorem AJ_UnmarshalArg_no_more (hostLE : Bool) (bus : AJ_BusAttachment) (msg : AJ_Message)
    (c : AJ_Arg) (rest : List AJ_Arg) (hvar : msg.varOffset = 0) (houter : msg.outer = c :: rest)
    (hc : c.typeId = AJ_ARG_ARRAY) (hlen : diff16 bus.rx.readPtr c.val.offset = c.len) :
    (AJ_UnmarshalArg hostLE bus msg).1 = AJ_ERR_NO_MORE
    ∧ (AJ_UnmarshalArg hostLE bus msg).2.1 = bus
    ∧ (AJ_UnmarshalArg hostLE bus msg).2.2.2 = AJ_Arg.zero := by
  simp only [AJ_UnmarshalArg, hvar, ne_eq, not_true_eq_false, if_false, houter, hc, if_true,
    hlen, Nat.sub_self, Nat.not_lt_zero, gt_iff_lt]
  exact ⟨trivial, trivial, trivial⟩

theorem diff16_self (a : Nat) : diff16 a a = 0 := by
  unfold diff16; omega

/-- C6 (amended): empty array. When the next argument on the wire is an array of
a non-scalar element type (a string type, a variant, a struct, a dictionary
entry or an array) whose 4-byte length field is 0, and the length field and the
padding in front of the first element are in the RX buffer and within the body,
`AJ_UnmarshalContainer(msg, arg, ARRAY)` returns OK and the first following
`AJ_UnmarshalArg` returns `AJ_ERR_NO_MORE` and leaves the RX buffer, read cursor
included, as it is. -/
theorem C6_empty_array (hostLE : Bool) (bus : AJ_BusAttachment) (msg : AJ_Message)
    (arg0 : AJ_Arg) (elem : Nat)
    (hsig : derefByte bus (nextArgSig bus msg) 0 = AJ_ARG_ARRAY)
    (helem : derefByte bus ((nextArgSig bus msg).add 1) 0 = elem)
    (hns : IsScalarType elem = 0) (hty : TYPE_FLAG elem ≠ 0)
    (hne : NotExhausted bus msg)
    (havail : RxAvail bus (PadForType AJ_ARG_ARRAY bus.rx + 4
      + PadForType elem (rxAt bus (bus.rx.readPtr + PadForType AJ_ARG_ARRAY bus.rx + 4)).rx))
    (hzero : readBytes bus.rx.data (bus.rx.readPtr + PadForType AJ_ARG_ARRAY bus.rx) 4
      = [0, 0, 0, 0])
    (hbody : PadForType AJ_ARG_ARRAY bus.rx + 4
      + PadForType elem (rxAt bus (bus.rx.readPtr + PadForType AJ_ARG_ARRAY bus.rx + 4)).rx
      ≤ msg.bodyBytes) :
    (AJ_UnmarshalContainer hostLE bus msg arg0 AJ_ARG_ARRAY).1 = AJ_OK
    ∧ (AJ_UnmarshalContainer hostLE bus msg arg0 AJ_ARG_ARRAY).2.1.rx.readPtr
      = bus.rx.readPtr + PadForType AJ_ARG_ARRAY bus.rx + 4
        + PadForType elem (rxAt bus (bus.rx.readPtr + PadForType AJ_ARG_ARRAY bus.rx + 4)).rx
    ∧ (AJ_UnmarshalArg hostLE (AJ_UnmarshalContainer hostLE bus msg arg0 AJ_ARG_ARRAY).2.1
        (AJ_UnmarshalContainer hostLE bus msg arg0 AJ_ARG_ARRAY).2.2.1).1 = AJ_ERR_NO_MORE
    ∧ (AJ_UnmarshalArg hostLE (AJ_UnmarshalContainer hostLE bus msg arg0 AJ_ARG_ARRAY).2.1
        (AJ_UnmarshalContainer hostLE bus msg arg0 AJ_ARG_ARRAY).2.2.1).2.1
      = (AJ_UnmarshalContainer hostLE bus msg arg0 AJ_ARG_ARRAY).2.1 := by
  obtain ⟨sig1, hu⟩ := Unmarshal_array_empty hostLE bus { msg with varOffset := 0 }
    (nextArgSig bus msg) elem hsig helem hns (align_of_flag elem hty) havail hzero
  obtain ⟨v1, v2, v3, v4, _⟩ := AJ_UnmarshalArg_via hostLE bus msg hne
  rw [hu] at v1 v2 v3 v4
  simp only [rxAt_readPtr] at v1
  rw [if_neg (by simp only [gt_iff_lt, not_lt]; omega)] at v1
  have hcont : TYPE_FLAG AJ_ARG_ARRAY &&& AJ_CONTAINER ≠ 0 := by decide
  have e : AJ_UnmarshalContainer hostLE bus msg arg0 AJ_ARG_ARRAY
      = (AJ_OK, (AJ_UnmarshalArg hostLE bus msg).2.1,
          { (AJ_UnmarshalArg hostLE bus msg).2.2.1 with
            outer := (AJ_UnmarshalArg hostLE bus msg).2.2.2
              :: (AJ_UnmarshalArg hostLE bus msg).2.2.1.outer },
          (AJ_UnmarshalArg hostLE bus msg).2.2.2) := by
    simp only [AJ_UnmarshalContainer, hcont, ne_eq, not_false_eq_true, if_true, v1, v3]
  rw [e]
  simp only [v2, v3, rxAt_readPtr]
  refine ⟨trivial, trivial, ?_⟩
  have := AJ_UnmarshalArg_no_more hostLE
    (rxAt bus (bus.rx.readPtr + PadForType AJ_ARG_ARRAY bus.rx + 4
      + PadForType elem (rxAt bus (bus.rx.readPtr + PadForType AJ_ARG_ARRAY bus.rx + 4)).rx))
    { (AJ_UnmarshalArg hostLE bus msg).2.2.1 with
      outer := { typeId := AJ_ARG_ARRAY, flags := 0, len := 0,
                 val := AJ_Ptr.rx (bus.rx.readPtr + PadForType AJ_ARG_ARRAY bus.rx + 4
                  + PadForType elem
                    (rxAt bus (bus.rx.readPtr + PadForType AJ_ARG_ARRAY bus.rx + 4)).rx),
                 sigPtr := (nextArgSig bus msg).add 1 }
        :: (AJ_UnmarshalArg hostLE bus msg).2.2.1.outer }
    _ _ v4 rfl rfl (by simp [AJ_Ptr.offset, diff16_self])
  exact ⟨this.1, this.2.1⟩

/-- C6, counterexample: for the element type BYTE, a scalar type, the empty array
is unmarshalled as one argument of type BYTE with the array flag, and
`AJ_UnmarshalContainer(msg, arg, ARRAY)` returns `AJ_ERR_UNMARSHAL`. -/
theorem C6_counterexample_scalar_element :
    (AJ_UnmarshalContainer true c6Bus c6Msg AJ_Arg.zero AJ_ARG_ARRAY).1 = AJ_ERR_UNMARSHAL
    ∧ (AJ_UnmarshalContainer true c6Bus c6Msg AJ_Arg.zero AJ_ARG_ARRAY).2.2.2.typeId
      = AJ_ARG_BYTE
    ∧ (AJ_UnmarshalContainer true c6Bus c6Msg AJ_Arg.zero AJ_ARG_ARRAY).2.2.2.flags
      = AJ_ARRAY_FLAG := by
  decide

/-- C6, witness: an empty array of strings behind a 16-byte header. -/
theorem C6_empty_array_witness :
    (AJ_UnmarshalContainer true c6Bus c6wMsg AJ_Arg.zero AJ_ARG_ARRAY).1 = AJ_OK
    ∧ (AJ_UnmarshalContainer true c6Bus c6wMsg AJ_Arg.zero AJ_ARG_ARRAY).2.1.rx.readPtr
      = c6Bus.rx.readPtr + PadForType AJ_ARG_ARRAY c6Bus.rx + 4
        + PadForType AJ_ARG_STRING
            (rxAt c6Bus (c6Bus.rx.readPtr + PadForType AJ_ARG_ARRAY c6Bus.rx + 4)).rx
    ∧ (AJ_UnmarshalArg true (AJ_UnmarshalContainer true c6Bus c6wMsg AJ_Arg.zero AJ_ARG_ARRAY).2.1
        (AJ_UnmarshalContainer true c6Bus c6wMsg AJ_Arg.zero AJ_ARG_ARRAY).2.2.1).1
      = AJ_ERR_NO_MORE
    ∧ (AJ_UnmarshalArg true (AJ_UnmarshalContainer true c6Bus c6wMsg AJ_Arg.zero AJ_ARG_ARRAY).2.1
        (AJ_UnmarshalContainer true c6Bus c6wMsg AJ_Arg.zero AJ_ARG_ARRAY).2.2.1).2.1
      = (AJ_UnmarshalContainer true c6Bus c6wMsg AJ_Arg.zero AJ_ARG_ARRAY).2.1 :=
  C6_empty_array true c6Bus c6wMsg AJ_Arg.zero AJ_ARG_STRING (by decide) (by decide) (by decide)
    (by decide) (by intro _ c rest h; simp [c6wMsg] at h) (by unfold RxAvail; decide)
    (by decide) (by decide)

/-! ## C7: scalar arrays of the other byte order -/
/-- C7: on a little-endian host the array `au` with the 4-byte payload
`01 02 03 04` of a big-endian message is returned as one UINT32 argument with the
array flag and `len = 4`, and its payload is byte-reversed; but `EndianSwap` is
given the byte count 4 as its element count, so it reverses four 32-bit words: the
12 bytes behind the payload are modified too. The UINT32 `0A 0B 0C 0D` that follows
the array is then reversed a second time when it is unmarshalled, and the host
reads 0x0D0C0B0A for the value 0x0A0B0C0D that was sent. -/
theorem C7_array_swap_overrun :
    (AJ_UnmarshalArg true c7Bus c7Msg).1 = AJ_OK
    ∧ (AJ_UnmarshalArg true c7Bus c7Msg).2.2.2.typeId = AJ_ARG_UINT32
    ∧ (AJ_UnmarshalArg true c7Bus c7Msg).2.2.2.flags = AJ_ARRAY_FLAG
    ∧ (AJ_UnmarshalArg true c7Bus c7Msg).2.2.2.len = 4
    ∧ (AJ_UnmarshalArg true c7Bus c7Msg).2.2.2.val = AJ_Ptr.rx 20
    ∧ readBytes (AJ_UnmarshalArg true c7Bus c7Msg).2.1.rx.data 20 4 = [4, 3, 2, 1]
    ∧ readBytes c7Bus.rx.data 24 12 = [10, 11, 12, 13, 17, 18, 19, 20, 33, 34, 35, 36]
    ∧ readBytes (AJ_UnmarshalArg true c7Bus c7Msg).2.1.rx.data 24 12
        = [13, 12, 11, 10, 20, 19, 18, 17, 36, 35, 34, 33]
    ∧ (AJ_UnmarshalArg true (AJ_UnmarshalArg true c7Bus c7Msg).2.1
        (AJ_UnmarshalArg true c7Bus c7Msg).2.2.1).1 = AJ_OK
    ∧ (AJ_UnmarshalArg true (AJ_UnmarshalArg true c7Bus c7Msg).2.1
        (AJ_UnmarshalArg true c7Bus c7Msg).2.2.1).2.2.2.val = AJ_Ptr.rx 24
    ∧ readU32 true (AJ_UnmarshalArg true (AJ_UnmarshalArg true c7Bus c7Msg).2.1
        (AJ_UnmarshalArg true c7Bus c7Msg).2.2.1).2.1.rx.data 24 = 0x0D0C0B0A
    ∧ readU32 false c7Bus.rx.data 24 = 0x0A0B0C0D := by
  decide

/-! ## C8: signature discipline, the status -/
/-- A basic type is a scalar type or a string type. -/
theorem basic_kind (a : Nat) (ha : IsBasicType a ≠ 0) :
    a ≠ 0 ∧ a < 124 ∧ (IsScalarType a ≠ 0 ∨
      (IsScalarType a = 0 ∧ TYPE_FLAG a &&& (AJ_STRING ||| AJ_VARIANT) ≠ 0)) := by
  have hf : TYPE_FLAG a ≠ 0 := by
    intro h; apply ha; simp [IsBasicType, h]
  rcases TYPE_FLAG_cases a with h | h | h
  · exact absurd h hf
  · subst h; exact absurd ha (by decide)
  · simp only [wireTypes, List.mem_cons, List.mem_singleton, List.not_mem_nil, or_false] at h
    rcases h with rfl | rfl | rfl | rfl | rfl | rfl | rfl | rfl | rfl | rfl | rfl | rfl | rfl
      | rfl | rfl | rfl | rfl <;> first | exact absurd ha (by decide) | decide

/-- When `Unmarshal` returns OK for an argument of a basic type, the argument has
the type identifier of the signature. -/
theorem Unmarshal_basic_typeId (hostLE : Bool) (bus : AJ_BusAttachment) (msg : AJ_Message)
    (sig : AJ_Ptr) (a : Nat) (hsig : derefByte bus sig 0 = a) (ha : IsBasicType a ≠ 0)
    (hok : (Unmarshal hostLE bus msg sig).1 = AJ_OK) :
    (Unmarshal hostLE bus msg sig).2.2.2.2.typeId = a := by
  obtain ⟨ha0, _, hk⟩ := basic_kind a ha
  have hnn : sig ≠ AJ_Ptr.null := by
    intro h; subst h; simp [derefByte] at hsig; exact ha0 hsig.symm
  rcases hk with hs | ⟨hs, hstr⟩
  · simp only [Unmarshal, hsig, hnn, ha0, false_or, if_false, hs, ne_eq, not_false_eq_true,
      if_true] at hok ⊢
    by_cases h1 : (LoadBytes bus.rx (SizeOfType a) (PadForType a bus.rx)).1 = AJ_OK
    · simp only [h1, not_true_eq_false, if_false]
    · simp only [h1, not_false_eq_true, if_true] at hok
  · simp only [Unmarshal, hsig, hnn, ha0, false_or, if_false, hs, ne_eq, not_true_eq_false,
      hstr, not_false_eq_true, if_true] at hok ⊢
    by_cases h1 : (LoadBytes bus.rx (ALIGNMENT a) (PadForType a bus.rx)).1 = AJ_OK
    · simp only [h1, not_true_eq_false, if_false] at hok ⊢
      split_ifs at hok ⊢
      all_goals first | rfl | exact absurd hok (by assumption)
    · simp only [h1, not_false_eq_true, if_true] at hok

/-- When `AJ_UnmarshalArg` returns OK and the next argument of the signature is of
a basic type, the argument has that type identifier. -/
theorem AJ_UnmarshalArg_basic_typeId (hostLE : Bool) (bus : AJ_BusAttachment)
    (msg : AJ_Message) (a : Nat) (hne : NotExhausted bus msg)
    (hsig : derefByte bus (nextArgSig bus msg) 0 = a) (ha : IsBasicType a ≠ 0)
    (hok : (AJ_UnmarshalArg hostLE bus msg).1 = AJ_OK) :
    (AJ_UnmarshalArg hostLE bus msg).2.2.2.typeId = a := by
  obtain ⟨v1, _, v3, _, _⟩ := AJ_UnmarshalArg_via hostLE bus msg hne
  rw [v3]
  apply Unmarshal_basic_typeId hostLE bus _ _ a hsig ha
  rw [v1] at hok
  split_ifs at hok
  exact hok

/-- The requested types that match are passed over: `AJ_UnmarshalArgs` on a
signature goes on from the state it reaches behind a part that returned OK. -/
theorem AJ_UnmarshalArgs_append (hostLE : Bool) (pre rest : List Nat)
    (hpre0 : ∀ x ∈ pre, x ≠ 0) :
    ∀ (bus : AJ_BusAttachment) (msg : AJ_Message),
      (AJ_UnmarshalArgs hostLE pre bus msg).1 = AJ_OK →
      (AJ_UnmarshalArgs hostLE (pre ++ rest) bus msg).1
        = (AJ_UnmarshalArgs hostLE rest (AJ_UnmarshalArgs hostLE pre bus msg).2.1
            (AJ_UnmarshalArgs hostLE pre bus msg).2.2.1).1 := by
  induction pre with
  | nil => intro bus msg _; rfl
  | cons c pre ih =>
    intro bus msg hok
    have hc0 : c ≠ 0 := hpre0 c (List.mem_cons_self _ _)
    have ih1 := ih (fun x hx => hpre0 x (List.mem_cons_of_mem _ hx))
    simp only [List.cons_append, AJ_UnmarshalArgs, hc0, if_false] at hok ⊢
    by_cases h1 : IsBasicType (c % 256) = 0
    · simp only [h1, if_true] at hok
      exact absurd hok (by decide)
    · simp only [h1, if_false] at hok ⊢
      by_cases h2 : (AJ_UnmarshalArg hostLE bus msg).1 = AJ_OK
      · simp only [h2, ne_eq, not_true_eq_false, if_false] at hok ⊢
        by_cases h3 : (AJ_UnmarshalArg hostLE bus msg).2.2.2.typeId = c % 256
        · simp only [h3, not_true_eq_false, if_false] at hok ⊢
          exact ih1 _ _ hok
        · simp only [h3, not_false_eq_true, if_true] at hok
          exact absurd hok (by decide)
      · simp only [h2, ne_eq, not_false_eq_true, if_true] at hok

/-- A requested type that differs from the type identifier of an argument that was
unmarshalled with status OK ends `AJ_UnmarshalArgs` with `AJ_ERR_UNMARSHAL`. -/
theorem AJ_UnmarshalArgs_mismatch (hostLE : Bool) (c : Nat) (post : List Nat)
    (bus : AJ_BusAttachment) (msg : AJ_Message) (hcb : IsBasicType c ≠ 0)
    (hok : (AJ_UnmarshalArg hostLE bus msg).1 = AJ_OK)
    (hdiff : (AJ_UnmarshalArg hostLE bus msg).2.2.2.typeId ≠ c) :
    AJ_UnmarshalArgs hostLE (c :: post) bus msg
      = (AJ_ERR_UNMARSHAL, (AJ_UnmarshalArg hostLE bus msg).2.1,
          (AJ_UnmarshalArg hostLE bus msg).2.2.1, []) := by
  obtain ⟨hc0, hc124, _⟩ := basic_kind c hcb
  have hm : c % 256 = c := Nat.mod_eq_of_lt (by omega)
  simp only [AJ_UnmarshalArgs, hc0, if_false, hm, hcb, hok, ne_eq, not_true_eq_false, hdiff,
    not_false_eq_true, if_true]

theorem EndianSwap_readPtr (hostLE : Bool) (bus : AJ_BusAttachment) (msg : AJ_Message)
    (typeId off num : Nat) :
    (EndianSwap hostLE bus msg typeId off num).rx.readPtr = bus.rx.readPtr := by
  unfold EndianSwap; split_ifs <;> rfl

/-- `Unmarshal` of a scalar whose bytes are in the RX buffer, for either byte order
of the message. -/
theorem Unmarshal_scalar_swap (hostLE : Bool) (bus : AJ_BusAttachment) (msg : AJ_Message)
    (sig : AJ_Ptr) (t : Nat)
    (hsig : derefByte bus sig 0 = t) (hs : IsScalarType t ≠ 0) (hal : IsAlign (ALIGNMENT t))
    (havail : RxAvail bus (PadForType t bus.rx + SizeOfType t)) :
    Unmarshal hostLE bus msg sig =
      (AJ_OK,
        EndianSwap hostLE (rxAt bus (bus.rx.readPtr + PadForType t bus.rx + SizeOfType t)) msg t
          (bus.rx.readPtr + PadForType t bus.rx) 1,
        msg, sig.add 1,
        { typeId := t, flags := 0, len := 0,
          val := AJ_Ptr.rx (bus.rx.readPtr + PadForType t bus.rx), sigPtr := AJ_Ptr.null }) := by
  have ht0 : t ≠ 0 := by
    intro h0; subst h0; exact hs (by decide)
  have hnn : sig ≠ AJ_Ptr.null := by
    intro h; subst h; simp [derefByte] at hsig; exact ht0 hsig.symm
  simp only [Unmarshal, hsig, hnn, ht0, false_or, if_false, hs, ne_eq, not_false_eq_true, if_true]
  rw [LoadBytes_rx bus _ _ (by have := PadForType_lt t bus.rx hal; omega) havail]
  simp only [not_true_eq_false, if_false]
  rfl

/-- `AJ_UnmarshalArg` on a scalar argument of the message itself (no container is
open) whose bytes are in the RX buffer and within the body. -/
theorem AJ_UnmarshalArg_top_scalar (hostLE : Bool) (bus : AJ_BusAttachment)
    (msg : AJ_Message) (t : Nat) (hvar : msg.varOffset = 0) (houter : msg.outer = [])
    (hsig : derefByte bus (msg.signature.add msg.sigOffset) 0 = t)
    (hs : IsScalarType t ≠ 0) (hal : IsAlign (ALIGNMENT t))
    (havail : RxAvail bus (PadForType t bus.rx + SizeOfType t))
    (hbody : PadForType t bus.rx + SizeOfType t ≤ msg.bodyBytes) :
    AJ_UnmarshalArg hostLE bus msg =
      (AJ_OK,
        EndianSwap hostLE (rxAt bus (bus.rx.readPtr + PadForType t bus.rx + SizeOfType t)) msg t
          (bus.rx.readPtr + PadForType t bus.rx) 1,
        { msg with
          sigOffset := (((msg.signature.add msg.sigOffset).add 1).offset
            - msg.signature.offset) % 256,
          bodyBytes := msg.bodyBytes - (PadForType t bus.rx + SizeOfType t) },
        { typeId := t, flags := 0, len := 0,
          val := AJ_Ptr.rx (bus.rx.readPtr + PadForType t bus.rx), sigPtr := AJ_Ptr.null }) := by
  have hu := Unmarshal_scalar_swap hostLE bus msg _ t hsig hs hal havail
  have hlt : PadForType t bus.rx + SizeOfType t < 65536 := by
    obtain ⟨h1, h2, _, h4⟩ := havail; omega
  simp only [AJ_UnmarshalArg, hvar, ne_eq, not_true_eq_false, if_false, houter, hu,
    EndianSwap_readPtr, rxAt_readPtr]
  have e : bus.rx.readPtr + PadForType t bus.rx + SizeOfType t - bus.rx.readPtr
      = PadForType t bus.rx + SizeOfType t := by omega
  rw [e, if_neg (by simp only [gt_iff_lt, not_lt]; exact hbody), Nat.mod_eq_of_lt hlt]

/-- What `AJ_UnmarshalArgs` returns when `ui` is requested on a message whose
signature is `iu` and whose first argument is in the RX buffer and within the
body. -/
theorem AJ_UnmarshalArgs_ui_on_iu (hostLE : Bool) (bus : AJ_BusAttachment) (msg : AJ_Message)
    (hvar : msg.varOffset = 0) (houter : msg.outer = [])
    (hsig : msg.signature = AJ_Ptr.mem [AJ_ARG_INT32, AJ_ARG_UINT32] 0)
    (hoff : msg.sigOffset = 0)
    (havail : RxAvail bus (PadForType AJ_ARG_INT32 bus.rx + 4))
    (hbody : PadForType AJ_ARG_INT32 bus.rx + 4 ≤ msg.bodyBytes) :
    AJ_UnmarshalArgs hostLE [AJ_ARG_UINT32, AJ_ARG_INT32] bus msg =
      (AJ_ERR_UNMARSHAL,
        EndianSwap hostLE (rxAt bus (bus.rx.readPtr + PadForType AJ_ARG_INT32 bus.rx + 4)) msg
          AJ_ARG_INT32 (bus.rx.readPtr + PadForType AJ_ARG_INT32 bus.rx) 1,
        { msg with sigOffset := 1, bodyBytes := msg.bodyBytes - (PadForType AJ_ARG_INT32 bus.rx + 4) },
        []) := by
  have h := AJ_UnmarshalArg_top_scalar hostLE bus msg AJ_ARG_INT32 hvar houter
    (by rw [hsig, hoff]; rfl) (by decide) (by unfold IsAlign; decide) havail hbody
  have hso : (((msg.signature.add msg.sigOffset).add 1).offset - msg.signature.offset) % 256 = 1 := by
    rw [hsig, hoff]; rfl
  rw [hso] at h
  rw [AJ_UnmarshalArgs_mismatch hostLE AJ_ARG_UINT32 [AJ_ARG_INT32] bus msg (by decide)
    (by rw [h]) (by rw [h]; exact (by decide : AJ_ARG_INT32 ≠ AJ_ARG_UINT32)), h]
  rfl

/-! ## C9: signature discipline, the state after the failure -/
/-- One 32-bit element swapped in place leaves every byte outside the element as
it is. -/
theorem EndianSwap_one32_outside (hostLE : Bool) (bus : AJ_BusAttachment) (msg : AJ_Message)
    (t off i : Nat) (ht : SizeOfType t = 4) (hlen : off + 4 ≤ bus.rx.data.length)
    (hi : i < off ∨ off + 4 ≤ i) :
    (EndianSwap hostLE bus msg t off 1).rx.data.getD i 0 = bus.rx.data.getD i 0 := by
  unfold EndianSwap
  by_cases he : hdrEndianess hostLE bus msg ≠ HOST_ENDIANESS hostLE
  · simp only [he, ne_eq, not_false_eq_true, if_true, ht, show (4 : Nat) ≠ 2 by decide, if_false,
      swapLoop32]
    rw [getD_writeBytesAt _ _ _ _ (by rw [length_u32Bytes]; exact hlen), length_u32Bytes,
      if_neg (by omega)]
  · simp only [he, if_false]

theorem EndianSwap_writePtr (hostLE : Bool) (bus : AJ_BusAttachment) (msg : AJ_Message)
    (typeId off num : Nat) :
    (EndianSwap hostLE bus msg typeId off num).rx.writePtr = bus.rx.writePtr := by
  unfold EndianSwap; split_ifs <;> rfl

/-- C9 (amended): signature discipline, the state after the failure. When `ui` is
requested on a message with the signature `iu` whose first argument is in the RX
buffer and within the body, `AJ_UnmarshalArgs` returns `AJ_ERR_UNMARSHAL` and no
output variable has been written; nothing is rolled back: the first actual
argument has been consumed, so the read cursor has advanced by the padding and
the 4 bytes of that argument, the signature offset is 1, and the remaining
body-byte count has gone down by as many bytes as the read cursor has advanced
(the end of the message is where it was). No byte of the buffer outside the 4
bytes of that argument is modified, and when the message is in host byte order
the contents of the buffer are unchanged. -/
theorem C9_signature_mismatch_state (hostLE : Bool) (bus : AJ_BusAttachment)
    (msg : AJ_Message) (hvar : msg.varOffset = 0) (houter : msg.outer = [])
    (hsig : msg.signature = AJ_Ptr.mem [AJ_ARG_INT32, AJ_ARG_UINT32] 0)
    (hoff : msg.sigOffset = 0)
    (havail : RxAvail bus (PadForType AJ_ARG_INT32 bus.rx + 4))
    (hbody : PadForType AJ_ARG_INT32 bus.rx + 4 ≤ msg.bodyBytes) :
    (AJ_UnmarshalArgs hostLE [AJ_ARG_UINT32, AJ_ARG_INT32] bus msg).1 = AJ_ERR_UNMARSHAL
    ∧ (AJ_UnmarshalArgs hostLE [AJ_ARG_UINT32, AJ_ARG_INT32] bus msg).2.2.2 = []
    ∧ (AJ_UnmarshalArgs hostLE [AJ_ARG_UINT32, AJ_ARG_INT32] bus msg).2.1.rx.readPtr
      = bus.rx.readPtr + PadForType AJ_ARG_INT32 bus.rx + 4
    ∧ (AJ_UnmarshalArgs hostLE [AJ_ARG_UINT32, AJ_ARG_INT32] bus msg).2.2.1.sigOffset = 1
    ∧ (AJ_UnmarshalArgs hostLE [AJ_ARG_UINT32, AJ_ARG_INT32] bus msg).2.2.1.bodyBytes
      = msg.bodyBytes - (PadForType AJ_ARG_INT32 bus.rx + 4)
    ∧ (AJ_UnmarshalArgs hostLE [AJ_ARG_UINT32, AJ_ARG_INT32] bus msg).2.1.rx.readPtr
        + (AJ_UnmarshalArgs hostLE [AJ_ARG_UINT32, AJ_ARG_INT32] bus msg).2.2.1.bodyBytes
      = bus.rx.readPtr + msg.bodyBytes
    ∧ (AJ_UnmarshalArgs hostLE [AJ_ARG_UINT32, AJ_ARG_INT32] bus msg).2.1.rx.writePtr
      = bus.rx.writePtr
    ∧ (∀ i, i < bus.rx.readPtr + PadForType AJ_ARG_INT32 bus.rx
          ∨ bus.rx.readPtr + PadForType AJ_ARG_INT32 bus.rx + 4 ≤ i →
        (AJ_UnmarshalArgs hostLE [AJ_ARG_UINT32, AJ_ARG_INT32] bus msg).2.1.rx.data.getD i 0
          = bus.rx.data.getD i 0)
    ∧ (hdrEndianess hostLE bus msg = HOST_ENDIANESS hostLE →
        (AJ_UnmarshalArgs hostLE [AJ_ARG_UINT32, AJ_ARG_INT32] bus msg).2.1.rx.data
          = bus.rx.data) := by
  rw [AJ_UnmarshalArgs_ui_on_iu hostLE bus msg hvar houter hsig hoff havail hbody]
  obtain ⟨h1, h2, h3, h4⟩ := havail
  refine ⟨rfl, rfl, ?_, rfl, rfl, ?_, ?_, ?_, ?_⟩
  · simp only [EndianSwap_readPtr, rxAt_readPtr]
  · simp only [EndianSwap_readPtr, rxAt_readPtr]
    omega
  · simp only [EndianSwap_writePtr, rxAt_writePtr]
  · intro i hi
    show (EndianSwap hostLE _ msg AJ_ARG_INT32 _ 1).rx.data.getD i 0 = _
    rw [EndianSwap_one32_outside hostLE _ msg AJ_ARG_INT32 _ i (by decide)
      (by simp only [rxAt_data]; omega) hi]
    rfl
  · intro hend
    show (EndianSwap hostLE _ msg AJ_ARG_INT32 _ 1).rx.data = _
    rw [EndianSwap_host _ _ _ _ _ _ (by simpa using hend)]
    rfl

/-- C9, counterexample: `ui` requested on the message `iu` returns
`AJ_ERR_UNMARSHAL`, and the read cursor, the signature offset and the remaining
body-byte count are not what they were before the call: 20, 1 and 4 for 16, 0
and 8. -/
theorem C9_counterexample_argument_consumed :
    (AJ_UnmarshalArgs true [AJ_ARG_UINT32, AJ_ARG_INT32] c9Bus c9Msg).1 = AJ_ERR_UNMARSHAL
    ∧ c9Bus.rx.readPtr = 16
    ∧ (AJ_UnmarshalArgs true [AJ_ARG_UINT32, AJ_ARG_INT32] c9Bus c9Msg).2.1.rx.readPtr = 20
    ∧ c9Msg.sigOffset = 0
    ∧ (AJ_UnmarshalArgs true [AJ_ARG_UINT32, AJ_ARG_INT32] c9Bus c9Msg).2.2.1.sigOffset = 1
    ∧ c9Msg.bodyBytes = 8
    ∧ (AJ_UnmarshalArgs true [AJ_ARG_UINT32, AJ_ARG_INT32] c9Bus c9Msg).2.2.1.bodyBytes = 4 := by
  decide

/-- C9, witness: the message `iu` with the values 5 and 6 on a little-endian
host. -/
theorem C9_signature_mismatch_state_witness :
    (AJ_UnmarshalArgs true [AJ_ARG_UINT32, AJ_ARG_INT32] c9Bus c9Msg).1 = AJ_ERR_UNMARSHAL
    ∧ (AJ_UnmarshalArgs true [AJ_ARG_UINT32, AJ_ARG_INT32] c9Bus c9Msg).2.2.2 = []
    ∧ (AJ_UnmarshalArgs true [AJ_ARG_UINT32, AJ_ARG_INT32] c9Bus c9Msg).2.1.rx.readPtr
      = c9Bus.rx.readPtr + PadForType AJ_ARG_INT32 c9Bus.rx + 4 :=
  have h := C9_signature_mismatch_state true c9Bus c9Msg (by decide) (by decide) (by decide)
    (by decide) (by unfold RxAvail; decide) (by decide)
  ⟨h.1, h.2.1, h.2.2.1⟩

/-! ## C10: closing a message -/
theorem readBytes_writeBytesAt_before (data : List Nat) (off : Nat) (bytes : List Nat)
    (p n : Nat) (h : off ≤ data.length) (hp : p + n ≤ off) :
    readBytes (writeBytesAt data off bytes) p n = readBytes data p n := by
  rw [writeBytesAt_eq _ _ _ h]
  simp only [readBytes]
  rw [List.append_assoc, List.drop_append_of_le_length (by simp; omega),
    List.take_append_of_le_length (by simp; omega), List.drop_take]
  rw [List.take_take, Nat.min_eq_left (by omega)]

/-- A call of `recv` that returns OK moves bytes from the transport to the buffer:
the incoming stream is the same. -/
theorem netRecvEvent_stream (b : AJ_IOBuffer) (e : NetEvent) (hwf : b.WF)
    (hok : (netRecvEvent b (some e)).1 = AJ_OK) :
    (netRecvEvent b (some e)).2.WF
    ∧ (netRecvEvent b (some e)).2.readPtr = b.readPtr
    ∧ (netRecvEvent b (some e)).2.bufSize = b.bufSize
    ∧ rxStream (netRecvEvent b (some e)).2 = rxStream b := by
  obtain ⟨h1, h2, h3⟩ := hwf
  cases e with
  | fail s => exact ⟨⟨h1, h2, h3⟩, rfl, rfl, rfl⟩
  | xfer n =>
    simp only [netRecvEvent]
    generalize hk : min n (min (AJ_IO_BUF_SPACE b) b.context.wire.length) = k
    have hk1 : k ≤ b.bufSize - b.writePtr := by
      rw [← hk]; simp only [AJ_IO_BUF_SPACE]; omega
    have hk2 : k ≤ b.context.wire.length := by
      rw [← hk]; omega
    have hlen : (b.context.wire.take k).length = k := by
      rw [List.length_take]; omega
    refine ⟨⟨?_, ?_, ?_⟩, trivial, trivial, ?_⟩
    · show b.readPtr ≤ b.writePtr + k
      omega
    · show b.writePtr + k ≤ b.bufSize
      omega
    · show (writeBytesAt b.data b.writePtr (b.context.wire.take k)).length = b.bufSize
      rw [length_writeBytesAt _ _ _ (by rw [hlen]; omega), h3]
    · show readBytes (writeBytesAt b.data b.writePtr (b.context.wire.take k)) b.readPtr
          (b.writePtr + k - b.readPtr) ++ b.context.wire.drop k
        = readBytes b.data b.readPtr (b.writePtr - b.readPtr) ++ b.context.wire
      have e1 : b.writePtr + k - b.readPtr = (b.writePtr - b.readPtr) + k := by omega
      rw [e1, readBytes_add, readBytes_writeBytesAt_before _ _ _ _ _ (by omega) (by omega)]
      have e2 : b.readPtr + (b.writePtr - b.readPtr) = b.writePtr := by omega
      rw [e2]
      have hrb := readBytes_writeBytesAt b.data b.writePtr (b.context.wire.take k) (by omega)
      rw [hlen] at hrb
      rw [hrb, List.append_assoc, List.take_append_drop]

/-- The loop of `LoadBytes`, when it ends with OK, has received what was missing
and has not discarded anything. -/
theorem LoadBytesLoop_stream (script : List NetEvent) :
    ∀ (b : AJ_IOBuffer) (n : Nat), b.WF → (LoadBytesLoop script b n).1 = AJ_OK →
      (LoadBytesLoop script b n).2.1.WF
      ∧ (LoadBytesLoop script b n).2.1.readPtr = b.readPtr
      ∧ (LoadBytesLoop script b n).2.1.bufSize = b.bufSize
      ∧ rxStream (LoadBytesLoop script b n).2.1 = rxStream b
      ∧ n ≤ AJ_IO_BUF_AVAIL (LoadBytesLoop script b n).2.1 := by
  induction script with
  | nil =>
    intro b n hwf hok
    by_cases h : AJ_IO_BUF_AVAIL b < n
    · simp only [LoadBytesLoop, h, if_true, netRecvEvent] at hok
      exact absurd hok (by decide)
    · simp only [LoadBytesLoop, h, if_false]
      exact ⟨hwf, trivial, trivial, trivial, by omega⟩
  | cons e rest ih =>
    intro b n hwf hok
    by_cases h : AJ_IO_BUF_AVAIL b < n
    · by_cases h1 : (netRecvEvent b (some e)).1 = AJ_OK
      · simp only [LoadBytesLoop, h, if_true, h1, ne_eq, not_true_eq_false, if_false] at hok ⊢
        obtain ⟨w1, w2, w3, w4⟩ := netRecvEvent_stream b e hwf h1
        obtain ⟨i1, i2, i3, i4, i5⟩ := ih _ n w1 hok
        exact ⟨i1, i2.trans w2, i3.trans w3, i4.trans w4, i5⟩
      · simp only [LoadBytesLoop, h, if_true, h1, ne_eq, not_false_eq_true] at hok
        split_ifs at hok with h2
        exact absurd hok h1
    · simp only [LoadBytesLoop, h, if_false]
      exact ⟨hwf, trivial, trivial, trivial, by omega⟩

/-- The function `LoadBytes` without padding, when it returns OK. -/
theorem LoadBytes_stream (b : AJ_IOBuffer) (n : Nat) (hn : n < 65536) (hwf : b.WF)
    (hok : (LoadBytes b n 0).1 = AJ_OK) :
    (LoadBytes b n 0).2.WF
    ∧ (LoadBytes b n 0).2.readPtr = b.readPtr
    ∧ (LoadBytes b n 0).2.bufSize = b.bufSize
    ∧ rxStream (LoadBytes b n 0).2 = rxStream b
    ∧ n ≤ AJ_IO_BUF_AVAIL (LoadBytes b n 0).2 := by
  have e : (n % 65536 + 0 % 256) % 65536 = n := by omega
  simp only [LoadBytes, e] at hok ⊢
  by_cases h : n > b.bufSize - AJ_IO_BUF_CONSUMED b
  · simp only [h, if_true] at hok
    exact absurd hok (by decide)
  · simp only [h, if_false] at hok ⊢
    obtain ⟨i1, i2, i3, i4, i5⟩ := LoadBytesLoop_stream b.context.script b n hwf hok
    exact ⟨i1, i2, i3, i4, i5⟩

/-- Moving the read cursor over `n` received bytes takes them off the stream. -/
theorem rxStream_advance (b : AJ_IOBuffer) (n : Nat) (hwf : b.WF)
    (hn : n ≤ AJ_IO_BUF_AVAIL b) :
    rxStream { b with readPtr := b.readPtr + n } = (rxStream b).drop n
    ∧ n ≤ (rxStream b).length := by
  obtain ⟨h1, h2, h3⟩ := hwf
  simp only [AJ_IO_BUF_AVAIL] at hn
  have e : b.writePtr - b.readPtr = n + (b.writePtr - (b.readPtr + n)) := by omega
  have hl : (readBytes b.data b.readPtr n).length = n := length_readBytes _ _ _ (by omega)
  simp only [rxStream]
  rw [e, readBytes_add, List.append_assoc]
  constructor
  · nth_rewrite 3 [← hl]
    rw [List.drop_left]
  · simp only [List.length_append, hl]; omega

theorem rxStream_reset (b : AJ_IOBuffer) (hwf : b.WF) (h : AJ_IO_BUF_AVAIL b = 0) :
    (AJ_IO_BUF_RESET b).WF ∧ rxStream (AJ_IO_BUF_RESET b) = rxStream b := by
  obtain ⟨h1, h2, h3⟩ := hwf
  simp only [AJ_IO_BUF_AVAIL] at h
  refine ⟨⟨Nat.le_refl _, Nat.zero_le _, h3⟩, ?_⟩
  simp only [rxStream, AJ_IO_BUF_RESET, h, readBytes, Nat.sub_self, List.take_zero]

theorem AJ_CloseMsgLoop_zero (fuel : Nat) (b : AJ_IOBuffer) :
    AJ_CloseMsgLoop fuel b 0 = some (AJ_OK, b, 0) := by
  rw [AJ_CloseMsgLoop.eq_def]
  simp only [if_true]

/-- One turn of the loop of `AJ_CloseMsg`. -/
theorem AJ_CloseMsgLoop_succ (fuel : Nat) (b : AJ_IOBuffer) (body : Nat) (hb : body ≠ 0) :
    AJ_CloseMsgLoop (fuel + 1) b body =
      (let sz0 := min (AJ_IO_BUF_AVAIL b % 65536) body % 65536
       let ioBuf1 := if sz0 = 0 then AJ_IO_BUF_RESET b else b
       let sz := if sz0 = 0 then min body b.bufSize % 65536 else sz0
       let r := LoadBytes ioBuf1 sz 0
       if r.1 ≠ AJ_OK then some (r.1, r.2, body)
       else AJ_CloseMsgLoop fuel { r.2 with readPtr := r.2.readPtr + sz } (body - sz)) := by
  rw [AJ_CloseMsgLoop.eq_def]
  simp only [hb, if_false]

/-- The loop of `AJ_CloseMsg`, when it ends with OK, has taken `bodyBytes` bytes off
the incoming stream. -/
theorem AJ_CloseMsgLoop_stream (fuel : Nat) :
    ∀ (b : AJ_IOBuffer) (body : Nat) (b1 : AJ_IOBuffer) (body1 : Nat),
      b.WF → b.bufSize < 65536 →
      AJ_CloseMsgLoop fuel b body = some (AJ_OK, b1, body1) →
      body1 = 0 ∧ rxStream b1 = (rxStream b).drop body ∧ body ≤ (rxStream b).length := by
  induction fuel with
  | zero =>
    intro b body b1 body1 _ _ h
    by_cases hb : body = 0
    · subst hb
      rw [AJ_CloseMsgLoop_zero] at h
      simp only [Option.some.injEq, Prod.mk.injEq, true_and] at h
      obtain ⟨rfl, rfl⟩ := h
      exact ⟨rfl, rfl, Nat.zero_le _⟩
    · rw [AJ_CloseMsgLoop.eq_def] at h
      simp only [hb, if_false] at h
      exact absurd h (by simp)
  | succ fuel ih =>
    intro b body b1 body1 hwf hsz h
    by_cases hb : body = 0
    · subst hb
      rw [AJ_CloseMsgLoop_zero] at h
      simp only [Option.some.injEq, Prod.mk.injEq, true_and] at h
      obtain ⟨rfl, rfl⟩ := h
      exact ⟨rfl, rfl, Nat.zero_le _⟩
    · rw [AJ_CloseMsgLoop_succ fuel b body hb] at h
      have hav : AJ_IO_BUF_AVAIL b < 65536 := by
        obtain ⟨_, h2, _⟩ := hwf; simp only [AJ_IO_BUF_AVAIL]; omega
      have e0 : min (AJ_IO_BUF_AVAIL b % 65536) body % 65536 = min (AJ_IO_BUF_AVAIL b) body := by
        rw [Nat.mod_eq_of_lt hav, Nat.mod_eq_of_lt (by omega)]
      have e1 : min body b.bufSize % 65536 = min body b.bufSize := Nat.mod_eq_of_lt (by omega)
      simp only [e0, e1] at h
      -- the buffer and the count of this turn
      obtain ⟨c, sz, hc, hcs, hcb, hsz1, hsz2, hstep⟩ :
          ∃ (c : AJ_IOBuffer) (sz : Nat), c.WF ∧ rxStream c = rxStream b ∧ c.bufSize = b.bufSize
            ∧ sz ≤ body ∧ sz < 65536
            ∧ (if (LoadBytes c sz 0).1 ≠ AJ_OK then
                  some ((LoadBytes c sz 0).1, (LoadBytes c sz 0).2, body)
                else AJ_CloseMsgLoop fuel
                  { (LoadBytes c sz 0).2 with readPtr := (LoadBytes c sz 0).2.readPtr + sz }
                  (body - sz)) = some (AJ_OK, b1, body1) := by
        by_cases h0 : min (AJ_IO_BUF_AVAIL b) body = 0
        · simp only [h0, if_true] at h
          have hz : AJ_IO_BUF_AVAIL b = 0 := by omega
          obtain ⟨r1, r2⟩ := rxStream_reset b hwf hz
          exact ⟨_, _, r1, r2, rfl, by omega, by omega, h⟩
        · simp only [h0, if_false] at h
          exact ⟨_, _, hwf, rfl, rfl, by omega, by omega, h⟩
      by_cases hl : (LoadBytes c sz 0).1 = AJ_OK
      · simp only [hl, ne_eq, not_true_eq_false, if_false] at hstep
        obtain ⟨l1, l2, l3, l4, l5⟩ := LoadBytes_stream c sz hsz2 hc hl
        obtain ⟨a1, a2⟩ := rxStream_advance _ sz l1 l5
        have hwf2 : AJ_IOBuffer.WF
            { (LoadBytes c sz 0).2 with readPtr := (LoadBytes c sz 0).2.readPtr + sz } := by
          obtain ⟨w1, w2, w3⟩ := l1
          simp only [AJ_IO_BUF_AVAIL] at l5
          exact ⟨by show (LoadBytes c sz 0).2.readPtr + sz ≤ (LoadBytes c sz 0).2.writePtr; omega,
            w2, w3⟩
        obtain ⟨i1, i2, i3⟩ := ih _ _ b1 body1 hwf2 (by show (LoadBytes c sz 0).2.bufSize < _; omega)
          hstep
        rw [l4, hcs] at a1 a2
        rw [a1] at i2 i3
        refine ⟨i1, ?_, ?_⟩
        · rw [i2, List.drop_drop]
          congr 1; omega
        · rw [List.length_drop] at i3; omega
      · simp only [hl, ne_eq, not_false_eq_true, if_true, Option.some.injEq, Prod.mk.injEq] at hstep
        exact hstep.1.elim

/-- `AJ_CloseMsg` when the unread body bytes are in the RX buffer. -/
theorem AJ_CloseMsg_buffered (bus : AJ_BusAttachment) (msg : AJ_Message)
    (hwf : bus.rx.WF) (hsz : bus.rx.bufSize < 65536) (hbus : msg.bus = true)
    (hav : msg.bodyBytes ≤ AJ_IO_BUF_AVAIL bus.rx) :
    AJ_CloseMsg bus msg
      = some (AJ_OK, rxAt bus (bus.rx.readPtr + msg.bodyBytes), AJ_Message.zero) := by
  obtain ⟨h1, h2, h3⟩ := hwf
  simp only [AJ_IO_BUF_AVAIL] at hav
  simp only [AJ_CloseMsg, hbus, if_true]
  by_cases hb : msg.bodyBytes = 0
  · rw [hb, AJ_CloseMsgLoop_zero]
    rfl
  · obtain ⟨f, hf⟩ : ∃ f, msg.bodyBytes = f + 1 := ⟨msg.bodyBytes - 1, by omega⟩
    have e0 : min (AJ_IO_BUF_AVAIL bus.rx % 65536) msg.bodyBytes % 65536 = msg.bodyBytes := by
      simp only [AJ_IO_BUF_AVAIL]
      omega
    nth_rewrite 1 [hf]
    rw [AJ_CloseMsgLoop_succ f bus.rx msg.bodyBytes hb]
    simp only [e0, hb, if_false]
    rw [LoadBytes_avail bus.rx msg.bodyBytes 0 (by omega) (by omega) (by omega) h2]
    simp only [ne_eq, not_true_eq_false, if_false, Nat.sub_self, Nat.add_zero]
    rw [AJ_CloseMsgLoop_zero]
    rfl

/-- C10: close drains. For an open RX message with `r = bodyBytes` unread body
bytes, an `AJ_CloseMsg` that returns OK takes exactly `r` bytes off the incoming
stream (the bytes received and not yet read, followed by those still to arrive):
what is left to read is the stream behind its first `r` bytes, which were all
there, so the next byte read is the first byte of the following message; and the
message structure is all zero afterwards. When the `r` bytes are already in the
RX buffer, `AJ_CloseMsg` returns OK, and the read cursor has advanced by exactly
`r` with the rest of the buffer as it was. -/
theorem C10_close_drains (bus : AJ_BusAttachment) (msg : AJ_Message)
    (hwf : bus.rx.WF) (hsz : bus.rx.bufSize < 65536) (hbus : msg.bus = true) :
    (∀ (bus1 : AJ_BusAttachment) (msg1 : AJ_Message),
      AJ_CloseMsg bus msg = some (AJ_OK, bus1, msg1) →
        rxStream bus1.rx = (rxStream bus.rx).drop msg.bodyBytes
        ∧ msg.bodyBytes ≤ (rxStream bus.rx).length
        ∧ (rxStream bus1.rx).length + msg.bodyBytes = (rxStream bus.rx).length
        ∧ msg1 = AJ_Message.zero)
    ∧ (msg.bodyBytes ≤ AJ_IO_BUF_AVAIL bus.rx →
        AJ_CloseMsg bus msg
          = some (AJ_OK, rxAt bus (bus.rx.readPtr + msg.bodyBytes), AJ_Message.zero)) := by
  refine ⟨?_, AJ_CloseMsg_buffered bus msg hwf hsz hbus⟩
  intro bus1 msg1 h
  simp only [AJ_CloseMsg, hbus, if_true] at h
  cases hl : AJ_CloseMsgLoop msg.bodyBytes bus.rx msg.bodyBytes with
  | none => rw [hl] at h; exact absurd h (by simp)
  | some r =>
    obtain ⟨s, b1, body1⟩ := r
    rw [hl] at h
    simp only [Option.map_some', Option.some.injEq, Prod.mk.injEq] at h
    obtain ⟨hs, hb1, hm1⟩ := h
    subst hs
    obtain ⟨_, i2, i3⟩ := AJ_CloseMsgLoop_stream _ _ _ b1 body1 hwf hsz hl
    have e : bus1.rx = b1 := by rw [← hb1]
    rw [e]
    refine ⟨i2, i3, ?_, hm1.symm⟩
    rw [i2, List.length_drop]; omega

/-- C10, witness: 2 of the 6 unread body bytes are in the buffer and 4 arrive while
the message is closed; the stream `11 12 13 14 15 16 108 1` is left with `108 1`,
the start of the following message. -/
theorem C10_close_drains_witness :
    AJ_CloseMsg c10Bus c10Msg = some (AJ_OK, c10BusClosed, AJ_Message.zero)
    ∧ rxStream c10Bus.rx = [11, 12, 13, 14, 15, 16, 108, 1]
    ∧ rxStream c10BusClosed.rx = [108, 1]
    ∧ rxStream c10BusClosed.rx = (rxStream c10Bus.rx).drop c10Msg.bodyBytes
    ∧ c10Msg.bodyBytes ≤ (rxStream c10Bus.rx).length :=
  have h : AJ_CloseMsg c10Bus c10Msg = some (AJ_OK, c10BusClosed, AJ_Message.zero) := by decide
  have w := (C10_close_drains c10Bus c10Msg (by unfold AJ_IOBuffer.WF; decide) (by decide)
    (by decide)).1 c10BusClosed AJ_Message.zero h
  ⟨h, by decide, by decide, w.1, w.2.1⟩

/-! ## C2: the composite round trip for the signature a(is) -/
@[simp] theorem msgIn_outer (msg : AJ_Message) (o : List AJ_Arg) (b : Nat) :
    (msgIn msg o b).outer = o := rfl
@[simp] theorem msgIn_bodyBytes (msg : AJ_Message) (o : List AJ_Arg) (b : Nat) :
    (msgIn msg o b).bodyBytes = b := rfl
@[simp] theorem msgIn_varOffset (msg : AJ_Message) (o : List AJ_Arg) (b : Nat) :
    (msgIn msg o b).varOffset = msg.varOffset := rfl
@[simp] theorem msgIn_hdr (msg : AJ_Message) (o : List AJ_Arg) (b : Nat) :
    (msgIn msg o b).hdr = msg.hdr := rfl
@[simp] theorem msgIn_msgIn (msg : AJ_Message) (o o1 : List AJ_Arg) (b b1 : Nat) :
    msgIn (msgIn msg o b) o1 b1 = msgIn msg o1 b1 := rfl
@[simp] theorem hdrEndianess_msgIn (hostLE : Bool) (bus : AJ_BusAttachment) (msg : AJ_Message)
    (o : List AJ_Arg) (b : Nat) :
    hdrEndianess hostLE bus (msgIn msg o b) = hdrEndianess hostLE bus msg := rfl

/-- `AJ_MarshalArg` inside an open container, in terms of the call of `Marshal` it
makes. -/
theorem AJ_MarshalArg_in_container (hostLE : Bool) (bus bus1 : AJ_BusAttachment)
    (m0 : AJ_Message) (c : AJ_Arg) (rest : List AJ_Arg) (B : Nat) (arg arg1 : AJ_Arg)
    (sig1 : AJ_Ptr) (hvar : m0.varOffset = 0) (hsig0 : derefByte bus c.sigPtr 0 ≠ 0)
    (hm : Marshal hostLE bus (msgIn m0 (c :: rest) B) c.sigPtr arg
      = (AJ_OK, bus1, msgIn m0 (c :: rest) B, sig1, arg1)) :
    AJ_MarshalArg hostLE bus (msgIn m0 (c :: rest) B) arg =
      (AJ_OK, bus1,
        msgIn m0 ((if c.typeId ≠ AJ_ARG_ARRAY then { c with sigPtr := sig1 } else c) :: rest)
          ((B + diff16 bus1.tx.writePtr bus.tx.writePtr) % 4294967296),
        arg1) := by
  cases m0
  simp only at hvar
  subst hvar
  simp only [AJ_MarshalArg, msgIn_varOffset, ne_eq, not_true_eq_false, if_false,
    msgIn_outer, hsig0, hm, if_true]
  by_cases hc : c.typeId = AJ_ARG_ARRAY
  · simp only [hc, not_true_eq_false, if_false]
    rfl
  · simp only [hc, not_false_eq_true, if_true]
    rfl

theorem PadForType_struct_tx (tx : AJ_IOBuffer) (hdir : tx.direction = AJ_IO_BUF_TX) :
    PadForType AJ_ARG_STRUCT tx = pad8 tx.writePtr := by
  rw [PadForType_eq _ _ (by unfold IsAlign; decide), hdir]
  rfl

theorem PadForType_struct_rx (rx : AJ_IOBuffer) (hdir : rx.direction = AJ_IO_BUF_RX) :
    PadForType AJ_ARG_STRUCT rx = pad8 rx.readPtr := by
  rw [PadForType_eq _ _ (by unfold IsAlign; decide), hdir]
  rfl

theorem PadForType_four_tx (t : Nat) (tx : AJ_IOBuffer) (h4 : ALIGNMENT t = 4)
    (hdir : tx.direction = AJ_IO_BUF_TX) (hw : tx.writePtr % 4 = 0) : PadForType t tx = 0 := by
  rw [PadForType_tx_four t tx h4 hdir, hw]

theorem PadForType_four_rx (t : Nat) (rx : AJ_IOBuffer) (h4 : ALIGNMENT t = 4)
    (hdir : rx.direction = AJ_IO_BUF_RX) (hw : rx.readPtr % 4 = 0) : PadForType t rx = 0 := by
  rw [PadForType_eq t rx (by rw [h4]; right; right; left; rfl), h4, hdir]
  simp only [if_true]
  omega

/-- `Marshal` of the opening of a struct: the padding to the next multiple of 8. -/
theorem Marshal_struct_open (hostLE : Bool) (bus : AJ_BusAttachment) (msg : AJ_Message)
    (sig : AJ_Ptr) (hsig : derefByte bus sig 0 = AJ_ARG_STRUCT)
    (hroom : TxRoom bus (PadForType AJ_ARG_STRUCT bus.tx)) :
    Marshal hostLE bus msg sig (InitArg AJ_ARG_STRUCT AJ_Ptr.null) =
      (AJ_OK, txAppend bus (List.replicate (PadForType AJ_ARG_STRUCT bus.tx) 0), msg,
        ((sig.add 1).sub 1).add
          (CompleteTypeSigLenPtr
            (txAppend bus (List.replicate (PadForType AJ_ARG_STRUCT bus.tx) 0))
            ((sig.add 1).sub 1)),
        { typeId := AJ_ARG_STRUCT, flags := 0, len := 0, val := AJ_Ptr.null,
          sigPtr := ((sig.add 1).sub 1).add 1 }) := by
  have hs : IsScalarType AJ_ARG_STRUCT = 0 := by decide
  have hstr : TYPE_FLAG AJ_ARG_STRUCT &&& (AJ_STRING ||| AJ_VARIANT) = 0 := by decide
  have hc : TYPE_FLAG AJ_ARG_STRUCT &&& AJ_CONTAINER ≠ 0 := by decide
  have hsub : derefByte bus ((sig.add 1).sub 1) 0 = AJ_ARG_STRUCT := by
    cases sig <;> simp_all [AJ_Ptr.add, AJ_Ptr.sub, derefByte]
  simp only [Marshal, InitArg, hsig, hs, ne_eq, not_true_eq_false, if_false, hstr, hc,
    not_false_eq_true, if_true, MarshalContainer, hsub,
    show AJ_ARG_STRUCT ≠ AJ_ARG_ARRAY by decide]
  rw [WritePad_fit bus msg _ hroom]

theorem derefByte_mem (bus : AJ_BusAttachment) (l : List Nat) (k i : Nat) :
    derefByte bus (AJ_Ptr.mem l k) i = l.getD (k + i) 0 := rfl

/-- `AJ_MarshalContainer(STRUCT)` for an element of the open array `a(is)`. -/
theorem AJ_MarshalContainer_struct (hostLE : Bool) (bus : AJ_BusAttachment) (m0 : AJ_Message)
    (arr : AJ_Arg) (rest : List AJ_Arg) (B : Nat)
    (hvar : m0.varOffset = 0) (harr : arr.typeId = AJ_ARG_ARRAY)
    (hsig : arr.sigPtr = AJ_Ptr.mem sigAIS 1) (hdir : bus.tx.direction = AJ_IO_BUF_TX)
    (hroom : TxRoom bus (pad8 bus.tx.writePtr)) :
    AJ_MarshalContainer hostLE bus (msgIn m0 (arr :: rest) B) AJ_ARG_STRUCT =
      (AJ_OK, txAppend bus (List.replicate (pad8 bus.tx.writePtr) 0),
        msgIn m0 (structArg AJ_Ptr.null 2 :: arr :: rest)
          ((B + pad8 bus.tx.writePtr) % 4294967296),
        structArg AJ_Ptr.null 2) := by
  have hpad := PadForType_struct_tx bus.tx hdir
  have hlt : pad8 bus.tx.writePtr < 65536 := by unfold pad8; omega
  have s1 := AJ_MarshalArg_in_container hostLE bus _ m0 arr rest B
    (InitArg AJ_ARG_STRUCT AJ_Ptr.null) _ _ hvar (by rw [hsig, derefByte_mem]; decide)
    (Marshal_struct_open hostLE bus (msgIn m0 (arr :: rest) B) arr.sigPtr (by rw [hsig]; rfl)
      (by rw [hpad]; exact hroom))
  simp only [harr, ne_eq, not_true_eq_false, if_false, hpad, hsig, txAppend_writePtr,
    List.length_replicate, diff16_add _ _ hlt] at s1
  simp only [AJ_MarshalContainer, s1, if_true]
  rfl

/-- `AJ_MarshalArg` for the integer of an element of `a(is)`. -/
theorem AJ_MarshalArg_struct_int (hostLE : Bool) (bus : AJ_BusAttachment) (m0 : AJ_Message)
    (val : AJ_Ptr) (rest : List AJ_Arg) (B : Nat) (v : List Nat)
    (hvar : m0.varOffset = 0) (hdir : bus.tx.direction = AJ_IO_BUF_TX)
    (hw : bus.tx.writePtr % 4 = 0) (hv : v.length = 4) (hroom : TxRoom bus 4) :
    AJ_MarshalArg hostLE bus (msgIn m0 (structArg val 2 :: rest) B)
        (InitArg AJ_ARG_INT32 (AJ_Ptr.mem v 0)) =
      (AJ_OK, txAppend bus v, msgIn m0 (structArg val 3 :: rest) ((B + 4) % 4294967296),
        InitArg AJ_ARG_INT32 (AJ_Ptr.mem v 0)) := by
  have hp : PadForType AJ_ARG_INT32 bus.tx = 0 := PadForType_four_tx _ _ (by decide) hdir hw
  have hm := Marshal_scalar hostLE bus (msgIn m0 (structArg val 2 :: rest) B)
    (structArg val 2).sigPtr AJ_ARG_INT32 v rfl (by decide) hv (by rw [hp, hv]; exact hroom)
  rw [hp] at hm
  simp only [List.replicate_zero, List.nil_append, wireBody,
    show IsScalarType AJ_ARG_INT32 ≠ 0 by decide, ne_eq, not_false_eq_true, if_true] at hm
  have s1 := AJ_MarshalArg_in_container hostLE bus _ m0 (structArg val 2) rest B _ _ _ hvar
    (by rw [show (structArg val 2).sigPtr = AJ_Ptr.mem sigAIS 2 from rfl, derefByte_mem]
        decide) hm
  rw [s1]
  simp only [txAppend_writePtr, hv, diff16_add _ 4 (by decide)]
  rfl

/-- `AJ_MarshalArg` for the string of an element of `a(is)`. -/
theorem AJ_MarshalArg_struct_string (hostLE : Bool) (bus : AJ_BusAttachment)
    (m0 : AJ_Message) (val : AJ_Ptr) (rest : List AJ_Arg) (B : Nat) (v : List Nat)
    (hvar : m0.varOffset = 0) (hdir : bus.tx.direction = AJ_IO_BUF_TX)
    (hw : bus.tx.writePtr % 4 = 0) (hnz : ∀ b ∈ v, b ≠ 0)
    (hroom : TxRoom bus (4 + v.length + 1)) :
    AJ_MarshalArg hostLE bus (msgIn m0 (structArg val 3 :: rest) B)
        (InitArg AJ_ARG_STRING (AJ_Ptr.mem v 0)) =
      (AJ_OK, txAppend bus (u32Bytes hostLE v.length ++ v ++ [0]),
        msgIn m0 (structArg val 4 :: rest) ((B + (4 + v.length + 1)) % 4294967296),
        InitArg AJ_ARG_STRING (AJ_Ptr.mem v 0)) := by
  have hp : PadForType AJ_ARG_STRING bus.tx = 0 := PadForType_four_tx _ _ (by decide) hdir hw
  have hwb : wireBody hostLE AJ_ARG_STRING v = u32Bytes hostLE v.length ++ v ++ [0] := by
    simp only [wireBody, show IsScalarType AJ_ARG_STRING = 0 by decide, ne_eq,
      not_true_eq_false, if_false, show ALIGNMENT AJ_ARG_STRING ≠ 1 by decide]
  have hlen : (u32Bytes hostLE v.length ++ v ++ [0]).length = 4 + v.length + 1 := by
    simp only [List.length_append, length_u32Bytes, List.length_singleton]
  have hm := Marshal_string hostLE bus (msgIn m0 (structArg val 3 :: rest) B)
    (structArg val 3).sigPtr AJ_ARG_STRING v rfl (by decide) (by decide) (by decide) hnz
    (by intro h; exact absurd h (by decide)) (by rw [hp, hwb, hlen, Nat.zero_add]; exact hroom)
  rw [hp, hwb] at hm
  simp only [List.replicate_zero, List.nil_append] at hm
  have s1 := AJ_MarshalArg_in_container hostLE bus _ m0 (structArg val 3) rest B _ _ _ hvar
    (by rw [show (structArg val 3).sigPtr = AJ_Ptr.mem sigAIS 3 from rfl, derefByte_mem]
        decide) hm
  rw [s1]
  have hlt : 4 + v.length + 1 < 65536 := by
    have := hroom.1; have := hroom.2.2; omega
  simp only [txAppend_writePtr, hlen, diff16_add _ _ hlt]
  rfl

/-- `AJ_MarshalCloseContainer` for the struct of an element of `a(is)`. -/
theorem AJ_MarshalCloseContainer_struct (hostLE : Bool) (bus : AJ_BusAttachment)
    (m0 : AJ_Message) (val : AJ_Ptr) (rest : List AJ_Arg) (B : Nat) :
    AJ_MarshalCloseContainer hostLE bus (msgIn m0 (structArg val 4 :: rest) B)
      = some (AJ_OK, bus, msgIn m0 rest B, structArg val 4) := by
  simp only [AJ_MarshalCloseContainer, msgIn_outer, structArg,
    show ¬ (TYPE_FLAG AJ_ARG_STRUCT &&& AJ_CONTAINER = 0) by decide, if_false,
    show AJ_ARG_STRUCT ≠ AJ_ARG_ARRAY by decide, derefByte_mem,
    show AJ_ARG_STRUCT ≠ AJ_ARG_DICT_ENTRY by decide, false_and, true_and,
    show ¬ (sigAIS.getD (4 + 0) 0 ≠ AJ_STRUCT_CLOSE) by decide]
  rfl

theorem length_encPair (hostLE : Bool) (off : Nat) (p : List Nat × List Nat)
    (h4 : p.1.length = 4) :
    (encPair hostLE off p).length = pad8 off + 4 + 4 + p.2.length + 1 := by
  simp only [encPair, List.length_append, List.length_replicate, h4, length_u32Bytes,
    List.length_singleton]
  omega

/-- An element of the array `a(is)` that fits the TX buffer is marshalled as the
bytes `encPair`; the open containers are as before. -/
theorem marshalPair_ok (hostLE : Bool) (bus : AJ_BusAttachment) (m0 : AJ_Message)
    (arr : AJ_Arg) (rest : List AJ_Arg) (B : Nat) (p : List Nat × List Nat)
    (hvar : m0.varOffset = 0) (harr : arr.typeId = AJ_ARG_ARRAY)
    (hsig : arr.sigPtr = AJ_Ptr.mem sigAIS 1) (hdir : bus.tx.direction = AJ_IO_BUF_TX)
    (h4 : p.1.length = 4) (hnz : ∀ b ∈ p.2, b ≠ 0)
    (hroom : TxRoom bus (encPair hostLE bus.tx.writePtr p).length) :
    marshalPair hostLE bus (msgIn m0 (arr :: rest) B) p
      = some (txAppend bus (encPair hostLE bus.tx.writePtr p),
          msgIn m0 (arr :: rest)
            ((((B + pad8 bus.tx.writePtr) % 4294967296 + 4) % 4294967296
              + (4 + p.2.length + 1)) % 4294967296)) := by
  rw [length_encPair hostLE _ p h4] at hroom
  have hp8 : (bus.tx.writePtr + pad8 bus.tx.writePtr) % 8 = 0 := by unfold pad8; omega
  have hr0 : TxRoom bus (List.replicate (pad8 bus.tx.writePtr) 0).length := by
    rw [List.length_replicate]; exact TxRoom_mono hroom (by omega)
  have hr1 : TxRoom (txAppend bus (List.replicate (pad8 bus.tx.writePtr) 0))
      (4 + (4 + p.2.length + 1)) :=
    TxRoom_txAppend (by rw [List.length_replicate]; exact TxRoom_mono hroom (by omega))
  have hr2 : TxRoom (txAppend (txAppend bus (List.replicate (pad8 bus.tx.writePtr) 0)) p.1)
      (4 + p.2.length + 1) := TxRoom_txAppend (by rw [h4]; exact hr1)
  simp only [marshalPair]
  rw [AJ_MarshalContainer_struct hostLE bus m0 arr rest B hvar harr hsig hdir
    (by rw [List.length_replicate] at hr0; exact hr0)]
  simp only [ne_eq, not_true_eq_false, if_false]
  rw [AJ_MarshalArg_struct_int hostLE (txAppend bus (List.replicate (pad8 bus.tx.writePtr) 0))
    m0 _ _ _ p.1 hvar hdir
    (by simp only [txAppend_writePtr, List.length_replicate]; omega) h4
    (TxRoom_mono hr1 (by omega))]
  simp only [ne_eq, not_true_eq_false, if_false]
  rw [AJ_MarshalArg_struct_string hostLE
    (txAppend (txAppend bus (List.replicate (pad8 bus.tx.writePtr) 0)) p.1) m0 _ _ _ p.2 hvar
    hdir (by simp only [txAppend_writePtr, List.length_replicate, h4]; omega) hnz hr2]
  simp only [ne_eq, not_true_eq_false, if_false, AJ_MarshalCloseContainer_struct]
  rw [txAppend_txAppend _ _ _ (TxRoom_mono hr1 (by rw [h4]; omega)),
    txAppend_txAppend _ _ _ hr0]
  rfl

/-- Elements that fit the TX buffer are marshalled as the bytes `encPairs`. -/
theorem marshalPairs_ok (hostLE : Bool) (m0 : AJ_Message) (arr : AJ_Arg) (rest : List AJ_Arg)
    (hvar : m0.varOffset = 0) (harr : arr.typeId = AJ_ARG_ARRAY)
    (hsig : arr.sigPtr = AJ_Ptr.mem sigAIS 1) (xs : List (List Nat × List Nat)) :
    ∀ (bus : AJ_BusAttachment) (B : Nat), PairsOk xs → bus.tx.direction = AJ_IO_BUF_TX →
      TxRoom bus (encPairs hostLE bus.tx.writePtr xs).length →
      ∃ B1, marshalPairs hostLE xs bus (msgIn m0 (arr :: rest) B)
        = some (txAppend bus (encPairs hostLE bus.tx.writePtr xs),
            msgIn m0 (arr :: rest) B1) := by
  induction xs with
  | nil =>
    intro bus B _ _ hroom
    exact ⟨B, by simp only [marshalPairs, encPairs]; rw [txAppend_nil bus hroom]⟩
  | cons p ps ih =>
    intro bus B hx hdir hroom
    obtain ⟨h4, hnz⟩ := hx p (List.mem_cons_self _ _)
    simp only [encPairs, List.length_append] at hroom
    have hr0 : TxRoom bus (encPair hostLE bus.tx.writePtr p).length :=
      TxRoom_mono hroom (by omega)
    obtain ⟨B1, h1⟩ := ih (txAppend bus (encPair hostLE bus.tx.writePtr p))
      ((((B + pad8 bus.tx.writePtr) % 4294967296 + 4) % 4294967296
        + (4 + p.2.length + 1)) % 4294967296)
      (fun q hq => hx q (List.mem_cons_of_mem _ hq)) hdir (TxRoom_txAppend hroom)
    refine ⟨B1, ?_⟩
    simp only [marshalPairs, encPairs]
    rw [marshalPair_ok hostLE bus m0 arr rest B p hvar harr hsig hdir h4 hnz hr0]
    simp only []
    rw [h1, txAppend_txAppend _ _ _ hr0]
    rfl

theorem CompleteTypeSigLenPtr_ais (bus : AJ_BusAttachment) :
    CompleteTypeSigLenPtr bus (AJ_Ptr.mem sigAIS 0) = 5 := by
  simp only [CompleteTypeSigLenPtr, derefFrom]
  decide

/-- `Marshal` of the opening of the array `a(is)`: the padding to a multiple of 4,
4 bytes for the length, the padding to a multiple of 8. -/
theorem Marshal_array_open_ais (hostLE : Bool) (bus : AJ_BusAttachment) (msg : AJ_Message)
    (hdir : bus.tx.direction = AJ_IO_BUF_TX)
    (hroom : TxRoom bus (PadForType AJ_ARG_ARRAY bus.tx + 4
      + pad8 (bus.tx.writePtr + PadForType AJ_ARG_ARRAY bus.tx + 4))) :
    Marshal hostLE bus msg (AJ_Ptr.mem sigAIS 0) (InitArg AJ_ARG_ARRAY AJ_Ptr.null) =
      (AJ_OK,
        txAppend bus (List.replicate (PadForType AJ_ARG_ARRAY bus.tx + 4) 0
          ++ List.replicate (pad8 (bus.tx.writePtr + PadForType AJ_ARG_ARRAY bus.tx + 4)) 0),
        msg, AJ_Ptr.mem sigAIS 5,
        arrayArg (AJ_Ptr.tx (bus.tx.writePtr + PadForType AJ_ARG_ARRAY bus.tx)) 0) := by
  have hs : IsScalarType AJ_ARG_ARRAY = 0 := by decide
  have hstr : TYPE_FLAG AJ_ARG_ARRAY &&& (AJ_STRING ||| AJ_VARIANT) = 0 := by decide
  have hc : TYPE_FLAG AJ_ARG_ARRAY &&& AJ_CONTAINER ≠ 0 := by decide
  have hr0 : TxRoom bus (List.replicate (PadForType AJ_ARG_ARRAY bus.tx + 4) 0).length := by
    rw [List.length_replicate]; exact TxRoom_mono hroom (by omega)
  have hw : WriteBytes bus msg AJ_Ptr.null 0 (PadForType AJ_ARG_ARRAY bus.tx + 4)
      = (AJ_OK, txAppend bus (List.replicate (PadForType AJ_ARG_ARRAY bus.tx + 4) 0)) := by
    rw [WriteBytes_fit bus msg AJ_Ptr.null 0 _ [] (fun b => rfl) (fun h => absurd rfl h)
      (TxRoom_mono hroom (by omega)), List.append_nil]
  have hps : PadForType AJ_ARG_STRUCT
      (txAppend bus (List.replicate (PadForType AJ_ARG_ARRAY bus.tx + 4) 0)).tx
      = pad8 (bus.tx.writePtr + PadForType AJ_ARG_ARRAY bus.tx + 4) := by
    have h := PadForType_struct_tx
      (txAppend bus (List.replicate (PadForType AJ_ARG_ARRAY bus.tx + 4) 0)).tx hdir
    rw [h]
    simp only [txAppend_writePtr, List.length_replicate, Nat.add_assoc]
  simp only [Marshal, InitArg, derefByte_mem, hs, ne_eq, not_true_eq_false, if_false, hstr, hc,
    not_false_eq_true, if_true, MarshalContainer, AJ_Ptr.add, AJ_Ptr.sub,
    show sigAIS.getD (0 + 0) 0 = AJ_ARG_ARRAY by decide, hw,
    show sigAIS.getD (0 + 1 - 1 + 1 + 0) 0 = AJ_ARG_STRUCT by decide, hps,
    show (0 + 1 - 1 : Nat) = 0 by decide, CompleteTypeSigLenPtr_ais]
  rw [WritePad_fit _ msg _ (TxRoom_txAppend (by rw [List.length_replicate]; exact hroom)),
    txAppend_txAppend _ _ _ hr0]
  have e : bus.tx.writePtr + (PadForType AJ_ARG_ARRAY bus.tx + 4) - 4
      = bus.tx.writePtr + PadForType AJ_ARG_ARRAY bus.tx := by omega
  simp only [txAppend_writePtr, List.length_replicate, arrayArg, Nat.add_assoc, e, Nat.zero_add]

/-- `AJ_MarshalContainer(ARRAY)` on a message with the signature `a(is)`. -/
theorem AJ_MarshalContainer_array_ais (hostLE : Bool) (bus : AJ_BusAttachment)
    (msg : AJ_Message) (hvar : msg.varOffset = 0) (houter : msg.outer = [])
    (hsig : msg.signature = AJ_Ptr.mem sigAIS 0) (hoff : msg.sigOffset = 0)
    (hdir : bus.tx.direction = AJ_IO_BUF_TX)
    (hroom : TxRoom bus (PadForType AJ_ARG_ARRAY bus.tx + 4
      + pad8 (bus.tx.writePtr + PadForType AJ_ARG_ARRAY bus.tx + 4))) :
    AJ_MarshalContainer hostLE bus msg AJ_ARG_ARRAY =
      (AJ_OK,
        txAppend bus (List.replicate (PadForType AJ_ARG_ARRAY bus.tx + 4) 0
          ++ List.replicate (pad8 (bus.tx.writePtr + PadForType AJ_ARG_ARRAY bus.tx + 4)) 0),
        msgIn { msg with sigOffset := 5 }
          [arrayArg (AJ_Ptr.tx (bus.tx.writePtr + PadForType AJ_ARG_ARRAY bus.tx)) 0]
          ((msg.bodyBytes + (PadForType AJ_ARG_ARRAY bus.tx + 4
            + pad8 (bus.tx.writePtr + PadForType AJ_ARG_ARRAY bus.tx + 4))) % 4294967296),
        arrayArg (AJ_Ptr.tx (bus.tx.writePtr + PadForType AJ_ARG_ARRAY bus.tx)) 0) := by
  have hm := Marshal_array_open_ais hostLE bus msg hdir hroom
  have hlt : PadForType AJ_ARG_ARRAY bus.tx + 4
      + pad8 (bus.tx.writePtr + PadForType AJ_ARG_ARRAY bus.tx + 4) < 65536 := by
    have := hroom.1; have := hroom.2.2; omega
  cases msg
  simp only at hvar houter hsig hoff
  subst hvar houter hsig hoff
  simp only [AJ_MarshalContainer, AJ_MarshalArg, ne_eq, not_true_eq_false, if_false,
    AJ_Ptr.add, derefByte_mem, show ¬ (sigAIS.getD (0 + 0 + 0) 0 = 0) by decide,
    Nat.add_zero, hm, if_true, txAppend_writePtr, List.length_append, List.length_replicate,
    diff16_add _ _ hlt]
  rfl

theorem writeBytesAt_overwrite (d X Y R : List Nat) (o : Nat) (hxy : X.length = Y.length)
    (h : o + X.length + R.length ≤ d.length) :
    writeBytesAt (writeBytesAt d o (X ++ R)) o Y = writeBytesAt d o (Y ++ R) := by
  have hl := length_writeBytesAt d o (X ++ R) (by simp only [List.length_append]; omega)
  rw [writeBytesAt_eq _ _ _ (by omega), writeBytesAt_eq d o (X ++ R) (by omega),
    writeBytesAt_eq d o (Y ++ R) (by omega)]
  have ht : (List.take o d).length = o := by rw [List.length_take]; omega
  have e1 : List.take o (List.take o d ++ (X ++ R) ++ List.drop (o + (X ++ R).length) d)
      = List.take o d := by
    rw [List.append_assoc, List.take_left' ht]
  have e2 : List.drop (o + Y.length)
        (List.take o d ++ (X ++ R) ++ List.drop (o + (X ++ R).length) d)
      = R ++ List.drop (o + (X ++ R).length) d := by
    have : List.take o d ++ (X ++ R) ++ List.drop (o + (X ++ R).length) d
        = (List.take o d ++ X) ++ (R ++ List.drop (o + (X ++ R).length) d) := by
      simp only [List.append_assoc]
    rw [this, List.drop_left' (by simp only [List.length_append, ht]; omega)]
  rw [e1, e2]
  simp only [List.length_append, List.append_assoc, hxy]

theorem readBytes_writeBytesAt_after (data : List Nat) (off : Nat) (bytes : List Nat)
    (p n : Nat) (h : off + bytes.length ≤ data.length) (hp : off + bytes.length ≤ p) :
    readBytes (writeBytesAt data off bytes) p n = readBytes data p n := by
  rw [writeBytesAt_eq _ _ _ (by omega)]
  simp only [readBytes]
  have ht : (List.take off data ++ bytes).length = off + bytes.length := by
    simp only [List.length_append, List.length_take]; omega
  have e : p = (List.take off data ++ bytes).length + (p - (off + bytes.length)) := by omega
  nth_rewrite 1 [e]
  rw [List.drop_append, List.drop_drop]
  congr 2
  omega

/-- A range of bytes inside a range that two regions have in common. -/
theorem readBytes_sub (a b : List Nat) (w n p k : Nat)
    (h : readBytes a w n = readBytes b w n) (hp : w ≤ p) (hk : p + k ≤ w + n) :
    readBytes a p k = readBytes b p k := by
  have key : ∀ d : List Nat, readBytes d p k = ((readBytes d w n).drop (p - w)).take k := by
    intro d
    simp only [readBytes]
    rw [List.drop_take, List.drop_drop, List.take_take]
    have e1 : w + (p - w) = p := by omega
    have e2 : min k (n - (p - w)) = k := by omega
    rw [e1, e2]
  rw [key a, key b, h]

theorem pad8_after_len (L : Nat) (hL : L % 4 = 0) :
    (if ALIGNMENT AJ_ARG_STRUCT = 8 ∧ L &&& 4 = 0 then 4 else 0) = pad8 (L + 4) := by
  have h8 : ALIGNMENT AJ_ARG_STRUCT = 8 := by decide
  simp only [h8, true_and, and_four_eq_zero, pad8]
  split_ifs <;> omega

theorem storeU32_tx_writePtr (hostLE : Bool) (bus : AJ_BusAttachment) (L v : Nat) :
    (storeU32 hostLE bus (AJ_Ptr.tx L) v).tx.writePtr = bus.tx.writePtr := rfl

theorem storeU32_tx_data (hostLE : Bool) (bus : AJ_BusAttachment) (L v : Nat) :
    (storeU32 hostLE bus (AJ_Ptr.tx L) v).tx.data
      = writeBytesAt bus.tx.data L (u32Bytes hostLE v) := rfl

/-- An array `a(is)` that fits the TX buffer is marshalled, every call returning OK,
as the bytes `encArray`. -/
theorem marshalArrayOfPairs_ok (hostLE : Bool) (xs : List (List Nat × List Nat))
    (bus : AJ_BusAttachment) (msg : AJ_Message)
    (hvar : msg.varOffset = 0) (houter : msg.outer = [])
    (hsig : msg.signature = AJ_Ptr.mem sigAIS 0) (hoff : msg.sigOffset = 0)
    (hdir : bus.tx.direction = AJ_IO_BUF_TX) (hx : PairsOk xs)
    (hroom : TxRoom bus (encArray hostLE bus.tx.writePtr xs).length) :
    ∃ (bus1 : AJ_BusAttachment) (msg1 : AJ_Message),
      marshalArrayOfPairs hostLE xs bus msg = some (bus1, msg1)
      ∧ bus1.tx.writePtr = bus.tx.writePtr + (encArray hostLE bus.tx.writePtr xs).length
      ∧ readBytes bus1.tx.data bus.tx.writePtr (encArray hostLE bus.tx.writePtr xs).length
        = encArray hostLE bus.tx.writePtr xs := by
  have hpa : PadForType AJ_ARG_ARRAY bus.tx = (4 - bus.tx.writePtr % 4) % 4 :=
    PadForType_tx_four _ _ (by decide) hdir
  obtain ⟨hr1, hr2, hr3⟩ := hroom
  generalize hA : (4 - bus.tx.writePtr % 4) % 4 = padA at hpa
  have hL : (bus.tx.writePtr + padA) % 4 = 0 := by omega
  generalize hLd : bus.tx.writePtr + padA = L at hL
  generalize hS : pad8 (L + 4) = padS
  generalize hE : encPairs hostLE (L + 4 + padS) xs = enc
  have hlen : (encArray hostLE bus.tx.writePtr xs).length = padA + 4 + padS + enc.length := by
    simp only [encArray, hA, hLd, hS, hE, List.length_append, List.length_replicate,
      length_u32Bytes]
    omega
  rw [hlen] at hr1
  have hlen' : encArray hostLE bus.tx.writePtr xs
      = List.replicate padA 0 ++ (u32Bytes hostLE enc.length
          ++ (List.replicate padS 0 ++ enc)) := by
    simp only [encArray, hA, hLd, hS, hE]
  -- the array is opened
  have hopen := AJ_MarshalContainer_array_ais hostLE bus msg hvar houter hsig hoff hdir
    (by rw [hpa, hLd, hS]; exact ⟨by omega, hr2, hr3⟩)
  rw [hpa, hLd, hS] at hopen
  have hro : TxRoom bus (List.replicate (padA + 4) 0 ++ List.replicate padS 0).length := by
    simp only [List.length_append, List.length_replicate]
    exact ⟨by omega, hr2, hr3⟩
  have hwo : (txAppend bus (List.replicate (padA + 4) 0 ++ List.replicate padS 0)).tx.writePtr
      = L + 4 + padS := by
    simp only [txAppend_writePtr, List.length_append, List.length_replicate]; omega
  -- the elements
  obtain ⟨B1, hel⟩ := marshalPairs_ok hostLE { msg with sigOffset := 5 } (arrayArg (AJ_Ptr.tx L) 0)
    [] hvar rfl rfl xs (txAppend bus (List.replicate (padA + 4) 0 ++ List.replicate padS 0))
    ((msg.bodyBytes + (padA + 4 + padS)) % 4294967296) hx hdir
    (by rw [hwo, hE]
        exact TxRoom_txAppend ⟨by simp only [List.length_append, List.length_replicate]; omega,
          hr2, hr3⟩)
  rw [hwo, hE, txAppend_txAppend _ _ _ hro] at hel
  -- the array is closed
  have hwf : TxWF (txAppend bus (List.replicate (padA + 4) 0 ++ List.replicate padS 0 ++ enc)) :=
    TxRoom_txAppend ⟨by simp only [List.length_append, List.length_replicate]; omega, hr2, hr3⟩
  have hwe : (txAppend bus (List.replicate (padA + 4) 0 ++ List.replicate padS 0 ++ enc)).tx.writePtr
      = L + 4 + padS + enc.length := by
    simp only [txAppend_writePtr, List.length_append, List.length_replicate]; omega
  have hclose := AJ_MarshalCloseContainer_array hostLE
    (txAppend bus (List.replicate (padA + 4) 0 ++ List.replicate padS 0 ++ enc))
    (msgIn { msg with sigOffset := 5 } [arrayArg (AJ_Ptr.tx L) 0] B1)
    (arrayArg (AJ_Ptr.tx L) 0) [] L rfl rfl rfl hL hwf
    (by rw [show (arrayArg (AJ_Ptr.tx L) 0).sigPtr = AJ_Ptr.mem sigAIS 1 from rfl, derefByte_mem,
          show sigAIS.getD (1 + 0) 0 = AJ_ARG_STRUCT from rfl, pad8_after_len L hL, hS, hwe]
        omega)
  rw [show (arrayArg (AJ_Ptr.tx L) 0).sigPtr = AJ_Ptr.mem sigAIS 1 from rfl, derefByte_mem,
    show sigAIS.getD (1 + 0) 0 = AJ_ARG_STRUCT from rfl, pad8_after_len L hL, hS, hwe] at hclose
  have e : L + 4 + padS + enc.length - (L + 4 + padS) = enc.length := by omega
  rw [e] at hclose
  refine ⟨storeU32 hostLE
      (txAppend bus (List.replicate (padA + 4) 0 ++ List.replicate padS 0 ++ enc))
      (AJ_Ptr.tx L) enc.length,
    { msgIn { msg with sigOffset := 5 } [arrayArg (AJ_Ptr.tx L) 0] B1 with outer := [] },
    ?_, ?_, ?_⟩
  · simp only [marshalArrayOfPairs, hopen, ne_eq, not_true_eq_false, if_false, hel, hclose]
  · rw [storeU32_tx_writePtr, hwe, hlen]; omega
  · rw [storeU32_tx_data, txAppend_data, hlen, hlen']
    have hrep : List.replicate (padA + 4) 0 ++ List.replicate padS 0 ++ enc
        = List.replicate padA 0 ++ (List.replicate 4 0 ++ (List.replicate padS 0 ++ enc)) := by
      rw [List.replicate_add]; simp only [List.append_assoc]
    have hzl : (List.replicate padA 0).length = padA := List.length_replicate _ _
    have h1 := writeBytesAt_append bus.tx.data bus.tx.writePtr (List.replicate padA 0)
      (List.replicate 4 0 ++ (List.replicate padS 0 ++ enc)) (by rw [hzl]; omega)
    have h2 := writeBytesAt_append bus.tx.data bus.tx.writePtr (List.replicate padA 0)
      (u32Bytes hostLE enc.length ++ (List.replicate padS 0 ++ enc)) (by rw [hzl]; omega)
    rw [hzl, hLd] at h1 h2
    rw [hrep, ← h1,
      writeBytesAt_overwrite _ (List.replicate 4 0) (u32Bytes hostLE enc.length) _ L
        (by rw [length_u32Bytes, List.length_replicate])
        (by rw [length_writeBytesAt _ _ _ (by rw [hzl]; omega)]
            simp only [List.length_append, List.length_replicate]; omega),
      h2]
    have := readBytes_writeBytesAt bus.tx.data bus.tx.writePtr
      (List.replicate padA 0 ++ (u32Bytes hostLE enc.length ++ (List.replicate padS 0 ++ enc)))
      (by omega)
    simp only [List.length_append, List.length_replicate, length_u32Bytes] at this
    have e2 : padA + (4 + (padS + enc.length)) = padA + 4 + padS + enc.length := by omega
    rw [e2] at this
    exact this

/-- `AJ_UnmarshalArg` inside an open container, in terms of the call of `Unmarshal`
it makes. -/
theorem AJ_UnmarshalArg_in_container (hostLE : Bool) (bus bus1 : AJ_BusAttachment)
    (m0 : AJ_Message) (c : AJ_Arg) (rest : List AJ_Arg) (B : Nat) (arg1 : AJ_Arg)
    (sig1 : AJ_Ptr) (hvar : m0.varOffset = 0)
    (hne : c.typeId = AJ_ARG_ARRAY → diff16 bus.rx.readPtr c.val.offset ≠ c.len)
    (hu : Unmarshal hostLE bus (msgIn m0 (c :: rest) B) c.sigPtr
      = (AJ_OK, bus1, msgIn m0 (c :: rest) B, sig1, arg1))
    (hcons : bus1.rx.readPtr - bus.rx.readPtr ≤ B)
    (hlt : bus1.rx.readPtr - bus.rx.readPtr < 65536) :
    AJ_UnmarshalArg hostLE bus (msgIn m0 (c :: rest) B) =
      (AJ_OK, bus1,
        msgIn m0 ((if c.typeId ≠ AJ_ARG_ARRAY then { c with sigPtr := sig1 } else c) :: rest)
          (B - (bus1.rx.readPtr - bus.rx.readPtr)),
        arg1) := by
  cases m0
  simp only at hvar
  subst hvar
  by_cases hc : c.typeId = AJ_ARG_ARRAY
  · simp only [AJ_UnmarshalArg, msgIn_varOffset, ne_eq, not_true_eq_false, if_false,
      msgIn_outer, hc, if_true, hne hc, hu, msgIn_bodyBytes, gt_iff_lt, Nat.not_lt.mpr hcons,
      Nat.mod_eq_of_lt hlt]
    rfl
  · simp only [AJ_UnmarshalArg, msgIn_varOffset, ne_eq, not_true_eq_false, if_false,
      msgIn_outer, hc, hu, msgIn_bodyBytes, gt_iff_lt, Nat.not_lt.mpr hcons,
      Nat.mod_eq_of_lt hlt, not_false_eq_true, if_true]
    rfl

theorem CompleteTypeSigLenPtr_struct (bus : AJ_BusAttachment) :
    CompleteTypeSigLenPtr bus (AJ_Ptr.mem sigAIS 1) = 4 := by
  simp only [CompleteTypeSigLenPtr, derefFrom]
  decide

/-- `Unmarshal` of the opening of a struct of `a(is)`: the padding to the next
multiple of 8 is skipped. -/
theorem Unmarshal_struct_open (hostLE : Bool) (bus : AJ_BusAttachment) (msg : AJ_Message)
    (hdir : bus.rx.direction = AJ_IO_BUF_RX) (havail : RxAvail bus (pad8 bus.rx.readPtr)) :
    Unmarshal hostLE bus msg (AJ_Ptr.mem sigAIS 1) =
      (AJ_OK, rxAt bus (bus.rx.readPtr + pad8 bus.rx.readPtr), msg, AJ_Ptr.mem sigAIS 5,
        structArg (AJ_Ptr.rx (bus.rx.readPtr + pad8 bus.rx.readPtr)) 2) := by
  have hp := PadForType_struct_rx bus.rx hdir
  have hlt : pad8 bus.rx.readPtr < 256 := by unfold pad8; omega
  simp only [Unmarshal, derefByte_mem, show sigAIS.getD (1 + 0) 0 = AJ_ARG_STRUCT by decide,
    show ¬ (AJ_Ptr.mem sigAIS 1 = AJ_Ptr.null ∨ AJ_ARG_STRUCT = 0) by decide, if_false,
    show IsScalarType AJ_ARG_STRUCT = 0 by decide, ne_eq, not_true_eq_false,
    show TYPE_FLAG AJ_ARG_STRUCT &&& (AJ_STRING ||| AJ_VARIANT) = 0 by decide,
    show AJ_ARG_STRUCT ≠ AJ_ARG_ARRAY by decide, true_or, if_true, UnmarshalStruct, hp,
    AJ_Ptr.add, AJ_Ptr.sub, show (1 + 1 - 1 : Nat) = 1 by decide, CompleteTypeSigLenPtr_struct]
  rw [LoadBytes_rx bus 0 _ hlt (by rw [Nat.add_zero]; exact havail)]
  rfl

/-- `AJ_UnmarshalContainer(STRUCT)` for an element of the open array `a(is)`. -/
theorem AJ_UnmarshalContainer_struct (hostLE : Bool) (bus : AJ_BusAttachment)
    (m0 : AJ_Message) (arr : AJ_Arg) (rest : List AJ_Arg) (B : Nat) (arg0 : AJ_Arg)
    (hvar : m0.varOffset = 0) (harr : arr.typeId = AJ_ARG_ARRAY)
    (hsig : arr.sigPtr = AJ_Ptr.mem sigAIS 1) (hdir : bus.rx.direction = AJ_IO_BUF_RX)
    (havail : RxAvail bus (pad8 bus.rx.readPtr))
    (hne : diff16 bus.rx.readPtr arr.val.offset ≠ arr.len)
    (hB : pad8 bus.rx.readPtr ≤ B) :
    AJ_UnmarshalContainer hostLE bus (msgIn m0 (arr :: rest) B) arg0 AJ_ARG_STRUCT =
      (AJ_OK, rxAt bus (bus.rx.readPtr + pad8 bus.rx.readPtr),
        msgIn m0 (structArg (AJ_Ptr.rx (bus.rx.readPtr + pad8 bus.rx.readPtr)) 2 :: arr :: rest)
          (B - pad8 bus.rx.readPtr),
        structArg (AJ_Ptr.rx (bus.rx.readPtr + pad8 bus.rx.readPtr)) 2) := by
  have hu := Unmarshal_struct_open hostLE bus (msgIn m0 (arr :: rest) B) hdir havail
  rw [← hsig] at hu
  have e : (rxAt bus (bus.rx.readPtr + pad8 bus.rx.readPtr)).rx.readPtr - bus.rx.readPtr
      = pad8 bus.rx.readPtr := by simp only [rxAt_readPtr]; omega
  have s1 := AJ_UnmarshalArg_in_container hostLE bus _ m0 arr rest B _ _ hvar (fun _ => hne) hu
    (by rw [e]; exact hB) (by rw [e]; unfold pad8; omega)
  rw [e] at s1
  simp only [harr, ne_eq, not_true_eq_false, if_false] at s1
  simp only [AJ_UnmarshalContainer, show TYPE_FLAG AJ_ARG_STRUCT &&& AJ_CONTAINER ≠ 0 by decide,
    ne_eq, not_false_eq_true, if_true, s1]
  rfl

/-- `AJ_UnmarshalArg` for the integer of an element of `a(is)`. -/
theorem AJ_UnmarshalArg_struct_int (hostLE : Bool) (bus : AJ_BusAttachment) (m0 : AJ_Message)
    (val : AJ_Ptr) (rest : List AJ_Arg) (B : Nat)
    (hvar : m0.varOffset = 0) (hdir : bus.rx.direction = AJ_IO_BUF_RX)
    (hend : hdrEndianess hostLE bus m0 = HOST_ENDIANESS hostLE)
    (hr : bus.rx.readPtr % 4 = 0) (havail : RxAvail bus 4) (hB : 4 ≤ B) :
    AJ_UnmarshalArg hostLE bus (msgIn m0 (structArg val 2 :: rest) B) =
      (AJ_OK, rxAt bus (bus.rx.readPtr + 4), msgIn m0 (structArg val 3 :: rest) (B - 4),
        { typeId := AJ_ARG_INT32, flags := 0, len := 0, val := AJ_Ptr.rx bus.rx.readPtr,
          sigPtr := AJ_Ptr.null }) := by
  have hp : PadForType AJ_ARG_INT32 bus.rx = 0 := PadForType_four_rx _ _ (by decide) hdir hr
  have hu := Unmarshal_scalar hostLE bus (msgIn m0 (structArg val 2 :: rest) B)
    (structArg val 2).sigPtr AJ_ARG_INT32 rfl (by decide) (by unfold IsAlign; decide)
    (by rw [hdrEndianess_msgIn]; exact hend)
    (by rw [hp, show SizeOfType AJ_ARG_INT32 = 4 from rfl, Nat.zero_add]; exact havail)
  rw [hp, show SizeOfType AJ_ARG_INT32 = 4 from rfl, Nat.add_zero] at hu
  have e : (rxAt bus (bus.rx.readPtr + 4)).rx.readPtr - bus.rx.readPtr = 4 := by
    simp only [rxAt_readPtr]; omega
  have s1 := AJ_UnmarshalArg_in_container hostLE bus _ m0 (structArg val 2) rest B _ _ hvar
    (fun h => absurd h (show AJ_ARG_STRUCT ≠ AJ_ARG_ARRAY by decide)) hu (by rw [e]; exact hB) (by rw [e]; decide)
  rw [e] at s1
  rw [s1]
  rfl

/-- `AJ_UnmarshalArg` for the string of an element of `a(is)`. -/
theorem AJ_UnmarshalArg_struct_string (hostLE : Bool) (bus : AJ_BusAttachment)
    (m0 : AJ_Message) (val : AJ_Ptr) (rest : List AJ_Arg) (B n : Nat)
    (hvar : m0.varOffset = 0) (hdir : bus.rx.direction = AJ_IO_BUF_RX)
    (hend : hdrEndianess hostLE bus m0 = HOST_ENDIANESS hostLE)
    (hr : bus.rx.readPtr % 4 = 0) (hn : readU32 hostLE bus.rx.data bus.rx.readPtr = n)
    (havail : RxAvail bus (4 + n + 1)) (hB : 4 + n + 1 ≤ B) :
    AJ_UnmarshalArg hostLE bus (msgIn m0 (structArg val 3 :: rest) B) =
      (AJ_OK, rxAt bus (bus.rx.readPtr + (4 + n + 1)),
        msgIn m0 (structArg val 4 :: rest) (B - (4 + n + 1)),
        { typeId := AJ_ARG_STRING, flags := 0, len := n,
          val := AJ_Ptr.rx (bus.rx.readPtr + 4), sigPtr := AJ_Ptr.null }) := by
  have hp : PadForType AJ_ARG_STRING bus.rx = 0 := PadForType_four_rx _ _ (by decide) hdir hr
  have ha : ALIGNMENT AJ_ARG_STRING = 4 := by decide
  have hu := Unmarshal_string hostLE bus (msgIn m0 (structArg val 3 :: rest) B)
    (structArg val 3).sigPtr AJ_ARG_STRING n rfl (by decide) (by decide) (by decide)
    (by unfold IsAlign; decide) (by rw [hdrEndianess_msgIn]; exact hend)
    (by rw [hp, ha, if_pos rfl, Nat.add_zero]; exact hn)
    (by rw [hp, ha, Nat.zero_add]; exact havail)
  rw [hp, ha, Nat.add_zero] at hu
  have e : (rxAt bus (bus.rx.readPtr + 4 + n + 1)).rx.readPtr - bus.rx.readPtr = 4 + n + 1 := by
    simp only [rxAt_readPtr]; omega
  have hlt : 4 + n + 1 < 65536 := by
    obtain ⟨a1, a2, _, a4⟩ := havail; omega
  have s1 := AJ_UnmarshalArg_in_container hostLE bus _ m0 (structArg val 3) rest B _ _ hvar
    (fun h => absurd h (show AJ_ARG_STRUCT ≠ AJ_ARG_ARRAY by decide)) hu (by rw [e]; exact hB) (by rw [e]; exact hlt)
  rw [e] at s1
  rw [s1]
  have e2 : bus.rx.readPtr + 4 + n + 1 = bus.rx.readPtr + (4 + n + 1) := by omega
  rw [e2]
  rfl

/-- `AJ_UnmarshalCloseContainer` for the struct of an element of `a(is)`. -/
theorem AJ_UnmarshalCloseContainer_struct (bus : AJ_BusAttachment) (m0 : AJ_Message)
    (val : AJ_Ptr) (rest : List AJ_Arg) (B : Nat) :
    AJ_UnmarshalCloseContainer bus (msgIn m0 (structArg val 4 :: rest) B)
      = some (AJ_OK, msgIn m0 rest B) := by
  simp only [AJ_UnmarshalCloseContainer, msgIn_outer, structArg,
    show ¬ (TYPE_FLAG AJ_ARG_STRUCT &&& AJ_CONTAINER = 0) by decide, if_false,
    show AJ_ARG_STRUCT ≠ AJ_ARG_ARRAY by decide, derefByte_mem,
    show AJ_ARG_STRUCT ≠ AJ_ARG_DICT_ENTRY by decide, false_and, true_and,
    show ¬ (sigAIS.getD (4 + 0) 0 ≠ AJ_STRUCT_CLOSE) by decide]
  rfl

/-- An element of the array `a(is)` whose bytes `encPair` are in the RX buffer is
unmarshalled, every call returning OK, as the element itself. -/
theorem unmarshalPair_ok (hostLE : Bool) (bus : AJ_BusAttachment) (m0 : AJ_Message)
    (arr : AJ_Arg) (rest : List AJ_Arg) (B : Nat) (p : List Nat × List Nat)
    (hvar : m0.varOffset = 0) (harr : arr.typeId = AJ_ARG_ARRAY)
    (hsig : arr.sigPtr = AJ_Ptr.mem sigAIS 1) (hdir : bus.rx.direction = AJ_IO_BUF_RX)
    (hend : hdrEndianess hostLE bus m0 = HOST_ENDIANESS hostLE)
    (h4 : p.1.length = 4)
    (hbytes : readBytes bus.rx.data bus.rx.readPtr (encPair hostLE bus.rx.readPtr p).length
      = encPair hostLE bus.rx.readPtr p)
    (havail : RxAvail bus (encPair hostLE bus.rx.readPtr p).length)
    (hne : diff16 bus.rx.readPtr arr.val.offset ≠ arr.len)
    (hB : (encPair hostLE bus.rx.readPtr p).length ≤ B) :
    unmarshalPair hostLE bus (msgIn m0 (arr :: rest) B)
      = some (rxAt bus (bus.rx.readPtr + (encPair hostLE bus.rx.readPtr p).length),
          msgIn m0 (arr :: rest) (B - (encPair hostLE bus.rx.readPtr p).length), p) := by
  have hl := length_encPair hostLE bus.rx.readPtr p h4
  rw [hl] at havail hB hbytes ⊢
  obtain ⟨a1, a2, a3, a4⟩ := havail
  generalize hr : bus.rx.readPtr = r at *
  generalize hpd : pad8 r = pad at *
  have hp8 : (r + pad) % 8 = 0 := by rw [← hpd]; unfold pad8; omega
  -- the bytes of the members
  have hb1 : readBytes bus.rx.data (r + pad) (p.1.length + (4 + p.2.length + 1))
      = p.1 ++ (u32Bytes hostLE p.2.length ++ p.2 ++ [0]) := by
    have := readBytes_split bus.rx.data r (p.1.length + (4 + p.2.length + 1))
      (List.replicate pad 0) (p.1 ++ (u32Bytes hostLE p.2.length ++ p.2 ++ [0]))
      (by rw [List.length_replicate, show List.replicate pad 0
              ++ (p.1 ++ (u32Bytes hostLE p.2.length ++ p.2 ++ [0])) = encPair hostLE r p from by
            simp only [encPair, hpd], ← hbytes]
          congr 1; omega)
      (by rw [List.length_replicate]; omega)
    rwa [List.length_replicate] at this
  have hi : readBytes bus.rx.data (r + pad) 4 = p.1 := by
    have := readBytes_split_left bus.rx.data (r + pad) (4 + p.2.length + 1) p.1 _ hb1
      (by omega)
    rwa [h4] at this
  have hb2 : readBytes bus.rx.data (r + pad + 4) (4 + p.2.length + 1)
      = u32Bytes hostLE p.2.length ++ p.2 ++ [0] := by
    have := readBytes_split bus.rx.data (r + pad) (4 + p.2.length + 1) p.1 _ hb1 (by omega)
    rwa [h4] at this
  have hb3 : readBytes bus.rx.data (r + pad + 4) ((u32Bytes hostLE p.2.length).length
      + (p.2.length + 1)) = u32Bytes hostLE p.2.length ++ (p.2 ++ [0]) := by
    rw [length_u32Bytes, ← List.append_assoc, ← hb2,
      show 4 + (p.2.length + 1) = 4 + p.2.length + 1 by omega]
  have hlenb : readBytes bus.rx.data (r + pad + 4) 4 = u32Bytes hostLE p.2.length := by
    have := readBytes_split_left bus.rx.data (r + pad + 4) (p.2.length + 1) _ _ hb3
      (by rw [length_u32Bytes]; omega)
    rwa [length_u32Bytes] at this
  have hn : readU32 hostLE bus.rx.data (r + pad + 4) = p.2.length :=
    readU32_of_readBytes hostLE _ _ _ hlenb (by omega)
  have hs : readBytes bus.rx.data (r + pad + 4 + 4) p.2.length = p.2 := by
    have h5 := readBytes_split bus.rx.data (r + pad + 4) (p.2.length + 1) _ _ hb3
      (by rw [length_u32Bytes]; omega)
    rw [length_u32Bytes] at h5
    exact readBytes_split_left bus.rx.data (r + pad + 4 + 4) 1 p.2 [0] h5 (by omega)
  -- the calls
  simp only [unmarshalPair]
  rw [AJ_UnmarshalContainer_struct hostLE bus m0 arr rest B AJ_Arg.zero hvar harr hsig hdir
    (by rw [hr, hpd]; exact ⟨by omega, a2, a3, a4⟩) (by rw [hr]; exact hne)
    (by rw [hr, hpd]; omega)]
  simp only [ne_eq, not_true_eq_false, if_false, hr, hpd]
  rw [AJ_UnmarshalArg_struct_int hostLE (rxAt bus (r + pad)) m0 _ _ _ hvar hdir
    (by rw [hdrEndianess_rxAt]; exact hend) (by rw [rxAt_readPtr]; omega)
    ⟨by simp only [rxAt_readPtr, rxAt_writePtr]; omega, a2, a3, a4⟩ (by omega)]
  simp only [ne_eq, not_true_eq_false, or_self, if_false, rxAt_readPtr, rxAt_rxAt]
  rw [AJ_UnmarshalArg_struct_string hostLE (rxAt bus (r + pad + 4)) m0 _ _ _ p.2.length hvar hdir
    (by rw [hdrEndianess_rxAt]; exact hend) (by rw [rxAt_readPtr]; omega)
    (by rw [rxAt_readPtr, rxAt_data]; exact hn)
    ⟨by simp only [rxAt_readPtr, rxAt_writePtr]; omega, a2, a3, a4⟩ (by omega)]
  simp only [ne_eq, not_true_eq_false, or_self, if_false, rxAt_readPtr, rxAt_rxAt,
    AJ_UnmarshalCloseContainer_struct, rxAt_data, AJ_Ptr.offset, hi, hs]
  have e1 : r + pad + 4 + (4 + p.2.length + 1) = r + (pad + 4 + 4 + p.2.length + 1) := by omega
  have e2 : B - pad - 4 - (4 + p.2.length + 1) = B - (pad + 4 + 4 + p.2.length + 1) := by omega
  rw [e1, e2]

theorem length_encPair_pos (hostLE : Bool) (off : Nat) (p : List Nat × List Nat) :
    0 < (encPair hostLE off p).length := by
  simp only [encPair, List.length_append, List.length_singleton]
  omega

/-- The elements of an array `a(is)` whose bytes `encPairs` are in the RX buffer,
up to the end of the array, are unmarshalled as the elements themselves. -/
theorem unmarshalPairs_ok (hostLE : Bool) (m0 : AJ_Message) (rest : List AJ_Arg)
    (E0 total : Nat) (hvar : m0.varOffset = 0)
    (xs : List (List Nat × List Nat)) :
    ∀ (bus : AJ_BusAttachment) (B : Nat), (∀ p ∈ xs, p.1.length = 4) →
      bus.rx.direction = AJ_IO_BUF_RX →
      hdrEndianess hostLE bus m0 = HOST_ENDIANESS hostLE →
      readBytes bus.rx.data bus.rx.readPtr (encPairs hostLE bus.rx.readPtr xs).length
        = encPairs hostLE bus.rx.readPtr xs →
      RxAvail bus (encPairs hostLE bus.rx.readPtr xs).length →
      bus.rx.readPtr + (encPairs hostLE bus.rx.readPtr xs).length = E0 + total →
      (encPairs hostLE bus.rx.readPtr xs).length ≤ B →
      unmarshalPairs hostLE xs.length bus (msgIn m0 (arrayArg (AJ_Ptr.rx E0) total :: rest) B)
        = some (rxAt bus (E0 + total),
            msgIn m0 (arrayArg (AJ_Ptr.rx E0) total :: rest)
              (B - (encPairs hostLE bus.rx.readPtr xs).length), xs) := by
  induction xs with
  | nil =>
    intro bus B _ _ _ _ _ hE _
    simp only [encPairs, List.length_nil, Nat.add_zero, Nat.sub_zero] at hE ⊢
    simp only [unmarshalPairs, ← hE]
    rfl
  | cons p ps ih =>
    intro bus B hx hdir hend hbytes havail hE hB
    have h4 := hx p (List.mem_cons_self _ _)
    have hpos := length_encPair_pos hostLE bus.rx.readPtr p
    simp only [encPairs, List.length_append] at hbytes havail hE hB
    obtain ⟨a1, a2, a3, a4⟩ := havail
    have hb1 : readBytes bus.rx.data bus.rx.readPtr (encPair hostLE bus.rx.readPtr p).length
        = encPair hostLE bus.rx.readPtr p :=
      readBytes_split_left _ _ _ _ _ hbytes (by omega)
    have hb2 := readBytes_split _ _ _ _ _ hbytes (by omega)
    have h1 := unmarshalPair_ok hostLE bus m0 (arrayArg (AJ_Ptr.rx E0) total) rest B p hvar
      rfl rfl hdir hend h4 hb1 ⟨by omega, a2, a3, a4⟩
      (by show diff16 bus.rx.readPtr E0 ≠ total
          unfold diff16; omega)
      (by omega)
    have h2 := ih (rxAt bus (bus.rx.readPtr + (encPair hostLE bus.rx.readPtr p).length))
      (B - (encPair hostLE bus.rx.readPtr p).length)
      (fun q hq => hx q (List.mem_cons_of_mem _ hq)) hdir
      (by rw [hdrEndianess_rxAt]; exact hend)
      (by simp only [rxAt_readPtr, rxAt_data]; exact hb2)
      ⟨by simp only [rxAt_readPtr, rxAt_writePtr]; omega, a2, a3, a4⟩
      (by simp only [rxAt_readPtr]; omega)
      (by simp only [rxAt_readPtr]; omega)
    simp only [List.length_cons, unmarshalPairs, h1, h2, rxAt_rxAt, rxAt_readPtr, encPairs,
      List.length_append]
    have e : B - (encPair hostLE bus.rx.readPtr p).length
          - (encPairs hostLE (bus.rx.readPtr + (encPair hostLE bus.rx.readPtr p).length) ps).length
        = B - ((encPair hostLE bus.rx.readPtr p).length
          + (encPairs hostLE (bus.rx.readPtr + (encPair hostLE bus.rx.readPtr p).length)
              ps).length) := by omega
    rw [e]

theorem PadForType_array_rx (rx : AJ_IOBuffer) (hdir : rx.direction = AJ_IO_BUF_RX) :
    PadForType AJ_ARG_ARRAY rx = (4 - rx.readPtr % 4) % 4 := by
  rw [PadForType_eq _ _ (by unfold IsAlign; decide), hdir]
  rfl

/-- `Unmarshal` of the opening of an array `a(is)` of a message in host byte order
whose bytes are in the RX buffer: the length is read and the padding in front of
the first element is skipped. -/
theorem Unmarshal_array_open_ais (hostLE : Bool) (bus : AJ_BusAttachment) (msg : AJ_Message)
    (padA total : Nat) (hdir : bus.rx.direction = AJ_IO_BUF_RX)
    (hend : hdrEndianess hostLE bus msg = HOST_ENDIANESS hostLE)
    (hpa : (4 - bus.rx.readPtr % 4) % 4 = padA)
    (hlen : readU32 hostLE bus.rx.data (bus.rx.readPtr + padA) = total)
    (havail : RxAvail bus (padA + 4 + pad8 (bus.rx.readPtr + padA + 4) + total)) :
    Unmarshal hostLE bus msg (AJ_Ptr.mem sigAIS 0) =
      (AJ_OK, rxAt bus (bus.rx.readPtr + padA + 4 + pad8 (bus.rx.readPtr + padA + 4)), msg,
        AJ_Ptr.mem sigAIS 5,
        arrayArg (AJ_Ptr.rx (bus.rx.readPtr + padA + 4 + pad8 (bus.rx.readPtr + padA + 4)))
          total) := by
  obtain ⟨a1, a2, a3, a4⟩ := havail
  have hp := PadForType_array_rx bus.rx hdir
  rw [hpa] at hp
  have hps : PadForType AJ_ARG_STRUCT (rxAt bus (bus.rx.readPtr + padA + 4)).rx
      = pad8 (bus.rx.readPtr + padA + 4) := PadForType_struct_rx _ hdir
  have hp8 : pad8 (bus.rx.readPtr + padA + 4) < 8 := by unfold pad8; omega
  simp only [Unmarshal, derefByte_mem, show sigAIS.getD (0 + 0) 0 = AJ_ARG_ARRAY by decide,
    show ¬ (AJ_Ptr.mem sigAIS 0 = AJ_Ptr.null ∨ AJ_ARG_ARRAY = 0) by decide, if_false,
    show IsScalarType AJ_ARG_ARRAY = 0 by decide, ne_eq, not_true_eq_false,
    show TYPE_FLAG AJ_ARG_ARRAY &&& (AJ_STRING ||| AJ_VARIANT) = 0 by decide, if_true,
    UnmarshalArray, hp, AJ_Ptr.add, show sigAIS.getD (0 + 1 + 0) 0 = AJ_ARG_STRUCT by decide,
    show IsScalarType AJ_ARG_STRUCT = 0 by decide, show (0 + 1 : Nat) = 1 by decide,
    CompleteTypeSigLenPtr_struct]
  rw [LoadBytes_rx bus 4 padA (by omega) ⟨by omega, a2, a3, a4⟩]
  simp only [not_true_eq_false, if_false, bus_rx_eta]
  rw [EndianSwap_host _ _ _ _ _ _ (by rw [hdrEndianess_rxAt]; exact hend)]
  simp only [rxAt_readPtr, rxAt_data, hlen]
  generalize hq : PadForType AJ_ARG_STRUCT _ = q
  have hq' : q = pad8 (bus.rx.readPtr + padA + 4) := hq.symm.trans hps
  subst hq'
  rw [Nat.mod_eq_of_lt (by omega : pad8 (bus.rx.readPtr + padA + 4) < 256),
    LoadBytes_avail _ total _ (by omega) (by omega) (by simp only [rxAt_writePtr]; omega)
      (by simpa using a2)]
  simp only [not_true_eq_false, if_false, Nat.mod_eq_of_lt (by omega : total < 65536)]
  rfl

/-- `AJ_UnmarshalContainer(ARRAY)` on a message with the signature `a(is)` whose
array is in the RX buffer and within the body. -/
theorem AJ_UnmarshalContainer_array_ais (hostLE : Bool) (bus : AJ_BusAttachment)
    (msg : AJ_Message) (padA total : Nat)
    (hvar : msg.varOffset = 0) (houter : msg.outer = [])
    (hsig : msg.signature = AJ_Ptr.mem sigAIS 0) (hoff : msg.sigOffset = 0)
    (hdir : bus.rx.direction = AJ_IO_BUF_RX)
    (hend : hdrEndianess hostLE bus msg = HOST_ENDIANESS hostLE)
    (hpa : (4 - bus.rx.readPtr % 4) % 4 = padA)
    (hlen : readU32 hostLE bus.rx.data (bus.rx.readPtr + padA) = total)
    (havail : RxAvail bus (padA + 4 + pad8 (bus.rx.readPtr + padA + 4) + total))
    (hB : padA + 4 + pad8 (bus.rx.readPtr + padA + 4) ≤ msg.bodyBytes) :
    AJ_UnmarshalContainer hostLE bus msg AJ_Arg.zero AJ_ARG_ARRAY =
      (AJ_OK, rxAt bus (bus.rx.readPtr + padA + 4 + pad8 (bus.rx.readPtr + padA + 4)),
        msgIn { msg with sigOffset := 5 }
          [arrayArg (AJ_Ptr.rx (bus.rx.readPtr + padA + 4 + pad8 (bus.rx.readPtr + padA + 4)))
            total]
          (msg.bodyBytes - (padA + 4 + pad8 (bus.rx.readPtr + padA + 4))),
        arrayArg (AJ_Ptr.rx (bus.rx.readPtr + padA + 4 + pad8 (bus.rx.readPtr + padA + 4)))
          total) := by
  have hu := Unmarshal_array_open_ais hostLE bus msg padA total hdir hend hpa hlen havail
  have hlt : padA + 4 + pad8 (bus.rx.readPtr + padA + 4) < 65536 := by
    obtain ⟨a1, a2, _, a4⟩ := havail; omega
  have e : bus.rx.readPtr + padA + 4 + pad8 (bus.rx.readPtr + padA + 4) - bus.rx.readPtr
      = padA + 4 + pad8 (bus.rx.readPtr + padA + 4) := by omega
  cases msg
  simp only at hvar houter hsig hoff hB
  subst hvar houter hsig hoff
  simp only [AJ_UnmarshalContainer, show TYPE_FLAG AJ_ARG_ARRAY &&& AJ_CONTAINER ≠ 0 by decide,
    ne_eq, not_false_eq_true, if_true, AJ_UnmarshalArg, not_true_eq_false, if_false,
    AJ_Ptr.add, Nat.add_zero, hu, rxAt_readPtr, e, gt_iff_lt, Nat.not_lt.mpr hB,
    Nat.mod_eq_of_lt hlt]
  rfl

/-- `AJ_UnmarshalArg` behind the last element of the open array. -/
theorem AJ_UnmarshalArg_array_end (hostLE : Bool) (bus : AJ_BusAttachment) (m0 : AJ_Message)
    (rest : List AJ_Arg) (E0 total B : Nat) (hvar : m0.varOffset = 0)
    (hr : bus.rx.readPtr = E0 + total) (htot : total < 65536) :
    AJ_UnmarshalArg hostLE bus (msgIn m0 (arrayArg (AJ_Ptr.rx E0) total :: rest) B)
      = (AJ_ERR_NO_MORE, bus, msgIn m0 (arrayArg (AJ_Ptr.rx E0) total :: rest) B,
          AJ_Arg.zero) := by
  have hd : diff16 bus.rx.readPtr E0 = total := by rw [hr]; exact diff16_add _ _ htot
  cases m0
  simp only at hvar
  subst hvar
  simp only [AJ_UnmarshalArg, msgIn_varOffset, ne_eq, not_true_eq_false, if_false,
    msgIn_outer, arrayArg, if_true, AJ_Ptr.offset, hd, Nat.sub_self, gt_iff_lt,
    Nat.not_lt_zero, Nat.zero_mod, Nat.sub_zero]
  rfl

/-- `AJ_UnmarshalCloseContainer` on the open array behind its last element. -/
theorem AJ_UnmarshalCloseContainer_array_end (bus : AJ_BusAttachment) (m0 : AJ_Message)
    (rest : List AJ_Arg) (E0 total B : Nat)
    (hr : bus.rx.readPtr = E0 + total) (htot : total < 65536) :
    AJ_UnmarshalCloseContainer bus (msgIn m0 (arrayArg (AJ_Ptr.rx E0) total :: rest) B)
      = some (AJ_OK, msgIn m0 rest B) := by
  have hd : diff16 bus.rx.readPtr E0 = total := by rw [hr]; exact diff16_add _ _ htot
  simp only [AJ_UnmarshalCloseContainer, msgIn_outer, arrayArg,
    show ¬ (TYPE_FLAG AJ_ARG_ARRAY &&& AJ_CONTAINER = 0) by decide, if_false, if_true,
    AJ_Ptr.offset, hd, ne_eq, not_true_eq_false]
  rfl

/-- An array `a(is)` of a message in host byte order whose bytes `encArray` are in
the RX buffer and within the body is unmarshalled by the mirror calls as the list
of its elements. -/
theorem unmarshalArrayOfPairs_ok (hostLE : Bool) (xs : List (List Nat × List Nat))
    (bus : AJ_BusAttachment) (msg : AJ_Message)
    (hvar : msg.varOffset = 0) (houter : msg.outer = [])
    (hsig : msg.signature = AJ_Ptr.mem sigAIS 0) (hoff : msg.sigOffset = 0)
    (hdir : bus.rx.direction = AJ_IO_BUF_RX)
    (hend : hdrEndianess hostLE bus msg = HOST_ENDIANESS hostLE)
    (hx : ∀ p ∈ xs, p.1.length = 4)
    (hbytes : readBytes bus.rx.data bus.rx.readPtr (encArray hostLE bus.rx.readPtr xs).length
      = encArray hostLE bus.rx.readPtr xs)
    (havail : RxAvail bus (encArray hostLE bus.rx.readPtr xs).length)
    (hB : (encArray hostLE bus.rx.readPtr xs).length ≤ msg.bodyBytes) :
    unmarshalArrayOfPairs hostLE xs.length bus msg
      = some (rxAt bus (bus.rx.readPtr + (encArray hostLE bus.rx.readPtr xs).length),
          msgIn { msg with sigOffset := 5 } []
            (msg.bodyBytes - (encArray hostLE bus.rx.readPtr xs).length), xs) := by
  generalize hA : (4 - bus.rx.readPtr % 4) % 4 = padA
  have hL : (bus.rx.readPtr + padA) % 4 = 0 := by omega
  generalize hS : pad8 (bus.rx.readPtr + padA + 4) = padS
  generalize hE : encPairs hostLE (bus.rx.readPtr + padA + 4 + padS) xs = enc
  have hlen : (encArray hostLE bus.rx.readPtr xs).length = padA + 4 + padS + enc.length := by
    simp only [encArray, hA, hS, hE, List.length_append, List.length_replicate,
      length_u32Bytes]
    omega
  have henc : encArray hostLE bus.rx.readPtr xs
      = List.replicate padA 0 ++ (u32Bytes hostLE enc.length
          ++ (List.replicate padS 0 ++ enc)) := by
    simp only [encArray, hA, hS, hE]
  rw [hlen] at havail hB hbytes ⊢
  rw [henc] at hbytes
  obtain ⟨a1, a2, a3, a4⟩ := havail
  -- the bytes of the length field and of the elements
  have hb1 : readBytes bus.rx.data (bus.rx.readPtr + padA) (4 + padS + enc.length)
      = u32Bytes hostLE enc.length ++ (List.replicate padS 0 ++ enc) := by
    have := readBytes_split bus.rx.data bus.rx.readPtr (4 + padS + enc.length)
      (List.replicate padA 0) _
      (by rw [List.length_replicate, ← hbytes]; congr 1; omega)
      (by rw [List.length_replicate]; omega)
    rwa [List.length_replicate] at this
  have hb1' : readBytes bus.rx.data (bus.rx.readPtr + padA)
      ((u32Bytes hostLE enc.length).length + (padS + enc.length))
      = u32Bytes hostLE enc.length ++ (List.replicate padS 0 ++ enc) := by
    rw [length_u32Bytes, ← hb1]; congr 1; omega
  have hl4 : readBytes bus.rx.data (bus.rx.readPtr + padA) 4 = u32Bytes hostLE enc.length := by
    have := readBytes_split_left _ _ _ _ _ hb1' (by rw [length_u32Bytes]; omega)
    rwa [length_u32Bytes] at this
  have hn : readU32 hostLE bus.rx.data (bus.rx.readPtr + padA) = enc.length :=
    readU32_of_readBytes hostLE _ _ _ hl4 (by omega)
  have hb2 : readBytes bus.rx.data (bus.rx.readPtr + padA + 4) (padS + enc.length)
      = List.replicate padS 0 ++ enc := by
    have := readBytes_split _ _ _ _ _ hb1' (by rw [length_u32Bytes]; omega)
    rwa [length_u32Bytes] at this
  have hb3 : readBytes bus.rx.data (bus.rx.readPtr + padA + 4 + padS) enc.length = enc := by
    have := readBytes_split bus.rx.data (bus.rx.readPtr + padA + 4) enc.length
      (List.replicate padS 0) enc (by rw [List.length_replicate]; exact hb2)
      (by rw [List.length_replicate]; omega)
    rwa [List.length_replicate] at this
  -- the calls
  have hopen := AJ_UnmarshalContainer_array_ais hostLE bus msg padA enc.length hvar houter hsig
    hoff hdir hend hA hn (by rw [hS]; exact ⟨by omega, a2, a3, a4⟩) (by rw [hS]; omega)
  rw [hS] at hopen
  have hel := unmarshalPairs_ok hostLE { msg with sigOffset := 5 } []
    (bus.rx.readPtr + padA + 4 + padS) enc.length hvar xs
    (rxAt bus (bus.rx.readPtr + padA + 4 + padS)) (msg.bodyBytes - (padA + 4 + padS)) hx hdir
    (by rw [hdrEndianess_rxAt]; exact hend)
    (by simp only [rxAt_readPtr, rxAt_data, hE]; exact hb3)
    (by simp only [rxAt_readPtr, hE]
        exact ⟨by simp only [rxAt_readPtr, rxAt_writePtr]; omega, a2, a3, a4⟩)
    (by simp only [rxAt_readPtr, hE])
    (by simp only [rxAt_readPtr, hE]; omega)
  simp only [rxAt_readPtr, hE, rxAt_rxAt] at hel
  have hend2 := AJ_UnmarshalArg_array_end hostLE
    (rxAt bus (bus.rx.readPtr + padA + 4 + padS + enc.length)) { msg with sigOffset := 5 } []
    (bus.rx.readPtr + padA + 4 + padS) enc.length
    (msg.bodyBytes - (padA + 4 + padS) - enc.length) hvar rfl (by omega)
  have hcl := AJ_UnmarshalCloseContainer_array_end
    (rxAt bus (bus.rx.readPtr + padA + 4 + padS + enc.length)) { msg with sigOffset := 5 } []
    (bus.rx.readPtr + padA + 4 + padS) enc.length
    (msg.bodyBytes - (padA + 4 + padS) - enc.length) rfl (by omega)
  simp only [unmarshalArrayOfPairs, hopen, ne_eq, not_true_eq_false, if_false, hel, hend2, hcl]
  have e1 : bus.rx.readPtr + padA + 4 + padS + enc.length
      = bus.rx.readPtr + (padA + 4 + padS + enc.length) := by omega
  have e2 : msg.bodyBytes - (padA + 4 + padS) - enc.length
      = msg.bodyBytes - (padA + 4 + padS + enc.length) := by omega
  rw [e1, e2]

/-- C2: composite round trip for the signature `a(is)`. For every list of pairs of
an INT32 (its 4 bytes) and a string (without NUL) whose encoding fits the TX
buffer, the calls `AJ_MarshalContainer(ARRAY)`, then per element
`AJ_MarshalContainer(STRUCT)`, `AJ_MarshalArg` for the two members and
`AJ_MarshalCloseContainer`, and at last `AJ_MarshalCloseContainer` on the array,
all return OK and produce the bytes `encArray`; and on every RX buffer that holds
the produced body at the same offset, in a message in host byte order with the
signature `a(is)`, the mirror calls `AJ_UnmarshalContainer`, `AJ_UnmarshalArg`,
`AJ_UnmarshalCloseContainer` yield the same list in the same order, every call
returning OK but the `AJ_UnmarshalArg` behind the last element, which returns
`AJ_ERR_NO_MORE`. -/
theorem C2_composite_roundtrip (hostLE : Bool) (xs : List (List Nat × List Nat))
    (busT : AJ_BusAttachment) (msgT : AJ_Message)
    (hvarT : msgT.varOffset = 0) (houterT : msgT.outer = [])
    (hsigT : msgT.signature = AJ_Ptr.mem sigAIS 0) (hoffT : msgT.sigOffset = 0)
    (hdirT : busT.tx.direction = AJ_IO_BUF_TX) (hx : PairsOk xs)
    (hroom : TxRoom busT (encArray hostLE busT.tx.writePtr xs).length) :
    ∃ (busT1 : AJ_BusAttachment) (msgT1 : AJ_Message),
      marshalArrayOfPairs hostLE xs busT msgT = some (busT1, msgT1)
      ∧ busT1.tx.writePtr = busT.tx.writePtr + (encArray hostLE busT.tx.writePtr xs).length
      ∧ readBytes busT1.tx.data busT.tx.writePtr (busT1.tx.writePtr - busT.tx.writePtr)
        = encArray hostLE busT.tx.writePtr xs
      ∧ ∀ (busR : AJ_BusAttachment) (msgR : AJ_Message),
        msgR.varOffset = 0 → msgR.outer = [] →
        msgR.signature = AJ_Ptr.mem sigAIS 0 → msgR.sigOffset = 0 →
        busR.rx.direction = AJ_IO_BUF_RX →
        hdrEndianess hostLE busR msgR = HOST_ENDIANESS hostLE →
        busR.rx.readPtr = busT.tx.writePtr →
        readBytes busR.rx.data busR.rx.readPtr (busT1.tx.writePtr - busT.tx.writePtr)
          = readBytes busT1.tx.data busT.tx.writePtr (busT1.tx.writePtr - busT.tx.writePtr) →
        RxAvail busR (busT1.tx.writePtr - busT.tx.writePtr) →
        busT1.tx.writePtr - busT.tx.writePtr ≤ msgR.bodyBytes →
        unmarshalArrayOfPairs hostLE xs.length busR msgR
          = some (rxAt busR (busR.rx.readPtr + (busT1.tx.writePtr - busT.tx.writePtr)),
              msgIn { msgR with sigOffset := 5 } []
                (msgR.bodyBytes - (busT1.tx.writePtr - busT.tx.writePtr)), xs) := by
  obtain ⟨busT1, msgT1, h1, h2, h3⟩ := marshalArrayOfPairs_ok hostLE xs busT msgT hvarT houterT
    hsigT hoffT hdirT hx hroom
  have e : busT1.tx.writePtr - busT.tx.writePtr
      = (encArray hostLE busT.tx.writePtr xs).length := by omega
  refine ⟨busT1, msgT1, h1, h2, by rw [e]; exact h3, ?_⟩
  intro busR msgR hvar houter hsig hoff hdir hend hr hbytes havail hB
  rw [e] at hbytes havail hB ⊢
  rw [h3] at hbytes
  rw [← hr] at hbytes havail hB ⊢
  exact unmarshalArrayOfPairs_ok hostLE xs busR msgR hvar houter hsig hoff hdir hend
    (fun p hp => (hx p hp).1) hbytes havail hB

/-- C2, witness: the list `[(7, "hi"), (9, "")]` on a little-endian host; the calls
produce the 33 bytes `c2Body`, and the mirror calls on an RX buffer with that body
yield the list. -/
theorem C2_composite_roundtrip_witness :
    (∃ (busT1 : AJ_BusAttachment) (msgT1 : AJ_Message),
      marshalArrayOfPairs true c2Pairs c2BusT c2MsgT = some (busT1, msgT1)
      ∧ busT1.tx.writePtr = c2BusT.tx.writePtr + (encArray true c2BusT.tx.writePtr c2Pairs).length
      ∧ readBytes busT1.tx.data c2BusT.tx.writePtr (busT1.tx.writePtr - c2BusT.tx.writePtr)
        = encArray true c2BusT.tx.writePtr c2Pairs
      ∧ ∀ (busR : AJ_BusAttachment) (msgR : AJ_Message),
        msgR.varOffset = 0 → msgR.outer = [] →
        msgR.signature = AJ_Ptr.mem sigAIS 0 → msgR.sigOffset = 0 →
        busR.rx.direction = AJ_IO_BUF_RX →
        hdrEndianess true busR msgR = HOST_ENDIANESS true →
        busR.rx.readPtr = c2BusT.tx.writePtr →
        readBytes busR.rx.data busR.rx.readPtr (busT1.tx.writePtr - c2BusT.tx.writePtr)
          = readBytes busT1.tx.data c2BusT.tx.writePtr
              (busT1.tx.writePtr - c2BusT.tx.writePtr) →
        RxAvail busR (busT1.tx.writePtr - c2BusT.tx.writePtr) →
        busT1.tx.writePtr - c2BusT.tx.writePtr ≤ msgR.bodyBytes →
        unmarshalArrayOfPairs true c2Pairs.length busR msgR
          = some (rxAt busR (busR.rx.readPtr + (busT1.tx.writePtr - c2BusT.tx.writePtr)),
              msgIn { msgR with sigOffset := 5 } []
                (msgR.bodyBytes - (busT1.tx.writePtr - c2BusT.tx.writePtr)), c2Pairs))
    ∧ encArray true 16 c2Pairs = c2Body
    ∧ (marshalArrayOfPairs true c2Pairs c2BusT c2MsgT).map
        (fun r => readBytes r.1.tx.data 16 33) = some c2Body
    ∧ (unmarshalArrayOfPairs true 2 c2BusR c2MsgR).map (fun r => r.2.2) = some c2Pairs :=
  ⟨C2_composite_roundtrip true c2Pairs c2BusT c2MsgT (by decide) (by decide) (by decide)
      (by decide) (by decide) (by unfold PairsOk; decide) (by unfold TxRoom; decide),
    by decide, by decide, by decide⟩

/-! ## C13: the full TX buffer -/

/-- With a valid header pointer a write that does not fit is refused: nothing is
drained and nothing is written. -/
theorem WriteBytes_hdr_full (bus : AJ_BusAttachment) (msg : AJ_Message) (data : AJ_Ptr)
    (numBytes pad : Nat) (hhdr : msg.hdr ≠ AJ_HdrPtr.null)
    (hnull : numBytes ≠ 0 → data ≠ AJ_Ptr.null)
    (hfull : numBytes + pad > AJ_IO_BUF_SPACE bus.tx) :
    WriteBytes bus msg data numBytes pad = (AJ_ERR_RESOURCES, bus) := by
  have hnn : ¬ (numBytes ≠ 0 ∧ data = AJ_Ptr.null) := by
    intro ⟨h1, h2⟩; exact hnull h1 h2
  have hz : ¬ numBytes + pad = 0 := by omega
  simp only [WriteBytes, if_neg hnn]
  cases hsc : bus.tx.context.script <;>
    simp only [WriteBytesLoop, if_neg hz, if_pos hfull, hhdr, ne_eq, not_false_eq_true, if_true]
      <;> rw [← hsc]

/-- A call of `send` in which the transport takes all pending bytes. -/
theorem netSendEvent_all (b : AJ_IOBuffer) (k : Nat) (hwf : b.WF)
    (hk : AJ_IO_BUF_AVAIL b ≤ k) :
    netSendEvent b (some (NetEvent.xfer k)) = (AJ_OK, drainTx b) := by
  obtain ⟨w1, w2, w3⟩ := hwf
  have hmin : min k (AJ_IO_BUF_AVAIL b) = AJ_IO_BUF_AVAIL b := Nat.min_eq_right hk
  have hav : b.writePtr - (b.readPtr + (b.writePtr - b.readPtr)) = 0 := by omega
  simp only [netSendEvent, hmin]
  simp only [AJ_IO_BUF_AVAIL, hav, if_true, AJ_IO_BUF_RESET, drainTx]

theorem WriteBytesLoop_zero (msg : AJ_Message) (data : AJ_Ptr) (s : List NetEvent)
    (bus : AJ_BusAttachment) : WriteBytesLoop msg data s bus 0 0 = (AJ_OK, bus, s) := by
  cases s <;> simp only [WriteBytesLoop, Nat.add_zero, if_true]

/-- A turn of the loop of `WriteBytes` in which the bytes do not fit, the header
pointer is null and `send` returns OK. -/
theorem WriteBytesLoop_drain_step (msg : AJ_Message) (data : AJ_Ptr) (e : NetEvent)
    (rest : List NetEvent) (bus : AJ_BusAttachment) (numBytes pad : Nat) (b1 : AJ_IOBuffer)
    (hhdr : msg.hdr = AJ_HdrPtr.null)
    (hfull : numBytes + pad > AJ_IO_BUF_SPACE bus.tx)
    (hsend : netSendEvent bus.tx (some e) = (AJ_OK, b1)) :
    WriteBytesLoop msg data (e :: rest) bus numBytes pad =
      WriteBytesLoop msg data rest
        { bus with tx := (WriteBytesBody { bus with tx := b1 } data numBytes pad
            (AJ_IO_BUF_SPACE b1)).1 }
        (numBytes - (WriteBytesBody { bus with tx := b1 } data numBytes pad
            (AJ_IO_BUF_SPACE b1)).2) 0 := by
  have hz : ¬ numBytes + pad = 0 := by omega
  rw [WriteBytesLoop]
  simp only [if_neg hz, if_pos hfull, hhdr, ne_eq, not_true_eq_false, if_false, hsend]

/-- The body of the loop of `WriteBytes` when the bytes fit the buffer. -/
theorem WriteBytesBody_fit (bus : AJ_BusAttachment) (data : AJ_Ptr) (numBytes pad : Nat)
    (src : List Nat) (hsrc : ∀ b : AJ_BusAttachment, memRead b data numBytes = src)
    (hroom : TxRoom bus (pad + numBytes)) :
    WriteBytesBody bus data numBytes pad (AJ_IO_BUF_SPACE bus.tx)
      = ((txAppend bus (List.replicate pad 0 ++ src)).tx, numBytes) := by
  obtain ⟨hfit, hlen, hsize⟩ := hroom
  have hsl : src.length = numBytes := by rw [← hsrc bus]; simp [memRead]
  have hc : (AJ_IO_BUF_SPACE bus.tx + SIZE_T_MOD - pad % SIZE_T_MOD) % SIZE_T_MOD
      = AJ_IO_BUF_SPACE bus.tx - pad := by
    simp only [AJ_IO_BUF_SPACE, SIZE_T_MOD]; omega
  have hc2 : (if numBytes < AJ_IO_BUF_SPACE bus.tx - pad then numBytes
      else AJ_IO_BUF_SPACE bus.tx - pad) = numBytes := by
    simp only [AJ_IO_BUF_SPACE]; split_ifs <;> omega
  simp only [WriteBytesBody, hc, hc2, txAppend, hsrc]
  rw [← writeBytesAt_append _ _ _ _ (by simp; omega)]
  simp [hsl, Nat.add_assoc]

/-- With a null header pointer a write that does not fit the free space drains the
buffer with one call of `send` and goes on: when the transport takes all pending
bytes and the bytes to write fit the size of the buffer, they are written at its
start. -/
theorem WriteBytes_raw_drain (bus : AJ_BusAttachment) (msg : AJ_Message) (data : AJ_Ptr)
    (numBytes pad : Nat) (src : List Nat) (k : Nat) (rest : List NetEvent)
    (hhdr : msg.hdr = AJ_HdrPtr.null)
    (hsrc : ∀ b : AJ_BusAttachment, memRead b data numBytes = src)
    (hnull : numBytes ≠ 0 → data ≠ AJ_Ptr.null)
    (hwf : bus.tx.WF) (hsz : bus.tx.bufSize < 65536)
    (hscript : bus.tx.context.script = NetEvent.xfer k :: rest)
    (hk : AJ_IO_BUF_AVAIL bus.tx ≤ k)
    (hfull : numBytes + pad > AJ_IO_BUF_SPACE bus.tx)
    (hfit : numBytes + pad ≤ bus.tx.bufSize) :
    WriteBytes bus msg data numBytes pad
      = (AJ_OK, txAppend (busDrained bus) (List.replicate pad 0 ++ src)) := by
  have hnn : ¬ (numBytes ≠ 0 ∧ data = AJ_Ptr.null) := by
    intro ⟨h1, h2⟩; exact hnull h1 h2
  have hroom : TxRoom { bus with tx := drainTx bus.tx } (pad + numBytes) :=
    ⟨by show 0 + (pad + numBytes) ≤ bus.tx.bufSize; omega, hwf.2.2, hsz⟩
  have hb := WriteBytesBody_fit { bus with tx := drainTx bus.tx } data numBytes pad src hsrc hroom
  have key : ∀ s, s = NetEvent.xfer k :: rest →
      WriteBytesLoop msg data s bus numBytes pad
        = (AJ_OK, { bus with tx := (txAppend { bus with tx := drainTx bus.tx }
            (List.replicate pad 0 ++ src)).tx }, rest) := by
    intro s hs
    subst hs
    rw [WriteBytesLoop_drain_step msg data _ rest bus numBytes pad (drainTx bus.tx) hhdr hfull
      (netSendEvent_all bus.tx k hwf hk), hb]
    simp only [Nat.sub_self, WriteBytesLoop_zero]
  simp only [WriteBytes, if_neg hnn, key _ hscript]
  simp only [busDrained, txAppend, hscript, List.tail_cons]

/-- C13 (amended): the rule of the full TX buffer. When a write of
`numBytes + pad` bytes does not fit in the free space of the TX buffer,
`WriteBytes` returns `AJ_ERR_RESOURCES` without draining or writing anything if
the header pointer of the message is still valid (the header is in the buffer);
if the header pointer is null (the header has been delivered by
`AJ_DeliverMsgPartial`) it drains the buffer with one call of `send` and goes on:
when the transport takes the pending bytes and the bytes to write fit the size of
the buffer, they are written at the start of the buffer and the status is OK. -/
theorem C13_full_tx_buffer :
    (∀ (bus : AJ_BusAttachment) (msg : AJ_Message) (data : AJ_Ptr) (numBytes pad : Nat),
      msg.hdr ≠ AJ_HdrPtr.null → (numBytes ≠ 0 → data ≠ AJ_Ptr.null) →
      numBytes + pad > AJ_IO_BUF_SPACE bus.tx →
      WriteBytes bus msg data numBytes pad = (AJ_ERR_RESOURCES, bus))
    ∧ (∀ (bus : AJ_BusAttachment) (msg : AJ_Message) (src : List Nat) (pad k : Nat)
        (rest : List NetEvent),
      msg.hdr = AJ_HdrPtr.null → bus.tx.WF → bus.tx.bufSize < 65536 →
      bus.tx.context.script = NetEvent.xfer k :: rest → AJ_IO_BUF_AVAIL bus.tx ≤ k →
      src.length + pad > AJ_IO_BUF_SPACE bus.tx → src.length + pad ≤ bus.tx.bufSize →
      WriteBytes bus msg (AJ_Ptr.mem src 0) src.length pad
        = (AJ_OK, txAppend (busDrained bus) (List.replicate pad 0 ++ src))) := by
  refine ⟨fun bus msg data numBytes pad h1 h2 h3 =>
    WriteBytes_hdr_full bus msg data numBytes pad h1 h2 h3, ?_⟩
  intro bus msg src pad k rest hhdr hwf hsz hscript hk hfull hfit
  exact WriteBytes_raw_drain bus msg (AJ_Ptr.mem src 0) src.length pad src k rest hhdr
    (fun b => memRead_mem b src) (fun _ h => by cases h) hwf hsz hscript hk hfull hfit

/-- C13, counterexample: a write of 4 bytes into a TX buffer with 2 free bytes.
With a valid header pointer `WriteBytes` returns `AJ_ERR_RESOURCES` and leaves the
buffer as it is (it does not drain and continue); with a null header pointer it
drains the 6 pending bytes and returns OK (it does not return
`AJ_ERR_RESOURCES`). -/
theorem C13_counterexample_header_rule :
    WriteBytes c13Bus c13MsgHdr (AJ_Ptr.mem [9, 9, 9, 9] 0) 4 0 = (AJ_ERR_RESOURCES, c13Bus)
    ∧ (WriteBytes c13Bus c13MsgRaw (AJ_Ptr.mem [9, 9, 9, 9] 0) 4 0).1 = AJ_OK
    ∧ (WriteBytes c13Bus c13MsgRaw (AJ_Ptr.mem [9, 9, 9, 9] 0) 4 0).2.tx.context.wire
      = [1, 2, 3, 4, 5, 6] := by
  decide

/-- C13, witness: the write of 4 bytes into the TX buffer with 2 free bytes, for
both kinds of message. -/
theorem C13_full_tx_buffer_witness :
    WriteBytes c13Bus c13MsgHdr (AJ_Ptr.mem [9, 9, 9, 9] 0) 4 0 = (AJ_ERR_RESOURCES, c13Bus)
    ∧ WriteBytes c13Bus c13MsgRaw (AJ_Ptr.mem [9, 9, 9, 9] 0) [9, 9, 9, 9].length 0
      = (AJ_OK, txAppend (busDrained c13Bus) (List.replicate 0 0 ++ [9, 9, 9, 9])) :=
  ⟨C13_full_tx_buffer.1 c13Bus c13MsgHdr (AJ_Ptr.mem [9, 9, 9, 9] 0) 4 0 (by decide)
      (by decide) (by decide),
    C13_full_tx_buffer.2 c13Bus c13MsgRaw [9, 9, 9, 9] 0 8 [] (by decide)
      (by unfold AJ_IOBuffer.WF; decide) (by decide) (by decide) (by decide) (by decide)
      (by decide)⟩

/-! ## C14: raw writes in partial-delivery mode -/

/-- C14: a raw block of 30 bytes written through a TX buffer of 24 bytes.
`AJ_MarshalRaw` returns OK, but `WriteBytes` copies from the start of `data` in
every turn of its loop: behind the 16 pending header bytes the stream carries
`data[0..24)` and then `data[0..6)` again, not `data[24..30)`. -/
theorem C14_raw_block_repeats_prefix :
    (AJ_MarshalRaw c14Bus c14Msg (AJ_Ptr.mem c14Data 0) 30).1 = AJ_OK
    ∧ txStream (AJ_MarshalRaw c14Bus c14Msg (AJ_Ptr.mem c14Data 0) 30).2.1.tx
      = txStream c14Bus.tx ++ (c14Data.take 24 ++ c14Data.take 6)
    ∧ txStream (AJ_MarshalRaw c14Bus c14Msg (AJ_Ptr.mem c14Data 0) 30).2.1.tx
      ≠ txStream c14Bus.tx ++ c14Data
    ∧ (AJ_MarshalRaw c14Bus c14Msg (AJ_Ptr.mem c14Data 0) 30).2.2.bodyBytes = 0 := by
  decide

/-! ## C19: the check on closing a container -/

/-- C18: a string whose length field declares 65535 characters needs 65536 more
bytes, which exceeds the 12 bytes left in the 32-byte RX buffer; the code hands
`sz + 1 = 65536` to the 16-bit parameter of `LoadBytes`, which receives 0, so
unmarshalling returns `AJ_OK` (not `AJ_ERR_RESOURCES`) and leaves the read cursor
at 65556, far behind the end of the buffer. `LoadBytes` itself returns `AJ_OK` for
`numBytes = 65535` and `pad = 1`, whose sum wraps to 0. -/
theorem C18_oversized_request_accepted :
    (65535 + 1 + 0 > c18Bus.rx.bufSize - (AJ_IO_BUF_CONSUMED c18Bus.rx + 4))
    ∧ (AJ_UnmarshalArg true c18Bus c18Msg).1 = AJ_OK
    ∧ (AJ_UnmarshalArg true c18Bus c18Msg).2.1.rx.readPtr = 65556
    ∧ (AJ_UnmarshalArg true c18Bus c18Msg).2.1.rx.bufSize = 32
    ∧ (AJ_UnmarshalArg true c18Bus c18Msg).2.2.2.len = 65535
    ∧ (65535 + 1 > c18Bus.rx.bufSize - AJ_IO_BUF_CONSUMED c18Bus.rx)
    ∧ LoadBytes c18Bus.rx 65535 1 = (AJ_OK, { c18Bus.rx with readPtr := 17 }) := by
  decide

/-! ## C20: the WHO-HAS packet -/

theorem strlen_le_length (v : List Nat) : strlen v ≤ v.length := by
  induction v with
  | nil => simp [strlen]
  | cons c rest ih =>
    simp only [strlen, List.length_cons]
    split_ifs <;> omega

/-- C20 (amended): for a prefix of at most 254 characters whose packet of
`len + 8` bytes fits in the free TX space, `ComposeWhoHas` returns `AJ_OK`, stores
`11 01 00 00 80 01`, the byte `len + 1`, the characters and `*` at the write cursor
and advances the cursor by `len + 8`; when `len + 8` exceeds the free space it
returns `AJ_ERR_RESOURCES` and leaves the buffer as it was. -/
theorem C20_who_has_packet :
    (∀ (txBuf : AJ_IOBuffer) (pre : List Nat),
      txBuf.WF → strlen pre ≤ 254 → strlen pre + 8 ≤ AJ_IO_BUF_SPACE txBuf →
      ComposeWhoHas txBuf pre
        = (AJ_OK, { txBuf with
            data := writeBytesAt txBuf.data txBuf.writePtr (whoHasPacket (pre.take (strlen pre)))
            writePtr := txBuf.writePtr + (strlen pre + 8) })
      ∧ (whoHasPacket (pre.take (strlen pre))).length = strlen pre + 8
      ∧ (whoHasPacket (pre.take (strlen pre))).getD 6 0 = strlen pre + 1) ∧
    (∀ (txBuf : AJ_IOBuffer) (pre : List Nat),
      strlen pre + 8 < SIZE_T_MOD → strlen pre + 8 > AJ_IO_BUF_SPACE txBuf →
      ComposeWhoHas txBuf pre = (AJ_ERR_RESOURCES, txBuf)) := by
  constructor
  · intro txBuf pre hwf hlen hfit
    have hl : (pre.take (strlen pre)).length = strlen pre := by
      rw [List.length_take]; exact Nat.min_eq_left (strlen_le_length pre)
    have hsp : AJ_IO_BUF_SPACE txBuf = txBuf.bufSize - txBuf.writePtr := rfl
    rw [hsp] at hfit
    have hw := hwf.2.1
    have hd := hwf.2.2
    have hm : strlen pre % SIZE_T_MOD = strlen pre :=
      Nat.mod_eq_of_lt (show strlen pre < 4294967296 by omega)
    have ho : (6 + strlen pre + 2) % SIZE_T_MOD = strlen pre + 8 := by
      rw [Nat.mod_eq_of_lt (show 6 + strlen pre + 2 < 4294967296 by omega)]; omega
    have hb : (strlen pre + 1) % 256 = strlen pre + 1 := Nat.mod_eq_of_lt (by omega)
    refine ⟨?_, ?_, ?_⟩
    · unfold ComposeWhoHas
      simp only [hm, ho, hb]
      rw [if_neg (by rw [hsp]; omega)]
      have e1 := writeBytesAt_append txBuf.data txBuf.writePtr
        [MSG_V1 ||| NSV_V1, 1, 0, 0, WHO_HAS_MSG, 1] [strlen pre + 1]
        (by simp only [List.length_cons, List.length_nil]; omega)
      simp only [List.length_cons, List.length_nil] at e1
      rw [e1]
      have e2 := writeBytesAt_append txBuf.data txBuf.writePtr
        ([MSG_V1 ||| NSV_V1, 1, 0, 0, WHO_HAS_MSG, 1] ++ [strlen pre + 1])
        (pre.take (strlen pre))
        (by simp only [List.length_cons, List.length_nil, List.length_append]; omega)
      simp only [List.length_cons, List.length_nil, List.length_append] at e2
      rw [show txBuf.writePtr + 6 + 1 = txBuf.writePtr + (0 + 1 + 1 + 1 + 1 + 1 + 1 + (0 + 1))
        by omega, e2]
      have e3 := writeBytesAt_append txBuf.data txBuf.writePtr
        ([MSG_V1 ||| NSV_V1, 1, 0, 0, WHO_HAS_MSG, 1] ++ [strlen pre + 1]
          ++ pre.take (strlen pre)) [42]
        (by simp only [List.length_cons, List.length_nil, List.length_append, hl]; omega)
      simp only [List.length_cons, List.length_nil, List.length_append, hl] at e3
      rw [show txBuf.writePtr + (0 + 1 + 1 + 1 + 1 + 1 + 1 + (0 + 1)) + strlen pre
        = txBuf.writePtr + (0 + 1 + 1 + 1 + 1 + 1 + 1 + (0 + 1) + strlen pre) by omega, e3]
      simp only [whoHasPacket, hl]
      rfl
    · simp [whoHasPacket, hl]
    · simp [whoHasPacket, hl]
  · intro txBuf pre h32 hbig
    unfold ComposeWhoHas
    have h32a : strlen pre + 8 < 4294967296 := h32
    have hm : strlen pre % SIZE_T_MOD = strlen pre :=
      Nat.mod_eq_of_lt (show strlen pre < 4294967296 by omega)
    have ho : (6 + strlen pre + 2) % SIZE_T_MOD = strlen pre + 8 := by
      rw [Nat.mod_eq_of_lt (show 6 + strlen pre + 2 < 4294967296 by omega)]; omega
    simp only [hm, ho]
    rw [if_pos hbig]

/-- Counterexample to C20 as stated: a prefix of 255 characters fits in a buffer
with 300 free bytes, the call returns `AJ_OK`, and the length byte stored behind
the header is 0, not `len + 1 = 256`. -/
theorem C20_counterexample_long_prefix :
    strlen (List.replicate 255 97 ++ [0]) = 255
    ∧ 255 + 8 ≤ AJ_IO_BUF_SPACE c20BufLong
    ∧ (ComposeWhoHas c20BufLong (List.replicate 255 97 ++ [0])).1 = AJ_OK
    ∧ (ComposeWhoHas c20BufLong (List.replicate 255 97 ++ [0])).2.data.getD 6 0 = 0
    ∧ (ComposeWhoHas c20BufLong (List.replicate 255 97 ++ [0])).2.data.getD 6 0 ≠ 255 + 1 := by
  decide

/-- Witness of C20 on the prefix `foo`: the packet is `11 01 00 00 80 01 04 f o o *`. -/
theorem C20_who_has_packet_witness :
    ComposeWhoHas c20Buf [102, 111, 111, 0]
      = (AJ_OK, { c20Buf with
          data := [0x11, 0x01, 0x00, 0x00, 0x80, 0x01, 0x04, 102, 111, 111, 42, 0, 0, 0, 0, 0]
          writePtr := 11 }) := by
  have h := (C20_who_has_packet.1 c20Buf [102, 111, 111, 0]
    (by unfold AJ_IOBuffer.WF; decide) (by decide) (by decide)).1
  rw [h]
  decide

/-! ## C15: partial delivery -/

theorem WritePad_if_fit (bus : AJ_BusAttachment) (msg : AJ_Message) (pad : Nat)
    (hroom : TxRoom bus pad) :
    (if pad ≠ 0 then WritePad bus msg pad else (AJ_OK, bus))
      = (AJ_OK, txAppend bus (List.replicate pad 0)) := by
  by_cases hp : pad = 0
  · subst hp
    simp [txAppend_nil bus hroom]
  · rw [if_pos hp, WritePad_fit bus msg pad hroom]

/-- C15 (amended): on a message with a valid header in the TX buffer, the flag
`ENCRYPTED` clear, a type left in the signature, `bytesRemaining > 0`, and room in
the TX buffer for the pad bytes, `AJ_DeliverMsgPartial` returns `AJ_OK`, writes
`pad = PadForType(next type)` zero bytes and stores
`(bodyBytes + pad + bytesRemaining) mod 2^32` in the header field `bodyLen`;
afterwards the header pointer is null, `bodyBytes = bytesRemaining` and the
signature is empty. With the flag `ENCRYPTED` set it returns `AJ_ERR_SECURITY` and
changes nothing. -/
theorem C15_partial_delivery :
    (∀ (hostLE : Bool) (bus : AJ_BusAttachment) (msg : AJ_Message) (n : Nat),
      msg.outer = [] → msg.hdr = AJ_HdrPtr.tx →
      hdrFlags hostLE bus msg &&& AJ_FLAG_ENCRYPTED = 0 →
      derefByte bus msg.signature msg.sigOffset ≠ 0 →
      0 < n → n < 4294967296 → 16 ≤ bus.tx.writePtr → TxRoom bus (nextPad bus msg) →
      ∃ (bus1 : AJ_BusAttachment) (msg1 : AJ_Message),
        AJ_DeliverMsgPartial hostLE bus msg n = some (AJ_OK, bus1, msg1)
        ∧ bus1 = hdrStore (txAppend bus (List.replicate (nextPad bus msg) 0)) msg 4
            (u32Bytes hostLE ((msg.bodyBytes + nextPad bus msg + n) % 4294967296))
        ∧ bus1.tx.writePtr = bus.tx.writePtr + nextPad bus msg
        ∧ readBytes bus1.tx.data bus.tx.writePtr (nextPad bus msg)
            = List.replicate (nextPad bus msg) 0
        ∧ hdrBodyLen hostLE bus1 msg = (msg.bodyBytes + nextPad bus msg + n) % 4294967296
        ∧ msg1 = { msg with hdr := AJ_HdrPtr.null, bodyBytes := n,
                            signature := AJ_Ptr.mem [0] 0, sigOffset := 0 }
        ∧ derefByte bus1 msg1.signature msg1.sigOffset = 0) ∧
    (∀ (hostLE : Bool) (bus : AJ_BusAttachment) (msg : AJ_Message) (n : Nat),
      msg.outer = [] → msg.hdr ≠ AJ_HdrPtr.null → 0 < n →
      hdrFlags hostLE bus msg &&& AJ_FLAG_ENCRYPTED ≠ 0 →
      AJ_DeliverMsgPartial hostLE bus msg n = some (AJ_ERR_SECURITY, bus, msg)) := by
  constructor
  · intro hostLE bus msg n hout hhdr hflag htype hn hn32 hw hroom
    have hW := WritePad_if_fit bus msg (nextPad bus msg) hroom
    unfold nextPad at hW
    have hne : ¬ (msg.hdr = AJ_HdrPtr.null ∨ n = 0) := by
      rw [hhdr]; intro h; rcases h with h | h
      · exact absurd h (by decide)
      · omega
    obtain ⟨r1, r2, r3⟩ := hroom
    refine ⟨_, _, ?_, rfl, ?_, ?_, ?_, rfl, rfl⟩
    · unfold AJ_DeliverMsgPartial
      simp only [hout, ne_eq, not_true_eq_false, if_false, if_neg hne, hflag, htype, hW,
        Nat.mod_eq_of_lt hn32]
      rfl
    · simp only [hdrStore, hhdr]
      simp [txAppend]
    · simp only [hdrStore, hhdr, txAppend]
      have hl : (writeBytesAt bus.tx.data bus.tx.writePtr
          (List.replicate (nextPad bus msg) 0)).length = bus.tx.data.length :=
        length_writeBytesAt _ _ _ (by simp; omega)
      rw [readBytes_writeBytesAt_after _ _ _ _ _ (by rw [length_u32Bytes, hl]; omega)
        (by rw [length_u32Bytes]; omega)]
      have := readBytes_writeBytesAt bus.tx.data bus.tx.writePtr
        (List.replicate (nextPad bus msg) 0) (by omega)
      simpa using this
    · simp only [hdrBodyLen, hdrMem, hdrStore, hhdr, txAppend]
      have hl : (writeBytesAt bus.tx.data bus.tx.writePtr
          (List.replicate (nextPad bus msg) 0)).length = bus.tx.data.length :=
        length_writeBytesAt _ _ _ (by simp; omega)
      exact readU32_u32Bytes hostLE _ 4 _ (by rw [hl]; omega) (Nat.mod_lt _ (by decide))
  · intro hostLE bus msg n hout hhdr hn hflag
    have hne : ¬ (msg.hdr = AJ_HdrPtr.null ∨ n = 0) := by
      intro h; rcases h with h | h
      · exact hhdr h
      · omega
    unfold AJ_DeliverMsgPartial
    simp only [hout, ne_eq, not_true_eq_false, if_false, if_neg hne, hflag, not_false_eq_true,
      if_true]

/-- Counterexample to C15 as stated: with 2 free bytes in the TX buffer and 3 pad
bytes due, the call returns `AJ_ERR_RESOURCES`; and with `bytesRemaining =
0xFFFFFFFF` behind one body byte and 3 pad bytes the stored `bodyLen` is 3, not
the sum. -/
theorem C15_counterexample_pad_does_not_fit :
    c15Msg.hdr = AJ_HdrPtr.tx
    ∧ hdrFlags true c15Bus c15Msg &&& AJ_FLAG_ENCRYPTED = 0
    ∧ derefByte c15Bus c15Msg.signature c15Msg.sigOffset = AJ_ARG_UINT32
    ∧ nextPad c15Bus c15Msg = 3 ∧ AJ_IO_BUF_SPACE c15Bus.tx = 2
    ∧ AJ_DeliverMsgPartial true c15Bus c15Msg 100 = some (AJ_ERR_RESOURCES, c15Bus, c15Msg)
    ∧ (AJ_DeliverMsgPartial true c15wBus c15wMsg 4294967295).map (fun r => r.1) = some AJ_OK
    ∧ (AJ_DeliverMsgPartial true c15wBus c15wMsg 4294967295).map
        (fun r => hdrBodyLen true r.2.1 c15wMsg) = some 3
    ∧ c15wMsg.bodyBytes + nextPad c15wBus c15wMsg + 4294967295 ≠ 3 := by
  decide

/-- Witness of C15: one body byte marshalled, a `u` next, 100 bytes announced: three
pad bytes are written and `bodyLen` is 104; with the flag `ENCRYPTED` in the header
the call is refused. -/
theorem C15_partial_delivery_witness :
    (∃ (bus1 : AJ_BusAttachment) (msg1 : AJ_Message),
      AJ_DeliverMsgPartial true c15wBus c15wMsg 100 = some (AJ_OK, bus1, msg1)
      ∧ bus1.tx.writePtr = 20 ∧ hdrBodyLen true bus1 c15wMsg = 104
      ∧ msg1.hdr = AJ_HdrPtr.null ∧ msg1.bodyBytes = 100)
    ∧ AJ_DeliverMsgPartial true c15wBusEnc c15wMsg 100
        = some (AJ_ERR_SECURITY, c15wBusEnc, c15wMsg) := by
  constructor
  · obtain ⟨bus1, msg1, h1, _, h3, _, h5, h6, _⟩ :=
      C15_partial_delivery.1 true c15wBus c15wMsg 100 (by decide) (by decide) (by decide)
        (by decide) (by decide) (by decide) (by decide)
        (by unfold TxRoom; decide)
    refine ⟨bus1, msg1, h1, ?_, ?_, ?_, ?_⟩
    · rw [h3]; decide
    · rw [h5]; decide
    · rw [h6]
    · rw [h6]
  · exact C15_partial_delivery.2 true c15wBusEnc c15wMsg 100 (by decide) (by decide)
      (by decide) (by decide)

/-! ## C16: accounting of raw writes -/

theorem StreamExt_refl (b : AJ_IOBuffer) (h : b.WF) : StreamExt b b [] :=
  ⟨h, rfl, by simp⟩

theorem StreamExt_trans {a b c : AJ_IOBuffer} {x y : List Nat}
    (h1 : StreamExt a b x) (h2 : StreamExt b c y) : StreamExt a c (x ++ y) :=
  ⟨h2.1, h2.2.1.trans h1.2.1, by rw [h2.2.2, h1.2.2, List.append_assoc]⟩

theorem netSendEvent_stream (b : AJ_IOBuffer) (e : Option NetEvent) (h : b.WF) :
    StreamExt b (netSendEvent b e).2 [] := by
  obtain ⟨w1, w2, w3⟩ := h
  cases e with
  | none => exact StreamExt_refl b ⟨w1, w2, w3⟩
  | some ev =>
    cases ev with
    | fail s => exact StreamExt_refl b ⟨w1, w2, w3⟩
    | xfer k =>
      have hk : min k (b.writePtr - b.readPtr) ≤ b.writePtr - b.readPtr := Nat.min_le_right _ _
      simp only [netSendEvent, AJ_IO_BUF_AVAIL]
      generalize min k (b.writePtr - b.readPtr) = m at hk
      have hsplit : readBytes b.data b.readPtr (b.writePtr - b.readPtr)
          = readBytes b.data b.readPtr m
            ++ readBytes b.data (b.readPtr + m) (b.writePtr - (b.readPtr + m)) := by
        rw [← readBytes_add]; congr 1; omega
      split_ifs with h0
      · refine ⟨⟨by simp [AJ_IO_BUF_RESET], by simp [AJ_IO_BUF_RESET], by simpa [AJ_IO_BUF_RESET] using w3⟩,
          rfl, ?_⟩
        simp only [txStream, AJ_IO_BUF_RESET, List.append_nil, Nat.sub_self]
        rw [hsplit, h0]
        simp [readBytes]
      · refine ⟨⟨by show b.readPtr + m ≤ b.writePtr; omega, w2, w3⟩, rfl, ?_⟩
        simp only [txStream, List.append_nil]
        rw [hsplit, List.append_assoc]

theorem WriteBytesBody_stream (bus : AJ_BusAttachment) (data : AJ_Ptr) (numBytes : Nat)
    (h : bus.tx.WF) (hsz : bus.tx.bufSize < 65536) :
    (WriteBytesBody bus data numBytes 0 (AJ_IO_BUF_SPACE bus.tx)).2
        = min numBytes (AJ_IO_BUF_SPACE bus.tx)
    ∧ ∃ bytes : List Nat, bytes.length = min numBytes (AJ_IO_BUF_SPACE bus.tx)
      ∧ StreamExt bus.tx (WriteBytesBody bus data numBytes 0 (AJ_IO_BUF_SPACE bus.tx)).1 bytes := by
  obtain ⟨w1, w2, w3⟩ := h
  have hc : (AJ_IO_BUF_SPACE bus.tx + SIZE_T_MOD - 0 % SIZE_T_MOD) % SIZE_T_MOD
      = AJ_IO_BUF_SPACE bus.tx := by
    simp only [AJ_IO_BUF_SPACE, SIZE_T_MOD]; omega
  have hmin : (if numBytes < AJ_IO_BUF_SPACE bus.tx then numBytes else AJ_IO_BUF_SPACE bus.tx)
      = min numBytes (AJ_IO_BUF_SPACE bus.tx) := by
    split_ifs <;> omega
  have hle : min numBytes (AJ_IO_BUF_SPACE bus.tx) ≤ bus.tx.bufSize - bus.tx.writePtr :=
    Nat.min_le_right _ _
  simp only [WriteBytesBody, hc, hmin, List.replicate_zero, Nat.add_zero,
    writeBytesAt_nil _ _ (by omega : bus.tx.writePtr ≤ bus.tx.data.length)]
  generalize min numBytes (AJ_IO_BUF_SPACE bus.tx) = m at hle
  generalize hsrc : memRead { bus with tx := { bus.tx with data := bus.tx.data, writePtr := bus.tx.writePtr } } data m = src
  have hl : src.length = m := by rw [← hsrc]; simp [memRead]
  refine ⟨trivial, src, hl, ⟨?_, ?_, ?_⟩, rfl, ?_⟩
  · show bus.tx.readPtr ≤ bus.tx.writePtr + m
    omega
  · show bus.tx.writePtr + m ≤ bus.tx.bufSize
    omega
  · show (writeBytesAt bus.tx.data bus.tx.writePtr src).length = bus.tx.bufSize
    rw [length_writeBytesAt _ _ _ (by rw [hl]; omega)]
    exact w3
  · show bus.tx.context.wire ++ readBytes (writeBytesAt bus.tx.data bus.tx.writePtr src)
        bus.tx.readPtr (bus.tx.writePtr + m - bus.tx.readPtr)
      = bus.tx.context.wire ++ readBytes bus.tx.data bus.tx.readPtr
        (bus.tx.writePtr - bus.tx.readPtr) ++ src
    rw [show bus.tx.writePtr + m - bus.tx.readPtr = (bus.tx.writePtr - bus.tx.readPtr) + m
      by omega, readBytes_add,
      readBytes_writeBytesAt_before _ _ _ _ _ (by omega) (by omega),
      show bus.tx.readPtr + (bus.tx.writePtr - bus.tx.readPtr) = bus.tx.writePtr by omega]
    have := readBytes_writeBytesAt bus.tx.data bus.tx.writePtr src (by omega)
    rw [hl] at this
    rw [this, List.append_assoc]

/-- The loop of `WriteBytes` in raw mode (null header pointer, no padding): whatever
the transport does, the stream grows by at most `numBytes` bytes, and by exactly
`numBytes` when the loop returns `AJ_OK`. -/
theorem WriteBytesLoop_raw_stream (msg : AJ_Message) (data : AJ_Ptr)
    (hhdr : msg.hdr = AJ_HdrPtr.null) :
    ∀ (script : List NetEvent) (bus : AJ_BusAttachment) (numBytes : Nat),
      bus.tx.WF → bus.tx.bufSize < 65536 →
      (WriteBytesLoop msg data script bus numBytes 0).2.1.rx = bus.rx
      ∧ (WriteBytesLoop msg data script bus numBytes 0).2.1.serial = bus.serial
      ∧ ∃ bytes : List Nat, bytes.length ≤ numBytes
        ∧ ((WriteBytesLoop msg data script bus numBytes 0).1 = AJ_OK → bytes.length = numBytes)
        ∧ StreamExt bus.tx (WriteBytesLoop msg data script bus numBytes 0).2.1.tx bytes := by
  intro script
  induction script with
  | nil =>
    intro bus numBytes hwf hsz
    have hb := WriteBytesBody_stream bus data numBytes hwf hsz
    rw [WriteBytesLoop]
    by_cases h0 : numBytes = 0
    · rw [if_pos (by omega)]
      exact ⟨rfl, rfl, [], by simp, fun _ => by simp [h0], StreamExt_refl _ hwf⟩
    · rw [if_neg (by omega)]
      by_cases hfull : numBytes + 0 > AJ_IO_BUF_SPACE bus.tx
      · rw [if_pos hfull, if_neg (by simp [hhdr])]
        refine ⟨rfl, rfl, [], by simp, ?_, netSendEvent_stream _ _ hwf⟩
        intro h
        exact absurd h (show AJ_ERR_WRITE ≠ AJ_OK by decide)
      · rw [if_neg hfull]
        obtain ⟨_, bytes, hl, hs⟩ := hb
        rw [Nat.min_eq_left (by omega)] at hl
        exact ⟨rfl, rfl, bytes, by omega, fun _ => hl, hs⟩
  | cons e rest ih =>
    intro bus numBytes hwf hsz
    have hb := WriteBytesBody_stream bus data numBytes hwf hsz
    by_cases h0 : numBytes = 0
    · rw [WriteBytesLoop, if_pos (by omega)]
      exact ⟨rfl, rfl, [], by simp, fun _ => by simp [h0], StreamExt_refl _ hwf⟩
    · by_cases hfull : numBytes + 0 > AJ_IO_BUF_SPACE bus.tx
      · have hs := netSendEvent_stream bus.tx (some e) hwf
        cases hse : netSendEvent bus.tx (some e) with
        | mk st b1 =>
          rw [hse] at hs
          replace hs : StreamExt bus.tx b1 [] := hs
          by_cases hok : st = AJ_OK
          · subst hok
            rw [WriteBytesLoop_drain_step msg data e rest bus numBytes 0 b1 hhdr hfull hse]
            have hwf1 : ({ bus with tx := b1 } : AJ_BusAttachment).tx.WF := hs.1
            have hsz1 : ({ bus with tx := b1 } : AJ_BusAttachment).tx.bufSize < 65536 := by
              show b1.bufSize < 65536
              rw [hs.2.1]; exact hsz
            obtain ⟨hw2, bytes1, hl1, hs1⟩ := WriteBytesBody_stream
              { bus with tx := b1 } data numBytes hwf1 hsz1
            generalize hW : WriteBytesBody { bus with tx := b1 } data numBytes 0
              (AJ_IO_BUF_SPACE b1) = W at hw2 hs1
            have hW' : WriteBytesBody { bus with tx := b1 } data numBytes 0
              (AJ_IO_BUF_SPACE ({ bus with tx := b1 } : AJ_BusAttachment).tx) = W := hW
            have hs1b : StreamExt b1 W.1 bytes1 := hs1
            have hwf2 : ({ bus with tx := W.1 } : AJ_BusAttachment).tx.WF := hs1b.1
            have hsz2 : ({ bus with tx := W.1 } : AJ_BusAttachment).tx.bufSize < 65536 := by
              show W.1.bufSize < 65536
              have h1 : W.1.bufSize = b1.bufSize := hs1b.2.1
              have h2 : b1.bufSize = bus.tx.bufSize := hs.2.1
              omega
            obtain ⟨hrx, hser, bytes2, hl2, hok2, hs2⟩ := ih { bus with tx := W.1 }
              (numBytes - W.2) hwf2 hsz2
            have hle1 : bytes1.length ≤ numBytes := by rw [hl1]; exact Nat.min_le_left _ _
            have hw2b : W.2 = bytes1.length := by rw [hl1]; exact hw2
            rw [hw2b] at hl2 hok2 hrx hser hs2
            rw [hw2b]
            refine ⟨hrx, hser, bytes1 ++ bytes2, ?_, ?_, ?_⟩
            · rw [List.length_append]; omega
            · intro h
              rw [List.length_append, hok2 h]; omega
            · have := StreamExt_trans (StreamExt_trans hs hs1b) hs2
              simpa using this
          · rw [WriteBytesLoop, if_neg (by omega), if_pos hfull, if_neg (by simp [hhdr])]
            simp only [hse]
            rw [if_pos hok]
            exact ⟨rfl, rfl, [], by simp, fun h => absurd h hok, hs⟩
      · rw [WriteBytesLoop, if_neg (by omega), if_neg hfull]
        obtain ⟨_, bytes, hl, hs⟩ := hb
        rw [Nat.min_eq_left (by omega)] at hl
        exact ⟨rfl, rfl, bytes, by omega, fun _ => hl, hs⟩

theorem WriteBytes_raw_stream (bus : AJ_BusAttachment) (msg : AJ_Message) (data : AJ_Ptr)
    (numBytes : Nat) (hhdr : msg.hdr = AJ_HdrPtr.null) (hwf : bus.tx.WF)
    (hsz : bus.tx.bufSize < 65536) :
    ∃ bytes : List Nat, bytes.length ≤ numBytes
      ∧ ((WriteBytes bus msg data numBytes 0).1 = AJ_OK → bytes.length = numBytes)
      ∧ StreamExt bus.tx (WriteBytes bus msg data numBytes 0).2.tx bytes := by
  unfold WriteBytes
  by_cases hn : numBytes ≠ 0 ∧ data = AJ_Ptr.null
  · rw [if_pos hn]
    exact ⟨[], by simp, fun h => absurd h (show AJ_ERR_NULL ≠ AJ_OK by decide),
      StreamExt_refl _ hwf⟩
  · rw [if_neg hn]
    obtain ⟨_, _, bytes, hl, hok, hs⟩ :=
      WriteBytesLoop_raw_stream msg data hhdr bus.tx.context.script bus numBytes hwf hsz
    exact ⟨bytes, hl, hok, hs⟩

theorem AJ_MarshalRaw_accepted (bus : AJ_BusAttachment) (msg : AJ_Message) (data : AJ_Ptr)
    (len : Nat) (hhdr : msg.hdr = AJ_HdrPtr.null) (hwf : bus.tx.WF)
    (hsz : bus.tx.bufSize < 65536) (hlen : len ≤ msg.bodyBytes)
    (hb : msg.bodyBytes < 4294967296) :
    (AJ_MarshalRaw bus msg data len).2.2 = { msg with bodyBytes := msg.bodyBytes - len }
    ∧ ∃ bytes : List Nat, bytes.length ≤ len
      ∧ ((AJ_MarshalRaw bus msg data len).1 = AJ_OK → bytes.length = len)
      ∧ StreamExt bus.tx (AJ_MarshalRaw bus msg data len).2.1.tx bytes := by
  have hm : (msg.bodyBytes + 4294967296 - len % 4294967296) % 4294967296
      = msg.bodyBytes - len := by omega
  unfold AJ_MarshalRaw
  rw [if_neg (by simp [hhdr]), if_neg (by omega)]
  simp only [hm]
  exact ⟨trivial, WriteBytes_raw_stream bus _ data len hhdr hwf hsz⟩

theorem rawAccepted_le (calls : List (AJ_Ptr × Nat)) : ∀ owed : Nat,
    rawAccepted calls owed ≤ owed := by
  induction calls with
  | nil => intro owed; simp [rawAccepted]
  | cons c rest ih =>
    intro owed
    simp only [rawAccepted]
    split_ifs with h
    · exact ih owed
    · have := ih (owed - c.2); omega

/-- The accounting of a sequence of raw writes: the message stays in raw mode,
`bodyBytes` goes down by what the calls were charged for, and the stream grows by
at most that many bytes, by exactly that many when no call failed in writing. -/
theorem marshalRawSeq_accounting (calls : List (AJ_Ptr × Nat)) :
    ∀ (bus : AJ_BusAttachment) (msg : AJ_Message),
      msg.hdr = AJ_HdrPtr.null → bus.tx.WF → bus.tx.bufSize < 65536 →
      msg.bodyBytes < 4294967296 →
      (marshalRawSeq calls bus msg).2.2.hdr = AJ_HdrPtr.null
      ∧ (marshalRawSeq calls bus msg).2.2.bodyBytes
          = msg.bodyBytes - rawAccepted calls msg.bodyBytes
      ∧ ∃ written : List Nat,
          StreamExt bus.tx (marshalRawSeq calls bus msg).2.1.tx written
          ∧ written.length ≤ rawAccepted calls msg.bodyBytes
          ∧ (RawClean calls bus msg → written.length = rawAccepted calls msg.bodyBytes) := by
  induction calls with
  | nil =>
    intro bus msg hhdr hwf hsz hb
    exact ⟨hhdr, by simp [marshalRawSeq, rawAccepted], [], StreamExt_refl _ hwf, by simp,
      fun _ => by simp [rawAccepted]⟩
  | cons c rest ih =>
    intro bus msg hhdr hwf hsz hb
    by_cases hrej : c.2 > msg.bodyBytes
    · have hr : AJ_MarshalRaw bus msg c.1 c.2 = (AJ_ERR_WRITE, bus, msg) := by
        unfold AJ_MarshalRaw
        rw [if_neg (by simp [hhdr]), if_pos hrej]
      obtain ⟨h1, h2, written, h3, h4, h5⟩ := ih bus msg hhdr hwf hsz hb
      simp only [marshalRawSeq, rawAccepted, hr, if_pos hrej, RawClean]
      exact ⟨h1, h2, written, h3, h4, fun hc => h5 hc.2⟩
    · obtain ⟨hmsg, bytes, hl, hok, hs⟩ :=
        AJ_MarshalRaw_accepted bus msg c.1 c.2 hhdr hwf hsz (by omega) hb
      have hsz1 : (AJ_MarshalRaw bus msg c.1 c.2).2.1.tx.bufSize < 65536 := by
        rw [hs.2.1]; exact hsz
      have hhdr1 : (AJ_MarshalRaw bus msg c.1 c.2).2.2.hdr = AJ_HdrPtr.null := by
        rw [hmsg]; exact hhdr
      have hb1 : (AJ_MarshalRaw bus msg c.1 c.2).2.2.bodyBytes = msg.bodyBytes - c.2 := by
        rw [hmsg]
      obtain ⟨h1, h2, written, h3, h4, h5⟩ := ih (AJ_MarshalRaw bus msg c.1 c.2).2.1
        (AJ_MarshalRaw bus msg c.1 c.2).2.2 hhdr1 hs.1 hsz1 (by rw [hb1]; omega)
      rw [hb1] at h2 h4 h5
      have hacc := rawAccepted_le rest (msg.bodyBytes - c.2)
      simp only [marshalRawSeq, rawAccepted, if_neg hrej, RawClean]
      refine ⟨h1, by rw [h2]; omega, bytes ++ written, StreamExt_trans hs h3, ?_, ?_⟩
      · rw [List.length_append]; omega
      · intro hc
        rw [List.length_append, hok (hc.1 (by omega)), h5 hc.2]

theorem AJ_DeliverMsgPartial_ok (hostLE : Bool) (bus0 bus : AJ_BusAttachment)
    (msg0 msg : AJ_Message) (n : Nat)
    (h : AJ_DeliverMsgPartial hostLE bus0 msg0 n = some (AJ_OK, bus, msg)) :
    msg.hdr = AJ_HdrPtr.null ∧ msg.bodyBytes = n % 4294967296 := by
  unfold AJ_DeliverMsgPartial at h
  simp only at h
  by_cases h1 : msg0.outer ≠ []
  · rw [if_pos h1] at h
    exact absurd h (by simp)
  rw [if_neg h1] at h
  by_cases h2 : msg0.hdr = AJ_HdrPtr.null ∨ n = 0
  · rw [if_pos h2] at h
    simp only [Option.some.injEq, Prod.mk.injEq] at h
    exact absurd h.1 (by decide)
  rw [if_neg h2] at h
  by_cases h3 : hdrFlags hostLE bus0 msg0 &&& AJ_FLAG_ENCRYPTED ≠ 0
  · rw [if_pos h3] at h
    simp only [Option.some.injEq, Prod.mk.injEq] at h
    exact absurd h.1 (by decide)
  rw [if_neg h3] at h
  by_cases h4 : derefByte bus0 msg0.signature msg0.sigOffset = 0
  · rw [if_pos h4] at h
    simp only [Option.some.injEq, Prod.mk.injEq] at h
    exact absurd h.1 (by decide)
  rw [if_neg h4] at h
  generalize (if PadForType (derefByte bus0 msg0.signature msg0.sigOffset) bus0.tx ≠ 0
    then WritePad bus0 msg0 (PadForType (derefByte bus0 msg0.signature msg0.sigOffset) bus0.tx)
    else (AJ_OK, bus0)) = r at h
  by_cases h5 : r.1 ≠ AJ_OK
  · rw [if_pos h5] at h
    simp only [Option.some.injEq, Prod.mk.injEq] at h
    exact absurd h.1 h5
  rw [if_neg h5] at h
  simp only [Option.some.injEq, Prod.mk.injEq] at h
  obtain ⟨_, _, hm⟩ := h
  subst hm
  exact ⟨rfl, rfl⟩

/-- C16 (amended): `AJ_MarshalRaw` on a message with a valid header pointer returns
`AJ_ERR_UNEXPECTED`; in raw mode a call with `len` above what is owed returns
`AJ_ERR_WRITE` and changes nothing, and every other call takes `len` off
`bodyBytes`, whether or not its write succeeds. After a successful
`AJ_DeliverMsgPartial(msg, n)` and any sequence of raw writes, the stream has grown
by at most the bytes charged, which are at most `n`; it has grown by exactly the
bytes charged when no write failed; and `AJ_DeliverMsg` returns `AJ_ERR_MARSHAL`
without sending unless exactly `n` bytes were charged, in which case it sends. -/
theorem C16_partial_delivery_accounting :
    (∀ (bus : AJ_BusAttachment) (msg : AJ_Message) (data : AJ_Ptr) (len : Nat),
      msg.hdr ≠ AJ_HdrPtr.null →
      AJ_MarshalRaw bus msg data len = (AJ_ERR_UNEXPECTED, bus, msg)) ∧
    (∀ (bus : AJ_BusAttachment) (msg : AJ_Message) (data : AJ_Ptr) (len : Nat),
      msg.hdr = AJ_HdrPtr.null → len > msg.bodyBytes →
      AJ_MarshalRaw bus msg data len = (AJ_ERR_WRITE, bus, msg)) ∧
    (∀ (bus : AJ_BusAttachment) (msg : AJ_Message) (data : AJ_Ptr) (len : Nat),
      msg.hdr = AJ_HdrPtr.null → len ≤ msg.bodyBytes → msg.bodyBytes < 4294967296 →
      (AJ_MarshalRaw bus msg data len).2.2 = { msg with bodyBytes := msg.bodyBytes - len }) ∧
    (∀ (ext : AJ_Externals) (hostLE : Bool) (bus0 bus : AJ_BusAttachment)
        (msg0 msg : AJ_Message) (n : Nat) (calls : List (AJ_Ptr × Nat)),
      AJ_DeliverMsgPartial hostLE bus0 msg0 n = some (AJ_OK, bus, msg) →
      n < 4294967296 → bus.tx.WF → bus.tx.bufSize < 65536 →
      ∃ written : List Nat,
        txStream (marshalRawSeq calls bus msg).2.1.tx = txStream bus.tx ++ written
        ∧ written.length ≤ rawAccepted calls n ∧ rawAccepted calls n ≤ n
        ∧ (marshalRawSeq calls bus msg).2.2.bodyBytes = n - rawAccepted calls n
        ∧ (RawClean calls bus msg → written.length = rawAccepted calls n)
        ∧ (rawAccepted calls n ≠ n →
            AJ_DeliverMsg ext hostLE (marshalRawSeq calls bus msg).2.1
                (marshalRawSeq calls bus msg).2.2
              = (AJ_ERR_MARSHAL, (marshalRawSeq calls bus msg).2.1, AJ_Message.zero))
        ∧ (rawAccepted calls n = n →
            AJ_DeliverMsg ext hostLE (marshalRawSeq calls bus msg).2.1
                (marshalRawSeq calls bus msg).2.2
              = ((netSend (marshalRawSeq calls bus msg).2.1.tx).1,
                 { (marshalRawSeq calls bus msg).2.1 with
                   tx := (netSend (marshalRawSeq calls bus msg).2.1.tx).2 },
                 AJ_Message.zero))) := by
  refine ⟨?_, ?_, ?_, ?_⟩
  · intro bus msg data len hhdr
    unfold AJ_MarshalRaw
    rw [if_pos hhdr]
  · intro bus msg data len hhdr hlen
    unfold AJ_MarshalRaw
    rw [if_neg (by simp [hhdr]), if_pos hlen]
  · intro bus msg data len hhdr hlen hb
    have hm : (msg.bodyBytes + 4294967296 - len % 4294967296) % 4294967296
        = msg.bodyBytes - len := by omega
    unfold AJ_MarshalRaw
    rw [if_neg (by simp [hhdr]), if_neg (by omega)]
    simp only [hm]
  · intro ext hostLE bus0 bus msg0 msg n calls hpart hn hwf hsz
    obtain ⟨hhdr, hbody⟩ := AJ_DeliverMsgPartial_ok hostLE bus0 bus msg0 msg n hpart
    rw [Nat.mod_eq_of_lt hn] at hbody
    obtain ⟨h1, h2, written, h3, h4, h5⟩ :=
      marshalRawSeq_accounting calls bus msg hhdr hwf hsz (by omega)
    rw [hbody] at h2 h4 h5
    have hacc := rawAccepted_le calls n
    refine ⟨written, h3.2.2, h4, hacc, h2, h5, ?_, ?_⟩
    · intro hne
      have hb : (marshalRawSeq calls bus msg).2.2.bodyBytes ≠ 0 := by rw [h2]; omega
      simp [AJ_DeliverMsg, h1, hb]
    · intro heq
      have hb : (marshalRawSeq calls bus msg).2.2.bodyBytes = 0 := by rw [h2]; omega
      simp [AJ_DeliverMsg, h1, hb]

/-- Counterexample to C16 as stated: after `AJ_DeliverMsgPartial(msg, 8)` a raw
write of 8 bytes fails in `send` (it returns the status of the transport,
`AJ_ERR_WRITE`, and writes nothing), yet `bodyBytes` is 0 afterwards and
`AJ_DeliverMsg` sends the buffer and returns `AJ_OK`: 20 bytes are on the wire, the
header and the first argument, and none of the 8 raw bytes. -/
theorem C16_counterexample_failed_write_counts :
    (AJ_DeliverMsgPartial true c16Bus c16Msg 8).map (fun p => p.1) = some AJ_OK
    ∧ c16Run = some (AJ_ERR_WRITE, AJ_OK,
        [108, 1, 0, 0, 12, 0, 0, 0, 1, 0, 0, 0, 0, 0, 0, 0, 7, 0, 0, 0]) := by
  decide

/-- Witness of C16: 8 bytes announced; raw writes of 5, 9 and 3 bytes are charged 8
bytes (the write of 9 is refused), all of them arrive in the stream, and
`AJ_DeliverMsg` sends. -/
theorem C16_partial_delivery_accounting_witness :
    ∃ written : List Nat,
      txStream (marshalRawSeq c16wCalls c16wAfter.1 c16wAfter.2).2.1.tx
        = txStream c16wAfter.1.tx ++ written
      ∧ written.length = 8
      ∧ (marshalRawSeq c16wCalls c16wAfter.1 c16wAfter.2).1 = [AJ_OK, AJ_ERR_WRITE, AJ_OK]
      ∧ (AJ_DeliverMsg noExternals true (marshalRawSeq c16wCalls c16wAfter.1 c16wAfter.2).2.1
          (marshalRawSeq c16wCalls c16wAfter.1 c16wAfter.2).2.2).1 = AJ_OK := by
  obtain ⟨written, h1, _, _, _, h5, _, h7⟩ :=
    C16_partial_delivery_accounting.2.2.2 noExternals true c16wBus c16wAfter.1 c16Msg
      c16wAfter.2 8 c16wCalls (by decide) (by decide) (by unfold AJ_IOBuffer.WF; decide)
      (by decide)
  refine ⟨written, h1, ?_, by decide, ?_⟩
  · rw [h5 (by unfold c16wCalls; simp only [RawClean]; decide)]
    decide
  · rw [h7 (by decide)]
    decide

/-! ## C11: the serial number of a message is not zero -/

theorem HdrSafe_txAppend (s : List Nat) (c : Nat) (bus : AJ_BusAttachment) (bytes : List Nat)
    (h : HdrSafe s c bus) (hroom : TxRoom bus bytes.length) :
    HdrSafe s c (txAppend bus bytes) := by
  obtain ⟨h1, h2, h3, h4⟩ := h
  obtain ⟨r1, r2, r3⟩ := hroom
  refine ⟨by simp only [txAppend_writePtr]; omega, ?_, ?_, h4⟩
  · refine ⟨by simp only [txAppend_writePtr]; show _ ≤ bus.tx.bufSize; omega, ?_, r3⟩
    show (writeBytesAt bus.tx.data bus.tx.writePtr bytes).length = bus.tx.bufSize
    rw [length_writeBytesAt _ _ _ (by omega)]; exact r2
  · show readBytes (writeBytesAt bus.tx.data bus.tx.writePtr bytes) 8 4 = s
    rw [readBytes_writeBytesAt_before _ _ _ _ _ (by omega) (by omega)]; exact h3

theorem WriteBytes_HdrSafe (s : List Nat) (c : Nat) (msg : AJ_Message)
    (hhdr : msg.hdr ≠ AJ_HdrPtr.null) (bus : AJ_BusAttachment) (data : AJ_Ptr)
    (numBytes pad : Nat) (h : HdrSafe s c bus) :
    HdrSafe s c (WriteBytes bus msg data numBytes pad).2 := by
  by_cases hn : numBytes ≠ 0 ∧ data = AJ_Ptr.null
  · simp only [WriteBytes, if_pos hn]; exact h
  · have hnull : numBytes ≠ 0 → data ≠ AJ_Ptr.null := fun a b => hn ⟨a, b⟩
    by_cases hfull : numBytes + pad > AJ_IO_BUF_SPACE bus.tx
    · rw [WriteBytes_hdr_full bus msg data numBytes pad hhdr hnull hfull]; exact h
    · have hroom : TxRoom bus (pad + numBytes) := by
        obtain ⟨_, ⟨r1, r2, r3⟩, _, _⟩ := h
        refine ⟨?_, r2, r3⟩
        simp only [AJ_IO_BUF_SPACE] at hfull
        omega
      rw [WriteBytes_fit_gen bus msg data numBytes pad hnull hroom]
      apply HdrSafe_txAppend _ _ _ _ h
      simpa [memRead] using hroom

theorem MarshalContainer_inv (P : AJ_BusAttachment → Prop) (msg : AJ_Message)
    (hP : ∀ (b : AJ_BusAttachment) (d : AJ_Ptr) (n p : Nat),
      P b → P (WriteBytes b msg d n p).2)
    (bus : AJ_BusAttachment) (sig : AJ_Ptr) (arg : AJ_Arg) (pad : Nat) (h : P bus) :
    P (MarshalContainer bus msg sig arg pad).2.1 := by
  unfold MarshalContainer
  simp only [WritePad]
  split_ifs
  · exact hP _ _ _ _ (hP _ _ _ _ h)
  · exact hP _ _ _ _ h
  · exact hP _ _ _ _ h

theorem Marshal_inv (P : AJ_BusAttachment → Prop) (hostLE : Bool) (msg : AJ_Message)
    (hP : ∀ (b : AJ_BusAttachment) (d : AJ_Ptr) (n p : Nat),
      P b → P (WriteBytes b msg d n p).2)
    (bus : AJ_BusAttachment) (sig : AJ_Ptr) (arg : AJ_Arg) (h : P bus) :
    P (Marshal hostLE bus msg sig arg).2.1 := by
  have hC := MarshalContainer_inv P msg hP
  unfold Marshal
  simp only [WritePad]
  by_cases h1 : IsScalarType arg.typeId ≠ 0
  · rw [if_pos h1]
    by_cases h2 : arg.flags &&& AJ_ARRAY_FLAG ≠ 0
    · rw [if_pos h2]
      split_ifs
      · exact h
      · exact hP _ _ _ _ (hP _ _ _ _ h)
      · exact hP _ _ _ _ h
    · rw [if_neg h2]
      split_ifs
      · exact h
      · exact hP _ _ _ _ h
  · rw [if_neg h1]
    by_cases h3 : TYPE_FLAG (derefByte bus sig 0) &&& (AJ_STRING ||| AJ_VARIANT) ≠ 0
    · rw [if_pos h3]
      by_cases h4 : derefByte bus sig 0 ≠ arg.typeId
      · rw [if_pos h4]; exact h
      · rw [if_neg h4]
        by_cases h5 : ALIGNMENT (derefByte bus sig 0) = 1
            ∧ (if arg.len ≠ 0 then arg.len else strlen (derefFrom bus arg.val)) > 255
        · rw [if_pos h5]; exact h
        · rw [if_neg h5]
          by_cases h6 : ALIGNMENT (derefByte bus sig 0) = 1
          · simp only [if_pos h6]
            split_ifs <;> first
              | exact hP _ _ _ _ h
              | exact hP _ _ _ _ (hP _ _ _ _ h)
              | exact hP _ _ _ _ (hP _ _ _ _ (hP _ _ _ _ h))
          · simp only [if_neg h6]
            split_ifs <;> first
              | exact hP _ _ _ _ h
              | exact hP _ _ _ _ (hP _ _ _ _ h)
              | exact hP _ _ _ _ (hP _ _ _ _ (hP _ _ _ _ h))
    · rw [if_neg h3]
      split_ifs
      · exact h
      · exact hC _ _ _ _ h
      · exact h

theorem Marshal_hdr (hostLE : Bool) (bus : AJ_BusAttachment) (msg : AJ_Message)
    (sig : AJ_Ptr) (arg : AJ_Arg) :
    (Marshal hostLE bus msg sig arg).2.2.1.hdr = msg.hdr := by
  unfold Marshal
  simp only
  by_cases h1 : IsScalarType arg.typeId ≠ 0
  · rw [if_pos h1]
    split_ifs <;> rfl
  · rw [if_neg h1]
    by_cases h3 : TYPE_FLAG (derefByte bus sig 0) &&& (AJ_STRING ||| AJ_VARIANT) ≠ 0
    · rw [if_pos h3]
      by_cases h4 : derefByte bus sig 0 ≠ arg.typeId
      · rw [if_pos h4]
      · rw [if_neg h4]
        by_cases h5 : ALIGNMENT (derefByte bus sig 0) = 1
            ∧ (if arg.len ≠ 0 then arg.len else strlen (derefFrom bus arg.val)) > 255
        · rw [if_pos h5]
        · rw [if_neg h5]
          split_ifs <;> rfl
    · rw [if_neg h3]
      split_ifs <;> rfl

theorem MarshalMsgSwitch_hdr (ext : AJ_Externals) (hostLE : Bool) (msgType fieldId : Nat)
    (bus : AJ_BusAttachment) (msg : AJ_Message) (hdrVal a : AJ_Arg) (m1 : AJ_Message)
    (h : MarshalMsgSwitch ext hostLE msgType fieldId bus msg hdrVal = some (a, m1)) :
    m1.hdr = msg.hdr := by
  unfold MarshalMsgSwitch at h
  by_cases c0 : fieldId = AJ_HDR_OBJ_PATH
  · rw [if_pos c0] at h
    split_ifs at h <;> simp only [Option.some.injEq, Prod.mk.injEq] at h <;> rw [← h.2]
  rw [if_neg c0] at h
  by_cases c1 : fieldId = AJ_HDR_INTERFACE
  · rw [if_pos c1] at h
    simp only [Option.some.injEq, Prod.mk.injEq] at h
    rw [← h.2]
  rw [if_neg c1] at h
  by_cases c2 : fieldId = AJ_HDR_MEMBER
  · rw [if_pos c2] at h
    split_ifs at h <;> simp only [Option.some.injEq, Prod.mk.injEq] at h <;> rw [← h.2]
  rw [if_neg c2] at h
  by_cases c3 : fieldId = AJ_HDR_ERROR_NAME
  · rw [if_pos c3] at h
    split_ifs at h <;> simp only [Option.some.injEq, Prod.mk.injEq] at h <;> rw [← h.2]
  rw [if_neg c3] at h
  by_cases c4 : fieldId = AJ_HDR_REPLY_SERIAL
  · rw [if_pos c4] at h
    split_ifs at h <;> simp only [Option.some.injEq, Prod.mk.injEq] at h <;> rw [← h.2]
  rw [if_neg c4] at h
  by_cases c5 : fieldId = AJ_HDR_DESTINATION
  · rw [if_pos c5] at h
    simp only [Option.some.injEq, Prod.mk.injEq] at h
    rw [← h.2]
  rw [if_neg c5] at h
  by_cases c6 : fieldId = AJ_HDR_SENDER
  · rw [if_pos c6] at h
    simp only [Option.some.injEq, Prod.mk.injEq] at h
    rw [← h.2]
  rw [if_neg c6] at h
  by_cases c7 : fieldId = AJ_HDR_SIGNATURE
  · rw [if_pos c7] at h
    simp only [Option.some.injEq, Prod.mk.injEq] at h
    rw [← h.2]
  rw [if_neg c7] at h
  by_cases c8 : fieldId = AJ_HDR_TIMESTAMP
  · rw [if_pos c8] at h
    split_ifs at h <;> simp only [Option.some.injEq, Prod.mk.injEq] at h <;> rw [← h.2]
  rw [if_neg c8] at h
  by_cases c9 : fieldId = AJ_HDR_TIME_TO_LIVE
  · rw [if_pos c9] at h
    split_ifs at h <;> simp only [Option.some.injEq, Prod.mk.injEq] at h <;> rw [← h.2]
  rw [if_neg c9] at h
  by_cases c10 : fieldId = AJ_HDR_SESSION_ID
  · rw [if_pos c10] at h
    split_ifs at h <;> simp only [Option.some.injEq, Prod.mk.injEq] at h <;> rw [← h.2]
  rw [if_neg c10] at h
  exact absurd h (by simp)

theorem MarshalMsgField_safe (ext : AJ_Externals) (hostLE : Bool) (msgType fieldId : Nat)
    (bus : AJ_BusAttachment) (msg : AJ_Message) (s : List Nat) (c : Nat)
    (hhdr : msg.hdr ≠ AJ_HdrPtr.null) (h : HdrSafe s c bus) :
    HdrSafe s c (MarshalMsgField ext hostLE msgType fieldId bus msg).1
    ∧ (MarshalMsgField ext hostLE msgType fieldId bus msg).2.hdr = msg.hdr := by
  unfold MarshalMsgField
  simp only
  by_cases ht : TypeForHdr.getD fieldId 0 = AJ_ARG_INVALID
  · rw [if_pos ht]; exact ⟨h, rfl⟩
  · rw [if_neg ht]
    cases hsw : MarshalMsgSwitch ext hostLE msgType fieldId bus msg
        (InitArg (TypeForHdr.getD fieldId 0) AJ_Ptr.null) with
    | none => exact ⟨h, rfl⟩
    | some p =>
      obtain ⟨a, m1⟩ := p
      have hm1 := MarshalMsgSwitch_hdr ext hostLE msgType fieldId bus msg _ a m1 hsw
      simp only
      by_cases hv : a.val = AJ_Ptr.null
      · rw [if_pos hv]; exact ⟨h, hm1⟩
      · rw [if_neg hv]
        have hhdr1 : m1.hdr ≠ AJ_HdrPtr.null := by rw [hm1]; exact hhdr
        refine ⟨?_, ?_⟩
        · apply Marshal_inv (HdrSafe s c) hostLE m1
            (fun b d n p hb => WriteBytes_HdrSafe s c m1 hhdr1 b d n p hb)
          exact WriteBytes_HdrSafe s c m1 hhdr1 _ _ _ _ h
        · rw [Marshal_hdr]; exact hm1

theorem MarshalMsgFields_safe (ext : AJ_Externals) (hostLE : Bool) (msgType : Nat)
    (s : List Nat) (c : Nat) (fields : List Nat) :
    ∀ (bus : AJ_BusAttachment) (msg : AJ_Message),
      msg.hdr ≠ AJ_HdrPtr.null → HdrSafe s c bus →
      HdrSafe s c (MarshalMsgFields ext hostLE msgType fields bus msg).1
      ∧ (MarshalMsgFields ext hostLE msgType fields bus msg).2.hdr = msg.hdr := by
  induction fields with
  | nil => intro bus msg _ h; exact ⟨h, rfl⟩
  | cons f rest ih =>
    intro bus msg hhdr h
    obtain ⟨h1, h2⟩ := MarshalMsgField_safe ext hostLE msgType f bus msg s c hhdr h
    obtain ⟨h3, h4⟩ := ih _ _ (by rw [h2]; exact hhdr) h1
    simp only [MarshalMsgFields]
    exact ⟨h3, h4.trans h2⟩

theorem HdrSafe_headerLen (s : List Nat) (c : Nat) (bus : AJ_BusAttachment) (msg : AJ_Message)
    (bytes : List Nat) (hb : bytes.length = 4) (h : HdrSafe s c bus) :
    HdrSafe s c (hdrStore bus msg 12 bytes) := by
  obtain ⟨h1, ⟨r1, r2, r3⟩, h3, h4⟩ := h
  unfold hdrStore
  cases msg.hdr with
  | null => exact ⟨h1, ⟨r1, r2, r3⟩, h3, h4⟩
  | internalError => exact ⟨h1, ⟨r1, r2, r3⟩, h3, h4⟩
  | rx => exact ⟨h1, ⟨r1, r2, r3⟩, h3, h4⟩
  | tx =>
    refine ⟨h1, ⟨r1, ?_, r3⟩, ?_, h4⟩
    · show (writeBytesAt bus.tx.data 12 bytes).length = bus.tx.bufSize
      rw [length_writeBytesAt _ _ _ (by rw [hb]; omega)]; exact r2
    · show readBytes (writeBytesAt bus.tx.data 12 bytes) 8 4 = s
      rw [readBytes_writeBytesAt_before _ _ _ _ _ (by omega) (by omega)]; exact h3

theorem MarshalMsg_tail (ext : AJ_Externals) (hostLE : Bool) (msgType : Nat) (fields : List Nat)
    (s : List Nat) (c : Nat) (b5 : AJ_BusAttachment) (m1 : AJ_Message) (v p : Nat)
    (hhdr : m1.hdr = AJ_HdrPtr.tx) (h : HdrSafe s c b5) :
    HdrSafe s c (WritePad
      (hdrStore (MarshalMsgFields ext hostLE msgType fields b5 m1).1
        (MarshalMsgFields ext hostLE msgType fields b5 m1).2 12 (u32Bytes hostLE v))
      (MarshalMsgFields ext hostLE msgType fields b5 m1).2 p).2
    ∧ (MarshalMsgFields ext hostLE msgType fields b5 m1).2.hdr = AJ_HdrPtr.tx := by
  obtain ⟨h1, h2⟩ := MarshalMsgFields_safe ext hostLE msgType s c fields b5 m1
    (by rw [hhdr]; decide) h
  rw [hhdr] at h2
  refine ⟨?_, h2⟩
  unfold WritePad
  apply WriteBytes_HdrSafe s c _ (by rw [h2]; decide)
  exact HdrSafe_headerLen s c _ _ _ (length_u32Bytes _ _) h1

theorem MarshalMsgSerial_lt (c : Nat) (hc : c < 4294967296) :
    (MarshalMsgSerial c).1 < 4294967296 := by
  unfold MarshalMsgSerial
  simp only
  split_ifs <;> omega

theorem MarshalMsgHeader_safe (hostLE : Bool) (bus : AJ_BusAttachment) (msgType flags : Nat)
    (secure : Bool) (hsize : 16 ≤ bus.tx.bufSize) (hlen : bus.tx.data.length = bus.tx.bufSize)
    (h16 : bus.tx.bufSize < 65536) :
    HdrSafe (u32Bytes hostLE (MarshalMsgSerial bus.serial).1) (MarshalMsgSerial bus.serial).2
      (MarshalMsgHeader hostLE bus msgType flags secure) := by
  have e0 : (writeBytesAt bus.tx.data 0 (List.replicate 16 0)).length = bus.tx.data.length :=
    length_writeBytesAt _ _ _ (by simp; omega)
  generalize hd0 : writeBytesAt bus.tx.data 0 (List.replicate 16 0) = d0 at e0
  have e1 : (writeBytesAt d0 0 [HOST_ENDIANESS hostLE]).length = bus.tx.data.length := by
    rw [length_writeBytesAt _ _ _ (by simp; omega), e0]
  generalize hd1 : writeBytesAt d0 0 [HOST_ENDIANESS hostLE] = d1 at e1
  have e2 : (writeBytesAt d1 1 [msgType % 256]).length = bus.tx.data.length := by
    rw [length_writeBytesAt _ _ _ (by simp; omega), e1]
  generalize hd2 : writeBytesAt d1 1 [msgType % 256] = d2 at e2
  generalize hf : ((if secure = true then flags % 256 ||| AJ_FLAG_ENCRYPTED else flags % 256)
    ^^^ AJ_FLAG_AUTO_START) = f2
  have e3 : (writeBytesAt d2 2 [f2]).length = bus.tx.data.length := by
    rw [length_writeBytesAt _ _ _ (by simp; omega), e2]
  generalize hd3 : writeBytesAt d2 2 [f2] = d3 at e3
  have e4 : (writeBytesAt d3 8 (u32Bytes hostLE (MarshalMsgSerial bus.serial).1)).length
      = bus.tx.data.length := by
    rw [length_writeBytesAt _ _ _ (by rw [length_u32Bytes]; omega), e3]
  have hr := readBytes_writeBytesAt d3 8 (u32Bytes hostLE (MarshalMsgSerial bus.serial).1)
    (by omega)
  rw [length_u32Bytes] at hr
  unfold MarshalMsgHeader
  simp only [AJ_IO_BUF_RESET, hd0, hd1, hd2, hf, hd3]
  exact ⟨by show 16 ≤ 0 + 16; omega, ⟨by show 0 + 16 + 0 ≤ bus.tx.bufSize; omega,
    by rw [← hlen]; exact e4, h16⟩, hr, rfl⟩

/-- What `MarshalMsg` does with the serial number: when the registry accepts the
message id, the header is in the TX buffer, its field `serialNum` holds the value
that the loop over the serial counter produced, and the counter is what that loop
left. The header fields and the padding that are marshalled afterwards do not
touch it. -/
theorem MarshalMsg_serial (ext : AJ_Externals) (hostLE : Bool) (bus : AJ_BusAttachment)
    (msg : AJ_Message) (msgType msgId flags : Nat)
    (hinit : (ext.AJ_InitMessageFromMsgId msg (msgId % 4294967296) (msgType % 256)).1 = AJ_OK)
    (hsize : 16 ≤ bus.tx.bufSize) (hlen : bus.tx.data.length = bus.tx.bufSize)
    (h16 : bus.tx.bufSize < 65536) (hser : bus.serial < 4294967296) :
    (MarshalMsg ext hostLE bus msg msgType msgId flags).2.2.hdr = AJ_HdrPtr.tx
    ∧ hdrSerialNum hostLE (MarshalMsg ext hostLE bus msg msgType msgId flags).2.1
        (MarshalMsg ext hostLE bus msg msgType msgId flags).2.2 = (MarshalMsgSerial bus.serial).1
    ∧ (MarshalMsg ext hostLE bus msg msgType msgId flags).2.1.serial
        = (MarshalMsgSerial bus.serial).2 := by
  have hlt := MarshalMsgSerial_lt bus.serial hser
  have hsafe := MarshalMsgHeader_safe hostLE bus msgType flags
    (ext.AJ_InitMessageFromMsgId msg (msgId % 4294967296) (msgType % 256)).2.2 hsize hlen h16
  have tail := fun v p => MarshalMsg_tail ext hostLE (msgType % 256)
    (List.range' AJ_HDR_OBJ_PATH AJ_HDR_SESSION_ID) _ _
    (MarshalMsgHeader hostLE bus msgType flags
      (ext.AJ_InitMessageFromMsgId msg (msgId % 4294967296) (msgType % 256)).2.2)
    { (ext.AJ_InitMessageFromMsgId msg (msgId % 4294967296) (msgType % 256)).2.1 with
      hdr := AJ_HdrPtr.tx } v p rfl hsafe
  generalize hF : MarshalMsgFields ext hostLE (msgType % 256)
    (List.range' AJ_HDR_OBJ_PATH AJ_HDR_SESSION_ID)
    (MarshalMsgHeader hostLE bus msgType flags
      (ext.AJ_InitMessageFromMsgId msg (msgId % 4294967296) (msgType % 256)).2.2)
    { (ext.AJ_InitMessageFromMsgId msg (msgId % 4294967296) (msgType % 256)).2.1 with
      hdr := AJ_HdrPtr.tx } = F at tail
  have hM : MarshalMsg ext hostLE bus msg msgType msgId flags
      = ((WritePad (hdrStore F.1 F.2 12
            (u32Bytes hostLE ((F.1.tx.writePtr + 4294967296 - 16) % 4294967296))) F.2
          (((8 + 4294967296 - hdrHeaderLen hostLE (hdrStore F.1 F.2 12
            (u32Bytes hostLE ((F.1.tx.writePtr + 4294967296 - 16) % 4294967296))) F.2)
              % 4294967296) &&& 7)).1,
         (WritePad (hdrStore F.1 F.2 12
            (u32Bytes hostLE ((F.1.tx.writePtr + 4294967296 - 16) % 4294967296))) F.2
          (((8 + 4294967296 - hdrHeaderLen hostLE (hdrStore F.1 F.2 12
            (u32Bytes hostLE ((F.1.tx.writePtr + 4294967296 - 16) % 4294967296))) F.2)
              % 4294967296) &&& 7)).2,
         F.2) := by
    unfold MarshalMsg
    rw [if_neg (by rw [hinit]; decide)]
    simp only [hF]
  rw [hM]
  obtain ⟨⟨_, _, t3, t4⟩, t2⟩ := tail ((F.1.tx.writePtr + 4294967296 - 16) % 4294967296)
    (((8 + 4294967296 - hdrHeaderLen hostLE (hdrStore F.1 F.2 12
      (u32Bytes hostLE ((F.1.tx.writePtr + 4294967296 - 16) % 4294967296))) F.2)
        % 4294967296) &&& 7)
  refine ⟨t2, ?_, t4⟩
  show readU32 hostLE (hdrMem hostLE _ F.2) 8 = _
  simp only [hdrMem, t2]
  exact readU32_of_readBytes hostLE _ 8 _ t3 hlt

/-- C11 (amended): for every value of the serial counter, the serial number that
`MarshalMsg` writes into the header is nonzero; the counter that it leaves is
nonzero unless the counter was `0xFFFFFFFF`, in which case it leaves 0. -/
theorem C11_serial_nonzero (ext : AJ_Externals) (hostLE : Bool) (bus : AJ_BusAttachment)
    (msg : AJ_Message) (msgType msgId flags : Nat)
    (hinit : (ext.AJ_InitMessageFromMsgId msg (msgId % 4294967296) (msgType % 256)).1 = AJ_OK)
    (hsize : 16 ≤ bus.tx.bufSize) (hlen : bus.tx.data.length = bus.tx.bufSize)
    (h16 : bus.tx.bufSize < 65536) (hser : bus.serial < 4294967296) :
    (MarshalMsg ext hostLE bus msg msgType msgId flags).2.2.hdr = AJ_HdrPtr.tx
    ∧ hdrSerialNum hostLE (MarshalMsg ext hostLE bus msg msgType msgId flags).2.1
        (MarshalMsg ext hostLE bus msg msgType msgId flags).2.2 ≠ 0
    ∧ (bus.serial ≠ 4294967295 →
        (MarshalMsg ext hostLE bus msg msgType msgId flags).2.1.serial ≠ 0)
    ∧ (bus.serial = 4294967295 →
        (MarshalMsg ext hostLE bus msg msgType msgId flags).2.1.serial = 0) := by
  obtain ⟨h1, h2, h3⟩ :=
    MarshalMsg_serial ext hostLE bus msg msgType msgId flags hinit hsize hlen h16 hser
  rw [h2, h3]
  unfold MarshalMsgSerial
  simp only
  refine ⟨h1, ?_, ?_, ?_⟩
  · split_ifs <;> simp only <;> omega
  · intro hne
    split_ifs <;> simp only <;> omega
  · intro he
    split_ifs <;> simp only <;> omega

/-- Counterexample to C11 as stated: with the serial counter at `0xFFFFFFFF`,
`MarshalMsg` writes the serial number `0xFFFFFFFF` and leaves the counter at 0. -/
theorem C11_counterexample_counter_zero :
    (MarshalMsg noExternals true (c11Bus 4294967295) c11Msg AJ_MSG_METHOD_CALL 1 0).1 = AJ_OK
    ∧ hdrSerialNum true
        (MarshalMsg noExternals true (c11Bus 4294967295) c11Msg AJ_MSG_METHOD_CALL 1 0).2.1
        (MarshalMsg noExternals true (c11Bus 4294967295) c11Msg AJ_MSG_METHOD_CALL 1 0).2.2
      = 4294967295
    ∧ (MarshalMsg noExternals true (c11Bus 4294967295) c11Msg AJ_MSG_METHOD_CALL 1 0).2.1.serial
      = 0 := by
  decide

/-- Witness of C11: with the serial counter at 0 the header gets the serial number
1 (not 0) and the counter is left at 2. -/
theorem C11_serial_nonzero_witness :
    hdrSerialNum true
        (MarshalMsg noExternals true (c11Bus 0) c11Msg AJ_MSG_METHOD_CALL 1 0).2.1
        (MarshalMsg noExternals true (c11Bus 0) c11Msg AJ_MSG_METHOD_CALL 1 0).2.2 ≠ 0
    ∧ (MarshalMsg noExternals true (c11Bus 0) c11Msg AJ_MSG_METHOD_CALL 1 0).2.1.serial ≠ 0 :=
  ⟨(C11_serial_nonzero noExternals true (c11Bus 0) c11Msg AJ_MSG_METHOD_CALL 1 0
      (by decide) (by decide) (by decide) (by decide) (by decide)).2.1,
   (C11_serial_nonzero noExternals true (c11Bus 0) c11Msg AJ_MSG_METHOD_CALL 1 0
      (by decide) (by decide) (by decide) (by decide) (by decide)).2.2.1 (by decide)⟩

/-! ## C12: serial numbers in sequence -/

/-- C12 (amended): for every value of the serial counter, the serial number that
`MarshalMsg` writes into the header is not 0, and it is 1 exactly when the counter
is 0 or 1; the next message marshalled on the bus gets a strictly larger serial
number, unless the counter was `0xFFFFFFFF` (the counter wraps). -/
theorem C12_serial_sequence (ext : AJ_Externals) (hostLE : Bool) (bus bus2 : AJ_BusAttachment)
    (msg msg2 : AJ_Message) (msgType msgId flags msgType2 msgId2 flags2 : Nat)
    (hinit : (ext.AJ_InitMessageFromMsgId msg (msgId % 4294967296) (msgType % 256)).1 = AJ_OK)
    (hinit2 : (ext.AJ_InitMessageFromMsgId msg2 (msgId2 % 4294967296) (msgType2 % 256)).1
      = AJ_OK)
    (hsize : 16 ≤ bus.tx.bufSize) (hlen : bus.tx.data.length = bus.tx.bufSize)
    (h16 : bus.tx.bufSize < 65536) (hser : bus.serial < 4294967296)
    (hsize2 : 16 ≤ bus2.tx.bufSize) (hlen2 : bus2.tx.data.length = bus2.tx.bufSize)
    (h162 : bus2.tx.bufSize < 65536)
    (hnext : bus2.serial = (MarshalMsg ext hostLE bus msg msgType msgId flags).2.1.serial) :
    hdrSerialNum hostLE (MarshalMsg ext hostLE bus msg msgType msgId flags).2.1
        (MarshalMsg ext hostLE bus msg msgType msgId flags).2.2 ≠ 0
    ∧ (hdrSerialNum hostLE (MarshalMsg ext hostLE bus msg msgType msgId flags).2.1
          (MarshalMsg ext hostLE bus msg msgType msgId flags).2.2 = 1
        ↔ bus.serial = 0 ∨ bus.serial = 1)
    ∧ (bus.serial ≠ 4294967295 →
        hdrSerialNum hostLE (MarshalMsg ext hostLE bus msg msgType msgId flags).2.1
            (MarshalMsg ext hostLE bus msg msgType msgId flags).2.2
          < hdrSerialNum hostLE (MarshalMsg ext hostLE bus2 msg2 msgType2 msgId2 flags2).2.1
              (MarshalMsg ext hostLE bus2 msg2 msgType2 msgId2 flags2).2.2) := by
  obtain ⟨_, h2, h3⟩ :=
    MarshalMsg_serial ext hostLE bus msg msgType msgId flags hinit hsize hlen h16 hser
  rw [h3] at hnext
  have hser2 : bus2.serial < 4294967296 := by
    rw [hnext]; unfold MarshalMsgSerial; simp only
    split_ifs <;> simp only <;> omega
  obtain ⟨_, k2, _⟩ :=
    MarshalMsg_serial ext hostLE bus2 msg2 msgType2 msgId2 flags2 hinit2 hsize2 hlen2 h162 hser2
  rw [h2, k2, hnext]
  unfold MarshalMsgSerial
  simp only
  refine ⟨?_, ?_, ?_⟩
  · split_ifs <;> simp only <;> omega
  · split_ifs <;> simp only <;> omega
  · intro hne
    split_ifs <;> simp only <;> omega

/-- Counterexample to C12 as stated: with the serial counter at 1, `MarshalMsg`
writes the serial number 1. -/
theorem C12_counterexample_serial_one :
    (MarshalMsg noExternals true (c11Bus 1) c11Msg AJ_MSG_METHOD_CALL 1 0).1 = AJ_OK
    ∧ hdrSerialNum true
        (MarshalMsg noExternals true (c11Bus 1) c11Msg AJ_MSG_METHOD_CALL 1 0).2.1
        (MarshalMsg noExternals true (c11Bus 1) c11Msg AJ_MSG_METHOD_CALL 1 0).2.2 = 1 := by
  decide

/-- Witness of C12: two messages marshalled in a row from the counter value 7 get
the serial numbers 7 and 8. -/
theorem C12_serial_sequence_witness :
    hdrSerialNum true
        (MarshalMsg noExternals true (c11Bus 7) c11Msg AJ_MSG_METHOD_CALL 1 0).2.1
        (MarshalMsg noExternals true (c11Bus 7) c11Msg AJ_MSG_METHOD_CALL 1 0).2.2
      < hdrSerialNum true
          (MarshalMsg noExternals true (c11Bus 8) c11Msg AJ_MSG_SIGNAL 2 0).2.1
          (MarshalMsg noExternals true (c11Bus 8) c11Msg AJ_MSG_SIGNAL 2 0).2.2 :=
  (C12_serial_sequence noExternals true (c11Bus 7) (c11Bus 8) c11Msg c11Msg
    AJ_MSG_METHOD_CALL 1 0 AJ_MSG_SIGNAL 2 0 (by decide) (by decide) (by decide) (by decide)
    (by decide) (by decide) (by decide) (by decide) (by decide) (by decide)).2.2 (by decide)

/-! ## C17: header fields with an unknown id -/

/-- C17: a received message whose header carries, behind the member field, a
well-formed field `(10, variant u = 7)` with the undefined field id 10 is rejected
with `AJ_ERR_UNMARSHAL`, while the same message without that field is accepted with
the member set, and so is the message with the field id 20 in place of 10. -/
theorem C17_unknown_field_rejected :
    (AJ_UnmarshalMsg noExternals true (c17BusExtra 10)).map (fun r => r.1)
      = some AJ_ERR_UNMARSHAL
    ∧ (AJ_UnmarshalMsg noExternals true c17BusPlain).map (fun r => (r.1, r.2.2.member))
      = some (AJ_OK, AJ_Ptr.rx 24)
    ∧ (AJ_UnmarshalMsg noExternals true (c17BusExtra 20)).map (fun r => (r.1, r.2.2.member))
      = some (AJ_OK, AJ_Ptr.rx 24)
    ∧ (AJ_UnmarshalMsg noExternals true (c17BusExtra 0)).map (fun r => r.1)
      = some AJ_ERR_UNMARSHAL
    ∧ TypeForHdr.getD 10 0 = AJ_ARG_INVALID := by
  decide!

/-! ## C21: the parse of an IS-AT reply -/

theorem writeBytesAt_same (d : List Nat) (q : Nat) (h : q < d.length) :
    writeBytesAt d q [d.getD q 0] = d := by
  rw [writeBytesAt_eq _ _ _ (by omega)]
  have hg : d.getD q 0 = d[q] := by
    rw [List.getD_eq_getElem?_getD, List.getElem?_eq_getElem h]; rfl
  rw [hg, List.append_assoc]
  simp only [List.length_cons, List.length_nil, List.singleton_append]
  rw [show q + (0 + 1) = q + 1 by omega, ← List.drop_eq_getElem_cons h, List.take_append_drop]

theorem writeBytesAt_twice (d : List Nat) (q x y : Nat) (h : q < d.length) :
    writeBytesAt (writeBytesAt d q [x]) q [y] = writeBytesAt d q [y] := by
  have := writeBytesAt_overwrite d [x] [y] [] q rfl (by simp; omega)
  simpa using this

/-- The byte behind a name is saved, overwritten with a NUL and put back: inside
the memory of the buffer this changes nothing; behind its end it leaves zeros. -/
theorem savRestore (data : List Nat) (q : Nat) :
    writeBytesAt (writeBytesAt data q [0]) q [data.getD q 0]
      = data ++ List.replicate (q + 1 - data.length) 0 := by
  by_cases h : q < data.length
  · have h1 : q + 1 - data.length = 0 := by omega
    rw [h1, writeBytesAt_twice _ _ _ _ h, writeBytesAt_same _ _ h]
    simp
  · have hq : data.length ≤ q := by omega
    have hg : data.getD q 0 = 0 := by
      rw [List.getD_eq_getElem?_getD, List.getElem?_eq_none hq]; rfl
    have e1 : writeBytesAt data q [0] = data ++ List.replicate (q + 1 - data.length) 0 := by
      simp only [writeBytesAt]
      rw [List.take_of_length_le hq, List.drop_of_length_le (by simp; omega),
        show q + 1 - data.length = (q - data.length) + 1 by omega, List.replicate_succ']
      simp
    rw [hg, e1]
    have hl : (data ++ List.replicate (q + 1 - data.length) 0).length = q + 1 := by
      simp; omega
    have hz : (data ++ List.replicate (q + 1 - data.length) 0).getD q 0 = 0 := by
      rw [List.getD_eq_getElem?_getD, List.getElem?_append_right hq]
      simp only [List.getElem?_replicate]
      split_ifs <;> rfl
    have := writeBytesAt_same (data ++ List.replicate (q + 1 - data.length) 0) q (by omega)
    rw [hz] at this
    exact this

theorem readBytes_append_left (d z : List Nat) (p n : Nat) (h : p + n ≤ d.length) :
    readBytes (d ++ z) p n = readBytes d p n := by
  simp only [readBytes]
  rw [List.drop_append_of_le_length (by omega), List.take_append_of_le_length (by simp; omega)]

theorem readBytes_take (d : List Nat) (p k m : Nat) (h : k ≤ m) :
    readBytes d p k = (readBytes d p m).take k := by
  simp only [readBytes, List.take_take, Nat.min_eq_left h]

theorem length_cstr (s : List Nat) : (cstr s).length = strlen s := by
  simp only [cstr, List.length_take]
  exact Nat.min_eq_left (strlen_le_length s)

/-- The test of one name in `ParseIsAt` is the test whether the characters of the
prefix are a prefix of the name. -/
theorem nsMatch_iff (pre n d : List Nat) (p1 : Nat) (hn : readBytes d p1 n.length = n) :
    (strlen pre ≤ n.length ∧ readBytes d p1 (strlen pre) = pre.take (strlen pre))
      ↔ List.IsPrefix (cstr pre) n := by
  rw [List.prefix_iff_eq_take, length_cstr]
  constructor
  · rintro ⟨h1, h2⟩
    rw [readBytes_take d p1 _ _ h1, hn] at h2
    exact h2.symm
  · intro h
    have hl : strlen pre ≤ n.length := by
      have := congrArg List.length h
      rw [length_cstr, List.length_take] at this
      omega
    refine ⟨hl, ?_⟩
    rw [readBytes_take d p1 _ _ hl, hn]
    exact h.symm

/-- The loop over the names of an answer, on names that lie in the buffer in front
of `eod`: it leaves with `AJ_OK` when the prefix is a prefix of one of the names,
and runs to its end otherwise. -/
theorem nsMatchNames_spec (pre : List Nat) (eod : Nat) :
    ∀ (names : List (List Nat)) (data : List Nat) (p : Nat),
      (∀ n ∈ names, n.length ≤ 255) →
      readBytes data p (encNames names).length = encNames names →
      p + (encNames names).length = eod → eod ≤ data.length →
      ((∃ n ∈ names, List.IsPrefix (cstr pre) n) →
        (nsMatchNames pre (strlen pre) eod names.length data p).1 = some AJ_OK)
      ∧ ((¬ ∃ n ∈ names, List.IsPrefix (cstr pre) n) →
        (nsMatchNames pre (strlen pre) eod names.length data p).1 = none) := by
  intro names
  induction names with
  | nil =>
    intro data p _ _ _ _
    exact ⟨fun h => by simp at h, fun _ => rfl⟩
  | cons n rest ih =>
    intro data p hlen hread hend hle
    have hn : n.length ≤ 255 := hlen n (by simp)
    have henc : (encNames (n :: rest)).length = 1 + (n.length + (encNames rest).length) := by
      simp [encNames]; omega
    rw [henc] at hread hend
    have hread' : readBytes data p (([n.length] : List Nat).length
        + (n.length + (encNames rest).length)) = [n.length] ++ (n ++ encNames rest) := by
      simpa [encNames] using hread
    have h0 : data.getD p 0 = n.length :=
      getD_of_readBytes_singleton _ _ _
        (readBytes_split_left data p _ [n.length] _ hread' (by simp; omega))
    have h1 := readBytes_split data p _ [n.length] _ hread' (by simp; omega)
    simp only [List.length_cons, List.length_nil] at h1
    have hname : readBytes data (p + 1) n.length = n :=
      readBytes_split_left data (p + 1) _ n _ (by simpa using h1) (by omega)
    have hrest : readBytes data (p + 1 + n.length) (encNames rest).length = encNames rest :=
      readBytes_split data (p + 1) _ n _ (by simpa using h1) (by omega)
    simp only [List.length_cons, nsMatchNames, h0, savRestore]
    generalize hz : List.replicate (p + 1 + n.length + 1 - data.length) 0 = z
    have hname1 : readBytes (data ++ z) (p + 1) n.length = n := by
      rw [readBytes_append_left _ _ _ _ (by omega)]; exact hname
    have hiff := nsMatch_iff pre n (data ++ z) (p + 1) hname1
    by_cases hm : List.IsPrefix (cstr pre) n
    · rw [if_pos (hiff.mpr hm)]
      exact ⟨fun _ => rfl, fun h => absurd ⟨n, by simp, hm⟩ h⟩
    · rw [if_neg (fun h => hm (hiff.mp h)), if_neg (by omega)]
      obtain ⟨i1, i2⟩ := ih (data ++ z) (p + 1 + n.length)
        (fun m hmem => hlen m (by simp [hmem]))
        (by rw [readBytes_append_left _ _ _ _ (by omega)]; exact hrest)
        (by omega) (by simp only [List.length_append]; omega)
      constructor
      · rintro ⟨m, hmem, hp⟩
        rcases List.mem_cons.mp hmem with rfl | hmem
        · exact absurd hp hm
        · exact i1 ⟨m, hmem, hp⟩
      · intro hno
        exact i2 (fun ⟨m, hmem, hp⟩ => hno ⟨m, by simp [hmem], hp⟩)

theorem be16_decode (m : Nat) (h : m < 65536) : ((m / 256) <<< 8 ||| m % 256) % 65536 = m := by
  rw [Nat.shiftLeft_eq, Nat.mul_comm, ← Nat.mul_add_lt_is_or (by omega : m % 256 < 2 ^ 8)]
  omega

theorem getD_writeBytesAt_other (data : List Nat) (off x i : Nat)
    (h : off + 1 ≤ data.length) (hi : i ≠ off) :
    (writeBytesAt data off [x]).getD i 0 = data.getD i 0 := by
  rw [getD_writeBytesAt _ _ _ _ (by simpa using h), if_neg]
  simp only [List.length_cons, List.length_nil]
  omega

theorem encNames_pos (names : List (List Nat)) (h : names ≠ []) :
    0 < (encNames names).length := by
  cases names with
  | nil => exact absurd rfl h
  | cons n rest => simp [encNames]

/-- The parse of `isAtPacket`, on the memory of the buffer. -/
theorem nsAnswers_isAt (pre : List Nat) (d : List Nat) (r ttl version m port a0 a1 a2 a3 : Nat)
    (names : List (List Nat)) (service : AJ_Service)
    (hread : readBytes d r (isAtPacket version ttl m [a0, a1, a2, a3] port names).length
      = isAtPacket version ttl m [a0, a1, a2, a3] port names)
    (hle : r + (isAtPacket version ttl m [a0, a1, a2, a3] port names).length ≤ d.length)
    (hm : m < 65536) (hport : port < 65536)
    (hne : names ≠ []) (hlen : ∀ n ∈ names, n.length ≤ 255) :
    d.getD r 0 = version ∧ d.getD (r + 1) 0 = 0
    ∧ (writeBytesAt d (r + 1) [255]).getD (r + 2) 0 = 1
    ∧ ((∃ n ∈ names, List.IsPrefix (cstr pre) n) →
        (nsAnswers pre (strlen pre) r
          (r + (isAtPacket version ttl m [a0, a1, a2, a3] port names).length) 1
          (writeBytesAt d (r + 1) [255]) (r + 4) service).1 = AJ_OK)
    ∧ ((¬ ∃ n ∈ names, List.IsPrefix (cstr pre) n) →
        (nsAnswers pre (strlen pre) r
          (r + (isAtPacket version ttl m [a0, a1, a2, a3] port names).length) 1
          (writeBytesAt d (r + 1) [255]) (r + 4) service).1 = AJ_ERR_NO_MATCH)
    ∧ (nsAnswers pre (strlen pre) r
          (r + (isAtPacket version ttl m [a0, a1, a2, a3] port names).length) 1
          (writeBytesAt d (r + 1) [255]) (r + 4) service).2.2
        = { service with addrTypes := (service.addrTypes ||| AJ_ADDR_IPV4) % 256,
                         transportMask := m, ipv4 := [a0, a1, a2, a3], ipv4port := port } := by
  have hpk : isAtPacket version ttl m [a0, a1, a2, a3] port names
      = [version, 0, 1, ttl, IS_AT_MSG ||| R4_FLAG, names.length, m / 256, m % 256,
          a0, a1, a2, a3, port / 256, port % 256] ++ encNames names := rfl
  have hL : (isAtPacket version ttl m [a0, a1, a2, a3] port names).length
      = 14 + (encNames names).length := by
    rw [hpk, List.length_append]; rfl
  have hE := encNames_pos names hne
  rw [hL] at hread hle ⊢
  rw [hpk] at hread
  generalize hl14 : [version, 0, 1, ttl, IS_AT_MSG ||| R4_FLAG, names.length, m / 256, m % 256,
          a0, a1, a2, a3, port / 256, port % 256] = l14 at hread
  have hl14len : l14.length = 14 := by rw [← hl14]; rfl
  have hread' : readBytes d r (l14.length + (encNames names).length) = l14 ++ encNames names := by
    rw [hl14len]; exact hread
  have h14 : readBytes d r 14 = l14 := by
    have := readBytes_split_left d r _ l14 _ hread' (by omega)
    rwa [hl14len] at this
  have hnames : readBytes d (r + 14) (encNames names).length = encNames names := by
    have := readBytes_split d r _ l14 _ hread' (by omega)
    rwa [hl14len] at this
  have hb : ∀ i, i < 14 → d.getD (r + i) 0 = l14.getD i 0 := by
    intro i hi
    rw [← h14, getD_readBytes _ _ _ _ hi]
  have b0 : d.getD r 0 = version := by have := hb 0 (by omega); rw [← hl14] at this; simpa using this
  have b1 : d.getD (r + 1) 0 = 0 := by have := hb 1 (by omega); rw [← hl14] at this; simpa using this
  have b2 : d.getD (r + 2) 0 = 1 := by have := hb 2 (by omega); rw [← hl14] at this; simpa using this
  have b4 : d.getD (r + 4) 0 = IS_AT_MSG ||| R4_FLAG := by
    have := hb 4 (by omega); rw [← hl14] at this; simpa using this
  have b5 : d.getD (r + 5) 0 = names.length := by
    have := hb 5 (by omega); rw [← hl14] at this; simpa using this
  have b6 : d.getD (r + 6) 0 = m / 256 := by
    have := hb 6 (by omega); rw [← hl14] at this; simpa using this
  have b7 : d.getD (r + 7) 0 = m % 256 := by
    have := hb 7 (by omega); rw [← hl14] at this; simpa using this
  have b12 : d.getD (r + 12) 0 = port / 256 := by
    have := hb 12 (by omega); rw [← hl14] at this; simpa using this
  have b13 : d.getD (r + 13) 0 = port % 256 := by
    have := hb 13 (by omega); rw [← hl14] at this; simpa using this
  have ha : readBytes d (r + 8) 4 = [a0, a1, a2, a3] := by
    have e1 : readBytes d r (([version, 0, 1, ttl, IS_AT_MSG ||| R4_FLAG, names.length, m / 256,
        m % 256] : List Nat).length + 6)
        = [version, 0, 1, ttl, IS_AT_MSG ||| R4_FLAG, names.length, m / 256, m % 256]
          ++ [a0, a1, a2, a3, port / 256, port % 256] := by
      rw [← hl14] at h14; exact h14
    have e2 := readBytes_split d r _ _ _ e1 (by simp; omega)
    have e3 : readBytes d (r + 8) (([a0, a1, a2, a3] : List Nat).length + 2)
        = [a0, a1, a2, a3] ++ [port / 256, port % 256] := e2
    exact readBytes_split_left d (r + 8) _ _ _ e3 (by simp; omega)
  generalize hd1 : writeBytesAt d (r + 1) [255] = d1
  have hd1len : d1.length = d.length := by
    rw [← hd1]; exact length_writeBytesAt _ _ _ (by simp; omega)
  have g1 : ∀ i, i ≠ r + 1 → d1.getD i 0 = d.getD i 0 := by
    intro i hi
    rw [← hd1]; exact getD_writeBytesAt_other _ _ _ _ (by omega) hi
  generalize hd2 : writeBytesAt d1 (r + 2) [0] = d2
  have hd2len : d2.length = d.length := by
    rw [← hd2, length_writeBytesAt _ _ _ (by simp; omega)]; exact hd1len
  have g2 : ∀ i, i ≠ r + 1 → i ≠ r + 2 → d2.getD i 0 = d.getD i 0 := by
    intro i hi hi2
    rw [← hd2, getD_writeBytesAt_other _ _ _ _ (by omega) hi2]; exact g1 i hi
  have r2 : ∀ p n, r + 3 ≤ p → readBytes d2 p n = readBytes d p n := by
    intro p n hp
    rw [← hd2, readBytes_writeBytesAt_after _ _ _ _ _ (by simp; omega) (by simp; omega), ← hd1,
      readBytes_writeBytesAt_after _ _ _ _ _ (by simp; omega) (by simp; omega)]
  refine ⟨b0, b1, by rw [g1 _ (by omega)]; exact b2, ?_⟩
  have hspec := nsMatchNames_spec pre (r + (14 + (encNames names).length)) names d2 (r + 14) hlen
    (by rw [r2 _ _ (by omega)]; exact hnames) (by omega) (by omega)
  have hmt : MSG_TYPE (IS_AT_MSG ||| R4_FLAG) = IS_AT_MSG := by decide
  have f1 : ¬ ((IS_AT_MSG ||| R4_FLAG) &&& (R4_FLAG ||| R6_FLAG) = 0) := by decide
  have f2 : (IS_AT_MSG ||| R4_FLAG) &&& R4_FLAG ≠ 0 := by decide
  have f3 : ¬ ((IS_AT_MSG ||| R4_FLAG) &&& U4_FLAG ≠ 0) := by decide
  have f4 : ¬ ((IS_AT_MSG ||| R4_FLAG) &&& R6_FLAG ≠ 0) := by decide
  have f5 : ¬ ((IS_AT_MSG ||| R4_FLAG) &&& U6_FLAG ≠ 0) := by decide
  have f6 : ¬ ((IS_AT_MSG ||| R4_FLAG) &&& G_FLAG ≠ 0) := by decide
  have c4 : d2.getD (r + 4) 0 = IS_AT_MSG ||| R4_FLAG := by rw [g2 _ (by omega) (by omega)]; exact b4
  have c5 : d2.getD (r + 4 + 1) 0 = names.length := by
    rw [g2 _ (by omega) (by omega)]; exact b5
  have c6 : d2.getD (r + 4 + 2) 0 = m / 256 := by rw [g2 _ (by omega) (by omega)]; exact b6
  have c7 : d2.getD (r + 4 + 2 + 1) 0 = m % 256 := by rw [g2 _ (by omega) (by omega)]; exact b7
  have c12 : d2.getD (r + 4 + 2 + 2 + 4) 0 = port / 256 := by
    rw [g2 _ (by omega) (by omega)]; exact b12
  have c13 : d2.getD (r + 4 + 2 + 2 + 5) 0 = port % 256 := by
    rw [g2 _ (by omega) (by omega)]; exact b13
  have ca : readBytes d2 (r + 4 + 2 + 2) 4 = [a0, a1, a2, a3] := by
    rw [r2 _ _ (by omega)]; exact ha
  have hp7 : ¬ (r + 4 + 2 + 2 + 6 ≥ r + (14 + (encNames names).length)) := by omega
  have key : nsAnswers pre (strlen pre) r (r + (14 + (encNames names).length)) 1 d1 (r + 4) service
      = match nsMatchNames pre (strlen pre) (r + (14 + (encNames names).length)) names.length d2
            (r + 14) with
        | (some st, data2, _) => (st, data2,
            { service with addrTypes := (service.addrTypes ||| AJ_ADDR_IPV4) % 256,
                           transportMask := m, ipv4 := [a0, a1, a2, a3], ipv4port := port })
        | (none, data2, p8) => nsAnswers pre (strlen pre) r (r + (14 + (encNames names).length)) 0
            data2 p8
            { service with addrTypes := (service.addrTypes ||| AJ_ADDR_IPV4) % 256,
                           transportMask := m, ipv4 := [a0, a1, a2, a3], ipv4port := port } := by
    rw [nsAnswers]
    simp only [hd2, c4, c5, c6, c7, c12, c13, ca, hmt, be16_decode m hm, be16_decode port hport]
    rw [if_neg (by simp), if_neg f1, if_pos f2, if_neg f3, if_neg f4, if_neg f5, if_neg f6,
      if_neg hp7]
    simp only [if_pos f2, if_neg f4, show r + 4 + 2 + 2 + 6 = r + 14 by omega]
  rw [key]
  rcases hres : nsMatchNames pre (strlen pre) (r + (14 + (encNames names).length)) names.length d2
      (r + 14) with ⟨st, d3, p8⟩
  rw [hres] at hspec
  cases st with
  | some s =>
    refine ⟨fun h => ?_, fun h => ?_, rfl⟩
    · have := hspec.1 h
      simp only [Option.some.injEq] at this
      exact this
    · have := hspec.2 h
      simp at this
  | none =>
    refine ⟨fun h => ?_, fun _ => ?_, ?_⟩
    · have := hspec.1 h
      simp at this
    · simp [nsAnswers]
    · simp [nsAnswers]

/-- C21 (amended): for a version-1 packet with no questions and one IS-AT answer
with the flag `R4`, a transport mask `m`, four address bytes `a`, a port and a
non-empty list of names, received into the RX buffer, `ParseIsAt` returns `AJ_OK`
if and only if the characters of the prefix are a byte prefix of one of the names;
it then reports `transportMask = m`, the address bytes `a` in the order of the wire,
`ipv4port = port` and `addrTypes = AJ_ADDR_IPV4`; otherwise it returns
`AJ_ERR_NO_MATCH`. -/
theorem C21_is_at_parse (rxBuf : AJ_IOBuffer) (pre : List Nat) (service : AJ_Service)
    (version ttl m port : Nat) (a : List Nat) (names : List (List Nat))
    (hv : MSG_VERSION version = MSG_V1) (ha : a.length = 4)
    (hm : m < 65536) (hport : port < 65536)
    (hne : names ≠ []) (hlen : ∀ n ∈ names, n.length ≤ 255)
    (hpre : strlen pre < SIZE_T_MOD)
    (hread : readBytes rxBuf.data rxBuf.readPtr (isAtPacket version ttl m a port names).length
      = isAtPacket version ttl m a port names)
    (hw : rxBuf.writePtr = rxBuf.readPtr + (isAtPacket version ttl m a port names).length)
    (hle : rxBuf.writePtr ≤ rxBuf.data.length)
    (h32 : rxBuf.data.length < 4294967296) :
    ((ParseIsAt rxBuf pre service).1 = AJ_OK ↔ ∃ n ∈ names, List.IsPrefix (cstr pre) n)
    ∧ ((ParseIsAt rxBuf pre service).1 = AJ_OK →
        (ParseIsAt rxBuf pre service).2.2
          = { service with addrTypes := AJ_ADDR_IPV4, transportMask := m, ipv4 := a,
                           ipv4port := port })
    ∧ ((ParseIsAt rxBuf pre service).1 ≠ AJ_OK →
        (ParseIsAt rxBuf pre service).1 = AJ_ERR_NO_MATCH) := by
  obtain ⟨a0, a1, a2, a3, rfl⟩ : ∃ a0 a1 a2 a3, a = [a0, a1, a2, a3] := by
    match a, ha with
    | [a0, a1, a2, a3], _ => exact ⟨a0, a1, a2, a3, rfl⟩
  rw [hw] at hle
  obtain ⟨b0, b1, b2, hyes, hno, hsvc⟩ := nsAnswers_isAt pre rxBuf.data rxBuf.readPtr ttl version m
    port a0 a1 a2 a3 names { service with addrTypes := 0 } hread hle hm hport hne hlen
  have hav : AJ_IO_BUF_AVAIL rxBuf % 4294967296
      = (isAtPacket version ttl m [a0, a1, a2, a3] port names).length := by
    have : AJ_IO_BUF_AVAIL rxBuf = rxBuf.writePtr - rxBuf.readPtr := rfl
    rw [this, hw, Nat.add_sub_cancel_left]
    exact Nat.mod_eq_of_lt (by omega)
  have hp : strlen pre % SIZE_T_MOD = strlen pre := Nat.mod_eq_of_lt hpre
  have hP : ParseIsAt rxBuf pre service
      = ((nsAnswers pre (strlen pre) rxBuf.readPtr
            (rxBuf.readPtr + (isAtPacket version ttl m [a0, a1, a2, a3] port names).length) 1
            (writeBytesAt rxBuf.data (rxBuf.readPtr + 1) [255]) (rxBuf.readPtr + 4)
            { service with addrTypes := 0 }).1,
         { rxBuf with data := (nsAnswers pre (strlen pre) rxBuf.readPtr
            (rxBuf.readPtr + (isAtPacket version ttl m [a0, a1, a2, a3] port names).length) 1
            (writeBytesAt rxBuf.data (rxBuf.readPtr + 1) [255]) (rxBuf.readPtr + 4)
            { service with addrTypes := 0 }).2.1 },
         (nsAnswers pre (strlen pre) rxBuf.readPtr
            (rxBuf.readPtr + (isAtPacket version ttl m [a0, a1, a2, a3] port names).length) 1
            (writeBytesAt rxBuf.data (rxBuf.readPtr + 1) [255]) (rxBuf.readPtr + 4)
            { service with addrTypes := 0 }).2.2) := by
    unfold ParseIsAt
    simp only [hav, hp, b0, b1, hv]
    rw [if_neg (by simp)]
    simp only [nsQuestions, b2]
  rw [hP]
  have hsvc' : (nsAnswers pre (strlen pre) rxBuf.readPtr
      (rxBuf.readPtr + (isAtPacket version ttl m [a0, a1, a2, a3] port names).length) 1
      (writeBytesAt rxBuf.data (rxBuf.readPtr + 1) [255]) (rxBuf.readPtr + 4)
      { service with addrTypes := 0 }).2.2
      = { service with addrTypes := AJ_ADDR_IPV4, transportMask := m, ipv4 := [a0, a1, a2, a3],
                       ipv4port := port } := by
    rw [hsvc]; simp [AJ_ADDR_IPV4]
  by_cases hex : ∃ n ∈ names, List.IsPrefix (cstr pre) n
  · have h1 := hyes hex
    exact ⟨⟨fun _ => hex, fun _ => h1⟩, fun _ => hsvc', fun h => absurd h1 h⟩
  · have h1 := hno hex
    refine ⟨⟨fun h => ?_, fun h => absurd h hex⟩, fun _ => hsvc', fun _ => h1⟩
    rw [h1] at h
    exact absurd h (by decide)

/-- C21, counterexample to the claim as stated: for the packet of the example with
an empty list of names (name count 0) no name has the prefix, and `ParseIsAt`
returns `AJ_ERR_END_OF_DATA`, not `AJ_ERR_NO_MATCH`. -/
theorem C21_counterexample_no_names :
    (c21Buf []).data.take 14 = isAtPacket 0x11 120 4 [192, 168, 1, 10] 9955 []
    ∧ AJ_IO_BUF_AVAIL (c21Buf []) = 14
    ∧ MSG_VERSION 0x11 = MSG_V1
    ∧ (ParseIsAt (c21Buf []) (nsPrefixBytes ++ [0]) {}).1 = AJ_ERR_END_OF_DATA
    ∧ (ParseIsAt (c21Buf []) (nsPrefixBytes ++ [0]) {}).1 ≠ AJ_ERR_NO_MATCH := by
  decide

/-- Witness of C21 on the example: mask `0x0004`, address `192.168.1.10`, port 9955,
name `org.alljoyn.Bus.sample`, prefix `org.alljoyn.Bus`. -/
theorem C21_is_at_parse_witness :
    (ParseIsAt (c21Buf [nsNameBytes]) (nsPrefixBytes ++ [0]) {}).1 = AJ_OK
    ∧ (ParseIsAt (c21Buf [nsNameBytes]) (nsPrefixBytes ++ [0]) {}).2.2
        = { addrTypes := AJ_ADDR_IPV4, transportMask := 4, ipv4 := [192, 168, 1, 10],
            ipv4port := 9955 } := by
  have h := C21_is_at_parse (c21Buf [nsNameBytes]) (nsPrefixBytes ++ [0]) {} 0x11 120 4 9955
    [192, 168, 1, 10] [nsNameBytes] (by decide) (by decide) (by decide) (by decide) (by decide)
    (by decide) (by decide) (by decide) (by decide) (by decide) (by decide)
  have hok := h.1.mpr ⟨nsNameBytes, by decide, by decide⟩
  exact ⟨hok, h.2.1 hok⟩

/-! ## C22: truncated name-service packets -/

/-- C22: a packet that ends behind the length byte of its only name (15 bytes
received) is answered with `AJ_OK` when the memory behind the received bytes
happens to hold `org.alljoyn.Bus.sample` (left there by an earlier packet), and with
`AJ_ERR_END_OF_DATA` when it holds zeros: the result depends on bytes beyond the
received data, which are compared before the test `p > eod`. -/
theorem C22_match_beyond_received_data :
    AJ_IO_BUF_AVAIL (c22Buf nsNameBytes) = 15
    ∧ AJ_IO_BUF_AVAIL (c22Buf []) = 15
    ∧ readBytes (c22Buf nsNameBytes).data 0 15 = readBytes (c22Buf []).data 0 15
    ∧ (ParseIsAt (c22Buf nsNameBytes) (nsPrefixBytes ++ [0]) {}).1 = AJ_OK
    ∧ (ParseIsAt (c22Buf []) (nsPrefixBytes ++ [0]) {}).1 = AJ_ERR_END_OF_DATA := by
  decide

/-! ## C23: the result of discovery -/

/-- C23: with `timeout = 0` (and a successful `AJ_Net_MCastUp`) `AJ_Discover`
returns `AJ_OK` for every prefix, socket and clock without a call of `recv` or of
`ParseIsAt`: the socket and `*service` are as before. And when the deadline passes
after a packet that does not match was received (prefix `com`, the reply of the
example, 1001 ms on both stopwatches) it returns `AJ_ERR_NO_MATCH`, not
`AJ_ERR_TIMEOUT`. -/
theorem C23_discover_ok_without_match :
    (∀ (pre : List Nat) (service : AJ_Service) (sock : AJ_NetSocket) (elapsed : List Nat),
      AJ_Discover pre service 0 { mcastUp := AJ_OK, elapsed := elapsed } sock
        = some (AJ_OK, sock, service, elapsed))
    ∧ (AJ_Discover [99, 111, 109, 0] {} 1000 { mcastUp := AJ_OK, elapsed := [1001, 1001] }
        (c23Sock (isAtPacket 0x11 120 4 [192, 168, 1, 10] 9955 [nsNameBytes]))).map
          (fun r => r.1) = some AJ_ERR_NO_MATCH := by
  constructor
  · intro pre service sock elapsed
    simp only [AJ_Discover, ne_eq, not_true_eq_false, if_false, Nat.zero_mod]
    cases elapsed.length <;> rw [discoverLoop, if_pos (by omega)]
  · decide

/-! ## Lemmas on the NVRAM store -/

theorem length_u16Bytes (hostLE : Bool) (v : Nat) : (u16Bytes hostLE v).length = 2 := by
  unfold u16Bytes; split_ifs <;> rfl

theorem length_encRecord (hostLE : Bool) (r : NVRecord) :
    (encRecord hostLE r).length = 4 + r.payload.length := by
  simp only [encRecord, List.length_append, length_u16Bytes]

theorem length_encRecords (hostLE : Bool) (recs : List NVRecord) :
    (encRecords hostLE recs).length = recsLen recs := by
  induction recs with
  | nil => rfl
  | cons r rs ih => simp only [encRecords, recsLen, List.length_append, length_encRecord, ih]

theorem length_nvStore (hostLE : Bool) (s : List Nat) (recs : List NVRecord) (t : Nat) :
    (nvStore hostLE s recs t).length = s.length + recsLen recs + t := by
  simp only [nvStore, List.length_append, length_encRecords, List.length_replicate]

theorem getD_append_at (a b : List Nat) (i : Nat) :
    (a ++ b).getD (a.length + i) 0 = b.getD i 0 := by
  simp only [List.getD_eq_getElem?_getD]
  rw [List.getElem?_append_right (by omega)]
  simp

theorem readU16_at (hostLE : Bool) (a rest : List Nat) (v off : Nat) (hv : v < 65536)
    (hoff : off = a.length) :
    readU16 hostLE (a ++ (u16Bytes hostLE v ++ rest)) off = v := by
  subst hoff
  have h0 : (a ++ (u16Bytes hostLE v ++ rest)).getD a.length 0
      = (u16Bytes hostLE v ++ rest).getD 0 0 := getD_append_at a _ 0
  have h1 := getD_append_at a (u16Bytes hostLE v ++ rest) 1
  unfold readU16
  rw [h0, h1]
  unfold u16Bytes
  cases hostLE <;> simp <;> omega

/-- The header of a record that lies at the offset `off`: its id, its capacity and
its bytes. -/
theorem record_at (hostLE : Bool) (a rest : List Nat) (r : NVRecord) (off : Nat)
    (hid : r.id < 65536) (hcap : r.payload.length < 65536) (hoff : off = a.length) :
    readU16 hostLE (a ++ (encRecord hostLE r ++ rest)) off = r.id
    ∧ readU16 hostLE (a ++ (encRecord hostLE r ++ rest)) (off + 2) = r.payload.length
    ∧ readBytes (a ++ (encRecord hostLE r ++ rest)) off (4 + r.payload.length)
        = encRecord hostLE r := by
  refine ⟨?_, ?_, ?_⟩
  · have := readU16_at hostLE a (u16Bytes hostLE r.payload.length ++ r.payload ++ rest) r.id off
      hid hoff
    simpa [encRecord, List.append_assoc] using this
  · have := readU16_at hostLE (a ++ u16Bytes hostLE r.id) (r.payload ++ rest) r.payload.length
      (off + 2) hcap (by simp [length_u16Bytes, hoff])
    simpa [encRecord, List.append_assoc] using this
  · subst hoff
    simp only [readBytes, List.drop_left]
    rw [← length_encRecord hostLE r, List.take_left]

theorem readU16_erased (hostLE : Bool) (a rest : List Nat) (t off : Nat) (ht : 2 ≤ t)
    (hoff : off = a.length) :
    readU16 hostLE (a ++ (List.replicate t INVALID_DATA_BYTE ++ rest)) off = INVALID_DATA := by
  obtain ⟨k, rfl⟩ : ∃ k, t = k + 2 := ⟨t - 2, by omega⟩
  have := readU16_at hostLE a (List.replicate k INVALID_DATA_BYTE ++ rest) 65535 off (by omega) hoff
  have e : List.replicate (k + 2) INVALID_DATA_BYTE = u16Bytes hostLE 65535
      ++ List.replicate k INVALID_DATA_BYTE := by
    rw [show k + 2 = 2 + k by omega, List.replicate_add]
    congr 1
    cases hostLE <;> rfl
  rw [e, List.append_assoc]
  exact this
theorem entry_step (cap : Nat) (h : cap % 4 = 0) :
    2 * ((ENTRY_HEADER_SIZE + cap) >>> 1) = 4 + cap := by
  rw [Nat.shiftRight_eq_div_pow]
  simp only [ENTRY_HEADER_SIZE]
  omega

theorem recsLen_ge (recs : List NVRecord) : 4 * recs.length ≤ recsLen recs := by
  induction recs with
  | nil => simp [recsLen]
  | cons r rs ih => simp only [recsLen, List.length_cons]; omega

theorem recsLen_mem_le (recs : List NVRecord) (r : NVRecord) (h : r ∈ recs) :
    4 + r.payload.length ≤ recsLen recs := by
  induction recs with
  | nil => simp at h
  | cons x xs ih =>
    simp only [recsLen]
    rcases List.mem_cons.mp h with rfl | h
    · omega
    · have := ih h
      omega

theorem recsLen_append (a b : List NVRecord) : recsLen (a ++ b) = recsLen a + recsLen b := by
  induction a with
  | nil => simp [recsLen]
  | cons r rs ih =>
    show recsLen (r :: (rs ++ b)) = _
    simp only [recsLen, ih]; omega

theorem encRecords_append (hostLE : Bool) (a b : List NVRecord) :
    encRecords hostLE (a ++ b) = encRecords hostLE a ++ encRecords hostLE b := by
  induction a with
  | nil => simp [encRecords]
  | cons r rs ih =>
    show encRecords hostLE (r :: (rs ++ b)) = _
    simp only [encRecords, ih, List.append_assoc]

/-- The walk of `AJ_FindNVEntry` over records: it stops at the first record with
the id, and otherwise arrives behind the records. -/
theorem findNVLoop_records (hostLE : Bool) (id : Nat) (nv tail : List Nat) :
    ∀ (rs : List NVRecord) (a : List Nat) (fuel off : Nat),
      nv = a ++ (encRecords hostLE rs ++ tail) → off = a.length →
      (∀ r ∈ rs, r.id < 65535 ∧ r.payload.length % 4 = 0 ∧ r.payload.length < 65536) →
      findNVLoop hostLE nv id (fuel + rs.length) off
        = if (findRecord id rs off).isSome then findRecord id rs off
          else findNVLoop hostLE nv id fuel (off + recsLen rs) := by
  intro rs
  induction rs with
  | nil =>
    intro a fuel off _ _ _
    simp [findRecord, recsLen]
  | cons r rs ih =>
    intro a fuel off hnv hoff hok
    obtain ⟨hid, hcap4, hcap⟩ := hok r (by simp)
    have hnv' : nv = a ++ (encRecord hostLE r ++ (encRecords hostLE rs ++ tail)) := by
      rw [hnv]; simp only [encRecords, List.append_assoc]
    obtain ⟨e1, e2, _⟩ := record_at hostLE a (encRecords hostLE rs ++ tail) r off (by omega) hcap
      hoff
    rw [← hnv'] at e1 e2
    have hlt : off < nv.length := by
      rw [hnv', hoff]
      simp only [List.length_append, length_encRecord]
      omega
    rw [show fuel + (r :: rs).length = (fuel + rs.length) + 1 by simp; omega, findNVLoop,
      if_pos hlt, e1, e2]
    by_cases h : r.id = id
    · rw [if_neg (by simpa using h)]
      simp [findRecord, h]
    · rw [if_pos h, if_neg (by simp only [INVALID_DATA]; omega), entry_step _ hcap4]
      have := ih (a ++ encRecord hostLE r) fuel (off + (4 + r.payload.length))
        (by rw [hnv']; simp only [List.append_assoc])
        (by simp only [List.length_append, length_encRecord, hoff])
        (fun x hx => hok x (by simp [hx]))
      rw [this]
      simp only [findRecord, if_neg h, recsLen]
      rw [show off + (4 + r.payload.length) = off + 4 + r.payload.length by omega,
        show off + 4 + r.payload.length + recsLen rs = off + (4 + r.payload.length + recsLen rs)
          by omega]

/-- The walk of `AJ_FindNVEntry` at the erased tail of the region. -/
theorem findNVLoop_tail (hostLE : Bool) (id : Nat) (a : List Nat) (t fuel off : Nat)
    (hoff : off = a.length) (ht : t % 4 = 0) :
    findNVLoop hostLE (a ++ List.replicate t INVALID_DATA_BYTE) id (fuel + 1) off
      = if t ≠ 0 ∧ id = INVALID_DATA then some off else none := by
  rw [findNVLoop]
  by_cases h0 : t = 0
  · subst h0
    rw [if_neg (by simp [hoff]), if_neg (by simp)]
  · have hlt : off < (a ++ List.replicate t INVALID_DATA_BYTE).length := by
      simp only [List.length_append, List.length_replicate]; omega
    have e := readU16_erased hostLE a [] t off (by omega) hoff
    rw [List.append_nil] at e
    rw [if_pos hlt, e]
    by_cases hid : id = INVALID_DATA
    · rw [if_neg (by simp [hid]), if_pos ⟨h0, hid⟩]
    · rw [if_pos (fun h => hid h.symm), if_pos rfl, if_neg (fun h => hid h.2)]

/-- What `AJ_FindNVEntry` returns on a well-formed store. -/
theorem AJ_FindNVEntry_store (hostLE : Bool) (s : List Nat) (recs : List NVRecord) (t id : Nat)
    (hwf : NVWellFormed s recs t) :
    AJ_FindNVEntry hostLE (nvStore hostLE s recs t) id
      = if (findRecord id recs 4).isSome then findRecord id recs 4
        else if t ≠ 0 ∧ id = INVALID_DATA then some (4 + recsLen recs) else none := by
  obtain ⟨hs, hrec, ht, hlen⟩ := hwf
  have hge := recsLen_ge recs
  have hfuel : (nvStore hostLE s recs t).length
      = (3 + recsLen recs + t - recs.length + 1) + recs.length := by
    rw [length_nvStore, hs]; omega
  unfold AJ_FindNVEntry
  rw [hfuel]
  have hnv : nvStore hostLE s recs t
      = s ++ (encRecords hostLE recs ++ List.replicate t INVALID_DATA_BYTE) := by
    simp only [nvStore, List.append_assoc]
  rw [findNVLoop_records hostLE id _ (List.replicate t INVALID_DATA_BYTE) recs s _ SENTINEL_OFFSET
    hnv hs.symm (fun r hr => ⟨(hrec r hr).1, (hrec r hr).2, by
      have := recsLen_mem_le recs r hr
      omega⟩)]
  have hnv2 : nvStore hostLE s recs t
      = (s ++ encRecords hostLE recs) ++ List.replicate t INVALID_DATA_BYTE := rfl
  rw [hnv2, findNVLoop_tail hostLE id _ t _ _ (by
    simp only [List.length_append, length_encRecords, hs]) ht]
/-- The copy of a record `E` over the garbage `junk` in front of it: the record now
lies behind `A`, and as many bytes of garbage as before lie behind the record. -/
theorem compact_copy (A junk E R : List Nat) :
    writeBytesAt (A ++ (junk ++ (E ++ R))) A.length E
      = A ++ (E ++ ((junk ++ E).drop E.length ++ R)) := by
  rw [writeBytesAt_eq _ _ _ (by simp)]
  rw [List.take_left, List.drop_append, ← List.append_assoc junk E R,
    List.drop_append_of_le_length (by simp)]
  simp only [List.append_assoc]

theorem liveRecords_cons_live (r : NVRecord) (rs : List NVRecord) (h : r.id ≠ 0) :
    liveRecords (r :: rs) = r :: liveRecords rs := by
  simp [liveRecords, h]

theorem liveRecords_cons_dead (r : NVRecord) (rs : List NVRecord) (h : r.id = 0) :
    liveRecords (r :: rs) = liveRecords rs := by
  simp [liveRecords, h]

/-- The loop of `_AJ_CompactNVStorage` over records: the live records are moved to
the front in their order, the garbage collects behind them. -/
theorem compactLoop_records (hostLE : Bool) (t : Nat) (ht : t % 4 = 0) :
    ∀ (rs : List NVRecord) (A junk : List Nat) (fuel : Nat),
      (∀ r ∈ rs, r.id < 65535 ∧ r.payload.length % 4 = 0) →
      junk.length + recsLen rs < 65536 →
      ∃ junk1 : List Nat, junk1.length + recsLen (liveRecords rs) = junk.length + recsLen rs ∧
        compactLoop hostLE (fuel + rs.length + 1)
            (A ++ (junk ++ (encRecords hostLE rs ++ List.replicate t INVALID_DATA_BYTE)))
            (A.length + junk.length) A.length junk.length
          = some (A ++ (encRecords hostLE (liveRecords rs)
                ++ (junk1 ++ List.replicate t INVALID_DATA_BYTE)),
              A.length + recsLen (liveRecords rs), junk1.length) := by
  intro rs
  induction rs with
  | nil =>
    intro A junk fuel _ _
    refine ⟨junk, by simp [liveRecords], ?_⟩
    have hcond : ¬ (A.length + junk.length
          < (A ++ (junk ++ (encRecords hostLE [] ++ List.replicate t INVALID_DATA_BYTE))).length
        ∧ readU16 hostLE
            (A ++ (junk ++ (encRecords hostLE [] ++ List.replicate t INVALID_DATA_BYTE)))
            (A.length + junk.length) ≠ INVALID_DATA) := by
      rintro ⟨h1, h2⟩
      simp only [encRecords, List.nil_append, List.length_append, List.length_replicate] at h1
      apply h2
      have := readU16_erased hostLE (A ++ junk) [] t (A.length + junk.length) (by omega)
        (by simp)
      simpa [encRecords, List.append_assoc] using this
    rw [show fuel + ([] : List NVRecord).length + 1 = fuel + 1 by simp, compactLoop, if_neg hcond]
    simp [liveRecords, encRecords, recsLen]
  | cons r rs ih =>
    intro A junk fuel hok hlen
    obtain ⟨hid, hcap4⟩ := hok r (by simp)
    have hrl : recsLen (r :: rs) = 4 + r.payload.length + recsLen rs := rfl
    rw [hrl] at hlen
    generalize hT : List.replicate t INVALID_DATA_BYTE = T
    have hnv : A ++ (junk ++ (encRecords hostLE (r :: rs) ++ T))
        = (A ++ junk) ++ (encRecord hostLE r ++ (encRecords hostLE rs ++ T)) := by
      simp only [encRecords, List.append_assoc]
    obtain ⟨e1, e2, e3⟩ := record_at hostLE (A ++ junk) (encRecords hostLE rs ++ T) r
      (A.length + junk.length) (by omega) (by omega) (by simp)
    rw [← hnv] at e1 e2 e3
    have hlt : A.length + junk.length < (A ++ (junk ++ (encRecords hostLE (r :: rs) ++ T))).length := by
      rw [hnv]
      simp only [List.length_append, length_encRecord]
      omega
    have hes : (ENTRY_HEADER_SIZE + r.payload.length) % 65536 = 4 + r.payload.length := by
      simp only [ENTRY_HEADER_SIZE]; omega
    have hstep : 2 * ((4 + r.payload.length) >>> 1) = 4 + r.payload.length :=
      entry_step _ hcap4
    rw [show fuel + (r :: rs).length + 1 = (fuel + rs.length + 1) + 1 by simp; omega, compactLoop,
      if_pos ⟨hlt, by rw [e1]; simp only [INVALID_DATA]; omega⟩]
    simp only [e1, e2, hes, hstep, e3]
    by_cases hlive : r.id = 0
    · rw [if_neg (by simp [INVALID_ID, hlive])]
      obtain ⟨junk1, hj, hrun⟩ := ih A (junk ++ encRecord hostLE r) fuel
        (fun x hx => hok x (by simp [hx]))
        (by simp only [List.length_append, length_encRecord]; omega)
      refine ⟨junk1, ?_, ?_⟩
      · rw [liveRecords_cons_dead r rs hlive, hrl]
        simp only [List.length_append, length_encRecord] at hj
        omega
      · rw [liveRecords_cons_dead r rs hlive]
        rw [hT] at hrun
        simp only [List.length_append, length_encRecord, List.append_assoc] at hrun
        rw [Nat.mod_eq_of_lt (by omega)]
        simp only [encRecords, List.append_assoc]
        rw [show A.length + junk.length + (4 + r.payload.length)
          = A.length + (junk.length + (4 + r.payload.length)) by omega]
        exact hrun
    · rw [if_pos (by simpa [INVALID_ID] using hlive)]
      have hcopy := compact_copy A junk (encRecord hostLE r) (encRecords hostLE rs ++ T)
      have hnv2 : A ++ (junk ++ (encRecords hostLE (r :: rs) ++ T))
          = A ++ (junk ++ (encRecord hostLE r ++ (encRecords hostLE rs ++ T))) := by
        simp only [encRecords, List.append_assoc]
      rw [hnv2]
      unfold _AJ_NV_Write
      rw [hcopy]
      generalize hJ : (junk ++ encRecord hostLE r).drop (encRecord hostLE r).length = J
      have hJlen : J.length = junk.length := by
        rw [← hJ]; simp
      obtain ⟨junk1, hj, hrun⟩ := ih (A ++ encRecord hostLE r) J fuel
        (fun x hx => hok x (by simp [hx]))
        (by rw [hJlen]; omega)
      refine ⟨junk1, ?_, ?_⟩
      · rw [liveRecords_cons_live r rs hlive, hrl]
        have : recsLen (r :: liveRecords rs) = 4 + r.payload.length + recsLen (liveRecords rs) := rfl
        rw [this]
        omega
      · rw [liveRecords_cons_live r rs hlive]
        rw [hT] at hrun
        simp only [List.length_append, length_encRecord, List.append_assoc, hJlen] at hrun
        simp only [encRecords, List.append_assoc]
        have hr2 : recsLen (r :: liveRecords rs)
            = 4 + r.payload.length + recsLen (liveRecords rs) := rfl
        rw [hr2]
        rw [show A.length + junk.length + (4 + r.payload.length)
            = A.length + (4 + r.payload.length) + junk.length by omega,
          show A.length + (4 + r.payload.length + recsLen (liveRecords rs))
            = A.length + (4 + r.payload.length) + recsLen (liveRecords rs) by omega]
        exact hrun

/-! ## C27, C28: compaction -/

theorem recsLen_liveRecords_le (recs : List NVRecord) :
    recsLen (liveRecords recs) ≤ recsLen recs := by
  induction recs with
  | nil => simp [liveRecords]
  | cons r rs ih =>
    by_cases h : r.id = 0
    · rw [liveRecords_cons_dead r rs h]; simp only [recsLen]; omega
    · rw [liveRecords_cons_live r rs h]; simp only [recsLen]; omega

theorem liveRecords_idem (recs : List NVRecord) :
    liveRecords (liveRecords recs) = liveRecords recs := by
  simp [liveRecords]

theorem mem_liveRecords (recs : List NVRecord) (r : NVRecord) :
    r ∈ liveRecords recs ↔ r ∈ recs ∧ r.id ≠ 0 := by
  simp [liveRecords]

theorem NVWellFormed_live (s : List Nat) (recs : List NVRecord) (t : Nat)
    (hwf : NVWellFormed s recs t) :
    NVWellFormed s (liveRecords recs) (t + garbageLen recs) := by
  obtain ⟨hs, hrec, ht, hlen⟩ := hwf
  have hle := recsLen_liveRecords_le recs
  have hmod : ∀ rs : List NVRecord, (∀ r ∈ rs, r.payload.length % 4 = 0) → recsLen rs % 4 = 0 := by
    intro rs
    induction rs with
    | nil => intro _; rfl
    | cons r rs ih =>
      intro h
      have h1 := h r (by simp)
      have h2 := ih (fun x hx => h x (by simp [hx]))
      simp only [recsLen]; omega
  have m1 := hmod recs (fun r hr => (hrec r hr).2)
  have m2 := hmod (liveRecords recs)
    (fun r hr => (hrec r ((mem_liveRecords recs r).mp hr).1).2)
  refine ⟨hs, fun r hr => hrec r ((mem_liveRecords recs r).mp hr).1, ?_, ?_⟩
  · unfold garbageLen; omega
  · unfold garbageLen; omega

/-- What `_AJ_CompactNVStorage` does to a well-formed store. -/
theorem CompactNVStorage_store (hostLE : Bool) (s : List Nat) (recs : List NVRecord) (t : Nat)
    (hwf : NVWellFormed s recs t) :
    _AJ_CompactNVStorage hostLE (nvStore hostLE s recs t)
      = some (AJ_OK, nvStore hostLE s (liveRecords recs) (t + garbageLen recs)) := by
  obtain ⟨hs, hrec, ht, hlen⟩ := hwf
  have hge := recsLen_ge recs
  have hle := recsLen_liveRecords_le recs
  obtain ⟨junk1, hj, hrun⟩ := compactLoop_records hostLE t ht recs s []
    (s.length + recsLen recs + t - recs.length) hrec (by simp only [List.length_nil]; omega)
  have hfuel : (nvStore hostLE s recs t).length + 1
      = (s.length + recsLen recs + t - recs.length) + recs.length + 1 := by
    rw [length_nvStore]; omega
  have hnv : nvStore hostLE s recs t
      = s ++ ([] ++ (encRecords hostLE recs ++ List.replicate t INVALID_DATA_BYTE)) := by
    simp only [nvStore, List.append_assoc, List.nil_append]
  simp only [List.length_nil, Nat.add_zero] at hrun hj
  unfold _AJ_CompactNVStorage
  rw [hfuel, hnv, show SENTINEL_OFFSET = s.length from hs.symm, hrun]
  simp only
  have hg : junk1.length = garbageLen recs := by unfold garbageLen; omega
  have hw := writeBytesAt_eq
    (s ++ (encRecords hostLE (liveRecords recs) ++ (junk1 ++ List.replicate t INVALID_DATA_BYTE)))
    (s.length + recsLen (liveRecords recs)) (List.replicate junk1.length INVALID_DATA_BYTE)
    (by simp only [List.length_append, length_encRecords]; omega)
  rw [hw]
  have e1 : s ++ (encRecords hostLE (liveRecords recs)
        ++ (junk1 ++ List.replicate t INVALID_DATA_BYTE))
      = (s ++ encRecords hostLE (liveRecords recs))
        ++ (junk1 ++ List.replicate t INVALID_DATA_BYTE) := by
    simp only [List.append_assoc]
  have e2 : s.length + recsLen (liveRecords recs)
      = (s ++ encRecords hostLE (liveRecords recs)).length := by
    simp only [List.length_append, length_encRecords]
  rw [e1, e2, List.take_left, List.length_replicate, List.drop_append, List.drop_left, hg]
  simp only [nvStore, List.append_assoc]
  rw [show t + garbageLen recs = garbageLen recs + t by omega, List.replicate_add]

/-- C27: on a well-formed store `_AJ_CompactNVStorage` returns; the region then
holds the unchanged sentinel, the live records (id, capacity, payload) in their
order and contiguous from the first record position, and an erased tail that is
longer by the bytes of the removed tombstones; no tombstone is left, and the store
is well formed. -/
theorem C27_compaction (hostLE : Bool) (s : List Nat) (recs : List NVRecord) (t : Nat)
    (hwf : NVWellFormed s recs t) :
    _AJ_CompactNVStorage hostLE (nvStore hostLE s recs t)
      = some (AJ_OK, nvStore hostLE s (liveRecords recs) (t + garbageLen recs))
    ∧ (∀ r ∈ liveRecords recs, r.id ≠ 0)
    ∧ liveRecords (liveRecords recs) = liveRecords recs
    ∧ recsLen (liveRecords recs) + garbageLen recs = recsLen recs
    ∧ (nvStore hostLE s (liveRecords recs) (t + garbageLen recs)).length
        = (nvStore hostLE s recs t).length
    ∧ NVWellFormed s (liveRecords recs) (t + garbageLen recs) := by
  have hle := recsLen_liveRecords_le recs
  refine ⟨CompactNVStorage_store hostLE s recs t hwf,
    fun r hr => ((mem_liveRecords recs r).mp hr).2, liveRecords_idem recs, ?_, ?_,
    NVWellFormed_live s recs t hwf⟩
  · unfold garbageLen; omega
  · rw [length_nvStore, length_nvStore]; unfold garbageLen; omega

/-- Witness of C27: the store with the records 7, tombstone, 9 and 12 erased bytes
becomes the store with the records 7, 9 and 20 erased bytes. -/
theorem C27_compaction_witness :
    _AJ_CompactNVStorage true (nvStore true [65, 74, 78, 86] nvExampleRecords 12)
      = some (AJ_OK, [65, 74, 78, 86, 7, 0, 4, 0, 1, 2, 3, 4, 9, 0, 4, 0, 5, 6, 7, 8]
          ++ List.replicate 20 255) := by
  have h := (C27_compaction true [65, 74, 78, 86] nvExampleRecords 12
    (by unfold NVWellFormed; decide)).1
  rw [h]
  decide

/-- C28: on a well-formed store a second run of `_AJ_CompactNVStorage` returns the
region that the first run returned, byte for byte. -/
theorem C28_compaction_idempotent (hostLE : Bool) (s : List Nat) (recs : List NVRecord) (t : Nat)
    (hwf : NVWellFormed s recs t) :
    ∃ nv1 : List Nat,
      _AJ_CompactNVStorage hostLE (nvStore hostLE s recs t) = some (AJ_OK, nv1)
      ∧ _AJ_CompactNVStorage hostLE nv1 = some (AJ_OK, nv1) := by
  refine ⟨nvStore hostLE s (liveRecords recs) (t + garbageLen recs),
    CompactNVStorage_store hostLE s recs t hwf, ?_⟩
  have h2 := CompactNVStorage_store hostLE s (liveRecords recs) (t + garbageLen recs)
    (NVWellFormed_live s recs t hwf)
  have hg : garbageLen (liveRecords recs) = 0 := by
    unfold garbageLen; rw [liveRecords_idem]; omega
  rw [h2, liveRecords_idem, hg, Nat.add_zero]

/-- Witness of C28 on the store with the records 7, tombstone, 9. -/
theorem C28_compaction_idempotent_witness :
    ∃ nv1 : List Nat,
      _AJ_CompactNVStorage true (nvStore true [65, 74, 78, 86] nvExampleRecords 12)
        = some (AJ_OK, nv1)
      ∧ _AJ_CompactNVStorage true nv1 = some (AJ_OK, nv1) :=
  C28_compaction_idempotent true [65, 74, 78, 86] nvExampleRecords 12
    (by unfold NVWellFormed; decide)

/-! ## C26: delete -/

theorem findRecord_none (id : Nat) :
    ∀ (rs : List NVRecord) (off : Nat), (∀ x ∈ rs, x.id ≠ id) → findRecord id rs off = none := by
  intro rs
  induction rs with
  | nil => intro _ _; rfl
  | cons r rs ih =>
    intro off h
    simp only [findRecord]
    rw [if_neg (h r (by simp))]
    exact ih _ (fun x hx => h x (by simp [hx]))

theorem findRecord_append (id : Nat) (r : NVRecord) (post : List NVRecord) :
    ∀ (pre : List NVRecord) (off : Nat), (∀ x ∈ pre, x.id ≠ id) →
      findRecord id (pre ++ r :: post) off
        = if r.id = id then some (off + recsLen pre)
          else findRecord id post (off + recsLen pre + 4 + r.payload.length) := by
  intro pre
  induction pre with
  | nil => intro off _; simp [findRecord, recsLen]
  | cons p ps ih =>
    intro off h
    show findRecord id (p :: (ps ++ r :: post)) off = _
    simp only [findRecord]
    rw [if_neg (h p (by simp)), ih _ (fun x hx => h x (by simp [hx]))]
    simp only [recsLen]
    rw [show off + 4 + p.payload.length + recsLen ps = off + (4 + p.payload.length + recsLen ps)
      by omega]

theorem nvStore_split (hostLE : Bool) (s : List Nat) (pre : List NVRecord) (r : NVRecord)
    (post : List NVRecord) (t : Nat) :
    nvStore hostLE s (pre ++ r :: post) t
      = (s ++ encRecords hostLE pre)
        ++ (encRecord hostLE r
          ++ (encRecords hostLE post ++ List.replicate t INVALID_DATA_BYTE)) := by
  simp only [nvStore, encRecords_append, encRecords, List.append_assoc]

/-- What `AJ_NVRAM_Exist` returns on a well-formed store for an id that no record
has. -/
theorem AJ_NVRAM_Exist_absent (hostLE : Bool) (s : List Nat) (recs : List NVRecord) (t id : Nat)
    (hwf : NVWellFormed s recs t) (hidF : id ≠ 0xFFFF) (h : ∀ x ∈ recs, x.id ≠ id) :
    AJ_FindNVEntry hostLE (nvStore hostLE s recs t) id = none
    ∧ AJ_NVRAM_Exist hostLE (nvStore hostLE s recs t) id = false := by
  have hf : AJ_FindNVEntry hostLE (nvStore hostLE s recs t) id = none := by
    rw [AJ_FindNVEntry_store hostLE s recs t id hwf, findRecord_none id recs 4 h]
    simp [INVALID_DATA, hidF]
  refine ⟨hf, ?_⟩
  unfold AJ_NVRAM_Exist
  rw [hf]
  simp

/-- What `AJ_FindNVEntry` returns on a well-formed store for the id of a record
that is the first with this id. -/
theorem AJ_FindNVEntry_present (hostLE : Bool) (s : List Nat) (pre : List NVRecord)
    (r : NVRecord) (post : List NVRecord) (t : Nat)
    (hwf : NVWellFormed s (pre ++ r :: post) t) (hpre : ∀ x ∈ pre, x.id ≠ r.id) :
    AJ_FindNVEntry hostLE (nvStore hostLE s (pre ++ r :: post) t) r.id
      = some (4 + recsLen pre) := by
  rw [AJ_FindNVEntry_store hostLE s _ t r.id hwf, findRecord_append r.id r post pre 4 hpre]
  simp

/-- What `AJ_NVRAM_Delete` does on a well-formed store to the first record with the
id: the id of its header becomes 0. -/
theorem AJ_NVRAM_Delete_store (hostLE : Bool) (s : List Nat) (pre : List NVRecord)
    (r : NVRecord) (post : List NVRecord) (t : Nat)
    (hwf : NVWellFormed s (pre ++ r :: post) t) (hpre : ∀ x ∈ pre, x.id ≠ r.id) :
    AJ_NVRAM_Delete hostLE (nvStore hostLE s (pre ++ r :: post) t) r.id
      = (AJ_OK, nvStore hostLE s (pre ++ { r with id := 0 } :: post) t)
    ∧ nvStore hostLE s (pre ++ { r with id := 0 } :: post) t
      = writeBytesAt (nvStore hostLE s (pre ++ r :: post) t) (4 + recsLen pre) [0, 0] := by
  have hs := hwf.1
  have hfind := AJ_FindNVEntry_present hostLE s pre r post t hwf hpre
  have hoff : 4 + recsLen pre = (s ++ encRecords hostLE pre).length := by
    simp only [List.length_append, length_encRecords, hs]
  have hcapb : readBytes (nvStore hostLE s (pre ++ r :: post) t) (4 + recsLen pre + 2) 2
      = u16Bytes hostLE r.payload.length := by
    have e : nvStore hostLE s (pre ++ r :: post) t
        = ((s ++ encRecords hostLE pre) ++ u16Bytes hostLE r.id)
          ++ (u16Bytes hostLE r.payload.length
            ++ (r.payload ++ (encRecords hostLE post ++ List.replicate t INVALID_DATA_BYTE))) := by
      simp only [nvStore, encRecords_append, encRecords, encRecord, List.append_assoc]
    have hl : 4 + recsLen pre + 2 = ((s ++ encRecords hostLE pre) ++ u16Bytes hostLE r.id).length := by
      simp only [List.length_append, length_encRecords, length_u16Bytes, hs]
    rw [e, hl]
    simp only [readBytes, List.drop_left]
    rw [← length_u16Bytes hostLE r.payload.length, List.take_left]
  have hz : u16Bytes hostLE 0 = [0, 0] := by cases hostLE <;> rfl
  constructor
  · unfold AJ_NVRAM_Delete
    rw [hfind]
    simp only [_AJ_NV_Write]
    rw [hcapb, nvStore_split, nvStore_split, hoff]
    have hsplit : encRecord hostLE r = u16Bytes hostLE r.id
        ++ (u16Bytes hostLE r.payload.length ++ r.payload) := by
      simp only [encRecord, List.append_assoc]
    have hw2 : writeBytesAt ((s ++ encRecords hostLE pre) ++ (encRecord hostLE r
          ++ (encRecords hostLE post ++ List.replicate t INVALID_DATA_BYTE)))
        (s ++ encRecords hostLE pre).length (u16Bytes hostLE 0 ++ u16Bytes hostLE r.payload.length)
        = (s ++ encRecords hostLE pre) ++ (encRecord hostLE { r with id := 0 }
          ++ (encRecords hostLE post ++ List.replicate t INVALID_DATA_BYTE)) := by
      rw [writeBytesAt_eq _ _ _ (by simp), List.take_left, List.drop_append, hsplit]
      simp only [List.length_append, length_u16Bytes, encRecord, List.append_assoc]
      rw [show (2 + 2 : Nat) = (u16Bytes hostLE r.id ++ u16Bytes hostLE r.payload.length).length
        by simp only [List.length_append, length_u16Bytes]]
      rw [← List.append_assoc (u16Bytes hostLE r.id), List.drop_left]
    rw [hw2]
  · rw [nvStore_split, nvStore_split, hoff]
    have hsplit : encRecord hostLE r = u16Bytes hostLE r.id
        ++ (u16Bytes hostLE r.payload.length ++ r.payload) := by
      simp only [encRecord, List.append_assoc]
    rw [writeBytesAt_eq _ _ _ (by simp), List.take_left, List.drop_append, hsplit]
    simp only [encRecord, List.append_assoc, hz, List.length_cons, List.length_nil]
    rw [show (0 + 1 + 1 : Nat) = (u16Bytes hostLE r.id).length by simp only [length_u16Bytes],
      List.drop_left]

/-- C26: on a well-formed store in which exactly one record has the id `id` (an id
other than 0 and `0xFFFF`), `AJ_NVRAM_Delete(id)` returns `AJ_OK`; the region
afterwards differs from the one before only in the two bytes of the id field of
that record, which are 0 (capacity, payload and the other records are as before);
and afterwards `AJ_NVRAM_Exist(id)` is false and `AJ_FindNVEntry(id)` is `NULL`. -/
theorem C26_delete (hostLE : Bool) (s : List Nat) (pre : List NVRecord) (r : NVRecord)
    (post : List NVRecord) (t id : Nat)
    (hwf : NVWellFormed s (pre ++ r :: post) t)
    (hid0 : id ≠ 0) (hidF : id ≠ 0xFFFF) (hr : r.id = id)
    (hpre : ∀ x ∈ pre, x.id ≠ id) (hpost : ∀ x ∈ post, x.id ≠ id) :
    AJ_NVRAM_Delete hostLE (nvStore hostLE s (pre ++ r :: post) t) id
      = (AJ_OK, nvStore hostLE s (pre ++ { r with id := 0 } :: post) t)
    ∧ nvStore hostLE s (pre ++ { r with id := 0 } :: post) t
      = writeBytesAt (nvStore hostLE s (pre ++ r :: post) t) (4 + recsLen pre) [0, 0]
    ∧ AJ_NVRAM_Exist hostLE (nvStore hostLE s (pre ++ { r with id := 0 } :: post) t) id = false
    ∧ AJ_FindNVEntry hostLE (nvStore hostLE s (pre ++ { r with id := 0 } :: post) t) id
      = none := by
  subst hr
  obtain ⟨d1, d2⟩ := AJ_NVRAM_Delete_store hostLE s pre r post t hwf hpre
  have hwf2 : NVWellFormed s (pre ++ { r with id := 0 } :: post) t := by
    obtain ⟨hs, hrec, ht, hlen⟩ := hwf
    refine ⟨hs, ?_, ht, ?_⟩
    · intro x hx
      rcases List.mem_append.mp hx with h | h
      · exact hrec x (by simp [h])
      · rcases List.mem_cons.mp h with rfl | h
        · exact ⟨by simp, (hrec r (by simp)).2⟩
        · exact hrec x (by simp [h])
    · simpa [recsLen_append, recsLen] using hlen
  have habs := AJ_NVRAM_Exist_absent hostLE s (pre ++ { r with id := 0 } :: post) t r.id hwf2 hidF
    (by
      intro x hx
      rcases List.mem_append.mp hx with h | h
      · exact hpre x h
      · rcases List.mem_cons.mp h with rfl | h
        · exact fun h0 => hid0 h0.symm
        · exact hpost x h)
  exact ⟨d1, d2, habs.2, habs.1⟩

/-- Witness of C26: the record with id 9 of the store with the records 7, tombstone,
9 is deleted. -/
theorem C26_delete_witness :
    AJ_NVRAM_Delete true (nvStore true [65, 74, 78, 86] nvExampleRecords 12) 9
      = (AJ_OK, [65, 74, 78, 86, 7, 0, 4, 0, 1, 2, 3, 4, 0, 0, 4, 0, 9, 9, 9, 9,
          0, 0, 4, 0, 5, 6, 7, 8] ++ List.replicate 12 255)
    ∧ AJ_NVRAM_Exist true ([65, 74, 78, 86, 7, 0, 4, 0, 1, 2, 3, 4, 0, 0, 4, 0, 9, 9, 9, 9,
          0, 0, 4, 0, 5, 6, 7, 8] ++ List.replicate 12 255) 9 = false := by
  have h := C26_delete true [65, 74, 78, 86]
    [{ id := 7, payload := [1, 2, 3, 4] }, { id := 0, payload := [9, 9, 9, 9] }]
    { id := 9, payload := [5, 6, 7, 8] } [] 12 9
    (by unfold NVWellFormed; decide) (by decide) (by decide) rfl (by decide) (by decide)
  refine ⟨?_, ?_⟩
  · have h1 := h.1
    rw [show nvStore true [65, 74, 78, 86] nvExampleRecords 12
      = nvStore true [65, 74, 78, 86] ([{ id := 7, payload := [1, 2, 3, 4] },
          { id := 0, payload := [9, 9, 9, 9] }] ++ [{ id := 9, payload := [5, 6, 7, 8] }]) 12
      from rfl, h1]
    decide
  · have h3 := h.2.2.1
    rw [← h3]
    decide

/-! ## Lemmas on the NVRAM calls: create, open, write, read -/

theorem split_unique (id : Nat) (hid : id ≠ 0) :
    ∀ recs : List NVRecord, NVUniqueIds recs →
      (∀ x ∈ recs, x.id ≠ id)
      ∨ ∃ pre r post, recs = pre ++ r :: post ∧ r.id = id
          ∧ (∀ x ∈ pre, x.id ≠ id) ∧ (∀ x ∈ post, x.id ≠ id) := by
  intro recs
  induction recs with
  | nil => intro _; left; simp
  | cons r rs ih =>
    intro hu
    by_cases hr : r.id = id
    · right
      have hlive : r.id ≠ 0 := by rw [hr]; exact hid
      unfold NVUniqueIds at hu
      rw [liveRecords_cons_live r rs hlive, List.map_cons, List.nodup_cons] at hu
      refine ⟨[], r, rs, rfl, hr, by simp, ?_⟩
      intro x hx hxid
      apply hu.1
      rw [List.mem_map]
      exact ⟨x, (mem_liveRecords rs x).mpr ⟨hx, by rw [hxid]; exact hid⟩, by rw [hxid, hr]⟩
    · have hu2 : NVUniqueIds rs := by
        unfold NVUniqueIds at hu ⊢
        by_cases hl : r.id = 0
        · rwa [liveRecords_cons_dead r rs hl] at hu
        · rw [liveRecords_cons_live r rs hl, List.map_cons, List.nodup_cons] at hu
          exact hu.2
      rcases ih hu2 with h | ⟨pre, r1, post, h1, h2, h3, h4⟩
      · left
        intro x hx
        rcases List.mem_cons.mp hx with rfl | hx
        · exact hr
        · exact h x hx
      · right
        refine ⟨r :: pre, r1, post, by rw [h1]; rfl, h2, ?_, h4⟩
        intro x hx
        rcases List.mem_cons.mp hx with rfl | hx
        · exact hr
        · exact h3 x hx

theorem WORD_ALIGN_spec (n : Nat) : n ≤ WORD_ALIGN n ∧ WORD_ALIGN n % 4 = 0 ∧ WORD_ALIGN n < n + 4 := by
  unfold WORD_ALIGN; omega

/-- The header of a new record is written at the head of the erased tail. -/
theorem nvStore_append_record (hostLE : Bool) (s : List Nat) (recs : List NVRecord) (t id cap : Nat)
    (hs : s.length = 4) (hfit : 4 + cap ≤ t) :
    nvWriteHeader hostLE (nvStore hostLE s recs t) (some (4 + recsLen recs)) id cap
      = nvStore hostLE s (recs ++ [{ id := id, payload := List.replicate cap INVALID_DATA_BYTE }])
          (t - 4 - cap) := by
  unfold nvWriteHeader _AJ_NV_Write
  simp only [Option.getD_some]
  have hA : 4 + recsLen recs = (s ++ encRecords hostLE recs).length := by
    simp only [List.length_append, length_encRecords, hs]
  have hnv : nvStore hostLE s recs t
      = (s ++ encRecords hostLE recs) ++ List.replicate t INVALID_DATA_BYTE := rfl
  rw [hnv, hA, writeBytesAt_eq _ _ _ (by simp), List.take_left, List.drop_append]
  simp only [List.length_append, length_u16Bytes, List.drop_replicate, nvStore, encRecords_append,
    encRecords, encRecord, List.length_replicate, List.append_assoc, List.append_nil]
  rw [show t - (2 + 2) = cap + (t - 4 - cap) by omega, List.replicate_add,
    show cap + (t - 4 - cap) - cap = t - 4 - cap by omega]

/-- What `AJ_NVRAM_Create` does on a well-formed store that has no record with the
id, when the live records and the new record fit: it returns `AJ_OK`, and the new
record is the last record of a well-formed store whose other records are those of
before, or the live ones among them when the store was compacted. -/
theorem AJ_NVRAM_Create_store (hostLE : Bool) (s : List Nat) (recs : List NVRecord)
    (t id n : Nat) (hwf : NVWellFormed s recs t) (habs : ∀ x ∈ recs, x.id ≠ id)
    (hidF : id < 65535) (hn : 0 < n)
    (hroom : recsLen (liveRecords recs) + 4 + WORD_ALIGN n ≤ recsLen recs + t) :
    ∃ (recsX : List NVRecord) (tX : Nat),
      AJ_NVRAM_Create hostLE (nvStore hostLE s recs t) id n
        = some (AJ_OK, nvStore hostLE s (recsX ++ [newRecord id n]) tX)
      ∧ NVWellFormed s (recsX ++ [newRecord id n]) tX
      ∧ (∀ x ∈ recsX, x.id ≠ id)
      ∧ liveRecords recsX = liveRecords recs := by
  obtain ⟨hal1, hal2, hal3⟩ := WORD_ALIGN_spec n
  have hwf0 := hwf
  obtain ⟨hs, hrec, ht, hlen⟩ := hwf
  have hle := recsLen_liveRecords_le recs
  have hcap : WORD_ALIGN n % 65536 = WORD_ALIGN n := Nat.mod_eq_of_lt (by omega)
  have hex := (AJ_NVRAM_Exist_absent hostLE s recs t id hwf0 (by omega) habs).2
  have hfindI : ∀ (rs : List NVRecord) (tt : Nat), NVWellFormed s rs tt →
      AJ_FindNVEntry hostLE (nvStore hostLE s rs tt) INVALID_DATA
        = if tt ≠ 0 then some (4 + recsLen rs) else none := by
    intro rs tt h
    rw [AJ_FindNVEntry_store hostLE s rs tt _ h,
      findRecord_none INVALID_DATA rs 4 (fun x hx => by
        have := (h.2.1 x hx).1
        simp only [INVALID_DATA]; omega)]
    simp
  have hnew : ∀ (rs : List NVRecord) (tt : Nat), NVWellFormed s rs tt →
      4 + WORD_ALIGN n ≤ tt →
      NVWellFormed s (rs ++ [newRecord id n]) (tt - 4 - WORD_ALIGN n) := by
    intro rs tt h hfit
    obtain ⟨h1, h2, h3, h4⟩ := h
    refine ⟨h1, ?_, by omega, ?_⟩
    · intro x hx
      rcases List.mem_append.mp hx with hx | hx
      · exact h2 x hx
      · simp only [List.mem_singleton] at hx
        subst hx
        simp only [newRecord, List.length_replicate]
        exact ⟨hidF, hal2⟩
    · rw [recsLen_append]
      simp only [recsLen, newRecord, List.length_replicate]
      omega
  unfold AJ_NVRAM_Create
  rw [if_neg (by rw [hex]; simp; omega)]
  simp only [hcap]
  rw [hfindI recs t hwf0]
  by_cases hdirect : 4 + WORD_ALIGN n ≤ t
  · have ht0 : t ≠ 0 := by omega
    rw [if_pos ht0]
    have hnr : nvNoRoom (nvStore hostLE s recs t) (some (4 + recsLen recs)) (WORD_ALIGN n)
        = false := by
      simp only [nvNoRoom, length_nvStore, hs, ENTRY_HEADER_SIZE]
      simp; omega
    rw [if_neg (by rw [hnr]; simp)]
    refine ⟨recs, t - 4 - WORD_ALIGN n, ?_, hnew recs t hwf0 hdirect, habs, rfl⟩
    rw [nvStore_append_record hostLE s recs t id _ hs hdirect]
    rfl
  · have hnr : nvNoRoom (nvStore hostLE s recs t) (if t ≠ 0 then some (4 + recsLen recs) else none)
        (WORD_ALIGN n) = true := by
      by_cases ht0 : t = 0
      · rw [if_neg (by simpa using ht0)]; rfl
      · rw [if_pos ht0]
        simp only [nvNoRoom, length_nvStore, hs, ENTRY_HEADER_SIZE]
        simp; omega
    rw [if_pos hnr, CompactNVStorage_store hostLE s recs t hwf0]
    simp only
    have hwfL := NVWellFormed_live s recs t hwf0
    have hfitL : 4 + WORD_ALIGN n ≤ t + garbageLen recs := by unfold garbageLen; omega
    rw [hfindI _ _ hwfL, if_pos (show t + garbageLen recs ≠ 0 by omega)]
    have hnr2 : nvNoRoom (nvStore hostLE s (liveRecords recs) (t + garbageLen recs))
        (some (4 + recsLen (liveRecords recs))) (WORD_ALIGN n) = false := by
      simp only [nvNoRoom, length_nvStore, hs, ENTRY_HEADER_SIZE]
      simp; omega
    rw [if_neg (by rw [hnr2]; simp)]
    refine ⟨liveRecords recs, t + garbageLen recs - 4 - WORD_ALIGN n, ?_,
      hnew _ _ hwfL hfitL, fun x hx => habs x ((mem_liveRecords recs x).mp hx).1,
      liveRecords_idem recs⟩
    rw [nvStore_append_record hostLE s _ _ id _ hs hfitL]
    rfl
theorem liveRecords_append (a b : List NVRecord) :
    liveRecords (a ++ b) = liveRecords a ++ liveRecords b := by
  simp [liveRecords]

theorem filter_ne_of_absent (id : Nat) (rs : List NVRecord) (h : ∀ x ∈ rs, x.id ≠ id) :
    (liveRecords rs).filter (fun r => decide (r.id ≠ id)) = liveRecords rs := by
  rw [List.filter_eq_self]
  intro x hx
  simpa using h x ((mem_liveRecords rs x).mp hx).1

/-- The facts on the last record of a well-formed store that the calls on a handle
use: where `AJ_FindNVEntry` finds it, its capacity, its payload, and a store into
its payload. -/
theorem last_record_facts (hostLE : Bool) (s : List Nat) (recsX : List NVRecord) (rec : NVRecord)
    (tX : Nat) (hwf : NVWellFormed s (recsX ++ [rec]) tX) (habs : ∀ x ∈ recsX, x.id ≠ rec.id) :
    AJ_FindNVEntry hostLE (nvStore hostLE s (recsX ++ [rec]) tX) rec.id = some (4 + recsLen recsX)
    ∧ readU16 hostLE (nvStore hostLE s (recsX ++ [rec]) tX) (4 + recsLen recsX + 2)
        = rec.payload.length
    ∧ (∀ k, k ≤ rec.payload.length →
        readBytes (nvStore hostLE s (recsX ++ [rec]) tX) (4 + recsLen recsX + 4) k
          = rec.payload.take k)
    ∧ (∀ buf : List Nat, buf.length ≤ rec.payload.length →
        writeBytesAt (nvStore hostLE s (recsX ++ [rec]) tX) (4 + recsLen recsX + 4) buf
          = nvStore hostLE s
              (recsX ++ [{ rec with payload := buf ++ rec.payload.drop buf.length }]) tX) := by
  have hs := hwf.1
  have hrec := hwf.2.1 rec (by simp)
  have hlen := hwf.2.2.2
  have hrl : recsLen (recsX ++ [rec]) = recsLen recsX + (4 + rec.payload.length) := by
    rw [recsLen_append]; simp [recsLen]
  rw [hrl] at hlen
  have hoff : 4 + recsLen recsX = (s ++ encRecords hostLE recsX).length := by
    simp only [List.length_append, length_encRecords, hs]
  have hsplit := nvStore_split hostLE s recsX rec [] tX
  obtain ⟨_, e2, _⟩ := record_at hostLE (s ++ encRecords hostLE recsX)
    (encRecords hostLE [] ++ List.replicate tX INVALID_DATA_BYTE) rec (4 + recsLen recsX)
    (by omega) (by omega) hoff
  rw [← hsplit] at e2
  have hnv : nvStore hostLE s (recsX ++ [rec]) tX
      = ((s ++ encRecords hostLE recsX) ++ (u16Bytes hostLE rec.id
          ++ u16Bytes hostLE rec.payload.length))
        ++ (rec.payload ++ List.replicate tX INVALID_DATA_BYTE) := by
    rw [hsplit]; simp only [encRecord, encRecords, List.append_assoc, List.nil_append]
  have hoff4 : 4 + recsLen recsX + 4 = ((s ++ encRecords hostLE recsX) ++ (u16Bytes hostLE rec.id
      ++ u16Bytes hostLE rec.payload.length)).length := by
    simp only [List.length_append, length_encRecords, length_u16Bytes, hs]
  refine ⟨AJ_FindNVEntry_present hostLE s recsX rec [] tX hwf habs, e2, ?_, ?_⟩
  · intro k hk
    rw [hnv, hoff4]
    simp only [readBytes, List.drop_left]
    rw [List.take_append_of_le_length hk]
  · intro buf hb
    have hnv2 : nvStore hostLE s
          (recsX ++ [{ rec with payload := buf ++ rec.payload.drop buf.length }]) tX
        = ((s ++ encRecords hostLE recsX) ++ (u16Bytes hostLE rec.id
            ++ u16Bytes hostLE rec.payload.length))
          ++ ((buf ++ rec.payload.drop buf.length) ++ List.replicate tX INVALID_DATA_BYTE) := by
      rw [nvStore_split]
      simp only [encRecord, encRecords, List.append_assoc, List.nil_append, List.length_append,
        List.length_drop]
      rw [show buf.length + (rec.payload.length - buf.length) = rec.payload.length by omega]
    rw [hnv2, hnv, hoff4, writeBytesAt_eq _ _ _ (by simp), List.take_left, List.drop_append,
      List.drop_append_of_le_length hb]
    simp only [List.append_assoc]

/-- The call `AJ_NVRAM_Write(buf, k, handle)` with the cursor at 0 on the last
record of a well-formed store, for `k` bytes that fit the capacity. -/
theorem AJ_NVRAM_Write_start (hostLE : Bool) (s : List Nat) (recsX : List NVRecord)
    (rec : NVRecord) (tX : Nat) (buf : List Nat) (mode : Nat)
    (hwf : NVWellFormed s (recsX ++ [rec]) tX) (habs : ∀ x ∈ recsX, x.id ≠ rec.id)
    (hmode : mode ≠ AJ_NV_DATASET_RD_ONLY) (hb : buf.length ≤ rec.payload.length)
    (hcap : 0 < rec.payload.length) :
    AJ_NVRAM_Write hostLE (nvStore hostLE s (recsX ++ [rec]) tX) buf buf.length
        { id := rec.id, curPos := 0, mode := mode, inode := 4 + recsLen recsX }
      = (buf.length,
          nvStore hostLE s
            (recsX ++ [{ rec with payload := buf ++ rec.payload.drop buf.length }]) tX,
          { id := rec.id, curPos := buf.length, mode := mode, inode := 4 + recsLen recsX }) := by
  obtain ⟨_, hc, _, hw⟩ := last_record_facts hostLE s recsX rec tX hwf habs
  have hlen := hwf.2.2.2
  have hrl : recsLen (recsX ++ [rec]) = recsLen recsX + (4 + rec.payload.length) := by
    rw [recsLen_append]; simp [recsLen]
  rw [hrl] at hlen
  unfold AJ_NVRAM_Write
  simp only [hc]
  rw [if_neg hmode, if_neg (by omega)]
  have h1 : rec.payload.length % 65536 = rec.payload.length := Nat.mod_eq_of_lt (by omega)
  have h2 : (if rec.payload.length < buf.length then rec.payload.length else buf.length)
      = buf.length := by
    rw [if_neg (by omega)]
  have h3 : (0 : Nat) &&& 3 = 0 := by decide
  simp only [Nat.sub_zero, h1, h2, h3, ne_eq, not_true_eq_false, and_false, decide_False, Bool.false_eq_true,
    if_false, Nat.add_zero, Nat.zero_add, Nat.sub_zero]
  by_cases hk : buf.length > 0
  · rw [if_pos hk]
    have hrb : readBytes buf 0 buf.length = buf := by simp [readBytes]
    unfold _AJ_NV_Write
    rw [hrb, show 4 + recsLen recsX + ENTRY_HEADER_SIZE = 4 + recsLen recsX + 4 from rfl, hw buf hb,
      Nat.mod_eq_of_lt (show buf.length < SIZE_T_MOD by simp only [SIZE_T_MOD]; omega),
      Nat.mod_eq_of_lt (show buf.length < 65536 by omega)]
  · rw [if_neg hk]
    have h0 : buf = [] := List.length_eq_zero.mp (by omega)
    subst h0
    simp

/-- The call `AJ_NVRAM_Read(out, k, handle)` with the cursor at 0 on the last record
of a well-formed store, for `k` bytes within the capacity. -/
theorem AJ_NVRAM_Read_start (hostLE : Bool) (s : List Nat) (recsX : List NVRecord)
    (rec : NVRecord) (tX k : Nat)
    (hwf : NVWellFormed s (recsX ++ [rec]) tX) (habs : ∀ x ∈ recsX, x.id ≠ rec.id)
    (hk : k ≤ rec.payload.length) (hcap : 0 < rec.payload.length) :
    (AJ_NVRAM_Read hostLE (nvStore hostLE s (recsX ++ [rec]) tX) k
        { id := rec.id, curPos := 0, mode := AJ_NV_DATASET_RD_ONLY,
          inode := 4 + recsLen recsX }).1 = k
    ∧ (AJ_NVRAM_Read hostLE (nvStore hostLE s (recsX ++ [rec]) tX) k
        { id := rec.id, curPos := 0, mode := AJ_NV_DATASET_RD_ONLY,
          inode := 4 + recsLen recsX }).2.1 = rec.payload.take k := by
  obtain ⟨_, hc, hr, _⟩ := last_record_facts hostLE s recsX rec tX hwf habs
  have hlen := hwf.2.2.2
  have hrl : recsLen (recsX ++ [rec]) = recsLen recsX + (4 + rec.payload.length) := by
    rw [recsLen_append]; simp [recsLen]
  rw [hrl] at hlen
  unfold AJ_NVRAM_Read
  simp only [hc]
  rw [if_neg (by decide), if_neg (by omega)]
  have h1 : rec.payload.length % 65536 = rec.payload.length := Nat.mod_eq_of_lt (by omega)
  have h2 : (if rec.payload.length < k then rec.payload.length else k) = k := by
    rw [if_neg (by omega)]
  simp only [Nat.sub_zero, h1, h2, Nat.add_zero]
  by_cases hk0 : k > 0
  · rw [if_pos hk0]
    unfold _AJ_NV_Read
    rw [show 4 + recsLen recsX + ENTRY_HEADER_SIZE = 4 + recsLen recsX + 4 from rfl, hr k hk]
    exact ⟨rfl, rfl⟩
  · rw [if_neg hk0]
    have : k = 0 := by omega
    subst this
    simp
/-- The step of `AJ_NVRAM_Open` in mode `w` that deletes the record with the id, if
there is one: afterwards no record has the id, and the other records are as
before. -/
theorem open_delete_step (hostLE : Bool) (s : List Nat) (recs : List NVRecord) (t id : Nat)
    (hwf : NVWellFormed s recs t) (hun : NVUniqueIds recs) (hid0 : id ≠ 0) (hidF : id < 65535) :
    ∃ recsD : List NVRecord,
      (if AJ_NVRAM_Exist hostLE (nvStore hostLE s recs t) id = true
        then AJ_NVRAM_Delete hostLE (nvStore hostLE s recs t) id
        else (AJ_OK, nvStore hostLE s recs t)) = (AJ_OK, nvStore hostLE s recsD t)
      ∧ NVWellFormed s recsD t ∧ (∀ x ∈ recsD, x.id ≠ id) ∧ recsLen recsD = recsLen recs
      ∧ liveRecords recsD = (liveRecords recs).filter (fun r => decide (r.id ≠ id)) := by
  rcases split_unique id hid0 recs hun with habs | ⟨pre, r, post, hrecs, hr, hpre, hpost⟩
  · refine ⟨recs, ?_, hwf, habs, rfl, (filter_ne_of_absent id recs habs).symm⟩
    rw [if_neg (by
      rw [(AJ_NVRAM_Exist_absent hostLE s recs t id hwf (by omega) habs).2]; simp)]
  · subst hrecs
    subst hr
    obtain ⟨d1, _⟩ := AJ_NVRAM_Delete_store hostLE s pre r post t hwf hpre
    have hfind := AJ_FindNVEntry_present hostLE s pre r post t hwf hpre
    have hex : AJ_NVRAM_Exist hostLE (nvStore hostLE s (pre ++ r :: post) t) r.id = true := by
      unfold AJ_NVRAM_Exist
      rw [if_neg hid0, hfind]; rfl
    refine ⟨pre ++ { r with id := 0 } :: post, ?_, ?_, ?_, ?_, ?_⟩
    · rw [if_pos hex, d1]
    · obtain ⟨hs, hrec, ht, hlen⟩ := hwf
      refine ⟨hs, ?_, ht, ?_⟩
      · intro x hx
        rcases List.mem_append.mp hx with h | h
        · exact hrec x (by simp [h])
        · rcases List.mem_cons.mp h with rfl | h
          · exact ⟨by simp, (hrec r (by simp)).2⟩
          · exact hrec x (by simp [h])
      · simpa [recsLen_append, recsLen] using hlen
    · intro x hx
      rcases List.mem_append.mp hx with h | h
      · exact hpre x h
      · rcases List.mem_cons.mp h with rfl | h
        · exact fun h0 => hid0 h0.symm
        · exact hpost x h
    · simp [recsLen_append, recsLen]
    · rw [liveRecords_append, liveRecords_append, liveRecords_cons_dead _ post rfl,
        liveRecords_cons_live r post hid0, List.filter_append, List.filter_cons]
      have h1 := filter_ne_of_absent r.id pre hpre
      have h2 := filter_ne_of_absent r.id post hpost
      rw [h1, h2]
      simp

/-- The call `AJ_NVRAM_Open(id, "w", n)` on a well-formed store without two live
records of one id, in which the live records with other ids and the new record
fit: it returns a handle in write mode with the cursor at 0 on a new record, which
is the last record of a well-formed store. -/
theorem AJ_NVRAM_Open_write (hostLE : Bool) (s : List Nat) (recs : List NVRecord) (t id n : Nat)
    (hwf : NVWellFormed s recs t) (hun : NVUniqueIds recs) (hid0 : id ≠ 0) (hidF : id < 65535)
    (hn : 0 < n)
    (hroom : recsLen ((liveRecords recs).filter (fun r => decide (r.id ≠ id))) + 4 + WORD_ALIGN n
      ≤ recsLen recs + t) :
    ∃ (recsX : List NVRecord) (tX : Nat),
      AJ_NVRAM_Open hostLE true (nvStore hostLE s recs t) id [119, 0] n
        = some (some { id := id, curPos := 0, mode := AJ_NV_DATASET_WR_ONLY,
                       inode := 4 + recsLen recsX },
                nvStore hostLE s (recsX ++ [newRecord id n]) tX)
      ∧ NVWellFormed s (recsX ++ [newRecord id n]) tX ∧ (∀ x ∈ recsX, x.id ≠ id) := by
  obtain ⟨recsD, hD, hwfD, habsD, hlenD, hliveD⟩ :=
    open_delete_step hostLE s recs t id hwf hun hid0 hidF
  obtain ⟨recsX, tX, hC, hwfX, habsX, _⟩ := AJ_NVRAM_Create_store hostLE s recsD t id n hwfD habsD
    hidF hn (by rw [hliveD, hlenD]; exact hroom)
  obtain ⟨hfind, _, _, _⟩ := last_record_facts hostLE s recsX (newRecord id n) tX hwfX habsX
  refine ⟨recsX, tX, ?_, hwfX, habsX⟩
  have hm : List.take (strlen [119, 0]) ([119, 0] : List Nat) = [119] := by decide
  have hfind' : AJ_FindNVEntry hostLE (nvStore hostLE s (recsX ++ [newRecord id n]) tX) id
      = some (4 + recsLen recsX) := hfind
  have hn0 : n ≠ 0 := by omega
  unfold AJ_NVRAM_Open
  rw [if_neg hid0]
  simp only [hm, hD, hC]
  simp [hn0, hfind', AJ_NV_DATASET_RD_ONLY, AJ_NV_DATASET_WR_ONLY]

/-- The call `AJ_NVRAM_Open(id, "r", c)` on a well-formed store whose last record is
the only one with the id. -/
theorem AJ_NVRAM_Open_read (hostLE : Bool) (s : List Nat) (recsX : List NVRecord) (rec : NVRecord)
    (tX c : Nat) (hwf : NVWellFormed s (recsX ++ [rec]) tX) (habs : ∀ x ∈ recsX, x.id ≠ rec.id)
    (hid0 : rec.id ≠ 0) :
    AJ_NVRAM_Open hostLE true (nvStore hostLE s (recsX ++ [rec]) tX) rec.id [114, 0] c
      = some (some { id := rec.id, curPos := 0, mode := AJ_NV_DATASET_RD_ONLY,
                     inode := 4 + recsLen recsX },
              nvStore hostLE s (recsX ++ [rec]) tX) := by
  obtain ⟨hfind, _, _, _⟩ := last_record_facts hostLE s recsX rec tX hwf habs
  have hm : List.take (strlen [114, 0]) ([114, 0] : List Nat) = [114] := by decide
  unfold AJ_NVRAM_Open
  rw [if_neg hid0]
  simp only [hm, hfind]
  simp [AJ_NV_DATASET_RD_ONLY, AJ_NV_DATASET_WR_ONLY]

/-! ## C24: write and read back -/

/-- C24 (amended): on a well-formed store in which no two live records share an id
and in which the live records with other ids and the new record fit, for every id
other than 0 and `0xFFFF`, every capacity `n > 0` and every byte string `buf` of length
`k ≤ n`, the sequence `Open(id, "w", n); Write(buf, k); Close; Open(id, "r", c);
Read(out, k)` succeeds, both transfers return `k`, and `out = buf`. With id 7,
capacity 5 and the bytes `A B C` written into an empty store, a read of 5 bytes
returns 5 bytes, the first three of which are `A B C`. -/
theorem C24_write_read_round_trip :
    (∀ (hostLE : Bool) (s : List Nat) (recs : List NVRecord) (t id n c : Nat) (buf : List Nat),
      NVWellFormed s recs t → NVUniqueIds recs → id ≠ 0 → id < 65535 → 0 < n → buf.length ≤ n →
      recsLen ((liveRecords recs).filter (fun r => decide (r.id ≠ id))) + 4 + WORD_ALIGN n
        ≤ recsLen recs + t →
      nvWriteReadSeq hostLE (nvStore hostLE s recs t) id n buf buf.length c buf.length
        = some (buf.length, buf.length, buf))
    ∧ nvWriteReadSeq true (nvStore true [65, 74, 78, 86] [] 60) 7 5 [65, 66, 67] 3 0 5
        = some (3, 5, [65, 66, 67, 255, 255]) := by
  constructor
  · intro hostLE s recs t id n c buf hwf hun hid0 hidF hn hk hroom
    obtain ⟨recsX, tX, hopen, hwfX, habsX⟩ :=
      AJ_NVRAM_Open_write hostLE s recs t id n hwf hun hid0 hidF hn hroom
    obtain ⟨hal1, hal2, hal3⟩ := WORD_ALIGN_spec n
    have hplen : (newRecord id n).payload.length = WORD_ALIGN n := by
      simp [newRecord]
    have hw := AJ_NVRAM_Write_start hostLE s recsX (newRecord id n) tX buf AJ_NV_DATASET_WR_ONLY
      hwfX habsX (by decide) (by rw [hplen]; omega) (by rw [hplen]; omega)
    generalize hrec2 : ({ newRecord id n with
      payload := buf ++ (newRecord id n).payload.drop buf.length } : NVRecord) = rec2 at hw
    have hid2 : rec2.id = id := by rw [← hrec2]; rfl
    have hlen2 : rec2.payload.length = WORD_ALIGN n := by
      rw [← hrec2]; simp only [List.length_append, List.length_drop, hplen]; omega
    have htake : rec2.payload.take buf.length = buf := by
      rw [← hrec2]; simp
    have hwf2 : NVWellFormed s (recsX ++ [rec2]) tX := by
      obtain ⟨h1, h2, h3, h4⟩ := hwfX
      refine ⟨h1, ?_, h3, ?_⟩
      · intro x hx
        rcases List.mem_append.mp hx with hx | hx
        · exact h2 x (by simp [hx])
        · simp only [List.mem_singleton] at hx
          subst hx
          exact ⟨by rw [hid2]; exact hidF, by rw [hlen2]; exact hal2⟩
      · rw [recsLen_append] at h4 ⊢
        simpa [recsLen, hlen2, hplen] using h4
    have habs2 : ∀ x ∈ recsX, x.id ≠ rec2.id := by rw [hid2]; exact habsX
    have hopen2 := AJ_NVRAM_Open_read hostLE s recsX rec2 tX c hwf2 habs2 (by rw [hid2]; exact hid0)
    obtain ⟨hr1, hr2⟩ := AJ_NVRAM_Read_start hostLE s recsX rec2 tX buf.length hwf2 habs2
      (by rw [hlen2]; omega) (by rw [hlen2]; omega)
    rw [hid2] at hopen2 hr1 hr2
    have hw' : AJ_NVRAM_Write hostLE (nvStore hostLE s (recsX ++ [newRecord id n]) tX) buf
        buf.length { id := id, curPos := 0, mode := AJ_NV_DATASET_WR_ONLY,
                     inode := 4 + recsLen recsX }
        = (buf.length, nvStore hostLE s (recsX ++ [rec2]) tX,
            { id := id, curPos := buf.length, mode := AJ_NV_DATASET_WR_ONLY,
              inode := 4 + recsLen recsX }) := hw
    unfold nvWriteReadSeq
    rw [hopen]
    simp only [hw', hopen2, hr1, hr2, htake, AJ_NVRAM_Close]
    simp
  · decide

/-- Witness of C24: into the store with the records 7, tombstone, 9 and 12 erased
bytes the id 7 is written anew with capacity 6 and the bytes `A B C D E`. -/
theorem C24_write_read_round_trip_witness :
    nvWriteReadSeq true (nvStore true [65, 74, 78, 86] nvExampleRecords 12) 7 6
        [65, 66, 67, 68, 69] 5 0 5
      = some (5, 5, [65, 66, 67, 68, 69]) :=
  C24_write_read_round_trip.1 true [65, 74, 78, 86] nvExampleRecords 12 7 6 0
    [65, 66, 67, 68, 69] (by unfold NVWellFormed; decide) (by unfold NVUniqueIds; decide)
    (by decide) (by decide) (by decide) (by decide) (by decide)

/-- C24, counterexample to the claim as stated: a store of 64 bytes with the
sentinel, two live records with the id 7 and 44 erased bytes is well formed and has
room for a record of capacity 5, but `Open(7, "w", 5)` returns `NULL`: the first
record is deleted, and `AJ_NVRAM_Create` fails because the second one still has the
id. -/
theorem C24_counterexample_duplicate_id :
    NVWellFormed [65, 74, 78, 86] c24DupRecords 44
    ∧ (nvStore true [65, 74, 78, 86] c24DupRecords 44).length = 64
    ∧ 4 + WORD_ALIGN 5 ≤ 44
    ∧ AJ_NVRAM_Open true true (nvStore true [65, 74, 78, 86] c24DupRecords 44) 7 [119, 0] 5
        = some (none, nvStore true [65, 74, 78, 86]
            [{ id := 0, payload := [1, 2, 3, 4] }, { id := 7, payload := [5, 6, 7, 8] }] 44)
    ∧ nvWriteReadSeq true (nvStore true [65, 74, 78, 86] c24DupRecords 44) 7 5 [65, 66, 67] 3 0 3
        = none := by
  refine ⟨by unfold NVWellFormed; decide, by decide, by decide, by decide, by decide⟩

/-! ## C25, C29: 16-bit sizes in write and create -/

/-- C25: a write of one byte (`s = 1`) with the cursor at 1 in a record of capacity
8. The caller's memory holds the byte `A` of the request and then `B C D E F G H I J
K L`. The call returns 65537 instead of 1, stores `A B C` into the payload bytes 1
to 3 and the bytes `D` to `L` from payload byte 4 on, over the rest of the payload
and the header of the next record; the first byte of the payload and the cursor
value 2 are as claimed. -/
theorem C25_write_short_request_mid_word :
    AJ_NVRAM_Write true c25Store [65, 66, 67, 68, 69, 70, 71, 72, 73, 74, 75, 76] 1 c25Handle
      = (65537,
          [65, 74, 78, 86, 7, 0, 8, 0, 1, 65, 66, 67, 68, 69, 70, 71, 72, 73, 74, 75, 76, 6, 7, 8]
            ++ List.replicate 16 255,
          { c25Handle with curPos := 2 })
    ∧ c25Store = [65, 74, 78, 86, 7, 0, 8, 0, 1, 2, 3, 4, 5, 6, 7, 8, 9, 0, 4, 0, 5, 6, 7, 8]
        ++ List.replicate 16 255
    ∧ (AJ_NVRAM_Write true c25Store [65, 66, 67, 68, 69, 70, 71, 72, 73, 74, 75, 76] 1
        c25Handle).1 ≠ min 1 (8 - 1) := by
  decide

/-- C29: on an empty store of 64 bytes `AJ_NVRAM_Create(7, 65535)` returns `AJ_OK`
and makes a record with capacity 0, although a record of 4 + 65536 bytes does not
fit into the 60 bytes of the record area; the aligned capacity is stored back into
a `uint16_t`. -/
theorem C29_create_capacity_wraps :
    AJ_NVRAM_Create true c29Store 7 65535
      = some (AJ_OK, nvStore true [65, 74, 78, 86] [{ id := 7, payload := [] }] 56)
    ∧ 4 + WORD_ALIGN 65535 > 60
    ∧ AJ_NVRAM_Exist true c29Store 7 = false
    ∧ readU16 true (nvStore true [65, 74, 78, 86] [{ id := 7, payload := [] }] 56) 6 = 0 := by
  decide

/-! ## C30: the endian swap is a byte reversal -/

theorem shiftRight_or (x y k : Nat) : (x ||| y) >>> k = x >>> k ||| y >>> k := by
  apply Nat.eq_of_testBit_eq
  intro i
  simp only [Nat.testBit_shiftRight, Nat.testBit_or]

theorem shiftLeft_or (x y k : Nat) : (x ||| y) <<< k = x <<< k ||| y <<< k := by
  apply Nat.eq_of_testBit_eq
  intro i
  simp only [Nat.testBit_shiftLeft, Nat.testBit_or]
  cases decide (i ≥ k) <;> simp

theorem and_or_right (x y m : Nat) : (x ||| y) &&& m = (x &&& m) ||| (y &&& m) := by
  rw [Nat.and_comm, Nat.and_or_distrib_left, Nat.and_comm m x, Nat.and_comm m y]

theorem or_left_comm3 (a b c : Nat) : a ||| (b ||| c) = b ||| (a ||| c) := by
  rw [← Nat.or_assoc, Nat.or_comm a b, Nat.or_assoc]

theorem bytes_of_sum32 (a b c d : Nat) (ha : a < 256) (hb : b < 256) (hc : c < 256)
    (hd : d < 256) :
    (a + 256 * b + 65536 * c + 16777216 * d) % 256 = a
    ∧ (a + 256 * b + 65536 * c + 16777216 * d) / 256 % 256 = b
    ∧ (a + 256 * b + 65536 * c + 16777216 * d) / 65536 % 256 = c
    ∧ (a + 256 * b + 65536 * c + 16777216 * d) / 16777216 % 256 = d := by
  have q1 : (a + 256 * b + 65536 * c + 16777216 * d) / 256 = b + 256 * c + 65536 * d := by omega
  have q2 : (a + 256 * b + 65536 * c + 16777216 * d) / 65536 = c + 256 * d := by omega
  have q3 : (a + 256 * b + 65536 * c + 16777216 * d) / 16777216 = d := by omega
  rw [q1, q2, q3]
  omega

theorem bytes_of_sum16 (a b : Nat) (ha : a < 256) (hb : b < 256) :
    (a + 256 * b) % 256 = a ∧ (a + 256 * b) / 256 % 256 = b := by
  omega

theorem mod_pow_or (x y n : Nat) : (x ||| y) % 2 ^ n = x % 2 ^ n ||| y % 2 ^ n := by
  rw [← Nat.and_pow_two_sub_one_eq_mod, ← Nat.and_pow_two_sub_one_eq_mod,
    ← Nat.and_pow_two_sub_one_eq_mod, and_or_right]

theorem ENDSWAP32_or (x y : Nat) : ENDSWAP32 (x ||| y) = ENDSWAP32 x ||| ENDSWAP32 y := by
  unfold ENDSWAP32
  rw [show (4294967296 : Nat) = 2 ^ 32 by norm_num]
  simp only [mod_pow_or, shiftRight_or, shiftLeft_or, and_or_right]
  simp only [Nat.or_assoc, or_left_comm3, Nat.or_comm]

theorem ENDSWAP16_or (x y : Nat) : ENDSWAP16 (x ||| y) = ENDSWAP16 x ||| ENDSWAP16 y := by
  unfold ENDSWAP16
  rw [show (65536 : Nat) = 2 ^ 16 by norm_num]
  simp only [mod_pow_or, shiftRight_or, shiftLeft_or]
  simp only [Nat.or_assoc, or_left_comm3, Nat.or_comm]

theorem sum_or16 (a b : Nat) (ha : a < 256) : a + 256 * b = a ||| b <<< 8 := by
  rw [Nat.shiftLeft_eq, Nat.mul_comm b, Nat.or_comm, ← Nat.mul_add_lt_is_or (by omega : a < 2 ^ 8)]
  omega

theorem sum_or32 (a b c d : Nat) (ha : a < 256) (hb : b < 256) (hc : c < 256) :
    a + 256 * b + 65536 * c + 16777216 * d = a ||| b <<< 8 ||| c <<< 16 ||| d <<< 24 := by
  have h1 : a + 256 * b = a ||| b <<< 8 := sum_or16 a b ha
  have h2 : a + 256 * b + 65536 * c = (a ||| b <<< 8) ||| c <<< 16 := by
    rw [← h1, Nat.shiftLeft_eq, Nat.mul_comm c, Nat.or_comm,
      ← Nat.mul_add_lt_is_or (by omega : a + 256 * b < 2 ^ 16)]
    omega
  rw [← h2, Nat.shiftLeft_eq, Nat.mul_comm d, Nat.or_comm,
    ← Nat.mul_add_lt_is_or (by omega : a + 256 * b + 65536 * c < 2 ^ 24)]
  omega

theorem ENDSWAP32_byte (a : Nat) (ha : a < 256) :
    ENDSWAP32 a = a <<< 24 ∧ ENDSWAP32 (a <<< 8) = a <<< 16
    ∧ ENDSWAP32 (a <<< 16) = a <<< 8 ∧ ENDSWAP32 (a <<< 24) = a := by
  have h : ∀ x : Fin 256, ENDSWAP32 x.val = x.val <<< 24 ∧ ENDSWAP32 (x.val <<< 8) = x.val <<< 16
      ∧ ENDSWAP32 (x.val <<< 16) = x.val <<< 8 ∧ ENDSWAP32 (x.val <<< 24) = x.val := by decide
  exact h ⟨a, ha⟩

theorem ENDSWAP16_byte (a : Nat) (ha : a < 256) :
    ENDSWAP16 a = a <<< 8 ∧ ENDSWAP16 (a <<< 8) = a := by
  have h : ∀ x : Fin 256, ENDSWAP16 x.val = x.val <<< 8 ∧ ENDSWAP16 (x.val <<< 8) = x.val := by
    decide
  exact h ⟨a, ha⟩

/-- The macro `ENDSWAP32` on the value with the bytes `a b c d` (from the least
significant on) gives the value with the bytes `d c b a`. -/
theorem ENDSWAP32_bytes (a b c d : Nat) (ha : a < 256) (hb : b < 256) (hc : c < 256)
    (hd : d < 256) :
    ENDSWAP32 (a + 256 * b + 65536 * c + 16777216 * d)
      = d + 256 * c + 65536 * b + 16777216 * a := by
  rw [sum_or32 a b c d ha hb hc, sum_or32 d c b a hd hc hb, ENDSWAP32_or, ENDSWAP32_or,
    ENDSWAP32_or, (ENDSWAP32_byte a ha).1, (ENDSWAP32_byte b hb).2.1, (ENDSWAP32_byte c hc).2.2.1,
    (ENDSWAP32_byte d hd).2.2.2]
  simp only [Nat.or_assoc, or_left_comm3, Nat.or_comm]

/-- The macro `ENDSWAP16` on the value with the bytes `a b` gives the value with the
bytes `b a`. -/
theorem ENDSWAP16_bytes (a b : Nat) (ha : a < 256) (hb : b < 256) :
    ENDSWAP16 (a + 256 * b) = b + 256 * a := by
  rw [sum_or16 a b ha, sum_or16 b a hb, ENDSWAP16_or, (ENDSWAP16_byte a ha).1,
    (ENDSWAP16_byte b hb).2]
  simp only [Nat.or_assoc, or_left_comm3, Nat.or_comm]

/-- The four bytes that case 4 of `EndianSwap` stores for an element with the bytes
`a b c d`. -/
theorem swap32_stored (hostLE : Bool) (a b c d : Nat) (ha : a < 256) (hb : b < 256)
    (hc : c < 256) (hd : d < 256) :
    u32Bytes hostLE (ENDSWAP32 (readU32 hostLE [a, b, c, d] 0)) = [d, c, b, a] := by
  cases hostLE
  · have hv : readU32 false [a, b, c, d] 0 = d + 256 * c + 65536 * b + 16777216 * a := by
      simp only [readU32, Bool.false_eq_true, if_false, List.getD_cons_zero, List.getD_cons_succ,
        Nat.zero_add]
      omega
    rw [hv, ENDSWAP32_bytes d c b a hd hc hb ha]
    obtain ⟨e1, e2, e3, e4⟩ := bytes_of_sum32 a b c d ha hb hc hd
    simp only [u32Bytes, Bool.false_eq_true, if_false, e1, e2, e3, e4]
  · have hv : readU32 true [a, b, c, d] 0 = a + 256 * b + 65536 * c + 16777216 * d := by
      simp only [readU32, if_true, List.getD_cons_zero, List.getD_cons_succ, Nat.zero_add]
    rw [hv, ENDSWAP32_bytes a b c d ha hb hc hd]
    obtain ⟨e1, e2, e3, e4⟩ := bytes_of_sum32 d c b a hd hc hb ha
    simp only [u32Bytes, if_true, e1, e2, e3, e4]

/-- The two bytes that case 2 of `EndianSwap` stores for an element with the bytes
`a b`. -/
theorem swap16_stored (hostLE : Bool) (a b : Nat) (ha : a < 256) (hb : b < 256) :
    u16Bytes hostLE (ENDSWAP16 (readU16 hostLE [a, b] 0)) = [b, a] := by
  cases hostLE
  · have hv : readU16 false [a, b] 0 = b + 256 * a := by
      simp only [readU16, Bool.false_eq_true, if_false, List.getD_cons_zero, List.getD_cons_succ,
        Nat.zero_add]
      omega
    rw [hv, ENDSWAP16_bytes b a hb ha]
    obtain ⟨e1, e2⟩ := bytes_of_sum16 a b ha hb
    simp only [u16Bytes, Bool.false_eq_true, if_false, e1, e2]
  · have hv : readU16 true [a, b] 0 = a + 256 * b := by
      simp only [readU16, if_true, List.getD_cons_zero, List.getD_cons_succ, Nat.zero_add]
    rw [hv, ENDSWAP16_bytes a b ha hb]
    obtain ⟨e1, e2⟩ := bytes_of_sum16 b a hb ha
    simp only [u16Bytes, if_true, e1, e2]
theorem writeBytesAt_mid (pre X Y R : List Nat) (h : X.length = Y.length) :
    writeBytesAt (pre ++ (X ++ R)) pre.length Y = pre ++ (Y ++ R) := by
  rw [writeBytesAt_eq _ _ _ (by simp), List.take_left, List.drop_append, ← h, List.drop_left,
    List.append_assoc]

theorem readU32_mid (hostLE : Bool) (pre R : List Nat) (a b c d : Nat) :
    readU32 hostLE (pre ++ (a :: b :: c :: d :: R)) pre.length = readU32 hostLE [a, b, c, d] 0 := by
  have h0 := getD_append_at pre (a :: b :: c :: d :: R) 0
  have h1 := getD_append_at pre (a :: b :: c :: d :: R) 1
  have h2 := getD_append_at pre (a :: b :: c :: d :: R) 2
  have h3 := getD_append_at pre (a :: b :: c :: d :: R) 3
  simp only [Nat.add_zero] at h0
  unfold readU32
  rw [h0, h1, h2, h3]
  rfl

theorem readU16_mid (hostLE : Bool) (pre R : List Nat) (a b : Nat) :
    readU16 hostLE (pre ++ (a :: b :: R)) pre.length = readU16 hostLE [a, b] 0 := by
  have h0 := getD_append_at pre (a :: b :: R) 0
  have h1 := getD_append_at pre (a :: b :: R) 1
  simp only [Nat.add_zero] at h0
  unfold readU16
  rw [h0, h1]
  rfl

theorem list_split2 (body : List Nat) (n : Nat) (hl : body.length = (n + 1) * 2) :
    ∃ a b body1, body = a :: b :: body1 := by
  have hl2 : (body.take 2).length = 2 := by simp only [List.length_take]; omega
  match h : body.take 2, hl2 with
  | [a, b], _ =>
    refine ⟨a, b, body.drop 2, ?_⟩
    have := List.take_append_drop 2 body
    rw [h] at this
    exact this.symm

theorem list_split4 (body : List Nat) (n : Nat) (hl : body.length = (n + 1) * 4) :
    ∃ a b c d body1, body = a :: b :: c :: d :: body1 := by
  have hl2 : (body.take 4).length = 4 := by simp only [List.length_take]; omega
  match h : body.take 4, hl2 with
  | [a, b, c, d], _ =>
    refine ⟨a, b, c, d, body.drop 4, ?_⟩
    have := List.take_append_drop 4 body
    rw [h] at this
    exact this.symm

theorem list_split8 (body : List Nat) (n : Nat) (hl : body.length = (n + 1) * 8) :
    ∃ a b c d e f g h body1, body = a :: b :: c :: d :: e :: f :: g :: h :: body1 := by
  have hl2 : (body.take 8).length = 8 := by simp only [List.length_take]; omega
  match h : body.take 8, hl2 with
  | [a, b, c, d, e, f, g, h1], _ =>
    refine ⟨a, b, c, d, e, f, g, h1, body.drop 8, ?_⟩
    have := List.take_append_drop 8 body
    rw [h] at this
    exact this.symm

/-- Case 2 of `EndianSwap` reverses the two bytes of every element. -/
theorem swapLoop16_chunks (hostLE : Bool) :
    ∀ (num : Nat) (pre body rest : List Nat), (∀ x ∈ body, x < 256) → body.length = num * 2 →
      swapLoop16 hostLE num (pre ++ (body ++ rest)) pre.length
        = pre ++ (reverseChunks 2 num body ++ rest) := by
  intro num
  induction num with
  | zero =>
    intro pre body rest _ hl
    have : body = [] := List.length_eq_zero.mp (by omega)
    subst this
    rfl
  | succ n ih =>
    intro pre body rest hb hl
    obtain ⟨a, b, body1, rfl⟩ := list_split2 body n hl
    have ha := hb a (by simp)
    have hb1 := hb b (by simp)
    have hd : pre ++ (a :: b :: body1 ++ rest) = pre ++ (a :: b :: (body1 ++ rest)) := rfl
    rw [swapLoop16, hd, readU16_mid, swap16_stored hostLE a b ha hb1]
    have hw := writeBytesAt_mid pre [a, b] [b, a] (body1 ++ rest) rfl
    have hw2 : writeBytesAt (pre ++ (a :: b :: (body1 ++ rest))) pre.length [b, a]
        = (pre ++ [b, a]) ++ (body1 ++ rest) := by
      rw [show pre ++ (a :: b :: (body1 ++ rest)) = pre ++ ([a, b] ++ (body1 ++ rest)) from rfl,
        hw]
      simp
    rw [hw2, show pre.length + 2 = (pre ++ [b, a]).length by simp,
      ih (pre ++ [b, a]) body1 rest (fun x hx => hb x (by simp [hx]))
        (by simp only [List.length_cons] at hl; omega)]
    simp [reverseChunks]

/-- Case 4 of `EndianSwap` reverses the four bytes of every element. -/
theorem swapLoop32_chunks (hostLE : Bool) :
    ∀ (num : Nat) (pre body rest : List Nat), (∀ x ∈ body, x < 256) → body.length = num * 4 →
      swapLoop32 hostLE num (pre ++ (body ++ rest)) pre.length
        = pre ++ (reverseChunks 4 num body ++ rest) := by
  intro num
  induction num with
  | zero =>
    intro pre body rest _ hl
    have : body = [] := List.length_eq_zero.mp (by omega)
    subst this
    rfl
  | succ n ih =>
    intro pre body rest hb hl
    obtain ⟨a, b, c, d, body1, rfl⟩ := list_split4 body n hl
    have ha := hb a (by simp)
    have hb1 := hb b (by simp)
    have hc := hb c (by simp)
    have hd1 := hb d (by simp)
    have hd : pre ++ (a :: b :: c :: d :: body1 ++ rest)
        = pre ++ (a :: b :: c :: d :: (body1 ++ rest)) := rfl
    rw [swapLoop32, hd, readU32_mid, swap32_stored hostLE a b c d ha hb1 hc hd1]
    have hw := writeBytesAt_mid pre [a, b, c, d] [d, c, b, a] (body1 ++ rest) rfl
    have hw2 : writeBytesAt (pre ++ (a :: b :: c :: d :: (body1 ++ rest))) pre.length
        [d, c, b, a] = (pre ++ [d, c, b, a]) ++ (body1 ++ rest) := by
      rw [show pre ++ (a :: b :: c :: d :: (body1 ++ rest))
        = pre ++ ([a, b, c, d] ++ (body1 ++ rest)) from rfl, hw]
      simp
    rw [hw2, show pre.length + 4 = (pre ++ [d, c, b, a]).length by simp,
      ih (pre ++ [d, c, b, a]) body1 rest (fun x hx => hb x (by simp [hx]))
        (by simp only [List.length_cons] at hl; omega)]
    simp [reverseChunks]

/-- Case 8 of `EndianSwap` reverses the eight bytes of every element. -/
theorem swapLoop64_chunks (hostLE : Bool) :
    ∀ (num : Nat) (pre body rest : List Nat), (∀ x ∈ body, x < 256) → body.length = num * 8 →
      swapLoop64 hostLE num (pre ++ (body ++ rest)) pre.length
        = pre ++ (reverseChunks 8 num body ++ rest) := by
  intro num
  induction num with
  | zero =>
    intro pre body rest _ hl
    have : body = [] := List.length_eq_zero.mp (by omega)
    subst this
    rfl
  | succ n ih =>
    intro pre body rest hb hl
    obtain ⟨a, b, c, d, e, f, g, h, body1, rfl⟩ := list_split8 body n hl
    have ha := hb a (by simp)
    have hb1 := hb b (by simp)
    have hc := hb c (by simp)
    have hd1 := hb d (by simp)
    have he := hb e (by simp)
    have hf := hb f (by simp)
    have hg := hb g (by simp)
    have hh := hb h (by simp)
    have hd : pre ++ (a :: b :: c :: d :: e :: f :: g :: h :: body1 ++ rest)
        = pre ++ (a :: b :: c :: d :: (e :: f :: g :: h :: (body1 ++ rest))) := rfl
    have hd2 : pre ++ (a :: b :: c :: d :: e :: f :: g :: h :: body1 ++ rest)
        = (pre ++ [a, b, c, d]) ++ (e :: f :: g :: h :: (body1 ++ rest)) := by simp
    have hv : readU32 hostLE (pre ++ (a :: b :: c :: d :: e :: f :: g :: h :: body1 ++ rest))
        pre.length = readU32 hostLE [a, b, c, d] 0 := by
      rw [hd, readU32_mid]
    have hu : readU32 hostLE (pre ++ (a :: b :: c :: d :: e :: f :: g :: h :: body1 ++ rest))
        (pre.length + 4) = readU32 hostLE [e, f, g, h] 0 := by
      rw [hd2, show pre.length + 4 = (pre ++ [a, b, c, d]).length by simp, readU32_mid]
    rw [swapLoop64]
    simp only [hv, hu, swap32_stored hostLE a b c d ha hb1 hc hd1,
      swap32_stored hostLE e f g h he hf hg hh]
    have hw1 : writeBytesAt (pre ++ (a :: b :: c :: d :: e :: f :: g :: h :: body1 ++ rest))
        pre.length [h, g, f, e]
        = (pre ++ [h, g, f, e]) ++ ([e, f, g, h] ++ (body1 ++ rest)) := by
      rw [show pre ++ (a :: b :: c :: d :: e :: f :: g :: h :: body1 ++ rest)
        = pre ++ ([a, b, c, d] ++ (e :: f :: g :: h :: (body1 ++ rest))) from rfl,
        writeBytesAt_mid pre [a, b, c, d] [h, g, f, e] _ rfl]
      simp
    have hw2 : writeBytesAt ((pre ++ [h, g, f, e]) ++ ([e, f, g, h] ++ (body1 ++ rest)))
        (pre.length + 4) [d, c, b, a]
        = (pre ++ [h, g, f, e, d, c, b, a]) ++ (body1 ++ rest) := by
      rw [show pre.length + 4 = (pre ++ [h, g, f, e]).length by simp,
        writeBytesAt_mid (pre ++ [h, g, f, e]) [e, f, g, h] [d, c, b, a] _ rfl]
      simp
    rw [hw1, hw2, show pre.length + 8 = (pre ++ [h, g, f, e, d, c, b, a]).length by simp,
      ih (pre ++ [h, g, f, e, d, c, b, a]) body1 rest (fun x hx => hb x (by simp [hx]))
        (by simp only [List.length_cons] at hl; omega)]
    simp [reverseChunks]
theorem data_split3 (data : List Nat) (off n : Nat) :
    data = data.take off ++ (readBytes data off n ++ data.drop (off + n)) := by
  simp only [readBytes]
  rw [← List.drop_drop, List.take_append_drop, List.take_append_drop]

theorem length_reverseChunks (w : Nat) :
    ∀ (num : Nat) (body : List Nat), body.length = num * w →
      (reverseChunks w num body).length = num * w := by
  intro num
  induction num with
  | zero => intro body _; simp [reverseChunks]
  | succ n ih =>
    intro body hl
    have hw : w ≤ body.length := by rw [hl, Nat.succ_mul]; omega
    simp only [reverseChunks, List.length_append, List.length_reverse, List.length_take]
    rw [ih (body.drop w) (by simp only [List.length_drop, hl, Nat.succ_mul]; omega),
      Nat.min_eq_left hw, Nat.succ_mul]
    omega

theorem mem_reverseChunks (w : Nat) :
    ∀ (num : Nat) (body : List Nat) (x : Nat), x ∈ reverseChunks w num body → x ∈ body := by
  intro num
  induction num with
  | zero => intro body x hx; simp [reverseChunks] at hx
  | succ n ih =>
    intro body x hx
    simp only [reverseChunks, List.mem_append, List.mem_reverse] at hx
    rcases hx with hx | hx
    · exact List.mem_of_mem_take hx
    · exact List.mem_of_mem_drop (ih _ x hx)

/-- The byte reversal of the elements is an involution. -/
theorem reverseChunks_invol (w : Nat) :
    ∀ (num : Nat) (body : List Nat), body.length = num * w →
      reverseChunks w num (reverseChunks w num body) = body := by
  intro num
  induction num with
  | zero =>
    intro body hl
    have : body = [] := List.length_eq_zero.mp (by omega)
    subst this
    rfl
  | succ n ih =>
    intro body hl
    have hw : w ≤ body.length := by rw [hl, Nat.succ_mul]; omega
    have hlt : ((body.take w).reverse).length = w := by
      simp only [List.length_reverse, List.length_take]; omega
    have e : reverseChunks w (n + 1) body
        = (body.take w).reverse ++ reverseChunks w n (body.drop w) := rfl
    rw [e]
    generalize hX : (body.take w).reverse = X at hlt
    simp only [reverseChunks]
    rw [List.take_append_of_le_length (by omega), List.take_of_length_le (by omega),
      List.drop_append_of_le_length (by omega), List.drop_of_length_le (by omega : X.length ≤ w),
      List.nil_append, ih (body.drop w) (by simp only [List.length_drop, hl, Nat.succ_mul]; omega),
      ← hX, List.reverse_reverse, List.take_append_drop]

theorem three_parts (P M R : List Nat) (off n : Nat) (hP : P.length = off) (hM : M.length = n) :
    (P ++ (M ++ R)).take off = P ∧ readBytes (P ++ (M ++ R)) off n = M
    ∧ (P ++ (M ++ R)).drop (off + n) = R := by
  subst hP
  subst hM
  refine ⟨List.take_left _ _, ?_, ?_⟩
  · simp only [readBytes, List.drop_left, List.take_left]
  · rw [List.drop_append, List.drop_left]

/-- What `EndianSwap` does when the endianness of the message differs from that of
the host, for a type of 2, 4 or 8 bytes: every element is byte-reversed, and
nothing else changes. -/
theorem EndianSwap_chunks (hostLE : Bool) (bus : AJ_BusAttachment) (msg : AJ_Message)
    (typeId off num : Nat)
    (hend : hdrEndianess hostLE bus msg ≠ HOST_ENDIANESS hostLE)
    (hw : SizeOfType typeId = 2 ∨ SizeOfType typeId = 4 ∨ SizeOfType typeId = 8)
    (hb : ∀ x ∈ readBytes bus.rx.data off (num * SizeOfType typeId), x < 256)
    (hr : off + num * SizeOfType typeId ≤ bus.rx.data.length) :
    EndianSwap hostLE bus msg typeId off num
      = { bus with rx := { bus.rx with
            data := bus.rx.data.take off
              ++ (reverseChunks (SizeOfType typeId) num
                    (readBytes bus.rx.data off (num * SizeOfType typeId))
                  ++ bus.rx.data.drop (off + num * SizeOfType typeId)) } } := by
  have hsplit := data_split3 bus.rx.data off (num * SizeOfType typeId)
  have hoff : off = (bus.rx.data.take off).length := by
    simp only [List.length_take]; omega
  have hlen : (readBytes bus.rx.data off (num * SizeOfType typeId)).length
      = num * SizeOfType typeId := length_readBytes _ _ _ hr
  unfold EndianSwap
  rw [if_pos hend]
  rcases hw with h | h | h
  · rw [if_pos h]
    rw [h] at hsplit hb hlen ⊢
    have := swapLoop16_chunks hostLE num (bus.rx.data.take off) (readBytes bus.rx.data off (num * 2))
      (bus.rx.data.drop (off + num * 2)) hb hlen
    rw [← hsplit, ← hoff] at this
    rw [this]
  · rw [if_neg (by omega), if_pos h]
    rw [h] at hsplit hb hlen ⊢
    have := swapLoop32_chunks hostLE num (bus.rx.data.take off) (readBytes bus.rx.data off (num * 4))
      (bus.rx.data.drop (off + num * 4)) hb hlen
    rw [← hsplit, ← hoff] at this
    rw [this]
  · rw [if_neg (by omega), if_neg (by omega), if_pos h]
    rw [h] at hsplit hb hlen ⊢
    have := swapLoop64_chunks hostLE num (bus.rx.data.take off) (readBytes bus.rx.data off (num * 8))
      (bus.rx.data.drop (off + num * 8)) hb hlen
    rw [← hsplit, ← hoff] at this
    rw [this]

/-- C30: when the endianness byte of the message differs from that of the host,
`EndianSwap` on `num` elements of a type of 2, 4 or 8 bytes replaces the bytes of
every element by the same bytes in reverse order and changes nothing outside these
`num * w` bytes; it changes nothing for a type of 1 byte or when the endianness is
that of the host; on elements that lie behind the endianness byte a second call
restores the bus attachment; the reversal of one 8-byte element is the reversal of
the list of its bytes; and a header received with the endianness byte `B` on a
little-endian host with the `bodyLen` bytes `00 00 00 10` is unmarshalled with the
body length 16, the serial number 5 and the header length 11. -/
theorem C30_endian_swap_is_byte_reversal :
    (∀ (hostLE : Bool) (bus : AJ_BusAttachment) (msg : AJ_Message) (typeId off num : Nat),
      hdrEndianess hostLE bus msg ≠ HOST_ENDIANESS hostLE →
      (SizeOfType typeId = 2 ∨ SizeOfType typeId = 4 ∨ SizeOfType typeId = 8) →
      (∀ x ∈ readBytes bus.rx.data off (num * SizeOfType typeId), x < 256) →
      off + num * SizeOfType typeId ≤ bus.rx.data.length →
      EndianSwap hostLE bus msg typeId off num
        = { bus with rx := { bus.rx with
              data := bus.rx.data.take off
                ++ (reverseChunks (SizeOfType typeId) num
                      (readBytes bus.rx.data off (num * SizeOfType typeId))
                    ++ bus.rx.data.drop (off + num * SizeOfType typeId)) } })
    ∧ (∀ (hostLE : Bool) (bus : AJ_BusAttachment) (msg : AJ_Message) (typeId off num : Nat),
      (SizeOfType typeId = 1 ∨ hdrEndianess hostLE bus msg = HOST_ENDIANESS hostLE) →
      EndianSwap hostLE bus msg typeId off num = bus)
    ∧ (∀ (hostLE : Bool) (bus : AJ_BusAttachment) (msg : AJ_Message) (typeId off num : Nat),
      hdrEndianess hostLE bus msg ≠ HOST_ENDIANESS hostLE →
      (SizeOfType typeId = 2 ∨ SizeOfType typeId = 4 ∨ SizeOfType typeId = 8) →
      (∀ x ∈ readBytes bus.rx.data off (num * SizeOfType typeId), x < 256) →
      off + num * SizeOfType typeId ≤ bus.rx.data.length → 0 < off →
      EndianSwap hostLE (EndianSwap hostLE bus msg typeId off num) msg typeId off num = bus)
    ∧ (∀ a b c d e f g h : Nat,
      reverseChunks 8 1 [a, b, c, d, e, f, g, h] = [a, b, c, d, e, f, g, h].reverse)
    ∧ (AJ_UnmarshalMsg noExternals true c30Header).map
        (fun r => (r.1, r.2.2.bodyBytes, hdrBodyLen true r.2.1 r.2.2,
          hdrSerialNum true r.2.1 r.2.2, hdrHeaderLen true r.2.1 r.2.2))
        = some (AJ_OK, 16, 16, 5, 11) := by
  refine ⟨EndianSwap_chunks, ?_, ?_, ?_, ?_⟩
  · intro hostLE bus msg typeId off num h
    rcases h with h | h
    · unfold EndianSwap
      split_ifs <;> first | rfl | omega
    · exact EndianSwap_host hostLE bus msg typeId off num h
  · intro hostLE bus msg typeId off num hend hw hb hr hoff
    have h1 := EndianSwap_chunks hostLE bus msg typeId off num hend hw hb hr
    generalize hD : bus.rx.data.take off
        ++ (reverseChunks (SizeOfType typeId) num
              (readBytes bus.rx.data off (num * SizeOfType typeId))
            ++ bus.rx.data.drop (off + num * SizeOfType typeId)) = D1 at h1
    have hlenB : (readBytes bus.rx.data off (num * SizeOfType typeId)).length
        = num * SizeOfType typeId := length_readBytes _ _ _ hr
    have hlenR := length_reverseChunks (SizeOfType typeId) num _ hlenB
    have htl : (bus.rx.data.take off).length = off := by
      simp only [List.length_take]; omega
    have hD1len : D1.length = bus.rx.data.length := by
      rw [← hD]
      simp only [List.length_append, hlenR, htl, List.length_drop]
      omega
    obtain ⟨hD1take, hD1read, hD1drop⟩ := three_parts (bus.rx.data.take off)
      (reverseChunks (SizeOfType typeId) num (readBytes bus.rx.data off (num * SizeOfType typeId)))
      (bus.rx.data.drop (off + num * SizeOfType typeId)) off (num * SizeOfType typeId) htl hlenR
    rw [hD] at hD1take hD1read hD1drop
    have hget0 : D1.getD 0 0 = bus.rx.data.getD 0 0 := by
      have e1 : D1.getD 0 0 = (D1.take off).getD 0 0 := by
        simp [List.getD_eq_getElem?_getD, List.getElem?_take, hoff]
      have e2 : bus.rx.data.getD 0 0 = (bus.rx.data.take off).getD 0 0 := by
        simp [List.getD_eq_getElem?_getD, List.getElem?_take, hoff]
      rw [e1, e2, hD1take]
    have hend1 : hdrEndianess hostLE (EndianSwap hostLE bus msg typeId off num) msg
        ≠ HOST_ENDIANESS hostLE := by
      rw [h1]
      have : hdrEndianess hostLE { bus with rx := { bus.rx with data := D1 } } msg
          = hdrEndianess hostLE bus msg := by
        unfold hdrEndianess
        cases msg.hdr <;> simp only [hget0]
      rw [this]
      exact hend
    have h2 := EndianSwap_chunks hostLE (EndianSwap hostLE bus msg typeId off num) msg typeId off
      num hend1 hw (by
        rw [h1]
        simp only
        rw [hD1read]
        intro x hx
        exact hb x (mem_reverseChunks _ _ _ x hx)) (by rw [h1]; simp only; omega)
    rw [h2, h1]
    simp only
    rw [hD1take, hD1read, hD1drop, reverseChunks_invol _ _ _ hlenB,
      ← data_split3 bus.rx.data off (num * SizeOfType typeId)]
  · intro a b c d e f g h
    rfl
  · decide!

/-- Witness of C30: two 64-bit elements at offset 8 of an RX buffer whose header has
the endianness byte `B`, on a little-endian host. -/
theorem C30_endian_swap_is_byte_reversal_witness :
    (EndianSwap true c30Bus { AJ_Message.zero with hdr := AJ_HdrPtr.rx } AJ_ARG_UINT64 8 2).rx.data
      = [66, 1, 0, 1, 0, 0, 0, 0, 8, 7, 6, 5, 4, 3, 2, 1,
         18, 17, 16, 15, 14, 13, 12, 11, 0, 0, 0, 0, 0, 0, 0, 0]
    ∧ EndianSwap true
        (EndianSwap true c30Bus { AJ_Message.zero with hdr := AJ_HdrPtr.rx } AJ_ARG_UINT64 8 2)
        { AJ_Message.zero with hdr := AJ_HdrPtr.rx } AJ_ARG_UINT64 8 2 = c30Bus := by
  have h1 := C30_endian_swap_is_byte_reversal.1 true c30Bus
    { AJ_Message.zero with hdr := AJ_HdrPtr.rx } AJ_ARG_UINT64 8 2 (by decide) (by decide)
    (by decide) (by decide)
  have h3 := C30_endian_swap_is_byte_reversal.2.2.1 true c30Bus
    { AJ_Message.zero with hdr := AJ_HdrPtr.rx } AJ_ARG_UINT64 8 2 (by decide) (by decide)
    (by decide) (by decide) (by decide)
  refine ⟨?_, h3⟩
  rw [h1]
  decide

/-! ## C32: the nonce -/

theorem xor3_xor3 (r : Nat) : (r ^^^ 3) ^^^ 3 = r := by
  rw [Nat.xor_assoc, Nat.xor_self, Nat.xor_zero]

theorem xor3_lt (r : Nat) (h : r < 256) : r ^^^ 3 < 256 :=
  Nat.xor_lt_two_pow (n := 8) h (by decide)

theorem InitNonce_eq (hostLE : Bool) (bus : AJ_BusAttachment) (msg : AJ_Message) (r s : Nat)
    (hr : r < 256) (hs : hdrSerialNum hostLE bus msg = s) (hs32 : s < 4294967296) :
    InitNonce hostLE bus msg r
      = [r, s / 16777216, s / 65536 % 256, s / 256 % 256, s % 256] := by
  simp only [InitNonce, hs, Nat.shiftRight_eq_div_pow]
  rw [Nat.mod_eq_of_lt hr]
  have : s / 2 ^ 24 % 256 = s / 16777216 := by
    rw [Nat.mod_eq_of_lt]; norm_num; omega
  rw [this]

theorem InitNonce_mod (hostLE : Bool) (bus : AJ_BusAttachment) (msg : AJ_Message) (r : Nat) :
    InitNonce hostLE bus msg (r % 256) = InitNonce hostLE bus msg r := by
  simp [InitNonce]

/-- C32: for a role byte `r` and a 32-bit serial number `s` in the header,
`InitNonce` produces the five bytes `r, s >> 24, s >> 16, s >> 8, s`; the role and
the serial number can be read back from the nonce (the map is injective); a
receiver of a session message whose `AJ_GetSessionKey` reports the role `r XOR 3`
decrypts with the nonce of the role `r`, and a sender whose `AJ_GetSessionKey`
reports `r` encrypts with it; for a signal without destination both use
`AJ_ROLE_KEY_UNDEFINED`. -/
theorem C32_nonce_derivation (hostLE : Bool) (bus : AJ_BusAttachment) (msg : AJ_Message)
    (r s : Nat) (hr : r < 256) (hs : hdrSerialNum hostLE bus msg = s) (hs32 : s < 4294967296) :
    InitNonce hostLE bus msg r = [r, s / 16777216, s / 65536 % 256, s / 256 % 256, s % 256]
    ∧ (∀ (hostLE1 : Bool) (bus1 : AJ_BusAttachment) (msg1 : AJ_Message) (r1 : Nat),
        r1 < 256 → hdrSerialNum hostLE1 bus1 msg1 < 4294967296 →
        InitNonce hostLE1 bus1 msg1 r1 = InitNonce hostLE bus msg r →
        r1 = r ∧ hdrSerialNum hostLE1 bus1 msg1 = s)
    ∧ (∀ (ext : AJ_Externals) (key : List Nat),
        hdrEndianess hostLE bus msg = HOST_ENDIANESS hostLE →
        ¬ (hdrMsgType hostLE bus msg = AJ_MSG_SIGNAL ∧ msg.destination = AJ_Ptr.null) →
        ext.AJ_GetSessionKey bus msg.sender (ext.AJ_ROLE_KEY_UNDEFINED % 256)
          = (AJ_OK, key, r ^^^ 3) →
        DecryptMessage ext hostLE bus msg
          = ((ext.AJ_Decrypt_CCM key bus.rx.data
                ((MessageLen hostLE bus msg + 4294967296 - MAC_LENGTH) % 4294967296)
                ((MessageLen hostLE bus msg + 4294967296 - hdrBodyLen hostLE bus msg)
                  % 4294967296)
                MAC_LENGTH (InitNonce hostLE bus msg r)).1,
             { bus with rx := { bus.rx with data :=
                (ext.AJ_Decrypt_CCM key bus.rx.data
                  ((MessageLen hostLE bus msg + 4294967296 - MAC_LENGTH) % 4294967296)
                  ((MessageLen hostLE bus msg + 4294967296 - hdrBodyLen hostLE bus msg)
                    % 4294967296)
                  MAC_LENGTH (InitNonce hostLE bus msg r)).2 } }))
    ∧ (∀ (ext : AJ_Externals) (key : List Nat),
        hdrEndianess hostLE bus msg = HOST_ENDIANESS hostLE →
        hdrMsgType hostLE bus msg = AJ_MSG_SIGNAL ∧ msg.destination = AJ_Ptr.null →
        ext.AJ_GetGroupKey bus msg.sender = (AJ_OK, key) →
        DecryptMessage ext hostLE bus msg
          = ((ext.AJ_Decrypt_CCM key bus.rx.data
                ((MessageLen hostLE bus msg + 4294967296 - MAC_LENGTH) % 4294967296)
                ((MessageLen hostLE bus msg + 4294967296 - hdrBodyLen hostLE bus msg)
                  % 4294967296)
                MAC_LENGTH (InitNonce hostLE bus msg ext.AJ_ROLE_KEY_UNDEFINED)).1,
             { bus with rx := { bus.rx with data :=
                (ext.AJ_Decrypt_CCM key bus.rx.data
                  ((MessageLen hostLE bus msg + 4294967296 - MAC_LENGTH) % 4294967296)
                  ((MessageLen hostLE bus msg + 4294967296 - hdrBodyLen hostLE bus msg)
                    % 4294967296)
                  MAC_LENGTH (InitNonce hostLE bus msg ext.AJ_ROLE_KEY_UNDEFINED)).2 } }))
    ∧ (∀ (ext : AJ_Externals) (key : List Nat),
        MAC_LENGTH ≤ AJ_IO_BUF_SPACE bus.tx →
        ¬ (hdrMsgType hostLE (macReserved hostLE bus msg) msg = AJ_MSG_SIGNAL
            ∧ msg.destination = AJ_Ptr.null) →
        ext.AJ_GetSessionKey (macReserved hostLE bus msg) msg.destination
          (ext.AJ_ROLE_KEY_UNDEFINED % 256) = (AJ_OK, key, r) →
        EncryptMessage ext hostLE bus msg
          = ((ext.AJ_Encrypt_CCM key (macReserved hostLE bus msg).tx.data
                (MessageLen hostLE bus msg)
                ((MessageLen hostLE bus msg + 4294967296 - hdrBodyLen hostLE bus msg)
                  % 4294967296)
                MAC_LENGTH (InitNonce hostLE (macReserved hostLE bus msg) msg r)).1,
             { macReserved hostLE bus msg with tx := { (macReserved hostLE bus msg).tx with data :=
                (ext.AJ_Encrypt_CCM key (macReserved hostLE bus msg).tx.data
                  (MessageLen hostLE bus msg)
                  ((MessageLen hostLE bus msg + 4294967296 - hdrBodyLen hostLE bus msg)
                    % 4294967296)
                  MAC_LENGTH (InitNonce hostLE (macReserved hostLE bus msg) msg r)).2 } }))
    ∧ (∀ (ext : AJ_Externals) (key : List Nat),
        MAC_LENGTH ≤ AJ_IO_BUF_SPACE bus.tx →
        hdrMsgType hostLE (macReserved hostLE bus msg) msg = AJ_MSG_SIGNAL
            ∧ msg.destination = AJ_Ptr.null →
        ext.AJ_GetGroupKey (macReserved hostLE bus msg) AJ_Ptr.null = (AJ_OK, key) →
        EncryptMessage ext hostLE bus msg
          = ((ext.AJ_Encrypt_CCM key (macReserved hostLE bus msg).tx.data
                (MessageLen hostLE bus msg)
                ((MessageLen hostLE bus msg + 4294967296 - hdrBodyLen hostLE bus msg)
                  % 4294967296)
                MAC_LENGTH
                (InitNonce hostLE (macReserved hostLE bus msg) msg ext.AJ_ROLE_KEY_UNDEFINED)).1,
             { macReserved hostLE bus msg with tx := { (macReserved hostLE bus msg).tx with data :=
                (ext.AJ_Encrypt_CCM key (macReserved hostLE bus msg).tx.data
                  (MessageLen hostLE bus msg)
                  ((MessageLen hostLE bus msg + 4294967296 - hdrBodyLen hostLE bus msg)
                    % 4294967296)
                  MAC_LENGTH
                  (InitNonce hostLE (macReserved hostLE bus msg) msg
                    ext.AJ_ROLE_KEY_UNDEFINED)).2 } })) := by
  refine ⟨InitNonce_eq hostLE bus msg r s hr hs hs32, ?_, ?_, ?_, ?_, ?_⟩
  · intro hostLE1 bus1 msg1 r1 hr1 hs1 he
    rw [InitNonce_eq hostLE bus msg r s hr hs hs32,
      InitNonce_eq hostLE1 bus1 msg1 r1 _ hr1 rfl hs1] at he
    simp only [List.cons.injEq, and_true] at he
    obtain ⟨h0, h1, h2, h3, h4⟩ := he
    exact ⟨h0, by omega⟩
  · intro ext key hend hsess hkey
    have hrole : ((r ^^^ 3) % 256) ^^^ 3 = r := by
      rw [Nat.mod_eq_of_lt (xor3_lt r hr), xor3_xor3]
    simp only [DecryptMessage, if_neg (not_not.mpr hend), if_neg hsess, hkey, hrole, ne_eq,
      not_true_eq_false, if_false]
  · intro ext key hend hsig hkey
    simp only [DecryptMessage, if_neg (not_not.mpr hend), if_pos hsig, hkey, ne_eq,
      not_true_eq_false, if_false, InitNonce_mod]
  · intro ext key hsp hsess hkey
    have hsp1 : ¬ AJ_IO_BUF_SPACE bus.tx < MAC_LENGTH := by omega
    unfold macReserved at hsess hkey
    simp only [EncryptMessage, macReserved, if_neg hsp1, if_neg hsess, hkey, ne_eq,
      not_true_eq_false, if_false]
  · intro ext key hsp hsig hkey
    have hsp1 : ¬ AJ_IO_BUF_SPACE bus.tx < MAC_LENGTH := by omega
    unfold macReserved at hsig hkey
    simp only [EncryptMessage, macReserved, if_neg hsp1, if_pos hsig, hkey, ne_eq,
      not_true_eq_false, if_false, InitNonce_mod]

/-- Witness of C32: a received little-endian message with the serial number
0x01020304 and the role 1 gives the nonce `01 01 02 03 04`. -/
theorem C32_nonce_derivation_witness :
    hdrSerialNum true (c17Rx [108, 4, 0, 1, 0, 0, 0, 0, 4, 3, 2, 1, 0, 0, 0, 0])
        { hdr := AJ_HdrPtr.rx } = 0x01020304
    ∧ InitNonce true (c17Rx [108, 4, 0, 1, 0, 0, 0, 0, 4, 3, 2, 1, 0, 0, 0, 0])
        { hdr := AJ_HdrPtr.rx } 1 = [1, 1, 2, 3, 4] :=
  ⟨by decide,
   (C32_nonce_derivation true (c17Rx [108, 4, 0, 1, 0, 0, 0, 0, 4, 3, 2, 1, 0, 0, 0, 0])
      { hdr := AJ_HdrPtr.rx } 1 0x01020304 (by decide) (by decide) (by decide)).1.trans
        (by decide)⟩

/-! ## C33: the lengths of encryption and decryption -/

theorem and_shiftLeft (x m k : Nat) : x &&& (m <<< k) = ((x >>> k) &&& m) <<< k := by
  apply Nat.eq_of_testBit_eq
  intro i
  simp only [Nat.testBit_and, Nat.testBit_shiftLeft, Nat.testBit_shiftRight]
  by_cases h : k ≤ i
  · simp [h, Nat.add_sub_cancel' h]
  · simp [h]

theorem and_fffffff8 (x : Nat) (hx : x < 4294967296) : x &&& 0xFFFFFFF8 = x / 8 * 8 := by
  have e : (0xFFFFFFF8 : Nat) = (2 ^ 29 - 1) <<< 3 := by decide
  rw [e, and_shiftLeft, Nat.and_pow_two_sub_one_eq_mod, Nat.shiftLeft_eq,
    Nat.shiftRight_eq_div_pow]
  have : x / 2 ^ 3 % 2 ^ 29 = x / 8 := by
    rw [Nat.mod_eq_of_lt] <;> norm_num; omega
  rw [this]

theorem MessageLen_eq (hostLE : Bool) (bus : AJ_BusAttachment) (msg : AJ_Message) (b h : Nat)
    (hb : hdrBodyLen hostLE bus msg = b) (hh : hdrHeaderLen hostLE bus msg = h)
    (hlt : 16 + roundup8 h + b < 4294967296) :
    MessageLen hostLE bus msg = 16 + roundup8 h + b
    ∧ (MessageLen hostLE bus msg + 4294967296 - hdrBodyLen hostLE bus msg) % 4294967296
        = 16 + roundup8 h := by
  unfold roundup8 at hlt
  have h7 : h + 7 < 4294967296 := by omega
  have hm : MessageLen hostLE bus msg = 16 + roundup8 h + b := by
    unfold MessageLen roundup8
    rw [hb, hh, Nat.mod_eq_of_lt h7, and_fffffff8 _ h7, Nat.mod_eq_of_lt hlt]
  refine ⟨hm, ?_⟩
  rw [hm, hb]
  unfold roundup8
  omega

theorem readU32_writeBytesAt_other (hostLE : Bool) (data : List Nat) (off : Nat)
    (bytes : List Nat) (p : Nat) (h : off + bytes.length ≤ data.length)
    (hp : p + 4 ≤ off ∨ off + bytes.length ≤ p) :
    readU32 hostLE (writeBytesAt data off bytes) p = readU32 hostLE data p := by
  have g : ∀ i, i < 4 → (writeBytesAt data off bytes).getD (p + i) 0 = data.getD (p + i) 0 := by
    intro i hi
    rw [getD_writeBytesAt _ _ _ _ h, if_neg (by omega)]
  have g0 := g 0 (by omega)
  rw [Nat.add_zero] at g0
  simp only [readU32, g0, g 1 (by omega), g 2 (by omega), g 3 (by omega)]

theorem macReserved_tx (hostLE : Bool) (bus : AJ_BusAttachment) (msg : AJ_Message)
    (hhdr : msg.hdr = AJ_HdrPtr.tx) :
    macReserved hostLE bus msg
      = { bus with tx := { bus.tx with
            data := writeBytesAt bus.tx.data 4
              (u32Bytes hostLE ((hdrBodyLen hostLE bus msg + MAC_LENGTH) % 4294967296))
            writePtr := bus.tx.writePtr + MAC_LENGTH } } := by
  simp [macReserved, hdrStore, hhdr]

theorem EncryptMessage_reserved (ext : AJ_Externals) (hostLE : Bool) (bus : AJ_BusAttachment)
    (msg : AJ_Message) :
    EncryptMessage ext hostLE bus msg
      = if AJ_IO_BUF_SPACE bus.tx < MAC_LENGTH then (AJ_ERR_RESOURCES, bus)
        else if (encryptKey ext hostLE (macReserved hostLE bus msg) msg).1 ≠ AJ_OK then
          (AJ_ERR_SECURITY, macReserved hostLE bus msg)
        else
          ((ext.AJ_Encrypt_CCM (encryptKey ext hostLE (macReserved hostLE bus msg) msg).2.1
              (macReserved hostLE bus msg).tx.data (MessageLen hostLE bus msg)
              ((MessageLen hostLE bus msg + 4294967296 - hdrBodyLen hostLE bus msg) % 4294967296)
              MAC_LENGTH
              (InitNonce hostLE (macReserved hostLE bus msg) msg
                (encryptKey ext hostLE (macReserved hostLE bus msg) msg).2.2)).1,
           { macReserved hostLE bus msg with
             tx := { (macReserved hostLE bus msg).tx with data :=
              (ext.AJ_Encrypt_CCM (encryptKey ext hostLE (macReserved hostLE bus msg) msg).2.1
                (macReserved hostLE bus msg).tx.data (MessageLen hostLE bus msg)
                ((MessageLen hostLE bus msg + 4294967296 - hdrBodyLen hostLE bus msg)
                  % 4294967296)
                MAC_LENGTH
                (InitNonce hostLE (macReserved hostLE bus msg) msg
                  (encryptKey ext hostLE (macReserved hostLE bus msg) msg).2.2)).2 } }) := by
  by_cases hsp : AJ_IO_BUF_SPACE bus.tx < MAC_LENGTH
  · simp only [EncryptMessage, if_pos hsp]
  · by_cases hs : hdrMsgType hostLE (macReserved hostLE bus msg) msg = AJ_MSG_SIGNAL
        ∧ msg.destination = AJ_Ptr.null
    · have hs1 := hs
      unfold macReserved at hs1
      simp only [EncryptMessage, encryptKey, macReserved, if_neg hsp, if_pos hs1]
    · have hs1 := hs
      unfold macReserved at hs1
      simp only [EncryptMessage, encryptKey, macReserved, if_neg hsp, if_neg hs1]

theorem DecryptMessage_key (ext : AJ_Externals) (hostLE : Bool) (bus : AJ_BusAttachment)
    (msg : AJ_Message) :
    DecryptMessage ext hostLE bus msg
      = if hdrEndianess hostLE bus msg ≠ HOST_ENDIANESS hostLE then (AJ_ERR_SECURITY, bus)
        else if (decryptKey ext hostLE bus msg).1 ≠ AJ_OK then (AJ_ERR_SECURITY, bus)
        else
          ((ext.AJ_Decrypt_CCM (decryptKey ext hostLE bus msg).2.1 bus.rx.data
              ((MessageLen hostLE bus msg + 4294967296 - MAC_LENGTH) % 4294967296)
              ((MessageLen hostLE bus msg + 4294967296 - hdrBodyLen hostLE bus msg) % 4294967296)
              MAC_LENGTH (InitNonce hostLE bus msg (decryptKey ext hostLE bus msg).2.2)).1,
           { bus with rx := { bus.rx with data :=
              (ext.AJ_Decrypt_CCM (decryptKey ext hostLE bus msg).2.1 bus.rx.data
                ((MessageLen hostLE bus msg + 4294967296 - MAC_LENGTH) % 4294967296)
                ((MessageLen hostLE bus msg + 4294967296 - hdrBodyLen hostLE bus msg)
                  % 4294967296)
                MAC_LENGTH (InitNonce hostLE bus msg (decryptKey ext hostLE bus msg).2.2)).2 } }) := by
  by_cases he : hdrEndianess hostLE bus msg ≠ HOST_ENDIANESS hostLE
  · simp only [DecryptMessage, if_pos he]
  · by_cases hs : hdrMsgType hostLE bus msg = AJ_MSG_SIGNAL ∧ msg.destination = AJ_Ptr.null
    · simp only [DecryptMessage, decryptKey, if_neg he, if_pos hs]
    · simp only [DecryptMessage, decryptKey, if_neg he, if_neg hs]

/-- C33 (amended): for a message under construction with body length `b` and header
length `h` (the whole message with the MAC below 2^32 bytes) `EncryptMessage`
returns `AJ_ERR_RESOURCES` and leaves the message alone when fewer than 8 bytes of
TX space remain; otherwise it sets `bodyLen = b + 8`, advances the write cursor by
8 and, when the key lookup succeeds, calls `AJ_Encrypt_CCM` with the message length
`16 + roundup8(h) + b`, the header length `16 + roundup8(h)` and the MAC length 8;
when the lookup fails it returns `AJ_ERR_SECURITY` without the call. On a header
with `bodyLen = b + 8` and the same `h`, `DecryptMessage` returns `AJ_ERR_SECURITY`
without a call when the endianness is not the one of the host or the key lookup
fails, and calls `AJ_Decrypt_CCM` with the same two lengths and the MAC length 8
otherwise. -/
theorem C33_encrypt_decrypt_layout (ext : AJ_Externals) (hostLE : Bool)
    (bus : AJ_BusAttachment) (msg : AJ_Message) (b h : Nat)
    (hhdr : msg.hdr = AJ_HdrPtr.tx) (hdata : 16 ≤ bus.tx.data.length)
    (hb : hdrBodyLen hostLE bus msg = b) (hh : hdrHeaderLen hostLE bus msg = h)
    (hlt : 16 + roundup8 h + b + MAC_LENGTH < 4294967296) :
    (AJ_IO_BUF_SPACE bus.tx < MAC_LENGTH →
      EncryptMessage ext hostLE bus msg = (AJ_ERR_RESOURCES, bus))
    ∧ (MAC_LENGTH ≤ AJ_IO_BUF_SPACE bus.tx →
        hdrBodyLen hostLE (macReserved hostLE bus msg) msg = b + 8
        ∧ hdrHeaderLen hostLE (macReserved hostLE bus msg) msg = h
        ∧ (macReserved hostLE bus msg).tx.writePtr = bus.tx.writePtr + 8
        ∧ EncryptMessage ext hostLE bus msg
          = if (encryptKey ext hostLE (macReserved hostLE bus msg) msg).1 ≠ AJ_OK then
              (AJ_ERR_SECURITY, macReserved hostLE bus msg)
            else
              ((ext.AJ_Encrypt_CCM (encryptKey ext hostLE (macReserved hostLE bus msg) msg).2.1
                  (macReserved hostLE bus msg).tx.data (16 + roundup8 h + b) (16 + roundup8 h) 8
                  (InitNonce hostLE (macReserved hostLE bus msg) msg
                    (encryptKey ext hostLE (macReserved hostLE bus msg) msg).2.2)).1,
               { macReserved hostLE bus msg with
                 tx := { (macReserved hostLE bus msg).tx with data :=
                  (ext.AJ_Encrypt_CCM (encryptKey ext hostLE (macReserved hostLE bus msg) msg).2.1
                    (macReserved hostLE bus msg).tx.data (16 + roundup8 h + b) (16 + roundup8 h) 8
                    (InitNonce hostLE (macReserved hostLE bus msg) msg
                      (encryptKey ext hostLE (macReserved hostLE bus msg) msg).2.2)).2 } }))
    ∧ (∀ (busR : AJ_BusAttachment) (msgR : AJ_Message),
        hdrBodyLen hostLE busR msgR = b + 8 → hdrHeaderLen hostLE busR msgR = h →
        DecryptMessage ext hostLE busR msgR
          = if hdrEndianess hostLE busR msgR ≠ HOST_ENDIANESS hostLE then (AJ_ERR_SECURITY, busR)
            else if (decryptKey ext hostLE busR msgR).1 ≠ AJ_OK then (AJ_ERR_SECURITY, busR)
            else
              ((ext.AJ_Decrypt_CCM (decryptKey ext hostLE busR msgR).2.1 busR.rx.data
                  (16 + roundup8 h + b) (16 + roundup8 h) 8
                  (InitNonce hostLE busR msgR (decryptKey ext hostLE busR msgR).2.2)).1,
               { busR with rx := { busR.rx with data :=
                  (ext.AJ_Decrypt_CCM (decryptKey ext hostLE busR msgR).2.1 busR.rx.data
                    (16 + roundup8 h + b) (16 + roundup8 h) 8
                    (InitNonce hostLE busR msgR (decryptKey ext hostLE busR msgR).2.2)).2 } })) := by
  have hM : MAC_LENGTH = 8 := rfl
  rw [hM] at hlt
  obtain ⟨hml, hhl⟩ := MessageLen_eq hostLE bus msg b h hb hh (by omega)
  refine ⟨?_, ?_, ?_⟩
  · intro hsp
    simp only [EncryptMessage, if_pos hsp]
  · intro hsp
    have hsp1 : ¬ AJ_IO_BUF_SPACE bus.tx < MAC_LENGTH := by omega
    have hmr := macReserved_tx hostLE bus msg hhdr
    rw [hb, hM, Nat.mod_eq_of_lt (by omega)] at hmr
    have hl4 := length_u32Bytes hostLE (b + 8)
    have hb2 : hdrBodyLen hostLE (macReserved hostLE bus msg) msg = b + 8 := by
      rw [hmr]
      simp only [hdrBodyLen, hdrMem, hhdr]
      exact readU32_u32Bytes hostLE bus.tx.data 4 (b + 8) (by omega) (by omega)
    have hh2 : hdrHeaderLen hostLE (macReserved hostLE bus msg) msg = h := by
      rw [hmr]
      simp only [hdrHeaderLen, hdrMem, hhdr]
      rw [readU32_writeBytesAt_other _ _ _ _ _ (by omega) (by omega)]
      simpa only [hdrHeaderLen, hdrMem, hhdr] using hh
    refine ⟨hb2, hh2, by rw [hmr], ?_⟩
    rw [EncryptMessage_reserved, if_neg hsp1, hhl, hml]
  · intro busR msgR hbR hhR
    obtain ⟨hmlR, hhlR⟩ := MessageLen_eq hostLE busR msgR (b + 8) h hbR hhR (by omega)
    have e1 : (16 + roundup8 h + (b + 8) + 4294967296 - MAC_LENGTH) % 4294967296
        = 16 + roundup8 h + b := by rw [hM]; omega
    rw [DecryptMessage_key, hhlR, hmlR, e1]

/-- C33, counterexample to the claim as stated: with 11 bytes of TX space and no
key for the destination, `EncryptMessage` grows `bodyLen` and the write cursor by 8
and returns `AJ_ERR_SECURITY` without a call of the cipher (the buffer does not
hold what the stand-in leaves, as it does when the key is found); `DecryptMessage`
of a message in host byte order without a key for the sender returns
`AJ_ERR_SECURITY` without a call too. -/
theorem C33_counterexample_no_key :
    MAC_LENGTH ≤ AJ_IO_BUF_SPACE c33Bus.tx
    ∧ EncryptMessage (c33Ext false) true c33Bus c33Msg
        = (AJ_ERR_SECURITY, macReserved true c33Bus c33Msg)
    ∧ (macReserved true c33Bus c33Msg).tx.data = c33Wire 13 ++ List.replicate 11 0
    ∧ (EncryptMessage (c33Ext true) true c33Bus c33Msg).2.tx.data = [37, 32, 8, 1, 0, 0, 0, 1]
    ∧ hdrEndianess true c33RxBus c33RxMsg = HOST_ENDIANESS true
    ∧ DecryptMessage (c33Ext false) true c33RxBus c33RxMsg = (AJ_ERR_SECURITY, c33RxBus)
    ∧ (DecryptMessage (c33Ext true) true c33RxBus c33RxMsg).2.rx.data
        = [37, 32, 8, 2, 0, 0, 0, 1] := by
  decide

/-- Witness of C33: the message of 37 bytes with `b = 5` and `h = 11`; with a key
the cipher is called with the lengths 37 and 32 on both sides. -/
theorem C33_encrypt_decrypt_layout_witness :
    hdrBodyLen true (macReserved true c33Bus c33Msg) c33Msg = 5 + 8
    ∧ (EncryptMessage (c33Ext true) true c33Bus c33Msg).1 = AJ_OK
    ∧ (EncryptMessage (c33Ext true) true c33Bus c33Msg).2.tx.data = [37, 32, 8, 1, 0, 0, 0, 1]
    ∧ (DecryptMessage (c33Ext true) true c33RxBus c33RxMsg).2.rx.data
        = [37, 32, 8, 2, 0, 0, 0, 1] :=
  have h := C33_encrypt_decrypt_layout (c33Ext true) true c33Bus c33Msg 5 11 (by decide)
    (by decide) (by decide) (by decide) (by decide)
  have he := (h.2.1 (by decide)).2.2.2
  have hd := h.2.2 c33RxBus c33RxMsg (by decide) (by decide)
  ⟨(h.2.1 (by decide)).1, by rw [he]; decide, by rw [he]; decide, by rw [hd]; decide⟩

/-! ## C31: the length of the header and its padding -/

theorem hdrPad_eq (x : Nat) (hx : x < 4294967296) :
    ((8 + 4294967296 - x) % 4294967296) &&& 7 = (8 - x % 8) % 8 := by
  have e := Nat.and_pow_two_sub_one_eq_mod ((8 + 4294967296 - x) % 4294967296) 3
  have e7 : (2 ^ 3 - 1 : Nat) = 7 := by decide
  rw [e7] at e
  rw [e]
  omega

theorem bodyStart_eq (x : Nat) :
    (16 + x + (8 - x % 8) % 8) % 4294967296
        = (16 + (((x + 7) % 4294967296) &&& 0xFFFFFFF8)) % 4294967296
    ∧ (x + 7 < 4294967296 → 16 + x + (8 - x % 8) % 8 = 16 + ((x + 7) &&& 0xFFFFFFF8))
    ∧ (16 + x + (8 - x % 8) % 8) % 8 = 0 := by
  have h1 := and_fffffff8 ((x + 7) % 4294967296) (Nat.mod_lt _ (by decide))
  refine ⟨?_, ?_, by omega⟩
  · rw [h1]; omega
  · intro h7
    rw [and_fffffff8 _ h7]; omega

theorem MarshalMsg_loopEnd (ext : AJ_Externals) (hostLE : Bool) (bus : AJ_BusAttachment)
    (msg : AJ_Message) (msgType msgId flags : Nat)
    (hinit : (ext.AJ_InitMessageFromMsgId msg (msgId % 4294967296) (msgType % 256)).1 = AJ_OK)
    (L : AJ_BusAttachment × AJ_Message)
    (hL : MarshalMsgLoopEnd ext hostLE bus msg msgType msgId flags = L) :
    MarshalMsg ext hostLE bus msg msgType msgId flags
      = ((WritePad
            (hdrStore L.1 L.2 12
              (u32Bytes hostLE ((L.1.tx.writePtr + 4294967296 - 16) % 4294967296))) L.2
            (((8 + 4294967296 - hdrHeaderLen hostLE
                (hdrStore L.1 L.2 12
                  (u32Bytes hostLE ((L.1.tx.writePtr + 4294967296 - 16) % 4294967296))) L.2)
              % 4294967296) &&& 7)).1,
         (WritePad
            (hdrStore L.1 L.2 12
              (u32Bytes hostLE ((L.1.tx.writePtr + 4294967296 - 16) % 4294967296))) L.2
            (((8 + 4294967296 - hdrHeaderLen hostLE
                (hdrStore L.1 L.2 12
                  (u32Bytes hostLE ((L.1.tx.writePtr + 4294967296 - 16) % 4294967296))) L.2)
              % 4294967296) &&& 7)).2,
         L.2) := by
  subst hL
  unfold MarshalMsg MarshalMsgLoopEnd
  rw [if_neg (by rw [hinit]; decide)]

/-- C31: whenever `MarshalMsg` returns `AJ_OK` (TX buffer of 16 to 65535 bytes),
the field `headerLen` holds the number `H` of bytes that the loop over the header
fields wrote behind the 16 bytes of the fixed header; `(8 - H) mod 8` zero bytes
follow, so that the write cursor, where the body starts, is at
`16 + H + ((8 - H) mod 8)`, a multiple of 8, which is what `MessageLen` takes for
the start of the body. For every 32-bit `x` the pad that `MarshalMsg` writes and
`AJ_UnmarshalMsg` skips, `(8 - x) & 7`, is `(8 - x) mod 8`, and
`16 + x + ((8 - x) mod 8)` is `16 + ((x + 7) & 0xFFFFFFF8)` in 32-bit arithmetic
(and without wrapping when `x + 7 < 2^32`). -/
theorem C31_header_length_padding (ext : AJ_Externals) (hostLE : Bool)
    (bus : AJ_BusAttachment) (msg : AJ_Message) (msgType msgId flags : Nat)
    (hsize : 16 ≤ bus.tx.bufSize) (hlen : bus.tx.data.length = bus.tx.bufSize)
    (h16 : bus.tx.bufSize < 65536)
    (hok : (MarshalMsg ext hostLE bus msg msgType msgId flags).1 = AJ_OK) :
    (∃ H : Nat,
      hdrHeaderLen hostLE (MarshalMsg ext hostLE bus msg msgType msgId flags).2.1
        (MarshalMsg ext hostLE bus msg msgType msgId flags).2.2 = H
      ∧ (MarshalMsgLoopEnd ext hostLE bus msg msgType msgId flags).1.tx.writePtr = 16 + H
      ∧ (MarshalMsg ext hostLE bus msg msgType msgId flags).2.1.tx.writePtr
          = 16 + H + (8 - H % 8) % 8
      ∧ readBytes (MarshalMsg ext hostLE bus msg msgType msgId flags).2.1.tx.data (16 + H)
          ((8 - H % 8) % 8) = List.replicate ((8 - H % 8) % 8) 0
      ∧ readBytes (MarshalMsg ext hostLE bus msg msgType msgId flags).2.1.tx.data 16 H
          = readBytes (MarshalMsgLoopEnd ext hostLE bus msg msgType msgId flags).1.tx.data 16 H
      ∧ (16 + H + (8 - H % 8) % 8) % 8 = 0
      ∧ MessageLen hostLE (MarshalMsg ext hostLE bus msg msgType msgId flags).2.1
          (MarshalMsg ext hostLE bus msg msgType msgId flags).2.2
        = (16 + H + (8 - H % 8) % 8
            + hdrBodyLen hostLE (MarshalMsg ext hostLE bus msg msgType msgId flags).2.1
                (MarshalMsg ext hostLE bus msg msgType msgId flags).2.2) % 4294967296)
    ∧ (∀ x : Nat, x < 4294967296 →
        ((8 + 4294967296 - x) % 4294967296) &&& 7 = (8 - x % 8) % 8
        ∧ (16 + x + (8 - x % 8) % 8) % 4294967296
            = (16 + (((x + 7) % 4294967296) &&& 0xFFFFFFF8)) % 4294967296
        ∧ (x + 7 < 4294967296 → 16 + x + (8 - x % 8) % 8 = 16 + ((x + 7) &&& 0xFFFFFFF8))
        ∧ (16 + x + (8 - x % 8) % 8) % 8 = 0) := by
  refine ⟨?_, fun x hx => ⟨hdrPad_eq x hx, (bodyStart_eq x).1, (bodyStart_eq x).2.1,
    (bodyStart_eq x).2.2⟩⟩
  have hinit : (ext.AJ_InitMessageFromMsgId msg (msgId % 4294967296) (msgType % 256)).1
      = AJ_OK := by
    by_contra hne
    unfold MarshalMsg at hok
    rw [if_pos hne] at hok
    exact hne hok
  have hsafe := MarshalMsgHeader_safe hostLE bus msgType flags
    (ext.AJ_InitMessageFromMsgId msg (msgId % 4294967296) (msgType % 256)).2.2 hsize hlen h16
  have hF := MarshalMsgFields_safe ext hostLE (msgType % 256) _ _
    (List.range' AJ_HDR_OBJ_PATH AJ_HDR_SESSION_ID)
    (MarshalMsgHeader hostLE bus msgType flags
      (ext.AJ_InitMessageFromMsgId msg (msgId % 4294967296) (msgType % 256)).2.2)
    { (ext.AJ_InitMessageFromMsgId msg (msgId % 4294967296) (msgType % 256)).2.1 with
      hdr := AJ_HdrPtr.tx } (by simp) hsafe
  have hLdef : MarshalMsgLoopEnd ext hostLE bus msg msgType msgId flags
      = MarshalMsgFields ext hostLE (msgType % 256)
          (List.range' AJ_HDR_OBJ_PATH AJ_HDR_SESSION_ID)
          (MarshalMsgHeader hostLE bus msgType flags
            (ext.AJ_InitMessageFromMsgId msg (msgId % 4294967296) (msgType % 256)).2.2)
          { (ext.AJ_InitMessageFromMsgId msg (msgId % 4294967296) (msgType % 256)).2.1 with
            hdr := AJ_HdrPtr.tx } := rfl
  rw [← hLdef] at hF
  generalize hL : MarshalMsgLoopEnd ext hostLE bus msg msgType msgId flags = L at hF
  have hM := MarshalMsg_loopEnd ext hostLE bus msg msgType msgId flags hinit L hL
  obtain ⟨⟨hwp, ⟨hr1, hr2, hr3⟩, _, _⟩, hhdr⟩ := hF
  have hhdr : L.2.hdr = AJ_HdrPtr.tx := hhdr
  have hH : (L.1.tx.writePtr + 4294967296 - 16) % 4294967296 = L.1.tx.writePtr - 16 := by
    omega
  rw [hH] at hM
  generalize hHd : L.1.tx.writePtr - 16 = H at hM
  have hwpH : L.1.tx.writePtr = 16 + H := by omega
  have hl4 := length_u32Bytes hostLE H
  have hst : hdrStore L.1 L.2 12 (u32Bytes hostLE H)
      = { L.1 with tx := { L.1.tx with
            data := writeBytesAt L.1.tx.data 12 (u32Bytes hostLE H) } } := by
    simp [hdrStore, hhdr]
  generalize hb6 : hdrStore L.1 L.2 12 (u32Bytes hostLE H) = b6 at hM hst
  have hb6d : b6.tx.data = writeBytesAt L.1.tx.data 12 (u32Bytes hostLE H) := by rw [hst]
  have hb6w : b6.tx.writePtr = L.1.tx.writePtr := by rw [hst]
  have hb6s : b6.tx.bufSize = L.1.tx.bufSize := by rw [hst]
  have hb6l : b6.tx.data.length = b6.tx.bufSize := by
    rw [hb6d, hb6s, length_writeBytesAt _ _ _ (by omega), hr2]
  have hhl6 : hdrHeaderLen hostLE b6 L.2 = H := by
    simp only [hdrHeaderLen, hdrMem, hhdr, hb6d]
    exact readU32_u32Bytes hostLE L.1.tx.data 12 H (by omega) (by omega)
  rw [hhl6, hdrPad_eq H (by omega)] at hM
  generalize hp : (8 - H % 8) % 8 = pad at hM
  by_cases hfit : pad ≤ AJ_IO_BUF_SPACE b6.tx
  · have hroom : TxRoom b6 pad := by
      refine ⟨?_, hb6l, by rw [hb6s]; exact hr3⟩
      simp only [AJ_IO_BUF_SPACE] at hfit
      omega
    rw [WritePad_fit b6 L.2 pad hroom] at hM
    have hfit2 : b6.tx.writePtr + pad ≤ b6.tx.bufSize := hroom.1
    have hd : (MarshalMsg ext hostLE bus msg msgType msgId flags).2.1.tx.data
        = writeBytesAt b6.tx.data b6.tx.writePtr (List.replicate pad 0) := by rw [hM]; rfl
    have hw : (MarshalMsg ext hostLE bus msg msgType msgId flags).2.1.tx.writePtr
        = b6.tx.writePtr + pad := by rw [hM]; simp
    have hm2 : (MarshalMsg ext hostLE bus msg msgType msgId flags).2.2 = L.2 := by rw [hM]
    have hrl : (List.replicate pad 0).length = pad := List.length_replicate _ _
    have hHL : hdrHeaderLen hostLE (MarshalMsg ext hostLE bus msg msgType msgId flags).2.1
        (MarshalMsg ext hostLE bus msg msgType msgId flags).2.2 = H := by
      rw [hm2]
      simp only [hdrHeaderLen, hdrMem, hhdr, hd]
      rw [readU32_writeBytesAt_other _ _ _ _ _ (by rw [hrl]; omega) (by omega)]
      simpa only [hdrHeaderLen, hdrMem, hhdr] using hhl6
    subst hp
    refine ⟨H, hHL, hwpH, by rw [hw, hb6w, hwpH], ?_, ?_, by omega, ?_⟩
    · rw [hd, hb6w, hwpH]
      have := readBytes_writeBytesAt b6.tx.data (16 + H) (List.replicate ((8 - H % 8) % 8) 0)
        (by omega)
      rwa [hrl] at this
    · rw [hd, readBytes_writeBytesAt_before _ _ _ _ _ (by omega) (by omega), hb6d,
        readBytes_writeBytesAt_after _ _ _ _ _ (by omega) (by omega)]
    · have hml := (bodyStart_eq H).2.1 (by omega)
      unfold MessageLen
      rw [hHL, Nat.mod_eq_of_lt (by omega : H + 7 < 4294967296), ← hml]
  · have hfull : 0 + pad > AJ_IO_BUF_SPACE b6.tx := by omega
    have hw := WriteBytes_hdr_full b6 L.2 AJ_Ptr.null 0 pad (by rw [hhdr]; decide)
      (fun h => absurd rfl h) hfull
    rw [hM] at hok
    unfold WritePad at hok
    rw [hw] at hok
    exact AJ_Status.noConfusion hok

/-- Witness of C31: the method call with the destination `org.X` in a TX buffer of
64 bytes has 14 bytes of header fields and two pad bytes; the body starts at 32. -/
theorem C31_header_length_padding_witness :
    (MarshalMsg noExternals true (c11Bus 5) c31Msg AJ_MSG_METHOD_CALL 1 0).1 = AJ_OK
    ∧ hdrHeaderLen true (MarshalMsg noExternals true (c11Bus 5) c31Msg AJ_MSG_METHOD_CALL 1 0).2.1
        (MarshalMsg noExternals true (c11Bus 5) c31Msg AJ_MSG_METHOD_CALL 1 0).2.2 = 14
    ∧ (MarshalMsg noExternals true (c11Bus 5) c31Msg AJ_MSG_METHOD_CALL 1 0).2.1.tx.writePtr
        = 16 + 14 + 2 := by
  have h14 : hdrHeaderLen true
      (MarshalMsg noExternals true (c11Bus 5) c31Msg AJ_MSG_METHOD_CALL 1 0).2.1
      (MarshalMsg noExternals true (c11Bus 5) c31Msg AJ_MSG_METHOD_CALL 1 0).2.2 = 14 := by
    decide
  obtain ⟨H, h1, _, h3, _⟩ := (C31_header_length_padding noExternals true (c11Bus 5) c31Msg
    AJ_MSG_METHOD_CALL 1 0 (by decide) (by decide) (by decide) (by decide)).1
  have hH : H = 14 := h1.symm.trans h14
  subst hH
  exact ⟨by decide, h14, h3⟩

/-! ## C34: the length of a complete type -/

theorem skips_char (c : Nat) (h0 : c ≠ 0) (h1 : c ≠ AJ_STRUCT_CLOSE)
    (h2 : c ≠ AJ_DICT_ENTRY_CLOSE) (h3 : c ≠ AJ_ARG_STRUCT) (h4 : c ≠ AJ_ARG_DICT_ENTRY)
    (h5 : c ≠ AJ_ARG_ARRAY) : SkipsType [c] := by
  intro rest opened n
  show CompleteTypeSigLenLoop (c :: rest) opened n = _
  rw [CompleteTypeSigLenLoop, if_neg h0, if_neg (by simp [h1, h2]), if_neg (by simp [h3, h4])]
  by_cases ho : opened = 0
  · rw [if_pos ⟨ho, h5⟩, if_pos ho]; rfl
  · rw [if_neg (by simp [ho]), if_neg ho]; rfl

theorem skips_basic (c : Nat) (h : c ∈ basicTypes) : SkipsType [c] := by
  simp only [basicTypes, List.mem_cons, List.mem_singleton, List.not_mem_nil, or_false] at h
  rcases h with rfl | rfl | rfl | rfl | rfl | rfl | rfl | rfl | rfl | rfl | rfl | rfl | rfl <;>
    exact skips_char _ (by decide) (by decide) (by decide) (by decide) (by decide) (by decide)

theorem skips_join (ts : List (List Nat)) (h : ∀ t ∈ ts, SkipsType t) (rest : List Nat)
    (opened n : Nat) (ho : opened ≠ 0) :
    CompleteTypeSigLenLoop (ts.flatten ++ rest) opened n
      = CompleteTypeSigLenLoop rest opened (n + ts.flatten.length) := by
  induction ts generalizing n with
  | nil => rfl
  | cons t ts ih =>
    have ht := h t (List.mem_cons_self _ _) (ts.flatten ++ rest) opened n
    rw [if_neg ho] at ht
    rw [List.flatten_cons, List.append_assoc, ht,
      ih (fun x hx => h x (List.mem_cons_of_mem _ hx)), List.length_append, Nat.add_assoc]

theorem skips_close (c : Nat) (hc : c = AJ_STRUCT_CLOSE ∨ c = AJ_DICT_ENTRY_CLOSE)
    (rest : List Nat) (opened n : Nat) :
    CompleteTypeSigLenLoop (c :: rest) (opened + 1) n
      = if opened = 0 then (n + 1) % 256 else CompleteTypeSigLenLoop rest opened (n + 1) := by
  have h0 : c ≠ 0 := by rcases hc with rfl | rfl <;> decide
  rw [CompleteTypeSigLenLoop, if_neg h0, if_pos hc, if_neg (by omega), Nat.add_sub_cancel]

theorem skip_result_congr (rest : List Nat) (opened x y : Nat) (h : x = y) :
    (if opened = 0 then x % 256 else CompleteTypeSigLenLoop rest opened x)
      = if opened = 0 then y % 256 else CompleteTypeSigLenLoop rest opened y := by
  rw [h]

theorem skips_array (t : List Nat) (ih : SkipsType t) : SkipsType (AJ_ARG_ARRAY :: t) := by
  intro rest opened n
  have h := ih rest opened (n + 1)
  have e : CompleteTypeSigLenLoop (AJ_ARG_ARRAY :: t ++ rest) opened n
      = CompleteTypeSigLenLoop (t ++ rest) opened (n + 1) := by
    show CompleteTypeSigLenLoop (AJ_ARG_ARRAY :: (t ++ rest)) opened n = _
    rw [CompleteTypeSigLenLoop]
    simp
  rw [e, h]
  exact skip_result_congr _ _ _ _ (by simp only [List.length_cons]; omega)

theorem skips_open (c : Nat) (hc : c = AJ_ARG_STRUCT ∨ c = AJ_ARG_DICT_ENTRY)
    (rest : List Nat) (opened n : Nat) :
    CompleteTypeSigLenLoop (c :: rest) opened n
      = CompleteTypeSigLenLoop rest (opened + 1) (n + 1) := by
  have h0 : c ≠ 0 := by rcases hc with rfl | rfl <;> decide
  have h1 : ¬ (c = AJ_STRUCT_CLOSE ∨ c = AJ_DICT_ENTRY_CLOSE) := by
    rcases hc with rfl | rfl <;> decide
  rw [CompleteTypeSigLenLoop, if_neg h0, if_neg h1, if_pos hc]

theorem skips_struct (ts : List (List Nat)) (ih : ∀ t ∈ ts, SkipsType t) :
    SkipsType (AJ_ARG_STRUCT :: (ts.flatten ++ [AJ_STRUCT_CLOSE])) := by
  intro rest opened n
  have e : AJ_ARG_STRUCT :: (ts.flatten ++ [AJ_STRUCT_CLOSE]) ++ rest
      = AJ_ARG_STRUCT :: (ts.flatten ++ (AJ_STRUCT_CLOSE :: rest)) := by simp
  rw [e, skips_open _ (Or.inl rfl), skips_join ts ih _ _ _ (by omega),
    skips_close _ (Or.inl rfl)]
  exact skip_result_congr _ _ _ _
    (by simp only [List.length_cons, List.length_append, List.length_nil]; omega)

theorem skips_dictEntry (k : Nat) (v : List Nat) (hk : k ∈ basicTypes) (ih : SkipsType v) :
    SkipsType (AJ_ARG_DICT_ENTRY :: k :: (v ++ [AJ_DICT_ENTRY_CLOSE])) := by
  intro rest opened n
  have e : AJ_ARG_DICT_ENTRY :: k :: (v ++ [AJ_DICT_ENTRY_CLOSE]) ++ rest
      = AJ_ARG_DICT_ENTRY :: ([k] ++ (v ++ (AJ_DICT_ENTRY_CLOSE :: rest))) := by simp
  have hk1 := skips_basic k hk (v ++ (AJ_DICT_ENTRY_CLOSE :: rest)) (opened + 1) (n + 1)
  rw [if_neg (by omega)] at hk1
  have hv1 := ih (AJ_DICT_ENTRY_CLOSE :: rest) (opened + 1) (n + 1 + [k].length)
  rw [if_neg (by omega)] at hv1
  rw [e, skips_open _ (Or.inr rfl), hk1, hv1, skips_close _ (Or.inr rfl)]
  exact skip_result_congr _ _ _ _
    (by simp only [List.length_cons, List.length_append, List.length_nil]; omega)

theorem skips_complete (t : List Nat) (h : CompleteType t) : SkipsType t := by
  induction h with
  | basic c h => exact skips_basic c h
  | variant =>
    exact skips_char _ (by decide) (by decide) (by decide) (by decide) (by decide) (by decide)
  | array t _ ih => exact skips_array t ih
  | struct ts _ _ ih => exact skips_struct ts ih
  | dictEntry k v hk _ ih => exact skips_dictEntry k v hk ih

theorem CompleteTypeSigLenLoop_le (sig : List Nat) (opened n : Nat) :
    CompleteTypeSigLenLoop sig opened n ≤ n + strlen sig := by
  induction sig generalizing opened n with
  | nil => rw [CompleteTypeSigLenLoop]; exact Nat.le_trans (Nat.mod_le _ _) (Nat.le_add_right _ _)
  | cons c rest ih =>
    rw [CompleteTypeSigLenLoop, strlen]
    by_cases h0 : c = 0
    · rw [if_pos h0, if_pos h0]; exact Nat.mod_le _ _
    · rw [if_neg h0, if_neg h0]
      have h1 : (n + 1) % 256 ≤ n + (strlen rest + 1) :=
        Nat.le_trans (Nat.mod_le _ _) (by omega)
      have h2 := ih (opened - 1) (n + 1)
      have h3 := ih (opened + 1) (n + 1)
      have h4 := ih opened (n + 1)
      split_ifs <;> omega

/-- C34: for a string that begins with a complete type `t` of at most 255
characters `CompleteTypeSigLen` returns the number of characters of `t` (1 for `i`,
2 for `ai`, 4 for `(is)u`, 5 for `a{sv}i`); it returns 0 for a null pointer and for
a string that starts with a closing bracket or brace, and for every string its
result is at most the length of the string. -/
theorem C34_complete_type_length :
    (∀ (t rest : List Nat), CompleteType t → t.length ≤ 255 →
      CompleteTypeSigLen (t ++ rest) = t.length)
    ∧ CompleteTypeSigLen [105, 0] = 1
    ∧ CompleteTypeSigLen [97, 105, 0] = 2
    ∧ CompleteTypeSigLen [40, 105, 115, 41, 117, 0] = 4
    ∧ CompleteTypeSigLen [97, 123, 115, 118, 125, 105, 0] = 5
    ∧ (∀ bus : AJ_BusAttachment, CompleteTypeSigLenPtr bus AJ_Ptr.null = 0)
    ∧ (∀ rest : List Nat, CompleteTypeSigLen (AJ_STRUCT_CLOSE :: rest) = 0
        ∧ CompleteTypeSigLen (AJ_DICT_ENTRY_CLOSE :: rest) = 0)
    ∧ (∀ sig : List Nat, CompleteTypeSigLen sig ≤ strlen sig) := by
  refine ⟨?_, by decide, by decide, by decide, by decide, fun _ => rfl, fun rest => ⟨rfl, rfl⟩,
    ?_⟩
  · intro t rest ht hlen
    have h := skips_complete t ht rest 0 0
    rw [if_pos rfl, Nat.zero_add, Nat.mod_eq_of_lt (by omega)] at h
    exact h
  · intro sig
    have h := CompleteTypeSigLenLoop_le sig 0 0
    rw [Nat.zero_add] at h
    exact h

/-- Witness of C34: `a{sv}` is a complete type, and in front of `i` and a NUL its
length 5 is returned. -/
theorem C34_complete_type_length_witness :
    CompleteType [97, 123, 115, 118, 125]
    ∧ CompleteTypeSigLen ([97, 123, 115, 118, 125] ++ [105, 0]) = 5 :=
  have h : CompleteType [97, 123, 115, 118, 125] :=
    CompleteType.array _ (CompleteType.dictEntry 115 [118] (by decide) CompleteType.variant)
  ⟨h, C34_complete_type_length.1 _ [105, 0] h (by decide)⟩

/-! ## C35: the signature of a variant -/

/-- C35: for a message with the signature `v` and room in the TX buffer,
`AJ_MarshalVariant` returns `AJ_ERR_UNEXPECTED` and writes nothing for `ii`, but it
accepts the empty string, `a`, `(i` and `(i}`: it returns `AJ_OK` and writes the
length byte, the string and a NUL into the body (`00 00` for the empty string,
`02 28 69 00` for the unterminated `(i`), as it does for the complete type `i`. -/
theorem C35_variant_accepts_incomplete_types :
    AJ_MarshalVariant true c35Bus c35Msg (AJ_Ptr.mem [105, 105, 0] 0)
      = (AJ_ERR_UNEXPECTED, c35Bus, c35Msg)
    ∧ (AJ_MarshalVariant true c35Bus c35Msg (AJ_Ptr.mem [105, 0] 0)).1 = AJ_OK
    ∧ (AJ_MarshalVariant true c35Bus c35Msg (AJ_Ptr.mem [0] 0)).1 = AJ_OK
    ∧ (AJ_MarshalVariant true c35Bus c35Msg (AJ_Ptr.mem [0] 0)).2.1.tx.writePtr = 18
    ∧ (AJ_MarshalVariant true c35Bus c35Msg (AJ_Ptr.mem [97, 0] 0)).1 = AJ_OK
    ∧ readBytes (AJ_MarshalVariant true c35Bus c35Msg (AJ_Ptr.mem [97, 0] 0)).2.1.tx.data 16 3
        = [1, 97, 0]
    ∧ (AJ_MarshalVariant true c35Bus c35Msg (AJ_Ptr.mem [40, 105, 0] 0)).1 = AJ_OK
    ∧ readBytes (AJ_MarshalVariant true c35Bus c35Msg (AJ_Ptr.mem [40, 105, 0] 0)).2.1.tx.data
        16 4 = [2, 40, 105, 0]
    ∧ (AJ_MarshalVariant true c35Bus c35Msg (AJ_Ptr.mem [40, 105, 0] 0)).2.1.tx.writePtr = 20
    ∧ (AJ_MarshalVariant true c35Bus c35Msg (AJ_Ptr.mem [40, 105, 125, 0] 0)).1 = AJ_OK
    ∧ readBytes
        (AJ_MarshalVariant true c35Bus c35Msg (AJ_Ptr.mem [40, 105, 125, 0] 0)).2.1.tx.data 16 5
        = [3, 40, 105, 125, 0]
    ∧ CompleteTypeSigLen [0] = 0 ∧ CompleteTypeSigLen [97, 0] = 1
    ∧ CompleteTypeSigLen [40, 105, 0] = 2 ∧ CompleteTypeSigLen [40, 105, 125, 0] = 3
    ∧ CompleteTypeSigLen [105, 105, 0] = 1 := by
  decide

/-! ## C36: the range of the type table -/

/-- C36: the index of `TYPE_FLAG(t)` lies inside the 28 entries of `TypeFlags` only
for `(` and for the characters 96 to 123; for `)` it is -55 and for the closing
brace it is 29. After the struct of a message with the signature `(i)` was opened
and its member was unmarshalled (both calls return `AJ_OK`), the signature cursor
of the struct stands at `)`, no variant is open, and the next `AJ_UnmarshalArg`
calls `Unmarshal` with that cursor: `PadForType` looks up `TypeFlags[-55]` before
any test of the character. -/
theorem C36_type_flag_index_out_of_range :
    (∀ t : Nat, (0 ≤ TypeFlagsIndex t ∧ TypeFlagsIndex t < (TypeFlags.length : Int))
      ↔ (t = AJ_ARG_STRUCT ∨ (96 ≤ t ∧ t ≤ 123)))
    ∧ TypeFlagsIndex AJ_STRUCT_CLOSE = -55
    ∧ TypeFlagsIndex AJ_DICT_ENTRY_CLOSE = 29
    ∧ (AJ_UnmarshalContainer true c36Bus c36Msg AJ_Arg.zero AJ_ARG_STRUCT).1 = AJ_OK
    ∧ c36Member.1 = AJ_OK
    ∧ c36Member.2.2.2.typeId = AJ_ARG_INT32
    ∧ c36Member.2.2.1.varOffset = 0
    ∧ c36Member.2.2.1.outer.map (fun c => (c.typeId, c.sigPtr))
        = [(AJ_ARG_STRUCT, AJ_Ptr.mem [40, 105, 41, 0] 2)]
    ∧ UnmarshalTypeId c36Member.2.1 (AJ_Ptr.mem [40, 105, 41, 0] 2) = some AJ_STRUCT_CLOSE := by
  refine ⟨?_, by decide, by decide, by decide, by decide, by decide, by decide, by decide,
    by decide⟩
  intro t
  unfold TypeFlagsIndex
  have hl : (TypeFlags.length : Int) = 28 := by decide
  rw [hl]
  by_cases h : t = AJ_ARG_STRUCT
  · rw [if_pos h]; simp [h]
  · rw [if_neg h]
    have : AJ_ARG_STRUCT = 40 := rfl
    constructor
    · intro hh; right; omega
    · rintro (h1 | h1)
      · exact absurd h1 h
      · omega

/-! ## C37: header fields that do not fit -/

/-- C37: the method call with the destination `org.X` and the session id 42 needs
24 bytes of header fields (TX buffer of 64 bytes: `headerLen = 24`). With a TX
buffer of 24 bytes `MarshalMsg` returns `AJ_OK` all the same: the field id and the
length of the destination were written, the string and the session id were not,
and `headerLen = 8` covers the half field `06 01 73 00 05 00 00 00`. With a TX
buffer of 32 bytes it returns `AJ_OK` with the destination field only
(`headerLen = 14`): the session id field, which does not fit, is left out. -/
theorem C37_header_truncated_with_ok :
    (MarshalMsg noExternals true (c37Bus 64) c11Msg AJ_MSG_METHOD_CALL 1 0).1 = AJ_OK
    ∧ readBytes (MarshalMsg noExternals true (c37Bus 64) c11Msg AJ_MSG_METHOD_CALL 1 0).2.1.tx.data
        12 28 = [24, 0, 0, 0,
                 6, 1, 115, 0, 5, 0, 0, 0, 111, 114, 103, 46, 88, 0, 0, 0,
                 19, 1, 117, 0, 42, 0, 0, 0]
    ∧ (MarshalMsg noExternals true (c37Bus 24) c11Msg AJ_MSG_METHOD_CALL 1 0).1 = AJ_OK
    ∧ (MarshalMsg noExternals true (c37Bus 24) c11Msg AJ_MSG_METHOD_CALL 1 0).2.1.tx.writePtr = 24
    ∧ readBytes (MarshalMsg noExternals true (c37Bus 24) c11Msg AJ_MSG_METHOD_CALL 1 0).2.1.tx.data
        12 12 = [8, 0, 0, 0, 6, 1, 115, 0, 5, 0, 0, 0]
    ∧ (MarshalMsg noExternals true (c37Bus 32) c11Msg AJ_MSG_METHOD_CALL 1 0).1 = AJ_OK
    ∧ (MarshalMsg noExternals true (c37Bus 32) c11Msg AJ_MSG_METHOD_CALL 1 0).2.1.tx.writePtr = 32
    ∧ readBytes (MarshalMsg noExternals true (c37Bus 32) c11Msg AJ_MSG_METHOD_CALL 1 0).2.1.tx.data
        12 20 = [14, 0, 0, 0,
                 6, 1, 115, 0, 5, 0, 0, 0, 111, 114, 103, 46, 88, 0, 0, 0] := by
  decide

/-! ## C38: the addresses of the matching answer -/

/-- C38: for the packet with two answers, of which the first (name `com.x`) carries
only an IPv4 address and the second (name `org.alljoyn.Bus.sample`) only an IPv6
address, `ParseIsAt` with the prefix `org.alljoyn.Bus` returns `AJ_OK` and reports
`AJ_ADDR_IPV4 | AJ_ADDR_IPV6` with the IPv4 address and port of the first answer,
which does not hold the matching name; the mask, the IPv6 address and its port are
those of the second answer. -/
theorem C38_addresses_of_earlier_answer :
    c38Packet.length = 65
    ∧ AJ_IO_BUF_AVAIL c38Buf = 65
    ∧ (ParseIsAt c38Buf (nsPrefixBytes ++ [0]) {}).1 = AJ_OK
    ∧ (ParseIsAt c38Buf (nsPrefixBytes ++ [0]) {}).2.2
      = ({ addrTypes := AJ_ADDR_IPV4 ||| AJ_ADDR_IPV6, transportMask := 4,
            ipv4 := [10, 0, 0, 1], ipv4port := 9955,
            ipv6 := [0xFE, 0x80, 0, 0, 0, 0, 0, 0, 0, 0, 0, 0, 0, 0, 0, 1], ipv6port := 9956 } : AJ_Service)
    ∧ (ParseIsAt c38Buf (nsPrefixBytes ++ [0]) {}).2.2.addrTypes ≠ AJ_ADDR_IPV6 := by
  decide

/-! ## C39: opening for writing when the record cannot be created -/

theorem nvParse_records (hostLE : Bool) (nv tail : List Nat) :
    ∀ (rs : List NVRecord) (a : List Nat) (fuel off : Nat),
      nv = a ++ (encRecords hostLE rs ++ tail) → off = a.length →
      (∀ r ∈ rs, r.id < 65535 ∧ r.payload.length < 65536) →
      nvParse hostLE nv (fuel + rs.length) off
        = rs ++ nvParse hostLE nv fuel (off + recsLen rs) := by
  intro rs
  induction rs with
  | nil =>
    intro a fuel off _ _ _
    simp [recsLen]
  | cons r rs ih =>
    intro a fuel off hnv hoff hok
    obtain ⟨hid, hcap⟩ := hok r (by simp)
    have hnv' : nv = a ++ (encRecord hostLE r ++ (encRecords hostLE rs ++ tail)) := by
      rw [hnv]; simp only [encRecords, List.append_assoc]
    obtain ⟨e1, e2, e3⟩ := record_at hostLE a (encRecords hostLE rs ++ tail) r off (by omega) hcap
      hoff
    rw [← hnv'] at e1 e2 e3
    have hle : off + 4 + r.payload.length ≤ nv.length := by
      rw [hnv', hoff]
      simp only [List.length_append, length_encRecord]
      omega
    have hlt : off < nv.length := by omega
    have hpay : readBytes nv (off + 4) r.payload.length = r.payload := by
      have h4 := readBytes_add nv off 4 r.payload.length
      rw [e3] at h4
      have hl : (readBytes nv off 4).length = 4 := length_readBytes _ _ _ (by omega)
      have hsplit : encRecord hostLE r
          = (u16Bytes hostLE r.id ++ u16Bytes hostLE r.payload.length) ++ r.payload := rfl
      rw [hsplit] at h4
      exact ((List.append_inj h4 (by simp [length_u16Bytes, hl])).2).symm
    rw [show fuel + (r :: rs).length = (fuel + rs.length) + 1 by simp; omega, nvParse,
      if_pos ⟨hlt, by rw [e1]; simp only [INVALID_DATA]; omega⟩, e1, e2, hpay]
    have := ih (a ++ encRecord hostLE r) fuel (off + 4 + r.payload.length)
      (by rw [hnv']; simp only [List.append_assoc])
      (by simp only [List.length_append, length_encRecord, hoff]; omega)
      (fun x hx => hok x (by simp [hx]))
    rw [this]
    simp only [recsLen, List.cons_append]
    rw [show off + 4 + r.payload.length + recsLen rs = off + (4 + r.payload.length + recsLen rs)
      by omega]

theorem nvParse_end (hostLE : Bool) (a tail : List Nat) (fuel off : Nat)
    (hoff : off = a.length) (ht : NVEndOfUsed tail) :
    nvParse hostLE (a ++ tail) fuel off = [] := by
  cases fuel with
  | zero => rfl
  | succ fuel =>
    rw [nvParse]
    rcases ht with rfl | ⟨rest, rfl⟩
    · rw [if_neg (by simp [hoff])]
    · have e := readU16_at hostLE a rest 65535 off (by omega) hoff
      have e2 : u16Bytes hostLE 65535 = [INVALID_DATA_BYTE, INVALID_DATA_BYTE] := by
        cases hostLE <;> rfl
      rw [e2] at e
      rw [if_neg (by
        rintro ⟨_, h2⟩
        exact h2 e)]

/-- The walk over a region that holds the sentinel, records and an end of the used
part finds the records. -/
theorem nvParse_region (hostLE : Bool) (s : List Nat) (rs : List NVRecord) (tail : List Nat)
    (hs : s.length = 4) (hok : ∀ r ∈ rs, r.id < 65535 ∧ r.payload.length < 65536)
    (ht : NVEndOfUsed tail) :
    nvParse hostLE (s ++ (encRecords hostLE rs ++ tail))
        (s ++ (encRecords hostLE rs ++ tail)).length SENTINEL_OFFSET = rs := by
  have hge := recsLen_ge rs
  have hfuel : (s ++ (encRecords hostLE rs ++ tail)).length
      = (4 + recsLen rs + tail.length - rs.length) + rs.length := by
    simp only [List.length_append, length_encRecords, hs]; omega
  rw [hfuel, nvParse_records hostLE _ tail rs s _ SENTINEL_OFFSET rfl hs.symm hok]
  have e : s ++ (encRecords hostLE rs ++ tail) = (s ++ encRecords hostLE rs) ++ tail := by
    simp only [List.append_assoc]
  rw [e, nvParse_end hostLE _ tail _ _ (by simp [length_encRecords, hs]) ht, List.append_nil]

theorem u16Bytes_zero (hostLE : Bool) : u16Bytes hostLE 0 = [0, 0] := by
  cases hostLE <;> rfl

theorem u16Bytes_invalid (hostLE : Bool) :
    u16Bytes hostLE 65535 = [INVALID_DATA_BYTE, INVALID_DATA_BYTE] := by
  cases hostLE <;> rfl

theorem findRecord_invalid (recs : List NVRecord) (off : Nat)
    (h : ∀ r ∈ recs, r.id < 65535 ∧ r.payload.length % 4 = 0) :
    findRecord INVALID_DATA recs off = none :=
  findRecord_none _ recs off (fun x hx => by
    have := (h x hx).1
    simp only [INVALID_DATA]; omega)

/-- The header `00 00 FF FF` at the offset `off`. -/
theorem marked_at (hostLE : Bool) (a rest : List Nat) (off : Nat) (hoff : off = a.length) :
    readU16 hostLE (a ++ ([0, 0, INVALID_DATA_BYTE, INVALID_DATA_BYTE] ++ rest)) off = 0
    ∧ readU16 hostLE (a ++ ([0, 0, INVALID_DATA_BYTE, INVALID_DATA_BYTE] ++ rest)) (off + 2)
        = 65535 := by
  have h1 := readU16_at hostLE a ([INVALID_DATA_BYTE, INVALID_DATA_BYTE] ++ rest) 0 off
    (by omega) hoff
  have h2 := readU16_at hostLE (a ++ [0, 0]) rest 65535 (off + 2) (by omega) (by simp [hoff])
  rw [u16Bytes_zero] at h1
  rw [u16Bytes_invalid] at h2
  constructor
  · simpa using h1
  · simpa [List.append_assoc] using h2

theorem AJ_NVRAM_Delete_end (hostLE : Bool) (s : List Nat) (recs : List NVRecord) (t : Nat)
    (hwf : NVWellFormed s recs t) (ht0 : t ≠ 0) :
    AJ_FindNVEntry hostLE (nvStore hostLE s recs t) INVALID_DATA = some (4 + recsLen recs)
    ∧ AJ_NVRAM_Delete hostLE (nvStore hostLE s recs t) INVALID_DATA
        = (AJ_OK, nvMarked hostLE s recs t) := by
  have hfind : AJ_FindNVEntry hostLE (nvStore hostLE s recs t) INVALID_DATA
      = some (4 + recsLen recs) := by
    rw [AJ_FindNVEntry_store hostLE s recs t _ hwf, findRecord_invalid recs 4 hwf.2.1]
    simp [ht0]
  refine ⟨hfind, ?_⟩
  obtain ⟨hs, hrec, ht, hlen⟩ := hwf
  obtain ⟨k, rfl⟩ : ∃ k, t = 4 + k := ⟨t - 4, by omega⟩
  unfold AJ_NVRAM_Delete
  rw [hfind]
  simp only [_AJ_NV_Write]
  have hnv : nvStore hostLE s recs (4 + k)
      = (s ++ encRecords hostLE recs)
        ++ ([INVALID_DATA_BYTE, INVALID_DATA_BYTE, INVALID_DATA_BYTE, INVALID_DATA_BYTE]
          ++ List.replicate k INVALID_DATA_BYTE) := by
    simp only [nvStore, List.replicate_add]
    rfl
  have hal : (s ++ encRecords hostLE recs).length = 4 + recsLen recs := by
    simp only [List.length_append, length_encRecords, hs]
  have hrd : readBytes (nvStore hostLE s recs (4 + k)) (4 + recsLen recs + 2) 2
      = [INVALID_DATA_BYTE, INVALID_DATA_BYTE] := by
    have e : nvStore hostLE s recs (4 + k)
        = ((s ++ encRecords hostLE recs) ++ [INVALID_DATA_BYTE, INVALID_DATA_BYTE])
          ++ ([INVALID_DATA_BYTE, INVALID_DATA_BYTE] ++ List.replicate k INVALID_DATA_BYTE) := by
      rw [hnv]; simp
    have el : 4 + recsLen recs + 2
        = ((s ++ encRecords hostLE recs) ++ [INVALID_DATA_BYTE, INVALID_DATA_BYTE]).length := by
      rw [List.length_append, hal]; rfl
    rw [e, el]
    simp only [readBytes, List.drop_left]
    rfl
  rw [hrd, u16Bytes_zero, hnv, ← hal]
  have := writeBytesAt_mid (s ++ encRecords hostLE recs)
    [INVALID_DATA_BYTE, INVALID_DATA_BYTE, INVALID_DATA_BYTE, INVALID_DATA_BYTE]
    [0, 0, INVALID_DATA_BYTE, INVALID_DATA_BYTE] (List.replicate k INVALID_DATA_BYTE) rfl
  simp only [nvMarked, Nat.add_sub_cancel_left]
  simpa [List.append_assoc] using this

theorem length_nvMarked (hostLE : Bool) (s : List Nat) (recs : List NVRecord) (t : Nat)
    (ht : 4 ≤ t) : (nvMarked hostLE s recs t).length = s.length + recsLen recs + t := by
  simp only [nvMarked, List.length_append, length_encRecords, List.length_replicate,
    List.length_cons, List.length_nil]
  omega

/-- In a region whose end-of-used marker was overwritten, `AJ_FindNVEntry` finds no
end-of-used slot: behind the records it meets the id 0 with the capacity `0xFFFF`
and leaves the region. -/
theorem AJ_FindNVEntry_marked (hostLE : Bool) (s : List Nat) (recs : List NVRecord) (t : Nat)
    (hwf : NVWellFormed s recs t) (ht0 : t ≠ 0) :
    AJ_FindNVEntry hostLE (nvMarked hostLE s recs t) INVALID_DATA = none := by
  obtain ⟨hs, hrec, ht, hlen⟩ := hwf
  have hge := recsLen_ge recs
  have hl := length_nvMarked hostLE s recs t (by omega)
  have hfuel : (nvMarked hostLE s recs t).length
      = (2 + recsLen recs + t - recs.length + 1 + 1) + recs.length := by
    rw [hl, hs]; omega
  have hnv : nvMarked hostLE s recs t
      = s ++ (encRecords hostLE recs
        ++ ([0, 0, INVALID_DATA_BYTE, INVALID_DATA_BYTE]
          ++ List.replicate (t - 4) INVALID_DATA_BYTE)) := by
    simp only [nvMarked, List.append_assoc]
  unfold AJ_FindNVEntry
  rw [hfuel, findNVLoop_records hostLE INVALID_DATA _ _ recs s _ SENTINEL_OFFSET hnv hs.symm
    (fun r hr => ⟨(hrec r hr).1, (hrec r hr).2, by
      have := recsLen_mem_le recs r hr
      omega⟩), findRecord_invalid recs _ hrec]
  simp only [Option.isSome_none, Bool.false_eq_true, if_false]
  have hnv2 : nvMarked hostLE s recs t
      = (s ++ encRecords hostLE recs)
        ++ ([0, 0, INVALID_DATA_BYTE, INVALID_DATA_BYTE]
          ++ List.replicate (t - 4) INVALID_DATA_BYTE) := rfl
  obtain ⟨m1, m2⟩ := marked_at hostLE (s ++ encRecords hostLE recs)
    (List.replicate (t - 4) INVALID_DATA_BYTE) (SENTINEL_OFFSET + recsLen recs)
    (by simp only [List.length_append, length_encRecords, hs])
  rw [← hnv2] at m1 m2
  rw [findNVLoop, if_pos (by rw [hl, hs]; simp only [SENTINEL_OFFSET]; omega), m1,
    if_pos (by decide), if_neg (by decide), m2, findNVLoop, if_neg (by
      rw [hl, hs, Nat.shiftRight_eq_div_pow]
      simp only [SENTINEL_OFFSET, ENTRY_HEADER_SIZE]
      omega)]

/-- The loop of `_AJ_CompactNVStorage` over records in front of any tail: the live
records are moved to the front in their order, the garbage collects behind them,
and the loop goes on at the tail. -/
theorem compactLoop_records_tail (hostLE : Bool) (T : List Nat) :
    ∀ (rs : List NVRecord) (A junk : List Nat) (fuel : Nat),
      (∀ r ∈ rs, r.id < 65535 ∧ r.payload.length % 4 = 0) →
      junk.length + recsLen rs < 65536 →
      ∃ junk1 : List Nat, junk1.length + recsLen (liveRecords rs) = junk.length + recsLen rs ∧
        compactLoop hostLE (fuel + rs.length)
            (A ++ (junk ++ (encRecords hostLE rs ++ T)))
            (A.length + junk.length) A.length junk.length
          = compactLoop hostLE fuel
              (A ++ (encRecords hostLE (liveRecords rs) ++ (junk1 ++ T)))
              (A.length + recsLen (liveRecords rs) + junk1.length)
              (A.length + recsLen (liveRecords rs)) junk1.length := by
  intro rs
  induction rs with
  | nil =>
    intro A junk fuel _ _
    exact ⟨junk, by simp [liveRecords], by simp [liveRecords, encRecords, recsLen]⟩
  | cons r rs ih =>
    intro A junk fuel hok hlen
    obtain ⟨hid, hcap4⟩ := hok r (by simp)
    have hrl : recsLen (r :: rs) = 4 + r.payload.length + recsLen rs := rfl
    rw [hrl] at hlen
    have hnv : A ++ (junk ++ (encRecords hostLE (r :: rs) ++ T))
        = (A ++ junk) ++ (encRecord hostLE r ++ (encRecords hostLE rs ++ T)) := by
      simp only [encRecords, List.append_assoc]
    obtain ⟨e1, e2, e3⟩ := record_at hostLE (A ++ junk) (encRecords hostLE rs ++ T) r
      (A.length + junk.length) (by omega) (by omega) (by simp)
    rw [← hnv] at e1 e2 e3
    have hlt : A.length + junk.length < (A ++ (junk ++ (encRecords hostLE (r :: rs) ++ T))).length := by
      rw [hnv]
      simp only [List.length_append, length_encRecord]
      omega
    have hes : (ENTRY_HEADER_SIZE + r.payload.length) % 65536 = 4 + r.payload.length := by
      simp only [ENTRY_HEADER_SIZE]; omega
    have hstep : 2 * ((4 + r.payload.length) >>> 1) = 4 + r.payload.length :=
      entry_step _ hcap4
    rw [show fuel + (r :: rs).length = (fuel + rs.length) + 1 by simp; omega, compactLoop,
      if_pos ⟨hlt, by rw [e1]; simp only [INVALID_DATA]; omega⟩]
    simp only [e1, e2, hes, hstep, e3]
    by_cases hlive : r.id = 0
    · rw [if_neg (by simp [INVALID_ID, hlive])]
      obtain ⟨junk1, hj, hrun⟩ := ih A (junk ++ encRecord hostLE r) fuel
        (fun x hx => hok x (by simp [hx]))
        (by simp only [List.length_append, length_encRecord]; omega)
      refine ⟨junk1, ?_, ?_⟩
      · rw [liveRecords_cons_dead r rs hlive, hrl]
        simp only [List.length_append, length_encRecord] at hj
        omega
      · rw [liveRecords_cons_dead r rs hlive]
        simp only [List.length_append, length_encRecord, List.append_assoc] at hrun
        rw [Nat.mod_eq_of_lt (by omega)]
        simp only [encRecords, List.append_assoc]
        rw [show A.length + junk.length + (4 + r.payload.length)
          = A.length + (junk.length + (4 + r.payload.length)) by omega]
        exact hrun
    · rw [if_pos (by simpa [INVALID_ID] using hlive)]
      have hcopy := compact_copy A junk (encRecord hostLE r) (encRecords hostLE rs ++ T)
      have hnv2 : A ++ (junk ++ (encRecords hostLE (r :: rs) ++ T))
          = A ++ (junk ++ (encRecord hostLE r ++ (encRecords hostLE rs ++ T))) := by
        simp only [encRecords, List.append_assoc]
      rw [hnv2]
      unfold _AJ_NV_Write
      rw [hcopy]
      generalize hJ : (junk ++ encRecord hostLE r).drop (encRecord hostLE r).length = J
      have hJlen : J.length = junk.length := by
        rw [← hJ]; simp
      obtain ⟨junk1, hj, hrun⟩ := ih (A ++ encRecord hostLE r) J fuel
        (fun x hx => hok x (by simp [hx]))
        (by rw [hJlen]; omega)
      refine ⟨junk1, ?_, ?_⟩
      · rw [liveRecords_cons_live r rs hlive, hrl]
        have : recsLen (r :: liveRecords rs) = 4 + r.payload.length + recsLen (liveRecords rs) := rfl
        rw [this]
        omega
      · rw [liveRecords_cons_live r rs hlive]
        simp only [List.length_append, length_encRecord, List.append_assoc, hJlen] at hrun
        simp only [encRecords, List.append_assoc]
        have hr2 : recsLen (r :: liveRecords rs)
            = 4 + r.payload.length + recsLen (liveRecords rs) := rfl
        rw [hr2]
        rw [show A.length + junk.length + (4 + r.payload.length)
            = A.length + (4 + r.payload.length) + junk.length by omega,
          show A.length + (4 + r.payload.length + recsLen (liveRecords rs))
            = A.length + (4 + r.payload.length) + recsLen (liveRecords rs) by omega]
        exact hrun

/-- Compaction of a region whose end-of-used marker was overwritten: the entry
`00 00 FF FF` counts as three bytes of garbage, the loop ends at its capacity
field, and the region is the compacted well-formed store again. -/
theorem CompactNVStorage_marked (hostLE : Bool) (s : List Nat) (recs : List NVRecord) (t : Nat)
    (hwf : NVWellFormed s recs t) (ht0 : t ≠ 0) :
    _AJ_CompactNVStorage hostLE (nvMarked hostLE s recs t)
      = some (AJ_OK, nvStore hostLE s (liveRecords recs) (t + garbageLen recs)) := by
  obtain ⟨hs, hrec, ht, hlen⟩ := hwf
  have hge := recsLen_ge recs
  have hle := recsLen_liveRecords_le recs
  obtain ⟨k, rfl⟩ : ∃ k, t = 4 + k := ⟨t - 4, by omega⟩
  generalize hT : ([0, 0, INVALID_DATA_BYTE, INVALID_DATA_BYTE]
      ++ List.replicate k INVALID_DATA_BYTE) = T
  have hTl : T.length = 4 + k := by rw [← hT]; simp; omega
  obtain ⟨junk1, hj, hrun⟩ := compactLoop_records_tail hostLE T recs s []
    (s.length + recsLen recs + (4 + k) - recs.length + 1) hrec
    (by simp only [List.length_nil]; omega)
  have hl := length_nvMarked hostLE s recs (4 + k) (by omega)
  have hfuel : (nvMarked hostLE s recs (4 + k)).length + 1
      = (s.length + recsLen recs + (4 + k) - recs.length + 1) + recs.length := by
    rw [hl]; omega
  have hnv : nvMarked hostLE s recs (4 + k)
      = s ++ ([] ++ (encRecords hostLE recs ++ T)) := by
    simp only [nvMarked, List.append_assoc, List.nil_append, Nat.add_sub_cancel_left, hT]
  simp only [List.length_nil, Nat.add_zero] at hrun hj
  have hg : junk1.length = garbageLen recs := by unfold garbageLen; omega
  unfold _AJ_CompactNVStorage
  rw [hfuel, hnv, show SENTINEL_OFFSET = s.length from hs.symm, hrun]
  generalize hB : s ++ encRecords hostLE (liveRecords recs) = B
  have hBl : B.length = s.length + recsLen (liveRecords recs) := by
    rw [← hB]; simp only [List.length_append, length_encRecords]
  have hnv1 : s ++ (encRecords hostLE (liveRecords recs) ++ (junk1 ++ T))
      = (B ++ junk1) ++ ([0, 0, INVALID_DATA_BYTE, INVALID_DATA_BYTE]
          ++ List.replicate k INVALID_DATA_BYTE) := by
    rw [← hB, ← hT]; simp only [List.append_assoc]
  obtain ⟨m1, m2⟩ := marked_at hostLE (B ++ junk1) (List.replicate k INVALID_DATA_BYTE)
    (s.length + recsLen (liveRecords recs) + junk1.length)
    (by rw [List.length_append, hBl])
  rw [← hnv1] at m1 m2
  have hlen1 : (s ++ (encRecords hostLE (liveRecords recs) ++ (junk1 ++ T))).length
      = s.length + recsLen (liveRecords recs) + junk1.length + (4 + k) := by
    simp only [List.length_append, length_encRecords, hTl]; omega
  have hes : (ENTRY_HEADER_SIZE + 65535) % 65536 = 3 := by decide
  have hst : 2 * (3 >>> 1) = 2 := by decide
  rw [show s.length + recsLen recs + (4 + k) - recs.length + 1
      = (s.length + recsLen recs + (4 + k) - recs.length - 1) + 1 + 1 by omega,
    compactLoop, if_pos ⟨by rw [hlen1]; omega, by rw [m1]; decide⟩]
  simp only [m1, m2, hes, hst]
  rw [if_neg (by decide), compactLoop, if_neg (by
    rintro ⟨_, h2⟩
    exact h2 m2)]
  simp only
  rw [Nat.mod_eq_of_lt (by omega)]
  have e1 : s ++ (encRecords hostLE (liveRecords recs) ++ (junk1 ++ T))
      = B ++ ((junk1 ++ [0, 0, INVALID_DATA_BYTE]) ++ (INVALID_DATA_BYTE
          :: List.replicate k INVALID_DATA_BYTE)) := by
    rw [← hB, ← hT]; simp only [List.append_assoc, List.cons_append, List.nil_append]
  have hw := writeBytesAt_mid B (junk1 ++ [0, 0, INVALID_DATA_BYTE])
    (List.replicate (junk1.length + 3) INVALID_DATA_BYTE)
    (INVALID_DATA_BYTE :: List.replicate k INVALID_DATA_BYTE) (by simp)
  rw [e1, ← hBl, hw, ← hB]
  simp only [nvStore, List.append_assoc]
  congr 2
  rw [hg, ← List.replicate_succ, ← List.replicate_add]
  rw [show garbageLen recs + 3 + (k + 1) = 4 + k + garbageLen recs by omega]

theorem NVEndOfUsed_erased (t : Nat) (ht : t % 4 = 0) :
    NVEndOfUsed (List.replicate t INVALID_DATA_BYTE) := by
  by_cases h0 : t = 0
  · left; rw [h0]; rfl
  · right
    obtain ⟨k, rfl⟩ : ∃ k, t = k + 2 := ⟨t - 2, by omega⟩
    exact ⟨List.replicate k INVALID_DATA_BYTE, rfl⟩

theorem nvLive_store (hostLE : Bool) (s : List Nat) (L : List NVRecord) (t : Nat)
    (hwf : NVWellFormed s L t) : nvLive hostLE (nvStore hostLE s L t) = liveRecords L := by
  obtain ⟨hs, hrec, ht, hlen⟩ := hwf
  have hnv : nvStore hostLE s L t
      = s ++ (encRecords hostLE L ++ List.replicate t INVALID_DATA_BYTE) := by
    simp only [nvStore, List.append_assoc]
  unfold nvLive
  rw [hnv, nvParse_region hostLE s L _ hs (fun r hr => ⟨(hrec r hr).1, by
    have := recsLen_mem_le L r hr
    omega⟩) (NVEndOfUsed_erased t ht)]

theorem filter_created (id c : Nat) :
    (liveRecords [({ id := id, payload := List.replicate c INVALID_DATA_BYTE } : NVRecord)]).filter
      (fun r => decide (r.id ≠ id)) = [] := by
  by_cases h : id = 0
  · simp [liveRecords, h]
  · simp [liveRecords, h]

/-- The live records of a region that `AJ_NVRAM_Create` has left, apart from the
record with the id of the call. -/
theorem nvLive_created (hostLE : Bool) (s : List Nat) (live : List NVRecord) (total id : Nat)
    (nv : List Nat) (hid : id < 65536) (h : NVCreated hostLE s live total id nv) :
    (nvLive hostLE nv).filter (fun r => decide (r.id ≠ id))
        = live.filter (fun r => decide (r.id ≠ id))
    ∧ nv.length = 4 + total := by
  obtain ⟨L, t1, hwf, hlive, htot, hnv | ⟨c, hc4, hfit, hnv⟩⟩ := h
  · rw [hnv, nvLive_store hostLE s L t1 hwf, hlive, length_nvStore, hwf.1]
    exact ⟨rfl, by omega⟩
  · obtain ⟨hs, hrec, ht, hlen⟩ := hwf
    have hbound : ∀ r ∈ L, r.id < 65535 ∧ r.payload.length < 65536 := fun r hr =>
      ⟨(hrec r hr).1, by
        have := recsLen_mem_le L r hr
        omega⟩
    refine ⟨?_, ?_⟩
    · by_cases hF : id = 65535
      · have e : nv = s ++ (encRecords hostLE L
            ++ (INVALID_DATA_BYTE :: INVALID_DATA_BYTE
              :: (u16Bytes hostLE c ++ List.replicate c INVALID_DATA_BYTE
                ++ List.replicate (t1 - 4 - c) INVALID_DATA_BYTE))) := by
          rw [hnv, hF]
          simp only [nvStore, encRecords_append, encRecords, encRecord, u16Bytes_invalid,
            List.length_replicate, List.append_assoc, List.append_nil, List.cons_append,
            List.nil_append]
        unfold nvLive
        rw [e, nvParse_region hostLE s L _ hs hbound (Or.inr ⟨_, rfl⟩), hlive]
      · have hwf2 : NVWellFormed s
            (L ++ [{ id := id, payload := List.replicate c INVALID_DATA_BYTE }]) (t1 - 4 - c) := by
          refine ⟨hs, ?_, by omega, ?_⟩
          · intro r hr
            rcases List.mem_append.mp hr with h1 | h1
            · exact hrec r h1
            · rw [List.mem_singleton] at h1
              subst h1
              exact ⟨by show id < 65535; omega, by simpa using hc4⟩
          · rw [recsLen_append]
            simp only [recsLen, List.length_replicate]
            omega
        rw [hnv, nvLive_store hostLE s _ _ hwf2, liveRecords_append, List.filter_append,
          filter_created, List.append_nil, hlive]
    · rw [hnv, length_nvStore, recsLen_append, hs]
      simp only [recsLen, List.length_replicate]
      omega

theorem AJ_FindNVEntry_end (hostLE : Bool) (s : List Nat) (recs : List NVRecord) (t : Nat)
    (hwf : NVWellFormed s recs t) :
    AJ_FindNVEntry hostLE (nvStore hostLE s recs t) INVALID_DATA
      = if t ≠ 0 then some (4 + recsLen recs) else none := by
  rw [AJ_FindNVEntry_store hostLE s recs t _ hwf, findRecord_invalid recs 4 hwf.2.1]
  simp

/-- The end of `AJ_NVRAM_Create` on a well-formed store `L` with its end-of-used
slot looked up: failure when the header and the aligned capacity do not fit into the
erased tail, the header written over the start of the tail otherwise. -/
theorem create_tail (hostLE : Bool) (s : List Nat) (L : List NVRecord) (t1 id c : Nat)
    (hwf : NVWellFormed s L t1) (hc : c % 4 = 0) :
    (nvNoRoom (nvStore hostLE s L t1)
        (AJ_FindNVEntry hostLE (nvStore hostLE s L t1) INVALID_DATA) c = true
      ∧ (t1 = 0 ∨ t1 < 4 + c))
    ∨ (nvNoRoom (nvStore hostLE s L t1)
        (AJ_FindNVEntry hostLE (nvStore hostLE s L t1) INVALID_DATA) c = false
      ∧ 4 + c ≤ t1
      ∧ nvWriteHeader hostLE (nvStore hostLE s L t1)
          (AJ_FindNVEntry hostLE (nvStore hostLE s L t1) INVALID_DATA) id c
        = nvStore hostLE s (L ++ [{ id := id, payload := List.replicate c INVALID_DATA_BYTE }])
            (t1 - 4 - c)) := by
  rw [AJ_FindNVEntry_end hostLE s L t1 hwf]
  have hs := hwf.1
  by_cases h0 : t1 = 0
  · left
    rw [if_neg (by simp [h0])]
    exact ⟨rfl, Or.inl h0⟩
  · rw [if_pos h0]
    by_cases hfit : 4 + c ≤ t1
    · right
      refine ⟨?_, hfit, nvStore_append_record hostLE s L t1 id c hs hfit⟩
      simp only [nvNoRoom, length_nvStore, ENTRY_HEADER_SIZE, hs]
      simp only [decide_eq_false_iff_not]
      omega
    · left
      refine ⟨?_, Or.inr (by omega)⟩
      simp only [nvNoRoom, length_nvStore, ENTRY_HEADER_SIZE, hs]
      simp only [decide_eq_true_eq]
      omega

theorem WORD_ALIGN_mod (n : Nat) : (WORD_ALIGN n % 65536) % 4 = 0 := by
  have := (WORD_ALIGN_spec n).2.1
  omega

/-- What `AJ_NVRAM_Create` does on a well-formed store, for every id and capacity:
it returns, and the region is the store as it was or compacted, with its live
records, or such a store with the new header behind the records. -/
theorem AJ_NVRAM_Create_inv (hostLE : Bool) (s : List Nat) (recs : List NVRecord)
    (t id cap : Nat) (hwf : NVWellFormed s recs t) :
    ∃ (st : AJ_Status) (nv1 : List Nat),
      AJ_NVRAM_Create hostLE (nvStore hostLE s recs t) id cap = some (st, nv1)
      ∧ NVCreated hostLE s (liveRecords recs) (recsLen recs + t) id nv1 := by
  have hc4 := WORD_ALIGN_mod cap
  unfold AJ_NVRAM_Create
  by_cases h1 : cap = 0 ∨ AJ_NVRAM_Exist hostLE (nvStore hostLE s recs t) id = true
  · rw [if_pos h1]
    exact ⟨_, _, rfl, recs, t, hwf, rfl, rfl, Or.inl rfl⟩
  · rw [if_neg h1]
    simp only
    rcases create_tail hostLE s recs t id (WORD_ALIGN cap % 65536) hwf hc4 with
      ⟨hno, _⟩ | ⟨hroom, hfit, hw⟩
    · rw [if_pos hno, CompactNVStorage_store hostLE s recs t hwf]
      simp only
      have hwf2 := NVWellFormed_live s recs t hwf
      have hle := recsLen_liveRecords_le recs
      have htot : recsLen (liveRecords recs) + (t + garbageLen recs) = recsLen recs + t := by
        unfold garbageLen; omega
      rcases create_tail hostLE s (liveRecords recs) (t + garbageLen recs) id
          (WORD_ALIGN cap % 65536) hwf2 hc4 with ⟨hno2, _⟩ | ⟨hroom2, hfit2, hw2⟩
      · rw [if_pos hno2]
        exact ⟨_, _, rfl, liveRecords recs, _, hwf2, liveRecords_idem recs, htot, Or.inl rfl⟩
      · rw [if_neg (by rw [hroom2]; decide), hw2]
        exact ⟨_, _, rfl, liveRecords recs, _, hwf2, liveRecords_idem recs, htot,
          Or.inr ⟨_, hc4, hfit2, rfl⟩⟩
    · rw [if_neg (by rw [hroom]; decide), hw]
      exact ⟨_, _, rfl, recs, t, hwf, rfl, rfl, Or.inr ⟨_, hc4, hfit, rfl⟩⟩

/-- What `AJ_NVRAM_Create(0xFFFF, cap)` does on a region whose end-of-used marker
was overwritten: the compaction makes the region the compacted store again, and
the call goes on as on that store. -/
theorem AJ_NVRAM_Create_marked (hostLE : Bool) (s : List Nat) (recs : List NVRecord)
    (t cap : Nat) (hwf : NVWellFormed s recs t) (ht0 : t ≠ 0) (hcap : cap ≠ 0) :
    ∃ (st : AJ_Status) (nv1 : List Nat),
      AJ_NVRAM_Create hostLE (nvMarked hostLE s recs t) INVALID_DATA cap = some (st, nv1)
      ∧ NVCreated hostLE s (liveRecords recs) (recsLen recs + t) INVALID_DATA nv1 := by
  have hc4 := WORD_ALIGN_mod cap
  have hfind := AJ_FindNVEntry_marked hostLE s recs t hwf ht0
  have hex : AJ_NVRAM_Exist hostLE (nvMarked hostLE s recs t) INVALID_DATA = false := by
    unfold AJ_NVRAM_Exist
    rw [if_neg (by decide), hfind]; rfl
  unfold AJ_NVRAM_Create
  rw [if_neg (by simp [hcap, hex]), hfind]
  simp only
  rw [if_pos (by rfl), CompactNVStorage_marked hostLE s recs t hwf ht0]
  simp only
  have hwf2 := NVWellFormed_live s recs t hwf
  have hle := recsLen_liveRecords_le recs
  have htot : recsLen (liveRecords recs) + (t + garbageLen recs) = recsLen recs + t := by
    unfold garbageLen; omega
  rcases create_tail hostLE s (liveRecords recs) (t + garbageLen recs) INVALID_DATA
      (WORD_ALIGN cap % 65536) hwf2 hc4 with ⟨hno2, _⟩ | ⟨hroom2, hfit2, hw2⟩
  · rw [if_pos hno2]
    exact ⟨_, _, rfl, liveRecords recs, _, hwf2, liveRecords_idem recs, htot, Or.inl rfl⟩
  · rw [if_neg (by rw [hroom2]; decide), hw2]
    exact ⟨_, _, rfl, liveRecords recs, _, hwf2, liveRecords_idem recs, htot,
      Or.inr ⟨_, hc4, hfit2, rfl⟩⟩

theorem split_first (id : Nat) :
    ∀ recs : List NVRecord,
      (∀ x ∈ recs, x.id ≠ id)
      ∨ ∃ pre r post, recs = pre ++ r :: post ∧ r.id = id ∧ (∀ x ∈ pre, x.id ≠ id) := by
  intro recs
  induction recs with
  | nil => left; simp
  | cons x xs ih =>
    by_cases hx : x.id = id
    · right
      exact ⟨[], x, xs, rfl, hx, by simp⟩
    · rcases ih with h | ⟨pre, r, post, he, hr, hpre⟩
      · left
        intro y hy
        rcases List.mem_cons.mp hy with rfl | hy
        · exact hx
        · exact h y hy
      · right
        refine ⟨x :: pre, r, post, by rw [he]; rfl, hr, ?_⟩
        intro y hy
        rcases List.mem_cons.mp hy with rfl | hy
        · exact hx
        · exact hpre y hy

theorem filter_tombstoned (id : Nat) (pre : List NVRecord) (r : NVRecord) (post : List NVRecord)
    (hr : r.id = id) :
    (liveRecords (pre ++ { r with id := 0 } :: post)).filter (fun x => decide (x.id ≠ id))
      = (liveRecords (pre ++ r :: post)).filter (fun x => decide (x.id ≠ id)) := by
  rw [liveRecords_append, liveRecords_append, liveRecords_cons_dead _ post rfl,
    List.filter_append, List.filter_append]
  congr 1
  by_cases h0 : r.id = 0
  · rw [liveRecords_cons_dead r post h0]
  · rw [liveRecords_cons_live r post h0, List.filter_cons]
    simp [hr]

/-- The step `if (AJ_NVRAM_Exist(id)) status = AJ_NVRAM_Delete(id);` of
`AJ_NVRAM_Open` on a well-formed store: the status is `AJ_OK`; the region is a
well-formed store with the same live records of other ids, or, for the id `0xFFFF`
and a store with an erased tail, the store with its end-of-used marker
overwritten. -/
theorem open_delete_general (hostLE : Bool) (s : List Nat) (recs : List NVRecord) (t id : Nat)
    (hwf : NVWellFormed s recs t) (hid0 : id ≠ 0) :
    (∃ recsD : List NVRecord,
      (if AJ_NVRAM_Exist hostLE (nvStore hostLE s recs t) id = true
        then AJ_NVRAM_Delete hostLE (nvStore hostLE s recs t) id
        else (AJ_OK, nvStore hostLE s recs t)) = (AJ_OK, nvStore hostLE s recsD t)
      ∧ NVWellFormed s recsD t ∧ recsLen recsD = recsLen recs
      ∧ (liveRecords recsD).filter (fun r => decide (r.id ≠ id))
          = (liveRecords recs).filter (fun r => decide (r.id ≠ id)))
    ∨ (id = INVALID_DATA ∧ t ≠ 0
      ∧ (if AJ_NVRAM_Exist hostLE (nvStore hostLE s recs t) id = true
        then AJ_NVRAM_Delete hostLE (nvStore hostLE s recs t) id
        else (AJ_OK, nvStore hostLE s recs t)) = (AJ_OK, nvMarked hostLE s recs t)) := by
  rcases split_first id recs with habs | ⟨pre, r, post, hrecs, hr, hpre⟩
  · by_cases hF : id = INVALID_DATA
    · by_cases ht0 : t = 0
      · left
        refine ⟨recs, ?_, hwf, rfl, rfl⟩
        have hfind := AJ_FindNVEntry_end hostLE s recs t hwf
        rw [if_neg (by simp [ht0])] at hfind
        rw [if_neg (by
          unfold AJ_NVRAM_Exist
          rw [if_neg hid0, hF, hfind]; simp)]
      · right
        obtain ⟨hfind, hdel⟩ := AJ_NVRAM_Delete_end hostLE s recs t hwf ht0
        refine ⟨hF, ht0, ?_⟩
        rw [if_pos (by
          unfold AJ_NVRAM_Exist
          rw [if_neg hid0, hF, hfind]; rfl), hF, hdel]
    · left
      refine ⟨recs, ?_, hwf, rfl, rfl⟩
      rw [if_neg (by
        rw [(AJ_NVRAM_Exist_absent hostLE s recs t id hwf hF habs).2]; simp)]
  · left
    subst hrecs
    subst hr
    obtain ⟨d1, _⟩ := AJ_NVRAM_Delete_store hostLE s pre r post t hwf hpre
    have hfind := AJ_FindNVEntry_present hostLE s pre r post t hwf hpre
    have hex : AJ_NVRAM_Exist hostLE (nvStore hostLE s (pre ++ r :: post) t) r.id = true := by
      unfold AJ_NVRAM_Exist
      rw [if_neg hid0, hfind]; rfl
    refine ⟨pre ++ { r with id := 0 } :: post, ?_, ?_, ?_, filter_tombstoned r.id pre r post rfl⟩
    · rw [if_pos hex, d1]
    · obtain ⟨hs, hrec, ht, hlen⟩ := hwf
      refine ⟨hs, ?_, ht, ?_⟩
      · intro x hx
        rcases List.mem_append.mp hx with h | h
        · exact hrec x (by simp [h])
        · rcases List.mem_cons.mp h with rfl | h
          · exact ⟨by simp, (hrec r (by simp)).2⟩
          · exact hrec x (by simp [h])
      · simpa [recsLen_append, recsLen] using hlen
    · simp [recsLen_append, recsLen]

/-- The region that `AJ_NVRAM_Open(id, "w", capacity)` leaves is the one that its
call of `AJ_NVRAM_Create` leaves, whatever the function returns; when the creation
or the allocation of the handle fails it returns `NULL`. -/
theorem open_write_region (hostLE mallocOk : Bool) (nv : List Nat) (id cap : Nat)
    (d2 : List Nat) (st : AJ_Status) (nv2 : List Nat) (hid0 : id ≠ 0) (hcap : cap ≠ 0)
    (hd : (if AJ_NVRAM_Exist hostLE nv id = true then AJ_NVRAM_Delete hostLE nv id
        else (AJ_OK, nv)) = (AJ_OK, d2))
    (hc : AJ_NVRAM_Create hostLE d2 id cap = some (st, nv2)) :
    ∃ h : Option AJ_NV_DATASET,
      AJ_NVRAM_Open hostLE mallocOk nv id [119, 0] cap = some (h, nv2)
      ∧ (st ≠ AJ_OK → h = none) ∧ (mallocOk = false → h = none) := by
  have hm : List.take (strlen [119, 0]) ([119, 0] : List Nat) = [119] := by decide
  by_cases hst : st = AJ_OK
  · cases hF : AJ_FindNVEntry hostLE nv2 id with
    | none =>
      refine ⟨none, ?_, fun _ => rfl, fun _ => rfl⟩
      unfold AJ_NVRAM_Open
      rw [if_neg hid0]
      simp only [hm, hd, hc]
      simp [hcap, hst, hF, AJ_NV_DATASET_RD_ONLY, AJ_NV_DATASET_WR_ONLY]
    | some e =>
      cases mallocOk with
      | true =>
        refine ⟨some { id := id, curPos := 0, mode := AJ_NV_DATASET_WR_ONLY, inode := e }, ?_,
          fun h => absurd hst h, fun h => by simp at h⟩
        unfold AJ_NVRAM_Open
        rw [if_neg hid0]
        simp only [hm, hd, hc]
        simp [hcap, hst, hF, AJ_NV_DATASET_RD_ONLY, AJ_NV_DATASET_WR_ONLY]
      | false =>
        refine ⟨none, ?_, fun _ => rfl, fun _ => rfl⟩
        unfold AJ_NVRAM_Open
        rw [if_neg hid0]
        simp only [hm, hd, hc]
        simp [hcap, hst, hF, AJ_NV_DATASET_RD_ONLY, AJ_NV_DATASET_WR_ONLY]
  · refine ⟨none, ?_, fun _ => rfl, fun _ => rfl⟩
    unfold AJ_NVRAM_Open
    rw [if_neg hid0]
    simp only [hm, hd, hc]
    simp [hcap, hst, AJ_NV_DATASET_RD_ONLY, AJ_NV_DATASET_WR_ONLY]

/-- C39 (amended): on a well-formed store, for every 16-bit id and every capacity,
`AJ_NVRAM_Open(id, "w", capacity)` returns, the region keeps its size, and the live
records with ids other than `id` (ids, capacities, payloads, in their order) are
the same as before the call, whether a handle or `NULL` is returned; with the id 0
or the capacity 0 it returns `NULL` and leaves the region as it is. -/
theorem C39_open_write_keeps_other_records (hostLE mallocOk : Bool) (s : List Nat)
    (recs : List NVRecord) (t id cap : Nat) (hwf : NVWellFormed s recs t) (hid : id < 65536) :
    ∃ (h : Option AJ_NV_DATASET) (nv1 : List Nat),
      AJ_NVRAM_Open hostLE mallocOk (nvStore hostLE s recs t) id [119, 0] cap = some (h, nv1)
      ∧ nv1.length = (nvStore hostLE s recs t).length
      ∧ (nvLive hostLE nv1).filter (fun r => decide (r.id ≠ id))
          = (liveRecords recs).filter (fun r => decide (r.id ≠ id))
      ∧ (id = 0 ∨ cap = 0 → h = none ∧ nv1 = nvStore hostLE s recs t)
      ∧ (mallocOk = false → h = none) := by
  have hm : List.take (strlen [119, 0]) ([119, 0] : List Nat) = [119] := by decide
  have hsame : ∀ h : Option AJ_NV_DATASET,
      AJ_NVRAM_Open hostLE mallocOk (nvStore hostLE s recs t) id [119, 0] cap
        = some (none, nvStore hostLE s recs t) →
      ∃ (h : Option AJ_NV_DATASET) (nv1 : List Nat),
        AJ_NVRAM_Open hostLE mallocOk (nvStore hostLE s recs t) id [119, 0] cap = some (h, nv1)
        ∧ nv1.length = (nvStore hostLE s recs t).length
        ∧ (nvLive hostLE nv1).filter (fun r => decide (r.id ≠ id))
            = (liveRecords recs).filter (fun r => decide (r.id ≠ id))
        ∧ (id = 0 ∨ cap = 0 → h = none ∧ nv1 = nvStore hostLE s recs t)
        ∧ (mallocOk = false → h = none) := by
    intro _ he
    exact ⟨none, _, he, rfl, by rw [nvLive_store hostLE s recs t hwf], fun _ => ⟨rfl, rfl⟩,
      fun _ => rfl⟩
  by_cases hid0 : id = 0
  · apply hsame none
    unfold AJ_NVRAM_Open
    rw [if_pos hid0]
  · by_cases hcap : cap = 0
    · apply hsame none
      unfold AJ_NVRAM_Open
      rw [if_neg hid0]
      simp only [hm]
      simp [hcap, AJ_NV_DATASET_RD_ONLY, AJ_NV_DATASET_WR_ONLY]
    · have hfin : ∀ (d2 : List Nat) (live : List NVRecord) (total : Nat),
          (if AJ_NVRAM_Exist hostLE (nvStore hostLE s recs t) id = true
            then AJ_NVRAM_Delete hostLE (nvStore hostLE s recs t) id
            else (AJ_OK, nvStore hostLE s recs t)) = (AJ_OK, d2) →
          (∃ (st : AJ_Status) (nv1 : List Nat),
            AJ_NVRAM_Create hostLE d2 id cap = some (st, nv1)
            ∧ NVCreated hostLE s live total id nv1) →
          live.filter (fun r => decide (r.id ≠ id))
            = (liveRecords recs).filter (fun r => decide (r.id ≠ id)) →
          total = recsLen recs + t →
          ∃ (h : Option AJ_NV_DATASET) (nv1 : List Nat),
            AJ_NVRAM_Open hostLE mallocOk (nvStore hostLE s recs t) id [119, 0] cap
              = some (h, nv1)
            ∧ nv1.length = (nvStore hostLE s recs t).length
            ∧ (nvLive hostLE nv1).filter (fun r => decide (r.id ≠ id))
                = (liveRecords recs).filter (fun r => decide (r.id ≠ id))
            ∧ (id = 0 ∨ cap = 0 → h = none ∧ nv1 = nvStore hostLE s recs t)
            ∧ (mallocOk = false → h = none) := by
        intro d2 live total hd ⟨st, nv1, hc, hcr⟩ hlive htot
        obtain ⟨h, hopen, _, hmal⟩ := open_write_region hostLE mallocOk _ id cap d2 st nv1 hid0
          hcap hd hc
        obtain ⟨l1, l2⟩ := nvLive_created hostLE s live total id nv1 hid hcr
        refine ⟨h, nv1, hopen, ?_, by rw [l1, hlive], ?_, hmal⟩
        · rw [l2, length_nvStore, hwf.1, htot]; omega
        · rintro (h0 | h0)
          · exact absurd h0 hid0
          · exact absurd h0 hcap
      rcases open_delete_general hostLE s recs t id hwf hid0 with
        ⟨recsD, hd, hwfD, hlenD, hliveD⟩ | ⟨hF, ht0, hd⟩
      · exact hfin _ _ _ hd (AJ_NVRAM_Create_inv hostLE s recsD t id cap hwfD) hliveD
          (by rw [hlenD])
      · subst hF
        exact hfin _ _ _ hd (AJ_NVRAM_Create_marked hostLE s recs t cap hwf ht0 hcap) rfl rfl

/-- C39, counterexample to the claim as stated: on the full store with the records
7 (capacity 8) and 9 (capacity 4), `AJ_NVRAM_Open(7, "w", 16)` returns `NULL` for
lack of space, and the record 7 is gone: the region is the compacted store with the
record 9 only, and `AJ_NVRAM_Open(7, "r", 0)` returns `NULL` on it. And on the
store with the same records and 12 erased bytes, `AJ_NVRAM_Open(8, "w", 4)` returns
`NULL` when `AJ_Malloc` has no memory for the handle, after the record 8 was
created. -/
theorem C39_counterexample_record_lost :
    NVWellFormed [65, 74, 78, 86] c39Records 0
    ∧ nvLive true c39Store = c39Records
    ∧ AJ_NVRAM_Open true true c39Store 7 [119, 0] 16
        = some (none, nvStore true [65, 74, 78, 86] [{ id := 9, payload := [5, 6, 7, 8] }] 12)
    ∧ nvLive true (nvStore true [65, 74, 78, 86] [{ id := 9, payload := [5, 6, 7, 8] }] 12)
        = [{ id := 9, payload := [5, 6, 7, 8] }]
    ∧ AJ_NVRAM_Open true true
        (nvStore true [65, 74, 78, 86] [{ id := 9, payload := [5, 6, 7, 8] }] 12) 7 [114, 0] 0
        = some (none, nvStore true [65, 74, 78, 86] [{ id := 9, payload := [5, 6, 7, 8] }] 12)
    ∧ NVWellFormed [65, 74, 78, 86] c39Records 12
    ∧ AJ_NVRAM_Open true false (nvStore true [65, 74, 78, 86] c39Records 12) 8 [119, 0] 4
        = some (none, nvStore true [65, 74, 78, 86]
            (c39Records ++ [{ id := 8, payload := [255, 255, 255, 255] }]) 4)
    ∧ nvLive true (nvStore true [65, 74, 78, 86]
          (c39Records ++ [{ id := 8, payload := [255, 255, 255, 255] }]) 4)
        = c39Records ++ [{ id := 8, payload := [255, 255, 255, 255] }] := by
  refine ⟨by unfold NVWellFormed; decide, by decide, by decide, by decide, by decide,
    by unfold NVWellFormed; decide, by decide, by decide⟩

/-- Witness of C39 on the full store with the records 7 and 9 and the call
`AJ_NVRAM_Open(7, "w", 16)`. -/
theorem C39_open_write_keeps_other_records_witness :
    ∃ (h : Option AJ_NV_DATASET) (nv1 : List Nat),
      AJ_NVRAM_Open true true (nvStore true [65, 74, 78, 86] c39Records 0) 7 [119, 0] 16
        = some (h, nv1)
      ∧ nv1.length = (nvStore true [65, 74, 78, 86] c39Records 0).length
      ∧ (nvLive true nv1).filter (fun r => decide (r.id ≠ 7))
          = (liveRecords c39Records).filter (fun r => decide (r.id ≠ 7))
      ∧ (7 = 0 ∨ 16 = 0 → h = none ∧ nv1 = nvStore true [65, 74, 78, 86] c39Records 0)
      ∧ (true = false → h = none) :=
  C39_open_write_keeps_other_records true true [65, 74, 78, 86] c39Records 0 7 16
    (by unfold NVWellFormed; decide) (by decide)

/-! ## C40: the reserved ids -/

/-- C40: on the well-formed store with the records 7, tombstone, 9 and 12 erased
bytes, `AJ_NVRAM_Delete(0)` returns `AJ_OK` (it finds the tombstone),
`AJ_NVRAM_Delete(0xFFFF)` returns `AJ_OK` and writes the id 0 over the end-of-store
marker, after which `AJ_FindNVEntry(INVALID_DATA)` finds no end-of-store slot, and
`AJ_NVRAM_Open(0xFFFF, "r", 0)` returns a handle on the end-of-store slot. For an id
other than 0 and `0xFFFF` that no record of a well-formed store has, both calls
fail and leave the region as it is. -/
theorem C40_reserved_ids_accepted :
    AJ_NVRAM_Delete true (nvStore true [65, 74, 78, 86] nvExampleRecords 12) 0
      = (AJ_OK, nvStore true [65, 74, 78, 86] nvExampleRecords 12)
    ∧ AJ_NVRAM_Delete true (nvStore true [65, 74, 78, 86] nvExampleRecords 12) 65535
      = (AJ_OK, [65, 74, 78, 86, 7, 0, 4, 0, 1, 2, 3, 4, 0, 0, 4, 0, 9, 9, 9, 9,
          9, 0, 4, 0, 5, 6, 7, 8, 0, 0, 255, 255] ++ List.replicate 8 255)
    ∧ AJ_FindNVEntry true
        (AJ_NVRAM_Delete true (nvStore true [65, 74, 78, 86] nvExampleRecords 12) 65535).2
        INVALID_DATA = none
    ∧ AJ_NVRAM_Open true true (nvStore true [65, 74, 78, 86] nvExampleRecords 12) 65535
        [114, 0] 0
      = some (some { id := 65535, curPos := 0, mode := AJ_NV_DATASET_RD_ONLY, inode := 28 },
          nvStore true [65, 74, 78, 86] nvExampleRecords 12)
    ∧ (∀ (hostLE : Bool) (s : List Nat) (recs : List NVRecord) (t id c : Nat),
        NVWellFormed s recs t → id ≠ 0 → id ≠ 0xFFFF → (∀ x ∈ recs, x.id ≠ id) →
        AJ_NVRAM_Delete hostLE (nvStore hostLE s recs t) id
          = (AJ_ERR_FAILURE, nvStore hostLE s recs t)
        ∧ AJ_NVRAM_Open hostLE true (nvStore hostLE s recs t) id [114, 0] c
          = some (none, nvStore hostLE s recs t)) := by
  refine ⟨by decide, by decide, by decide, by decide, ?_⟩
  intro hostLE s recs t id c hwf hid0 hidF habs
  have hf := (AJ_NVRAM_Exist_absent hostLE s recs t id hwf hidF habs).1
  have hm : List.take (strlen [114, 0]) ([114, 0] : List Nat) = [114] := by decide
  constructor
  · unfold AJ_NVRAM_Delete
    rw [hf]
  · unfold AJ_NVRAM_Open
    rw [if_neg hid0]
    simp only [hm, hf]
    simp [AJ_NV_DATASET_RD_ONLY, AJ_NV_DATASET_WR_ONLY]

/-! ## C8: the status for a requested type that differs -/

/-- When `Unmarshal` returns OK the argument has the type identifier of the
signature, except for an array of scalars, which has the type identifier of its
elements. -/
theorem Unmarshal_typeId (hostLE : Bool) (bus : AJ_BusAttachment) (msg : AJ_Message)
    (sig : AJ_Ptr) (hok : (Unmarshal hostLE bus msg sig).1 = AJ_OK) :
    (Unmarshal hostLE bus msg sig).2.2.2.2.typeId = derefByte bus sig 0
    ∨ (derefByte bus sig 0 = AJ_ARG_ARRAY
        ∧ IsScalarType (derefByte bus (sig.add 1) 0) ≠ 0
        ∧ (Unmarshal hostLE bus msg sig).2.2.2.2.typeId = derefByte bus (sig.add 1) 0) := by
  unfold Unmarshal at hok ⊢
  simp only at hok ⊢
  split_ifs at hok ⊢ with h1 h2 h3 h4 h5 h6 h7 h8 h9
  all_goals first
    | exact absurd hok (by decide)
    | exact absurd hok (by assumption)
    | (left; rfl)
    | skip
  · -- array
    rename_i harr
    unfold UnmarshalArray at hok ⊢
    simp only at hok ⊢
    split_ifs at hok ⊢
    all_goals first
      | exact absurd hok (by decide)
      | exact absurd hok (by assumption)
      | (right; refine ⟨harr, by assumption, rfl⟩)
      | (left; exact harr.symm)

/-- A call of `AJ_UnmarshalArg` that returns OK was not made at the end of an
array. -/
theorem AJ_UnmarshalArg_ok_notExhausted (hostLE : Bool) (bus : AJ_BusAttachment)
    (msg : AJ_Message) (hok : (AJ_UnmarshalArg hostLE bus msg).1 = AJ_OK) :
    NotExhausted bus msg := by
  intro hv c rest ho hc hd
  simp [AJ_UnmarshalArg, hv, ho, hc, hd] at hok

/-- When `AJ_UnmarshalArg` returns OK the argument has the type identifier of the
next type of the signature, except for an array of scalars, which has the type
identifier of its elements. -/
theorem AJ_UnmarshalArg_typeId (hostLE : Bool) (bus : AJ_BusAttachment)
    (msg : AJ_Message) (hok : (AJ_UnmarshalArg hostLE bus msg).1 = AJ_OK) :
    (AJ_UnmarshalArg hostLE bus msg).2.2.2.typeId = derefByte bus (nextArgSig bus msg) 0
    ∨ (derefByte bus (nextArgSig bus msg) 0 = AJ_ARG_ARRAY
        ∧ IsScalarType (derefByte bus ((nextArgSig bus msg).add 1) 0) ≠ 0
        ∧ (AJ_UnmarshalArg hostLE bus msg).2.2.2.typeId
            = derefByte bus ((nextArgSig bus msg).add 1) 0) := by
  obtain ⟨v1, _, v3, _, _⟩ := AJ_UnmarshalArg_via hostLE bus msg
    (AJ_UnmarshalArg_ok_notExhausted hostLE bus msg hok)
  rw [v3]
  apply Unmarshal_typeId
  rw [v1] at hok
  split_ifs at hok
  exact hok

/-- C8 (amended): signature discipline, status. Whenever the requested types in
front of a requested basic type `c` have been matched (`AJ_UnmarshalArgs` on them
returns OK), the type `a` of the next actual argument (the character at the
signature cursor; a struct, a dictionary entry, a variant and an array are actual
arguments like any other) differs from `c`, the actual argument is not an array of
scalars of the type `c`, and `AJ_UnmarshalArg` unmarshals it with status OK,
`AJ_UnmarshalArgs` returns `AJ_ERR_UNMARSHAL`. In particular `ui` requested on a
message with the signature `iu` whose first argument is in the RX buffer and within
the body returns `AJ_ERR_UNMARSHAL`, for either byte order of host and message. -/
theorem C8_signature_mismatch_status :
    (∀ (hostLE : Bool) (pre post : List Nat) (c a : Nat) (bus : AJ_BusAttachment)
        (msg : AJ_Message),
      (∀ x ∈ pre, x ≠ 0) → IsBasicType c ≠ 0 →
      (AJ_UnmarshalArgs hostLE pre bus msg).1 = AJ_OK →
      derefByte (AJ_UnmarshalArgs hostLE pre bus msg).2.1
        (nextArgSig (AJ_UnmarshalArgs hostLE pre bus msg).2.1
          (AJ_UnmarshalArgs hostLE pre bus msg).2.2.1) 0 = a →
      c ≠ a →
      ¬ (a = AJ_ARG_ARRAY ∧ IsScalarType c ≠ 0
          ∧ derefByte (AJ_UnmarshalArgs hostLE pre bus msg).2.1
              ((nextArgSig (AJ_UnmarshalArgs hostLE pre bus msg).2.1
                (AJ_UnmarshalArgs hostLE pre bus msg).2.2.1).add 1) 0 = c) →
      (AJ_UnmarshalArg hostLE (AJ_UnmarshalArgs hostLE pre bus msg).2.1
        (AJ_UnmarshalArgs hostLE pre bus msg).2.2.1).1 = AJ_OK →
      (AJ_UnmarshalArgs hostLE (pre ++ c :: post) bus msg).1 = AJ_ERR_UNMARSHAL)
    ∧ (∀ (hostLE : Bool) (bus : AJ_BusAttachment) (msg : AJ_Message),
      msg.varOffset = 0 → msg.outer = [] →
      msg.signature = AJ_Ptr.mem [AJ_ARG_INT32, AJ_ARG_UINT32] 0 → msg.sigOffset = 0 →
      RxAvail bus (PadForType AJ_ARG_INT32 bus.rx + 4) →
      PadForType AJ_ARG_INT32 bus.rx + 4 ≤ msg.bodyBytes →
      (AJ_UnmarshalArgs hostLE [AJ_ARG_UINT32, AJ_ARG_INT32] bus msg).1 = AJ_ERR_UNMARSHAL) := by
  constructor
  · intro hostLE pre post c a bus msg hpre0 hcb hpre hact hdiff harr hok
    rw [AJ_UnmarshalArgs_append hostLE pre (c :: post) hpre0 bus msg hpre]
    have ht := AJ_UnmarshalArg_typeId hostLE _ _ hok
    rw [hact] at ht
    rw [AJ_UnmarshalArgs_mismatch hostLE c post _ _ hcb hok]
    rcases ht with ht | ⟨ha, hs, ht⟩
    · rw [ht]; exact Ne.symm hdiff
    · intro hc
      rw [ht] at hc
      exact harr ⟨ha, by rw [← hc]; exact hs, hc⟩
  · intro hostLE bus msg hvar houter hsig hoff havail hbody
    rw [AJ_UnmarshalArgs_ui_on_iu hostLE bus msg hvar houter hsig hoff havail hbody]

/-- C8, counterexample: two requests in which the requested type differs from the
type of the actual argument and the status is not `AJ_ERR_UNMARSHAL`. `ui` is
requested on a message with the signature `iu`, but the bytes of the body have not
arrived and `recv` times out: the failure of `AJ_UnmarshalArg` is handed on and
`AJ_UnmarshalArgs` returns `AJ_ERR_READ`. `y` is requested on a message with the
signature `ay` that holds an array of two bytes: `AJ_UnmarshalArg` reports the
array under the type identifier of its elements, and `AJ_UnmarshalArgs` returns
`AJ_OK` and stores the first element. -/
theorem C8_counterexample_other_status :
    (AJ_UnmarshalArgs true [AJ_ARG_UINT32, AJ_ARG_INT32] c8BusLate c8Msg).1 = AJ_ERR_READ
    ∧ derefByte c8BusArray (nextArgSig c8BusArray c8MsgArray) 0 = AJ_ARG_ARRAY
    ∧ AJ_ARG_BYTE ≠ AJ_ARG_ARRAY
    ∧ (AJ_UnmarshalArg true c8BusArray c8MsgArray).1 = AJ_OK
    ∧ (AJ_UnmarshalArgs true [AJ_ARG_BYTE] c8BusArray c8MsgArray).1 = AJ_OK
    ∧ (AJ_UnmarshalArgs true [AJ_ARG_BYTE] c8BusArray c8MsgArray).2.2.2
        = [AJ_OutVal.scalar [7]] := by
  decide

/-- C8, witness: `ui` requested on the message `iu` with the values 7 and 9 (the
general statement at the first requested type and the particular one), and `i`
requested on a message whose argument is a variant. -/
theorem C8_signature_mismatch_status_witness :
    (AJ_UnmarshalArgs true ([] ++ AJ_ARG_UINT32 :: [AJ_ARG_INT32]) c8Bus c8Msg).1
        = AJ_ERR_UNMARSHAL
    ∧ (AJ_UnmarshalArgs true [AJ_ARG_UINT32, AJ_ARG_INT32] c8Bus c8Msg).1 = AJ_ERR_UNMARSHAL
    ∧ (AJ_UnmarshalArgs true ([] ++ AJ_ARG_INT32 :: []) c8BusVariant c8MsgVariant).1
        = AJ_ERR_UNMARSHAL :=
  ⟨C8_signature_mismatch_status.1 true [] [AJ_ARG_INT32] AJ_ARG_UINT32 AJ_ARG_INT32 c8Bus c8Msg
      (by intro x hx; cases hx) (by decide) (by decide)
      (by decide) (by decide) (by decide) (by decide),
    C8_signature_mismatch_status.2 true c8Bus c8Msg (by decide) (by decide) (by decide)
      (by decide) (by unfold RxAvail; decide) (by decide),
    C8_signature_mismatch_status.1 true [] [] AJ_ARG_INT32 AJ_ARG_VARIANT c8BusVariant
      c8MsgVariant (by intro x hx; cases hx) (by decide) (by decide)
      (by decide) (by decide) (by decide) (by decide)⟩

/-! ## C19: the members unmarshalled and the check on closing -/

theorem length_memRead (bus : AJ_BusAttachment) (p : AJ_Ptr) (n : Nat) :
    (memRead bus p n).length = n := by
  simp [memRead]

/-- When the header pointer is valid and `WriteBytes` returns OK, it has put the
pad bytes 0 and the bytes of `data` into the TX buffer at the write cursor. -/
theorem WriteBytes_ok_eq (bus : AJ_BusAttachment) (msg : AJ_Message) (data : AJ_Ptr)
    (numBytes pad : Nat) (hhdr : msg.hdr ≠ AJ_HdrPtr.null) (hwf : TxWF bus)
    (hok : (WriteBytes bus msg data numBytes pad).1 = AJ_OK) :
    (WriteBytes bus msg data numBytes pad).2
        = txAppend bus (List.replicate pad 0
            ++ memRead (txAppend bus (List.replicate pad 0)) data numBytes)
    ∧ TxRoom bus (pad + numBytes) := by
  obtain ⟨hroom, hnull⟩ := WriteBytes_ok_room bus msg data numBytes pad hhdr hwf hok
  rw [WriteBytes_fit_gen bus msg data numBytes pad hnull hroom]
  exact ⟨rfl, hroom⟩

theorem WritePad_ok_eq (bus : AJ_BusAttachment) (msg : AJ_Message) (pad : Nat)
    (hhdr : msg.hdr ≠ AJ_HdrPtr.null) (hwf : TxWF bus)
    (hok : (WriteBytes bus msg AJ_Ptr.null 0 pad).1 = AJ_OK) :
    (WriteBytes bus msg AJ_Ptr.null 0 pad).2 = txAppend bus (List.replicate pad 0)
    ∧ TxRoom bus pad := by
  obtain ⟨h1, h2⟩ := WriteBytes_ok_eq bus msg AJ_Ptr.null 0 pad hhdr hwf hok
  rw [h1, memRead_zero, List.append_nil]
  exact ⟨rfl, h2⟩

theorem memRead_u32 (hostLE : Bool) (b : AJ_BusAttachment) (v : Nat) :
    memRead b (AJ_Ptr.mem (u32Bytes hostLE v) 0) 4 = u32Bytes hostLE v := by
  have := memRead_mem b (u32Bytes hostLE v)
  rwa [length_u32Bytes] at this

theorem memRead_one (b : AJ_BusAttachment) (v : Nat) :
    memRead b (AJ_Ptr.mem [v] 0) 1 = [v] := memRead_mem b [v]

theorem aligned_scalars (off pad size i : Nat) (h : (off + pad) % size = 0) :
    (off + pad + i * size) % size = 0 := by
  rw [Nat.add_mul_mod_self_right]; exact h

theorem PadForType_tx (t : Nat) (bus : AJ_BusAttachment) (ha : IsAlign (ALIGNMENT t))
    (hdir : bus.tx.direction = AJ_IO_BUF_TX) :
    (bus.tx.writePtr + PadForType t bus.tx) % ALIGNMENT t = 0 :=
  (PadForType_spec t bus.tx ha bus.tx.writePtr (by rw [hdir]; rfl)).2.1

theorem string_alignment (t : Nat) (h : TYPE_FLAG t &&& (AJ_STRING ||| AJ_VARIANT) ≠ 0) :
    ALIGNMENT t = 1 ∨ ALIGNMENT t = 4 := by
  rcases TYPE_FLAG_cases t with h0 | h96 | hw
  · rw [h0] at h; exact absurd rfl h
  · subst h96; exact absurd (by decide) h
  · simp only [wireTypes, List.mem_cons, List.mem_singleton, List.not_mem_nil, or_false] at hw
    rcases hw with rfl | rfl | rfl | rfl | rfl | rfl | rfl | rfl | rfl | rfl | rfl | rfl | rfl
      | rfl | rfl | rfl | rfl <;> first | exact absurd (by decide) h | decide

theorem AJ_Ptr.add_sub_one (p : AJ_Ptr) : (p.add 1).sub 1 = p := by
  cases p <;> simp [AJ_Ptr.add, AJ_Ptr.sub]

/-- The writes of `Marshal`: when the header pointer is valid and `Marshal` returns
OK, the TX buffer holds behind the old write cursor the bytes of `marshalWrites`,
and every scalar value among them is aligned to its size. -/
theorem Marshal_writes (hostLE : Bool) (bus : AJ_BusAttachment) (msg : AJ_Message)
    (sig : AJ_Ptr) (arg : AJ_Arg) (hhdr : msg.hdr ≠ AJ_HdrPtr.null) (hwf : TxWF bus)
    (hdir : bus.tx.direction = AJ_IO_BUF_TX)
    (hok : (Marshal hostLE bus msg sig arg).1 = AJ_OK) :
    ∃ elem : Nat,
      (Marshal hostLE bus msg sig arg).2.1
        = txAppend bus (wireWriteBytes (marshalWrites hostLE bus elem arg))
      ∧ WireAligned bus.tx.writePtr (marshalWrites hostLE bus elem arg)
      ∧ ∀ w ∈ marshalWrites hostLE bus elem arg, IsAlign w.size := by
  have one : IsAlign 1 := Or.inl rfl
  have four : IsAlign 4 := Or.inr (Or.inr (Or.inl rfl))
  by_cases hs : IsScalarType arg.typeId ≠ 0
  · have hal := align_of_scalar arg.typeId hs
    by_cases hf : arg.flags &&& AJ_ARRAY_FLAG ≠ 0
    · by_cases hc : derefByte bus sig 0 ≠ AJ_ARG_ARRAY ∨ derefByte bus (sig.add 1) 0 ≠ arg.typeId
      · simp only [Marshal, hs, hf, hc, ne_eq, not_false_eq_true, if_true, if_false] at hok
        exact absurd hok (by decide)
      · have hc1 : derefByte bus sig 0 = AJ_ARG_ARRAY := by
          by_contra h; exact hc (Or.inl h)
        have hc2 : derefByte bus (sig.add 1) 0 = arg.typeId := by
          by_contra h; exact hc (Or.inr h)
        simp only [Marshal, hs, hf, hc1, hc2, ne_eq, not_true_eq_false, or_self,
          not_false_eq_true, if_true, if_false] at hok ⊢
        by_cases h1 : (WriteBytes bus msg (AJ_Ptr.mem (u32Bytes hostLE arg.len) 0) 4
            (PadForType AJ_ARG_ARRAY bus.tx)).1 = AJ_OK
        · obtain ⟨e1, room1⟩ := WriteBytes_ok_eq bus msg _ 4 _ hhdr hwf h1
          rw [memRead_u32] at e1
          simp only [h1, if_true] at hok ⊢
          rw [e1] at hok ⊢
          have hl : (List.replicate (PadForType AJ_ARG_ARRAY bus.tx) 0
              ++ u32Bytes hostLE arg.len).length = PadForType AJ_ARG_ARRAY bus.tx + 4 := by
            rw [List.length_append, List.length_replicate, length_u32Bytes]
          have wf1 : TxWF (txAppend bus (List.replicate (PadForType AJ_ARG_ARRAY bus.tx) 0
              ++ u32Bytes hostLE arg.len)) :=
            TxRoom_txAppend (by rw [hl]; exact room1)
          obtain ⟨e2, _⟩ := WriteBytes_ok_eq _ msg arg.val arg.len _ hhdr wf1 hok
          refine ⟨0, ?_, ?_, ?_⟩
          · rw [e2, txAppend_txAppend bus _ _ (by rw [hl]; exact room1)]
            simp only [marshalWrites, hs, hf, ne_eq, not_false_eq_true, if_true, wireWriteBytes,
              List.append_nil, List.append_assoc]
          · simp only [marshalWrites, hs, hf, ne_eq, not_false_eq_true, if_true, WireAligned,
              and_true]
            refine ⟨fun i _ => aligned_scalars _ _ _ i
              (PadForType_tx AJ_ARG_ARRAY bus (by unfold IsAlign; decide) hdir), ?_⟩
            intro i _
            apply aligned_scalars
            have := PadForType_tx arg.typeId _ hal
              (show (txAppend bus (List.replicate (PadForType AJ_ARG_ARRAY bus.tx) 0
                ++ u32Bytes hostLE arg.len)).tx.direction = AJ_IO_BUF_TX from hdir)
            rw [txAppend_writePtr, hl] at this
            rw [length_u32Bytes]
            rw [← Nat.add_assoc] at this
            exact this
          · simp only [marshalWrites, hs, hf, ne_eq, not_false_eq_true, if_true, List.mem_cons,
              List.mem_singleton, List.not_mem_nil, or_false]
            rintro w (rfl | rfl)
            · exact four
            · exact hal
        · simp only [h1, if_false] at hok
    · by_cases hc : derefByte bus sig 0 ≠ arg.typeId
      · simp only [Marshal, hs, hf, hc, ne_eq, not_false_eq_true, if_true, if_false] at hok
        exact absurd hok (by decide)
      · have hc1 : derefByte bus sig 0 = arg.typeId := by
          by_contra h; exact hc h
        simp only [Marshal, hs, hf, hc1, ne_eq, not_false_eq_true, not_true_eq_false, if_true,
          if_false] at hok ⊢
        obtain ⟨e1, _⟩ := WriteBytes_ok_eq bus msg _ _ _ hhdr hwf hok
        refine ⟨0, ?_, ?_, ?_⟩
        · rw [e1]
          simp only [marshalWrites, hs, hf, ne_eq, not_false_eq_true, if_true, if_false,
            wireWriteBytes, List.append_nil]
        · simp only [marshalWrites, hs, hf, ne_eq, not_false_eq_true, if_true, if_false,
            WireAligned, and_true]
          exact fun i _ => aligned_scalars _ _ _ i (PadForType_tx arg.typeId bus hal hdir)
        · simp only [marshalWrites, hs, hf, ne_eq, not_false_eq_true, if_true, if_false,
            List.mem_singleton]
          rintro w rfl
          exact hal
  · by_cases hstr : TYPE_FLAG (derefByte bus sig 0) &&& (AJ_STRING ||| AJ_VARIANT) ≠ 0
    · by_cases hc : derefByte bus sig 0 ≠ arg.typeId
      · simp only [Marshal, hs, hstr, hc, ne_eq, not_false_eq_true, if_true, if_false] at hok
        exact absurd hok (by decide)
      · have hc1 : derefByte bus sig 0 = arg.typeId := by
          by_contra h; exact hc h
        rw [hc1] at hstr
        have hal := align_of_flag arg.typeId (by
          intro h0; rw [h0] at hstr; exact hstr rfl)
        simp only [Marshal, hs, hstr, hc1, ne_eq, not_false_eq_true, not_true_eq_false, if_true,
          if_false, WritePad] at hok ⊢
        simp only [marshalWrites, hs, hstr, ne_eq, not_false_eq_true, not_true_eq_false, if_true,
          if_false]
        generalize (if ¬arg.len = 0 then arg.len else strlen (derefFrom bus arg.val)) = sz
          at hok ⊢
        by_cases h255 : ALIGNMENT arg.typeId = 1 ∧ sz > 255
        · simp only [h255, and_self, if_true] at hok
          exact absurd hok (by decide)
        · simp only [h255, if_false] at hok ⊢
          have key : ∀ (d1 : AJ_Ptr) (n1 : Nat) (v1 : List Nat) (s1 : Nat),
              (∀ b, memRead b d1 n1 = v1) → v1.length = n1 → IsAlign s1 →
              (bus.tx.writePtr + PadForType arg.typeId bus.tx) % s1 = 0 →
              (WriteBytes bus msg d1 n1 (PadForType arg.typeId bus.tx)).1 = AJ_OK →
              (if (WriteBytes (WriteBytes bus msg d1 n1 (PadForType arg.typeId bus.tx)).2
                    msg arg.val sz 0).1 = AJ_OK then
                  WriteBytes (WriteBytes (WriteBytes bus msg d1 n1
                    (PadForType arg.typeId bus.tx)).2 msg arg.val sz 0).2 msg AJ_Ptr.null 0 1
                else WriteBytes (WriteBytes bus msg d1 n1 (PadForType arg.typeId bus.tx)).2
                    msg arg.val sz 0).1 = AJ_OK →
              (if (WriteBytes (WriteBytes bus msg d1 n1 (PadForType arg.typeId bus.tx)).2
                    msg arg.val sz 0).1 = AJ_OK then
                  WriteBytes (WriteBytes (WriteBytes bus msg d1 n1
                    (PadForType arg.typeId bus.tx)).2 msg arg.val sz 0).2 msg AJ_Ptr.null 0 1
                else WriteBytes (WriteBytes bus msg d1 n1 (PadForType arg.typeId bus.tx)).2
                    msg arg.val sz 0).2
                = txAppend bus (wireWriteBytes
                    [{ pad := PadForType arg.typeId bus.tx, size := s1, value := v1 },
                     { pad := 0, size := 1,
                       value := memRead (txAppend bus
                         (List.replicate (PadForType arg.typeId bus.tx) 0 ++ v1)) arg.val sz },
                     { pad := 1, size := 1, value := [] }])
              ∧ WireAligned bus.tx.writePtr
                  [{ pad := PadForType arg.typeId bus.tx, size := s1, value := v1 },
                   { pad := 0, size := 1,
                     value := memRead (txAppend bus
                       (List.replicate (PadForType arg.typeId bus.tx) 0 ++ v1)) arg.val sz },
                   { pad := 1, size := 1, value := [] }]
              ∧ ∀ w ∈ ([{ pad := PadForType arg.typeId bus.tx, size := s1, value := v1 },
                   { pad := 0, size := 1,
                     value := memRead (txAppend bus
                       (List.replicate (PadForType arg.typeId bus.tx) 0 ++ v1)) arg.val sz },
                   { pad := 1, size := 1, value := [] }] : List WireWrite), IsAlign w.size := by
            intro d1 n1 v1 s1 hv hvl hs1 hmod h1 hk
            obtain ⟨e1, room1⟩ := WriteBytes_ok_eq bus msg d1 n1 _ hhdr hwf h1
            rw [hv] at e1
            rw [e1] at hk ⊢
            have hl : (List.replicate (PadForType arg.typeId bus.tx) 0 ++ v1).length
                = PadForType arg.typeId bus.tx + n1 := by
              rw [List.length_append, List.length_replicate, hvl]
            have wf1 : TxWF (txAppend bus
                (List.replicate (PadForType arg.typeId bus.tx) 0 ++ v1)) :=
              TxRoom_txAppend (by rw [hl]; exact room1)
            by_cases h2 : (WriteBytes (txAppend bus
                (List.replicate (PadForType arg.typeId bus.tx) 0 ++ v1)) msg arg.val sz 0).1
                = AJ_OK
            · simp only [h2, if_true] at hk ⊢
              obtain ⟨e2, room2⟩ := WriteBytes_ok_eq _ msg arg.val sz 0 hhdr wf1 h2
              simp only [List.replicate_zero, List.nil_append, txAppend_nil _ wf1] at e2
              rw [e2] at hk ⊢
              have room2a : TxRoom (txAppend bus
                  (List.replicate (PadForType arg.typeId bus.tx) 0 ++ v1))
                  ((memRead (txAppend bus
                    (List.replicate (PadForType arg.typeId bus.tx) 0 ++ v1)) arg.val sz).length
                    + 0) := by
                rw [length_memRead, Nat.add_zero]
                rw [Nat.zero_add] at room2
                exact room2
              have wf2 : TxWF (txAppend (txAppend bus
                  (List.replicate (PadForType arg.typeId bus.tx) 0 ++ v1))
                  (memRead (txAppend bus
                    (List.replicate (PadForType arg.typeId bus.tx) 0 ++ v1)) arg.val sz)) :=
                TxRoom_txAppend room2a
              obtain ⟨e3, _⟩ := WritePad_ok_eq _ msg 1 hhdr wf2 hk
              refine ⟨?_, ?_, ?_⟩
              · rw [e3, txAppend_txAppend _ _ _ (by rw [Nat.add_zero] at room2a; exact room2a),
                  txAppend_txAppend bus _ _ (by rw [hl]; exact room1)]
                simp only [wireWriteBytes, List.replicate_zero, List.nil_append,
                  List.append_nil, List.append_assoc]
              · simp only [WireAligned, and_true]
                refine ⟨fun i _ => aligned_scalars _ _ _ i hmod, ?_, ?_⟩
                · intro i _; exact Nat.mod_one _
                · intro i _; exact Nat.mod_one _
              · simp only [List.mem_cons, List.mem_singleton, List.not_mem_nil, or_false]
                rintro w (rfl | rfl | rfl)
                · exact hs1
                · exact one
                · exact one
            · simp only [h2, if_false] at hk
          by_cases h1 : ALIGNMENT arg.typeId = 1
          · simp only [h1, if_true] at hok ⊢
            by_cases hw : (WriteBytes bus msg (AJ_Ptr.mem [sz % 256] 0) 1
                (PadForType arg.typeId bus.tx)).1 = AJ_OK
            · simp only [hw, if_true] at hok ⊢
              exact ⟨0, key (AJ_Ptr.mem [sz % 256] 0) 1 [sz % 256] 1 (fun b => memRead_one b _)
                rfl one (Nat.mod_one _) hw hok⟩
            · simp only [hw, if_false] at hok
          · simp only [h1, if_false] at hok ⊢
            have h4 : ALIGNMENT arg.typeId = 4 := by
              rcases string_alignment arg.typeId hstr with h | h
              · exact absurd h h1
              · exact h
            have hm := PadForType_tx arg.typeId bus hal hdir
            rw [h4] at hm
            by_cases hw : (WriteBytes bus msg (AJ_Ptr.mem (u32Bytes hostLE sz) 0) 4
                (PadForType arg.typeId bus.tx)).1 = AJ_OK
            · simp only [hw, if_true] at hok ⊢
              exact ⟨0, key (AJ_Ptr.mem (u32Bytes hostLE sz) 0) 4 (u32Bytes hostLE sz) 4
                (fun b => memRead_u32 hostLE b sz) (length_u32Bytes hostLE sz) four hm hw hok⟩
            · simp only [hw, if_false] at hok
    · by_cases hcont : TYPE_FLAG (derefByte bus sig 0) &&& AJ_CONTAINER ≠ 0
      · by_cases hc : derefByte bus sig 0 ≠ arg.typeId
        · simp only [Marshal, hs, hstr, hcont, hc, ne_eq, not_false_eq_true, if_true, if_false]
            at hok
          exact absurd hok (by decide)
        · have hc1 : derefByte bus sig 0 = arg.typeId := by
            by_contra h; exact hc h
          rw [hc1] at hstr hcont
          simp only [Marshal, hs, hstr, hcont, hc1, ne_eq, not_false_eq_true, not_true_eq_false,
            if_true, if_false, MarshalContainer, WritePad, AJ_Ptr.add_sub_one] at hok ⊢
          simp only [marshalWrites, hs, hstr, ne_eq, not_false_eq_true, not_true_eq_false,
            if_true, if_false]
          by_cases harr : arg.typeId = AJ_ARG_ARRAY
          · simp only [harr, if_true] at hok ⊢
            by_cases h1 : (WriteBytes bus msg AJ_Ptr.null 0
                (PadForType AJ_ARG_ARRAY bus.tx + 4)).1 = AJ_OK
            · simp only [h1, if_true] at hok ⊢
              obtain ⟨e1, room1⟩ := WritePad_ok_eq bus msg _ hhdr hwf h1
              rw [e1] at hok ⊢
              have wf1 : TxWF (txAppend bus
                  (List.replicate (PadForType AJ_ARG_ARRAY bus.tx + 4) 0)) :=
                TxRoom_txAppend (by rw [List.length_replicate]; exact room1)
              obtain ⟨e2, _⟩ := WritePad_ok_eq _ msg _ hhdr wf1 hok
              refine ⟨derefByte (txAppend bus
                (List.replicate (PadForType AJ_ARG_ARRAY bus.tx + 4) 0)) (sig.add 1) 0, ?_, ?_, ?_⟩
              · rw [e2, txAppend_txAppend bus _ _ (by rw [List.length_replicate]; exact room1)]
                simp only [wireWriteBytes, List.append_nil]
              · simp only [WireAligned, and_true]
                exact ⟨fun i _ => Nat.mod_one _, fun i _ => Nat.mod_one _⟩
              · simp only [List.mem_cons, List.mem_singleton, List.not_mem_nil, or_false]
                rintro w (rfl | rfl)
                · exact one
                · exact one
            · simp only [h1, if_false] at hok
          · simp only [harr, if_false] at hok ⊢
            obtain ⟨e1, _⟩ := WritePad_ok_eq bus msg _ hhdr hwf hok
            refine ⟨0, ?_, ?_, ?_⟩
            · rw [e1]
              simp only [wireWriteBytes, List.append_nil]
            · simp only [WireAligned, and_true]
              exact fun i _ => Nat.mod_one _
            · simp only [List.mem_singleton]
              rintro w rfl
              exact one
      · simp only [Marshal, hs, hstr, hcont, ne_eq, not_false_eq_true, if_true, if_false] at hok
        exact absurd hok (by decide)

/-- C4: alignment invariant. `PadForType(t, buf)` is the smallest `p` below the
alignment of `t` for which the cursor (the read cursor of an RX buffer, the
write cursor of a TX buffer) plus `p` is a multiple of the alignment. And in
every sequence of calls of `AJ_MarshalArg` that all return OK while the header
pointer is valid, a call for a scalar argument puts into the TX buffer, from the
write cursor on, `PadForType` bytes 0 and then the bytes of the scalar, which so
start at an offset from the buffer start that is a multiple of the size of the
scalar (1, 2, 4 or 8). And a call for any argument (a scalar, an array of
scalars, a string, a signature, a variant, a container) puts into the TX buffer,
from the write cursor on, the bytes of the writes `marshalWrites`, in which every
pad byte is 0 (`wireWriteBytes`), every scalar value (the fields of lengths, the
elements of an array, the characters) lies at an offset from the buffer start that
is a multiple of its size (`WireAligned`), and every size is 1, 2, 4 or 8. -/
theorem C4_alignment_invariant :
    (∀ (t : Nat) (ioBuf : AJ_IOBuffer), TYPE_FLAG t ≠ 0 →
      PadForType t ioBuf < ALIGNMENT t
      ∧ ((if ioBuf.direction = AJ_IO_BUF_RX then ioBuf.readPtr else ioBuf.writePtr)
          + PadForType t ioBuf) % ALIGNMENT t = 0
      ∧ ∀ p, p < PadForType t ioBuf →
          ((if ioBuf.direction = AJ_IO_BUF_RX then ioBuf.readPtr else ioBuf.writePtr) + p)
            % ALIGNMENT t ≠ 0)
    ∧ (∀ (hostLE : Bool) (bus : AJ_BusAttachment) (msg : AJ_Message) (pre : List AJ_Arg)
        (arg : AJ_Arg),
      msg.hdr ≠ AJ_HdrPtr.null → TxWF bus → bus.tx.direction = AJ_IO_BUF_TX →
      IsScalarType arg.typeId ≠ 0 → arg.flags &&& AJ_ARRAY_FLAG = 0 →
      (AJ_MarshalArgSeq hostLE (pre ++ [arg]) bus msg).1 = AJ_OK →
      (AJ_MarshalArgSeq hostLE (pre ++ [arg]) bus msg).2.1
        = txAppend (AJ_MarshalArgSeq hostLE pre bus msg).2.1
            (List.replicate (PadForType arg.typeId (AJ_MarshalArgSeq hostLE pre bus msg).2.1.tx) 0
              ++ memRead
                (txAppend (AJ_MarshalArgSeq hostLE pre bus msg).2.1
                  (List.replicate
                    (PadForType arg.typeId (AJ_MarshalArgSeq hostLE pre bus msg).2.1.tx) 0))
                arg.val (SizeOfType arg.typeId))
      ∧ ((AJ_MarshalArgSeq hostLE pre bus msg).2.1.tx.writePtr
          + PadForType arg.typeId (AJ_MarshalArgSeq hostLE pre bus msg).2.1.tx)
          % SizeOfType arg.typeId = 0
      ∧ (SizeOfType arg.typeId = 1 ∨ SizeOfType arg.typeId = 2 ∨ SizeOfType arg.typeId = 4
          ∨ SizeOfType arg.typeId = 8))
    ∧ (∀ (hostLE : Bool) (bus : AJ_BusAttachment) (msg : AJ_Message) (pre : List AJ_Arg)
        (arg : AJ_Arg),
      msg.hdr ≠ AJ_HdrPtr.null → TxWF bus → bus.tx.direction = AJ_IO_BUF_TX →
      (AJ_MarshalArgSeq hostLE (pre ++ [arg]) bus msg).1 = AJ_OK →
      ∃ elem : Nat,
        (AJ_MarshalArgSeq hostLE (pre ++ [arg]) bus msg).2.1
          = txAppend (AJ_MarshalArgSeq hostLE pre bus msg).2.1
              (wireWriteBytes
                (marshalWrites hostLE (AJ_MarshalArgSeq hostLE pre bus msg).2.1 elem arg))
        ∧ WireAligned (AJ_MarshalArgSeq hostLE pre bus msg).2.1.tx.writePtr
            (marshalWrites hostLE (AJ_MarshalArgSeq hostLE pre bus msg).2.1 elem arg)
        ∧ ∀ w ∈ marshalWrites hostLE (AJ_MarshalArgSeq hostLE pre bus msg).2.1 elem arg,
            w.size = 1 ∨ w.size = 2 ∨ w.size = 4 ∨ w.size = 8) := by
  refine ⟨?_, ?_, ?_⟩
  · intro t ioBuf ht
    exact PadForType_spec t ioBuf (align_of_flag t ht) _ rfl
  · intro hostLE bus msg pre arg hhdr hwf hdir hs hf hok
    obtain ⟨hpre, hcall, hbus⟩ := AJ_MarshalArgSeq_snoc hostLE pre arg bus msg hok
    obtain ⟨hstep, hhdr1⟩ := AJ_MarshalArgSeq_ok_step hostLE pre bus msg hhdr hwf hpre
    obtain ⟨m, sig, hm, hmh, hmb, _⟩ := AJ_MarshalArg_bus hostLE _ _ arg hcall
    have hal := align_of_scalar arg.typeId hs
    refine ⟨?_, ?_, hal⟩
    · rw [hbus, hmb]
      exact Marshal_scalar_ok hostLE _ m sig arg (by rw [hmh, hhdr1]; exact hhdr) hstep.1 hs hf hm
    · have := (PadForType_spec arg.typeId (AJ_MarshalArgSeq hostLE pre bus msg).2.1.tx hal
        (AJ_MarshalArgSeq hostLE pre bus msg).2.1.tx.writePtr
        (by rw [hstep.2.2.1, hdir]; rfl)).2.1
      exact this
  · intro hostLE bus msg pre arg hhdr hwf hdir hok
    obtain ⟨hpre, hcall, hbus⟩ := AJ_MarshalArgSeq_snoc hostLE pre arg bus msg hok
    obtain ⟨hstep, hhdr1⟩ := AJ_MarshalArgSeq_ok_step hostLE pre bus msg hhdr hwf hpre
    obtain ⟨m, sig, hm, hmh, hmb, _⟩ := AJ_MarshalArg_bus hostLE _ _ arg hcall
    obtain ⟨elem, w1, w2, w3⟩ := Marshal_writes hostLE _ m sig arg
      (by rw [hmh, hhdr1]; exact hhdr) hstep.1 (by rw [hstep.2.2.1, hdir]) hm
    exact ⟨elem, by rw [hbus, hmb, w1], w2, w3⟩

/-- C4, witness: a byte marshalled at offset 17 and then a 32-bit integer, which is
put at offset 20 behind two bytes 0; and an array of one 64-bit integer marshalled
at offset 13: three bytes 0, the length 8 at offset 16, four bytes 0, the element
at offset 24. -/
theorem C4_alignment_invariant_witness :
    (AJ_MarshalArgSeq true
        ([InitArg AJ_ARG_BYTE (AJ_Ptr.mem [7] 0)] ++ [InitArg AJ_ARG_UINT32 (AJ_Ptr.mem [1, 2, 3, 4] 0)])
        c4Bus c4Msg).2.1.tx.data
      = List.replicate 17 170 ++ [7, 0, 0, 1, 2, 3, 4] ++ List.replicate 8 170
    ∧ (AJ_MarshalArgSeq true ([] ++ [c4ArgArray]) c4BusArray c4MsgArray).1 = AJ_OK
    ∧ (AJ_MarshalArgSeq true ([] ++ [c4ArgArray]) c4BusArray c4MsgArray).2.1.tx.data
      = List.replicate 13 170 ++ [0, 0, 0, 8, 0, 0, 0, 0, 0, 0, 0, 1, 2, 3, 4, 5, 6, 7, 8]
    ∧ (∃ elem : Nat,
        wireWriteBytes (marshalWrites true c4BusArray elem c4ArgArray)
          = [0, 0, 0, 8, 0, 0, 0, 0, 0, 0, 0, 1, 2, 3, 4, 5, 6, 7, 8]
        ∧ WireAligned 13 (marshalWrites true c4BusArray elem c4ArgArray)) := by
  have h := C4_alignment_invariant.2.1 true c4Bus c4Msg [InitArg AJ_ARG_BYTE (AJ_Ptr.mem [7] 0)]
    (InitArg AJ_ARG_UINT32 (AJ_Ptr.mem [1, 2, 3, 4] 0)) (by decide) (by unfold TxWF TxRoom; decide)
    (by decide) (by decide) (by decide) (by decide)
  obtain ⟨elem, g1, g2, _⟩ := C4_alignment_invariant.2.2 true c4BusArray c4MsgArray []
    c4ArgArray (by decide) (by unfold TxWF TxRoom; decide) (by decide) (by decide)
  refine ⟨?_, by decide, by decide, elem, ?_, g2⟩
  · rw [h.1]
    decide
  · rfl

end AJ
